import Mathlib

/-!
# Loomiere: MP4 pseudo-streaming parser and splicer

A shallow embedding of `src/core.c` (big-endian codec) and `src/stream_mp4.c`
(atom parser, seek compiler, splicer, head emitter, cache protocol).

Conventions of the embedding.

* A buffer is a sequence of bytes, kept as its length and its content read as
  one numeral in base 256 (byte `p` is digit `p`), so that a byte access is
  one shift. A C pointer into a buffer is the offset of the pointed byte
  inside that buffer; the buffer itself is passed explicitly (the `moov` blob
  is threaded through every function that writes to it). Bytes past the end
  of a buffer read as `0`, stores past the end are dropped.
* `uint32_t` / `uint64_t` arithmetic is arithmetic on `Nat` reduced modulo
  `2 ^ 32` / `2 ^ 64` at every place where the C expression is evaluated in
  that type.
* Loops that the C code does not bound are given a fuel argument; `none`
  stands for "fuel exhausted".
* `double` values (`stream.start`, `stream.stop`, `stream.period`) are
  idealised as exact rationals.
-/

namespace Loomiere

/-! ## Machine arithmetic -/

/-- Reduction to `uint32_t`. -/
def w32 (x : Nat) : Nat := x % 2 ^ 32

/-- Reduction to `uint64_t`. -/
def w64 (x : Nat) : Nat := x % 2 ^ 64

/-- Subtraction `a - b` evaluated in `uint32_t`. -/
def sub32 (a b : Nat) : Nat := (a % 2 ^ 32 + (2 ^ 32 - b % 2 ^ 32)) % 2 ^ 32

/-- Subtraction `a - b` evaluated in `uint64_t`. -/
def sub64 (a b : Nat) : Nat := (a % 2 ^ 64 + (2 ^ 64 - b % 2 ^ 64)) % 2 ^ 64

/-- The macro `MIN(a, b)` of `core.h`. -/
def MIN (a b : Nat) : Nat := if a < b then a else b

/-- The macro `MAX(a, b)` of `core.h`. -/
def MAX (a b : Nat) : Nat := if a > b then a else b

/-! ## Big-endian codec (`core.c`) -/

/-- A byte buffer of `size` bytes; byte `p` is digit `p` of `bits` in base
256. -/
structure Mem where
  size : Nat := 0
  bits : Nat := 0
deriving DecidableEq, Repr

/-- The buffer holding the bytes of a list (each reduced to a `uint8_t`). -/
def Mem.of_list (l : List Nat) : Mem :=
  ⟨l.length, l.foldr (fun b acc => b % 256 + 256 * acc) 0⟩

/-- A buffer of `n` zero bytes. -/
def Mem.zero (n : Nat) : Mem := ⟨n, 0⟩

/-- The byte `buffer[p]` as a `uint8_t`. -/
def byte_at (buffer : Mem) (p : Nat) : Nat :=
  if p < buffer.size then (buffer.bits >>> (8 * p)) % 256 else 0

/-- The assignment `buffer[p] = b`: the bits in which the old and the new byte
differ are flipped. -/
def store (buffer : Mem) (p b : Nat) : Mem :=
  if p < buffer.size then
    { buffer with bits := buffer.bits ^^^ ((byte_at buffer p ^^^ (b % 256)) <<< (8 * p)) }
  else buffer

/-- The bytes of a buffer, as a list. -/
def Mem.to_list (buffer : Mem) : List Nat := (List.range buffer.size).map (byte_at buffer)

/-- The `n` bytes starting at `buffer[p]` (zero past the end of the buffer). -/
def Mem.slice (buffer : Mem) (p n : Nat) : Mem :=
  ⟨n, ((buffer.bits % 2 ^ (8 * buffer.size)) >>> (8 * p)) % 2 ^ (8 * n)⟩

/-- Concatenation of two buffers. -/
def Mem.append (a b : Mem) : Mem :=
  ⟨a.size + b.size, a.bits % 2 ^ (8 * a.size) + ((b.bits % 2 ^ (8 * b.size)) <<< (8 * a.size))⟩

/-- A packed array of `off_t` values (8 bytes each, native byte order). -/
def pack_off_t (l : List Nat) : Mem :=
  ⟨8 * l.length, l.foldr (fun x acc => x % 2 ^ 64 + 2 ^ 64 * acc) 0⟩

/-- The `off_t` values of a packed array of `size / sizeof(off_t)` elements. -/
def unpack_off_t (m : Mem) : List Nat :=
  (List.range (m.size / 8)).map (fun i => ((m.bits % 2 ^ (8 * m.size)) >>> (64 * i)) % 2 ^ 64)

/-- Function `read_xx(buffer + p, bits)`: the loop ORs `buffer[i] << bits` for
`i < bits >> 3`, with `bits` starting at `bits - 8` and decreasing by 8. -/
def read_xx (buffer : Mem) (p : Nat) (bits : Nat) : Nat :=
  (List.range (bits >>> 3)).foldl
    (fun result i => result ||| (byte_at buffer (p + i) <<< (bits - 8 - 8 * i))) 0

/-- Function `write_xx(buffer + p, value, bits)`: stores `value >> bits` truncated
to a byte at `buffer[i]` for `i < bits >> 3`. -/
def write_xx (buffer : Mem) (p : Nat) (value : Nat) (bits : Nat) : Mem :=
  (List.range (bits >>> 3)).foldl
    (fun buf i => store buf (p + i) ((w64 value >>> (bits - 8 - 8 * i)) % 256)) buffer

/-- Macro `read_24`. -/
def read_24 (buffer : Mem) (p : Nat) : Nat := read_xx buffer p 24

/-- Macro `read_32`. -/
def read_32 (buffer : Mem) (p : Nat) : Nat := read_xx buffer p 32

/-- Macro `read_64`. -/
def read_64 (buffer : Mem) (p : Nat) : Nat := read_xx buffer p 64

/-- Macro `write_32`. -/
def write_32 (buffer : Mem) (p : Nat) (v : Nat) : Mem := write_xx buffer p v 32

/-- Macro `write_64`. -/
def write_64 (buffer : Mem) (p : Nat) (v : Nat) : Mem := write_xx buffer p v 64

/-! ## Atom types (`stream_mp4.h`) -/

/-- Macro `ATOM(a, b, c, d)`. -/
def ATOM (a b c d : Char) : Nat :=
  (a.toNat <<< 24) ||| (b.toNat <<< 16) ||| (c.toNat <<< 8) ||| d.toNat

/-- The NULL atom type. -/
def ____ : Nat := 0
def FTYP : Nat := ATOM 'f' 't' 'y' 'p'
def MOOV : Nat := ATOM 'm' 'o' 'o' 'v'
def CMOV : Nat := ATOM 'c' 'm' 'o' 'v'
def MVHD : Nat := ATOM 'm' 'v' 'h' 'd'
def TRAK : Nat := ATOM 't' 'r' 'a' 'k'
def TKHD : Nat := ATOM 't' 'k' 'h' 'd'
def MDIA : Nat := ATOM 'm' 'd' 'i' 'a'
def MDHD : Nat := ATOM 'm' 'd' 'h' 'd'
def HDLR : Nat := ATOM 'h' 'd' 'l' 'r'
def MINF : Nat := ATOM 'm' 'i' 'n' 'f'
def VMHD : Nat := ATOM 'v' 'm' 'h' 'd'
def SMHD : Nat := ATOM 's' 'm' 'h' 'd'
def STBL : Nat := ATOM 's' 't' 'b' 'l'
def STSD : Nat := ATOM 's' 't' 's' 'd'
def STTS : Nat := ATOM 's' 't' 't' 's'
def CTTS : Nat := ATOM 'c' 't' 't' 's'
def STSS : Nat := ATOM 's' 't' 's' 's'
def STSC : Nat := ATOM 's' 't' 's' 'c'
def STSZ : Nat := ATOM 's' 't' 's' 'z'
def STCO : Nat := ATOM 's' 't' 'c' 'o'
def CO64 : Nat := ATOM 'c' 'o' '6' '4'
def MDAT : Nat := ATOM 'm' 'd' 'a' 't'

/-- Flag `F_EX`: the atom carries an extended (64-bit) size. -/
def F_EX : Nat := 1

/-! ## Format structures (`stream_mp4.h`) -/

/-- Struct `atom_t`. `data` is a pointer into the buffer the atom was read
from (`none` is `NULL`). -/
structure atom_t where
  type : Nat := 0
  flags : Nat := 0
  size : Nat := 0
  start : Nat := 0
  end_ : Nat := 0
  data : Option Nat := none
  data_start : Nat := 0
  data_size : Nat := 0
  data_position : Nat := 0
deriving DecidableEq, Repr

/-- Macro `Q_EX(s)`, as a truth value. -/
def Q_EX (a : atom_t) : Bool := a.flags &&& F_EX != 0

/-- Struct `xxxx_t`. -/
structure xxxx_t where
  atom : atom_t := {}
deriving DecidableEq, Repr

/-- Struct `xxhd_t`. -/
structure xxhd_t where
  atom : atom_t := {}
  version : Nat := 0
  flags : Nat := 0
  scale : Nat := 0
  duration : Nat := 0
deriving DecidableEq, Repr

/-- Struct `stxx_t`. `data` is a pointer into the `moov` buffer; the `NULL`
stored by `init_stsz` for a constant sample size is represented by `0` and is
never dereferenced. -/
structure stxx_t where
  atom : atom_t := {}
  version : Nat := 0
  flags : Nat := 0
  size : Nat := 0
  count : Nat := 0
  data : Nat := 0
  bytes : Nat := 0
deriving DecidableEq, Repr

/-- Struct `stbl_t`. -/
structure stbl_t where
  atom : atom_t := {}
  max_offset : Nat := 0
  max_chunks : Nat := 0
  max_samples : Nat := 0
  max_time : Nat := 0
  stsd : xxxx_t := {}
  stts : stxx_t := {}
  ctts : stxx_t := {}
  stss : stxx_t := {}
  stsc : stxx_t := {}
  stsz : stxx_t := {}
  coxx : stxx_t := {}
deriving DecidableEq, Repr

/-- Struct `tbli_t`: entry number in a table and offset inside the entry. -/
structure tbli_t where
  index : Nat := 0
  offset : Nat := 0
deriving DecidableEq, Repr

/-- Struct `seek_t`. `stsc_entry` holds the 12 bytes of the additional `stsc`
entry. -/
structure seek_t where
  time : Nat := 0
  offset : Nat := 0
  stts : tbli_t := {}
  ctts : tbli_t := {}
  stss : tbli_t := {}
  stsc : tbli_t := {}
  stsz : tbli_t := {}
  coxx : tbli_t := {}
  stsc_entry : Mem := Mem.zero 12
deriving DecidableEq, Repr

/-- Struct `minf_t`. -/
structure minf_t where
  atom : atom_t := {}
  xmhd : xxxx_t := {}
  stbl : stbl_t := {}
deriving DecidableEq, Repr

/-- Struct `mdia_t`. -/
structure mdia_t where
  atom : atom_t := {}
  mdhd : xxhd_t := {}
  hdlr : xxxx_t := {}
  minf : minf_t := {}
deriving DecidableEq, Repr

/-- Struct `trak_t`. -/
structure trak_t where
  atom : atom_t := {}
  tkhd : xxhd_t := {}
  mdia : mdia_t := {}
  start : seek_t := {}
  end_ : seek_t := {}
deriving DecidableEq, Repr

/-- Struct `moov_t`. -/
structure moov_t where
  atom : atom_t := {}
  mvhd : xxhd_t := {}
  vtrak : trak_t := {}
  strak : trak_t := {}
deriving DecidableEq, Repr

/-- Struct `file_t`. -/
structure file_t where
  ftyp : xxxx_t := {}
  moov : moov_t := {}
  mdat : xxxx_t := {}
deriving DecidableEq, Repr

/-- Modelled from the spec: the metadata cache is an external key-value store
(`tcadbget` / `tcadbput`), a mapping from key to blob; a look-up returns the
stored blob or a miss and, without eviction, a store replaces the blob under
its key and leaves every other key alone. -/
abbrev Cache := List (String × Mem)

/-- Library function `tcadbget`. -/
def tcadbget (db : Cache) (key : String) : Option Mem :=
  match db with
  | [] => none
  | (k, v) :: rest => if k = key then some v else tcadbget rest key

/-- Library function `tcadbput`. -/
def tcadbput (db : Cache) (key : String) (value : Mem) : Cache :=
  match db with
  | [] => [(key, value)]
  | (k, v) :: rest => if k = key then (key, value) :: rest else (k, v) :: tcadbput rest key value

/-- Struct `stream_t`. `file` is the content of the file behind the
descriptor; `db` is the cache (`none` is `NULL`); `load`, `cache_hits`,
`cache_misses`, `data_total`, `delay_sum`, `delay_count` and `delay_average`
are the counters of the worker that the stream points to. The watchers are
reduced to their state: `send_w` tells whether the send watcher is started,
`wait_w` and `jump_w` hold the time after which the timer fires (`none` when
the timer is stopped). The socket, the hint buffer, the event loop and the
Lua state are left out. -/
structure stream_t where
  http : String := ""
  period : ℚ := 0
  cache_hits : Nat := 0
  cache_misses : Nat := 0
  path : String := ""
  spatial : Int := 0
  start : ℚ := 0
  stop : ℚ := 0
  db : Option Cache := none
  periods : Nat := 0
  offsets : Option (List Nat) := none
  head : Option Mem := none
  head_length : Nat := 0
  head_offset : Nat := 0
  file : Mem := {}
  file_length : Nat := 0
  file_finish : Nat := 0
  file_offset : Nat := 0
  mime : String := ""
  throttle : ℚ := 0
  load : Nat := 0
  data_total : Nat := 0
  delay_sum : ℚ := 0
  delay_count : ℚ := 0
  delay_average : ℚ := 0
  load_head : ℚ := 0
  file_target : Nat := 0
  nagle : Int := 0
  tzero : ℚ := 0
  send_w : Bool := false
  wait_w : Option ℚ := none
  jump_w : Option ℚ := none
  last_send : ℚ := 0
deriving DecidableEq

/-- Where the base pointer of a gather vector points: into the scratch area
for atom heads, into the `ftyp` blob, into the `moov` blob, or at the
additional `stsc` entry of a track (`0` video, `1` sound; start or end seek). -/
inductive iov_base where
  | heads (p : Nat)
  | ftyp (p : Nat)
  | moov (p : Nat)
  | stsc_entry (track : Nat) (is_end : Bool)
deriving DecidableEq, Repr

/-- Struct `iov_t`. -/
structure iov_t where
  base : iov_base
  size : Nat
deriving DecidableEq, Repr

/-- Struct `iovs_t`, together with the scratch area `_heads_base` of
`compile_head` and its cursor `_heads`. -/
structure iovs_t where
  iovs : List iov_t := []
  count : Nat := 0
  size : Nat := 0
  heads_base : Mem := Mem.zero (70 * 16)
  heads : Nat := 0
deriving DecidableEq, Repr

/-- Macro `VOID(s)`: the atom of `s` has size zero. -/
def VOID (a : atom_t) : Bool := a.size == 0

/-! ## Atom manipulation -/

/-- Function `data_atom(parent, atom)`: reads the child header at the parent's
cursor. Returns the child's type (or `____`), the updated parent and the
updated child. `mem` is the buffer `parent.data` points into. -/
def data_atom (mem : Mem) (parent : atom_t) (atom : atom_t) : Nat × atom_t × atom_t :=
  match parent.data with
  | none => (____, parent, atom)
  | some pdata =>
    if parent.data_position > sub64 parent.data_size 8 then (____, parent, atom) else
    let buffer := pdata + parent.data_position
    let atom := { atom with
      flags := 0
      size := read_32 mem buffer
      type := read_32 mem (buffer + 4)
      start := w64 (parent.data_start + parent.data_position)
      data_start := w64 (w64 (parent.data_start + parent.data_position) + 8) }
    let parent := { parent with data_position := w64 (parent.data_position + 8) }
    if atom.size = 1 then
      if parent.data_position > sub64 parent.data_size 8 then (____, parent, atom) else
      let parent := { parent with data_position := w64 (parent.data_position + 8) }
      let size := read_64 mem (buffer + 8)
      let atom := { atom with
        size := size
        data_start := w64 (atom.data_start + 8)
        data_size := sub64 size 16
        flags := atom.flags ||| F_EX }
      let atom := { atom with
        end_ := w64 (atom.start + atom.size)
        data := some (pdata + parent.data_position)
        data_position := 0 }
      (atom.type, { parent with data_position := w64 (parent.data_position + atom.data_size) }, atom)
    else
      let atom := { atom with data_size := sub64 atom.size 8 }
      let atom := { atom with
        end_ := w64 (atom.start + atom.size)
        data := some (pdata + parent.data_position)
        data_position := 0 }
      (atom.type, { parent with data_position := w64 (parent.data_position + atom.data_size) }, atom)

/-! ## Specialized initializers -/

/-- Function `init_stxx`. -/
def init_stxx (mem : Mem) (stxx : stxx_t) : stxx_t :=
  if VOID stxx.atom then stxx else
  let d := stxx.atom.data.getD 0
  { stxx with
    version := byte_at mem d
    flags := read_24 mem (d + 1)
    count := read_32 mem (d + 4)
    data := d + 8 }

/-- Function `init_stsz`. -/
def init_stsz (mem : Mem) (stsz : stxx_t) : stxx_t :=
  let d := stsz.atom.data.getD 0
  let size := read_32 mem (d + 4)
  { stsz with
    version := byte_at mem d
    flags := read_24 mem (d + 1)
    size := size
    count := if size ≠ 0 then 0 else read_32 mem (d + 8)
    data := if size ≠ 0 then 0 else d + 12 }

/-! ## Format parsing -/

/-- The `while` loop of `parse_stbl`. `atom` is the local child atom, which
survives from one iteration to the next. -/
def parse_stbl_loop (mem : Mem) : Nat → Nat → stbl_t → atom_t → Option stbl_t
  | 0, _, _, _ => none
  | fuel + 1, left, stbl, atom =>
    if left > 0 ∧ stbl.atom.data_position < stbl.atom.data_size then
      let r := data_atom mem stbl.atom atom
      let stbl := { stbl with atom := r.2.1 }
      let atom := r.2.2
      if r.1 = STSD then
        parse_stbl_loop mem fuel (left - 1) { stbl with stsd := { atom := atom } } atom
      else if r.1 = STTS then
        parse_stbl_loop mem fuel (left - 1)
          { stbl with stts := { stbl.stts with atom := atom, bytes := 8 } } atom
      else if r.1 = CTTS then
        parse_stbl_loop mem fuel (left - 1)
          { stbl with ctts := { stbl.ctts with atom := atom, bytes := 8 } } atom
      else if r.1 = STSS then
        parse_stbl_loop mem fuel (left - 1)
          { stbl with stss := { stbl.stss with atom := atom, bytes := 4 } } atom
      else if r.1 = STSC then
        parse_stbl_loop mem fuel (left - 1)
          { stbl with stsc := { stbl.stsc with atom := atom, bytes := 12 } } atom
      else if r.1 = STSZ then
        parse_stbl_loop mem fuel (left - 1)
          { stbl with stsz := { stbl.stsz with atom := atom, bytes := 4 } } atom
      else if r.1 = STCO then
        parse_stbl_loop mem fuel (left - 1)
          { stbl with coxx := { stbl.coxx with atom := atom, bytes := 4 } } atom
      else if r.1 = CO64 then
        parse_stbl_loop mem fuel (left - 1)
          { stbl with coxx := { stbl.coxx with atom := atom, bytes := 8 } } atom
      else
        parse_stbl_loop mem fuel left stbl atom
    else some stbl

/-- Function `parse_stbl`. The result is the return code (`1` failure, `0`
success) and the updated `stbl`; `none` when the child walk does not finish
within `fuel` iterations. -/
def parse_stbl (mem : Mem) (fuel : Nat) (stbl : stbl_t) : Option (Nat × stbl_t) :=
  match parse_stbl_loop mem fuel 7 { stbl with atom := { stbl.atom with data_position := 0 } } {} with
  | none => none
  | some stbl =>
    if VOID stbl.stts.atom then some (1, stbl)
    else if VOID stbl.stsc.atom then some (1, stbl)
    else if VOID stbl.stsz.atom then some (1, stbl)
    else if VOID stbl.coxx.atom then some (1, stbl)
    else
      some (0, { stbl with
        stts := init_stxx mem stbl.stts
        ctts := init_stxx mem stbl.ctts
        stss := init_stxx mem stbl.stss
        stsc := init_stxx mem stbl.stsc
        stsz := init_stsz mem stbl.stsz
        coxx := init_stxx mem stbl.coxx })

/-- The `while` loop of `parse_minf`; returns the code (`1` when `parse_stbl`
failed inside the loop, `0` otherwise) and the updated `minf`. -/
def parse_minf_loop (mem : Mem) : Nat → Nat → minf_t → atom_t → Option (Nat × minf_t)
  | 0, _, _, _ => none
  | fuel + 1, left, minf, atom =>
    if left > 0 ∧ minf.atom.data_position < minf.atom.data_size then
      let r := data_atom mem minf.atom atom
      let minf := { minf with atom := r.2.1 }
      let atom := r.2.2
      if r.1 = VMHD ∨ r.1 = SMHD then
        parse_minf_loop mem fuel (left - 1) { minf with xmhd := { atom := atom } } atom
      else if r.1 = STBL then
        match parse_stbl mem fuel { minf.stbl with atom := atom } with
        | none => none
        | some (rc, stbl) =>
          if rc ≠ 0 then some (1, { minf with stbl := stbl })
          else parse_minf_loop mem fuel (left - 1) { minf with stbl := stbl } atom
      else
        parse_minf_loop mem fuel left minf atom
    else some (0, minf)

/-- Function `parse_minf`. -/
def parse_minf (mem : Mem) (fuel : Nat) (minf : minf_t) : Option (Nat × minf_t) :=
  match parse_minf_loop mem fuel 2 { minf with atom := { minf.atom with data_position := 0 } } {} with
  | none => none
  | some (rc, minf) =>
    if rc ≠ 0 then some (1, minf)
    else if !VOID minf.xmhd.atom && VOID minf.stbl.atom then some (1, minf)
    else some (0, minf)

/-- The `while` loop of `parse_mdia`. -/
def parse_mdia_loop (mem : Mem) : Nat → Nat → mdia_t → atom_t → Option (Nat × mdia_t)
  | 0, _, _, _ => none
  | fuel + 1, left, mdia, atom =>
    if left > 0 ∧ mdia.atom.data_position < mdia.atom.data_size then
      let r := data_atom mem mdia.atom atom
      let mdia := { mdia with atom := r.2.1 }
      let atom := r.2.2
      if r.1 = MDHD then
        parse_mdia_loop mem fuel (left - 1) { mdia with mdhd := { mdia.mdhd with atom := atom } } atom
      else if r.1 = HDLR then
        parse_mdia_loop mem fuel (left - 1) { mdia with hdlr := { atom := atom } } atom
      else if r.1 = MINF then
        match parse_minf mem fuel { mdia.minf with atom := atom } with
        | none => none
        | some (rc, minf) =>
          if rc ≠ 0 then some (1, { mdia with minf := minf })
          else parse_mdia_loop mem fuel (left - 1) { mdia with minf := minf } atom
      else
        parse_mdia_loop mem fuel left mdia atom
    else some (0, mdia)

/-- Function `parse_mdia`. -/
def parse_mdia (mem : Mem) (fuel : Nat) (mdia : mdia_t) : Option (Nat × mdia_t) :=
  match parse_mdia_loop mem fuel 3 { mdia with atom := { mdia.atom with data_position := 0 } } {} with
  | none => none
  | some (rc, mdia) =>
    if rc ≠ 0 then some (1, mdia)
    else if VOID mdia.mdhd.atom then some (1, mdia)
    else
      let d := mdia.mdhd.atom.data.getD 0
      let version := byte_at mem d
      let offset := if version ≠ 0 then 20 else 12
      some (0, { mdia with mdhd := { mdia.mdhd with
        version := version
        scale := read_32 mem (d + offset)
        duration := if version ≠ 0 then read_64 mem (d + offset + 4)
                    else read_32 mem (d + offset + 4) } })

/-- The `while` loop of `parse_trak`. -/
def parse_trak_loop (mem : Mem) : Nat → Nat → trak_t → atom_t → Option (Nat × trak_t)
  | 0, _, _, _ => none
  | fuel + 1, left, trak, atom =>
    if left > 0 ∧ trak.atom.data_position < trak.atom.data_size then
      let r := data_atom mem trak.atom atom
      let trak := { trak with atom := r.2.1 }
      let atom := r.2.2
      if r.1 = TKHD then
        parse_trak_loop mem fuel (left - 1) { trak with tkhd := { trak.tkhd with atom := atom } } atom
      else if r.1 = MDIA then
        match parse_mdia mem fuel { trak.mdia with atom := atom } with
        | none => none
        | some (rc, mdia) =>
          if rc ≠ 0 then some (1, { trak with mdia := mdia })
          else parse_trak_loop mem fuel (left - 1) { trak with mdia := mdia } atom
      else
        parse_trak_loop mem fuel left trak atom
    else some (0, trak)

/-- Function `parse_trak`. -/
def parse_trak (mem : Mem) (fuel : Nat) (trak : trak_t) : Option (Nat × trak_t) :=
  match parse_trak_loop mem fuel 2 { trak with atom := { trak.atom with data_position := 0 } } {} with
  | none => none
  | some (rc, trak) =>
    if rc ≠ 0 then some (1, trak)
    else if VOID trak.tkhd.atom then some (1, trak)
    else if VOID trak.mdia.atom then some (1, trak)
    else
      let d := trak.tkhd.atom.data.getD 0
      let version := byte_at mem d
      let p := d + (if version ≠ 0 then 28 else 20)
      some (0, { trak with tkhd := { trak.tkhd with
        version := version
        flags := read_24 mem (d + 1)
        duration := if version ≠ 0 then read_64 mem p else read_32 mem p } })

/-- The `while` loop of `parse_moov`. A fresh zeroed `trak` is parsed for every
`trak` child; it is kept as video (`vmhd`) or sound (`smhd`) track when it is
enabled and no track of that kind was kept before. -/
def parse_moov_loop (mem : Mem) : Nat → Nat → moov_t → atom_t → Option (Nat × moov_t)
  | 0, _, _, _ => none
  | fuel + 1, left, moov, atom =>
    if left > 0 ∧ moov.atom.data_position < moov.atom.data_size then
      let r := data_atom mem moov.atom atom
      let moov := { moov with atom := r.2.1 }
      let atom := r.2.2
      if r.1 = MVHD then
        parse_moov_loop mem fuel (left - 1) { moov with mvhd := { moov.mvhd with atom := atom } } atom
      else if r.1 = TRAK then
        match parse_trak mem fuel { atom := atom } with
        | none => none
        | some (rc, trak) =>
          if rc ≠ 0 then some (1, moov)
          else if trak.tkhd.flags &&& 1 = 0 then parse_moov_loop mem fuel left moov atom
          else if trak.mdia.minf.xmhd.atom.type = VMHD then
            if VOID moov.vtrak.atom then
              parse_moov_loop mem fuel (left - 1) { moov with vtrak := trak } atom
            else parse_moov_loop mem fuel left moov atom
          else if trak.mdia.minf.xmhd.atom.type = SMHD then
            if VOID moov.strak.atom then
              parse_moov_loop mem fuel (left - 1) { moov with strak := trak } atom
            else parse_moov_loop mem fuel left moov atom
          else parse_moov_loop mem fuel left moov atom
      else if r.1 = CMOV then some (1, moov)
      else
        parse_moov_loop mem fuel left moov atom
    else some (0, moov)

/-- Library function `memset(buffer + p, 0, n)`. -/
def memset_zero (buffer : Mem) (p n : Nat) : Mem :=
  (List.range n).foldl (fun buf i => store buf (p + i) 0) buffer

/-- Function `parse_moov`. It also clears the preview/selection times inside
the `mvhd` payload, so the `moov` buffer is returned as well. -/
def parse_moov (mem : Mem) (fuel : Nat) (moov : moov_t) : Option (Nat × moov_t × Mem) :=
  match parse_moov_loop mem fuel 3 { moov with atom := { moov.atom with data_position := 0 } } {} with
  | none => none
  | some (rc, moov) =>
    if rc ≠ 0 then some (1, moov, mem)
    else if VOID moov.mvhd.atom then some (1, moov, mem)
    else if VOID moov.vtrak.atom && VOID moov.strak.atom then some (1, moov, mem)
    else
      let d := moov.mvhd.atom.data.getD 0
      let version := byte_at mem d
      let offset := if version ≠ 0 then 20 else 12
      let mvhd := { moov.mvhd with
        version := version
        scale := read_32 mem (d + offset)
        duration := if version ≠ 0 then read_64 mem (d + offset + 4)
                    else read_32 mem (d + offset + 4) }
      let offset := offset + 52 + (if version ≠ 0 then 12 else 8)
      let mem := store mem (d + offset) 0
      let mem := memset_zero mem (d + offset) 24
      some (0, { moov with mvhd := mvhd }, mem)

/-! ## Seek compilation -/

/-- First loop of `compile_maxs`: accumulates `max_samples` and `max_time`
over the `stts` entries. -/
def compile_maxs_loop (mem : Mem) (data : Nat) : Nat → Nat → Nat → Nat → Nat × Nat
  | 0, _, max_samples, max_time => (max_samples, max_time)
  | k + 1, i, max_samples, max_time =>
    let c := read_32 mem (data + 8 * i)
    compile_maxs_loop mem data k (i + 1) (w64 (max_samples + c))
      (w64 (max_time + w64 (c * read_32 mem (data + 8 * i + 4))))

/-- Second loop of `compile_maxs`: adds the sizes of the `c` last samples. -/
def compile_maxs_size (mem : Mem) (stsz : stxx_t) : Nat → Nat → Nat → Nat
  | 0, _, max_offset => max_offset
  | k + 1, i, max_offset =>
    compile_maxs_size mem stsz k (i + 1)
      (w64 (max_offset +
        (if stsz.size ≠ 0 then stsz.size
         else read_32 mem (stsz.data + w32 (sub32 (sub32 stsz.count i) 1 <<< 2)))))

/-- Function `compile_maxs`. -/
def compile_maxs (mem : Mem) (stbl : stbl_t) : stbl_t :=
  let r := compile_maxs_loop mem stbl.stts.data stbl.stts.count 0 0 0
  let c := read_32 mem (stbl.stsc.data + w32 (w32 (sub32 stbl.stsc.count 1 * 12) + 4))
  let last := read_xx mem (stbl.coxx.data + w32 (sub32 stbl.coxx.count 1 * stbl.coxx.bytes))
                (stbl.coxx.bytes <<< 3)
  { stbl with
    max_samples := r.1
    max_time := r.2
    max_chunks := stbl.coxx.count
    max_offset := compile_maxs_size mem stbl.stsz c 0 last }

/-- Local variables `c, d, t, n` of `compile_seek` (all `uint32_t`) at the exit
of its first loop. -/
structure seek_locals where
  c : Nat := 0
  d : Nat := 0
  t : Nat := 0
  n : Nat := 0
deriving DecidableEq, Repr

/-- The `stts` look-up loop of `compile_seek`; the first argument counts the
entries still to visit, `index` is `seek.stts.index`. -/
def seek_stts_loop (mem : Mem) (data : Nat) (time : Nat) :
    Nat → Nat → seek_locals → Nat × seek_locals
  | 0, index, l => (index, l)
  | k + 1, index, l =>
    let c := read_32 mem (data + 8 * index)
    let d := read_32 mem (data + 8 * index + 4)
    let u := w32 (c * d)
    if w32 (l.t + u) > time then (index, { l with c := c, d := d })
    else seek_stts_loop mem data time k (index + 1)
      { c := c, d := 1, t := w32 (l.t + u), n := w32 (l.n + c) }

/-- The sync-sample loop of `compile_seek`; returns `seek.stss.index` and
`seek.stsz.index`. `t` is the sample number found by the `stts` look-up. -/
def seek_stss_loop (mem : Mem) (data : Nat) (t : Nat) : Nat → Nat → Nat → Nat × Nat
  | 0, stss_index, stsz_index => (stss_index, stsz_index)
  | k + 1, stss_index, stsz_index =>
    let n := sub32 (read_32 mem (data + 4 * stss_index)) 1
    if n > t then (stss_index - 1, stsz_index)
    else seek_stss_loop mem data t k (stss_index + 1) n

/-- The loop of `compile_seek` that walks `stts` backwards by `t` samples;
the state is `(seek.stts.index, seek.stts.offset, d, seek.time)`. -/
def seek_back_loop (mem : Mem) (data : Nat) :
    Nat → Nat → Nat → Nat → Nat → Nat × Nat × Nat × Nat
  | 0, index, offset, d, time => (index, offset, d, time)
  | t + 1, index, offset, d, time =>
    if offset ≠ 0 then
      seek_back_loop mem data t index (offset - 1) d (sub64 time d)
    else
      let index := sub32 index 1
      let p := data + w32 (index <<< 3)
      let d := read_32 mem (p + 4)
      seek_back_loop mem data t index (sub32 (read_32 mem p) 1) d (sub64 time d)

/-- The `ctts` look-up loop of `compile_seek`; the state is `seek.ctts.index`,
`c` (last count read) and `n` (samples before the entry). -/
def seek_ctts_loop (mem : Mem) (data : Nat) (sample : Nat) :
    Nat → Nat → Nat → Nat → Nat × Nat × Nat
  | 0, index, c, n => (index, c, n)
  | k + 1, index, _, n =>
    let c := read_32 mem (data + 8 * index)
    if w32 (n + c) > sample then (index, c, n)
    else seek_ctts_loop mem data sample k (index + 1) c (w32 (n + c))

/-- The `stsc` look-up loop of `compile_seek`; the state is `seek.stsc.index`,
`seek.coxx.index`, `c` (samples per chunk, or `1` once an entry is passed) and
`n` (samples before the entry). -/
def seek_stsc_loop (mem : Mem) (stbl : stbl_t) (sample : Nat) :
    Nat → Nat → Nat → Nat → Nat → Nat × Nat × Nat × Nat
  | 0, index, chunk, c, n => (index, chunk, c, n)
  | k + 1, index, chunk, _, n =>
    let p := stbl.stsc.data + 12 * index
    let c := read_32 mem (p + 4)
    let d := if index = sub32 stbl.stsc.count 1 then w32 stbl.max_chunks
             else sub32 (read_32 mem (p + 12)) 1
    let u := sub32 d chunk
    let d := w32 (u * c)
    if w32 (n + d) > sample then (index, chunk, c, n)
    else seek_stsc_loop mem stbl sample k (index + 1) (w32 (chunk + u)) 1 (w32 (n + d))

/-- The `stsz` accumulation loop of `compile_seek`: adds the sizes of the `n`
samples before sample `sample`. -/
def seek_stsz_loop (mem : Mem) (data : Nat) (sample : Nat) : Nat → Nat → Nat
  | 0, offset => offset
  | n + 1, offset =>
    seek_stsz_loop mem data sample n
      (w64 (offset + read_32 mem (data + w32 (sub32 sample (n + 1) <<< 2))))

/-- The `stts` look-up of `compile_seek` (first loop and the three assignments
after it): sets `seek.stts`, `seek.time`, `seek.stsz.index`. Also returns the
local `c`, the only local that can still be read later without having been
assigned again. The local `d` is not initialised by the C code before the
loop; it is read before being written only when `stts.count` is zero and is
taken to be `0` there. A division by zero yields `0`. -/
def seek_stts (mem : Mem) (stbl : stbl_t) (seek : seek_t) : seek_t × Nat :=
  let r := seek_stts_loop mem stbl.stts.data seek.time stbl.stts.count 0 {}
  let l := r.2
  let stts_offset := w32 (sub64 seek.time l.t / l.d)
  ({ seek with
      stts := { index := r.1, offset := stts_offset }
      time := MIN (w32 (l.t + w32 (stts_offset * l.d))) stbl.max_time
      stsz := { seek.stsz with index := w32 (MIN (w32 (l.n + stts_offset)) stbl.max_samples) } },
   l.c)

/-- The `stss` look-up of `compile_seek`: snaps `seek.stsz.index` to a sync
sample and walks `seek.stts` and `seek.time` back accordingly. -/
def seek_stss (mem : Mem) (stbl : stbl_t) (seek : seek_t) : seek_t :=
  let seek := { seek with stss := { seek.stss with index := 0 } }
  if !VOID stbl.stss.atom then
    let t := seek.stsz.index
    let ss : Nat × Nat :=
      if t < stbl.stsz.count then
        seek_stss_loop mem stbl.stss.data t (stbl.stss.count - 1) 1 0
      else (stbl.stss.count, seek.stsz.index)
    let t := sub32 t ss.2
    let d := if seek.stts.offset ≠ 0 then
               read_32 mem (stbl.stts.data + w32 (w32 (seek.stts.index <<< 3) + 4))
             else 0
    let b := seek_back_loop mem stbl.stts.data t seek.stts.index seek.stts.offset d seek.time
    { seek with
      stss := { seek.stss with index := ss.1 }
      stsz := { seek.stsz with index := ss.2 }
      stts := { index := b.1, offset := b.2.1 }
      time := b.2.2.2 }
  else seek

/-- The `ctts` look-up of `compile_seek`; `c` is the local left by the earlier
loops, returned updated. -/
def seek_ctts (mem : Mem) (stbl : stbl_t) (seek : seek_t) (c : Nat) : seek_t × Nat :=
  if !VOID stbl.ctts.atom then
    let r := seek_ctts_loop mem stbl.ctts.data seek.stsz.index stbl.ctts.count 0 c 0
    ({ seek with ctts := { index := r.1, offset := sub32 seek.stsz.index r.2.2 } }, r.2.1)
  else (seek, c)

/-- The `stsc`, `stco/co64` and `stsz` look-ups of `compile_seek`: set
`seek.stsc`, `seek.coxx` and `seek.offset`. -/
def seek_stsc (mem : Mem) (stbl : stbl_t) (seek : seek_t) (c : Nat) : seek_t :=
  let r := seek_stsc_loop mem stbl seek.stsz.index stbl.stsc.count 0 0 c 0
  let c := r.2.2.1
  let d := sub32 seek.stsz.index r.2.2.2
  let seek := { seek with
    stsc := { index := r.1, offset := d / c }
    coxx := { index := w32 (r.2.1 + d / c), offset := d % c } }
  let offset :=
    if seek.coxx.index < stbl.max_chunks then
      read_xx mem (stbl.coxx.data + w32 (seek.coxx.index * stbl.coxx.bytes)) (stbl.coxx.bytes <<< 3)
    else stbl.max_offset
  let offset :=
    if stbl.stsz.size ≠ 0 then w64 (offset + w32 (seek.coxx.offset * stbl.stsz.size))
    else seek_stsz_loop mem stbl.stsz.data seek.stsz.index seek.coxx.offset offset
  { seek with offset := offset }

/-- Function `compile_seek`: the look-ups in `stts`, `stss`, `ctts`, `stsc`,
`stco/co64` and `stsz`, in this order. -/
def compile_seek (mem : Mem) (stbl : stbl_t) (seek : seek_t) : seek_t :=
  let r := seek_stts mem stbl seek
  let seek := seek_stss mem stbl r.1
  let r := seek_ctts mem stbl seek r.2
  seek_stsc mem stbl r.1 r.2

/-! ## Splicing -/

/-- Function `resize_xxxx`. -/
def resize_xxxx (xxxx : stxx_t) (start end_ : tbli_t) (end2 : Option tbli_t) : stxx_t :=
  let x : Nat :=
    if end_.offset > 0 || (match end2 with
                           | some e => decide (e.offset > 0)
                           | none => false) then 1 else 0
  let a := w32 (start.index * xxxx.bytes)
  let d := w32 (sub32 (sub32 xxxx.count end_.index) x * xxxx.bytes)
  let count := w32 (sub32 end_.index start.index + x)
  { xxxx with
    count := count
    data := xxxx.data + a
    atom := { xxxx.atom with
      size := sub64 xxxx.atom.size (w64 (a + d))
      start := w64 (xxxx.atom.start + a)
      end_ := sub64 xxxx.atom.end_ d
      data := xxxx.atom.data.map (fun q => q + a)
      data_start := w64 (xxxx.atom.data_start + a)
      data_size := w32 (8 + w32 (count * xxxx.bytes))
      data_position := 0 } }

/-- Function `compile_xxxx`. -/
def compile_xxxx (mem : Mem) (xxxx : stxx_t) (start end_ : tbli_t) (end2 : Option tbli_t) :
    stxx_t × Mem :=
  if VOID xxxx.atom then (xxxx, mem) else
  let xxxx := resize_xxxx xxxx start end_ end2
  let d := xxxx.atom.data.getD 0
  let mem := write_32 mem d (w32 (xxxx.version <<< 24) ||| xxxx.flags)
  let mem := write_32 mem (d + 4) xxxx.count
  (xxxx, mem)

/-- Function `compile_stsz`. -/
def compile_stsz (mem : Mem) (stsz : stxx_t) (start end_ : tbli_t) (end2 : Option tbli_t) :
    stxx_t × Mem :=
  if stsz.size ≠ 0 then (stsz, mem) else
  let stsz := resize_xxxx stsz start end_ end2
  let stsz := { stsz with atom := { stsz.atom with data_size := w64 (stsz.atom.data_size + 4) } }
  let d := stsz.atom.data.getD 0
  let mem := write_32 mem d (w32 (stsz.version <<< 24) ||| stsz.flags)
  let mem := write_32 mem (d + 4) 0
  let mem := write_32 mem (d + 8) stsz.count
  (stsz, mem)

/-- Function `clip_xtts`. -/
def clip_xtts (mem : Mem) (xtts : stxx_t) (offset_start offset_end : Nat) : Mem :=
  if VOID xtts.atom then mem else
  let _offset_a := 0
  let _offset_b := if xtts.count ≠ 0 then w32 (sub32 xtts.count 1 <<< 3) else _offset_a
  let _count_a := read_32 mem (xtts.data + _offset_a)
  let _count_b := read_32 mem (xtts.data + _offset_b)
  let mem := if offset_start ≠ 0 then
      write_32 mem (xtts.data + _offset_a) (sub32 _count_a offset_start)
    else mem
  if offset_end ≠ 0 then
    write_32 mem (xtts.data + _offset_b)
      (sub64 (read_32 mem (xtts.data + _offset_b)) (sub32 _count_b offset_end))
  else mem

/-- Copy of the 12 bytes of an additional `stsc` entry over `mem[p ..]`. -/
def copy_entry (mem : Mem) (p : Nat) (entry : Mem) : Mem :=
  (List.range 12).foldl (fun buf i => store buf (p + i) (byte_at entry i)) mem

/-- The loop of `clip_stsc` that shifts the chunk ids of the remaining entries
down by `d`; the first argument counts the iterations left. -/
def clip_stsc_loop (d : Nat) : Nat → Mem → Nat → Mem
  | 0, mem, _ => mem
  | k + 1, mem, p =>
    clip_stsc_loop d k (write_32 mem p (sub32 (sub32 (read_32 mem p) 1) d)) (p + 12)

/-- The block "prepend compensation entry if needed" of `clip_stsc`: `p` is
the table start, `n` the chunks left in the entry, `c` the samples per chunk.
Returns the buffer, the `stsc` and the start seek record. -/
def clip_stsc_prepend (mem : Mem) (stsc : stxx_t) (start : seek_t) (p n c : Nat) :
    Mem × stxx_t × seek_t :=
  if start.coxx.offset ≠ 0 then
    let e := write_32 start.stsc_entry 0 1
    let e := write_32 e 4 (sub32 c start.coxx.offset)
    let e := write_32 e 8 (read_32 mem (p + 8))
    let stsc := { stsc with
      atom := { stsc.atom with size := w64 (stsc.atom.size + 12) }
      count := w32 (stsc.count + 1) }
    let start := { start with stsc_entry := e, coxx := { start.coxx with offset := 1 } }
    if n > 1 then (write_32 mem p 2, stsc, start)
    else
      (copy_entry mem p e,
       { stsc with
         count := sub32 stsc.count 1
         atom := { stsc.atom with size := sub64 stsc.atom.size 12 } },
       { start with coxx := { start.coxx with offset := 0 } })
  else (write_32 mem p 1, stsc, start)

/-- The block "prepare remaining entries" of `clip_stsc`: `s` is the entry
count of the table, `p` the second entry, `n` the third chunk id. Returns the
buffer and the pointer `p` left by the loop. -/
def clip_stsc_remaining (mem : Mem) (s p n : Nat) (start end_ : seek_t) : Mem × Nat :=
  if s > 1 then
    let d := sub32 (sub32 (read_32 mem p) 1) n
    let i := w32 (start.stsc.index + 1)
    let bound := w32 (end_.stsc.index +
      (if end_.stsc.offset > 0 ∨ end_.coxx.offset > 0 then 1 else 0))
    (clip_stsc_loop d (bound - i) mem p, p + 12 * (bound - i) - 12)
  else (mem, p)

/-- The block "append compensation entry if needed" of `clip_stsc`. -/
def clip_stsc_append (mem : Mem) (coxx_count : Nat) (stsc : stxx_t) (p : Nat) (end_ : seek_t) :
    stxx_t × seek_t :=
  if end_.coxx.offset ≠ 0 then
    let e := write_32 end_.stsc_entry 0 coxx_count
    let e := write_32 e 4 end_.coxx.offset
    let e := write_32 e 8 (read_32 mem (p + 8))
    ({ stsc with
        atom := { stsc.atom with size := w64 (stsc.atom.size + 12) }
        count := w32 (stsc.count + 1) },
     { end_ with stsc_entry := e, coxx := { end_.coxx with offset := 1 } })
  else (stsc, end_)

/-- Function `clip_stsc`. Returns the `moov` buffer, the `stbl` and both seek
records (their additional entries and `coxx.offset` activation flags). -/
def clip_stsc (mem : Mem) (stbl : stbl_t) (start end_ : seek_t) :
    Mem × stbl_t × seek_t × seek_t :=
  if VOID stbl.stsc.atom then (mem, stbl, start, end_) else
  -- correct initial chunk offset
  let mem := write_xx mem stbl.coxx.data start.offset (stbl.coxx.bytes <<< 3)
  -- assess situation
  let s := stbl.stsc.count
  let p := stbl.stsc.data
  let na := sub32 (read_32 mem p) 1
  let nb := if s = 1 then w32 stbl.max_chunks else sub32 (read_32 mem (p + 12)) 1
  let n := sub32 nb (w32 (na + start.stsc.offset))
  let c := read_32 mem (p + 4)
  -- prepend compensation entry if needed
  let r := clip_stsc_prepend mem stbl.stsc start p n c
  let start := r.2.2
  let p := p + 12
  let n := w32 (n + 1)
  -- prepare remaining entries
  let q := clip_stsc_remaining r.1 s p n start end_
  -- append compensation entry if needed
  let a := clip_stsc_append q.1 stbl.coxx.count r.2.1 q.2 end_
  let stsc := a.1
  -- update atom meta-information
  let d := stsc.atom.data.getD 0
  let mem := write_32 q.1 d (w32 (stsc.version <<< 24) ||| stsc.flags)
  let mem := write_32 mem (d + 4) stsc.count
  (mem, { stbl with stsc := stsc }, start, a.2)

/-- Function `resize_atom`. -/
def resize_atom (a : atom_t) : atom_t :=
  { a with size := w64 (a.data_size + (if Q_EX a then 16 else 8)) }

/-- Function `write_time`. -/
def write_time (mem : Mem) (xxhd : xxhd_t) (pos32 pos64 : Nat) : Mem :=
  write_xx mem (xxhd.atom.data.getD 0 + (if xxhd.version ≠ 0 then pos64 else pos32))
    xxhd.duration (if xxhd.version ≠ 0 then 64 else 32)

/-- Conversion `(uint64_t)x` of a `double`. -/
def to_uint64 (x : ℚ) : Nat := w64 (Rat.floor x).toNat

/-- Macro `ROUND(a)` of `core.h`. -/
def ROUND (a : ℚ) : Nat := to_uint64 (a + 1 / 2)

/-- The first part of `compile_trak`: requested times, sanity checks and the
two calls of `compile_seek`. Returns the start and the end seek record. -/
def compile_trak_seek (stream : stream_t) (mem : Mem) (trak : trak_t) : seek_t × seek_t :=
  let stbl := trak.mdia.minf.stbl
  let scale := trak.mdia.mdhd.scale
  -- get requested times from stream
  let start_time := to_uint64 (stream.start * (scale : ℚ))
  let end_time := to_uint64 (stream.stop * (scale : ℚ))
  -- sanity checks
  let duration := if trak.mdia.mdhd.duration > stbl.max_time then stbl.max_time
                  else trak.mdia.mdhd.duration
  let start_time := if start_time > duration then duration else start_time
  let clamp_end : Bool := end_time = 0 ∨ end_time > duration
  let end_time := if clamp_end then duration else end_time
  let end_offset := if clamp_end then stbl.max_offset else trak.end_.offset
  -- compile seek points
  (compile_seek mem stbl { trak.start with time := start_time },
   compile_seek mem stbl { trak.end_ with time := end_time, offset := end_offset })

/-- The part "adjust stream offsets" of `compile_trak`. -/
def compile_trak_offsets (stream : stream_t) (scale : Nat) (start end_ : seek_t) : stream_t :=
  let stream :=
    if stream.file_offset = 0 ∨ stream.file_offset > start.offset then
      { stream with start := (start.time : ℚ) / (scale : ℚ), file_offset := start.offset }
    else stream
  if stream.file_finish = 0 ∨ stream.file_finish < end_.offset then
    { stream with stop := (end_.time : ℚ) / (scale : ℚ), file_finish := end_.offset }
  else stream

/-- The part of `compile_trak` from "restructuring stbl" to "compile stsc
table". -/
def compile_trak_stbl (mem : Mem) (stbl : stbl_t) (start end_ : seek_t) :
    Mem × stbl_t × seek_t × seek_t :=
  -- restructuring stbl
  let r := compile_xxxx mem stbl.stts start.stts end_.stts none
  let stts := r.1
  let r := compile_xxxx r.2 stbl.ctts start.ctts end_.ctts none
  let ctts := r.1
  let r := compile_xxxx r.2 stbl.stss start.stss end_.stss none
  let stss := r.1
  let r := compile_stsz r.2 stbl.stsz start.stsz end_.stsz none
  let stsz := r.1
  let r := compile_xxxx r.2 stbl.coxx start.coxx end_.coxx none
  let coxx := r.1
  -- clip regular stbl tables accurately
  let mem := clip_xtts r.2 stts start.stts.offset end_.stts.offset
  let mem := clip_xtts mem ctts start.ctts.offset end_.ctts.offset
  -- compile stsc table
  let stsc := resize_xxxx stbl.stsc start.stsc end_.stsc (some end_.coxx)
  let stbl := { stbl with
    stts := stts, ctts := ctts, stss := stss, stsz := stsz, coxx := coxx, stsc := stsc }
  clip_stsc mem stbl start end_

/-- The last part of `compile_trak`: the blocks "resize stbl", "resize minf",
"resize mdia" and "resize trak". -/
def compile_trak_resize (trak : trak_t) (mdhd tkhd : xxhd_t) (stbl : stbl_t)
    (start end_ : seek_t) : trak_t :=
  -- resize stbl
  let stbl := { stbl with atom := resize_atom { stbl.atom with
    data_size := w64 (stbl.stsd.atom.size + stbl.stts.atom.size + stbl.ctts.atom.size +
                      stbl.stss.atom.size + stbl.stsz.atom.size + stbl.stsc.atom.size +
                      stbl.coxx.atom.size) } }
  -- resize minf
  let minf := { trak.mdia.minf with stbl := stbl }
  let minf := { minf with atom := resize_atom { minf.atom with
    data_size := w64 (minf.xmhd.atom.size + minf.stbl.atom.size) } }
  -- resize mdia
  let mdia := { trak.mdia with mdhd := mdhd, minf := minf }
  let mdia := { mdia with atom := resize_atom { mdia.atom with
    data_size := w64 (mdia.mdhd.atom.size + mdia.hdlr.atom.size + mdia.minf.atom.size) } }
  -- resize trak
  let trak := { trak with tkhd := tkhd, mdia := mdia, start := start, end_ := end_ }
  { trak with atom := resize_atom { trak.atom with
    data_size := w64 (trak.tkhd.atom.size + trak.mdia.atom.size) } }

/-- Function `compile_trak`. `mvhd_scale` is `file->moov.mvhd.scale`, the only
field of `file` outside the track that the function reads. -/
def compile_trak (stream : stream_t) (mvhd_scale : Nat) (mem : Mem) (trak : trak_t) :
    stream_t × Mem × trak_t :=
  if VOID trak.atom then (stream, mem, trak) else
  let scale := trak.mdia.mdhd.scale
  let s := compile_trak_seek stream mem trak
  -- adjust media timeline
  let mdhd := { trak.mdia.mdhd with duration := sub64 s.2.time s.1.time }
  let mem := write_time mem mdhd 16 24
  -- adjust track timeline
  let tkhd := { trak.tkhd with
    duration := ROUND ((mvhd_scale : ℚ) * ((mdhd.duration : ℚ) / (scale : ℚ))) }
  let mem := write_time mem tkhd 20 28
  -- adjust stream offsets
  let stream := compile_trak_offsets stream scale s.1 s.2
  -- restructuring stbl
  let r := compile_trak_stbl mem trak.mdia.minf.stbl s.1 s.2
  (stream, r.1, compile_trak_resize trak mdhd tkhd r.2.1 r.2.2.1 r.2.2.2)

/-- Function `compile_moov`. -/
def compile_moov (mem : Mem) (file : file_t) : Mem × file_t :=
  let moov := file.moov
  let moov := { moov with atom := resize_atom { moov.atom with
    data_size := w64 (moov.mvhd.atom.size + moov.vtrak.atom.size + moov.strak.atom.size) } }
  let moov := { moov with mvhd := { moov.mvhd with
    duration := MAX moov.strak.tkhd.duration moov.vtrak.tkhd.duration } }
  (write_time mem moov.mvhd 16 24, { file with moov := moov })

/-- Function `compile_mdat`. -/
def compile_mdat (stream : stream_t) (file : file_t) : file_t :=
  let data_size := sub64 stream.file_finish stream.file_offset
  { file with mdat := { atom := resize_atom { file.mdat.atom with
      data_size := data_size, size := data_size } } }

/-- First loop of `relocate_trak`: subtracts `delta` from every sync sample. -/
def relocate_stss_loop (delta : Nat) : Nat → Mem → Nat → Mem
  | 0, mem, _ => mem
  | i + 1, mem, p =>
    relocate_stss_loop delta i (write_32 mem p (sub64 (read_32 mem p) delta)) (p + 4)

/-- Second loop of `relocate_trak`: subtracts `delta` from every chunk offset. -/
def relocate_coxx_loop (delta bytes : Nat) : Nat → Mem → Nat → Mem
  | 0, mem, _ => mem
  | i + 1, mem, p =>
    relocate_coxx_loop delta bytes i
      (write_xx mem p (sub64 (read_xx mem p (bytes <<< 3)) delta) (bytes <<< 3)) (p + bytes)

/-- Function `relocate_trak`; `start` is the size of the gathered head. -/
def relocate_trak (stream : stream_t) (mem : Mem) (trak : trak_t) (start : Nat) : Mem :=
  if VOID trak.atom then mem else
  let stbl := trak.mdia.minf.stbl
  -- shift sync samples (stss)
  let mem :=
    if !VOID stbl.stss.atom then
      relocate_stss_loop (sub64 (read_32 mem stbl.stss.data) 1) stbl.stss.count mem stbl.stss.data
    else mem
  -- compute delta and translate
  relocate_coxx_loop (sub64 stream.file_offset start) stbl.coxx.bytes stbl.coxx.count mem
    stbl.coxx.data

/-! ## Metadata generation -/

/-- The statements that register one gather vector: `iovs[count]` receives
`base` and `size`, `count` is incremented and `size` is added to the total. -/
def iovs_push (i : iovs_t) (base : iov_base) (size : Nat) : iovs_t :=
  { i with
    iovs := i.iovs ++ [(⟨base, size⟩ : iov_t)]
    count := w32 (i.count + 1)
    size := w64 (i.size + size) }

/-- Function `iovs_head`: writes the atom head into the scratch area and
registers it. -/
def iovs_head (i : iovs_t) (s : atom_t) : iovs_t :=
  if VOID s then i else
  let _hs := if Q_EX s then 16 else 8
  let h := write_32 i.heads_base (i.heads + 4) s.type
  let h := if _hs > 8 then write_64 (write_32 h i.heads 1) (i.heads + 8) s.size
           else write_32 h i.heads s.size
  let i := iovs_push { i with heads_base := h } (iov_base.heads i.heads) _hs
  { i with heads := i.heads + _hs }

/-- Function `iovs_full`: head and data of an atom; `base` tells which blob
the atom's data pointer points into. -/
def iovs_full (i : iovs_t) (s : atom_t) (base : Nat → iov_base) : iovs_t :=
  if VOID s then i else
  iovs_push (iovs_head i s) (base (s.data.getD 0)) s.data_size

/-- Function `iovs_stsc`: the `stsc` payload with the additional entries;
returns the updated `stsc` as well (its data pointer moves past the first 8
bytes). `track` is `0` for the video track and `1` for the sound track. -/
def iovs_stsc (i : iovs_t) (s : stxx_t) (start end_ : seek_t) (track : Nat) : iovs_t × stxx_t :=
  if VOID s.atom then (i, s) else
  -- pre-bulk data (version, flags, count)
  let i := iovs_push i (iov_base.moov (s.atom.data.getD 0)) 8
  let s := { s with atom := { s.atom with
    data := s.atom.data.map (fun q => q + 8)
    data_size := sub64 s.atom.data_size 8 } }
  -- prepending additional stsc entry
  let i := if start.coxx.offset ≠ 0 then iovs_push i (iov_base.stsc_entry track false) 12 else i
  -- bulk data
  let i := iovs_push i (iov_base.moov (s.atom.data.getD 0)) s.atom.data_size
  -- appending additional stsc entry
  let i := if end_.coxx.offset ≠ 0 then iovs_push i (iov_base.stsc_entry track true) 12 else i
  (i, s)

/-- The body of the track loop of `compile_head` for one track. -/
def iovs_trak (i : iovs_t) (trak : trak_t) (track : Nat) : iovs_t × trak_t :=
  if VOID trak.atom then (i, trak) else
  let i := iovs_head i trak.atom
  let i := iovs_full i trak.tkhd.atom iov_base.moov
  let mdia := trak.mdia
  let i := iovs_head i mdia.atom
  let i := iovs_full i mdia.mdhd.atom iov_base.moov
  let i := iovs_full i mdia.hdlr.atom iov_base.moov
  let minf := mdia.minf
  let i := iovs_head i minf.atom
  let i := iovs_full i minf.xmhd.atom iov_base.moov
  let stbl := minf.stbl
  let i := iovs_head i stbl.atom
  let i := iovs_full i stbl.stsd.atom iov_base.moov
  let i := iovs_full i stbl.stts.atom iov_base.moov
  let i := iovs_full i stbl.stss.atom iov_base.moov
  let i := iovs_head i stbl.stsc.atom
  let r := iovs_stsc i stbl.stsc trak.start trak.end_ track
  let i := r.1
  let i := iovs_full i stbl.ctts.atom iov_base.moov
  let i := iovs_full i stbl.stsz.atom iov_base.moov
  let i := iovs_full i stbl.coxx.atom iov_base.moov
  (i, { trak with mdia := { mdia with minf := { minf with stbl := { stbl with stsc := r.2 } } } })

/-- The gathering part of `compile_head`: all atoms in emission order. -/
def compile_head_gather (file : file_t) : iovs_t × file_t :=
  let i : iovs_t := {}
  let i := iovs_full i file.ftyp.atom iov_base.ftyp
  let i := iovs_head i file.moov.atom
  let i := iovs_full i file.moov.mvhd.atom iov_base.moov
  let rv := iovs_trak i file.moov.vtrak 0
  let rs := iovs_trak rv.1 file.moov.strak 1
  let i := iovs_head rs.1 file.mdat.atom
  (i, { file with moov := { file.moov with vtrak := rv.2, strak := rs.2 } })

/-- The bytes of a C string (all characters used are ASCII). -/
def c_string (s : String) : Mem := Mem.of_list (s.toList.map Char.toNat)

/-- The HTTP header text formatted by `compile_head`. -/
def http_head (http : String) (content_length : Nat) : String :=
  "HTTP/" ++ http ++ " 200 OK\n" ++
  "Content-Type: " ++ "video/mp4" ++ "\n" ++
  "Content-Length: " ++ toString content_length ++ "\n" ++
  "Cache-Control: no-store, no-cache, must-revalidate, post-check=0, pre-check=0\n" ++
  "Expires: Mon, 29 Mar 1982 12:00:00 GMT\n" ++
  "Server: " ++ "Loomiere" ++ " " ++ "2.0.1-beta" ++ "\n\n"

/-- The bytes one gather vector refers to at assembly time. -/
def iov_bytes (ftyp mem : Mem) (file : file_t) (heads_base : Mem) (v : iov_t) : Mem :=
  match v.base with
  | iov_base.heads p => Mem.slice heads_base p v.size
  | iov_base.ftyp p => Mem.slice ftyp p v.size
  | iov_base.moov p => Mem.slice mem p v.size
  | iov_base.stsc_entry track is_end =>
    let trak := if track = 0 then file.moov.vtrak else file.moov.strak
    Mem.slice (if is_end then trak.end_.stsc_entry else trak.start.stsc_entry) 0 v.size

/-- The bytes copied by the assembly loop of `compile_head`: those of all
gather vectors, in order. -/
def gather_bytes (ftyp mem : Mem) (file : file_t) (i : iovs_t) : Mem :=
  (i.iovs.map (iov_bytes ftyp mem file i.heads_base)).foldl Mem.append {}

/-- The value printed as `Content-Length` by `compile_head`. -/
def content_length (stream : stream_t) (iovs_size : Nat) : Nat :=
  w64 (sub64 stream.file_finish stream.file_offset + iovs_size)

/-- Function `compile_head`. `ftyp` and `mem` are the `ftyp` and `moov` blobs.
Returns the stream (head set), the `moov` blob (chunk offsets relocated), the
file and the gather structure. -/
def compile_head (self : stream_t) (ftyp mem : Mem) (file : file_t) :
    stream_t × Mem × file_t × iovs_t :=
  let r := compile_head_gather file
  let _iovs := r.1
  let file := r.2
  -- relocate sample chunks
  let mem := relocate_trak self mem file.moov.vtrak _iovs.size
  let mem := relocate_trak self mem file.moov.strak _iovs.size
  -- generate HTTP headers
  let head := c_string (http_head self.http (content_length self _iovs.size))
  let head_length := head.size
  -- prepare and assemble headers
  let self := { self with
    head_offset := 0
    head_length := w64 (head_length + _iovs.size)
    head := some (Mem.append head (gather_bytes ftyp mem file _iovs)) }
  (self, mem, file, _iovs)

/-! ## The parser entry point -/

/-- Library function `pread(file, buffer, count, offset)`: the bytes read,
fewer than `count` when the file ends before. -/
def pread (file : Mem) (count offset : Nat) : Mem :=
  Mem.slice file offset (min count (file.size - offset))

/-- Function `file_atom`: reads the atom header at `stream.file_offset` from
the file. -/
def file_atom (stream : stream_t) (atom : atom_t) : Nat × stream_t × atom_t :=
  let buffer := pread stream.file 16 stream.file_offset
  if buffer.size ≠ 16 then (____, stream, atom) else
  let atom := { atom with
    flags := 0
    size := read_32 buffer 0
    type := read_32 buffer 4
    start := stream.file_offset
    data_start := w64 (stream.file_offset + 8) }
  let stream := { stream with file_offset := w64 (stream.file_offset + 8) }
  if atom.size = 1 then
    let stream := { stream with file_offset := w64 (stream.file_offset + 8) }
    let size := read_64 buffer 8
    let atom := { atom with
      size := size
      data_start := w64 (atom.data_start + 8)
      data_size := sub64 size 16
      flags := atom.flags ||| F_EX }
    (atom.type, stream,
      { atom with end_ := w64 (atom.start + atom.size), data := none, data_position := 0 })
  else
    let atom := { atom with data_size := sub64 atom.size 8 }
    (atom.type, stream,
      { atom with end_ := w64 (atom.start + atom.size), data := none, data_position := 0 })

/-- Macro `_SAVE_ATOM`: the `atom.size` bytes at `atom.start` of the file, or
`none` when `pread` does not deliver them all (`goto error`). -/
def save_atom (stream : stream_t) (atom : atom_t) : Option Mem :=
  let blob := pread stream.file atom.size atom.start
  if blob.size ≠ atom.size then none else some blob

/-- The three main atoms as blobs (`NULL` is `none`). -/
structure blobs_t where
  ftyp : Option Mem := none
  moov : Option Mem := none
  mdat : Option Mem := none
deriving DecidableEq, Repr

/-- The first-level scan of `stream_mp4_parse`. `none` is fuel exhaustion;
otherwise the stream at loop exit together with `none` for `goto error` or
the blobs and the local `atom`. -/
def scan_loop : Nat → Nat → stream_t → blobs_t → atom_t →
    Option (stream_t × Option (blobs_t × atom_t))
  | 0, _, _, _, _ => none
  | fuel + 1, left, self, b, atom =>
    if left > 0 ∧ self.file_offset < self.file_length then
      let r := file_atom self atom
      let self := r.2.1
      let atom := r.2.2
      if r.1 = FTYP then
        match save_atom self atom with
        | none => some (self, none)
        | some blob =>
          scan_loop fuel (left - 1) { self with file_offset := atom.end_ }
            { b with ftyp := some blob } atom
      else if r.1 = MDAT then
        let atom := { atom with size := sub64 atom.data_start atom.start }
        match save_atom self atom with
        | none => some (self, none)
        | some blob =>
          scan_loop fuel left { self with file_offset := atom.end_ }
            { b with mdat := some blob } atom
      else if r.1 = MOOV then
        match save_atom self atom with
        | none => some (self, none)
        | some blob =>
          scan_loop fuel (left - 1) { self with file_offset := atom.end_ }
            { b with moov := some blob } atom
      else if r.1 = ____ then some (self, none)
      else scan_loop fuel left { self with file_offset := atom.end_ } b atom
    else some (self, some (b, atom))

/-- The `stsz` accumulation of the offsets walk, in `uint32_t`. -/
def offsets_stsz_loop (mem : Mem) (data : Nat) (sample_id : Nat) : Nat → Nat → Nat
  | 0, offset => offset
  | u + 1, offset =>
    offsets_stsz_loop mem data sample_id u
      (w32 (offset + read_32 mem (data + w32 (sub32 sample_id (u + 1) <<< 2))))

/-- The cursors of the offsets walk of `stream_mp4_parse` that survive from
one period to the next. -/
structure walk_t where
  t : Nat := 0
  n : Nat := 0
  k : Nat := 0
  time : Nat := 0
  sample : tbli_t := {}
  chunk : tbli_t := {}
  chunk_last : Nat := 0
deriving DecidableEq, Repr

/-- One iteration of the "walk space-time" loop of `stream_mp4_parse` (without
the final `time += period`): returns the cursors and the offset stored. The
two inner loops have the bodies of the `stts` and `stsc` loops of
`compile_seek` and resume at `sample.index` / `chunk.index`. -/
def offsets_step (mem : Mem) (stbl : stbl_t) (w : walk_t) : walk_t × Nat :=
  -- find sample number
  let r := seek_stts_loop mem stbl.stts.data w.time (stbl.stts.count - w.sample.index)
             w.sample.index { c := 0, d := 0, t := w.t, n := w.n }
  let l := r.2
  let sample_offset := if l.d = 0 then w.sample.offset else w32 (sub32 w.time l.t / l.d)
  let sample_id := if l.d = 0 then w32 stbl.max_samples
                   else w32 (MIN (w32 (l.n + sample_offset)) stbl.max_samples)
  -- find chunk number
  let q := seek_stsc_loop mem stbl sample_id (stbl.stsc.count - w.chunk.index)
             w.chunk.index w.chunk_last 0 w.k
  let c := q.2.2.1
  let k := q.2.2.2
  let chunk_last := q.2.1
  let d := sub32 sample_id k
  let chunk_offset := if c = 0 then w.chunk.offset else d / c
  let chunk_id := if c = 0 then w32 stbl.max_chunks else w32 (chunk_last + d / c)
  let chunk_sample := if c = 0 then 0 else d % c
  -- look-up stco/co64
  let offset :=
    if chunk_id < stbl.max_chunks then
      w32 (read_xx mem (stbl.coxx.data + w32 (chunk_id * stbl.coxx.bytes)) (stbl.coxx.bytes <<< 3))
    else w32 stbl.max_offset
  -- look-up stsz
  let offset :=
    if stbl.stsz.size ≠ 0 then w32 (offset + w32 (chunk_sample * stbl.stsz.size))
    else offsets_stsz_loop mem stbl.stsz.data sample_id chunk_sample offset
  ({ w with
      t := l.t, n := l.n, k := k
      sample := { index := r.1, offset := sample_offset }
      chunk := { index := q.1, offset := chunk_offset }
      chunk_last := chunk_last },
   offset)

/-- The "walk space-time" loop of `stream_mp4_parse`: `periods` iterations. -/
def offsets_loop (mem : Mem) (stbl : stbl_t) (period : Nat) : Nat → walk_t → List Nat
  | 0, _ => []
  | i + 1, w =>
    let r := offsets_step mem stbl w
    r.2 :: offsets_loop mem stbl period i { r.1 with time := w32 (r.1.time + period) }

/-- The search loop of the spatial normalisation: the largest `i` below the
bound with `offsets[i] < target`, or `none` when the loop ends with `i < 0`. -/
def spatial_loop (offsets : List Nat) (target : ℚ) : Nat → Option Nat
  | 0 => none
  | i + 1 => if (offsets.getD i 0 : ℚ) < target then some i else spatial_loop offsets target i

/-- The spatial normalisation of one limit (`start` or `stop`). The C variable
`i` is shared by both searches and is not initialised before the first; a
limit that is zero is not changed whatever the value of `i`. -/
def spatial_limit (self : stream_t) (limit : ℚ) : ℚ :=
  if limit ≠ 0 then
    match spatial_loop (self.offsets.getD []) limit self.periods with
    | some i => (i : ℚ) * self.period
    | none => 0
  else limit

/-- The block "compile limits" of `stream_mp4_parse`. -/
def prepare_maxs (mem : Mem) (file : file_t) : file_t :=
  let file :=
    if !VOID file.moov.vtrak.atom then
      { file with moov := { file.moov with vtrak := { file.moov.vtrak with mdia :=
        { file.moov.vtrak.mdia with minf := { file.moov.vtrak.mdia.minf with
          stbl := compile_maxs mem file.moov.vtrak.mdia.minf.stbl } } } } }
    else file
  if !VOID file.moov.strak.atom then
    { file with moov := { file.moov with strak := { file.moov.strak with mdia :=
      { file.moov.strak.mdia with minf := { file.moov.strak.mdia.minf with
        stbl := compile_maxs mem file.moov.strak.mdia.minf.stbl } } } } }
  else file

/-- The blocks "regenerate offsets (if required)" and "normalize limits" of
`stream_mp4_parse`. -/
def prepare_limits (self : stream_t) (mem : Mem) (file : file_t) : stream_t :=
  -- regenerate offsets (if required)
  let self :=
    if self.offsets.isNone then
      let trak := if VOID file.moov.vtrak.atom then file.moov.strak else file.moov.vtrak
      let period := w32 (to_uint64 (self.period * (trak.mdia.mdhd.scale : ℚ)))
      let offsets := offsets_loop mem trak.mdia.minf.stbl period self.periods {}
      { self with
        offsets := some offsets
        db := self.db.map (fun db => tcadbput db (self.path ++ ":offsets") (pack_off_t offsets)) }
    else self
  -- normalize limits
  if self.spatial = 1 then
    let self := { self with start := spatial_limit self self.start }
    { self with stop := spatial_limit self self.stop }
  else self

/-- The blocks "reset byte offsets", "perform seek on each track" and
"recalibrate meta-data" of `stream_mp4_parse`. -/
def prepare_seek (self : stream_t) (mem : Mem) (file : file_t) : stream_t × Mem × file_t :=
  -- reset byte offsets
  let self := { self with file_offset := 0, file_finish := 0 }
  -- perform seek on each track
  let r := compile_trak self file.moov.mvhd.scale mem file.moov.vtrak
  let self := r.1
  let file := { file with moov := { file.moov with vtrak := r.2.2 } }
  let r := compile_trak self file.moov.mvhd.scale r.2.1 file.moov.strak
  let self := r.1
  let file := { file with moov := { file.moov with strak := r.2.2 } }
  -- recalibrate meta-data
  let r := compile_moov r.2.1 file
  (self, r.1, compile_mdat self r.2)

/-- The part of `stream_mp4_parse` from "compile limits" to `compile_mdat`:
limits, offsets table, spatial normalisation, the seek on each track and the
recalibration of `moov` and `mdat`. Returns the stream, the `moov` blob and
the file as `compile_head` receives them. -/
def prepare (self : stream_t) (mem : Mem) (file : file_t) : stream_t × Mem × file_t :=
  let file := prepare_maxs mem file
  prepare_seek (prepare_limits self mem file) mem file

/-- The end of `stream_mp4_parse`: stores the zero-seek head and limits when
a cache is configured and `start` and `stop` are both zero at that point. -/
def store_zero (self : stream_t) : stream_t :=
  match self.db with
  | some db =>
    if self.start = 0 ∧ self.stop = 0 then
      let db := tcadbput db (self.path ++ ":zero:head") (self.head.getD {})
      let db := tcadbput db (self.path ++ ":zero:limits")
        (pack_off_t [self.file_offset, self.file_finish])
      { self with db := some db }
    else self
  | none => self

/-- The part of `stream_mp4_parse` after the meta-data was parsed
successfully: `prepare`, `compile_head` and the zero-seek store. -/
def regenerate (self : stream_t) (ftyp mem : Mem) (file : file_t) : stream_t :=
  let p := prepare self mem file
  store_zero (compile_head p.1 ftyp p.2.1 p.2.2).1

/-- The start of `stream_mp4_parse` ("attempt zero-seek", "perform
zero-seek"): looks up the offsets table and, for a request with `start` and
`stop` zero, the cached head and limits. -/
def zero_seek (self : stream_t) : stream_t :=
  let offsets := match self.db with
    | some db => tcadbget db (self.path ++ ":offsets")
    | none => none
  let self := { self with
    offsets := offsets.map unpack_off_t
    periods := (offsets.getD {}).size / 8 }
  match self.db with
  | some db =>
    if self.offsets.isSome ∧ self.start = 0 ∧ self.stop = 0 then
      let head := tcadbget db (self.path ++ ":zero:head")
      let self := { self with head := head, head_length := (head.getD {}).size }
      match head, tcadbget db (self.path ++ ":zero:limits") with
      | some _, some limits =>
        { self with
          file_offset := (unpack_off_t limits).getD 0 0
          file_finish := (unpack_off_t limits).getD 1 0 }
      | _, _ => { self with head := none }
    else self
  | none => self

/-- The store of the three main atoms in the cache ("store in cache"). -/
def store_atoms (path : String) (b : blobs_t) (moov mdat : Mem) (db : Cache) : Cache :=
  let db := match b.ftyp with
    | some ftyp => tcadbput db (path ++ ":atom:ftyp") ftyp
    | none => db
  let db := tcadbput db (path ++ ":atom:moov") moov
  tcadbput db (path ++ ":atom:mdat") mdat

/-- The part of `stream_mp4_parse` that obtains the three main atoms ("get
stored data", "reload meta-data"): from the cache when `moov` and `mdat` are
both there (a hit), else from the file (a miss), storing them in the cache
once `moov` and `mdat` were found. `none` is fuel exhaustion; the second
component is `none` for `goto error`. -/
def load_atoms (fuel : Nat) (self : stream_t) : Option (stream_t × Option (blobs_t × atom_t)) :=
  let b : blobs_t := match self.db with
    | some db =>
      { ftyp := tcadbget db (self.path ++ ":atom:ftyp")
        moov := tcadbget db (self.path ++ ":atom:moov")
        mdat := tcadbget db (self.path ++ ":atom:mdat") }
    | none => {}
  if b.moov.isNone ∨ b.mdat.isNone then
    let self := { self with cache_misses := self.cache_misses + 1 }
    match scan_loop fuel 3 { self with file_offset := 0 } b {} with
    | none => none
    | some (self, none) => some (self, none)
    | some (self, some (b, atom)) =>
      match b.moov, b.mdat with
      | some moov, some mdat =>
        some ({ self with db := self.db.map (store_atoms self.path b moov mdat) }, some (b, atom))
      | _, _ => some (self, none)
  else some ({ self with cache_hits := self.cache_hits + 1 }, some (b, {}))

/-- The part of `stream_mp4_parse` that maps the three blobs to atoms and
parses the meta-data ("map ftyp", "map moov", "map mdat", "parse meta-data").
`none` is fuel exhaustion, `some none` is `goto error`; otherwise the file
structure and the `moov` blob. `atom` is the local atom left by the scan. -/
def parse_meta (fuel : Nat) (b : blobs_t) (atom : atom_t) : Option (Option (file_t × Mem)) :=
  let file : file_t := {}
  -- map ftyp (if available)
  let file :=
    match b.ftyp with
    | some ftyp =>
      let r := data_atom ftyp
        { atom with data := some 0, data_size := ftyp.size, data_position := 0 } file.ftyp.atom
      if r.1 = ____ then { file with ftyp := {} } else { file with ftyp := { atom := r.2.2 } }
    | none => file
  let moov := b.moov.getD {}
  let mdat := b.mdat.getD {}
  -- map moov
  let r := data_atom moov
    { atom with data := some 0, data_size := moov.size, data_position := 0 } file.moov.atom
  if r.1 = ____ then some none else
  let file := { file with moov := { file.moov with atom := r.2.2 } }
  -- map mdat
  let r := data_atom mdat
    { atom with data := some 0, data_size := mdat.size, data_position := 0 } file.mdat.atom
  if r.1 = ____ then some none else
  let file := { file with mdat := { atom := r.2.2 } }
  -- parse meta-data
  match parse_moov moov fuel file.moov with
  | none => none
  | some (rc, pmoov, mem) =>
    if rc ≠ 0 then some none else some (some ({ file with moov := pmoov }, mem))

/-- The part of `stream_mp4_parse` between the zero-seek attempt and "compile
limits": obtains and parses the meta-data and computes `periods`. `none` is
fuel exhaustion; the second component is `none` for `goto error`, otherwise
the `ftyp` blob, the `moov` blob and the file structure. -/
def load_meta (fuel : Nat) (self : stream_t) : Option (stream_t × Option (Mem × Mem × file_t)) :=
  match load_atoms fuel self with
  | none => none
  | some (self, none) => some (self, none)
  | some (self, some (b, atom)) =>
    match parse_meta fuel b atom with
    | none => none
    | some none => some (self, none)
    | some (some (file, mem)) =>
      -- get duration (periods)
      if file.moov.mvhd.scale = 0 then some (self, none) else
      let self := { self with
        periods := w64 (Rat.ceil ((file.moov.mvhd.duration : ℚ) / (file.moov.mvhd.scale : ℚ))).toNat }
      if self.periods = 0 then some (self, none) else
      some (self, some (b.ftyp.getD {}, mem, file))

/-- Function `stream_mp4_parse`. Returns the status (`0` success, `1`
failure) and the stream; `none` when a child walk or the first-level scan
does not finish within `fuel` iterations. -/
def stream_mp4_parse (fuel : Nat) (self : stream_t) : Option (Nat × stream_t) :=
  let self := zero_seek self
  -- regenerate
  if self.head.isSome then
    some (0, { self with cache_hits := self.cache_hits + 1 })
  else
    match load_meta fuel self with
    | none => none
    | some (self, none) => some (1, self)
    | some (self, some (ftyp, mem, file)) => some (0, regenerate self ftyp mem file)

/-! ## The stream object -/

/-- Constant `STREAM_THROTTLE_FROM`: minimum length to throttle (1 MegaByte). -/
def STREAM_THROTTLE_FROM : Int := 1048576

/-- Constant `STREAM_THROTTLE_TIMEOUT`: send-timeout while playing (seconds). -/
def STREAM_THROTTLE_TIMEOUT : ℚ := 60

/-- Constant `STREAM_MP4_MIME`. -/
def STREAM_MP4_MIME : String := "video/mp4"

/-- Constant `STREAM_FLV_MIME`. -/
def STREAM_FLV_MIME : String := "video/x-flv"

/-- The value of an `off_t` (signed, 64 bits) with the given bit pattern. -/
def to_off_t (n : Nat) : Int :=
  if n % 2 ^ 64 < 2 ^ 63 then ((n % 2 ^ 64 : Nat) : Int) else ((n % 2 ^ 64 : Nat) : Int) - 2 ^ 64

/-- The bit pattern of an integer converted to a 64-bit unsigned type
(`size_t`) or stored in an `off_t`. -/
def to_size_t (z : Int) : Nat := (z % 2 ^ 64).toNat

/-- What the socket does with a `write` or `_sendfile` call: it takes up to
`n` bytes (`room n`), or the call returns `-1` with `errno` being `EAGAIN` or
`EINTR` (`again`), or `-1` with another `errno` (`broken`). -/
inductive socket_t where
  | room (n : Nat)
  | again
  | broken
deriving DecidableEq

/-- Library function `write(socket, buffer, count)`: the number of bytes
written, `-1` on error. -/
def sys_write (socket : socket_t) (count : Nat) : Int :=
  match socket with
  | socket_t.room n => (min n count : Nat)
  | _ => -1

/-- Function `_sendfile(socket, file, offset, bytes)`: the number of bytes of
the file sent from `offset` on, at most `bytes` and not beyond the end of the
file; `-1` on error. -/
def _sendfile (socket : socket_t) (file : Mem) (offset : Nat) (bytes : Nat) : Int :=
  match socket with
  | socket_t.room n => (min n (min bytes (file.size - offset)) : Nat)
  | _ => -1

/-- How a block of a callback ends: control falls through to the next block
(`through`), the callback returns (`back`), or it jumps to `finish`, where
the stream is destroyed and freed. -/
inductive flow_t where
  | through
  | back
  | finish
deriving DecidableEq

/-- Function `stream_destroy`. The structure is zeroed; the counters of the
worker, which the stream only points to, live on, `load` decreased by one. -/
def stream_destroy (self : stream_t) : stream_t :=
  { load := sub64 self.load 1
    cache_hits := self.cache_hits
    cache_misses := self.cache_misses
    data_total := self.data_total
    delay_sum := self.delay_sum
    delay_count := self.delay_count
    delay_average := self.delay_average }

/-- Function `_wait_cb` (timeout catcher) at time `now`. The second component
tells whether the stream was destroyed and freed. -/
def _wait_cb (self : stream_t) (now : ℚ) : stream_t × Bool :=
  -- measure
  let out := self.last_send + STREAM_THROTTLE_TIMEOUT
  -- perform
  if out < now then (stream_destroy self, true)
  else ({ self with wait_w := some (out - now) }, false)

/-- Function `_stream_schedule`: stops the workers and schedules the jump. -/
def _stream_schedule (self : stream_t) : stream_t :=
  { self with send_w := false, wait_w := none, jump_w := some self.period }

/-- Function `_stream_advance` at time `now`: starts the workers. The send
watcher is started unless `_wait_cb` has just freed the stream. -/
def _stream_advance (self : stream_t) (now : ℚ) : stream_t × Bool :=
  let r := _wait_cb self now
  if r.2 then r else ({ r.1 with send_w := true }, false)

/-- Function `_jump_cb` (retry advancing) at time `now`; the one-shot timer
that fired is stopped. -/
def _jump_cb (self : stream_t) (now : ℚ) : stream_t × Bool :=
  _stream_advance { self with jump_w := none } now

/-- The HTTP header text formatted by `_stream_any_parse`. -/
def any_head (http mime : String) (file_length : Nat) : String :=
  "HTTP/" ++ http ++ " 200 OK\n" ++
  "Content-Type: " ++ mime ++ "\n" ++
  "Content-Length: " ++ toString file_length ++ "\n" ++
  "Cache-Control: no-store, no-cache, must-revalidate, post-check=0, pre-check=0\n" ++
  "Expires: Mon, 29 Mar 1982 12:00:00 GMT\n" ++
  "Server: " ++ "Loomiere" ++ " " ++ "2.0.1-beta" ++ "\n\n"

/-- Function `_stream_any_parse`: the generic parser, which sends the whole
file. -/
def _stream_any_parse (self : stream_t) : Nat × stream_t :=
  -- headers
  let head := c_string (any_head self.http self.mime self.file_length)
  let self := { self with head := some head, head_length := head.size, head_offset := 0 }
  -- options
  (0, { self with
    throttle := 0
    file_offset := 0
    file_target := self.file_length
    file_finish := self.file_length })

/-- Block "send headers" of `_send_cb`. `socket` is what the socket does with
the `write` call. -/
def _send_cb_head (self : stream_t) (socket : socket_t) : flow_t × stream_t :=
  if self.head.isSome then
    -- push data
    let result : Int :=
      if sub64 self.head_length self.head_offset ≠ 0 then
        sys_write socket (sub64 self.head_length self.head_offset)
      else 0
    if result = -1 ∧ socket ≠ socket_t.again then (flow_t.finish, self) else
    let result := if result = -1 then 0 else result
    -- advance/retry
    let self := { self with
      head_offset := w64 (self.head_offset + to_size_t result)
      data_total := w64 (self.data_total + to_size_t result) }
    if to_off_t self.head_offset < to_off_t self.head_length then (flow_t.back, self) else
    -- complete
    (flow_t.through, { self with head_offset := 0, head_length := 0, head := none })
  else (flow_t.through, self)

/-- Block "(re)throttle" of `_send_cb` at time `now`: the send target. The
period index is `(off_t)ceil(load_head / period)`, compared with `periods` as
an unsigned value. -/
def _send_cb_throttle (self : stream_t) (now : ℚ) : stream_t :=
  if self.throttle ≠ 0 then
    -- measure
    let play_head := now - self.tzero
    let self := { self with load_head := self.start + play_head + self.throttle }
    let target : Int := Rat.ceil (self.load_head / self.period)
    if to_size_t target ≥ self.periods then
      { self with file_target := self.file_finish }
    else
      { self with file_target := (self.offsets.getD []).getD (to_size_t target) 0 }
  else
    { self with file_target := self.file_finish }

/-- Blocks "cumulate load delay", "overflow", "measure" and "cumulate" of
`_send_cb`; `old_file_target` and `old_load_head` are the values before the
block "(re)throttle". -/
def _send_cb_delay (self : stream_t) (old_file_target : Nat) (old_load_head : ℚ) : stream_t :=
  -- overflow
  let self :=
    if self.delay_count ≥ 1000000000 then { self with delay_sum := 0, delay_count := 0 }
    else self
  -- measure
  let dd : ℚ :=
    if to_off_t self.file_offset < to_off_t old_file_target then self.load_head - old_load_head
    else 0
  -- cumulate
  let self := { self with delay_sum := self.delay_sum + dd }
  let self := { self with delay_count := self.delay_count + 1 }
  { self with delay_average := self.delay_sum / self.delay_count }

/-- Blocks "push file data", "advance/retry", "complete/finish", "pop cork on
first full target" and "re(schedule)" of `_send_cb`. `socket` is what the
socket does with the `_sendfile` call, `cork_fails` tells whether `_setcork`
reports an error. -/
def _send_cb_file (self : stream_t) (socket : socket_t) (cork_fails : Bool) :
    flow_t × stream_t :=
  -- push file data
  let result : Int :=
    if sub64 self.file_target self.file_offset ≠ 0 then
      _sendfile socket self.file self.file_offset (sub64 self.file_target self.file_offset)
    else 0
  if result = -1 ∧ socket ≠ socket_t.again then (flow_t.finish, self) else
  let result := if result = -1 then 0 else result
  -- advance/retry
  let self := { self with
    file_offset := w64 (self.file_offset + to_size_t result)
    data_total := w64 (self.data_total + to_size_t result) }
  if to_off_t self.file_offset < to_off_t self.file_target then (flow_t.back, self) else
  -- complete/finish
  if self.file_offset = self.file_finish then (flow_t.finish, self) else
  -- pop cork on first full target
  if self.nagle ≠ 0 ∧ cork_fails then (flow_t.finish, { self with nagle := 0 }) else
  let self := if self.nagle ≠ 0 then { self with nagle := 0 } else self
  -- re(schedule)
  (flow_t.back, _stream_schedule self)

/-- Function `_send_cb` (push data onto the socket) at time `now`.
`head_socket` and `file_socket` are what the socket does with the `write` and
with the `_sendfile` call. The second component tells whether the stream was
destroyed and freed (`finish`). -/
def _send_cb (self : stream_t) (now : ℚ) (head_socket file_socket : socket_t)
    (cork_fails : Bool) : stream_t × Bool :=
  -- activity
  let self := { self with last_send := now }
  -- send headers
  match _send_cb_head self head_socket with
  | (flow_t.finish, self) => (stream_destroy self, true)
  | (flow_t.back, self) => (self, false)
  | (flow_t.through, self) =>
    -- pivot load delay
    let old_file_target := self.file_target
    let old_load_head := self.load_head
    -- (re)throttle
    let self := _send_cb_throttle self now
    -- cumulate load delay
    let self := _send_cb_delay self old_file_target old_load_head
    -- push file data
    match _send_cb_file self file_socket cork_fails with
    | (flow_t.finish, self) => (stream_destroy self, true)
    | (_, self) => (self, false)

/-- Function `_stream_error` at time `now`: sends an error HTTP response. -/
def _stream_error (self : stream_t) (code : String) (now : ℚ) : stream_t × Bool :=
  -- cancel
  let self := { self with throttle := 0, file_offset := 0, file_target := 0, file_finish := 0 }
  -- headers
  let head := c_string ("HTTP/" ++ self.http ++ " " ++ code ++ "\n")
  let self := { self with head := some head, head_length := head.size }
  -- trigger transfer
  let self := { self with last_send := now }
  _stream_advance self now

/-! ## The FLV parser -/

/-- The six results of the Lua function `flv.onMetaData`, from the bottom of
the stack to the top: the offsets table (entry `i + 1` at position `i`, read
with `lua_tointeger`), `periods`, `file_offset`, `file_finish`, `start` and
`stop`. -/
structure flv_meta_t where
  offsets : List Int := []
  periods : Int := 0
  file_offset : Int := 0
  file_finish : Int := 0
  start : ℚ := 0
  stop : ℚ := 0
deriving DecidableEq

/-- The Lua function `flv.onMetaData(meta, period, start, stop, spatial,
file_length)`, which is not part of the C sources: `none` when the call
raises an error or when its last result is `nil`. -/
abbrev flv_compiler := Mem → ℚ → ℚ → ℚ → Int → Nat → Option flv_meta_t

/-- The fingerprint `onMetaData[14] = "\x02\x00\x0AonMetaData"` of
`stream_flv_parse`. -/
def onMetaData : List Nat := [2, 0, 10, 111, 110, 77, 101, 116, 97, 68, 97, 116, 97, 0]

/-- The loop "check onMetaData fingerprint" of `stream_flv_parse`: `found`
after comparing `onMetaData[i]` with `buffer[11 + i]` for `i` from 12 down
to 0, stopping at the first difference. -/
def flv_found (buffer : Mem) : Nat → Bool
  | 0 => true
  | i + 1 =>
    if onMetaData.getD i 0 = byte_at buffer (11 + i) then flv_found buffer i else false

/-- The loop "find onMetaData" of `stream_flv_parse`, from the tag at
`offset`: the binary meta-data (`some none` is `goto error`, `none` means that
the loop does not end within `fuel` tags). -/
def flv_find (file : Mem) : Nat → Nat → Option (Option Mem)
  | 0, _ => none
  | fuel + 1, offset =>
    -- read tag
    let buffer := pread file 24 offset
    if buffer.size ≠ 24 then some none else
    let meta_size := read_24 buffer 1
    let offset := w64 (offset + 11)
    -- meta-tags must come before media-tags
    if byte_at buffer 0 ≠ 0x12 then some none else
    -- read binary
    if flv_found buffer 13 then
      let offset := w64 (offset + 13)
      if meta_size < 13 then some none else
      let meta_size := meta_size - 13
      let meta_data := pread file meta_size offset
      if meta_data.size ≠ meta_size then some none else some (some meta_data)
    else
      -- find next
      flv_find file fuel (w64 (w64 (offset + meta_size) + 4))

/-- The HTTP header text formatted by `stream_flv_parse`, with the 13 dots
that make room for the FLV header. -/
def flv_head (http : String) (content_length : Nat) : String :=
  "HTTP/" ++ http ++ " 200 OK\n" ++
  "Content-Type: " ++ STREAM_FLV_MIME ++ "\n" ++
  "Content-Length: " ++ toString content_length ++ "\n" ++
  "Cache-Control: no-store, no-cache, must-revalidate, post-check=0, pre-check=0\n" ++
  "Expires: Mon, 29 Mar 1982 12:00:00 GMT\n" ++
  "Server: " ++ "Loomiere" ++ " " ++ "2.0.1-beta" ++ "\n\n" ++
  "............."

/-- The 13 bytes `"FLV\x01\x05\x00\x00\x00\x09\x00\x00\x00\x00"`. -/
def flv_header : List Nat := [70, 76, 86, 1, 5, 0, 0, 0, 9, 0, 0, 0, 0]

/-- Library function `memcpy(buffer + p, bytes, n)` for a list of `n` bytes. -/
def memcpy_list (buffer : Mem) (p : Nat) (bytes : List Nat) : Mem :=
  (List.range bytes.length).foldl (fun buf i => store buf (p + i) (bytes.getD i 0)) buffer

/-- The exit at label `error` of `stream_flv_parse`. -/
def flv_error (self : stream_t) : Nat × stream_t :=
  (1, { self with periods := 0, offsets := none })

/-- The blocks "generate HTTP headers" and "inject FLV header" of
`stream_flv_parse`, which end with success. -/
def flv_finish (self : stream_t) : Nat × stream_t :=
  -- generate HTTP headers
  let head := c_string (flv_head self.http
    (w64 (w64 (sub64 self.file_finish self.file_offset) + 13)))
  let self := { self with head_length := head.size, head_offset := 0 }
  -- inject FLV header
  (0, { self with head := some (memcpy_list head (sub64 self.head_length 13) flv_header) })

/-- The blocks "prepare call", "invoke compiler", "extract results",
"safety" and "regenerate offsets" of `stream_flv_parse`, for the binary
meta-data `meta_data`. -/
def flv_compile (flv : flv_compiler) (self : stream_t) (meta_data : Mem) : Nat × stream_t :=
  -- invoke compiler
  match flv meta_data self.period self.start self.stop self.spatial self.file_length with
  | none => flv_error self
  | some r =>
    -- extract results
    let self := { self with
      stop := r.stop
      start := r.start
      file_finish := to_size_t r.file_finish
      file_offset := to_size_t r.file_offset
      periods := to_size_t r.periods }
    -- safety
    let self : stream_t := if self.start = 0 then { self with file_offset := 13 } else self
    let self : stream_t :=
      if self.stop = 0 then { self with file_finish := self.file_length } else self
    -- regenerate offsets
    let self :=
      if self.offsets.isNone then
        let offsets := (List.range self.periods).map (fun i => to_size_t (r.offsets.getD i 0))
        { self with
          offsets := some offsets
          db := self.db.map (fun db => tcadbput db (self.path ++ ":offsets") (pack_off_t offsets)) }
      else self
    flv_finish self

/-- The block "get offsets" of `stream_flv_parse`: the offsets table of the
path, when it is cached. -/
def flv_offsets (self : stream_t) : stream_t :=
  let offsets := match self.db with
    | some db => tcadbget db (self.path ++ ":offsets")
    | none => none
  { self with
    offsets := offsets.map unpack_off_t
    periods := (offsets.getD {}).size / 8 }

/-- The block "(re)generate" of `stream_flv_parse` for meta-data that is not
cached: checks the fingerprint of the file, finds the meta-data tag, stores
the meta-data and compiles them. -/
def flv_scan (flv : flv_compiler) (fuel : Nat) (self : stream_t) : Option (Nat × stream_t) :=
  let self :=
    if self.db.isSome then { self with cache_misses := self.cache_misses + 1 } else self
  -- check FLV fingerprint
  let buffer := pread self.file 13 0
  if buffer.size ≠ 13 ∨ byte_at buffer 0 ≠ 70 ∨ byte_at buffer 1 ≠ 76 ∨
      byte_at buffer 2 ≠ 86 ∨ byte_at buffer 3 ≠ 0x01 then
    some (flv_error self)
  else
    -- find onMetaData
    match flv_find self.file fuel 13 with
    | none => none
    | some none => some (flv_error self)
    | some (some meta_data) =>
      -- store meta
      let self := { self with
        db := self.db.map (fun db => tcadbput db (self.path ++ ":meta") meta_data) }
      some (flv_compile flv self meta_data)

/-- Function `stream_flv_parse`. `flv` is the Lua function `flv.onMetaData`.
Returns the status (`0` success, `1` failure) and the stream; `none` when the
search for the meta-data tag does not end within `fuel` tags. -/
def stream_flv_parse (flv : flv_compiler) (fuel : Nat) (self : stream_t) :
    Option (Nat × stream_t) :=
  -- get offsets
  let self := flv_offsets self
  -- avoid zero-seek
  if self.offsets.isSome ∧ self.start = 0 ∧ self.stop = 0 then
    -- count, prepare
    some (flv_finish { self with
      cache_hits := self.cache_hits + 1
      file_offset := 13
      file_finish := self.file_length })
  else
    -- get cache
    let meta_data := match self.db with
      | some db => tcadbget db (self.path ++ ":meta")
      | none => none
    -- (re)generate
    match meta_data with
    | some meta_data =>
      some (flv_compile flv { self with cache_hits := self.cache_hits + 1 } meta_data)
    | none => flv_scan flv fuel self

/-! ## The constructor of the stream -/

/-- The blocks "increase load", "choose parser", "initialize", "get length"
and "parse" of `stream_new`. `disk` maps a path to the content of the file
that `open` finds there (`none` when `open` fails) and `flv` is the Lua
function `flv.onMetaData`. The status is that of the parser, `1` also when
`open` fails (`goto error` in both cases); `none` when the parser does not end
within `fuel` steps. -/
def stream_new_parse (disk : String → Option Mem) (flv : flv_compiler) (fuel : Nat)
    (self : stream_t) : Option (Nat × stream_t) :=
  -- increase load
  let self := { self with load := w64 (self.load + 1) }
  -- choose parser
  let self :=
    if self.mime = STREAM_MP4_MIME then self
    else if self.mime = STREAM_FLV_MIME then self
    else { self with throttle := 0 }
  -- initialize
  match disk self.path with
  | none => some (1, self)
  | some file =>
    -- get length
    let self := { self with file := file, file_length := file.size }
    -- parse
    if self.mime = STREAM_MP4_MIME then stream_mp4_parse fuel self
    else if self.mime = STREAM_FLV_MIME then stream_flv_parse flv fuel self
    else some (_stream_any_parse self)

/-- Function `stream_new` at time `now`. The function always returns 0; the
result is the stream and whether it was destroyed and freed, `none` when the
parser does not end within `fuel` steps. -/
def stream_new (disk : String → Option Mem) (flv : flv_compiler) (fuel : Nat) (now : ℚ)
    (self : stream_t) : Option (stream_t × Bool) :=
  match stream_new_parse disk flv fuel self with
  | none => none
  | some (status, self) =>
    -- error
    if status ≠ 0 then some (_stream_error self "500 Internal Server Error" now) else
    -- push cork
    let self := { self with nagle := 1 }
    -- cancel throttling for small chunks
    let self :=
      if to_off_t (sub64 self.file_finish self.file_offset) ≤ STREAM_THROTTLE_FROM then
        { self with throttle := 0 }
      else self
    -- trigger transfer
    let self := { self with last_send := now, tzero := now }
    some (_stream_advance self now)

/-! ## Workers and the engine -/

/-- Command `COMMAND_NONE`. -/
def COMMAND_NONE : Nat := 0

/-- Command `COMMAND_STOP`. -/
def COMMAND_STOP : Nat := 1

/-- Command `COMMAND_LOAD`. -/
def COMMAND_LOAD : Nat := 2

/-- Command `COMMAND_ZERO`. -/
def COMMAND_ZERO : Nat := 3

/-- Struct `task_node_t`: a command of the incoming queue; the links `next`
and `prev` are the order of the list that holds the nodes. -/
structure task_node_t where
  command : Nat := 0
  stream : Option stream_t := none
deriving DecidableEq

/-- Struct `worker_t`, without the thread, the lock, the event loop and the
Lua state; `queue` holds the nodes between `head` and `tail`, oldest first. -/
structure worker_t where
  id : Nat := 0
  db : Option Cache := none
  load : Nat := 0
  data_total : Nat := 0
  data_pivot : ℚ := 0
  cache_hits : Nat := 0
  cache_misses : Nat := 0
  delay_sum : ℚ := 0
  delay_count : ℚ := 0
  delay_average : ℚ := 0
  queue : List task_node_t := []
deriving DecidableEq

/-- Struct `engine_t`, without the lock. -/
structure engine_t where
  workers : Nat := 0
  clients : Nat := 0
  throttle : ℚ := 0
  cache : Nat := 0
  pool : List worker_t := []
  db : Option Cache := none
deriving DecidableEq

/-- Function `_queue_push`: appends a node before `tail`. -/
def _queue_push (self : worker_t) (command : Nat) (stream : Option stream_t) : Nat × worker_t :=
  (0, { self with queue := self.queue ++ [{ command := command, stream := stream }] })

/-- Function `worker_enqueue`. The stream is handed the context of the worker
and pointers to its counters, of which the model copies the current values. -/
def worker_enqueue (self : worker_t) (stream : stream_t) : Nat × worker_t :=
  -- pass-on context, pass-on statistics
  let stream := { stream with
    db := self.db
    load := self.load
    cache_hits := self.cache_hits
    cache_misses := self.cache_misses
    data_total := self.data_total
    delay_sum := self.delay_sum
    delay_count := self.delay_count
    delay_average := self.delay_average }
  -- enlist stream
  _queue_push self COMMAND_LOAD (some stream)

/-- Indicator `ENGINE_LOAD`. -/
def ENGINE_LOAD : Nat := 0

/-- Indicator `ENGINE_CACHE_HITS`. -/
def ENGINE_CACHE_HITS : Nat := 3

/-- Indicator `ENGINE_CACHE_MISSES`. -/
def ENGINE_CACHE_MISSES : Nat := 4

/-- Function `engine_monitor` for the indicators that are sums over the pool
(`ENGINE_LOAD`, `ENGINE_CACHE_HITS`, `ENGINE_CACHE_MISSES`) and for unknown
indicators; `none` for the indicators that read the store or the clock
(`ENGINE_CACHE_USED`, `ENGINE_CACHE_ITEMS`, `ENGINE_DATA_TOTAL`,
`ENGINE_DATA_DELAY`), which are not modelled. -/
def engine_monitor (self : engine_t) (indicator : Nat) : Option ℚ :=
  if indicator = ENGINE_LOAD then
    some ((List.range self.workers).foldl
      (fun result i => result + ((self.pool.getD i {}).load : ℚ)) 0)
  else if indicator = ENGINE_CACHE_HITS then
    some ((List.range self.workers).foldl
      (fun result i => result + ((self.pool.getD i {}).cache_hits : ℚ)) 0)
  else if indicator = ENGINE_CACHE_MISSES then
    some ((List.range self.workers).foldl
      (fun result i => result + ((self.pool.getD i {}).cache_misses : ℚ)) 0)
  else if indicator ≤ 6 then none
  else some 0

/-- The value of an `int` (signed, 32 bits) that a `size_t` is converted to. -/
def to_int (n : Nat) : Int :=
  if n % 2 ^ 32 < 2 ^ 31 then ((n % 2 ^ 32 : Nat) : Int) else ((n % 2 ^ 32 : Nat) : Int) - 2 ^ 32

/-- The loop "choose" of `engine_dispatch` over the workers `i`, `i + 1`, ...
(`k` of them): the `int` variable `minimum` and the index of the chosen
worker. `minimum > pool[i].load` compares as `size_t`. -/
def engine_choose (pool : List worker_t) : Nat → Nat → Int → Nat → Int × Nat
  | 0, _, minimum, worker => (minimum, worker)
  | k + 1, i, minimum, worker =>
    if to_size_t minimum > (pool.getD i {}).load then
      engine_choose pool k (i + 1) (to_int (pool.getD i {}).load) i
    else engine_choose pool k (i + 1) minimum worker

/-- Function `engine_dispatch`: hands the stream to the chosen worker. Returns
the status, the engine and the index of the chosen worker. -/
def engine_dispatch (self : engine_t) (stream : stream_t) : Nat × engine_t × Nat :=
  -- choose
  let r := engine_choose self.pool (self.workers - 1) 1 (to_int (self.pool.getD 0 {}).load) 0
  let worker := r.2
  -- configure
  let stream := { stream with throttle := self.throttle }
  -- ready
  let e := worker_enqueue (self.pool.getD worker {}) stream
  (e.1, { self with pool := self.pool.set worker e.2 }, worker)

/-- The second argument of the Lua function `engine:dispatch`: the stream
definition, a Lua table. `getfd` is the result of `client.socket:getfd()`
(`none` when the call fails), `setfd` tells whether `client.socket:setfd(-1)`
succeeds; the other fields are `client.request.http`, `path`, `mime`,
`spatial`, `start` and `stop`, of the types that the `luaL_check` functions
demand. -/
structure definition_t where
  getfd : Option Int := none
  setfd : Bool := true
  http : String := ""
  path : String := ""
  mime : String := ""
  spatial : Bool := false
  start : ℚ := 0
  stop : ℚ := 0
deriving DecidableEq

/-- What `luaF_engine_dispatch` returns to Lua: `true` (`success`), or `nil`
and the message `"overload"` or `"invalid"`. -/
inductive dispatch_t where
  | success
  | overload
  | invalid
deriving DecidableEq

/-- Function `luaF_engine_dispatch`. `definition` is the second argument
(`none` when it is not a table). -/
def luaF_engine_dispatch (self : engine_t) (definition : Option definition_t) :
    dispatch_t × engine_t :=
  -- stream definition
  match definition with
  | none => (dispatch_t.invalid, self)
  | some d =>
    -- create stream
    let stream : stream_t := {}
    -- check overload
    if self.clients ≠ 0 ∧ (engine_monitor self ENGINE_LOAD).getD 0 ≥ (self.clients : ℚ) then
      (dispatch_t.overload, self)
    else
    -- extract client (socket:getfd(), request.http)
    match d.getfd with
    | none => (dispatch_t.invalid, self)
    | some _ =>
      if !d.setfd then (dispatch_t.invalid, self) else
      let stream := { stream with http := d.http.take 8 }
      -- the period is currently always 1
      let stream := { stream with period := 1 }
      -- get arguments
      let stream := { stream with
        path := d.path
        mime := d.mime
        spatial := if d.spatial then 1 else 0
        start := d.start
        stop := d.stop }
      -- dispatch
      let r := engine_dispatch self stream
      if r.1 ≠ 0 then (dispatch_t.overload, r.2.1) else (dispatch_t.success, r.2.1)

/-! ## Observations and sample inputs -/

/-- Total byte length of the boxes gathered by `compile_head`: the sum of the
sizes of the gather vectors, in emission order. -/
def gather_size (file : file_t) : Nat :=
  ((compile_head_gather file).1.iovs.map iov_t.size).sum

/-- The running total `iovs.size` agrees with the gathered vectors. -/
def iovs_inv (i : iovs_t) : Prop := i.size = w64 ((i.iovs.map iov_t.size).sum)

/-- A sample MP4 file of 595 bytes: `ftyp` (20 bytes), `moov` (517 bytes) with
one enabled video track, `mdat` (58 bytes, payload at 545). The track has 10
samples of 5 bytes and 1 tick each at 10 ticks per second (`stts` = one entry
`(10, 1)`), sync samples 1 and 6 (`stss`), three chunks holding 4, 4 and 2
samples (`stsc` = `(1, 4, 1), (3, 2, 1)`) at file offsets 545, 565 and 585
(`stco`). -/
def sample_file : Mem := Mem.of_list
  [0, 0, 0, 20, 102, 116, 121, 112, 105, 115, 111, 109, 0, 0, 0, 0, 105, 115, 111, 109, 0, 0, 2, 5,
   109, 111, 111, 118, 0, 0, 0, 108, 109, 118, 104, 100, 0, 0, 0, 0, 0, 0, 0, 0, 0, 0, 0, 0,
   0, 0, 0, 10, 0, 0, 0, 10, 0, 1, 0, 0, 1, 0, 0, 0, 0, 0, 0, 0, 0, 0, 0, 0,
   0, 0, 0, 0, 0, 0, 0, 0, 0, 0, 0, 0, 0, 0, 0, 0, 0, 0, 0, 0, 0, 0, 0, 0,
   0, 0, 0, 0, 0, 0, 0, 0, 0, 0, 0, 0, 7, 7, 7, 7, 7, 7, 7, 7, 7, 7, 7, 7,
   7, 7, 7, 7, 7, 7, 7, 7, 7, 7, 7, 7, 0, 0, 0, 2, 0, 0, 1, 145, 116, 114, 97, 107,
   0, 0, 0, 92, 116, 107, 104, 100, 0, 0, 0, 1, 0, 0, 0, 0, 0, 0, 0, 0, 0, 0, 0, 1,
   0, 0, 0, 0, 0, 0, 0, 10, 0, 0, 0, 0, 0, 0, 0, 0, 0, 0, 0, 0, 0, 0, 0, 0,
   0, 0, 0, 0, 0, 0, 0, 0, 0, 0, 0, 0, 0, 0, 0, 0, 0, 0, 0, 0, 0, 0, 0, 0,
   0, 0, 0, 0, 0, 0, 0, 0, 0, 0, 0, 0, 0, 0, 0, 0, 0, 0, 0, 0, 0, 0, 1, 45,
   109, 100, 105, 97, 0, 0, 0, 32, 109, 100, 104, 100, 0, 0, 0, 0, 0, 0, 0, 0, 0, 0, 0, 0,
   0, 0, 0, 10, 0, 0, 0, 10, 0, 0, 0, 0, 0, 0, 0, 33, 104, 100, 108, 114, 0, 0, 0, 0,
   0, 0, 0, 0, 118, 105, 100, 101, 0, 0, 0, 0, 0, 0, 0, 0, 0, 0, 0, 0, 0, 0, 0, 0,
   228, 109, 105, 110, 102, 0, 0, 0, 20, 118, 109, 104, 100, 0, 0, 0, 1, 0, 0, 0, 0, 0, 0, 0,
   0, 0, 0, 0, 200, 115, 116, 98, 108, 0, 0, 0, 16, 115, 116, 115, 100, 0, 0, 0, 0, 0, 0, 0,
   0, 0, 0, 0, 24, 115, 116, 116, 115, 0, 0, 0, 0, 0, 0, 0, 1, 0, 0, 0, 10, 0, 0, 0,
   1, 0, 0, 0, 24, 115, 116, 115, 115, 0, 0, 0, 0, 0, 0, 0, 2, 0, 0, 0, 1, 0, 0, 0,
   6, 0, 0, 0, 40, 115, 116, 115, 99, 0, 0, 0, 0, 0, 0, 0, 2, 0, 0, 0, 1, 0, 0, 0,
   4, 0, 0, 0, 1, 0, 0, 0, 3, 0, 0, 0, 2, 0, 0, 0, 1, 0, 0, 0, 60, 115, 116, 115,
   122, 0, 0, 0, 0, 0, 0, 0, 0, 0, 0, 0, 10, 0, 0, 0, 5, 0, 0, 0, 5, 0, 0, 0,
   5, 0, 0, 0, 5, 0, 0, 0, 5, 0, 0, 0, 5, 0, 0, 0, 5, 0, 0, 0, 5, 0, 0, 0,
   5, 0, 0, 0, 5, 0, 0, 0, 28, 115, 116, 99, 111, 0, 0, 0, 0, 0, 0, 0, 3, 0, 0, 2,
   33, 0, 0, 2, 53, 0, 0, 2, 73, 0, 0, 0, 58, 109, 100, 97, 116, 9, 9, 9, 9, 9, 9, 9,
   9, 9, 9, 9, 9, 9, 9, 9, 9, 9, 9, 9, 9, 9, 9, 9, 9, 9, 9, 9, 9, 9, 9, 9,
   9, 9, 9, 9, 9, 9, 9, 9, 9, 9, 9, 9, 9, 9, 9, 9, 9, 9, 9]


/-- A request for the whole of `sample_file` (`start = 0`, `stop = 0`) over
HTTP/1.1, with a period of one second and an empty cache. -/
def sample_stream : stream_t :=
  { http := "1.1", period := 1, path := "a.mp4", db := some [],
    file := sample_file, file_length := 595 }

/-- The arguments with which `stream_mp4_parse` enters `compile_head` for a
request that is not served from the zero-seek cache (all empty when the
meta-data cannot be loaded). -/
def head_input (fuel : Nat) (self : stream_t) : stream_t × Mem × Mem × file_t :=
  match load_meta fuel (zero_seek self) with
  | some (self, some (ftyp, mem, file)) =>
    let p := prepare self mem file
    (p.1, ftyp, p.2.1, p.2.2)
  | _ => ({}, {}, {}, {})

/-- The entry `i` of the chunk-offset table (`stco` or `co64`) of a sample
table, read from `mem`. -/
def coxx_entry (mem : Mem) (stbl : stbl_t) (i : Nat) : Nat :=
  read_xx mem (stbl.coxx.data + stbl.coxx.bytes * i) (stbl.coxx.bytes <<< 3)

/-- The address ranges `[lo, hi)` of the `moov` blob that `relocate_trak`
rewrites for a track: its `stss` entries (if any) and its chunk offsets. -/
def relocated_ranges (trak : trak_t) : List (Nat × Nat) :=
  if VOID trak.atom then [] else
  (if VOID trak.mdia.minf.stbl.stss.atom then []
   else [(trak.mdia.minf.stbl.stss.data,
          trak.mdia.minf.stbl.stss.data + 4 * trak.mdia.minf.stbl.stss.count)]) ++
  [(trak.mdia.minf.stbl.coxx.data,
    trak.mdia.minf.stbl.coxx.data +
      trak.mdia.minf.stbl.coxx.bytes * trak.mdia.minf.stbl.coxx.count)]

/-- The range `r` does not meet `[lo, hi)`. -/
def apart (r : Nat × Nat) (lo hi : Nat) : Prop := r.2 ≤ lo ∨ hi ≤ r.1

instance (r : Nat × Nat) (lo hi : Nat) : Decidable (apart r lo hi) := by
  unfold apart; infer_instance

/-- A sample MP4 file of 567 bytes with one enabled sound track and no sync
sample table: `ftyp`, `moov`, `mdat` (payload at 517). The track has 10
samples of 5 bytes and 1 tick each at 10 ticks per second, in three chunks
holding 4, 4 and 2 samples (`stsc` = `(1, 4, 1), (3, 2, 1)`) at file offsets
517, 537 and 557. -/
def sound_file : Mem := Mem.of_list
  [0, 0, 0, 20, 102, 116, 121, 112, 105, 115, 111, 109, 0, 0, 0, 0, 105, 115, 111, 109, 0, 0, 1, 233,
   109, 111, 111, 118, 0, 0, 0, 108, 109, 118, 104, 100, 0, 0, 0, 0, 0, 0, 0, 0, 0, 0, 0, 0,
   0, 0, 0, 10, 0, 0, 0, 10, 0, 1, 0, 0, 1, 0, 0, 0, 0, 0, 0, 0, 0, 0, 0, 0,
   0, 0, 0, 0, 0, 0, 0, 0, 0, 0, 0, 0, 0, 0, 0, 0, 0, 0, 0, 0, 0, 0, 0, 0,
   0, 0, 0, 0, 0, 0, 0, 0, 0, 0, 0, 0, 7, 7, 7, 7, 7, 7, 7, 7, 7, 7, 7, 7,
   7, 7, 7, 7, 7, 7, 7, 7, 7, 7, 7, 7, 0, 0, 0, 2, 0, 0, 1, 117, 116, 114, 97, 107,
   0, 0, 0, 92, 116, 107, 104, 100, 0, 0, 0, 1, 0, 0, 0, 0, 0, 0, 0, 0, 0, 0, 0, 1,
   0, 0, 0, 0, 0, 0, 0, 10, 0, 0, 0, 0, 0, 0, 0, 0, 0, 0, 0, 0, 0, 0, 0, 0,
   0, 0, 0, 0, 0, 0, 0, 0, 0, 0, 0, 0, 0, 0, 0, 0, 0, 0, 0, 0, 0, 0, 0, 0,
   0, 0, 0, 0, 0, 0, 0, 0, 0, 0, 0, 0, 0, 0, 0, 0, 0, 0, 0, 0, 0, 0, 1, 17,
   109, 100, 105, 97, 0, 0, 0, 32, 109, 100, 104, 100, 0, 0, 0, 0, 0, 0, 0, 0, 0, 0, 0, 0,
   0, 0, 0, 10, 0, 0, 0, 10, 0, 0, 0, 0, 0, 0, 0, 33, 104, 100, 108, 114, 0, 0, 0, 0,
   0, 0, 0, 0, 115, 111, 117, 110, 0, 0, 0, 0, 0, 0, 0, 0, 0, 0, 0, 0, 0, 0, 0, 0,
   200, 109, 105, 110, 102, 0, 0, 0, 16, 115, 109, 104, 100, 0, 0, 0, 0, 0, 0, 0, 0, 0, 0, 0,
   176, 115, 116, 98, 108, 0, 0, 0, 16, 115, 116, 115, 100, 0, 0, 0, 0, 0, 0, 0, 0, 0, 0, 0,
   24, 115, 116, 116, 115, 0, 0, 0, 0, 0, 0, 0, 1, 0, 0, 0, 10, 0, 0, 0, 1, 0, 0, 0,
   40, 115, 116, 115, 99, 0, 0, 0, 0, 0, 0, 0, 2, 0, 0, 0, 1, 0, 0, 0, 4, 0, 0, 0,
   1, 0, 0, 0, 3, 0, 0, 0, 2, 0, 0, 0, 1, 0, 0, 0, 60, 115, 116, 115, 122, 0, 0, 0,
   0, 0, 0, 0, 0, 0, 0, 0, 10, 0, 0, 0, 5, 0, 0, 0, 5, 0, 0, 0, 5, 0, 0, 0,
   5, 0, 0, 0, 5, 0, 0, 0, 5, 0, 0, 0, 5, 0, 0, 0, 5, 0, 0, 0, 5, 0, 0, 0,
   5, 0, 0, 0, 28, 115, 116, 99, 111, 0, 0, 0, 0, 0, 0, 0, 3, 0, 0, 2, 5, 0, 0, 2,
   25, 0, 0, 2, 45, 0, 0, 0, 58, 109, 100, 97, 116, 9, 9, 9, 9, 9, 9, 9, 9, 9, 9, 9,
   9, 9, 9, 9, 9, 9, 9, 9, 9, 9, 9, 9, 9, 9, 9, 9, 9, 9, 9, 9, 9, 9, 9, 9,
   9, 9, 9, 9, 9, 9, 9, 9, 9, 9, 9, 9, 9, 9, 9]


/-- A request for the whole of `sound_file` over HTTP/1.1, with a period of
one second and an empty cache. -/
def sound_stream : stream_t :=
  { http := "1.1", period := 1, path := "b.mp4", db := some [],
    file := sound_file, file_length := 567 }

/-- A request on `sample_file` whose start and stop (0.7 s) both snap to the
sync sample 6, which is the second sample of the second chunk. -/
def same_keyframe_stream : stream_t := { sample_stream with start := 7 / 10, stop := 7 / 10 }

/-- The sum of the sample counts of the `stts` entries of a sample table. -/
def stts_total (mem : Mem) (stbl : stbl_t) : Nat :=
  ((List.range stbl.stts.count).map (fun i => read_32 mem (stbl.stts.data + 8 * i))).sum

/-- The `stsc` entry (first chunk, samples per chunk, sample description id)
stored at `buffer[p ..]`. -/
def stsc_entry_at (buffer : Mem) (p : Nat) : Nat × Nat × Nat :=
  (read_32 buffer p, read_32 buffer (p + 4), read_32 buffer (p + 8))

/-- The `stsc` entries that `iovs_stsc` emits for a track after `compile_trak`:
the additional start entry if activated, the bulk entries (the payload minus
its 8 leading bytes), the additional end entry if activated. -/
def emitted_stsc (mem : Mem) (trak : trak_t) : List (Nat × Nat × Nat) :=
  (if trak.start.coxx.offset ≠ 0 then [stsc_entry_at trak.start.stsc_entry 0] else []) ++
  (List.range ((trak.mdia.minf.stbl.stsc.atom.data_size - 8) / 12)).map
    (fun i => stsc_entry_at mem (trak.mdia.minf.stbl.stsc.data + 12 * i)) ++
  (if trak.end_.coxx.offset ≠ 0 then [stsc_entry_at trak.end_.stsc_entry 0] else [])

/-- Samples per chunk that a sample-to-chunk table gives to chunk number
`chunk` (counted from 1): that of the last entry whose first chunk is not
after `chunk`. -/
def chunk_samples (entries : List (Nat × Nat × Nat)) (chunk : Nat) : Nat :=
  entries.foldl (fun r e => if e.1 ≤ chunk then e.2.1 else r) 0

/-- Number of samples a sample-to-chunk table describes over `chunks` chunks. -/
def stsc_total (entries : List (Nat × Nat × Nat)) (chunks : Nat) : Nat :=
  ((List.range chunks).map (fun j => chunk_samples entries (j + 1))).sum

/-- A request on `sound_file` from 0.1 s to 0.3 s: samples 1 and 3, both in
the first chunk. -/
def same_chunk_stream : stream_t := { sound_stream with start := 1 / 10, stop := 3 / 10 }

/-- Sample count of `stts` entry `i`. -/
def stts_count (mem : Mem) (stbl : stbl_t) (i : Nat) : Nat :=
  read_32 mem (stbl.stts.data + 8 * i)

/-- Sample duration of `stts` entry `i`. -/
def stts_delta (mem : Mem) (stbl : stbl_t) (i : Nat) : Nat :=
  read_32 mem (stbl.stts.data + 8 * i + 4)

/-- Total duration of the samples of the first `i` entries of `stts`. -/
def stts_time (mem : Mem) (stbl : stbl_t) : Nat → Nat
  | 0 => 0
  | i + 1 => stts_time mem stbl i + stts_count mem stbl i * stts_delta mem stbl i

/-- Number of samples of the first `i` entries of `stts`. -/
def stts_samples (mem : Mem) (stbl : stbl_t) : Nat → Nat
  | 0 => 0
  | i + 1 => stts_samples mem stbl i + stts_count mem stbl i

/-- Decode time of the sample that is `s` samples after the first sample of
entry `i`, with `k` entries left: the durations of the samples before it. -/
def decode_time_from (mem : Mem) (stbl : stbl_t) : Nat → Nat → Nat → Nat
  | 0, _, _ => 0
  | k + 1, i, s =>
    if s < stts_count mem stbl i then s * stts_delta mem stbl i
    else stts_count mem stbl i * stts_delta mem stbl i +
      decode_time_from mem stbl k (i + 1) (s - stts_count mem stbl i)

/-- Decode time of sample `s` (counted from 0) according to `stts`: the sum
of the durations of all samples before it (the total duration for a sample
number at or past the end). -/
def decode_time (mem : Mem) (stbl : stbl_t) (s : Nat) : Nat :=
  decode_time_from mem stbl stbl.stts.count 0 s

/-- The `stts` cursor `(index, offset)` addresses sample number `sample`,
whose decode time is `time`. -/
def stts_at (mem : Mem) (stbl : stbl_t) (index offset time sample : Nat) : Prop :=
  sample = stts_samples mem stbl index + offset ∧
  time = stts_time mem stbl index + offset * stts_delta mem stbl index ∧
  ((index < stbl.stts.count ∧ offset < stts_count mem stbl index) ∨
   (index = stbl.stts.count ∧ offset = 0))

/-- Entry `i` of the sync sample table (a sample number counted from 1). -/
def stss_entry (mem : Mem) (stbl : stbl_t) (i : Nat) : Nat :=
  read_32 mem (stbl.stss.data + 4 * i)

/-- The `moov` blob and the sample table of the video track of `sample_file`,
as parsed. -/
def sample_tables : Mem × stbl_t :=
  match load_meta 20 (zero_seek sample_stream) with
  | some (_, some (_, mem, file)) => (mem, file.moov.vtrak.mdia.minf.stbl)
  | _ => ({}, {})

/-- The `moov` blob and the sample table of the sound track of `sound_file`,
as parsed. -/
def sound_tables : Mem × stbl_t :=
  match load_meta 20 (zero_seek sound_stream) with
  | some (_, some (_, mem, file)) => (mem, file.moov.strak.mdia.minf.stbl)
  | _ => ({}, {})

/-- A seek request for time `t` (media scale), as `compile_trak` sets it up. -/
def seek_request (t : Nat) : seek_t := { time := t }

/-- Size of the head that `iovs_head` emits for an atom. -/
def head_size (a : atom_t) : Nat := if Q_EX a then 16 else 8

/-- Total number of bytes registered in a gather list. -/
def iovs_bytes (i : iovs_t) : Nat := (i.iovs.map iov_t.size).sum

/-- A box that is emitted as it was parsed: when present, its size is its
data size plus its head, and it is smaller than 4 GiB. -/
def leaf_ok (a : atom_t) : Prop :=
  VOID a = false → a.size = a.data_size + head_size a ∧ a.size < 2 ^ 32

/-- A source table that is cut between the entries number `si` and `ei` (`x`
is `1` when the end entry is kept): the box holds exactly its head, 8 bytes
(`extra` more for `stsz`) and `count` entries of `bytes` bytes, and the cut is
ordered and inside the table. -/
def table_ok (t : stxx_t) (extra si ei x : Nat) : Prop :=
  t.atom.size = head_size t.atom + 8 + extra + t.count * t.bytes ∧
  0 < t.bytes ∧ t.count * t.bytes + 64 < 2 ^ 32 ∧ si ≤ ei ∧ ei + x ≤ t.count

/-- The value `x` of `resize_xxxx`. -/
def keep_last (e : tbli_t) (e2 : Option tbli_t) : Nat :=
  if e.offset > 0 || (match e2 with
                      | some e => decide (e.offset > 0)
                      | none => false) then 1 else 0

/-- Bytes that `iovs_stsc` emits for an additional `stsc` entry with
activation flag `offset`. -/
def entry_bytes (offset : Nat) : Nat := if offset ≠ 0 then 12 else 0

/-- Bytes that `iovs_head` registers for an atom. -/
def head_bytes (a : atom_t) : Nat := if VOID a then 0 else head_size a

/-- Bytes that `iovs_full` registers for an atom. -/
def box_bytes (a : atom_t) : Nat := if VOID a then 0 else head_size a + a.data_size

/-- What `iovs_stsc` needs of an `stsc` box: it is present, and its size is
its head, its data and the activated additional entries. -/
def stsc_ok (stsc : stxx_t) (start end_ : seek_t) : Prop :=
  VOID stsc.atom = false ∧
  stsc.atom.size = stsc.atom.data_size + head_size stsc.atom +
    entry_bytes start.coxx.offset + entry_bytes end_.coxx.offset ∧
  8 ≤ stsc.atom.data_size ∧ stsc.atom.size < 2 ^ 32

/-- The hypotheses on the sample tables of a track: `stbl` is the source
sample table, `start` and `end_` the seek records that `compile_trak` leaves
in the track. -/
def stbl_ok (stbl : stbl_t) (start end_ : seek_t) : Prop :=
  leaf_ok stbl.stsd.atom ∧
  (VOID stbl.stts.atom = false →
    table_ok stbl.stts 0 start.stts.index end_.stts.index (keep_last end_.stts none)) ∧
  (VOID stbl.ctts.atom = false →
    table_ok stbl.ctts 0 start.ctts.index end_.ctts.index (keep_last end_.ctts none)) ∧
  (VOID stbl.stss.atom = false →
    table_ok stbl.stss 0 start.stss.index end_.stss.index (keep_last end_.stss none)) ∧
  (if stbl.stsz.size ≠ 0 then leaf_ok stbl.stsz.atom
   else table_ok stbl.stsz 4 start.stsz.index end_.stsz.index (keep_last end_.stsz none)) ∧
  (VOID stbl.coxx.atom = false →
    table_ok stbl.coxx 0 start.coxx.index end_.coxx.index (keep_last end_.coxx none)) ∧
  table_ok stbl.stsc 0 start.stsc.index end_.stsc.index (keep_last end_.stsc (some end_.coxx))

/-- The size equations that the "resize" blocks of `compile_trak` establish
for the containers of a track. -/
def containers_ok (T : trak_t) : Prop :=
  T.mdia.minf.stbl.atom.data_size =
    w64 (T.mdia.minf.stbl.stsd.atom.size + T.mdia.minf.stbl.stts.atom.size +
      T.mdia.minf.stbl.ctts.atom.size + T.mdia.minf.stbl.stss.atom.size +
      T.mdia.minf.stbl.stsz.atom.size + T.mdia.minf.stbl.stsc.atom.size +
      T.mdia.minf.stbl.coxx.atom.size) ∧
  T.mdia.minf.stbl.atom.size =
    w64 (T.mdia.minf.stbl.atom.data_size + head_size T.mdia.minf.stbl.atom) ∧
  T.mdia.minf.atom.data_size =
    w64 (T.mdia.minf.xmhd.atom.size + T.mdia.minf.stbl.atom.size) ∧
  T.mdia.minf.atom.size = w64 (T.mdia.minf.atom.data_size + head_size T.mdia.minf.atom) ∧
  T.mdia.atom.data_size =
    w64 (T.mdia.mdhd.atom.size + T.mdia.hdlr.atom.size + T.mdia.minf.atom.size) ∧
  T.mdia.atom.size = w64 (T.mdia.atom.data_size + head_size T.mdia.atom) ∧
  T.atom.data_size = w64 (T.tkhd.atom.size + T.mdia.atom.size) ∧
  T.atom.size = w64 (T.atom.data_size + head_size T.atom)

/-- The hypotheses on a source track `src` whose spliced form is `T`: the
boxes emitted as parsed are well-formed, and the sample tables are exact and
cut in order (see `stbl_ok`). Nothing is required of an absent track. -/
def trak_ok (src T : trak_t) : Prop :=
  VOID src.atom = false →
    leaf_ok src.tkhd.atom ∧ leaf_ok src.mdia.mdhd.atom ∧ leaf_ok src.mdia.hdlr.atom ∧
    leaf_ok src.mdia.minf.xmhd.atom ∧ stbl_ok src.mdia.minf.stbl T.start T.end_

instance (a : atom_t) : Decidable (leaf_ok a) := by
  unfold leaf_ok; infer_instance

instance (t : stxx_t) (extra si ei x : Nat) : Decidable (table_ok t extra si ei x) := by
  unfold table_ok; infer_instance

instance (stbl : stbl_t) (start end_ : seek_t) : Decidable (stbl_ok stbl start end_) := by
  unfold stbl_ok; infer_instance

instance (src T : trak_t) : Decidable (trak_ok src T) := by
  unfold trak_ok; infer_instance

/-- The stream, the `moov` blob and the file structure with which
`stream_mp4_parse` reaches "compile limits" for a request that is not served
from the zero-seek cache (all empty when the meta-data cannot be loaded). -/
def meta_input (fuel : Nat) (self : stream_t) : stream_t × Mem × file_t :=
  match load_meta fuel (zero_seek self) with
  | some (self, some (_, mem, file)) => (self, mem, file)
  | _ => ({}, {}, {})

/-- A request on `sound_file` from 0.5 s back to 0.2 s. -/
def reversed_stream : stream_t := { sound_stream with start := 5 / 10, stop := 2 / 10 }

/-- The time at which `compile_trak` clamps the requested times of a track:
the smaller of the media duration and the `max_time` found by `compile_maxs`. -/
def trak_limit (mem : Mem) (trak : trak_t) : Nat :=
  if trak.mdia.mdhd.duration > (compile_maxs mem trak.mdia.minf.stbl).max_time then
    (compile_maxs mem trak.mdia.minf.stbl).max_time
  else trak.mdia.mdhd.duration

/-- A sample MP4 file of 804 bytes with an enabled video track and an enabled
sound track, neither with a sync sample table: `ftyp`, `moov`, `mdat` (payload
at 790). Each track has 2 samples of 1 tick at 10 ticks per second in one
chunk: the video samples have 4 bytes (chunk at file offset 790, ending at
798), the sound samples 3 bytes (chunk at 798, ending at 804). -/
def av_file : Mem := Mem.of_list
  [0, 0, 0, 20, 102, 116, 121, 112, 105, 115, 111, 109, 0, 0, 0, 0, 105, 115, 111, 109, 0, 0, 2, 250,
   109, 111, 111, 118, 0, 0, 0, 108, 109, 118, 104, 100, 0, 0, 0, 0, 0, 0, 0, 0, 0, 0, 0, 0,
   0, 0, 0, 10, 0, 0, 0, 2, 0, 1, 0, 0, 1, 0, 0, 0, 0, 0, 0, 0, 0, 0, 0, 0,
   0, 0, 0, 0, 0, 0, 0, 0, 0, 0, 0, 0, 0, 0, 0, 0, 0, 0, 0, 0, 0, 0, 0, 0,
   0, 0, 0, 0, 0, 0, 0, 0, 0, 0, 0, 0, 7, 7, 7, 7, 7, 7, 7, 7, 7, 7, 7, 7,
   7, 7, 7, 7, 7, 7, 7, 7, 7, 7, 7, 7, 0, 0, 0, 2, 0, 0, 1, 69, 116, 114, 97, 107,
   0, 0, 0, 92, 116, 107, 104, 100, 0, 0, 0, 1, 0, 0, 0, 0, 0, 0, 0, 0, 0, 0, 0, 1,
   0, 0, 0, 0, 0, 0, 0, 2, 0, 0, 0, 0, 0, 0, 0, 0, 0, 0, 0, 0, 0, 0, 0, 0,
   0, 0, 0, 0, 0, 0, 0, 0, 0, 0, 0, 0, 0, 0, 0, 0, 0, 0, 0, 0, 0, 0, 0, 0,
   0, 0, 0, 0, 0, 0, 0, 0, 0, 0, 0, 0, 0, 0, 0, 0, 0, 0, 0, 0, 0, 0, 0, 225,
   109, 100, 105, 97, 0, 0, 0, 32, 109, 100, 104, 100, 0, 0, 0, 0, 0, 0, 0, 0, 0, 0, 0, 0,
   0, 0, 0, 10, 0, 0, 0, 2, 0, 0, 0, 0, 0, 0, 0, 33, 104, 100, 108, 114, 0, 0, 0, 0,
   0, 0, 0, 0, 118, 105, 100, 101, 0, 0, 0, 0, 0, 0, 0, 0, 0, 0, 0, 0, 0, 0, 0, 0,
   152, 109, 105, 110, 102, 0, 0, 0, 20, 118, 109, 104, 100, 0, 0, 0, 1, 0, 0, 0, 0, 0, 0, 0,
   0, 0, 0, 0, 124, 115, 116, 98, 108, 0, 0, 0, 16, 115, 116, 115, 100, 0, 0, 0, 0, 0, 0, 0,
   0, 0, 0, 0, 24, 115, 116, 116, 115, 0, 0, 0, 0, 0, 0, 0, 1, 0, 0, 0, 2, 0, 0, 0,
   1, 0, 0, 0, 28, 115, 116, 115, 99, 0, 0, 0, 0, 0, 0, 0, 1, 0, 0, 0, 1, 0, 0, 0,
   2, 0, 0, 0, 1, 0, 0, 0, 28, 115, 116, 115, 122, 0, 0, 0, 0, 0, 0, 0, 0, 0, 0, 0,
   2, 0, 0, 0, 4, 0, 0, 0, 4, 0, 0, 0, 20, 115, 116, 99, 111, 0, 0, 0, 0, 0, 0, 0,
   1, 0, 0, 3, 22, 0, 0, 1, 65, 116, 114, 97, 107, 0, 0, 0, 92, 116, 107, 104, 100, 0, 0, 0,
   1, 0, 0, 0, 0, 0, 0, 0, 0, 0, 0, 0, 1, 0, 0, 0, 0, 0, 0, 0, 2, 0, 0, 0,
   0, 0, 0, 0, 0, 0, 0, 0, 0, 0, 0, 0, 0, 0, 0, 0, 0, 0, 0, 0, 0, 0, 0, 0,
   0, 0, 0, 0, 0, 0, 0, 0, 0, 0, 0, 0, 0, 0, 0, 0, 0, 0, 0, 0, 0, 0, 0, 0,
   0, 0, 0, 0, 0, 0, 0, 0, 0, 0, 0, 0, 221, 109, 100, 105, 97, 0, 0, 0, 32, 109, 100, 104,
   100, 0, 0, 0, 0, 0, 0, 0, 0, 0, 0, 0, 0, 0, 0, 0, 10, 0, 0, 0, 2, 0, 0, 0,
   0, 0, 0, 0, 33, 104, 100, 108, 114, 0, 0, 0, 0, 0, 0, 0, 0, 115, 111, 117, 110, 0, 0, 0,
   0, 0, 0, 0, 0, 0, 0, 0, 0, 0, 0, 0, 0, 148, 109, 105, 110, 102, 0, 0, 0, 16, 115, 109,
   104, 100, 0, 0, 0, 0, 0, 0, 0, 0, 0, 0, 0, 124, 115, 116, 98, 108, 0, 0, 0, 16, 115, 116,
   115, 100, 0, 0, 0, 0, 0, 0, 0, 0, 0, 0, 0, 24, 115, 116, 116, 115, 0, 0, 0, 0, 0, 0,
   0, 1, 0, 0, 0, 2, 0, 0, 0, 1, 0, 0, 0, 28, 115, 116, 115, 99, 0, 0, 0, 0, 0, 0,
   0, 1, 0, 0, 0, 1, 0, 0, 0, 2, 0, 0, 0, 1, 0, 0, 0, 28, 115, 116, 115, 122, 0, 0,
   0, 0, 0, 0, 0, 0, 0, 0, 0, 2, 0, 0, 0, 3, 0, 0, 0, 3, 0, 0, 0, 20, 115, 116,
   99, 111, 0, 0, 0, 0, 0, 0, 0, 1, 0, 0, 3, 30, 0, 0, 0, 22, 109, 100, 97, 116, 9, 9,
   9, 9, 9, 9, 9, 9, 9, 9, 9, 9, 9, 9]

/-- A request for `av_file`, served over HTTP/1.1 with a cache, a period of
one second and no seek. -/
def av_stream : stream_t :=
  { http := "1.1", period := 1, path := "c.mp4", db := some [], file := av_file,
    file_length := 804 }

/-- A request on `av_file` that starts at 5 s, beyond the 0.2 s of media. -/
def beyond_stream : stream_t := { av_stream with start := 5 }

/-- A request on `sound_file` that starts at 5 s, beyond the 1 s of media. -/
def sound_beyond_stream : stream_t := { sound_stream with start := 5 }

/-- The children of a container as `data_atom` delivers them, one call after
the other from the parent's cursor until the cursor reaches `data_size`: the
returned type and the child atom of every call. `atom` is the caller's local
atom, `none` means that the walk does not end within `fuel` calls. -/
def child_walk (mem : Mem) : Nat → atom_t → atom_t → Option (List (Nat × atom_t))
  | 0, _, _ => none
  | fuel + 1, parent, atom =>
    if parent.data_position < parent.data_size then
      (child_walk mem fuel (data_atom mem parent atom).2.1 (data_atom mem parent atom).2.2).map
        (fun w => ((data_atom mem parent atom).1, (data_atom mem parent atom).2.2) :: w)
    else some []

/-- The box types that the `switch` of `parse_stbl` recognises. -/
def stbl_kinds : List Nat := [STSD, STTS, CTTS, STSS, STSC, STSZ, STCO, CO64]

/-- The children that `parse_stbl` takes into account: the first `left`
children of a recognised type. -/
def first_recognised (left : Nat) (w : List (Nat × atom_t)) : List (Nat × atom_t) :=
  (w.filter (fun c => stbl_kinds.contains c.1)).take left

/-- The last child of one of the given types in a list of children. -/
def last_of (kinds : List Nat) (l : List (Nat × atom_t)) : Option atom_t :=
  ((l.filter (fun c => kinds.contains c.1)).getLast?).map (fun c => c.2)

/-- A box of one of the given types is found: the last such child has a
non-zero size. -/
def has_box (kinds : List Nat) (l : List (Nat × atom_t)) : Bool :=
  match last_of kinds l with
  | some a => !VOID a
  | none => false

/-- The `switch` of `parse_stbl` for a child of type `t`: the updated sample
table when the type is recognised, `none` otherwise. -/
def stbl_assign (stbl : stbl_t) (t : Nat) (atom : atom_t) : Option stbl_t :=
  if t = STSD then some { stbl with stsd := { atom := atom } }
  else if t = STTS then some { stbl with stts := { stbl.stts with atom := atom, bytes := 8 } }
  else if t = CTTS then some { stbl with ctts := { stbl.ctts with atom := atom, bytes := 8 } }
  else if t = STSS then some { stbl with stss := { stbl.stss with atom := atom, bytes := 4 } }
  else if t = STSC then some { stbl with stsc := { stbl.stsc with atom := atom, bytes := 12 } }
  else if t = STSZ then some { stbl with stsz := { stbl.stsz with atom := atom, bytes := 4 } }
  else if t = STCO then some { stbl with coxx := { stbl.coxx with atom := atom, bytes := 4 } }
  else if t = CO64 then some { stbl with coxx := { stbl.coxx with atom := atom, bytes := 8 } }
  else none

/-- The `switch` of `parse_stbl` applied to the children in a list, with the
budget `left` of recognised children. -/
def stbl_fill : Nat → stbl_t → List (Nat × atom_t) → stbl_t
  | 0, stbl, _ => stbl
  | _ + 1, stbl, [] => stbl
  | left + 1, stbl, (t, atom) :: w =>
    match stbl_assign stbl t atom with
    | some s => stbl_fill left s w
    | none => stbl_fill (left + 1) stbl w

/-- Two sample tables hold the same child boxes. -/
def same_boxes (s t : stbl_t) : Prop :=
  s.stsd = t.stsd ∧ s.stts = t.stts ∧ s.ctts = t.ctts ∧ s.stss = t.stss ∧ s.stsc = t.stsc ∧
  s.stsz = t.stsz ∧ s.coxx = t.coxx

/-- The payload (180 bytes) of an `stbl` box with the children `stsd`, `stts`,
`ctts`, `stss`, `stsc`, `stco`, `co64` and `stsz`, in this order, each table
with one entry. -/
def crowded_mem : Mem := Mem.of_list
  [0, 0, 0, 16, 115, 116, 115, 100, 0, 0, 0, 0, 0, 0, 0, 0, 0, 0, 0, 24, 115, 116, 116, 115,
   0, 0, 0, 0, 0, 0, 0, 1, 0, 0, 0, 1, 0, 0, 0, 1, 0, 0, 0, 24, 99, 116, 116, 115,
   0, 0, 0, 0, 0, 0, 0, 1, 0, 0, 0, 1, 0, 0, 0, 0, 0, 0, 0, 20, 115, 116, 115, 115,
   0, 0, 0, 0, 0, 0, 0, 1, 0, 0, 0, 1, 0, 0, 0, 28, 115, 116, 115, 99, 0, 0, 0, 0,
   0, 0, 0, 1, 0, 0, 0, 1, 0, 0, 0, 1, 0, 0, 0, 1, 0, 0, 0, 20, 115, 116, 99, 111,
   0, 0, 0, 0, 0, 0, 0, 1, 0, 0, 2, 188, 0, 0, 0, 24, 99, 111, 54, 52, 0, 0, 0, 0,
   0, 0, 0, 1, 0, 0, 0, 0, 0, 0, 2, 188, 0, 0, 0, 24, 115, 116, 115, 122, 0, 0, 0, 0,
   0, 0, 0, 0, 0, 0, 0, 1, 0, 0, 0, 1]

/-- The `stbl` atom whose payload is `crowded_mem`, before `parse_stbl`. -/
def crowded_stbl : stbl_t :=
  { atom := { type := STBL, size := 188, data := some 0, data_size := 180 } }

/-- The `stbl` of the video track of `sample_file` before `parse_stbl`: only
its atom is set. -/
def sample_stbl : stbl_t := { atom := sample_tables.2.atom }

/-- A file of 152 bytes with `ftyp` (20 bytes), a `moov` (116 bytes) that holds
only an `mvhd`, and `mdat` (16 bytes): its `moov` has no track. -/
def trackless_file : Mem := Mem.of_list
  [0, 0, 0, 20, 102, 116, 121, 112, 105, 115, 111, 109, 0, 0, 0, 0, 105, 115, 111, 109, 0, 0, 0, 116,
   109, 111, 111, 118, 0, 0, 0, 108, 109, 118, 104, 100, 0, 0, 0, 0, 0, 0, 0, 0, 0, 0, 0, 0,
   0, 0, 0, 10, 0, 0, 0, 10, 0, 1, 0, 0, 1, 0, 0, 0, 0, 0, 0, 0, 0, 0, 0, 0,
   0, 0, 0, 0, 0, 0, 0, 0, 0, 0, 0, 0, 0, 0, 0, 0, 0, 0, 0, 0, 0, 0, 0, 0,
   0, 0, 0, 0, 0, 0, 0, 0, 0, 0, 0, 0, 7, 7, 7, 7, 7, 7, 7, 7, 7, 7, 7, 7,
   7, 7, 7, 7, 7, 7, 7, 7, 7, 7, 7, 7, 0, 0, 0, 2, 0, 0, 0, 16, 109, 100, 97, 116,
   9, 9, 9, 9, 9, 9, 9, 9]

/-- A request for `trackless_file` with an empty cache. -/
def trackless_stream : stream_t :=
  { http := "1.1", period := 1, path := "d.mp4", db := some [], file := trackless_file,
    file_length := 152 }

/-- What a failed or successful load of the main atoms does to the cache: it
is left as it was, or the three main atoms were stored. -/
def atoms_stored (self self' : stream_t) : Prop :=
  self'.db = self.db ∨ ∃ b moov mdat, self'.db = self.db.map (store_atoms self.path b moov mdat)

/-- The stream after the first zero-seek request on `sample_file`. -/
def first_request : stream_t := ((stream_mp4_parse 20 sample_stream).getD (1, {})).2

/-- A second zero-seek request for the same path, with the cache left by the
first one and fresh counters. -/
def second_stream : stream_t := { sample_stream with db := first_request.db }

/-- The stream after the second request. -/
def second_request : stream_t := ((stream_mp4_parse 20 second_stream).getD (1, {})).2

/-- A sample MP4 file of 587 bytes like `sample_file`, but with an `stss` box
that has no entries: one enabled video track of 10 samples of 5 bytes and 1
tick each at 10 ticks per second, three chunks of 4, 4 and 2 samples. -/
def empty_stss_file : Mem := Mem.of_list
  [0, 0, 0, 20, 102, 116, 121, 112, 105, 115, 111, 109, 0, 0, 0, 0, 105, 115, 111, 109, 0, 0, 1, 253,
   109, 111, 111, 118, 0, 0, 0, 108, 109, 118, 104, 100, 0, 0, 0, 0, 0, 0, 0, 0, 0, 0, 0, 0,
   0, 0, 0, 10, 0, 0, 0, 10, 0, 1, 0, 0, 1, 0, 0, 0, 0, 0, 0, 0, 0, 0, 0, 0,
   0, 0, 0, 0, 0, 0, 0, 0, 0, 0, 0, 0, 0, 0, 0, 0, 0, 0, 0, 0, 0, 0, 0, 0,
   0, 0, 0, 0, 0, 0, 0, 0, 0, 0, 0, 0, 7, 7, 7, 7, 7, 7, 7, 7, 7, 7, 7, 7,
   7, 7, 7, 7, 7, 7, 7, 7, 7, 7, 7, 7, 0, 0, 0, 2, 0, 0, 1, 137, 116, 114, 97, 107,
   0, 0, 0, 92, 116, 107, 104, 100, 0, 0, 0, 1, 0, 0, 0, 0, 0, 0, 0, 0, 0, 0, 0, 1,
   0, 0, 0, 0, 0, 0, 0, 10, 0, 0, 0, 0, 0, 0, 0, 0, 0, 0, 0, 0, 0, 0, 0, 0,
   0, 0, 0, 0, 0, 0, 0, 0, 0, 0, 0, 0, 0, 0, 0, 0, 0, 0, 0, 0, 0, 0, 0, 0,
   0, 0, 0, 0, 0, 0, 0, 0, 0, 0, 0, 0, 0, 0, 0, 0, 0, 0, 0, 0, 0, 0, 1, 37,
   109, 100, 105, 97, 0, 0, 0, 32, 109, 100, 104, 100, 0, 0, 0, 0, 0, 0, 0, 0, 0, 0, 0, 0,
   0, 0, 0, 10, 0, 0, 0, 10, 0, 0, 0, 0, 0, 0, 0, 33, 104, 100, 108, 114, 0, 0, 0, 0,
   0, 0, 0, 0, 118, 105, 100, 101, 0, 0, 0, 0, 0, 0, 0, 0, 0, 0, 0, 0, 0, 0, 0, 0,
   220, 109, 105, 110, 102, 0, 0, 0, 20, 118, 109, 104, 100, 0, 0, 0, 1, 0, 0, 0, 0, 0, 0, 0,
   0, 0, 0, 0, 192, 115, 116, 98, 108, 0, 0, 0, 16, 115, 116, 115, 100, 0, 0, 0, 0, 0, 0, 0,
   0, 0, 0, 0, 24, 115, 116, 116, 115, 0, 0, 0, 0, 0, 0, 0, 1, 0, 0, 0, 10, 0, 0, 0,
   1, 0, 0, 0, 16, 115, 116, 115, 115, 0, 0, 0, 0, 0, 0, 0, 0, 0, 0, 0, 40, 115, 116, 115,
   99, 0, 0, 0, 0, 0, 0, 0, 2, 0, 0, 0, 1, 0, 0, 0, 4, 0, 0, 0, 1, 0, 0, 0,
   3, 0, 0, 0, 2, 0, 0, 0, 1, 0, 0, 0, 60, 115, 116, 115, 122, 0, 0, 0, 0, 0, 0, 0,
   0, 0, 0, 0, 10, 0, 0, 0, 5, 0, 0, 0, 5, 0, 0, 0, 5, 0, 0, 0, 5, 0, 0, 0,
   5, 0, 0, 0, 5, 0, 0, 0, 5, 0, 0, 0, 5, 0, 0, 0, 5, 0, 0, 0, 5, 0, 0, 0,
   28, 115, 116, 99, 111, 0, 0, 0, 0, 0, 0, 0, 3, 0, 0, 2, 25, 0, 0, 2, 45, 0, 0, 2,
   65, 0, 0, 0, 58, 109, 100, 97, 116, 9, 9, 9, 9, 9, 9, 9, 9, 9, 9, 9, 9, 9, 9, 9,
   9, 9, 9, 9, 9, 9, 9, 9, 9, 9, 9, 9, 9, 9, 9, 9, 9, 9, 9, 9, 9, 9, 9, 9,
   9, 9, 9, 9, 9, 9, 9, 9, 9, 9, 9]

/-- A request for `empty_stss_file`. -/
def empty_stss_stream : stream_t :=
  { http := "1.1", period := 1, path := "e.mp4", db := some [], file := empty_stss_file,
    file_length := 587 }

/-- The `moov` blob and the sample table of the video track of
`empty_stss_file`, as parsed. -/
def empty_stss_tables : Mem × stbl_t :=
  ((meta_input 20 empty_stss_stream).2.1,
   (meta_input 20 empty_stss_stream).2.2.moov.vtrak.mdia.minf.stbl)

/-- A file of 804 bytes like `av_file`, except that the chunk offset of the
video track is 0: the video chunk is declared at file offset 0 (ending at 8),
the sound chunk at 798 (ending at 804). -/
def zero_offset_file : Mem := Mem.of_list
  [0, 0, 0, 20, 102, 116, 121, 112, 105, 115, 111, 109, 0, 0, 0, 0, 105, 115, 111, 109, 0, 0, 2, 250,
   109, 111, 111, 118, 0, 0, 0, 108, 109, 118, 104, 100, 0, 0, 0, 0, 0, 0, 0, 0, 0, 0, 0, 0,
   0, 0, 0, 10, 0, 0, 0, 2, 0, 1, 0, 0, 1, 0, 0, 0, 0, 0, 0, 0, 0, 0, 0, 0,
   0, 0, 0, 0, 0, 0, 0, 0, 0, 0, 0, 0, 0, 0, 0, 0, 0, 0, 0, 0, 0, 0, 0, 0,
   0, 0, 0, 0, 0, 0, 0, 0, 0, 0, 0, 0, 7, 7, 7, 7, 7, 7, 7, 7, 7, 7, 7, 7,
   7, 7, 7, 7, 7, 7, 7, 7, 7, 7, 7, 7, 0, 0, 0, 2, 0, 0, 1, 69, 116, 114, 97, 107,
   0, 0, 0, 92, 116, 107, 104, 100, 0, 0, 0, 1, 0, 0, 0, 0, 0, 0, 0, 0, 0, 0, 0, 1,
   0, 0, 0, 0, 0, 0, 0, 2, 0, 0, 0, 0, 0, 0, 0, 0, 0, 0, 0, 0, 0, 0, 0, 0,
   0, 0, 0, 0, 0, 0, 0, 0, 0, 0, 0, 0, 0, 0, 0, 0, 0, 0, 0, 0, 0, 0, 0, 0,
   0, 0, 0, 0, 0, 0, 0, 0, 0, 0, 0, 0, 0, 0, 0, 0, 0, 0, 0, 0, 0, 0, 0, 225,
   109, 100, 105, 97, 0, 0, 0, 32, 109, 100, 104, 100, 0, 0, 0, 0, 0, 0, 0, 0, 0, 0, 0, 0,
   0, 0, 0, 10, 0, 0, 0, 2, 0, 0, 0, 0, 0, 0, 0, 33, 104, 100, 108, 114, 0, 0, 0, 0,
   0, 0, 0, 0, 118, 105, 100, 101, 0, 0, 0, 0, 0, 0, 0, 0, 0, 0, 0, 0, 0, 0, 0, 0,
   152, 109, 105, 110, 102, 0, 0, 0, 20, 118, 109, 104, 100, 0, 0, 0, 1, 0, 0, 0, 0, 0, 0, 0,
   0, 0, 0, 0, 124, 115, 116, 98, 108, 0, 0, 0, 16, 115, 116, 115, 100, 0, 0, 0, 0, 0, 0, 0,
   0, 0, 0, 0, 24, 115, 116, 116, 115, 0, 0, 0, 0, 0, 0, 0, 1, 0, 0, 0, 2, 0, 0, 0,
   1, 0, 0, 0, 28, 115, 116, 115, 99, 0, 0, 0, 0, 0, 0, 0, 1, 0, 0, 0, 1, 0, 0, 0,
   2, 0, 0, 0, 1, 0, 0, 0, 28, 115, 116, 115, 122, 0, 0, 0, 0, 0, 0, 0, 0, 0, 0, 0,
   2, 0, 0, 0, 4, 0, 0, 0, 4, 0, 0, 0, 20, 115, 116, 99, 111, 0, 0, 0, 0, 0, 0, 0,
   1, 0, 0, 0, 0, 0, 0, 1, 65, 116, 114, 97, 107, 0, 0, 0, 92, 116, 107, 104, 100, 0, 0, 0,
   1, 0, 0, 0, 0, 0, 0, 0, 0, 0, 0, 0, 1, 0, 0, 0, 0, 0, 0, 0, 2, 0, 0, 0,
   0, 0, 0, 0, 0, 0, 0, 0, 0, 0, 0, 0, 0, 0, 0, 0, 0, 0, 0, 0, 0, 0, 0, 0,
   0, 0, 0, 0, 0, 0, 0, 0, 0, 0, 0, 0, 0, 0, 0, 0, 0, 0, 0, 0, 0, 0, 0, 0,
   0, 0, 0, 0, 0, 0, 0, 0, 0, 0, 0, 0, 221, 109, 100, 105, 97, 0, 0, 0, 32, 109, 100, 104,
   100, 0, 0, 0, 0, 0, 0, 0, 0, 0, 0, 0, 0, 0, 0, 0, 10, 0, 0, 0, 2, 0, 0, 0,
   0, 0, 0, 0, 33, 104, 100, 108, 114, 0, 0, 0, 0, 0, 0, 0, 0, 115, 111, 117, 110, 0, 0, 0,
   0, 0, 0, 0, 0, 0, 0, 0, 0, 0, 0, 0, 0, 148, 109, 105, 110, 102, 0, 0, 0, 16, 115, 109,
   104, 100, 0, 0, 0, 0, 0, 0, 0, 0, 0, 0, 0, 124, 115, 116, 98, 108, 0, 0, 0, 16, 115, 116,
   115, 100, 0, 0, 0, 0, 0, 0, 0, 0, 0, 0, 0, 24, 115, 116, 116, 115, 0, 0, 0, 0, 0, 0,
   0, 1, 0, 0, 0, 2, 0, 0, 0, 1, 0, 0, 0, 28, 115, 116, 115, 99, 0, 0, 0, 0, 0, 0,
   0, 1, 0, 0, 0, 1, 0, 0, 0, 2, 0, 0, 0, 1, 0, 0, 0, 28, 115, 116, 115, 122, 0, 0,
   0, 0, 0, 0, 0, 0, 0, 0, 0, 2, 0, 0, 0, 3, 0, 0, 0, 3, 0, 0, 0, 20, 115, 116,
   99, 111, 0, 0, 0, 0, 0, 0, 0, 1, 0, 0, 3, 30, 0, 0, 0, 22, 109, 100, 97, 116, 9, 9,
   9, 9, 9, 9, 9, 9, 9, 9, 9, 9, 9, 9]

/-- A zero-seek request for `zero_offset_file`. -/
def zero_offset_stream : stream_t :=
  { http := "1.1", period := 1, path := "f.mp4", db := some [], file := zero_offset_file,
    file_length := 804 }

/-- The children of `moov` in the order in which the loop of `parse_moov`
reads them with `data_atom`, as long as the cursor is inside the payload: the
type, the atom and, for a `trak` child, the result of `parse_trak` on a zeroed
track with this atom. -/
def moov_walk (mem : Mem) : Nat → atom_t → atom_t → List (Nat × atom_t × Option (Nat × trak_t))
  | 0, _, _ => []
  | fuel + 1, parent, atom =>
    if parent.data_position < parent.data_size then
      ((data_atom mem parent atom).1, (data_atom mem parent atom).2.2,
        if (data_atom mem parent atom).1 = TRAK then
          parse_trak mem fuel { atom := (data_atom mem parent atom).2.2 }
        else none) ::
        moov_walk mem fuel (data_atom mem parent atom).2.1 (data_atom mem parent atom).2.2
    else []

/-- The parsed track of a child of `moov` when the child is a `trak` that
`parse_trak` accepts, whose `tkhd` flags have bit `0x000001` set and whose
`minf` header (`xmhd`) is of type `kind`. -/
def enabled_track (kind : Nat) (c : Nat × atom_t × Option (Nat × trak_t)) : Option trak_t :=
  match c.2.2 with
  | some (rc, trak) =>
    if c.1 = TRAK ∧ rc = 0 ∧ trak.tkhd.flags &&& 1 ≠ 0 ∧
        trak.mdia.minf.xmhd.atom.type = kind then some trak
    else none
  | none => none

/-- The first enabled track of a kind among the children of `moov`, in file
order. -/
def first_track (kind : Nat) : List (Nat × atom_t × Option (Nat × trak_t)) → Option trak_t
  | [] => none
  | c :: cs =>
    match enabled_track kind c with
    | some trak => some trak
    | none => first_track kind cs

/-- The number of `mvhd` boxes among the children of `moov`. -/
def mvhd_boxes : List (Nat × atom_t × Option (Nat × trak_t)) → Nat
  | [] => 0
  | c :: cs => (if c.1 = MVHD then 1 else 0) + mvhd_boxes cs

/-- The `moov` blob of a request and the `moov` structure as
`stream_mp4_parse` hands them to `parse_moov` ("map moov"). -/
def moov_input (fuel : Nat) (self : stream_t) : Mem × moov_t :=
  match load_atoms fuel (zero_seek self) with
  | some (_, some (b, atom)) =>
    (b.moov.getD {},
      { atom := (data_atom (b.moov.getD {})
          { atom with data := some 0, data_size := (b.moov.getD {}).size, data_position := 0 }
          {}).2.2 })
  | _ => ({}, {})

/-- A file of 912 bytes like `av_file`, except that `moov` holds the `mvhd` box
twice, before the enabled video track and the enabled sound track (payload of
`mdat` at 898). -/
def twin_mvhd_file : Mem := Mem.of_list
  [0, 0, 0, 20, 102, 116, 121, 112, 105, 115, 111, 109, 0, 0, 0, 0, 105, 115, 111, 109, 0, 0, 3, 102,
   109, 111, 111, 118, 0, 0, 0, 108, 109, 118, 104, 100, 0, 0, 0, 0, 0, 0, 0, 0, 0, 0, 0, 0,
   0, 0, 0, 10, 0, 0, 0, 2, 0, 1, 0, 0, 1, 0, 0, 0, 0, 0, 0, 0, 0, 0, 0, 0,
   0, 0, 0, 0, 0, 0, 0, 0, 0, 0, 0, 0, 0, 0, 0, 0, 0, 0, 0, 0, 0, 0, 0, 0,
   0, 0, 0, 0, 0, 0, 0, 0, 0, 0, 0, 0, 7, 7, 7, 7, 7, 7, 7, 7, 7, 7, 7, 7,
   7, 7, 7, 7, 7, 7, 7, 7, 7, 7, 7, 7, 0, 0, 0, 2, 0, 0, 0, 108, 109, 118, 104, 100,
   0, 0, 0, 0, 0, 0, 0, 0, 0, 0, 0, 0, 0, 0, 0, 10, 0, 0, 0, 2, 0, 1, 0, 0,
   1, 0, 0, 0, 0, 0, 0, 0, 0, 0, 0, 0, 0, 0, 0, 0, 0, 0, 0, 0, 0, 0, 0, 0,
   0, 0, 0, 0, 0, 0, 0, 0, 0, 0, 0, 0, 0, 0, 0, 0, 0, 0, 0, 0, 0, 0, 0, 0,
   7, 7, 7, 7, 7, 7, 7, 7, 7, 7, 7, 7, 7, 7, 7, 7, 7, 7, 7, 7, 7, 7, 7, 7,
   0, 0, 0, 2, 0, 0, 1, 69, 116, 114, 97, 107, 0, 0, 0, 92, 116, 107, 104, 100, 0, 0, 0, 1,
   0, 0, 0, 0, 0, 0, 0, 0, 0, 0, 0, 1, 0, 0, 0, 0, 0, 0, 0, 2, 0, 0, 0, 0,
   0, 0, 0, 0, 0, 0, 0, 0, 0, 0, 0, 0, 0, 0, 0, 0, 0, 0, 0, 0, 0, 0, 0, 0,
   0, 0, 0, 0, 0, 0, 0, 0, 0, 0, 0, 0, 0, 0, 0, 0, 0, 0, 0, 0, 0, 0, 0, 0,
   0, 0, 0, 0, 0, 0, 0, 0, 0, 0, 0, 225, 109, 100, 105, 97, 0, 0, 0, 32, 109, 100, 104, 100,
   0, 0, 0, 0, 0, 0, 0, 0, 0, 0, 0, 0, 0, 0, 0, 10, 0, 0, 0, 2, 0, 0, 0, 0,
   0, 0, 0, 33, 104, 100, 108, 114, 0, 0, 0, 0, 0, 0, 0, 0, 118, 105, 100, 101, 0, 0, 0, 0,
   0, 0, 0, 0, 0, 0, 0, 0, 0, 0, 0, 0, 152, 109, 105, 110, 102, 0, 0, 0, 20, 118, 109, 104,
   100, 0, 0, 0, 1, 0, 0, 0, 0, 0, 0, 0, 0, 0, 0, 0, 124, 115, 116, 98, 108, 0, 0, 0,
   16, 115, 116, 115, 100, 0, 0, 0, 0, 0, 0, 0, 0, 0, 0, 0, 24, 115, 116, 116, 115, 0, 0, 0,
   0, 0, 0, 0, 1, 0, 0, 0, 2, 0, 0, 0, 1, 0, 0, 0, 28, 115, 116, 115, 99, 0, 0, 0,
   0, 0, 0, 0, 1, 0, 0, 0, 1, 0, 0, 0, 2, 0, 0, 0, 1, 0, 0, 0, 28, 115, 116, 115,
   122, 0, 0, 0, 0, 0, 0, 0, 0, 0, 0, 0, 2, 0, 0, 0, 4, 0, 0, 0, 4, 0, 0, 0,
   20, 115, 116, 99, 111, 0, 0, 0, 0, 0, 0, 0, 1, 0, 0, 3, 130, 0, 0, 1, 65, 116, 114, 97,
   107, 0, 0, 0, 92, 116, 107, 104, 100, 0, 0, 0, 1, 0, 0, 0, 0, 0, 0, 0, 0, 0, 0, 0,
   1, 0, 0, 0, 0, 0, 0, 0, 2, 0, 0, 0, 0, 0, 0, 0, 0, 0, 0, 0, 0, 0, 0, 0,
   0, 0, 0, 0, 0, 0, 0, 0, 0, 0, 0, 0, 0, 0, 0, 0, 0, 0, 0, 0, 0, 0, 0, 0,
   0, 0, 0, 0, 0, 0, 0, 0, 0, 0, 0, 0, 0, 0, 0, 0, 0, 0, 0, 0, 0, 0, 0, 0,
   221, 109, 100, 105, 97, 0, 0, 0, 32, 109, 100, 104, 100, 0, 0, 0, 0, 0, 0, 0, 0, 0, 0, 0,
   0, 0, 0, 0, 10, 0, 0, 0, 2, 0, 0, 0, 0, 0, 0, 0, 33, 104, 100, 108, 114, 0, 0, 0,
   0, 0, 0, 0, 0, 115, 111, 117, 110, 0, 0, 0, 0, 0, 0, 0, 0, 0, 0, 0, 0, 0, 0, 0,
   0, 148, 109, 105, 110, 102, 0, 0, 0, 16, 115, 109, 104, 100, 0, 0, 0, 0, 0, 0, 0, 0, 0, 0,
   0, 124, 115, 116, 98, 108, 0, 0, 0, 16, 115, 116, 115, 100, 0, 0, 0, 0, 0, 0, 0, 0, 0, 0,
   0, 24, 115, 116, 116, 115, 0, 0, 0, 0, 0, 0, 0, 1, 0, 0, 0, 2, 0, 0, 0, 1, 0, 0,
   0, 28, 115, 116, 115, 99, 0, 0, 0, 0, 0, 0, 0, 1, 0, 0, 0, 1, 0, 0, 0, 2, 0, 0,
   0, 1, 0, 0, 0, 28, 115, 116, 115, 122, 0, 0, 0, 0, 0, 0, 0, 0, 0, 0, 0, 2, 0, 0,
   0, 3, 0, 0, 0, 3, 0, 0, 0, 20, 115, 116, 99, 111, 0, 0, 0, 0, 0, 0, 0, 1, 0, 0,
   3, 138, 0, 0, 0, 22, 109, 100, 97, 116, 9, 9, 9, 9, 9, 9, 9, 9, 9, 9, 9, 9, 9, 9]

/-- A zero-seek request for `twin_mvhd_file`. -/
def twin_mvhd_stream : stream_t :=
  { http := "1.1", period := 1, path := "t.mp4", db := some [], file := twin_mvhd_file,
    file_length := 912 }

/-- A sample MP4 file of 477 bytes with 2 s of media: `ftyp`, `moov` with one
enabled video track and no sync sample table, `mdat` (payload at 469). The
track has 2 samples of 4 bytes and 10 ticks each at 10 ticks per second, in
one chunk at file offset 469: the samples start at 469 and 473. -/
def two_second_file : Mem := Mem.of_list
  [0, 0, 0, 20, 102, 116, 121, 112, 105, 115, 111, 109, 0, 0, 0, 0, 105, 115, 111, 109, 0, 0, 1, 185,
   109, 111, 111, 118, 0, 0, 0, 108, 109, 118, 104, 100, 0, 0, 0, 0, 0, 0, 0, 0, 0, 0, 0, 0,
   0, 0, 0, 10, 0, 0, 0, 20, 0, 1, 0, 0, 1, 0, 0, 0, 0, 0, 0, 0, 0, 0, 0, 0,
   0, 0, 0, 0, 0, 0, 0, 0, 0, 0, 0, 0, 0, 0, 0, 0, 0, 0, 0, 0, 0, 0, 0, 0,
   0, 0, 0, 0, 0, 0, 0, 0, 0, 0, 0, 0, 7, 7, 7, 7, 7, 7, 7, 7, 7, 7, 7, 7,
   7, 7, 7, 7, 7, 7, 7, 7, 7, 7, 7, 7, 0, 0, 0, 2, 0, 0, 1, 69, 116, 114, 97, 107,
   0, 0, 0, 92, 116, 107, 104, 100, 0, 0, 0, 1, 0, 0, 0, 0, 0, 0, 0, 0, 0, 0, 0, 1,
   0, 0, 0, 0, 0, 0, 0, 20, 0, 0, 0, 0, 0, 0, 0, 0, 0, 0, 0, 0, 0, 0, 0, 0,
   0, 0, 0, 0, 0, 0, 0, 0, 0, 0, 0, 0, 0, 0, 0, 0, 0, 0, 0, 0, 0, 0, 0, 0,
   0, 0, 0, 0, 0, 0, 0, 0, 0, 0, 0, 0, 0, 0, 0, 0, 0, 0, 0, 0, 0, 0, 0, 225,
   109, 100, 105, 97, 0, 0, 0, 32, 109, 100, 104, 100, 0, 0, 0, 0, 0, 0, 0, 0, 0, 0, 0, 0,
   0, 0, 0, 10, 0, 0, 0, 20, 0, 0, 0, 0, 0, 0, 0, 33, 104, 100, 108, 114, 0, 0, 0, 0,
   0, 0, 0, 0, 118, 105, 100, 101, 0, 0, 0, 0, 0, 0, 0, 0, 0, 0, 0, 0, 0, 0, 0, 0,
   152, 109, 105, 110, 102, 0, 0, 0, 20, 118, 109, 104, 100, 0, 0, 0, 1, 0, 0, 0, 0, 0, 0, 0,
   0, 0, 0, 0, 124, 115, 116, 98, 108, 0, 0, 0, 16, 115, 116, 115, 100, 0, 0, 0, 0, 0, 0, 0,
   0, 0, 0, 0, 24, 115, 116, 116, 115, 0, 0, 0, 0, 0, 0, 0, 1, 0, 0, 0, 2, 0, 0, 0,
   10, 0, 0, 0, 28, 115, 116, 115, 99, 0, 0, 0, 0, 0, 0, 0, 1, 0, 0, 0, 1, 0, 0, 0,
   2, 0, 0, 0, 1, 0, 0, 0, 28, 115, 116, 115, 122, 0, 0, 0, 0, 0, 0, 0, 0, 0, 0, 0,
   2, 0, 0, 0, 4, 0, 0, 0, 4, 0, 0, 0, 20, 115, 116, 99, 111, 0, 0, 0, 0, 0, 0, 0,
   1, 0, 0, 1, 213, 0, 0, 0, 16, 109, 100, 97, 116, 9, 9, 9, 9, 9, 9, 9, 9]

/-- A spatial request on `two_second_file` whose start is the byte offset 473,
the file offset of the second period. -/
def spatial_stream : stream_t :=
  { http := "1.1", period := 1, path := "s.mp4", db := some [], file := two_second_file,
    file_length := 477, spatial := 1, start := 473 }

/-- A spatial request on `two_second_file` whose start is the byte offset 475,
inside the second period. -/
def late_spatial_stream : stream_t := { spatial_stream with start := 475 }

/-- The loads of the workers of a pool. -/
def pool_loads (pool : List worker_t) : List Nat := pool.map (fun w => w.load)

/-- A pool of three workers with the loads 4, 2 and 2. -/
def sample_engine : engine_t :=
  { workers := 3, clients := 1000, throttle := 20,
    pool := [{ id := 0, load := 4 }, { id := 1, load := 2 }, { id := 2, load := 2 }] }

/-- A stream definition for the file `a.mp4`. -/
def sample_definition : definition_t :=
  { getfd := some 7, http := "1.1", path := "a.mp4", mime := "video/mp4" }

/-- An engine like `sample_engine` without an admission cap (`clients = 0`). -/
def open_engine : engine_t := { sample_engine with clients := 0 }

/-- An engine like `sample_engine` whose admission cap equals the total load 8. -/
def full_engine : engine_t := { sample_engine with clients := 8 }

/-- A file of 16 bytes that starts with `ftyp`-like bytes, not with the FLV
fingerprint. -/
def not_flv_file : Mem := Mem.of_list [0, 0, 0, 16, 102, 116, 121, 112, 105, 115, 111, 109, 0, 0, 0, 0]

/-- A disk that holds `not_flv_file` under every path. -/
def not_flv_disk : String → Option Mem := fun _ => some not_flv_file

/-- A request for an FLV stream over HTTP/1.1 with an empty cache and the
throttle 20 of the engine. -/
def not_flv_stream : stream_t :=
  { http := "1.1", period := 1, path := "n.flv", mime := "video/x-flv", db := some [],
    throttle := 20 }

/-- A compiler of FLV meta-data that always fails. -/
def no_compiler : flv_compiler := fun _ _ _ _ _ _ => none

/-- A request for the whole of an FLV file whose offsets table is cached, with
the throttle 20 of the engine. -/
def cached_flv_stream : stream_t :=
  { http := "1.1", period := 1, path := "c.flv", mime := "video/x-flv",
    db := some [("c.flv:offsets", pack_off_t [13])], throttle := 20 }

/-- A disk whose files have 1048589 bytes: 13 bytes of FLV header and
1048576 bytes (1 MiB) of payload. -/
def exact_disk : String → Option Mem := fun _ => some (Mem.zero 1048589)

/-- A disk whose files have 1048590 bytes: 13 bytes of FLV header and
1048577 bytes of payload. -/
def large_disk : String → Option Mem := fun _ => some (Mem.zero 1048590)

/-- A compiler of FLV meta-data that is never called. -/
def idle_compiler : flv_compiler := fun _ _ _ _ _ _ => none

/-- A sample MP4 file of 1049273 bytes with 3 s of media, given by its first 473
bytes (all bytes after them are zero): `ftyp`, `moov` with one enabled video
track and no sync sample table, `mdat` (payload at 473). The track has 3
samples of 10 ticks each at 10 ticks per second, of 1048600, 100 and 100
bytes, in one chunk: the samples start at the file offsets 473, 1049073 and
1049173. -/
def long_file : Mem :=
  { size := 1049273, bits := (Mem.of_list
  [0, 0, 0, 20, 102, 116, 121, 112, 105, 115, 111, 109, 0, 0, 0, 0, 105, 115, 111, 109, 0, 0, 1, 189,
   109, 111, 111, 118, 0, 0, 0, 108, 109, 118, 104, 100, 0, 0, 0, 0, 0, 0, 0, 0, 0, 0, 0, 0,
   0, 0, 0, 10, 0, 0, 0, 30, 0, 1, 0, 0, 1, 0, 0, 0, 0, 0, 0, 0, 0, 0, 0, 0,
   0, 0, 0, 0, 0, 0, 0, 0, 0, 0, 0, 0, 0, 0, 0, 0, 0, 0, 0, 0, 0, 0, 0, 0,
   0, 0, 0, 0, 0, 0, 0, 0, 0, 0, 0, 0, 7, 7, 7, 7, 7, 7, 7, 7, 7, 7, 7, 7,
   7, 7, 7, 7, 7, 7, 7, 7, 7, 7, 7, 7, 0, 0, 0, 2, 0, 0, 1, 73, 116, 114, 97, 107,
   0, 0, 0, 92, 116, 107, 104, 100, 0, 0, 0, 1, 0, 0, 0, 0, 0, 0, 0, 0, 0, 0, 0, 1,
   0, 0, 0, 0, 0, 0, 0, 30, 0, 0, 0, 0, 0, 0, 0, 0, 0, 0, 0, 0, 0, 0, 0, 0,
   0, 0, 0, 0, 0, 0, 0, 0, 0, 0, 0, 0, 0, 0, 0, 0, 0, 0, 0, 0, 0, 0, 0, 0,
   0, 0, 0, 0, 0, 0, 0, 0, 0, 0, 0, 0, 0, 0, 0, 0, 0, 0, 0, 0, 0, 0, 0, 229,
   109, 100, 105, 97, 0, 0, 0, 32, 109, 100, 104, 100, 0, 0, 0, 0, 0, 0, 0, 0, 0, 0, 0, 0,
   0, 0, 0, 10, 0, 0, 0, 30, 0, 0, 0, 0, 0, 0, 0, 33, 104, 100, 108, 114, 0, 0, 0, 0,
   0, 0, 0, 0, 118, 105, 100, 101, 0, 0, 0, 0, 0, 0, 0, 0, 0, 0, 0, 0, 0, 0, 0, 0,
   156, 109, 105, 110, 102, 0, 0, 0, 20, 118, 109, 104, 100, 0, 0, 0, 1, 0, 0, 0, 0, 0, 0, 0,
   0, 0, 0, 0, 128, 115, 116, 98, 108, 0, 0, 0, 16, 115, 116, 115, 100, 0, 0, 0, 0, 0, 0, 0,
   0, 0, 0, 0, 24, 115, 116, 116, 115, 0, 0, 0, 0, 0, 0, 0, 1, 0, 0, 0, 3, 0, 0, 0,
   10, 0, 0, 0, 28, 115, 116, 115, 99, 0, 0, 0, 0, 0, 0, 0, 1, 0, 0, 0, 1, 0, 0, 0,
   3, 0, 0, 0, 1, 0, 0, 0, 32, 115, 116, 115, 122, 0, 0, 0, 0, 0, 0, 0, 0, 0, 0, 0,
   3, 0, 16, 0, 24, 0, 0, 0, 100, 0, 0, 0, 100, 0, 0, 0, 20, 115, 116, 99, 111, 0, 0, 0,
   0, 0, 0, 0, 1, 0, 0, 1, 217, 0, 16, 0, 232, 109, 100, 97, 116]).bits }

/-- A disk that holds `long_file` under every path. -/
def long_disk : String → Option Mem := fun _ => some long_file

/-- A request for the first second of `long_file` (`start = 0`, `stop = 1`)
as MP4 over HTTP/1.1, without a cache, with a period of one second and a
throttle of 2 seconds. -/
def clipped_stream : stream_t :=
  { http := "1.1", period := 1, path := "l.mp4", mime := "video/mp4", stop := 1, throttle := 2 }

/-- The stream that `stream_new` makes of `clipped_stream` at time 5. -/
def playing_stream : stream_t :=
  ((stream_new long_disk no_compiler 20 5 clipped_stream).getD ({}, true)).1

/-- The unsigned big-endian value of the `n` bytes at `buffer[p]`: the sum
over `i < n` of `buffer[p + i] * 256 ^ (n - 1 - i)`. -/
def big_endian (buffer : Mem) (p n : Nat) : Nat :=
  ((List.range n).map (fun i => byte_at buffer (p + i) * 256 ^ (n - 1 - i))).sum

/-- A buffer of 10 bytes. -/
def codec_mem : Mem := Mem.of_list [1, 2, 3, 4, 5, 6, 7, 8, 9, 10]

/-- The HTTP header text that `stream_flv_parse` formats, without the 13 dots
that make room for the FLV header. -/
def flv_text (http : String) (content_length : Nat) : String :=
  "HTTP/" ++ http ++ " 200 OK\n" ++
  "Content-Type: " ++ STREAM_FLV_MIME ++ "\n" ++
  "Content-Length: " ++ toString content_length ++ "\n" ++
  "Cache-Control: no-store, no-cache, must-revalidate, post-check=0, pre-check=0\n" ++
  "Expires: Mon, 29 Mar 1982 12:00:00 GMT\n" ++
  "Server: " ++ "Loomiere" ++ " " ++ "2.0.1-beta" ++ "\n\n"

/-- A compiler of FLV meta-data that answers with two periods at the file
offsets 13 and 100, a body from byte 40 to byte 200, and the times 1 and 2. -/
def sample_compiler : flv_compiler := fun _ _ _ _ _ _ =>
  some { offsets := [13, 100], periods := 2, file_offset := 40, file_finish := 200,
         start := 1, stop := 2 }

/-- An FLV file of 50 bytes: the FLV header, the previous-tag size and one
script tag of 26 bytes of payload with the `onMetaData` fingerprint. -/
def sample_flv_file : Mem := Mem.of_list
  [70, 76, 86, 1, 5, 0, 0, 0, 9, 0, 0, 0, 0,
   18, 0, 0, 26, 0, 0, 0, 0, 0, 0, 0,
   2, 0, 10, 111, 110, 77, 101, 116, 97, 68, 97, 116, 97,
   8, 0, 0, 0, 0, 0, 0, 9, 1, 2, 3, 4, 5]

/-- A request for the part of `sample_flv_file` between the times 1 and 2,
over HTTP/1.1 with an empty cache. -/
def sample_flv_stream : stream_t :=
  { http := "1.1", period := 1, path := "s.flv", mime := "video/x-flv", db := some [],
    start := 1, stop := 2, file := sample_flv_file, file_length := 50 }

/-- A sample MP4 file of 607 bytes like `sample_file`, but with the `stts`
entries `(5, 1), (0, 7), (5, 1)`, the second of which holds no sample, and
the single sync sample 1: one enabled video track of 10 samples of 5 bytes at
10 ticks per second, three chunks of 4, 4 and 2 samples. -/
def empty_entry_file : Mem := Mem.of_list
  [0, 0, 0, 20, 102, 116, 121, 112, 105, 115, 111, 109, 0, 0, 0, 0, 105, 115, 111, 109, 0, 0, 2, 17,
   109, 111, 111, 118, 0, 0, 0, 108, 109, 118, 104, 100, 0, 0, 0, 0, 0, 0, 0, 0, 0, 0, 0, 0,
   0, 0, 0, 10, 0, 0, 0, 10, 0, 1, 0, 0, 1, 0, 0, 0, 0, 0, 0, 0, 0, 0, 0, 0,
   0, 0, 0, 0, 0, 0, 0, 0, 0, 0, 0, 0, 0, 0, 0, 0, 0, 0, 0, 0, 0, 0, 0, 0,
   0, 0, 0, 0, 0, 0, 0, 0, 0, 0, 0, 0, 7, 7, 7, 7, 7, 7, 7, 7, 7, 7, 7, 7,
   7, 7, 7, 7, 7, 7, 7, 7, 7, 7, 7, 7, 0, 0, 0, 2, 0, 0, 1, 157, 116, 114, 97, 107,
   0, 0, 0, 92, 116, 107, 104, 100, 0, 0, 0, 1, 0, 0, 0, 0, 0, 0, 0, 0, 0, 0, 0, 1,
   0, 0, 0, 0, 0, 0, 0, 10, 0, 0, 0, 0, 0, 0, 0, 0, 0, 0, 0, 0, 0, 0, 0, 0,
   0, 0, 0, 0, 0, 0, 0, 0, 0, 0, 0, 0, 0, 0, 0, 0, 0, 0, 0, 0, 0, 0, 0, 0,
   0, 0, 0, 0, 0, 0, 0, 0, 0, 0, 0, 0, 0, 0, 0, 0, 0, 0, 0, 0, 0, 0, 1, 57,
   109, 100, 105, 97, 0, 0, 0, 32, 109, 100, 104, 100, 0, 0, 0, 0, 0, 0, 0, 0, 0, 0, 0, 0,
   0, 0, 0, 10, 0, 0, 0, 10, 0, 0, 0, 0, 0, 0, 0, 33, 104, 100, 108, 114, 0, 0, 0, 0,
   0, 0, 0, 0, 118, 105, 100, 101, 0, 0, 0, 0, 0, 0, 0, 0, 0, 0, 0, 0, 0, 0, 0, 0,
   240, 109, 105, 110, 102, 0, 0, 0, 20, 118, 109, 104, 100, 0, 0, 0, 1, 0, 0, 0, 0, 0, 0, 0,
   0, 0, 0, 0, 212, 115, 116, 98, 108, 0, 0, 0, 16, 115, 116, 115, 100, 0, 0, 0, 0, 0, 0, 0,
   0, 0, 0, 0, 40, 115, 116, 116, 115, 0, 0, 0, 0, 0, 0, 0, 3, 0, 0, 0, 5, 0, 0, 0,
   1, 0, 0, 0, 0, 0, 0, 0, 7, 0, 0, 0, 5, 0, 0, 0, 1, 0, 0, 0, 20, 115, 116, 115,
   115, 0, 0, 0, 0, 0, 0, 0, 1, 0, 0, 0, 1, 0, 0, 0, 40, 115, 116, 115, 99, 0, 0, 0,
   0, 0, 0, 0, 2, 0, 0, 0, 1, 0, 0, 0, 4, 0, 0, 0, 1, 0, 0, 0, 3, 0, 0, 0,
   2, 0, 0, 0, 1, 0, 0, 0, 60, 115, 116, 115, 122, 0, 0, 0, 0, 0, 0, 0, 0, 0, 0, 0,
   10, 0, 0, 0, 5, 0, 0, 0, 5, 0, 0, 0, 5, 0, 0, 0, 5, 0, 0, 0, 5, 0, 0, 0,
   5, 0, 0, 0, 5, 0, 0, 0, 5, 0, 0, 0, 5, 0, 0, 0, 5, 0, 0, 0, 28, 115, 116, 99,
   111, 0, 0, 0, 0, 0, 0, 0, 3, 0, 0, 2, 45, 0, 0, 2, 65, 0, 0, 2, 85, 0, 0, 0,
   58, 109, 100, 97, 116, 9, 9, 9, 9, 9, 9, 9, 9, 9, 9, 9, 9, 9, 9, 9, 9, 9, 9, 9,
   9, 9, 9, 9, 9, 9, 9, 9, 9, 9, 9, 9, 9, 9, 9, 9, 9, 9, 9, 9, 9, 9, 9, 9,
   9, 9, 9, 9, 9, 9, 9]

/-- A request for `empty_entry_file`. -/
def empty_entry_stream : stream_t :=
  { http := "1.1", period := 1, path := "g.mp4", db := some [], file := empty_entry_file,
    file_length := 607 }

/-- The `moov` blob and the sample table of the video track of
`empty_entry_file`, as parsed. -/
def empty_entry_tables : Mem × stbl_t :=
  ((meta_input 20 empty_entry_stream).2.1,
   (meta_input 20 empty_entry_stream).2.2.moov.vtrak.mdia.minf.stbl)

/-- The entries of the sample-to-chunk table of a sample table. -/
def stsc_entries (mem : Mem) (stbl : stbl_t) : List (Nat × Nat × Nat) :=
  (List.range stbl.stsc.count).map (fun i => stsc_entry_at mem (stbl.stsc.data + 12 * i))

/-- First chunk (counted from 1) of `stsc` entry `i`. -/
def stsc_first (mem : Mem) (stbl : stbl_t) (i : Nat) : Nat :=
  read_32 mem (stbl.stsc.data + 12 * i)

/-- Samples per chunk of `stsc` entry `i`. -/
def stsc_spc (mem : Mem) (stbl : stbl_t) (i : Nat) : Nat :=
  read_32 mem (stbl.stsc.data + 12 * i + 4)

/-- First chunk (counted from 0) of `stsc` entry `i`, and the number of chunks
for `i = stsc.count`. -/
def stsc_bound (mem : Mem) (stbl : stbl_t) (i : Nat) : Nat :=
  if i = stbl.stsc.count then stbl.max_chunks else stsc_first mem stbl i - 1

/-- File offset of chunk `chunk` (counted from 0) as `compile_seek` reads it:
the entry of the chunk offset table, or `max_offset` (the end of the data)
for a chunk number at or past the chunk count. -/
def chunk_base (mem : Mem) (stbl : stbl_t) (chunk : Nat) : Nat :=
  if chunk < stbl.coxx.count then coxx_entry mem stbl chunk else stbl.max_offset

/-- Size of sample `j` (counted from 0): the constant size of `stsz` if it is
not zero, else entry `j` of the table. -/
def sample_size (mem : Mem) (stbl : stbl_t) (j : Nat) : Nat :=
  if stbl.stsz.size ≠ 0 then stbl.stsz.size else read_32 mem (stbl.stsz.data + 4 * j)

/-- Sum of the sizes of the `n` samples that precede sample `s`. -/
def sizes_before (mem : Mem) (stbl : stbl_t) (s n : Nat) : Nat :=
  ((List.range n).map (fun k => sample_size mem stbl (s - n + k))).sum

/-- Sample count of entry `i` of a time table (`stts` or `ctts`) whose entries
start at `data`. -/
def xtts_count (mem : Mem) (data i : Nat) : Nat := read_32 mem (data + 8 * i)

/-- Sum of the sample counts of the first `i` entries of a time table. -/
def xtts_samples (mem : Mem) (data : Nat) : Nat → Nat
  | 0 => 0
  | i + 1 => xtts_samples mem data i + xtts_count mem data i

/-- The cursor `(index, offset)` addresses sample number `sample` in the time
table `xtts`: it is inside entry `index`, or at the end of the table. -/
def xtts_at (mem : Mem) (xtts : stxx_t) (index offset sample : Nat) : Prop :=
  sample = xtts_samples mem xtts.data index + offset ∧
  ((index < xtts.count ∧ offset < xtts_count mem xtts.data index) ∨
   (index = xtts.count ∧ offset = 0))

instance xtts_at_decidable (mem : Mem) (xtts : stxx_t) (index offset sample : Nat) :
    Decidable (xtts_at mem xtts index offset sample) := by
  unfold xtts_at
  exact inferInstance

/-- A sample MP4 file of 549 bytes with one enabled sound track and no sync
sample table: `ftyp`, `moov`, `mdat` (payload at 509). The track has 8
samples of 5 bytes and 1 tick each at 10 ticks per second, in three chunks
holding 4, 2 and 2 samples (`stsc` = `(1, 4, 1), (2, 2, 1)`: the first run is
the single chunk 1) at file offsets 509, 529 and 539. -/
def single_run_file : Mem := Mem.of_list
  [0, 0, 0, 20, 102, 116, 121, 112, 105, 115, 111, 109, 0, 0, 0, 0, 105, 115, 111, 109, 0, 0, 1, 225,
   109, 111, 111, 118, 0, 0, 0, 108, 109, 118, 104, 100, 0, 0, 0, 0, 0, 0, 0, 0, 0, 0, 0, 0,
   0, 0, 0, 10, 0, 0, 0, 8, 0, 1, 0, 0, 1, 0, 0, 0, 0, 0, 0, 0, 0, 0, 0, 0,
   0, 0, 0, 0, 0, 0, 0, 0, 0, 0, 0, 0, 0, 0, 0, 0, 0, 0, 0, 0, 0, 0, 0, 0,
   0, 0, 0, 0, 0, 0, 0, 0, 0, 0, 0, 0, 7, 7, 7, 7, 7, 7, 7, 7, 7, 7, 7, 7,
   7, 7, 7, 7, 7, 7, 7, 7, 7, 7, 7, 7, 0, 0, 0, 2, 0, 0, 1, 109, 116, 114, 97, 107,
   0, 0, 0, 92, 116, 107, 104, 100, 0, 0, 0, 1, 0, 0, 0, 0, 0, 0, 0, 0, 0, 0, 0, 1,
   0, 0, 0, 0, 0, 0, 0, 8, 0, 0, 0, 0, 0, 0, 0, 0, 0, 0, 0, 0, 0, 0, 0, 0,
   0, 0, 0, 0, 0, 0, 0, 0, 0, 0, 0, 0, 0, 0, 0, 0, 0, 0, 0, 0, 0, 0, 0, 0,
   0, 0, 0, 0, 0, 0, 0, 0, 0, 0, 0, 0, 0, 0, 0, 0, 0, 0, 0, 0, 0, 0, 1, 9,
   109, 100, 105, 97, 0, 0, 0, 32, 109, 100, 104, 100, 0, 0, 0, 0, 0, 0, 0, 0, 0, 0, 0, 0,
   0, 0, 0, 10, 0, 0, 0, 8, 0, 0, 0, 0, 0, 0, 0, 33, 104, 100, 108, 114, 0, 0, 0, 0,
   0, 0, 0, 0, 115, 111, 117, 110, 0, 0, 0, 0, 0, 0, 0, 0, 0, 0, 0, 0, 0, 0, 0, 0,
   192, 109, 105, 110, 102, 0, 0, 0, 16, 115, 109, 104, 100, 0, 0, 0, 0, 0, 0, 0, 0, 0, 0, 0,
   168, 115, 116, 98, 108, 0, 0, 0, 16, 115, 116, 115, 100, 0, 0, 0, 0, 0, 0, 0, 0, 0, 0, 0,
   24, 115, 116, 116, 115, 0, 0, 0, 0, 0, 0, 0, 1, 0, 0, 0, 8, 0, 0, 0, 1, 0, 0, 0,
   40, 115, 116, 115, 99, 0, 0, 0, 0, 0, 0, 0, 2, 0, 0, 0, 1, 0, 0, 0, 4, 0, 0, 0,
   1, 0, 0, 0, 2, 0, 0, 0, 2, 0, 0, 0, 1, 0, 0, 0, 52, 115, 116, 115, 122, 0, 0, 0,
   0, 0, 0, 0, 0, 0, 0, 0, 8, 0, 0, 0, 5, 0, 0, 0, 5, 0, 0, 0, 5, 0, 0, 0,
   5, 0, 0, 0, 5, 0, 0, 0, 5, 0, 0, 0, 5, 0, 0, 0, 5, 0, 0, 0, 28, 115, 116, 99,
   111, 0, 0, 0, 0, 0, 0, 0, 3, 0, 0, 1, 253, 0, 0, 2, 17, 0, 0, 2, 27, 0, 0, 0,
   48, 109, 100, 97, 116, 9, 9, 9, 9, 9, 9, 9, 9, 9, 9, 9, 9, 9, 9, 9, 9, 9, 9, 9,
   9, 9, 9, 9, 9, 9, 9, 9, 9, 9, 9, 9, 9, 9, 9, 9, 9, 9, 9, 9, 9]

/-- A request on `single_run_file` from 0.1 s to 0.4 s: sample 1, inside the
first chunk, to sample 4, the first sample of the second chunk. -/
def single_run_stream : stream_t :=
  { http := "1.1", period := 1, path := "r.mp4", db := some [], file := single_run_file,
    file_length := 549, start := 1 / 10, stop := 4 / 10 }

/-- The `moov` blob and the sample table of the sound track of
`single_run_file`, as parsed. -/
def single_run_tables : Mem × stbl_t :=
  ((meta_input 20 single_run_stream).2.1,
   (meta_input 20 single_run_stream).2.2.moov.strak.mdia.minf.stbl)

/-- The buffer and the sample table with which `compile_trak` calls
`clip_stsc`: the state after "restructuring stbl", "clip regular stbl tables
accurately" and the `resize_xxxx` of `stsc`. -/
def clip_input (mem : Mem) (stbl : stbl_t) (start end_ : seek_t) : Mem × stbl_t :=
  let r := compile_xxxx mem stbl.stts start.stts end_.stts none
  let stts := r.1
  let r := compile_xxxx r.2 stbl.ctts start.ctts end_.ctts none
  let ctts := r.1
  let r := compile_xxxx r.2 stbl.stss start.stss end_.stss none
  let stss := r.1
  let r := compile_stsz r.2 stbl.stsz start.stsz end_.stsz none
  let stsz := r.1
  let r := compile_xxxx r.2 stbl.coxx start.coxx end_.coxx none
  let coxx := r.1
  let mem := clip_xtts r.2 stts start.stts.offset end_.stts.offset
  let mem := clip_xtts mem ctts start.ctts.offset end_.ctts.offset
  let stsc := resize_xxxx stbl.stsc start.stsc end_.stsc (some end_.coxx)
  (mem, { stbl with
    stts := stts, ctts := ctts, stss := stss, stsz := stsz, coxx := coxx, stsc := stsc })

/-- The seek record that `compile_seek` returns for time `t` on parsed tables
(after `compile_maxs`). -/
def seek_at (t : Mem × stbl_t) (time : Nat) : seek_t :=
  compile_seek t.1 (compile_maxs t.1 t.2) (seek_request time)

/-- The buffer and the sample table with which `compile_trak` calls
`clip_stsc` for parsed tables cut from time `a` to time `b`. -/
def cut_input (t : Mem × stbl_t) (a b : Nat) : Mem × stbl_t :=
  clip_input t.1 (compile_maxs t.1 t.2) (seek_at t a) (seek_at t b)

/-- The number of chunks that `clip_stsc` counts as left in the first retained
`stsc` entry from the start chunk on (its local `n`): up to the first chunk of
the second retained entry, or up to `max_chunks` when one entry is retained. -/
def chunks_left (mem : Mem) (stbl : stbl_t) (start : seek_t) : Nat :=
  sub32 (if stbl.stsc.count = 1 then w32 stbl.max_chunks
      else sub32 (read_32 mem (stbl.stsc.data + 12)) 1)
    (w32 (sub32 (read_32 mem stbl.stsc.data) 1 + start.stsc.offset))

/-- The `stsc` entries that `iovs_stsc` emits after `clip_stsc`. -/
def spliced_stsc (mem : Mem) (stbl : stbl_t) (start end_ : seek_t) : List (Nat × Nat × Nat) :=
  emitted_stsc (clip_stsc mem stbl start end_).1
    { mdia := { minf := { stbl := (clip_stsc mem stbl start end_).2.1 } }
      start := (clip_stsc mem stbl start end_).2.2.1
      end_ := (clip_stsc mem stbl start end_).2.2.2 }

/-- The result of the block "prepend compensation entry if needed" inside
`clip_stsc` (for a table that is not void). -/
def clip_prepended (mem : Mem) (stbl : stbl_t) (start : seek_t) : Mem × stxx_t × seek_t :=
  clip_stsc_prepend (write_xx mem stbl.coxx.data start.offset (stbl.coxx.bytes <<< 3))
    stbl.stsc start stbl.stsc.data
    (chunks_left (write_xx mem stbl.coxx.data start.offset (stbl.coxx.bytes <<< 3)) stbl start)
    (read_32 (write_xx mem stbl.coxx.data start.offset (stbl.coxx.bytes <<< 3))
      (stbl.stsc.data + 4))

/-- The result of the block "prepare remaining entries" inside `clip_stsc`. -/
def clip_remained (mem : Mem) (stbl : stbl_t) (start end_ : seek_t) : Mem × Nat :=
  clip_stsc_remaining (clip_prepended mem stbl start).1 stbl.stsc.count (stbl.stsc.data + 12)
    (w32 (chunks_left (write_xx mem stbl.coxx.data start.offset (stbl.coxx.bytes <<< 3))
      stbl start + 1))
    (clip_prepended mem stbl start).2.2 end_

/-- The result of the block "append compensation entry if needed" inside
`clip_stsc`. -/
def clip_appended (mem : Mem) (stbl : stbl_t) (start end_ : seek_t) : stxx_t × seek_t :=
  clip_stsc_append (clip_remained mem stbl start end_).1 stbl.coxx.count
    (clip_prepended mem stbl start).2.1 (clip_remained mem stbl start end_).2 end_

/-- A sample MP4 file of 551 bytes with one enabled sound track and no sync
sample table: `ftyp`, `moov`, `mdat` (payload at 501). The track has 10
samples of 5 bytes and 1 tick each at 10 ticks per second, in two chunks of
5 samples (`stsc` = the single entry `(1, 5, 1)`) at file offsets 501 and 526;
the `stsc` box is followed by the `stsz` box. -/
def uniform_file : Mem := Mem.of_list
  [0, 0, 0, 20, 102, 116, 121, 112, 105, 115, 111, 109, 0, 0, 0, 0, 105, 115, 111, 109, 0, 0, 1, 217,
   109, 111, 111, 118, 0, 0, 0, 108, 109, 118, 104, 100, 0, 0, 0, 0, 0, 0, 0, 0, 0, 0, 0, 0,
   0, 0, 0, 10, 0, 0, 0, 10, 0, 1, 0, 0, 1, 0, 0, 0, 0, 0, 0, 0, 0, 0, 0, 0,
   0, 0, 0, 0, 0, 0, 0, 0, 0, 0, 0, 0, 0, 0, 0, 0, 0, 0, 0, 0, 0, 0, 0, 0,
   0, 0, 0, 0, 0, 0, 0, 0, 0, 0, 0, 0, 7, 7, 7, 7, 7, 7, 7, 7, 7, 7, 7, 7,
   7, 7, 7, 7, 7, 7, 7, 7, 7, 7, 7, 7, 0, 0, 0, 2, 0, 0, 1, 101, 116, 114, 97, 107,
   0, 0, 0, 92, 116, 107, 104, 100, 0, 0, 0, 1, 0, 0, 0, 0, 0, 0, 0, 0, 0, 0, 0, 1,
   0, 0, 0, 0, 0, 0, 0, 10, 0, 0, 0, 0, 0, 0, 0, 0, 0, 0, 0, 0, 0, 0, 0, 0,
   0, 0, 0, 0, 0, 0, 0, 0, 0, 0, 0, 0, 0, 0, 0, 0, 0, 0, 0, 0, 0, 0, 0, 0,
   0, 0, 0, 0, 0, 0, 0, 0, 0, 0, 0, 0, 0, 0, 0, 0, 0, 0, 0, 0, 0, 0, 1, 1,
   109, 100, 105, 97, 0, 0, 0, 32, 109, 100, 104, 100, 0, 0, 0, 0, 0, 0, 0, 0, 0, 0, 0, 0,
   0, 0, 0, 10, 0, 0, 0, 10, 0, 0, 0, 0, 0, 0, 0, 33, 104, 100, 108, 114, 0, 0, 0, 0,
   0, 0, 0, 0, 115, 111, 117, 110, 0, 0, 0, 0, 0, 0, 0, 0, 0, 0, 0, 0, 0, 0, 0, 0,
   184, 109, 105, 110, 102, 0, 0, 0, 16, 115, 109, 104, 100, 0, 0, 0, 0, 0, 0, 0, 0, 0, 0, 0,
   160, 115, 116, 98, 108, 0, 0, 0, 16, 115, 116, 115, 100, 0, 0, 0, 0, 0, 0, 0, 0, 0, 0, 0,
   24, 115, 116, 116, 115, 0, 0, 0, 0, 0, 0, 0, 1, 0, 0, 0, 10, 0, 0, 0, 1, 0, 0, 0,
   28, 115, 116, 115, 99, 0, 0, 0, 0, 0, 0, 0, 1, 0, 0, 0, 1, 0, 0, 0, 5, 0, 0, 0,
   1, 0, 0, 0, 60, 115, 116, 115, 122, 0, 0, 0, 0, 0, 0, 0, 0, 0, 0, 0, 10, 0, 0, 0,
   5, 0, 0, 0, 5, 0, 0, 0, 5, 0, 0, 0, 5, 0, 0, 0, 5, 0, 0, 0, 5, 0, 0, 0,
   5, 0, 0, 0, 5, 0, 0, 0, 5, 0, 0, 0, 5, 0, 0, 0, 24, 115, 116, 99, 111, 0, 0, 0,
   0, 0, 0, 0, 2, 0, 0, 1, 245, 0, 0, 2, 14, 0, 0, 0, 58, 109, 100, 97, 116, 9, 9, 9,
   9, 9, 9, 9, 9, 9, 9, 9, 9, 9, 9, 9, 9, 9, 9, 9, 9, 9, 9, 9, 9, 9, 9, 9,
   9, 9, 9, 9, 9, 9, 9, 9, 9, 9, 9, 9, 9, 9, 9, 9, 9, 9, 9, 9, 9, 9, 9]

/-- A request on `uniform_file` from the beginning to 0.7 s: sample 7 is the
third sample of the second chunk. -/
def uniform_stream : stream_t :=
  { http := "1.1", period := 1, path := "u.mp4", db := some [], file := uniform_file,
    file_length := 551, stop := 7 / 10 }

/-- The `moov` blob and the sample table of the sound track of
`uniform_file`, as parsed. -/
def uniform_tables : Mem × stbl_t :=
  ((meta_input 20 uniform_stream).2.1,
   (meta_input 20 uniform_stream).2.2.moov.strak.mdia.minf.stbl)

/-- The pointer `p` of `clip_stsc` when it reaches "append compensation entry
if needed", for an end cut inside a chunk: the last retained entry when more
than one entry is retained, else the position after the first entry. -/
def append_pointer (stbl : stbl_t) : Nat :=
  if stbl.stsc.count > 1 then stbl.stsc.data + 12 * (stbl.stsc.count - 1)
  else stbl.stsc.data + 12

/-- The divisor `d` of the `stts` intra-entry offset `(time - t) / d` in
`compile_seek`: the local `d` at the exit of the `stts` look-up loop. -/
def stts_divisor (mem : Mem) (stbl : stbl_t) (seek : seek_t) : Nat :=
  (seek_stts_loop mem stbl.stts.data seek.time stbl.stts.count 0 {}).2.d

/-- The divisor `c` of the `stsc` split `d / c` and `d % c` in `compile_seek`:
the local `c` at the exit of the `stsc` look-up loop, which runs for the
sample number left by the earlier look-ups. -/
def stsc_divisor (mem : Mem) (stbl : stbl_t) (seek : seek_t) : Nat :=
  (seek_stsc_loop mem stbl
    (seek_ctts mem stbl (seek_stss mem stbl (seek_stts mem stbl seek).1)
      (seek_stts mem stbl seek).2).1.stsz.index
    stbl.stsc.count 0 0
    (seek_ctts mem stbl (seek_stss mem stbl (seek_stts mem stbl seek).1)
      (seek_stts mem stbl seek).2).2 0).2.2.1

/-- The result of `parse_moov` on the `moov` blob of `sample_file` (failure
with empty results if the walk does not end). -/
def parsed_sample : Nat × moov_t × Mem :=
  (parse_moov (moov_input 20 sample_stream).1 20 (moov_input 20 sample_stream).2).getD
    (1, {}, {})

/-- Offset, inside the `mvhd` payload, of the area that `parse_moov` clears:
72 for version 0 and 84 for the other versions. -/
def mvhd_clear_offset (version : Nat) : Nat :=
  (if version ≠ 0 then 20 else 12) + 52 + (if version ≠ 0 then 12 else 8)

/-- The header that `data_atom` reads at the parent's cursor (8 bytes, 16 when
the 32-bit size field is 1) lies inside the parent's data. -/
def header_inside (mem : Mem) (parent : atom_t) : Prop :=
  parent.data_position +
      (if read_32 mem (parent.data.getD 0 + parent.data_position) = 1 then 16 else 8) ≤
    parent.data_size

instance header_inside_decidable (mem : Mem) (parent : atom_t) :
    Decidable (header_inside mem parent) := by
  unfold header_inside
  infer_instance

/-- The child does not exceed the bytes that remain in the parent's data at
the cursor. -/
def child_inside (parent child : atom_t) : Prop :=
  parent.data_position ≤ parent.data_size ∧
    child.size ≤ parent.data_size - parent.data_position

instance child_inside_decidable (parent child : atom_t) :
    Decidable (child_inside parent child) := by
  unfold child_inside
  infer_instance

/-- A buffer of 16 bytes that starts with the header of a `stts` box of
declared size 1000. -/
def oversized_mem : Mem :=
  Mem.of_list [0, 0, 3, 232, 115, 116, 116, 115, 0, 0, 0, 0, 0, 0, 0, 1]

/-- A parent whose data is 4 bytes long, placed on `oversized_mem`. -/
def short_parent : atom_t := { size := 12, data := some 0, data_size := 4 }

/-- A parent whose data is the 16 bytes of `oversized_mem`. -/
def full_parent : atom_t := { size := 24, data := some 0, data_size := 16 }

/-- A parent payload of 12 bytes: a `free` box of 8 bytes followed by 4
trailing bytes. -/
def padded_mem : Mem :=
  Mem.of_list [0, 0, 0, 8, 102, 114, 101, 101, 0, 0, 0, 0]

/-- A box whose data is the 12 bytes of `padded_mem`. -/
def padded_atom : atom_t := { size := 20, data := some 0, data_size := 12 }

/-- The payload (124 bytes) of an `stbl` box with the children `stts` (one
entry: 10 samples of duration 1), a second `stts` (two entries: 4 samples of
duration 1, 6 of duration 2), `stsc`, `stsz` (constant size 4, 10 samples) and
`stco`. -/
def twin_stts_mem : Mem := Mem.of_list
  [0, 0, 0, 24, 115, 116, 116, 115, 0, 0, 0, 0, 0, 0, 0, 1, 0, 0, 0, 10, 0, 0, 0, 1,
   0, 0, 0, 32, 115, 116, 116, 115, 0, 0, 0, 0, 0, 0, 0, 2, 0, 0, 0, 4, 0, 0, 0, 1,
   0, 0, 0, 6, 0, 0, 0, 2,
   0, 0, 0, 28, 115, 116, 115, 99, 0, 0, 0, 0, 0, 0, 0, 1, 0, 0, 0, 1, 0, 0, 0, 10,
   0, 0, 0, 1,
   0, 0, 0, 20, 115, 116, 115, 122, 0, 0, 0, 0, 0, 0, 0, 4, 0, 0, 0, 10,
   0, 0, 0, 20, 115, 116, 99, 111, 0, 0, 0, 0, 0, 0, 0, 1, 0, 0, 2, 188]

/-- The `stbl` atom whose payload is `twin_stts_mem`, before `parse_stbl`. -/
def twin_stts_stbl : stbl_t :=
  { atom := { type := STBL, size := 132, data := some 0, data_size := 124 } }

/-- The payload of `twin_stts_mem` with the second `stts` removed (92
bytes). -/
def lone_stts_mem : Mem := Mem.of_list
  [0, 0, 0, 24, 115, 116, 116, 115, 0, 0, 0, 0, 0, 0, 0, 1, 0, 0, 0, 10, 0, 0, 0, 1,
   0, 0, 0, 28, 115, 116, 115, 99, 0, 0, 0, 0, 0, 0, 0, 1, 0, 0, 0, 1, 0, 0, 0, 10,
   0, 0, 0, 1,
   0, 0, 0, 20, 115, 116, 115, 122, 0, 0, 0, 0, 0, 0, 0, 4, 0, 0, 0, 10,
   0, 0, 0, 20, 115, 116, 99, 111, 0, 0, 0, 0, 0, 0, 0, 1, 0, 0, 2, 188]

/-- The `stbl` atom whose payload is `lone_stts_mem`, before `parse_stbl`. -/
def lone_stts_stbl : stbl_t :=
  { atom := { type := STBL, size := 100, data := some 0, data_size := 92 } }

/-- The state of the walk of `parse_stbl` over `twin_stts_mem` after the first
child: the first `stts` is recorded and the cursor is 24. -/
def twin_stts_state : stbl_t :=
  { twin_stts_stbl with
    atom := (data_atom twin_stts_mem { twin_stts_stbl.atom with data_position := 0 } {}).2.1
    stts := { atom := (data_atom twin_stts_mem
      { twin_stts_stbl.atom with data_position := 0 } {}).2.2, bytes := 8 } }

/-- The payload (742 bytes) of a `moov` box with the children `mvhd` (108
bytes), an enabled video track of duration 10 (317 bytes) and a second enabled
video track of duration 20 (317 bytes). -/
def twin_video_mem : Mem := Mem.of_list
  [0, 0, 0, 108, 109, 118, 104, 100, 0, 0, 0, 0, 0, 0, 0, 0, 0, 0, 0, 0, 0, 0, 0, 10,
   0, 0, 0, 20, 0, 1, 0, 0, 1, 0, 0, 0, 0, 0, 0, 0, 0, 0, 0, 0, 0, 0, 0, 0,
   0, 0, 0, 0, 0, 0, 0, 0, 0, 0, 0, 0, 0, 0, 0, 0, 0, 0, 0, 0, 0, 0, 0, 0,
   0, 0, 0, 0, 0, 0, 0, 0, 7, 7, 7, 7, 7, 7, 7, 7, 7, 7, 7, 7, 7, 7, 7, 7,
   7, 7, 7, 7, 7, 7, 7, 7, 0, 0, 0, 2, 0, 0, 1, 61, 116, 114, 97, 107, 0, 0, 0, 92,
   116, 107, 104, 100, 0, 0, 0, 1, 0, 0, 0, 0, 0, 0, 0, 0, 0, 0, 0, 1, 0, 0, 0, 0,
   0, 0, 0, 10, 0, 0, 0, 0, 0, 0, 0, 0, 0, 0, 0, 0, 0, 0, 0, 0, 0, 0, 0, 0,
   0, 0, 0, 0, 0, 0, 0, 0, 0, 0, 0, 0, 0, 0, 0, 0, 0, 0, 0, 0, 0, 0, 0, 0,
   0, 0, 0, 0, 0, 0, 0, 0, 0, 0, 0, 0, 0, 0, 0, 0, 0, 0, 0, 217, 109, 100, 105, 97,
   0, 0, 0, 32, 109, 100, 104, 100, 0, 0, 0, 0, 0, 0, 0, 0, 0, 0, 0, 0, 0, 0, 0, 10,
   0, 0, 0, 10, 0, 0, 0, 0, 0, 0, 0, 33, 104, 100, 108, 114, 0, 0, 0, 0, 0, 0, 0, 0,
   118, 105, 100, 101, 0, 0, 0, 0, 0, 0, 0, 0, 0, 0, 0, 0, 0, 0, 0, 0, 144, 109, 105, 110,
   102, 0, 0, 0, 20, 118, 109, 104, 100, 0, 0, 0, 1, 0, 0, 0, 0, 0, 0, 0, 0, 0, 0, 0,
   116, 115, 116, 98, 108, 0, 0, 0, 16, 115, 116, 115, 100, 0, 0, 0, 0, 0, 0, 0, 0, 0, 0, 0,
   24, 115, 116, 116, 115, 0, 0, 0, 0, 0, 0, 0, 1, 0, 0, 0, 10, 0, 0, 0, 1, 0, 0, 0,
   28, 115, 116, 115, 99, 0, 0, 0, 0, 0, 0, 0, 1, 0, 0, 0, 1, 0, 0, 0, 10, 0, 0, 0,
   1, 0, 0, 0, 20, 115, 116, 115, 122, 0, 0, 0, 0, 0, 0, 0, 4, 0, 0, 0, 0, 0, 0, 0,
   20, 115, 116, 99, 111, 0, 0, 0, 0, 0, 0, 0, 1, 0, 0, 2, 188, 0, 0, 1, 61, 116, 114, 97,
   107, 0, 0, 0, 92, 116, 107, 104, 100, 0, 0, 0, 1, 0, 0, 0, 0, 0, 0, 0, 0, 0, 0, 0,
   1, 0, 0, 0, 0, 0, 0, 0, 20, 0, 0, 0, 0, 0, 0, 0, 0, 0, 0, 0, 0, 0, 0, 0,
   0, 0, 0, 0, 0, 0, 0, 0, 0, 0, 0, 0, 0, 0, 0, 0, 0, 0, 0, 0, 0, 0, 0, 0,
   0, 0, 0, 0, 0, 0, 0, 0, 0, 0, 0, 0, 0, 0, 0, 0, 0, 0, 0, 0, 0, 0, 0, 0,
   217, 109, 100, 105, 97, 0, 0, 0, 32, 109, 100, 104, 100, 0, 0, 0, 0, 0, 0, 0, 0, 0, 0, 0,
   0, 0, 0, 0, 10, 0, 0, 0, 20, 0, 0, 0, 0, 0, 0, 0, 33, 104, 100, 108, 114, 0, 0, 0,
   0, 0, 0, 0, 0, 118, 105, 100, 101, 0, 0, 0, 0, 0, 0, 0, 0, 0, 0, 0, 0, 0, 0, 0,
   0, 144, 109, 105, 110, 102, 0, 0, 0, 20, 118, 109, 104, 100, 0, 0, 0, 1, 0, 0, 0, 0, 0, 0,
   0, 0, 0, 0, 0, 116, 115, 116, 98, 108, 0, 0, 0, 16, 115, 116, 115, 100, 0, 0, 0, 0, 0, 0,
   0, 0, 0, 0, 0, 24, 115, 116, 116, 115, 0, 0, 0, 0, 0, 0, 0, 1, 0, 0, 0, 10, 0, 0,
   0, 2, 0, 0, 0, 28, 115, 116, 115, 99, 0, 0, 0, 0, 0, 0, 0, 1, 0, 0, 0, 1, 0, 0,
   0, 10, 0, 0, 0, 1, 0, 0, 0, 20, 115, 116, 115, 122, 0, 0, 0, 0, 0, 0, 0, 4, 0, 0,
   0, 0, 0, 0, 0, 20, 115, 116, 99, 111, 0, 0, 0, 0, 0, 0, 0, 1, 0, 0, 2, 228]

/-- The `moov` atom whose payload is `twin_video_mem`, before `parse_moov`. -/
def twin_video_moov : moov_t :=
  { atom := { type := MOOV, size := 750, data := some 0, data_size := 742 } }

/-- The first track of `twin_video_mem` as `parse_trak` returns it. -/
def twin_video_first : trak_t :=
  ((parse_trak twin_video_mem 18
    { atom := (data_atom twin_video_mem
      { twin_video_moov.atom with data_position := 108 } {}).2.2 }).getD (1, {})).2

/-- The state of the walk of `parse_moov` over `twin_video_mem` after the
first track: the track is kept as video track and the cursor is 425. -/
def twin_video_state : moov_t :=
  { twin_video_moov with
    atom := { twin_video_moov.atom with data_position := 425 }
    vtrak := twin_video_first }

/-- The result of `parse_trak` on the second track of `twin_video_mem`
(failure with an empty track if the walk does not end). -/
def twin_video_parsed : Nat × trak_t :=
  (parse_trak twin_video_mem 18
    { atom := (data_atom twin_video_mem twin_video_state.atom {}).2.2 }).getD (1, {})

/-- The second track of `twin_video_mem` as `parse_trak` returns it. -/
def twin_video_second : trak_t := twin_video_parsed.2

/-- The sync sample table that a track holds in the `moov` blob `mem`: the
`stss.count` entries at `stss.data`. -/
def emitted_stss (mem : Mem) (trak : trak_t) : List Nat :=
  (List.range trak.mdia.minf.stbl.stss.count).map
    (fun i => stss_entry mem trak.mdia.minf.stbl i)

/-- A sample MP4 file of 599 bytes: `ftyp`, `moov` with one enabled video
track, `mdat` (payload at 549). The track has 10 samples of 5 bytes and 1
tick each at 10 ticks per second, sync samples 1, 4 and 8 (`stss`), and three
chunks holding 4, 4 and 2 samples at file offsets 549, 569 and 589. -/
def three_key_file : Mem := Mem.of_list
  [0, 0, 0, 20, 102, 116, 121, 112, 105, 115, 111, 109, 0, 0, 0, 0, 105, 115, 111, 109, 0, 0, 2, 9,
   109, 111, 111, 118, 0, 0, 0, 108, 109, 118, 104, 100, 0, 0, 0, 0, 0, 0, 0, 0, 0, 0, 0, 0,
   0, 0, 0, 10, 0, 0, 0, 10, 0, 1, 0, 0, 1, 0, 0, 0, 0, 0, 0, 0, 0, 0, 0, 0,
   0, 0, 0, 0, 0, 0, 0, 0, 0, 0, 0, 0, 0, 0, 0, 0, 0, 0, 0, 0, 0, 0, 0, 0,
   0, 0, 0, 0, 0, 0, 0, 0, 0, 0, 0, 0, 7, 7, 7, 7, 7, 7, 7, 7, 7, 7, 7, 7,
   7, 7, 7, 7, 7, 7, 7, 7, 7, 7, 7, 7, 0, 0, 0, 2, 0, 0, 1, 149, 116, 114, 97, 107,
   0, 0, 0, 92, 116, 107, 104, 100, 0, 0, 0, 1, 0, 0, 0, 0, 0, 0, 0, 0, 0, 0, 0, 1,
   0, 0, 0, 0, 0, 0, 0, 10, 0, 0, 0, 0, 0, 0, 0, 0, 0, 0, 0, 0, 0, 0, 0, 0,
   0, 0, 0, 0, 0, 0, 0, 0, 0, 0, 0, 0, 0, 0, 0, 0, 0, 0, 0, 0, 0, 0, 0, 0,
   0, 0, 0, 0, 0, 0, 0, 0, 0, 0, 0, 0, 0, 0, 0, 0, 0, 0, 0, 0, 0, 0, 1, 49,
   109, 100, 105, 97, 0, 0, 0, 32, 109, 100, 104, 100, 0, 0, 0, 0, 0, 0, 0, 0, 0, 0, 0, 0,
   0, 0, 0, 10, 0, 0, 0, 10, 0, 0, 0, 0, 0, 0, 0, 33, 104, 100, 108, 114, 0, 0, 0, 0,
   0, 0, 0, 0, 118, 105, 100, 101, 0, 0, 0, 0, 0, 0, 0, 0, 0, 0, 0, 0, 0, 0, 0, 0,
   232, 109, 105, 110, 102, 0, 0, 0, 20, 118, 109, 104, 100, 0, 0, 0, 1, 0, 0, 0, 0, 0, 0, 0,
   0, 0, 0, 0, 204, 115, 116, 98, 108, 0, 0, 0, 16, 115, 116, 115, 100, 0, 0, 0, 0, 0, 0, 0,
   0, 0, 0, 0, 24, 115, 116, 116, 115, 0, 0, 0, 0, 0, 0, 0, 1, 0, 0, 0, 10, 0, 0, 0,
   1, 0, 0, 0, 28, 115, 116, 115, 115, 0, 0, 0, 0, 0, 0, 0, 3, 0, 0, 0, 1, 0, 0, 0,
   4, 0, 0, 0, 8, 0, 0, 0, 40, 115, 116, 115, 99, 0, 0, 0, 0, 0, 0, 0, 2, 0, 0, 0,
   1, 0, 0, 0, 4, 0, 0, 0, 1, 0, 0, 0, 3, 0, 0, 0, 2, 0, 0, 0, 1, 0, 0, 0,
   60, 115, 116, 115, 122, 0, 0, 0, 0, 0, 0, 0, 0, 0, 0, 0, 10, 0, 0, 0, 5, 0, 0, 0,
   5, 0, 0, 0, 5, 0, 0, 0, 5, 0, 0, 0, 5, 0, 0, 0, 5, 0, 0, 0, 5, 0, 0, 0,
   5, 0, 0, 0, 5, 0, 0, 0, 5, 0, 0, 0, 28, 115, 116, 99, 111, 0, 0, 0, 0, 0, 0, 0,
   3, 0, 0, 2, 37, 0, 0, 2, 57, 0, 0, 2, 77, 0, 0, 0, 58, 109, 100, 97, 116, 9, 9, 9,
   9, 9, 9, 9, 9, 9, 9, 9, 9, 9, 9, 9, 9, 9, 9, 9, 9, 9, 9, 9, 9, 9, 9, 9,
   9, 9, 9, 9, 9, 9, 9, 9, 9, 9, 9, 9, 9, 9, 9, 9, 9, 9, 9, 9, 9, 9, 9]

/-- A request for the whole of `three_key_file`. -/
def three_key_stream : stream_t :=
  { http := "1.1", period := 1, path := "k.mp4", db := some [], file := three_key_file,
    file_length := 599 }

/-- A request on `three_key_file` from 0.5 s on: sample 5 is snapped to the
sync sample 4. -/
def mid_key_stream : stream_t := { three_key_stream with start := 5 / 10 }

/-- A request on `three_key_file` from 0.9 s on: sample 9 is snapped to the
last sync sample 8. -/
def last_key_stream : stream_t := { three_key_stream with start := 9 / 10 }

/-- The `moov` blob and the sample table of the video track of
`three_key_file`, as parsed. -/
def three_key_tables : Mem × stbl_t :=
  ((meta_input 20 three_key_stream).2.1,
   (meta_input 20 three_key_stream).2.2.moov.vtrak.mdia.minf.stbl)

/-- The `moov` blob and the file that `compile_head` leaves for a request. -/
def relocated (self : stream_t) : Mem × file_t :=
  ((compile_head (head_input 20 self).1 (head_input 20 self).2.1 (head_input 20 self).2.2.1
      (head_input 20 self).2.2.2).2.1,
   (compile_head (head_input 20 self).1 (head_input 20 self).2.1 (head_input 20 self).2.2.1
      (head_input 20 self).2.2.2).2.2.1)

/-- The video track with which `compile_head` is entered for
`mid_key_stream`. -/
def mid_key_trak : trak_t := (head_input 20 mid_key_stream).2.2.2.moov.vtrak

/-- The `moov` blob with which `compile_head` is entered for
`mid_key_stream`. -/
def mid_key_mem : Mem := (head_input 20 mid_key_stream).2.2.1

/-- The sample table of `three_key_file` after `compile_maxs`. -/
def three_key_stbl : stbl_t := compile_maxs three_key_tables.1 three_key_tables.2

/-- A sample MP4 file of 595 bytes that differs from `sample_file` only in its
`stsz` box, which declares the constant sample size 5 for its 10 samples and
is followed by a `free` box of 40 bytes in place of the table: one enabled
video track, 10 samples of 1 tick each at 10 ticks per second, sync samples 1
and 6, three chunks of 4, 4 and 2 samples at file offsets 545, 565 and 585. -/
def constant_key_file : Mem := Mem.of_list
  [0, 0, 0, 20, 102, 116, 121, 112, 105, 115, 111, 109, 0, 0, 0, 0, 105, 115, 111, 109, 0, 0, 2, 5,
   109, 111, 111, 118, 0, 0, 0, 108, 109, 118, 104, 100, 0, 0, 0, 0, 0, 0, 0, 0, 0, 0, 0, 0,
   0, 0, 0, 10, 0, 0, 0, 10, 0, 1, 0, 0, 1, 0, 0, 0, 0, 0, 0, 0, 0, 0, 0, 0,
   0, 0, 0, 0, 0, 0, 0, 0, 0, 0, 0, 0, 0, 0, 0, 0, 0, 0, 0, 0, 0, 0, 0, 0,
   0, 0, 0, 0, 0, 0, 0, 0, 0, 0, 0, 0, 7, 7, 7, 7, 7, 7, 7, 7, 7, 7, 7, 7,
   7, 7, 7, 7, 7, 7, 7, 7, 7, 7, 7, 7, 0, 0, 0, 2, 0, 0, 1, 145, 116, 114, 97, 107,
   0, 0, 0, 92, 116, 107, 104, 100, 0, 0, 0, 1, 0, 0, 0, 0, 0, 0, 0, 0, 0, 0, 0, 1,
   0, 0, 0, 0, 0, 0, 0, 10, 0, 0, 0, 0, 0, 0, 0, 0, 0, 0, 0, 0, 0, 0, 0, 0,
   0, 0, 0, 0, 0, 0, 0, 0, 0, 0, 0, 0, 0, 0, 0, 0, 0, 0, 0, 0, 0, 0, 0, 0,
   0, 0, 0, 0, 0, 0, 0, 0, 0, 0, 0, 0, 0, 0, 0, 0, 0, 0, 0, 0, 0, 0, 1, 45,
   109, 100, 105, 97, 0, 0, 0, 32, 109, 100, 104, 100, 0, 0, 0, 0, 0, 0, 0, 0, 0, 0, 0, 0,
   0, 0, 0, 10, 0, 0, 0, 10, 0, 0, 0, 0, 0, 0, 0, 33, 104, 100, 108, 114, 0, 0, 0, 0,
   0, 0, 0, 0, 118, 105, 100, 101, 0, 0, 0, 0, 0, 0, 0, 0, 0, 0, 0, 0, 0, 0, 0, 0,
   228, 109, 105, 110, 102, 0, 0, 0, 20, 118, 109, 104, 100, 0, 0, 0, 1, 0, 0, 0, 0, 0, 0, 0,
   0, 0, 0, 0, 200, 115, 116, 98, 108, 0, 0, 0, 16, 115, 116, 115, 100, 0, 0, 0, 0, 0, 0, 0,
   0, 0, 0, 0, 24, 115, 116, 116, 115, 0, 0, 0, 0, 0, 0, 0, 1, 0, 0, 0, 10, 0, 0, 0,
   1, 0, 0, 0, 24, 115, 116, 115, 115, 0, 0, 0, 0, 0, 0, 0, 2, 0, 0, 0, 1, 0, 0, 0,
   6, 0, 0, 0, 40, 115, 116, 115, 99, 0, 0, 0, 0, 0, 0, 0, 2, 0, 0, 0, 1, 0, 0, 0,
   4, 0, 0, 0, 1, 0, 0, 0, 3, 0, 0, 0, 2, 0, 0, 0, 1, 0, 0, 0, 20, 115, 116, 115,
   122, 0, 0, 0, 0, 0, 0, 0, 5, 0, 0, 0, 10, 0, 0, 0, 40, 102, 114, 101, 101, 0, 0, 0,
   0, 0, 0, 0, 0, 0, 0, 0, 0, 0, 0, 0, 0, 0, 0, 0, 0, 0, 0, 0, 0, 0, 0, 0,
   0, 0, 0, 0, 0, 0, 0, 0, 28, 115, 116, 99, 111, 0, 0, 0, 0, 0, 0, 0, 3, 0, 0, 2,
   33, 0, 0, 2, 53, 0, 0, 2, 73, 0, 0, 0, 58, 109, 100, 97, 116, 9, 9, 9, 9, 9, 9, 9,
   9, 9, 9, 9, 9, 9, 9, 9, 9, 9, 9, 9, 9, 9, 9, 9, 9, 9, 9, 9, 9, 9, 9, 9,
   9, 9, 9, 9, 9, 9, 9, 9, 9, 9, 9, 9, 9, 9, 9, 9, 9, 9, 9]

/-- A request for the whole of `constant_key_file`. -/
def constant_key_stream : stream_t :=
  { http := "1.1", period := 1, path := "c.mp4", db := some [], file := constant_key_file,
    file_length := 595 }

/-- The `moov` blob and the sample table of the video track of
`constant_key_file`, as parsed. -/
def constant_key_tables : Mem × stbl_t :=
  ((meta_input 20 constant_key_stream).2.1,
   (meta_input 20 constant_key_stream).2.2.moov.vtrak.mdia.minf.stbl)

/-- The `stsz` descriptor that `init_stsz` yields for a box declaring the
constant sample size `size`. -/
def constant_stsz (stsz : stxx_t) (size : Nat) : stxx_t :=
  { stsz with size := size, count := 0, data := 0 }

/-- The `ftyp` box (20 bytes) of a file of 4294968596 bytes (4 GiB + 1300) with 3 s of
media: `ftyp`, `moov`, `mdat`. -/
def wide_ftyp : Mem := Mem.of_list
  [0, 0, 0, 20, 102, 116, 121, 112, 105, 115, 111, 109, 0, 0, 0, 0, 105, 115, 111, 109]

/-- The `moov` box (461 bytes) of that file: one enabled sound track without
sync sample table, 3 samples of 100 bytes and 10 ticks each at 10 ticks per
second, one per chunk, and a `co64` table with the chunk offsets 4294968296,
4294968396 and 4294968496. -/
def wide_moov : Mem := Mem.of_list
  [0, 0, 1, 205, 109, 111, 111, 118, 0, 0, 0, 108, 109, 118, 104, 100, 0, 0, 0, 0, 0, 0, 0, 0,
   0, 0, 0, 0, 0, 0, 0, 10, 0, 0, 0, 30, 0, 1, 0, 0, 1, 0, 0, 0, 0, 0, 0, 0,
   0, 0, 0, 0, 0, 0, 0, 0, 0, 0, 0, 0, 0, 0, 0, 0, 0, 0, 0, 0, 0, 0, 0, 0,
   0, 0, 0, 0, 0, 0, 0, 0, 0, 0, 0, 0, 0, 0, 0, 0, 7, 7, 7, 7, 7, 7, 7, 7,
   7, 7, 7, 7, 7, 7, 7, 7, 7, 7, 7, 7, 7, 7, 7, 7, 0, 0, 0, 2, 0, 0, 1, 89,
   116, 114, 97, 107, 0, 0, 0, 92, 116, 107, 104, 100, 0, 0, 0, 1, 0, 0, 0, 0, 0, 0, 0, 0,
   0, 0, 0, 1, 0, 0, 0, 0, 0, 0, 0, 30, 0, 0, 0, 0, 0, 0, 0, 0, 0, 0, 0, 0,
   0, 0, 0, 0, 0, 0, 0, 0, 0, 0, 0, 0, 0, 0, 0, 0, 0, 0, 0, 0, 0, 0, 0, 0,
   0, 0, 0, 0, 0, 0, 0, 0, 0, 0, 0, 0, 0, 0, 0, 0, 0, 0, 0, 0, 0, 0, 0, 0,
   0, 0, 0, 245, 109, 100, 105, 97, 0, 0, 0, 32, 109, 100, 104, 100, 0, 0, 0, 0, 0, 0, 0, 0,
   0, 0, 0, 0, 0, 0, 0, 10, 0, 0, 0, 30, 0, 0, 0, 0, 0, 0, 0, 33, 104, 100, 108, 114,
   0, 0, 0, 0, 0, 0, 0, 0, 115, 111, 117, 110, 0, 0, 0, 0, 0, 0, 0, 0, 0, 0, 0, 0,
   0, 0, 0, 0, 172, 109, 105, 110, 102, 0, 0, 0, 16, 115, 109, 104, 100, 0, 0, 0, 0, 0, 0, 0,
   0, 0, 0, 0, 148, 115, 116, 98, 108, 0, 0, 0, 16, 115, 116, 115, 100, 0, 0, 0, 0, 0, 0, 0,
   0, 0, 0, 0, 24, 115, 116, 116, 115, 0, 0, 0, 0, 0, 0, 0, 1, 0, 0, 0, 3, 0, 0, 0,
   10, 0, 0, 0, 28, 115, 116, 115, 99, 0, 0, 0, 0, 0, 0, 0, 1, 0, 0, 0, 1, 0, 0, 0,
   1, 0, 0, 0, 1, 0, 0, 0, 32, 115, 116, 115, 122, 0, 0, 0, 0, 0, 0, 0, 0, 0, 0, 0,
   3, 0, 0, 0, 100, 0, 0, 0, 100, 0, 0, 0, 100, 0, 0, 0, 40, 99, 111, 54, 52, 0, 0, 0,
   0, 0, 0, 0, 3, 0, 0, 0, 1, 0, 0, 3, 232, 0, 0, 0, 1, 0, 0, 4, 76, 0, 0, 0,
   1, 0, 0, 4, 176]

/-- The header (16 bytes, 64-bit size) of the `mdat` box of that file, which
starts at 481. -/
def wide_mdat : Mem := Mem.of_list
  [0, 0, 0, 1, 109, 100, 97, 116, 0, 0, 0, 1, 0, 0, 3, 51]

/-- A request for the whole of that file, with a period of one second, served
with the three main atoms in the cache (so that the file is not read). -/
def wide_stream : stream_t :=
  { http := "1.1", period := 1, path := "w.mp4", file_length := 4294968596,
    db := some [("w.mp4:atom:ftyp", wide_ftyp), ("w.mp4:atom:moov", wide_moov),
      ("w.mp4:atom:mdat", wide_mdat)] }

/-- The `moov` blob and the sample table of the sound track of `wide_moov`,
as parsed. -/
def wide_tables : Mem × stbl_t :=
  ((meta_input 20 wide_stream).2.1,
   (meta_input 20 wide_stream).2.2.moov.strak.mdia.minf.stbl)

/-- The `moov` box of `wide_moov` with the chunk offsets 1000, 1100 and 1200 in
its `co64` table. -/
def narrow_moov : Mem := Mem.of_list
  [0, 0, 1, 205, 109, 111, 111, 118, 0, 0, 0, 108, 109, 118, 104, 100, 0, 0, 0, 0, 0, 0, 0, 0,
   0, 0, 0, 0, 0, 0, 0, 10, 0, 0, 0, 30, 0, 1, 0, 0, 1, 0, 0, 0, 0, 0, 0, 0,
   0, 0, 0, 0, 0, 0, 0, 0, 0, 0, 0, 0, 0, 0, 0, 0, 0, 0, 0, 0, 0, 0, 0, 0,
   0, 0, 0, 0, 0, 0, 0, 0, 0, 0, 0, 0, 0, 0, 0, 0, 7, 7, 7, 7, 7, 7, 7, 7,
   7, 7, 7, 7, 7, 7, 7, 7, 7, 7, 7, 7, 7, 7, 7, 7, 0, 0, 0, 2, 0, 0, 1, 89,
   116, 114, 97, 107, 0, 0, 0, 92, 116, 107, 104, 100, 0, 0, 0, 1, 0, 0, 0, 0, 0, 0, 0, 0,
   0, 0, 0, 1, 0, 0, 0, 0, 0, 0, 0, 30, 0, 0, 0, 0, 0, 0, 0, 0, 0, 0, 0, 0,
   0, 0, 0, 0, 0, 0, 0, 0, 0, 0, 0, 0, 0, 0, 0, 0, 0, 0, 0, 0, 0, 0, 0, 0,
   0, 0, 0, 0, 0, 0, 0, 0, 0, 0, 0, 0, 0, 0, 0, 0, 0, 0, 0, 0, 0, 0, 0, 0,
   0, 0, 0, 245, 109, 100, 105, 97, 0, 0, 0, 32, 109, 100, 104, 100, 0, 0, 0, 0, 0, 0, 0, 0,
   0, 0, 0, 0, 0, 0, 0, 10, 0, 0, 0, 30, 0, 0, 0, 0, 0, 0, 0, 33, 104, 100, 108, 114,
   0, 0, 0, 0, 0, 0, 0, 0, 115, 111, 117, 110, 0, 0, 0, 0, 0, 0, 0, 0, 0, 0, 0, 0,
   0, 0, 0, 0, 172, 109, 105, 110, 102, 0, 0, 0, 16, 115, 109, 104, 100, 0, 0, 0, 0, 0, 0, 0,
   0, 0, 0, 0, 148, 115, 116, 98, 108, 0, 0, 0, 16, 115, 116, 115, 100, 0, 0, 0, 0, 0, 0, 0,
   0, 0, 0, 0, 24, 115, 116, 116, 115, 0, 0, 0, 0, 0, 0, 0, 1, 0, 0, 0, 3, 0, 0, 0,
   10, 0, 0, 0, 28, 115, 116, 115, 99, 0, 0, 0, 0, 0, 0, 0, 1, 0, 0, 0, 1, 0, 0, 0,
   1, 0, 0, 0, 1, 0, 0, 0, 32, 115, 116, 115, 122, 0, 0, 0, 0, 0, 0, 0, 0, 0, 0, 0,
   3, 0, 0, 0, 100, 0, 0, 0, 100, 0, 0, 0, 100, 0, 0, 0, 40, 99, 111, 54, 52, 0, 0, 0,
   0, 0, 0, 0, 3, 0, 0, 0, 0, 0, 0, 3, 232, 0, 0, 0, 0, 0, 0, 4, 76, 0, 0, 0,
   0, 0, 0, 4, 176]

/-- The header of the `mdat` box (64-bit size) that goes with `narrow_moov`. -/
def narrow_mdat : Mem := Mem.of_list
  [0, 0, 0, 1, 109, 100, 97, 116, 0, 0, 0, 0, 0, 0, 3, 51]

/-- A request for the whole of the file of 1300 bytes with `narrow_moov`,
served with the three main atoms in the cache. -/
def narrow_stream : stream_t :=
  { http := "1.1", period := 1, path := "n.mp4", file_length := 1300,
    db := some [("n.mp4:atom:ftyp", wide_ftyp), ("n.mp4:atom:moov", narrow_moov),
      ("n.mp4:atom:mdat", narrow_mdat)] }

/-- The `moov` blob and the sample table of the sound track of `narrow_moov`,
as parsed. -/
def narrow_tables : Mem × stbl_t :=
  ((meta_input 20 narrow_stream).2.1,
   (meta_input 20 narrow_stream).2.2.moov.strak.mdia.minf.stbl)

/-- The offsets table that `stream_mp4_parse` leaves in the stream (empty when
it fails). -/
def parsed_offsets (self : stream_t) : List Nat :=
  (((stream_mp4_parse 20 self).getD (1, {})).2.offsets).getD []

/-- A sample MP4 file of 611 bytes like `sample_file`, but with the `stts`
entries `(5, 1), (0, 7), (5, 1)`, the second of which holds no sample, and
the sync samples 1 and 8: one enabled video track of 10 samples of 5 bytes at
10 ticks per second, three chunks of 4, 4 and 2 samples. -/
def gap_key_file : Mem := Mem.of_list
  [0, 0, 0, 20, 102, 116, 121, 112, 105, 115, 111, 109, 0, 0, 0, 0, 105, 115, 111, 109, 0, 0, 2, 21,
   109, 111, 111, 118, 0, 0, 0, 108, 109, 118, 104, 100, 0, 0, 0, 0, 0, 0, 0, 0, 0, 0, 0, 0,
   0, 0, 0, 10, 0, 0, 0, 10, 0, 1, 0, 0, 1, 0, 0, 0, 0, 0, 0, 0, 0, 0, 0, 0,
   0, 0, 0, 0, 0, 0, 0, 0, 0, 0, 0, 0, 0, 0, 0, 0, 0, 0, 0, 0, 0, 0, 0, 0,
   0, 0, 0, 0, 0, 0, 0, 0, 0, 0, 0, 0, 7, 7, 7, 7, 7, 7, 7, 7, 7, 7, 7, 7,
   7, 7, 7, 7, 7, 7, 7, 7, 7, 7, 7, 7, 0, 0, 0, 2, 0, 0, 1, 161, 116, 114, 97, 107,
   0, 0, 0, 92, 116, 107, 104, 100, 0, 0, 0, 1, 0, 0, 0, 0, 0, 0, 0, 0, 0, 0, 0, 1,
   0, 0, 0, 0, 0, 0, 0, 10, 0, 0, 0, 0, 0, 0, 0, 0, 0, 0, 0, 0, 0, 0, 0, 0,
   0, 0, 0, 0, 0, 0, 0, 0, 0, 0, 0, 0, 0, 0, 0, 0, 0, 0, 0, 0, 0, 0, 0, 0,
   0, 0, 0, 0, 0, 0, 0, 0, 0, 0, 0, 0, 0, 0, 0, 0, 0, 0, 0, 0, 0, 0, 1, 61,
   109, 100, 105, 97, 0, 0, 0, 32, 109, 100, 104, 100, 0, 0, 0, 0, 0, 0, 0, 0, 0, 0, 0, 0,
   0, 0, 0, 10, 0, 0, 0, 10, 0, 0, 0, 0, 0, 0, 0, 33, 104, 100, 108, 114, 0, 0, 0, 0,
   0, 0, 0, 0, 118, 105, 100, 101, 0, 0, 0, 0, 0, 0, 0, 0, 0, 0, 0, 0, 0, 0, 0, 0,
   244, 109, 105, 110, 102, 0, 0, 0, 20, 118, 109, 104, 100, 0, 0, 0, 1, 0, 0, 0, 0, 0, 0, 0,
   0, 0, 0, 0, 216, 115, 116, 98, 108, 0, 0, 0, 16, 115, 116, 115, 100, 0, 0, 0, 0, 0, 0, 0,
   0, 0, 0, 0, 40, 115, 116, 116, 115, 0, 0, 0, 0, 0, 0, 0, 3, 0, 0, 0, 5, 0, 0, 0,
   1, 0, 0, 0, 0, 0, 0, 0, 7, 0, 0, 0, 5, 0, 0, 0, 1, 0, 0, 0, 24, 115, 116, 115,
   115, 0, 0, 0, 0, 0, 0, 0, 2, 0, 0, 0, 1, 0, 0, 0, 8, 0, 0, 0, 40, 115, 116, 115,
   99, 0, 0, 0, 0, 0, 0, 0, 2, 0, 0, 0, 1, 0, 0, 0, 4, 0, 0, 0, 1, 0, 0, 0,
   3, 0, 0, 0, 2, 0, 0, 0, 1, 0, 0, 0, 60, 115, 116, 115, 122, 0, 0, 0, 0, 0, 0, 0,
   0, 0, 0, 0, 10, 0, 0, 0, 5, 0, 0, 0, 5, 0, 0, 0, 5, 0, 0, 0, 5, 0, 0, 0,
   5, 0, 0, 0, 5, 0, 0, 0, 5, 0, 0, 0, 5, 0, 0, 0, 5, 0, 0, 0, 5, 0, 0, 0,
   28, 115, 116, 99, 111, 0, 0, 0, 0, 0, 0, 0, 3, 0, 0, 2, 49, 0, 0, 2, 69, 0, 0, 2,
   89, 0, 0, 0, 58, 109, 100, 97, 116, 9, 9, 9, 9, 9, 9, 9, 9, 9, 9, 9, 9, 9, 9, 9,
   9, 9, 9, 9, 9, 9, 9, 9, 9, 9, 9, 9, 9, 9, 9, 9, 9, 9, 9, 9, 9, 9, 9, 9,
   9, 9, 9, 9, 9, 9, 9, 9, 9, 9, 9]

/-- A request for the whole of `gap_key_file`. -/
def gap_key_stream : stream_t :=
  { http := "1.1", period := 1, path := "h.mp4", db := some [], file := gap_key_file,
    file_length := 611 }

/-- The `moov` blob and the sample table of the video track of `gap_key_file`,
as parsed. -/
def gap_key_tables : Mem × stbl_t :=
  ((meta_input 20 gap_key_stream).2.1,
   (meta_input 20 gap_key_stream).2.2.moov.vtrak.mdia.minf.stbl)

/-- A request on `gap_key_file` from 0.6 s to 0.7 s. -/
def gap_cut_stream : stream_t := { gap_key_stream with start := 6 / 10, stop := 7 / 10 }

/-- Sample duration of entry `i` of a time table (`stts`) whose entries start
at `data`. -/
def xtts_delta (mem : Mem) (data i : Nat) : Nat := read_32 mem (data + 8 * i + 4)

/-- Sum of count * duration over the first `i` entries of a time table. -/
def xtts_time (mem : Mem) (data : Nat) : Nat → Nat
  | 0 => 0
  | i + 1 => xtts_time mem data i + xtts_count mem data i * xtts_delta mem data i

/-- A sample MP4 file of 615 bytes with 1.9 s of media: `ftyp`, `moov` with one
enabled video track, `mdat`. The track has 10 samples of 5 bytes at 10 ticks
per second with the `stts` entries `(4, 1), (3, 2), (3, 3)`, the sync samples
1, 5 and 9, and three chunks of 4, 4 and 2 samples. -/
def varied_file : Mem := Mem.of_list
  [0, 0, 0, 20, 102, 116, 121, 112, 105, 115, 111, 109, 0, 0, 0, 0, 105, 115, 111, 109, 0, 0, 2, 25,
   109, 111, 111, 118, 0, 0, 0, 108, 109, 118, 104, 100, 0, 0, 0, 0, 0, 0, 0, 0, 0, 0, 0, 0,
   0, 0, 0, 10, 0, 0, 0, 19, 0, 1, 0, 0, 1, 0, 0, 0, 0, 0, 0, 0, 0, 0, 0, 0,
   0, 0, 0, 0, 0, 0, 0, 0, 0, 0, 0, 0, 0, 0, 0, 0, 0, 0, 0, 0, 0, 0, 0, 0,
   0, 0, 0, 0, 0, 0, 0, 0, 0, 0, 0, 0, 7, 7, 7, 7, 7, 7, 7, 7, 7, 7, 7, 7,
   7, 7, 7, 7, 7, 7, 7, 7, 7, 7, 7, 7, 0, 0, 0, 2, 0, 0, 1, 165, 116, 114, 97, 107,
   0, 0, 0, 92, 116, 107, 104, 100, 0, 0, 0, 1, 0, 0, 0, 0, 0, 0, 0, 0, 0, 0, 0, 1,
   0, 0, 0, 0, 0, 0, 0, 19, 0, 0, 0, 0, 0, 0, 0, 0, 0, 0, 0, 0, 0, 0, 0, 0,
   0, 0, 0, 0, 0, 0, 0, 0, 0, 0, 0, 0, 0, 0, 0, 0, 0, 0, 0, 0, 0, 0, 0, 0,
   0, 0, 0, 0, 0, 0, 0, 0, 0, 0, 0, 0, 0, 0, 0, 0, 0, 0, 0, 0, 0, 0, 1, 65,
   109, 100, 105, 97, 0, 0, 0, 32, 109, 100, 104, 100, 0, 0, 0, 0, 0, 0, 0, 0, 0, 0, 0, 0,
   0, 0, 0, 10, 0, 0, 0, 19, 0, 0, 0, 0, 0, 0, 0, 33, 104, 100, 108, 114, 0, 0, 0, 0,
   0, 0, 0, 0, 118, 105, 100, 101, 0, 0, 0, 0, 0, 0, 0, 0, 0, 0, 0, 0, 0, 0, 0, 0,
   248, 109, 105, 110, 102, 0, 0, 0, 20, 118, 109, 104, 100, 0, 0, 0, 1, 0, 0, 0, 0, 0, 0, 0,
   0, 0, 0, 0, 220, 115, 116, 98, 108, 0, 0, 0, 16, 115, 116, 115, 100, 0, 0, 0, 0, 0, 0, 0,
   0, 0, 0, 0, 40, 115, 116, 116, 115, 0, 0, 0, 0, 0, 0, 0, 3, 0, 0, 0, 4, 0, 0, 0,
   1, 0, 0, 0, 3, 0, 0, 0, 2, 0, 0, 0, 3, 0, 0, 0, 3, 0, 0, 0, 28, 115, 116, 115,
   115, 0, 0, 0, 0, 0, 0, 0, 3, 0, 0, 0, 1, 0, 0, 0, 5, 0, 0, 0, 9, 0, 0, 0,
   40, 115, 116, 115, 99, 0, 0, 0, 0, 0, 0, 0, 2, 0, 0, 0, 1, 0, 0, 0, 4, 0, 0, 0,
   1, 0, 0, 0, 3, 0, 0, 0, 2, 0, 0, 0, 1, 0, 0, 0, 60, 115, 116, 115, 122, 0, 0, 0,
   0, 0, 0, 0, 0, 0, 0, 0, 10, 0, 0, 0, 5, 0, 0, 0, 5, 0, 0, 0, 5, 0, 0, 0,
   5, 0, 0, 0, 5, 0, 0, 0, 5, 0, 0, 0, 5, 0, 0, 0, 5, 0, 0, 0, 5, 0, 0, 0,
   5, 0, 0, 0, 28, 115, 116, 99, 111, 0, 0, 0, 0, 0, 0, 0, 3, 0, 0, 2, 53, 0, 0, 2,
   73, 0, 0, 2, 93, 0, 0, 0, 58, 109, 100, 97, 116, 9, 9, 9, 9, 9, 9, 9, 9, 9, 9, 9,
   9, 9, 9, 9, 9, 9, 9, 9, 9, 9, 9, 9, 9, 9, 9, 9, 9, 9, 9, 9, 9, 9, 9, 9,
   9, 9, 9, 9, 9, 9, 9, 9, 9, 9, 9, 9, 9, 9, 9]

/-- A request for the whole of `varied_file`. -/
def varied_stream : stream_t :=
  { http := "1.1", period := 1, path := "v.mp4", db := some [], file := varied_file,
    file_length := 615 }

/-- A request on `varied_file` from 0.5 s to 1.5 s. -/
def varied_cut_stream : stream_t := { varied_stream with start := 5 / 10, stop := 15 / 10 }

/-- The `moov` blob and the sample table of the video track of `varied_file`,
as parsed. -/
def varied_tables : Mem × stbl_t :=
  ((meta_input 20 varied_stream).2.1,
   (meta_input 20 varied_stream).2.2.moov.vtrak.mdia.minf.stbl)

/-- The entries (count, duration) of the `stts` table that a track holds in
the `moov` blob `mem`. -/
def emitted_stts (mem : Mem) (trak : trak_t) : List (Nat × Nat) :=
  (List.range trak.mdia.minf.stbl.stts.count).map
    (fun i => (xtts_count mem trak.mdia.minf.stbl.stts.data i,
               xtts_delta mem trak.mdia.minf.stbl.stts.data i))

/-- A sample MP4 file of 635 bytes with 1 s of media: `ftyp`, `moov` with one
enabled video track, `mdat` (payload at 585). The track has 10 samples of 5
bytes and 1 tick each at 10 ticks per second, the sync samples 1 and 6, three
chunks of 4, 4 and 2 samples, and its chunk offsets 585, 605 and 625 twice: in
an `stco` box followed by a `co64` box. -/
def dual_offsets_file : Mem := Mem.of_list
  [0, 0, 0, 20, 102, 116, 121, 112, 105, 115, 111, 109, 0, 0, 0, 0, 105, 115, 111, 109, 0, 0, 2, 45,
   109, 111, 111, 118, 0, 0, 0, 108, 109, 118, 104, 100, 0, 0, 0, 0, 0, 0, 0, 0, 0, 0, 0, 0,
   0, 0, 0, 10, 0, 0, 0, 10, 0, 1, 0, 0, 1, 0, 0, 0, 0, 0, 0, 0, 0, 0, 0, 0,
   0, 0, 0, 0, 0, 0, 0, 0, 0, 0, 0, 0, 0, 0, 0, 0, 0, 0, 0, 0, 0, 0, 0, 0,
   0, 0, 0, 0, 0, 0, 0, 0, 0, 0, 0, 0, 7, 7, 7, 7, 7, 7, 7, 7, 7, 7, 7, 7,
   7, 7, 7, 7, 7, 7, 7, 7, 7, 7, 7, 7, 0, 0, 0, 2, 0, 0, 1, 185, 116, 114, 97, 107,
   0, 0, 0, 92, 116, 107, 104, 100, 0, 0, 0, 1, 0, 0, 0, 0, 0, 0, 0, 0, 0, 0, 0, 1,
   0, 0, 0, 0, 0, 0, 0, 10, 0, 0, 0, 0, 0, 0, 0, 0, 0, 0, 0, 0, 0, 0, 0, 0,
   0, 0, 0, 0, 0, 0, 0, 0, 0, 0, 0, 0, 0, 0, 0, 0, 0, 0, 0, 0, 0, 0, 0, 0,
   0, 0, 0, 0, 0, 0, 0, 0, 0, 0, 0, 0, 0, 0, 0, 0, 0, 0, 0, 0, 0, 0, 1, 85,
   109, 100, 105, 97, 0, 0, 0, 32, 109, 100, 104, 100, 0, 0, 0, 0, 0, 0, 0, 0, 0, 0, 0, 0,
   0, 0, 0, 10, 0, 0, 0, 10, 0, 0, 0, 0, 0, 0, 0, 33, 104, 100, 108, 114, 0, 0, 0, 0,
   0, 0, 0, 0, 118, 105, 100, 101, 0, 0, 0, 0, 0, 0, 0, 0, 0, 0, 0, 0, 0, 0, 0, 1,
   12, 109, 105, 110, 102, 0, 0, 0, 20, 118, 109, 104, 100, 0, 0, 0, 1, 0, 0, 0, 0, 0, 0, 0,
   0, 0, 0, 0, 240, 115, 116, 98, 108, 0, 0, 0, 16, 115, 116, 115, 100, 0, 0, 0, 0, 0, 0, 0,
   0, 0, 0, 0, 24, 115, 116, 116, 115, 0, 0, 0, 0, 0, 0, 0, 1, 0, 0, 0, 10, 0, 0, 0,
   1, 0, 0, 0, 24, 115, 116, 115, 115, 0, 0, 0, 0, 0, 0, 0, 2, 0, 0, 0, 1, 0, 0, 0,
   6, 0, 0, 0, 40, 115, 116, 115, 99, 0, 0, 0, 0, 0, 0, 0, 2, 0, 0, 0, 1, 0, 0, 0,
   4, 0, 0, 0, 1, 0, 0, 0, 3, 0, 0, 0, 2, 0, 0, 0, 1, 0, 0, 0, 60, 115, 116, 115,
   122, 0, 0, 0, 0, 0, 0, 0, 0, 0, 0, 0, 10, 0, 0, 0, 5, 0, 0, 0, 5, 0, 0, 0,
   5, 0, 0, 0, 5, 0, 0, 0, 5, 0, 0, 0, 5, 0, 0, 0, 5, 0, 0, 0, 5, 0, 0, 0,
   5, 0, 0, 0, 5, 0, 0, 0, 28, 115, 116, 99, 111, 0, 0, 0, 0, 0, 0, 0, 3, 0, 0, 2,
   73, 0, 0, 2, 93, 0, 0, 2, 113, 0, 0, 0, 40, 99, 111, 54, 52, 0, 0, 0, 0, 0, 0, 0,
   3, 0, 0, 0, 0, 0, 0, 2, 73, 0, 0, 0, 0, 0, 0, 2, 93, 0, 0, 0, 0, 0, 0, 2,
   113, 0, 0, 0, 58, 109, 100, 97, 116, 9, 9, 9, 9, 9, 9, 9, 9, 9, 9, 9, 9, 9, 9, 9,
   9, 9, 9, 9, 9, 9, 9, 9, 9, 9, 9, 9, 9, 9, 9, 9, 9, 9, 9, 9, 9, 9, 9, 9,
   9, 9, 9, 9, 9, 9, 9, 9, 9, 9, 9]


/-- A request for the whole of `dual_offsets_file`. -/
def dual_offsets_stream : stream_t :=
  { http := "1.1", period := 1, path := "u.mp4", db := some [], file := dual_offsets_file,
    file_length := 635 }

/-- The `moov` blob and the sample table of the video track of
`dual_offsets_file`, as parsed: the chunk offsets are those of the `co64` box,
the last chunk-offset box of the `stbl`. -/
def dual_offsets_tables : Mem × stbl_t :=
  ((meta_input 20 dual_offsets_stream).2.1,
   (meta_input 20 dual_offsets_stream).2.2.moov.vtrak.mdia.minf.stbl)

/-- The descriptor of the `co64` table of `dual_offsets_file`, as parsed. -/
def dual_co64 : stxx_t := dual_offsets_tables.2.coxx

/-- The descriptor that `parse_stbl` builds for the `stco` box of
`dual_offsets_file`, the sixth child of its `stbl`. -/
def dual_stco : stxx_t :=
  init_stxx dual_offsets_tables.1
    { atom := (((child_walk dual_offsets_tables.1 20
        { dual_offsets_tables.2.atom with data_position := 0 } {}).getD []).getD 5 (0, {})).2,
      bytes := 4 }

/-- A sample MP4 file of 547 bytes with 1 s of media: `ftyp`, `moov` with one
enabled sound track without sync sample table, `mdat` (payload at 497). The
track has 10 samples of 5 bytes and 1 tick each at 10 ticks per second, but
its chunk tables describe fewer: a single chunk (`stco` = 497) of 5 samples
(`stsc` = `(1, 5, 1)`). -/
def lone_chunk_file : Mem := Mem.of_list
  [0, 0, 0, 20, 102, 116, 121, 112, 105, 115, 111, 109, 0, 0, 0, 0, 105, 115, 111, 109, 0, 0, 1, 213,
   109, 111, 111, 118, 0, 0, 0, 108, 109, 118, 104, 100, 0, 0, 0, 0, 0, 0, 0, 0, 0, 0, 0, 0,
   0, 0, 0, 10, 0, 0, 0, 10, 0, 1, 0, 0, 1, 0, 0, 0, 0, 0, 0, 0, 0, 0, 0, 0,
   0, 0, 0, 0, 0, 0, 0, 0, 0, 0, 0, 0, 0, 0, 0, 0, 0, 0, 0, 0, 0, 0, 0, 0,
   0, 0, 0, 0, 0, 0, 0, 0, 0, 0, 0, 0, 7, 7, 7, 7, 7, 7, 7, 7, 7, 7, 7, 7,
   7, 7, 7, 7, 7, 7, 7, 7, 7, 7, 7, 7, 0, 0, 0, 2, 0, 0, 1, 97, 116, 114, 97, 107,
   0, 0, 0, 92, 116, 107, 104, 100, 0, 0, 0, 1, 0, 0, 0, 0, 0, 0, 0, 0, 0, 0, 0, 1,
   0, 0, 0, 0, 0, 0, 0, 10, 0, 0, 0, 0, 0, 0, 0, 0, 0, 0, 0, 0, 0, 0, 0, 0,
   0, 0, 0, 0, 0, 0, 0, 0, 0, 0, 0, 0, 0, 0, 0, 0, 0, 0, 0, 0, 0, 0, 0, 0,
   0, 0, 0, 0, 0, 0, 0, 0, 0, 0, 0, 0, 0, 0, 0, 0, 0, 0, 0, 0, 0, 0, 0, 253,
   109, 100, 105, 97, 0, 0, 0, 32, 109, 100, 104, 100, 0, 0, 0, 0, 0, 0, 0, 0, 0, 0, 0, 0,
   0, 0, 0, 10, 0, 0, 0, 10, 0, 0, 0, 0, 0, 0, 0, 33, 104, 100, 108, 114, 0, 0, 0, 0,
   0, 0, 0, 0, 115, 111, 117, 110, 0, 0, 0, 0, 0, 0, 0, 0, 0, 0, 0, 0, 0, 0, 0, 0,
   180, 109, 105, 110, 102, 0, 0, 0, 16, 115, 109, 104, 100, 0, 0, 0, 0, 0, 0, 0, 0, 0, 0, 0,
   156, 115, 116, 98, 108, 0, 0, 0, 16, 115, 116, 115, 100, 0, 0, 0, 0, 0, 0, 0, 0, 0, 0, 0,
   24, 115, 116, 116, 115, 0, 0, 0, 0, 0, 0, 0, 1, 0, 0, 0, 10, 0, 0, 0, 1, 0, 0, 0,
   28, 115, 116, 115, 99, 0, 0, 0, 0, 0, 0, 0, 1, 0, 0, 0, 1, 0, 0, 0, 5, 0, 0, 0,
   1, 0, 0, 0, 60, 115, 116, 115, 122, 0, 0, 0, 0, 0, 0, 0, 0, 0, 0, 0, 10, 0, 0, 0,
   5, 0, 0, 0, 5, 0, 0, 0, 5, 0, 0, 0, 5, 0, 0, 0, 5, 0, 0, 0, 5, 0, 0, 0,
   5, 0, 0, 0, 5, 0, 0, 0, 5, 0, 0, 0, 5, 0, 0, 0, 20, 115, 116, 99, 111, 0, 0, 0,
   0, 0, 0, 0, 1, 0, 0, 1, 241, 0, 0, 0, 58, 109, 100, 97, 116, 9, 9, 9, 9, 9, 9, 9,
   9, 9, 9, 9, 9, 9, 9, 9, 9, 9, 9, 9, 9, 9, 9, 9, 9, 9, 9, 9, 9, 9, 9, 9,
   9, 9, 9, 9, 9, 9, 9, 9, 9, 9, 9, 9, 9, 9, 9, 9, 9, 9, 9]

/-- A request for the whole of `lone_chunk_file`. -/
def lone_chunk_stream : stream_t :=
  { http := "1.1", period := 1, path := "l.mp4", db := some [], file := lone_chunk_file,
    file_length := 547 }

/-- The `moov` blob and the sample table of the sound track of
`lone_chunk_file`, as parsed. -/
def lone_chunk_tables : Mem × stbl_t :=
  ((meta_input 20 lone_chunk_stream).2.1,
   (meta_input 20 lone_chunk_stream).2.2.moov.strak.mdia.minf.stbl)

/-- The buffer `m2` has the size of `m1` and differs from it at most inside
the byte ranges `[lo, hi)` of the list `W`. -/
def only_in (W : List (Nat × Nat)) (m1 m2 : Mem) : Prop :=
  m2.size = m1.size ∧ ∀ q, (∀ r ∈ W, apart r q (q + 1)) → byte_at m2 q = byte_at m1 q

/-- The byte range of the duration field that `write_time` writes. -/
def time_range (xxhd : xxhd_t) (pos32 pos64 : Nat) : Nat × Nat :=
  (xxhd.atom.data.getD 0 + (if xxhd.version ≠ 0 then pos64 else pos32),
   xxhd.atom.data.getD 0 + (if xxhd.version ≠ 0 then pos64 else pos32) +
     (if xxhd.version ≠ 0 then 8 else 4))

/-- The bytes that `compile_xxxx` writes: version, flags and count in front of
the first retained entry. -/
def head_writes (x : stxx_t) (s e : tbli_t) : List (Nat × Nat) :=
  if VOID x.atom then [] else
  [((resize_xxxx x s e none).atom.data.getD 0, (resize_xxxx x s e none).atom.data.getD 0 + 8)]

/-- The bytes that `compile_stsz` writes. -/
def stsz_writes (z : stxx_t) (s e : tbli_t) : List (Nat × Nat) :=
  if z.size ≠ 0 then [] else
  [((resize_xxxx z s e none).atom.data.getD 0, (resize_xxxx z s e none).atom.data.getD 0 + 12)]

/-- The bytes that `clip_xtts` may write: the counts of the first and of the
last entry of the table. -/
def clip_writes (Y : stxx_t) : List (Nat × Nat) :=
  if VOID Y.atom then [] else
  [(Y.data, Y.data + 4),
   (Y.data + (if Y.count ≠ 0 then w32 (sub32 Y.count 1 <<< 3) else 0),
    Y.data + (if Y.count ≠ 0 then w32 (sub32 Y.count 1 <<< 3) else 0) + 4)]

/-- The number of entries that the loop of `clip_stsc` rewrites. -/
def remaining_count (stbl : stbl_t) (start end_ : seek_t) : Nat :=
  if stbl.stsc.count > 1 then
    w32 (end_.stsc.index + (if end_.stsc.offset > 0 ∨ end_.coxx.offset > 0 then 1 else 0)) -
      w32 (start.stsc.index + 1)
  else 0

/-- The bytes that `clip_stsc` writes: the first chunk offset, the entries of
the `stsc` table it renumbers, and version, flags and count of the `stsc`. -/
def stsc_writes (stbl : stbl_t) (start end_ : seek_t) : List (Nat × Nat) :=
  if VOID stbl.stsc.atom then [] else
  [(stbl.coxx.data, stbl.coxx.data + ((stbl.coxx.bytes <<< 3) >>> 3)),
   (stbl.stsc.data, stbl.stsc.data + 12 + 12 * remaining_count stbl start end_),
   (stbl.stsc.atom.data.getD 0, stbl.stsc.atom.data.getD 0 + 8)]

/-- Two buffers of the same size hold the same bytes in `[lo, hi)`. -/
def agree (m n : Mem) (lo hi : Nat) : Prop :=
  m.size = n.size ∧ ∀ q, lo ≤ q → q < hi → byte_at m q = byte_at n q

/-- The table descriptors of a track after the resizing steps of
`compile_trak`; they do not depend on the buffer. -/
def resized_stbl (stbl : stbl_t) (start end_ : seek_t) : stbl_t :=
  { stbl with
    stts := (compile_xxxx {} stbl.stts start.stts end_.stts none).1
    ctts := (compile_xxxx {} stbl.ctts start.ctts end_.ctts none).1
    stss := (compile_xxxx {} stbl.stss start.stss end_.stss none).1
    stsz := (compile_stsz {} stbl.stsz start.stsz end_.stsz none).1
    coxx := (compile_xxxx {} stbl.coxx start.coxx end_.coxx none).1
    stsc := resize_xxxx stbl.stsc start.stsc end_.stsc (some end_.coxx) }

/-- The buffer after the block "restructuring stbl" of `compile_trak`. -/
def clip_heads (mem : Mem) (stbl : stbl_t) (start end_ : seek_t) : Mem :=
  (compile_xxxx
    (compile_stsz
      (compile_xxxx
        (compile_xxxx (compile_xxxx mem stbl.stts start.stts end_.stts none).2
          stbl.ctts start.ctts end_.ctts none).2
        stbl.stss start.stss end_.stss none).2
      stbl.stsz start.stsz end_.stsz none).2
    stbl.coxx start.coxx end_.coxx none).2

/-- The bytes that `compile_trak` writes inside the `stts` box. -/
def stts_writes (stbl : stbl_t) (start end_ : seek_t) : List (Nat × Nat) :=
  head_writes stbl.stts start.stts end_.stts ++ clip_writes (resized_stbl stbl start end_).stts

/-- The bytes that `compile_trak` writes inside the other sample tables. -/
def table_writes (stbl : stbl_t) (start end_ : seek_t) : List (Nat × Nat) :=
  head_writes stbl.ctts start.ctts end_.ctts ++ head_writes stbl.stss start.stss end_.stss ++
  stsz_writes stbl.stsz start.stsz end_.stsz ++ head_writes stbl.coxx start.coxx end_.coxx ++
  clip_writes (resized_stbl stbl start end_).ctts ++
  stsc_writes (resized_stbl stbl start end_) start end_

/-- The `mdhd` of a track with the duration that `compile_trak` gives it. -/
def timed_mdhd (stream : stream_t) (mem : Mem) (trak : trak_t) : xxhd_t :=
  { trak.mdia.mdhd with
    duration := sub64 (compile_trak_seek stream mem trak).2.time
      (compile_trak_seek stream mem trak).1.time }

/-- The `tkhd` of a track with the duration that `compile_trak` gives it. -/
def timed_tkhd (stream : stream_t) (mvhd_scale : Nat) (mem : Mem) (trak : trak_t) : xxhd_t :=
  { trak.tkhd with
    duration := ROUND ((mvhd_scale : ℚ) *
      (((timed_mdhd stream mem trak).duration : ℚ) / (trak.mdia.mdhd.scale : ℚ))) }

/-- A sample MP4 file of 579 bytes with 1 s of media: `ftyp`, `moov` with one
enabled sound track without sync sample table, `mdat` (payload at 529). The
track has 10 samples of 5 bytes and 1 tick each at 10 ticks per second in
three chunks of 4, 4 and 2 samples, and an `mdhd` box of version 1, whose
duration field has 64 bits. -/
def long_time_file : Mem := Mem.of_list
  [0, 0, 0, 20, 102, 116, 121, 112, 105, 115, 111, 109, 0, 0, 0, 0, 105, 115, 111, 109, 0, 0, 1, 245,
   109, 111, 111, 118, 0, 0, 0, 108, 109, 118, 104, 100, 0, 0, 0, 0, 0, 0, 0, 0, 0, 0, 0, 0,
   0, 0, 0, 10, 0, 0, 0, 10, 0, 1, 0, 0, 1, 0, 0, 0, 0, 0, 0, 0, 0, 0, 0, 0,
   0, 0, 0, 0, 0, 0, 0, 0, 0, 0, 0, 0, 0, 0, 0, 0, 0, 0, 0, 0, 0, 0, 0, 0,
   0, 0, 0, 0, 0, 0, 0, 0, 0, 0, 0, 0, 7, 7, 7, 7, 7, 7, 7, 7, 7, 7, 7, 7,
   7, 7, 7, 7, 7, 7, 7, 7, 7, 7, 7, 7, 0, 0, 0, 2, 0, 0, 1, 129, 116, 114, 97, 107,
   0, 0, 0, 92, 116, 107, 104, 100, 0, 0, 0, 1, 0, 0, 0, 0, 0, 0, 0, 0, 0, 0, 0, 1,
   0, 0, 0, 0, 0, 0, 0, 10, 0, 0, 0, 0, 0, 0, 0, 0, 0, 0, 0, 0, 0, 0, 0, 0,
   0, 0, 0, 0, 0, 0, 0, 0, 0, 0, 0, 0, 0, 0, 0, 0, 0, 0, 0, 0, 0, 0, 0, 0,
   0, 0, 0, 0, 0, 0, 0, 0, 0, 0, 0, 0, 0, 0, 0, 0, 0, 0, 0, 0, 0, 0, 1, 29,
   109, 100, 105, 97, 0, 0, 0, 44, 109, 100, 104, 100, 1, 0, 0, 0, 0, 0, 0, 0, 0, 0, 0, 0,
   0, 0, 0, 0, 0, 0, 0, 0, 0, 0, 0, 10, 0, 0, 0, 0, 0, 0, 0, 10, 0, 0, 0, 0,
   0, 0, 0, 33, 104, 100, 108, 114, 0, 0, 0, 0, 0, 0, 0, 0, 115, 111, 117, 110, 0, 0, 0, 0,
   0, 0, 0, 0, 0, 0, 0, 0, 0, 0, 0, 0, 200, 109, 105, 110, 102, 0, 0, 0, 16, 115, 109, 104,
   100, 0, 0, 0, 0, 0, 0, 0, 0, 0, 0, 0, 176, 115, 116, 98, 108, 0, 0, 0, 16, 115, 116, 115,
   100, 0, 0, 0, 0, 0, 0, 0, 0, 0, 0, 0, 24, 115, 116, 116, 115, 0, 0, 0, 0, 0, 0, 0,
   1, 0, 0, 0, 10, 0, 0, 0, 1, 0, 0, 0, 40, 115, 116, 115, 99, 0, 0, 0, 0, 0, 0, 0,
   2, 0, 0, 0, 1, 0, 0, 0, 4, 0, 0, 0, 1, 0, 0, 0, 3, 0, 0, 0, 2, 0, 0, 0,
   1, 0, 0, 0, 60, 115, 116, 115, 122, 0, 0, 0, 0, 0, 0, 0, 0, 0, 0, 0, 10, 0, 0, 0,
   5, 0, 0, 0, 5, 0, 0, 0, 5, 0, 0, 0, 5, 0, 0, 0, 5, 0, 0, 0, 5, 0, 0, 0,
   5, 0, 0, 0, 5, 0, 0, 0, 5, 0, 0, 0, 5, 0, 0, 0, 28, 115, 116, 99, 111, 0, 0, 0,
   0, 0, 0, 0, 3, 0, 0, 2, 17, 0, 0, 2, 37, 0, 0, 2, 57, 0, 0, 0, 58, 109, 100, 97,
   116, 9, 9, 9, 9, 9, 9, 9, 9, 9, 9, 9, 9, 9, 9, 9, 9, 9, 9, 9, 9, 9, 9, 9,
   9, 9, 9, 9, 9, 9, 9, 9, 9, 9, 9, 9, 9, 9, 9, 9, 9, 9, 9, 9, 9, 9, 9, 9,
   9, 9, 9]

/-- A request on `long_time_file` from 0.5 s back to 0.2 s. -/
def long_time_stream : stream_t :=
  { http := "1.1", period := 1, path := "t.mp4", db := some [], file := long_time_file,
    file_length := 579, start := 5 / 10, stop := 2 / 10 }

/-- The arguments of the first effective call of `compile_trak` in
`stream_mp4_parse` for a request that is not served from the zero-seek cache:
the stream with its byte limits reset, the movie time scale, the `moov` blob
and the video track, or the sound track when the file has no video track. -/
def trak_input (self : stream_t) : stream_t × Nat × Mem × trak_t :=
  let m := meta_input 20 self
  let file := prepare_maxs m.2.1 m.2.2
  let s := prepare_limits m.1 m.2.1 file
  ({ s with file_offset := 0, file_finish := 0 }, file.moov.mvhd.scale, m.2.1,
   if VOID file.moov.vtrak.atom then file.moov.strak else file.moov.vtrak)

/-- The result of that call of `compile_trak`: the stream, the `moov` blob and
the track. -/
def trak_output (self : stream_t) : stream_t × Mem × trak_t :=
  compile_trak (trak_input self).1 (trak_input self).2.1 (trak_input self).2.2.1
    (trak_input self).2.2.2

/-- The box that an atom describes: the atom with its read cursor back at the
start of the payload. -/
def rewound (a : atom_t) : atom_t := { a with data_position := 0 }

/-- The box types that the `switch` of `parse_minf` recognises. -/
def minf_kinds : List Nat := [VMHD, SMHD, STBL]

/-- The box types that the `switch` of `parse_mdia` recognises. -/
def mdia_kinds : List Nat := [MDHD, HDLR, MINF]

/-- The box types that the `switch` of `parse_trak` recognises. -/
def trak_kinds : List Nat := [TKHD, MDIA]

/-- The children that a walk with the budget `left` takes into account: the
first `left` children whose type is one of `kinds`. -/
def taken_children (kinds : List Nat) (left : Nat) (w : List (Nat × atom_t)) :
    List (Nat × atom_t) :=
  (w.filter (fun c => kinds.contains c.1)).take left

/-- The children of `twin_stts_stbl` in file order. -/
def twin_stts_walk : List (Nat × atom_t) :=
  (child_walk twin_stts_mem 20 twin_stts_stbl.atom {}).getD []

/-- The payload (16 bytes) of a `minf` box with the children `vmhd` and `smhd`,
8 bytes each. -/
def twin_xmhd_mem : Mem := Mem.of_list
  [0, 0, 0, 8, 118, 109, 104, 100, 0, 0, 0, 8, 115, 109, 104, 100]

/-- The `minf` atom whose payload is `twin_xmhd_mem`, before `parse_minf`. -/
def twin_xmhd_minf : minf_t :=
  { atom := { type := MINF, size := 24, data := some 0, data_size := 16 } }

/-- The children of `twin_xmhd_minf` in file order. -/
def twin_xmhd_walk : List (Nat × atom_t) :=
  (child_walk twin_xmhd_mem 5 twin_xmhd_minf.atom {}).getD []

/-- The `minf` that the walk of `parse_minf` leaves for `twin_xmhd_minf`. -/
def twin_xmhd_walked : minf_t :=
  ((parse_minf_loop twin_xmhd_mem 5 2 twin_xmhd_minf {}).getD (1, {})).2

/-- The payload (24 bytes) of an `mdia` box with the children `mdhd`, `mdhd`
and `hdlr`, 8 bytes each. -/
def twin_mdhd_mem : Mem := Mem.of_list
  [0, 0, 0, 8, 109, 100, 104, 100, 0, 0, 0, 8, 109, 100, 104, 100,
   0, 0, 0, 8, 104, 100, 108, 114]

/-- The `mdia` atom whose payload is `twin_mdhd_mem`, before `parse_mdia`. -/
def twin_mdhd_mdia : mdia_t :=
  { atom := { type := MDIA, size := 32, data := some 0, data_size := 24 } }

/-- The children of `twin_mdhd_mdia` in file order. -/
def twin_mdhd_walk : List (Nat × atom_t) :=
  (child_walk twin_mdhd_mem 5 twin_mdhd_mdia.atom {}).getD []

/-- The `mdia` that the walk of `parse_mdia` leaves for `twin_mdhd_mdia`. -/
def twin_mdhd_walked : mdia_t :=
  ((parse_mdia_loop twin_mdhd_mem 5 3 twin_mdhd_mdia {}).getD (1, {})).2

/-- The first track of `twin_video_mem` before `parse_trak`. -/
def twin_video_trak : trak_t :=
  { atom := (data_atom twin_video_mem { twin_video_moov.atom with data_position := 108 } {}).2.2 }

/-- The children of `twin_video_trak` in file order. -/
def twin_video_walk : List (Nat × atom_t) :=
  (child_walk twin_video_mem 18 twin_video_trak.atom {}).getD []

/-- The track that the walk of `parse_trak` leaves for `twin_video_trak`. -/
def twin_video_walked : trak_t :=
  ((parse_trak_loop twin_video_mem 18 2 twin_video_trak {}).getD (1, {})).2

/-- The payload (16 bytes) of a `trak` box with two `tkhd` children of 8
bytes. -/
def twin_tkhd_mem : Mem := Mem.of_list
  [0, 0, 0, 8, 116, 107, 104, 100, 0, 0, 0, 8, 116, 107, 104, 100]

/-- The `trak` atom whose payload is `twin_tkhd_mem`, before `parse_trak`. -/
def twin_tkhd_trak : trak_t :=
  { atom := { type := TRAK, size := 24, data := some 0, data_size := 16 } }

/-- The children of `twin_tkhd_trak` in file order. -/
def twin_tkhd_walk : List (Nat × atom_t) :=
  (child_walk twin_tkhd_mem 5 twin_tkhd_trak.atom {}).getD []

/-- The track that the walk of `parse_trak` leaves for `twin_tkhd_trak`. -/
def twin_tkhd_walked : trak_t :=
  ((parse_trak_loop twin_tkhd_mem 5 2 twin_tkhd_trak {}).getD (1, {})).2

/-- The payload (16 bytes) of a `moov` box with two `mvhd` children of 8
bytes. -/
def twin_mvhd_mem : Mem := Mem.of_list
  [0, 0, 0, 8, 109, 118, 104, 100, 0, 0, 0, 8, 109, 118, 104, 100]

/-- The `moov` atom whose payload is `twin_mvhd_mem`, before `parse_moov`. -/
def twin_mvhd_moov : moov_t :=
  { atom := { type := MOOV, size := 24, data := some 0, data_size := 16 } }

/-- The children of `twin_mvhd_moov` in file order. -/
def twin_mvhd_walk : List (Nat × atom_t) :=
  (child_walk twin_mvhd_mem 5 twin_mvhd_moov.atom {}).getD []

/-- The `moov` that the walk of `parse_moov` leaves for `twin_mvhd_moov`. -/
def twin_mvhd_walked : moov_t :=
  ((parse_moov_loop twin_mvhd_mem 5 3 twin_mvhd_moov {}).getD (1, {})).2

/-- The children of `moov` in `twin_video_mem` from the second track on. -/
def twin_video_rest : List (Nat × atom_t) :=
  (child_walk twin_video_mem 19 twin_video_state.atom {}).getD []

/-- The `moov` that the walk of `parse_moov` leaves from `twin_video_state`
with a budget of 1. -/
def twin_video_kept : moov_t :=
  ((parse_moov_loop twin_video_mem 19 1 twin_video_state {}).getD (1, {})).2

/-- The bytes of the samples of chunk `c` (counted from 0) according to the
tables: the sizes of the samples that `stsc` puts into the chunk. -/
def chunk_bytes (mem : Mem) (stbl : stbl_t) (c : Nat) : Nat :=
  sizes_before mem stbl (stsc_total (stsc_entries mem stbl) (c + 1))
    (chunk_samples (stsc_entries mem stbl) (c + 1))

/-- The sample tables of a track describe a file whose chunks are laid out one
after the other: the `stsc` table is well formed (at least one entry, the first
one for chunk 1, first chunks ascending and within the chunk count) and
describes exactly the `max_samples` samples of the time table, no chunk starts
at file offset 0, the table sizes
and the end of the data fit their fields, every chunk holds at least one
sample, every sample has a size above zero, and the samples of a chunk end at
or before the start of the next chunk (the end of the data for the last
chunk). -/
def chunk_layout (mem : Mem) (stbl : stbl_t) : Prop :=
  0 < chunk_base mem stbl 0 ∧
  0 < stbl.stsc.count ∧ stbl.stsc.count < 2 ^ 32 ∧
  stsc_first mem stbl 0 = 1 ∧
  (∀ i, i < stbl.stsc.count - 1 → stsc_first mem stbl i ≤ stsc_first mem stbl (i + 1)) ∧
  stsc_first mem stbl (stbl.stsc.count - 1) ≤ stbl.max_chunks + 1 ∧
  stbl.max_chunks = stbl.coxx.count ∧
  stbl.max_samples = stsc_total (stsc_entries mem stbl) stbl.max_chunks ∧
  4 * stbl.max_samples < 2 ^ 32 ∧
  stbl.coxx.count * stbl.coxx.bytes < 2 ^ 32 ∧
  stbl.max_offset < 2 ^ (8 * stbl.coxx.bytes) ∧
  (∀ c, c < stbl.coxx.count →
    chunk_samples (stsc_entries mem stbl) (c + 1) * stbl.stsz.size < 2 ^ 32) ∧
  (∀ c, c < stbl.coxx.count → 0 < chunk_samples (stsc_entries mem stbl) (c + 1)) ∧
  (∀ j, j < stbl.max_samples → 0 < sample_size mem stbl j) ∧
  (∀ c, c < stbl.coxx.count →
    chunk_base mem stbl c + chunk_bytes mem stbl c ≤ chunk_base mem stbl (c + 1))

instance (mem : Mem) (stbl : stbl_t) : Decidable (chunk_layout mem stbl) := by
  unfold chunk_layout; infer_instance

/-- The bytes of the `moov` blob that `compile_trak` writes for a track: the
durations of `mdhd` and `tkhd`, and the bytes written in the sample tables. -/
def trak_writes (stream : stream_t) (mvhd_scale : Nat) (mem : Mem) (trak : trak_t) :
    List (Nat × Nat) :=
  if VOID trak.atom then [] else
  time_range (timed_mdhd stream mem trak) 16 24 ::
  time_range (timed_tkhd stream mvhd_scale mem trak) 20 28 ::
  (stts_writes trak.mdia.minf.stbl (compile_trak_seek stream mem trak).1
      (compile_trak_seek stream mem trak).2 ++
    table_writes trak.mdia.minf.stbl (compile_trak_seek stream mem trak).1
      (compile_trak_seek stream mem trak).2)

/-- The arguments of the call of `compile_trak` in `prepare_seek` for the video
track (`video = true`) or for the sound track: the stream, the movie time
scale, the `moov` blob and the track. -/
def seek_stage (video : Bool) (self : stream_t) (mem : Mem) (file : file_t) :
    stream_t × Nat × Mem × trak_t :=
  if video then
    ({ self with file_offset := 0, file_finish := 0 }, file.moov.mvhd.scale, mem, file.moov.vtrak)
  else
    ((compile_trak { self with file_offset := 0, file_finish := 0 } file.moov.mvhd.scale mem
        file.moov.vtrak).1,
     file.moov.mvhd.scale,
     (compile_trak { self with file_offset := 0, file_finish := 0 } file.moov.mvhd.scale mem
        file.moov.vtrak).2.1,
     file.moov.strak)

/-- The bytes of the `moov` blob that `prepare_seek` writes after it compiled
a track: those of `compile_trak` for the sound track when the track is the
video track, and the duration of `mvhd` written by `compile_moov`. -/
def later_writes (video : Bool) (self : stream_t) (mem : Mem) (file : file_t) :
    List (Nat × Nat) :=
  (if video then
    trak_writes (seek_stage false self mem file).1 (seek_stage false self mem file).2.1
      (seek_stage false self mem file).2.2.1 (seek_stage false self mem file).2.2.2
   else []) ++
  [time_range (prepare_seek self mem file).2.2.moov.mvhd 16 24]

/-- The bytes that `clip_stsc` writes after the first chunk offset: the entries
of the `stsc` table it renumbers, and version, flags and count of the `stsc`. -/
def stsc_rest (stbl : stbl_t) (start end_ : seek_t) : List (Nat × Nat) :=
  [(stbl.stsc.data, stbl.stsc.data + 12 + 12 * remaining_count stbl start end_),
   (stbl.stsc.atom.data.getD 0, stbl.stsc.atom.data.getD 0 + 8)]

/-- The video track (`video = true`) or the sound track of the file that
`prepare_seek` hands to `compile_head`. -/
def cut_track (video : Bool) (self : stream_t) (mem : Mem) (file : file_t) : trak_t :=
  if video then (prepare_seek self mem file).2.2.moov.vtrak
  else (prepare_seek self mem file).2.2.moov.strak

/-- The other track of that file. -/
def cut_other (video : Bool) (self : stream_t) (mem : Mem) (file : file_t) : trak_t :=
  if video then (prepare_seek self mem file).2.2.moov.strak
  else (prepare_seek self mem file).2.2.moov.vtrak

/-- The arguments of `prepare_seek` in `stream_mp4_parse` for a request that is
not served from the zero-seek cache: the stream with its limits normalised,
the `moov` blob and the file with the table limits compiled. -/
def seek_input (self : stream_t) : stream_t × Mem × file_t :=
  (prepare_limits (meta_input 20 self).1 (meta_input 20 self).2.1
      (prepare_maxs (meta_input 20 self).2.1 (meta_input 20 self).2.2),
   (meta_input 20 self).2.1,
   prepare_maxs (meta_input 20 self).2.1 (meta_input 20 self).2.2)

/-- The table descriptors of the video (`video = true`) or sound track after
the resizing steps of its call of `compile_trak` in `prepare_seek`. -/
def cut_tables (video : Bool) (self : stream_t) (mem : Mem) (file : file_t) : stbl_t :=
  resized_stbl (seek_stage video self mem file).2.2.2.mdia.minf.stbl
    (compile_trak_seek (seek_stage video self mem file).1 (seek_stage video self mem file).2.2.1
      (seek_stage video self mem file).2.2.2).1
    (compile_trak_seek (seek_stage video self mem file).1 (seek_stage video self mem file).2.2.1
      (seek_stage video self mem file).2.2.2).2

/-- A request on `av_file` from 0.1 s on: the second sample of each track. -/
def av_tail_stream : stream_t := { av_stream with start := 1 / 10 }

/-! ## Theorems -/

/-! ### Memory and codec lemmas -/

theorem store_size (m : Mem) (p b : Nat) : (store m p b).size = m.size := by
  unfold store; split <;> rfl

theorem byte_at_lt (m : Mem) (p : Nat) : byte_at m p < 256 := by
  unfold byte_at; split
  · exact Nat.mod_lt _ (by norm_num)
  · norm_num

theorem testBit_lt_256 (x i : Nat) (hx : x < 256) (hi : 8 ≤ i) : x.testBit i = false := by
  apply Nat.testBit_lt_two_pow
  calc x < 2 ^ 8 := by simpa using hx
    _ ≤ 2 ^ i := Nat.pow_le_pow_right (by norm_num) hi

theorem xor_shift_byte (M X p q : Nat) (hX : X < 256) :
    ((M ^^^ (X <<< (8 * p))) >>> (8 * q)) % 2 ^ 8 =
      if q = p then ((M >>> (8 * p)) % 2 ^ 8) ^^^ X else (M >>> (8 * q)) % 2 ^ 8 := by
  apply Nat.eq_of_testBit_eq
  intro i
  rw [Nat.testBit_mod_two_pow, Nat.testBit_shiftRight, Nat.testBit_xor, Nat.testBit_shiftLeft]
  by_cases hqp : q = p
  · subst hqp
    simp only [if_true]
    rw [Nat.testBit_xor, Nat.testBit_mod_two_pow, Nat.testBit_shiftRight]
    have h1 : 8 * q + i ≥ 8 * q := by omega
    simp only [h1, decide_True, Bool.true_and, Nat.add_sub_cancel_left]
    by_cases hi : i < 8
    · simp [hi]
    · have : X.testBit i = false := testBit_lt_256 X i hX (by omega)
      simp [hi, this]
  · simp only [hqp, if_false]
    rw [Nat.testBit_mod_two_pow, Nat.testBit_shiftRight]
    by_cases hi : i < 8
    · by_cases hge : 8 * q + i ≥ 8 * p
      · have : X.testBit (8 * q + i - 8 * p) = false := testBit_lt_256 X _ hX (by omega)
        simp [this]
      · simp [hge]
    · simp [hi]

theorem byte_at_store (m : Mem) (p q b : Nat) :
    byte_at (store m p b) q = if q = p ∧ p < m.size then b % 256 else byte_at m q := by
  by_cases hp : p < m.size
  · by_cases hq : q < m.size
    · have hbx : byte_at m p ^^^ (b % 256) < 256 := by
        have h1 := byte_at_lt m p
        have h2 : b % 256 < 256 := Nat.mod_lt _ (by norm_num)
        have : byte_at m p ^^^ (b % 256) < 2 ^ 8 :=
          Nat.xor_lt_two_pow (by simpa using h1) (by simpa using h2)
        simpa using this
      have key := xor_shift_byte m.bits (byte_at m p ^^^ (b % 256)) p q hbx
      have e : byte_at (store m p b) q =
          ((m.bits ^^^ ((byte_at m p ^^^ (b % 256)) <<< (8 * p))) >>> (8 * q)) % 2 ^ 8 := by
        unfold store
        simp only [hp, if_true]
        show (if q < m.size then _ else 0) = _
        simp only [hq, if_true]
        norm_num
      rw [e, key]
      have ep : byte_at m p = (m.bits >>> (8 * p)) % 2 ^ 8 := by
        unfold byte_at; simp only [hp, if_true]; norm_num
      have eq : byte_at m q = (m.bits >>> (8 * q)) % 2 ^ 8 := by
        unfold byte_at; simp only [hq, if_true]; norm_num
      by_cases hqp : q = p
      · simp only [hqp, hp, and_self, if_true]
        rw [← ep, ← Nat.xor_assoc, Nat.xor_self, Nat.zero_xor]
      · simp only [hqp, false_and, if_false]
        exact eq.symm
    · have hne : ¬ (q = p) := by omega
      simp only [hne, false_and, if_false]
      unfold byte_at
      rw [store_size]
      simp [hq]
  · unfold store
    simp [hp]

theorem stores_size (m : Mem) (p : Nat) (B : Nat → Nat) (n : Nat) :
    ((List.range n).foldl (fun buf i => store buf (p + i) (B i)) m).size = m.size := by
  induction n with
  | zero => rfl
  | succ n ih => rw [List.range_succ, List.foldl_append]; simp [store_size, ih]

theorem byte_at_stores (m : Mem) (p : Nat) (B : Nat → Nat) (n q : Nat) :
    byte_at ((List.range n).foldl (fun buf i => store buf (p + i) (B i)) m) q =
      if p ≤ q ∧ q < p + n ∧ q < m.size then B (q - p) % 256 else byte_at m q := by
  induction n with
  | zero =>
    have : ¬ (p ≤ q ∧ q < p + 0 ∧ q < m.size) := by omega
    simp only [this, if_false]; rfl
  | succ n ih =>
    rw [List.range_succ, List.foldl_append]
    simp only [List.foldl_cons, List.foldl_nil]
    rw [byte_at_store, stores_size, ih]
    by_cases h1 : q = p + n
    · subst h1
      by_cases h2 : p + n < m.size
      · simp [h2]
      · simp [h2]
    · have e1 : (q = p + n ∧ p + n < m.size) = False := by simp [h1]
      simp only [e1, if_false]
      by_cases h3 : p ≤ q ∧ q < p + n ∧ q < m.size
      · have : p ≤ q ∧ q < p + (n + 1) ∧ q < m.size := ⟨h3.1, by omega, h3.2.2⟩
        simp [h3, this]
      · have : ¬ (p ≤ q ∧ q < p + (n + 1) ∧ q < m.size) := by
          intro h; apply h3; exact ⟨h.1, by omega, h.2.2⟩
        simp [h3, this]

theorem write_xx_size (m : Mem) (p v bits : Nat) : (write_xx m p v bits).size = m.size := by
  unfold write_xx; exact stores_size m p _ _

theorem byte_at_write_xx (m : Mem) (p v bits q : Nat) :
    byte_at (write_xx m p v bits) q =
      if p ≤ q ∧ q < p + (bits >>> 3) ∧ q < m.size then
        (w64 v >>> (bits - 8 - 8 * (q - p))) % 256
      else byte_at m q := by
  unfold write_xx
  rw [byte_at_stores]
  split
  · exact Nat.mod_mod _ _
  · rfl

theorem read_fold_congr (f g : Nat → Nat) (s : Nat → Nat) (n : Nat)
    (h : ∀ i, i < n → f i = g i) :
    (List.range n).foldl (fun result i => result ||| (f i <<< s i)) 0 =
    (List.range n).foldl (fun result i => result ||| (g i <<< s i)) 0 := by
  induction n with
  | zero => rfl
  | succ n ih =>
    rw [List.range_succ, List.foldl_append, List.foldl_append]
    simp only [List.foldl_cons, List.foldl_nil]
    rw [ih (fun i hi => h i (by omega)), h n (by omega)]

theorem read_xx_congr (m m2 : Mem) (p p2 bits : Nat)
    (h : ∀ i, i < bits >>> 3 → byte_at m (p + i) = byte_at m2 (p2 + i)) :
    read_xx m p bits = read_xx m2 p2 bits := by
  unfold read_xx
  exact read_fold_congr (fun i => byte_at m (p + i)) (fun i => byte_at m2 (p2 + i)) _ _ h

theorem read_fold_value (x k n : Nat) (hn : n ≤ k) :
    (List.range n).foldl
      (fun result i => result ||| (((x >>> (8 * k - 8 - 8 * i)) % 256) <<< (8 * k - 8 - 8 * i))) 0 =
    ((x >>> (8 * k - 8 * n)) % 2 ^ (8 * n)) <<< (8 * k - 8 * n) := by
  induction n with
  | zero => simp [Nat.mod_one]
  | succ n ih =>
    rw [List.range_succ, List.foldl_append]
    simp only [List.foldl_cons, List.foldl_nil]
    rw [ih (by omega)]
    have h256 : (256 : Nat) = 2 ^ 8 := by norm_num
    rw [h256]
    apply Nat.eq_of_testBit_eq
    intro j
    simp only [Nat.testBit_or, Nat.testBit_shiftLeft, Nat.testBit_mod_two_pow,
      Nat.testBit_shiftRight]
    have e1 : 8 * k - 8 - 8 * n = 8 * k - 8 * (n + 1) := by omega
    rw [e1]
    by_cases h1 : j ≥ 8 * k - 8 * n
    · have h2 : j ≥ 8 * k - 8 * (n + 1) := by omega
      have e2 : 8 * k - 8 * n + (j - (8 * k - 8 * n)) = j := by omega
      have e3 : 8 * k - 8 * (n + 1) + (j - (8 * k - 8 * (n + 1))) = j := by omega
      simp only [h1, h2, decide_True, Bool.true_and, e2, e3]
      by_cases h4 : j - (8 * k - 8 * n) < 8 * n
      · have h5 : j - (8 * k - 8 * (n + 1)) < 8 * (n + 1) := by omega
        simp [h4, h5]
      · have h5 : ¬ (j - (8 * k - 8 * (n + 1)) < 8 * (n + 1)) := by omega
        have h6 : ¬ (j - (8 * k - 8 * (n + 1)) < 8) := by omega
        simp [h4, h5, h6]
    · by_cases h2 : j ≥ 8 * k - 8 * (n + 1)
      · have e3 : 8 * k - 8 * (n + 1) + (j - (8 * k - 8 * (n + 1))) = j := by omega
        have h5 : j - (8 * k - 8 * (n + 1)) < 8 * (n + 1) := by omega
        have h6 : j - (8 * k - 8 * (n + 1)) < 8 := by omega
        simp [h1, h2, e3, h5, h6]
      · simp [h1, h2]

theorem read_xx_of_bytes (m : Mem) (p x k : Nat)
    (h : ∀ i, i < k → byte_at m (p + i) = (x >>> (8 * k - 8 - 8 * i)) % 256) :
    read_xx m p (8 * k) = x % 2 ^ (8 * k) := by
  unfold read_xx
  have hk : (8 * k) >>> 3 = k := by
    rw [Nat.shiftRight_eq_div_pow]; omega
  rw [hk]
  rw [read_fold_congr (fun i => byte_at m (p + i))
    (fun i => (x >>> (8 * k - 8 - 8 * i)) % 256) (fun i => 8 * k - 8 - 8 * i) k h]
  rw [read_fold_value x k k (le_refl k)]
  simp

theorem read_xx_write_xx_same (m : Mem) (p v k : Nat) (hk : k ≤ 8) (hp : p + k ≤ m.size) :
    read_xx (write_xx m p v (8 * k)) p (8 * k) = v % 2 ^ (8 * k) := by
  have hs : (8 * k) >>> 3 = k := by rw [Nat.shiftRight_eq_div_pow]; omega
  rw [read_xx_of_bytes (write_xx m p v (8 * k)) p (w64 v) k]
  · unfold w64
    have : (2:Nat) ^ 64 = 2 ^ (8 * k) * 2 ^ (64 - 8 * k) := by
      rw [← Nat.pow_add]; congr 1; omega
    rw [this, Nat.mod_mul_right_mod]
  · intro i hi
    rw [byte_at_write_xx, hs]
    have : p ≤ p + i ∧ p + i < p + k ∧ p + i < m.size := ⟨by omega, by omega, by omega⟩
    simp only [this, and_self, if_true, Nat.add_sub_cancel_left]

theorem read_xx_write_xx_other (m : Mem) (p v bits q bits2 : Nat)
    (h : q + (bits2 >>> 3) ≤ p ∨ p + (bits >>> 3) ≤ q) :
    read_xx (write_xx m p v bits) q bits2 = read_xx m q bits2 := by
  apply read_xx_congr
  intro i hi
  rw [byte_at_write_xx]
  have : ¬ (p ≤ q + i ∧ q + i < p + (bits >>> 3) ∧ q + i < m.size) := by
    intro hc; omega
  simp only [this, if_false]

theorem read_xx_lt (m : Mem) (p k : Nat) : read_xx m p (8 * k) < 2 ^ (8 * k) := by
  unfold read_xx
  have hs : (8 * k) >>> 3 = k := by rw [Nat.shiftRight_eq_div_pow]; omega
  rw [hs]
  suffices h : ∀ n, n ≤ k → (List.range n).foldl
      (fun result i => result ||| (byte_at m (p + i) <<< (8 * k - 8 - 8 * i))) 0 < 2 ^ (8 * k) from
    h k (le_refl k)
  intro n
  induction n with
  | zero => intro _; simp
  | succ n ih =>
    intro hn
    rw [List.range_succ, List.foldl_append]
    simp only [List.foldl_cons, List.foldl_nil]
    apply Nat.or_lt_two_pow (ih (by omega))
    rw [Nat.shiftLeft_eq]
    have hb : byte_at m (p + n) < 2 ^ 8 := by
      have := byte_at_lt m (p + n); simpa using this
    calc byte_at m (p + n) * 2 ^ (8 * k - 8 - 8 * n)
        < 2 ^ 8 * 2 ^ (8 * k - 8 - 8 * n) := by
          apply Nat.mul_lt_mul_of_pos_right hb (Nat.pow_pos (by norm_num))
      _ = 2 ^ (8 + (8 * k - 8 - 8 * n)) := by rw [Nat.pow_add]
      _ ≤ 2 ^ (8 * k) := Nat.pow_le_pow_right (by norm_num) (by omega)

/-! ### Head assembly -/

theorem w64_add_w64 (a b : Nat) : w64 (w64 a + b) = w64 (a + b) := by
  unfold w64; omega

theorem iovs_inv_push (i : iovs_t) (h : iovs_inv i) (b : iov_base) (n : Nat) :
    iovs_inv (iovs_push i b n) := by
  unfold iovs_inv at *
  unfold iovs_push
  simp only [List.map_append, List.sum_append, List.map_cons, List.map_nil, List.sum_cons,
    List.sum_nil, Nat.add_zero]
  rw [h, w64_add_w64]

theorem iovs_head_inv (i : iovs_t) (s : atom_t) (h : iovs_inv i) : iovs_inv (iovs_head i s) := by
  unfold iovs_head
  split
  · exact h
  · exact iovs_inv_push { i with heads_base := _ } h _ _

theorem iovs_full_inv (i : iovs_t) (s : atom_t) (base : Nat → iov_base) (h : iovs_inv i) :
    iovs_inv (iovs_full i s base) := by
  unfold iovs_full
  split
  · exact h
  · exact iovs_inv_push _ (iovs_head_inv i s h) _ _

theorem iovs_stsc_inv (i : iovs_t) (s : stxx_t) (start end_ : seek_t) (track : Nat)
    (h : iovs_inv i) : iovs_inv (iovs_stsc i s start end_ track).1 := by
  unfold iovs_stsc
  split
  · exact h
  · have h1 := iovs_inv_push i h (iov_base.moov (s.atom.data.getD 0)) 8
    show iovs_inv (if end_.coxx.offset ≠ 0 then iovs_push _ _ 12 else _)
    have h2 : iovs_inv (if start.coxx.offset ≠ 0 then
        iovs_push (iovs_push i (iov_base.moov (s.atom.data.getD 0)) 8)
          (iov_base.stsc_entry track false) 12
        else iovs_push i (iov_base.moov (s.atom.data.getD 0)) 8) := by
      split
      · exact iovs_inv_push _ h1 _ _
      · exact h1
    split
    · exact iovs_inv_push _ (iovs_inv_push _ h2 _ _) _ _
    · exact iovs_inv_push _ h2 _ _

theorem iovs_trak_inv (i : iovs_t) (trak : trak_t) (track : Nat) (h : iovs_inv i) :
    iovs_inv (iovs_trak i trak track).1 := by
  unfold iovs_trak
  split
  · exact h
  · exact iovs_full_inv _ _ _ (iovs_full_inv _ _ _ (iovs_full_inv _ _ _ (iovs_stsc_inv _ _ _ _ _
      (iovs_head_inv _ _ (iovs_full_inv _ _ _ (iovs_full_inv _ _ _ (iovs_full_inv _ _ _
      (iovs_head_inv _ _ (iovs_full_inv _ _ _ (iovs_head_inv _ _ (iovs_full_inv _ _ _
      (iovs_full_inv _ _ _ (iovs_head_inv _ _ (iovs_full_inv _ _ _
      (iovs_head_inv _ _ h)))))))))))))))

theorem compile_head_gather_inv (file : file_t) : iovs_inv (compile_head_gather file).1 := by
  unfold compile_head_gather
  exact iovs_head_inv _ _ (iovs_trak_inv _ _ _ (iovs_trak_inv _ _ _ (iovs_full_inv _ _ _
    (iovs_head_inv _ _ (iovs_full_inv _ _ _ (by unfold iovs_inv; rfl))))))

theorem shl3 (k : Nat) : k <<< 3 = 8 * k := by
  rw [Nat.shiftLeft_eq]; omega

theorem shr3 (k : Nat) : (8 * k) >>> 3 = k := by
  rw [Nat.shiftRight_eq_div_pow]; omega

theorem relocate_coxx_loop_size (delta k : Nat) (n : Nat) (mem : Mem) (p : Nat) :
    (relocate_coxx_loop delta k n mem p).size = mem.size := by
  induction n generalizing mem p with
  | zero => rfl
  | succ n ih => unfold relocate_coxx_loop; rw [ih, write_xx_size]

theorem relocate_coxx_loop_frame (delta k : Nat) (n : Nat) (mem : Mem) (p q : Nat)
    (h : q < p ∨ p + k * n ≤ q) :
    byte_at (relocate_coxx_loop delta k n mem p) q = byte_at mem q := by
  induction n generalizing mem p with
  | zero => rfl
  | succ n ih =>
    unfold relocate_coxx_loop
    rw [ih _ _ (by rcases h with h | h; · left; omega
                   · right; rw [Nat.mul_succ] at h; omega)]
    rw [byte_at_write_xx, shl3, shr3]
    have : ¬ (p ≤ q ∧ q < p + k ∧ q < mem.size) := by
      intro hc
      rcases h with h | h
      · omega
      · rw [Nat.mul_succ] at h; omega
    simp only [this, if_false]

theorem relocate_coxx_loop_read (delta k : Nat) (hk : k ≤ 8) (n : Nat) (mem : Mem) (p j : Nat)
    (hb : p + k * n ≤ mem.size) (hj : j < n) :
    read_xx (relocate_coxx_loop delta k n mem p) (p + k * j) (8 * k) =
      sub64 (read_xx mem (p + k * j) (8 * k)) delta % 2 ^ (8 * k) := by
  induction n generalizing mem p j with
  | zero => omega
  | succ n ih =>
    unfold relocate_coxx_loop
    rw [shl3]
    rw [Nat.mul_succ] at hb
    cases j with
    | zero =>
      simp only [Nat.mul_zero, Nat.add_zero]
      rw [read_xx_congr _ (write_xx mem p (sub64 (read_xx mem p (8 * k)) delta) (8 * k)) p p]
      · exact read_xx_write_xx_same mem p _ k hk (by omega)
      · intro i hi
        rw [shr3] at hi
        exact relocate_coxx_loop_frame delta k n _ (p + k) (p + i) (by left; omega)
    | succ j =>
      have e : p + k * (j + 1) = (p + k) + k * j := by rw [Nat.mul_succ]; omega
      rw [e, ih _ (p + k) j (by rw [write_xx_size]; omega) (by omega)]
      rw [read_xx_write_xx_other]
      right; rw [shr3]
      have : k * j ≥ 0 := Nat.zero_le _
      omega

theorem relocate_stss_loop_size (delta : Nat) (n : Nat) (mem : Mem) (p : Nat) :
    (relocate_stss_loop delta n mem p).size = mem.size := by
  induction n generalizing mem p with
  | zero => rfl
  | succ n ih => unfold relocate_stss_loop; rw [ih]; exact write_xx_size _ _ _ _

theorem relocate_stss_loop_frame (delta : Nat) (n : Nat) (mem : Mem) (p q : Nat)
    (h : q < p ∨ p + 4 * n ≤ q) :
    byte_at (relocate_stss_loop delta n mem p) q = byte_at mem q := by
  induction n generalizing mem p with
  | zero => rfl
  | succ n ih =>
    unfold relocate_stss_loop
    rw [ih _ _ (by omega)]
    unfold write_32
    rw [byte_at_write_xx]
    have e : (32:Nat) >>> 3 = 4 := by decide
    rw [e]
    have : ¬ (p ≤ q ∧ q < p + 4 ∧ q < mem.size) := by omega
    simp only [this, if_false]

theorem relocate_trak_size (stream : stream_t) (mem : Mem) (trak : trak_t) (start : Nat) :
    (relocate_trak stream mem trak start).size = mem.size := by
  unfold relocate_trak
  split
  · rfl
  · dsimp only
    rw [relocate_coxx_loop_size]
    split
    · exact relocate_stss_loop_size _ _ _ _
    · rfl

theorem relocate_trak_frame (stream : stream_t) (mem : Mem) (trak : trak_t) (start q : Nat)
    (h : ∀ r ∈ relocated_ranges trak, q < r.1 ∨ r.2 ≤ q) :
    byte_at (relocate_trak stream mem trak start) q = byte_at mem q := by
  unfold relocate_trak
  unfold relocated_ranges at h
  cases hv : VOID trak.atom
  · simp only [hv, Bool.false_eq_true, if_false] at h ⊢
    have hc := h (trak.mdia.minf.stbl.coxx.data,
      trak.mdia.minf.stbl.coxx.data +
        trak.mdia.minf.stbl.coxx.bytes * trak.mdia.minf.stbl.coxx.count) (by simp)
    rw [relocate_coxx_loop_frame _ _ _ _ _ _ hc]
    cases hs : VOID trak.mdia.minf.stbl.stss.atom
    · simp only [Bool.not_false, if_true]
      apply relocate_stss_loop_frame
      exact h (trak.mdia.minf.stbl.stss.data,
        trak.mdia.minf.stbl.stss.data + 4 * trak.mdia.minf.stbl.stss.count) (by simp [hs])
    · simp only [Bool.not_true, Bool.false_eq_true, if_false]
  · simp only [if_true]

theorem relocate_trak_read (stream : stream_t) (mem : Mem) (trak : trak_t) (start k j : Nat)
    (hv : VOID trak.atom = false)
    (hk : trak.mdia.minf.stbl.coxx.bytes = k) (hk8 : k ≤ 8)
    (hb : trak.mdia.minf.stbl.coxx.data + k * trak.mdia.minf.stbl.coxx.count ≤ mem.size)
    (hs : VOID trak.mdia.minf.stbl.stss.atom = true ∨
      apart (trak.mdia.minf.stbl.stss.data,
             trak.mdia.minf.stbl.stss.data + 4 * trak.mdia.minf.stbl.stss.count)
        trak.mdia.minf.stbl.coxx.data
        (trak.mdia.minf.stbl.coxx.data + k * trak.mdia.minf.stbl.coxx.count))
    (hj : j < trak.mdia.minf.stbl.coxx.count) :
    coxx_entry (relocate_trak stream mem trak start) trak.mdia.minf.stbl j =
      sub64 (coxx_entry mem trak.mdia.minf.stbl j) (sub64 stream.file_offset start) %
        2 ^ (8 * k) := by
  unfold coxx_entry relocate_trak
  simp only [hv, hk, shl3]
  simp only [Bool.false_eq_true, if_false]
  by_cases hsv : VOID trak.mdia.minf.stbl.stss.atom = true
  · simp only [hsv, Bool.not_true, Bool.false_eq_true, if_false]
    exact relocate_coxx_loop_read _ k hk8 _ mem _ j hb hj
  · simp only [hsv, Bool.not_false, if_true]
    rw [relocate_coxx_loop_read _ k hk8 _ _ _ j (by rw [relocate_stss_loop_size]; exact hb) hj]
    congr 2
    apply read_xx_congr
    intro i hi
    rw [shr3] at hi
    apply relocate_stss_loop_frame
    rcases hs with hs | hs
    · exact absurd hs hsv
    · unfold apart at hs
      simp only at hs
      have h1 : k * j + k ≤ k * trak.mdia.minf.stbl.coxx.count := by
        rw [← Nat.mul_succ]; exact Nat.mul_le_mul_left k hj
      rcases hs with hs | hs
      · right; omega
      · left; omega


theorem iovs_trak_relocate (stream : stream_t) (mem : Mem) (i : iovs_t) (trak : trak_t)
    (track start : Nat) :
    relocate_trak stream mem (iovs_trak i trak track).2 start =
      relocate_trak stream mem trak start := by
  unfold iovs_trak
  cases hv : VOID trak.atom
  · simp only [Bool.false_eq_true, if_false]
    unfold relocate_trak
    simp only [hv]
  · simp only [if_true]

theorem compile_head_mem (self : stream_t) (ftyp mem : Mem) (file : file_t) :
    (compile_head self ftyp mem file).2.1 =
      relocate_trak self (relocate_trak self mem file.moov.vtrak (compile_head_gather file).1.size)
        file.moov.strak (compile_head_gather file).1.size := by
  show relocate_trak self (relocate_trak self mem (compile_head_gather file).2.moov.vtrak _)
    (compile_head_gather file).2.moov.strak _ = _
  have e1 : (compile_head_gather file).2.moov.vtrak =
    (iovs_trak (iovs_full (iovs_head (iovs_full {} file.ftyp.atom iov_base.ftyp) file.moov.atom)
      file.moov.mvhd.atom iov_base.moov) file.moov.vtrak 0).2 := rfl
  have e2 : (compile_head_gather file).2.moov.strak =
    (iovs_trak (iovs_trak (iovs_full (iovs_head (iovs_full {} file.ftyp.atom iov_base.ftyp)
      file.moov.atom) file.moov.mvhd.atom iov_base.moov) file.moov.vtrak 0).1
      file.moov.strak 1).2 := rfl
  rw [e1, e2, iovs_trak_relocate, iovs_trak_relocate]

theorem coxx_entry_frame (stream : stream_t) (mem : Mem) (other : trak_t) (start : Nat)
    (stbl : stbl_t) (k j : Nat) (hk : stbl.coxx.bytes = k) (hj : j < stbl.coxx.count)
    (ho : ∀ r ∈ relocated_ranges other,
      apart r stbl.coxx.data (stbl.coxx.data + k * stbl.coxx.count)) :
    coxx_entry (relocate_trak stream mem other start) stbl j = coxx_entry mem stbl j := by
  unfold coxx_entry
  rw [hk, shl3]
  apply read_xx_congr
  intro i hi
  rw [shr3] at hi
  apply relocate_trak_frame
  intro r hr
  have h := ho r hr
  unfold apart at h
  have h1 : k * j + k ≤ k * stbl.coxx.count := by
    rw [← Nat.mul_succ]; exact Nat.mul_le_mul_left k hj
  rcases h with h | h
  · right; omega
  · left; omega

theorem relocation_arith (old fo G k : Nat) (hk : k = 4 ∨ k = 8) (hold : old < 2 ^ (8 * k))
    (h0 : (0 : ℤ) ≤ (old : ℤ) - ((fo : ℤ) - (G : ℤ)))
    (h1 : (old : ℤ) - ((fo : ℤ) - (G : ℤ)) < 2 ^ (8 * k)) :
    ((sub64 old (sub64 fo (w64 G)) % 2 ^ (8 * k) : Nat) : ℤ) =
      (old : ℤ) - ((fo : ℤ) - (G : ℤ)) := by
  unfold sub64 w64
  rcases hk with hk | hk <;> subst hk <;> norm_num at * <;> omega

/-- The relocation of one entry by `compile_head`: every chunk-offset entry of
a participating track equals its value before relocation minus
`file_offset - G` (`G` the gathered head size), whenever that difference fits
the entry width. `trak` is either track of the file, `other` the remaining
one; the tables rewritten by the relocation do not overlap the track's
chunk-offset table. -/
theorem compile_head_entry (self : stream_t) (ftyp mem : Mem) (file : file_t)
    (trak other : trak_t) (i : Nat)
    (htr : (file.moov.vtrak = trak ∧ file.moov.strak = other) ∨
           (file.moov.vtrak = other ∧ file.moov.strak = trak))
    (hv : VOID trak.atom = false)
    (hk : trak.mdia.minf.stbl.coxx.bytes = 4 ∨ trak.mdia.minf.stbl.coxx.bytes = 8)
    (hb : trak.mdia.minf.stbl.coxx.data +
      trak.mdia.minf.stbl.coxx.bytes * trak.mdia.minf.stbl.coxx.count ≤ mem.size)
    (hs : VOID trak.mdia.minf.stbl.stss.atom = true ∨
      apart (trak.mdia.minf.stbl.stss.data,
             trak.mdia.minf.stbl.stss.data + 4 * trak.mdia.minf.stbl.stss.count)
        trak.mdia.minf.stbl.coxx.data
        (trak.mdia.minf.stbl.coxx.data +
          trak.mdia.minf.stbl.coxx.bytes * trak.mdia.minf.stbl.coxx.count))
    (ho : ∀ r ∈ relocated_ranges other,
      apart r trak.mdia.minf.stbl.coxx.data
        (trak.mdia.minf.stbl.coxx.data +
          trak.mdia.minf.stbl.coxx.bytes * trak.mdia.minf.stbl.coxx.count))
    (hi : i < trak.mdia.minf.stbl.coxx.count)
    (h0 : (0 : ℤ) ≤ (coxx_entry mem trak.mdia.minf.stbl i : ℤ) -
      ((self.file_offset : ℤ) - (gather_size file : ℤ)))
    (h1 : (coxx_entry mem trak.mdia.minf.stbl i : ℤ) -
      ((self.file_offset : ℤ) - (gather_size file : ℤ)) <
        2 ^ (8 * trak.mdia.minf.stbl.coxx.bytes)) :
    (coxx_entry (compile_head self ftyp mem file).2.1 trak.mdia.minf.stbl i : ℤ) =
      (coxx_entry mem trak.mdia.minf.stbl i : ℤ) -
        ((self.file_offset : ℤ) - (gather_size file : ℤ)) := by
  have hinv := compile_head_gather_inv file
  unfold iovs_inv at hinv
  have hS : (compile_head_gather file).1.size = w64 (gather_size file) := hinv
  have hk8 : trak.mdia.minf.stbl.coxx.bytes ≤ 8 := by omega
  have hold : coxx_entry mem trak.mdia.minf.stbl i < 2 ^ (8 * trak.mdia.minf.stbl.coxx.bytes) := by
    unfold coxx_entry; rw [shl3]; exact read_xx_lt _ _ _
  have key : coxx_entry (compile_head self ftyp mem file).2.1 trak.mdia.minf.stbl i =
      sub64 (coxx_entry mem trak.mdia.minf.stbl i)
        (sub64 self.file_offset (w64 (gather_size file))) %
        2 ^ (8 * trak.mdia.minf.stbl.coxx.bytes) := by
    rw [compile_head_mem, hS]
    rcases htr with ⟨hvt, hst⟩ | ⟨hvt, hst⟩
    · rw [hvt, hst]
      rw [coxx_entry_frame self _ other _ trak.mdia.minf.stbl _ i rfl hi ho]
      exact relocate_trak_read self mem trak _ _ i hv rfl hk8 hb hs hi
    · rw [hvt, hst]
      rw [relocate_trak_read self _ trak _ _ i hv rfl hk8
        (by rw [relocate_trak_size]; exact hb) hs hi]
      rw [coxx_entry_frame self mem other _ trak.mdia.minf.stbl _ i rfl hi ho]
  have ar := relocation_arith (coxx_entry mem trak.mdia.minf.stbl i) self.file_offset
    (gather_size file) _ hk hold h0 h1
  rw [← key] at ar
  exact ar


/-- Counterexample for C2: on `sample_file`, a request whose start and stop
snap to the same sync sample inside a chunk keeps one chunk-offset entry; it
is rewritten to `G` while the payload `[G, G + 0)` is empty. -/
theorem compile_head_relocation_counterexample :
    ¬ (∀ i, i < (head_input 20 same_keyframe_stream).2.2.2.moov.vtrak.mdia.minf.stbl.coxx.count →
        gather_size (head_input 20 same_keyframe_stream).2.2.2 ≤
          coxx_entry (compile_head (head_input 20 same_keyframe_stream).1
            (head_input 20 same_keyframe_stream).2.1 (head_input 20 same_keyframe_stream).2.2.1
            (head_input 20 same_keyframe_stream).2.2.2).2.1
            (head_input 20 same_keyframe_stream).2.2.2.moov.vtrak.mdia.minf.stbl i ∧
        coxx_entry (compile_head (head_input 20 same_keyframe_stream).1
            (head_input 20 same_keyframe_stream).2.1 (head_input 20 same_keyframe_stream).2.2.1
            (head_input 20 same_keyframe_stream).2.2.2).2.1
            (head_input 20 same_keyframe_stream).2.2.2.moov.vtrak.mdia.minf.stbl i <
          gather_size (head_input 20 same_keyframe_stream).2.2.2 +
            ((head_input 20 same_keyframe_stream).1.file_finish -
              (head_input 20 same_keyframe_stream).1.file_offset)) := by
  decide!

/-! ### Sample totals after splicing -/

/-- C3 (evaluation at the failing input). Cutting `sound_file` from sample 1
to sample 3, both inside the first chunk, leaves two samples in `stts` and in
`stsz`, but the emitted `stsc` is `(1, 3, 1), (2, 4, 1), (1, 3, 1)` over the
single retained chunk: it gives that chunk three samples. -/
theorem splice_same_chunk_totals :
    stts_total (head_input 20 same_chunk_stream).2.2.1
      (head_input 20 same_chunk_stream).2.2.2.moov.strak.mdia.minf.stbl = 2 ∧
    (head_input 20 same_chunk_stream).2.2.2.moov.strak.mdia.minf.stbl.stsz.count = 2 ∧
    (head_input 20 same_chunk_stream).2.2.2.moov.strak.mdia.minf.stbl.coxx.count = 1 ∧
    emitted_stsc (head_input 20 same_chunk_stream).2.2.1
      (head_input 20 same_chunk_stream).2.2.2.moov.strak = [(1, 3, 1), (2, 4, 1), (1, 3, 1)] ∧
    stsc_total (emitted_stsc (head_input 20 same_chunk_stream).2.2.1
      (head_input 20 same_chunk_stream).2.2.2.moov.strak)
      (head_input 20 same_chunk_stream).2.2.2.moov.strak.mdia.minf.stbl.coxx.count = 3 := by
  decide!

/-! ### Seeking -/

theorem read_32_lt (m : Mem) (p : Nat) : read_32 m p < 2 ^ 32 := by
  unfold read_32
  exact read_xx_lt m p 4

theorem w32_of_lt (x : Nat) (h : x < 2 ^ 32) : w32 x = x := by
  unfold w32; exact Nat.mod_eq_of_lt h

theorem stts_time_mono (mem : Mem) (stbl : stbl_t) (i j : Nat) (h : i ≤ j) :
    stts_time mem stbl i ≤ stts_time mem stbl j := by
  induction j with
  | zero => have : i = 0 := by omega
            subst this; exact le_refl _
  | succ j ih =>
    by_cases hij : i = j + 1
    · subst hij; exact le_refl _
    · have := ih (by omega)
      show _ ≤ stts_time mem stbl j + _
      omega

theorem stts_samples_mono (mem : Mem) (stbl : stbl_t) (i j : Nat) (h : i ≤ j) :
    stts_samples mem stbl i ≤ stts_samples mem stbl j := by
  induction j with
  | zero => have : i = 0 := by omega
            subst this; exact le_refl _
  | succ j ih =>
    by_cases hij : i = j + 1
    · subst hij; exact le_refl _
    · have := ih (by omega)
      show _ ≤ stts_samples mem stbl j + _
      omega

/-- What the `stts` loop of `compile_seek` returns when started at entry `i`
with the running totals of the entries before it. -/
theorem seek_stts_loop_spec (mem : Mem) (stbl : stbl_t) (time : Nat) (k : Nat) :
    ∀ (i : Nat) (l : seek_locals),
      i + k = stbl.stts.count →
      l.t = stts_time mem stbl i → l.n = stts_samples mem stbl i →
      stts_time mem stbl stbl.stts.count < 2 ^ 32 →
      stts_samples mem stbl stbl.stts.count < 2 ^ 32 →
      stts_time mem stbl i ≤ time →
      (0 < i → l.d = 1) →
      (seek_stts_loop mem stbl.stts.data time k i l).2.t =
        stts_time mem stbl (seek_stts_loop mem stbl.stts.data time k i l).1 ∧
      (seek_stts_loop mem stbl.stts.data time k i l).2.n =
        stts_samples mem stbl (seek_stts_loop mem stbl.stts.data time k i l).1 ∧
      stts_time mem stbl (seek_stts_loop mem stbl.stts.data time k i l).1 ≤ time ∧
      (((seek_stts_loop mem stbl.stts.data time k i l).1 < stbl.stts.count ∧
        (seek_stts_loop mem stbl.stts.data time k i l).2.d =
          stts_delta mem stbl (seek_stts_loop mem stbl.stts.data time k i l).1 ∧
        time < stts_time mem stbl ((seek_stts_loop mem stbl.stts.data time k i l).1 + 1)) ∨
       ((seek_stts_loop mem stbl.stts.data time k i l).1 = stbl.stts.count ∧
        (0 < stbl.stts.count → (seek_stts_loop mem stbl.stts.data time k i l).2.d = 1) ∧
        (stbl.stts.count = 0 → (seek_stts_loop mem stbl.stts.data time k i l).2.d = l.d))) := by
  induction k with
  | zero =>
    intro i l hik ht hn _ _ hle hd
    have hi : i = stbl.stts.count := by omega
    unfold seek_stts_loop
    refine ⟨ht, hn, hle, Or.inr ⟨hi, ?_, ?_⟩⟩
    · intro h; exact hd (by omega)
    · intro _; rfl
  | succ k ih =>
    intro i l hik ht hn hT hN hle hd
    have hi : i < stbl.stts.count := by omega
    have hT1 : stts_time mem stbl (i + 1) ≤ stts_time mem stbl stbl.stts.count :=
      stts_time_mono mem stbl _ _ (by omega)
    have hN1 : stts_samples mem stbl (i + 1) ≤ stts_samples mem stbl stbl.stts.count :=
      stts_samples_mono mem stbl _ _ (by omega)
    have eT : stts_time mem stbl (i + 1) =
      stts_time mem stbl i + stts_count mem stbl i * stts_delta mem stbl i := rfl
    have eN : stts_samples mem stbl (i + 1) = stts_samples mem stbl i + stts_count mem stbl i := rfl
    have hu : w32 (read_32 mem (stbl.stts.data + 8 * i) * read_32 mem (stbl.stts.data + 8 * i + 4)) =
        stts_count mem stbl i * stts_delta mem stbl i := by
      apply w32_of_lt
      show stts_count mem stbl i * stts_delta mem stbl i < _
      omega
    have htu : w32 (l.t + stts_count mem stbl i * stts_delta mem stbl i) =
        stts_time mem stbl (i + 1) := by
      rw [ht, ← eT]; apply w32_of_lt; omega
    unfold seek_stts_loop
    simp only [hu, htu]
    by_cases hbrk : stts_time mem stbl (i + 1) > time
    · rw [if_pos hbrk]
      exact ⟨ht, hn, hle, Or.inl ⟨hi, rfl, hbrk⟩⟩
    · rw [if_neg hbrk]
      have hnc : w32 (l.n + read_32 mem (stbl.stts.data + 8 * i)) = stts_samples mem stbl (i + 1) := by
        rw [hn]; show w32 (stts_samples mem stbl i + stts_count mem stbl i) = _
        rw [← eN]; apply w32_of_lt; omega
      rw [hnc]
      have := ih (i + 1) ⟨read_32 mem (stbl.stts.data + 8 * i), 1,
        stts_time mem stbl (i + 1), stts_samples mem stbl (i + 1)⟩
        (by omega) rfl rfl hT hN (by omega) (fun _ => rfl)
      obtain ⟨h1, h2, h3, h4⟩ := this
      refine ⟨h1, h2, h3, ?_⟩
      rcases h4 with h4 | ⟨h4, h5, h6⟩
      · exact Or.inl h4
      · exact Or.inr ⟨h4, h5, fun h0 => by omega⟩

theorem w64_of_lt (x : Nat) (h : x < 2 ^ 64) : w64 x = x := by
  unfold w64; exact Nat.mod_eq_of_lt h

theorem compile_maxs_loop_spec (mem : Mem) (stbl : stbl_t) (k : Nat) :
    ∀ i, i + k = stbl.stts.count →
      stts_time mem stbl stbl.stts.count < 2 ^ 32 →
      stts_samples mem stbl stbl.stts.count < 2 ^ 32 →
      compile_maxs_loop mem stbl.stts.data k i (stts_samples mem stbl i) (stts_time mem stbl i) =
        (stts_samples mem stbl stbl.stts.count, stts_time mem stbl stbl.stts.count) := by
  induction k with
  | zero =>
    intro i hi _ _
    have : i = stbl.stts.count := by omega
    subst this; rfl
  | succ k ih =>
    intro i hi hT hN
    unfold compile_maxs_loop
    have hT1 : stts_time mem stbl (i + 1) ≤ stts_time mem stbl stbl.stts.count :=
      stts_time_mono mem stbl _ _ (by omega)
    have hN1 : stts_samples mem stbl (i + 1) ≤ stts_samples mem stbl stbl.stts.count :=
      stts_samples_mono mem stbl _ _ (by omega)
    have eT : stts_time mem stbl (i + 1) =
      stts_time mem stbl i + stts_count mem stbl i * stts_delta mem stbl i := rfl
    have eN : stts_samples mem stbl (i + 1) = stts_samples mem stbl i + stts_count mem stbl i := rfl
    have e1 : w64 (stts_samples mem stbl i + read_32 mem (stbl.stts.data + 8 * i)) =
        stts_samples mem stbl (i + 1) := by
      show w64 (stts_samples mem stbl i + stts_count mem stbl i) = _
      rw [← eN]; apply w64_of_lt; omega
    have e2 : w64 (read_32 mem (stbl.stts.data + 8 * i) * read_32 mem (stbl.stts.data + 8 * i + 4)) =
        stts_count mem stbl i * stts_delta mem stbl i := by
      show w64 (stts_count mem stbl i * stts_delta mem stbl i) = _
      apply w64_of_lt; omega
    have e3 : w64 (stts_time mem stbl i + stts_count mem stbl i * stts_delta mem stbl i) =
        stts_time mem stbl (i + 1) := by
      rw [← eT]; apply w64_of_lt; omega
    simp only [e1, e2, e3]
    exact ih (i + 1) (by omega) hT hN

theorem compile_maxs_max (mem : Mem) (stbl : stbl_t)
    (hT : stts_time mem stbl stbl.stts.count < 2 ^ 32)
    (hN : stts_samples mem stbl stbl.stts.count < 2 ^ 32) :
    (compile_maxs mem stbl).max_samples = stts_samples mem stbl stbl.stts.count ∧
    (compile_maxs mem stbl).max_time = stts_time mem stbl stbl.stts.count := by
  have h := compile_maxs_loop_spec mem stbl stbl.stts.count 0 (by omega) hT hN
  have e : compile_maxs_loop mem stbl.stts.data stbl.stts.count 0 0 0 =
    (stts_samples mem stbl stbl.stts.count, stts_time mem stbl stbl.stts.count) := h
  unfold compile_maxs
  simp [e]

theorem MIN_le (a b : Nat) (h : a ≤ b) : MIN a b = a := by
  unfold MIN; split <;> omega

theorem sub64_of_le (a b : Nat) (h : b ≤ a) (ha : a < 2 ^ 64) : sub64 a b = a - b := by
  unfold sub64
  have hb : b < 2 ^ 64 := by omega
  rw [Nat.mod_eq_of_lt ha, Nat.mod_eq_of_lt hb]
  have : a + (2 ^ 64 - b) = (a - b) + 2 ^ 64 := by omega
  rw [this, Nat.add_mod_right]
  exact Nat.mod_eq_of_lt (by omega)

theorem sub32_of_le (a b : Nat) (h : b ≤ a) (ha : a < 2 ^ 32) : sub32 a b = a - b := by
  unfold sub32
  have hb : b < 2 ^ 32 := by omega
  rw [Nat.mod_eq_of_lt ha, Nat.mod_eq_of_lt hb]
  have : a + (2 ^ 32 - b) = (a - b) + 2 ^ 32 := by omega
  rw [this, Nat.add_mod_right]
  exact Nat.mod_eq_of_lt (by omega)

/-- Result of the `stts` look-up for a requested time within the table. -/
theorem seek_stts_spec (mem : Mem) (stbl : stbl_t) (seek : seek_t)
    (hT : stts_time mem stbl stbl.stts.count < 2 ^ 32)
    (hN : stts_samples mem stbl stbl.stts.count < 2 ^ 32)
    (hmt : stbl.max_time = stts_time mem stbl stbl.stts.count)
    (hms : stbl.max_samples = stts_samples mem stbl stbl.stts.count)
    (hreq : seek.time ≤ stts_time mem stbl stbl.stts.count) :
    stts_at mem stbl (seek_stts mem stbl seek).1.stts.index (seek_stts mem stbl seek).1.stts.offset
      (seek_stts mem stbl seek).1.time (seek_stts mem stbl seek).1.stsz.index ∧
    (seek_stts mem stbl seek).1.time ≤ seek.time ∧
    ((seek_stts mem stbl seek).1.stts.index < stbl.stts.count →
      seek.time < stts_time mem stbl (seek_stts mem stbl seek).1.stts.index +
        ((seek_stts mem stbl seek).1.stts.offset + 1) *
          stts_delta mem stbl (seek_stts mem stbl seek).1.stts.index) ∧
    ((seek_stts mem stbl seek).1.stts.index = stbl.stts.count →
      seek.time = stts_time mem stbl stbl.stts.count) := by
  have hl := seek_stts_loop_spec mem stbl seek.time stbl.stts.count 0 {} (by omega) rfl rfl hT hN
    (Nat.zero_le _) (fun h => absurd h (by omega))
  generalize hr : seek_stts_loop mem stbl.stts.data seek.time stbl.stts.count 0 {} = r at hl
  obtain ⟨ht, hn, hle, hcase⟩ := hl
  have e_idx : (seek_stts mem stbl seek).1.stts.index = r.1 := by
    unfold seek_stts; simp only [hr]
  have e_off : (seek_stts mem stbl seek).1.stts.offset = w32 (sub64 seek.time r.2.t / r.2.d) := by
    unfold seek_stts; simp only [hr]
  have e_time : (seek_stts mem stbl seek).1.time =
      MIN (w32 (r.2.t + w32 (w32 (sub64 seek.time r.2.t / r.2.d) * r.2.d))) stbl.max_time := by
    unfold seek_stts; simp only [hr]
  have e_smp : (seek_stts mem stbl seek).1.stsz.index =
      w32 (MIN (w32 (r.2.n + w32 (sub64 seek.time r.2.t / r.2.d))) stbl.max_samples) := by
    unfold seek_stts; simp only [hr]
  rw [e_idx, e_off, e_time, e_smp, ht, hn, hmt, hms]
  unfold stts_at
  have hsub : sub64 seek.time (stts_time mem stbl r.1) = seek.time - stts_time mem stbl r.1 :=
    sub64_of_le _ _ hle (by omega)
  rw [hsub]
  rcases hcase with ⟨hI, hd, hlt⟩ | ⟨hI, hd1, hd0⟩
  · -- the loop stopped inside entry r.1
    rw [hd]
    have eT : stts_time mem stbl (r.1 + 1) =
      stts_time mem stbl r.1 + stts_count mem stbl r.1 * stts_delta mem stbl r.1 := rfl
    have eN : stts_samples mem stbl (r.1 + 1) = stts_samples mem stbl r.1 + stts_count mem stbl r.1 := rfl
    have hN1 : stts_samples mem stbl (r.1 + 1) ≤ stts_samples mem stbl stbl.stts.count :=
      stts_samples_mono mem stbl _ _ (by omega)
    generalize hx : seek.time - stts_time mem stbl r.1 = x at *
    generalize hD : stts_delta mem stbl r.1 = D at *
    generalize hC : stts_count mem stbl r.1 = C at *
    have hxlt : x < C * D := by omega
    have hDpos : 0 < D := by
      rcases Nat.eq_zero_or_pos D with h | h
      · subst h; simp at hxlt
      · exact h
    have hq1 : x / D * D ≤ x := Nat.div_mul_le_self x D
    have hq2 : x / D < C := by
      rw [Nat.div_lt_iff_lt_mul hDpos]; exact hxlt
    have hq3 : x < (x / D + 1) * D := by
      have := Nat.div_add_mod x D
      have hm := Nat.mod_lt x hDpos
      rw [Nat.add_mul, Nat.one_mul, Nat.mul_comm (x / D) D]
      omega
    have hq4 : x / D ≤ x := Nat.div_le_self x D
    have ew1 : w32 (x / D) = x / D := w32_of_lt _ (by omega)
    rw [ew1]
    have ew2 : w32 (x / D * D) = x / D * D := w32_of_lt _ (by omega)
    rw [ew2]
    have ew3 : w32 (stts_time mem stbl r.1 + x / D * D) = stts_time mem stbl r.1 + x / D * D :=
      w32_of_lt _ (by omega)
    rw [ew3]
    have ew4 : w32 (stts_samples mem stbl r.1 + x / D) = stts_samples mem stbl r.1 + x / D :=
      w32_of_lt _ (by omega)
    rw [ew4]
    rw [MIN_le _ _ (by omega), MIN_le _ _ (by omega)]
    have ew5 : w32 (stts_samples mem stbl r.1 + x / D) = stts_samples mem stbl r.1 + x / D :=
      w32_of_lt _ (by omega)
    rw [ew5]
    refine ⟨⟨rfl, rfl, Or.inl ⟨hI, hq2⟩⟩, by omega, fun _ => by omega, fun h => by omega⟩
  · -- every entry was passed
    have hreq' : seek.time = stts_time mem stbl stbl.stts.count := by
      rw [hI] at hle; omega
    have hx : seek.time - stts_time mem stbl r.1 = 0 := by rw [hI]; omega
    rw [hx]
    simp only [Nat.zero_div, Nat.zero_mul, Nat.add_zero]
    have ew1 : w32 0 = 0 := rfl
    simp only [ew1, Nat.zero_mul, Nat.add_zero]
    rw [hI]
    rw [w32_of_lt _ hT, w32_of_lt _ hN, MIN_le _ _ (le_refl _), MIN_le _ _ (le_refl _),
      w32_of_lt _ hN]
    refine ⟨⟨rfl, rfl, Or.inr (by simp)⟩, by omega,
      fun h => absurd h (by omega), fun _ => hreq'⟩

theorem decode_time_from_zero (mem : Mem) (stbl : stbl_t) (k : Nat) :
    ∀ i, decode_time_from mem stbl k i 0 = 0 := by
  induction k with
  | zero => intro i; rfl
  | succ k ih =>
    intro i
    unfold decode_time_from
    split
    · exact Nat.zero_mul _
    · rename_i h
      have : stts_count mem stbl i = 0 := by omega
      rw [this, Nat.zero_mul, Nat.zero_add, Nat.sub_zero]
      exact ih (i + 1)

theorem decode_time_from_inside (mem : Mem) (stbl : stbl_t) (k : Nat) :
    ∀ i j o, i + k = stbl.stts.count → i ≤ j → j < stbl.stts.count →
      o ≤ stts_count mem stbl j →
      decode_time_from mem stbl k i (stts_samples mem stbl j - stts_samples mem stbl i + o) =
        stts_time mem stbl j - stts_time mem stbl i + o * stts_delta mem stbl j := by
  induction k with
  | zero => intro i j o h1 h2 h3 _; omega
  | succ k ih =>
    intro i j o h1 h2 h3 ho
    have eT : stts_time mem stbl (i + 1) =
      stts_time mem stbl i + stts_count mem stbl i * stts_delta mem stbl i := rfl
    have eN : stts_samples mem stbl (i + 1) = stts_samples mem stbl i + stts_count mem stbl i := rfl
    unfold decode_time_from
    by_cases hij : i = j
    · subst hij
      simp only [Nat.sub_self, Nat.zero_add]
      by_cases hlt : o < stts_count mem stbl i
      · rw [if_pos hlt]
      · rw [if_neg hlt]
        have : o = stts_count mem stbl i := by omega
        rw [this, Nat.sub_self, decode_time_from_zero]
        rfl
    · have hN := stts_samples_mono mem stbl (i + 1) j (by omega)
      have hT := stts_time_mono mem stbl (i + 1) j (by omega)
      have hge : ¬ (stts_samples mem stbl j - stts_samples mem stbl i + o < stts_count mem stbl i) := by
        omega
      rw [if_neg hge]
      have e : stts_samples mem stbl j - stts_samples mem stbl i + o - stts_count mem stbl i =
          stts_samples mem stbl j - stts_samples mem stbl (i + 1) + o := by omega
      rw [e, ih (i + 1) j o (by omega) (by omega) h3 ho]
      generalize stts_count mem stbl i * stts_delta mem stbl i = u at *
      generalize o * stts_delta mem stbl j = v at *
      omega

theorem decode_time_from_past (mem : Mem) (stbl : stbl_t) (k : Nat) :
    ∀ i s, i + k = stbl.stts.count →
      stts_samples mem stbl stbl.stts.count - stts_samples mem stbl i ≤ s →
      decode_time_from mem stbl k i s =
        stts_time mem stbl stbl.stts.count - stts_time mem stbl i := by
  induction k with
  | zero =>
    intro i s h1 _
    have : i = stbl.stts.count := by omega
    subst this
    unfold decode_time_from
    omega
  | succ k ih =>
    intro i s h1 hs
    have eT : stts_time mem stbl (i + 1) =
      stts_time mem stbl i + stts_count mem stbl i * stts_delta mem stbl i := rfl
    have eN : stts_samples mem stbl (i + 1) = stts_samples mem stbl i + stts_count mem stbl i := rfl
    have hN := stts_samples_mono mem stbl (i + 1) stbl.stts.count (by omega)
    have hT := stts_time_mono mem stbl (i + 1) stbl.stts.count (by omega)
    unfold decode_time_from
    have hge : ¬ (s < stts_count mem stbl i) := by omega
    rw [if_neg hge, ih (i + 1) _ (by omega) (by omega)]
    generalize stts_count mem stbl i * stts_delta mem stbl i = u at *
    omega

/-- The decode time of the sample an `stts` cursor addresses. -/
theorem decode_time_at (mem : Mem) (stbl : stbl_t) (index offset time sample : Nat)
    (h : stts_at mem stbl index offset time sample) : decode_time mem stbl sample = time := by
  obtain ⟨hs, ht, hc⟩ := h
  unfold decode_time
  rcases hc with ⟨hi, ho⟩ | ⟨hi, ho⟩
  · have := decode_time_from_inside mem stbl stbl.stts.count 0 index offset (by omega)
      (Nat.zero_le _) hi (by omega)
    have e0 : stts_samples mem stbl 0 = 0 := rfl
    have e1 : stts_time mem stbl 0 = 0 := rfl
    rw [e0, e1, Nat.sub_zero, Nat.sub_zero] at this
    rw [hs, ht, this]
  · subst hi; subst ho
    have := decode_time_from_past mem stbl stbl.stts.count 0 sample (by omega)
      (by rw [hs]; omega)
    have e1 : stts_time mem stbl 0 = 0 := rfl
    rw [e1, Nat.sub_zero] at this
    rw [this, ht]; simp

/-- The decode time of the sample after the one an `stts` cursor addresses. -/
theorem decode_time_next (mem : Mem) (stbl : stbl_t) (index offset time sample : Nat)
    (h : stts_at mem stbl index offset time sample) :
    decode_time mem stbl (sample + 1) =
      if index < stbl.stts.count then
        stts_time mem stbl index + (offset + 1) * stts_delta mem stbl index
      else stts_time mem stbl stbl.stts.count := by
  obtain ⟨hs, ht, hc⟩ := h
  unfold decode_time
  rcases hc with ⟨hi, ho⟩ | ⟨hi, ho⟩
  · have := decode_time_from_inside mem stbl stbl.stts.count 0 index (offset + 1) (by omega)
      (Nat.zero_le _) hi (by omega)
    have e0 : stts_samples mem stbl 0 = 0 := rfl
    have e1 : stts_time mem stbl 0 = 0 := rfl
    rw [e0, e1, Nat.sub_zero, Nat.sub_zero] at this
    rw [if_pos hi, hs, Nat.add_assoc, this]
  · subst hi; subst ho
    have := decode_time_from_past mem stbl stbl.stts.count 0 (sample + 1) (by omega)
      (by rw [hs]; omega)
    have e1 : stts_time mem stbl 0 = 0 := rfl
    rw [e1, Nat.sub_zero] at this
    rw [this, if_neg (by omega)]

theorem seek_stss_loop_le (mem : Mem) (data t : Nat) (k : Nat) :
    ∀ idx cur, cur ≤ t → (seek_stss_loop mem data t k idx cur).2 ≤ t := by
  induction k with
  | zero => intro idx cur h; exact h
  | succ k ih =>
    intro idx cur h
    rw [seek_stss_loop]
    split
    · exact h
    · exact ih _ _ (by omega)

theorem shl3_w32 (i : Nat) (h : 8 * i < 2 ^ 32) : w32 (i <<< 3) = 8 * i := by
  rw [Nat.shiftLeft_eq]
  have : i * 2 ^ 3 = 8 * i := by omega
  rw [this]
  exact w32_of_lt _ h

/-- Walking `stts` backwards by `steps` samples from a cursor keeps it a
cursor, for the sample `steps` earlier, and does not increase the time. -/
theorem seek_back_loop_spec (mem : Mem) (stbl : stbl_t)
    (hT : stts_time mem stbl stbl.stts.count < 2 ^ 32)
    (hsz : 8 * stbl.stts.count + 4 < 2 ^ 32)
    (hc : ∀ i, i < stbl.stts.count → 0 < stts_count mem stbl i) (steps : Nat) :
    ∀ index offset d time sample,
      stts_at mem stbl index offset time sample →
      (offset ≠ 0 → d = stts_delta mem stbl index) →
      steps ≤ sample →
      stts_at mem stbl (seek_back_loop mem stbl.stts.data steps index offset d time).1
        (seek_back_loop mem stbl.stts.data steps index offset d time).2.1
        (seek_back_loop mem stbl.stts.data steps index offset d time).2.2.2 (sample - steps) ∧
      (seek_back_loop mem stbl.stts.data steps index offset d time).2.2.2 ≤ time := by
  induction steps with
  | zero =>
    intro index offset d time sample h _ _
    exact ⟨h, le_refl _⟩
  | succ steps ih =>
    intro index offset d time sample h hd hst
    obtain ⟨hs, ht, hcase⟩ := h
    unfold seek_back_loop
    by_cases ho : offset ≠ 0
    · rw [if_pos ho]
      have hd' := hd ho
      rcases hcase with ⟨hi, hoc⟩ | ⟨hi, hoz⟩
      · have hTi := stts_time_mono mem stbl (index + 1) stbl.stts.count (by omega)
        have eT : stts_time mem stbl (index + 1) =
          stts_time mem stbl index + stts_count mem stbl index * stts_delta mem stbl index := rfl
        have hmul : offset * stts_delta mem stbl index =
            (offset - 1) * stts_delta mem stbl index + stts_delta mem stbl index := by
          have : offset = (offset - 1) + 1 := by omega
          conv_lhs => rw [this, Nat.add_mul, Nat.one_mul]
        have hle2 : offset * stts_delta mem stbl index ≤
            stts_count mem stbl index * stts_delta mem stbl index :=
          Nat.mul_le_mul_right _ (by omega)
        have hsub : sub64 time d = time - d := by
          apply sub64_of_le
          · rw [hd', ht, hmul]; omega
          · rw [ht]; omega
        rw [hsub]
        have := ih index (offset - 1) d (time - d) (sample - 1)
          ⟨by omega, by rw [hd', ht, hmul]; omega, Or.inl ⟨hi, by omega⟩⟩
          (fun _ => hd') (by omega)
        have e : sample - 1 - steps = sample - (steps + 1) := by omega
        rw [e] at this
        exact ⟨this.1, by have := this.2; omega⟩
      · omega
    · rw [if_neg ho]
      have ho0 : offset = 0 := by omega
      subst ho0
      have hpos : 1 ≤ index := by
        rcases Nat.eq_zero_or_pos index with h0 | h0
        · subst h0
          have e0 : stts_samples mem stbl 0 = 0 := rfl
          rw [e0] at hs; omega
        · exact h0
      have hidx : index ≤ stbl.stts.count := by
        rcases hcase with ⟨hi, _⟩ | ⟨hi, _⟩ <;> omega
      have hsub1 : sub32 index 1 = index - 1 := sub32_of_le _ _ hpos (by omega)
      have hsh : w32 ((index - 1) <<< 3) = 8 * (index - 1) := shl3_w32 _ (by omega)
      dsimp only
      rw [hsub1, hsh]
      have hC := hc (index - 1) (by omega)
      have hClt : stts_count mem stbl (index - 1) < 2 ^ 32 := read_32_lt _ _
      have hoff : sub32 (read_32 mem (stbl.stts.data + 8 * (index - 1))) 1 =
          stts_count mem stbl (index - 1) - 1 := sub32_of_le _ _ hC hClt
      rw [hoff]
      have eidx : index = (index - 1) + 1 := by omega
      have eT : stts_time mem stbl index = stts_time mem stbl (index - 1) +
          stts_count mem stbl (index - 1) * stts_delta mem stbl (index - 1) := by
        conv_lhs => rw [eidx]
        rfl
      have eN : stts_samples mem stbl index = stts_samples mem stbl (index - 1) +
          stts_count mem stbl (index - 1) := by
        conv_lhs => rw [eidx]
        rfl
      have hTi := stts_time_mono mem stbl index stbl.stts.count hidx
      have hmul : stts_count mem stbl (index - 1) * stts_delta mem stbl (index - 1) =
          (stts_count mem stbl (index - 1) - 1) * stts_delta mem stbl (index - 1) +
            stts_delta mem stbl (index - 1) := by
        have : stts_count mem stbl (index - 1) = (stts_count mem stbl (index - 1) - 1) + 1 := by
          omega
        conv_lhs => rw [this, Nat.add_mul, Nat.one_mul]
      have ht' : time = stts_time mem stbl index := by
        rw [ht, Nat.zero_mul, Nat.add_zero]
      have hsub : sub64 time (read_32 mem (stbl.stts.data + 8 * (index - 1) + 4)) =
          time - stts_delta mem stbl (index - 1) := by
        apply sub64_of_le
        · show stts_delta mem stbl (index - 1) ≤ time
          rw [ht', eT, hmul]; omega
        · rw [ht']; omega
      rw [hsub]
      have := ih (index - 1) (stts_count mem stbl (index - 1) - 1)
        (read_32 mem (stbl.stts.data + 8 * (index - 1) + 4))
        (time - stts_delta mem stbl (index - 1)) (sample - 1)
        ⟨by omega, by rw [ht', eT, hmul]; omega, Or.inl ⟨by omega, by omega⟩⟩
        (fun _ => rfl) (by omega)
      have e : sample - 1 - steps = sample - (steps + 1) := by omega
      rw [e] at this
      exact ⟨this.1, by have := this.2; omega⟩

theorem stts_time_congr (mem : Mem) (a b : stbl_t) (h : a.stts = b.stts) (i : Nat) :
    stts_time mem a i = stts_time mem b i := by
  induction i with
  | zero => rfl
  | succ i ih =>
    show stts_time mem a i + stts_count mem a i * stts_delta mem a i =
      stts_time mem b i + stts_count mem b i * stts_delta mem b i
    unfold stts_count stts_delta
    rw [ih, h]

theorem stts_samples_congr (mem : Mem) (a b : stbl_t) (h : a.stts = b.stts) (i : Nat) :
    stts_samples mem a i = stts_samples mem b i := by
  induction i with
  | zero => rfl
  | succ i ih =>
    show stts_samples mem a i + stts_count mem a i = stts_samples mem b i + stts_count mem b i
    unfold stts_count
    rw [ih, h]

theorem decode_time_congr (mem : Mem) (a b : stbl_t) (h : a.stts = b.stts) (s : Nat) :
    decode_time mem a s = decode_time mem b s := by
  unfold decode_time
  rw [h]
  generalize b.stts.count = k
  generalize (0 : Nat) = i
  induction k generalizing i s with
  | zero => rfl
  | succ k ih =>
    unfold decode_time_from
    unfold stts_count stts_delta
    rw [h, ih]

/-- The `stss` look-up keeps `seek.stts`, `seek.time` and `seek.stsz.index`
describing one sample, and does not increase `seek.time`. -/
theorem seek_stss_spec (mem : Mem) (stbl : stbl_t) (seek : seek_t)
    (hT : stts_time mem stbl stbl.stts.count < 2 ^ 32)
    (hN : stts_samples mem stbl stbl.stts.count < 2 ^ 32)
    (hsz : 8 * stbl.stts.count + 4 < 2 ^ 32)
    (hc : VOID stbl.stss.atom = false → ∀ i, i < stbl.stts.count → 0 < stts_count mem stbl i)
    (hat : stts_at mem stbl seek.stts.index seek.stts.offset seek.time seek.stsz.index) :
    stts_at mem stbl (seek_stss mem stbl seek).stts.index (seek_stss mem stbl seek).stts.offset
      (seek_stss mem stbl seek).time (seek_stss mem stbl seek).stsz.index ∧
    (seek_stss mem stbl seek).time ≤ seek.time := by
  unfold seek_stss
  cases hv : VOID stbl.stss.atom
  · simp only [Bool.not_false, if_true]
    have hidx : seek.stts.index ≤ stbl.stts.count := by
      rcases hat.2.2 with ⟨h, _⟩ | ⟨h, _⟩ <;> omega
    have hsmp : seek.stsz.index < 2 ^ 32 := by
      obtain ⟨hs, _, hcase⟩ := hat
      rcases hcase with ⟨hi, ho⟩ | ⟨hi, ho⟩
      · have := stts_samples_mono mem stbl (seek.stts.index + 1) stbl.stts.count (by omega)
        have eN : stts_samples mem stbl (seek.stts.index + 1) =
          stts_samples mem stbl seek.stts.index + stts_count mem stbl seek.stts.index := rfl
        omega
      · rw [hs, hi, ho]; omega
    have hsnap : (if seek.stsz.index < stbl.stsz.count then
        seek_stss_loop mem stbl.stss.data seek.stsz.index (stbl.stss.count - 1) 1 0
        else (stbl.stss.count, seek.stsz.index)).2 ≤ seek.stsz.index := by
      split
      · exact seek_stss_loop_le mem _ _ _ _ _ (Nat.zero_le _)
      · exact le_refl _
    generalize (if seek.stsz.index < stbl.stsz.count then
        seek_stss_loop mem stbl.stss.data seek.stsz.index (stbl.stss.count - 1) 1 0
        else (stbl.stss.count, seek.stsz.index)) = ss at hsnap
    have hsteps : sub32 seek.stsz.index ss.2 = seek.stsz.index - ss.2 :=
      sub32_of_le _ _ hsnap hsmp
    have hd : seek.stts.offset ≠ 0 →
        (if seek.stts.offset ≠ 0 then
          read_32 mem (stbl.stts.data + w32 (w32 (seek.stts.index <<< 3) + 4)) else 0) =
        stts_delta mem stbl seek.stts.index := by
      intro ho
      rw [if_pos ho, shl3_w32 _ (by omega), w32_of_lt _ (by omega)]
      rfl
    have := seek_back_loop_spec mem stbl hT hsz (hc hv) (seek.stsz.index - ss.2)
      seek.stts.index seek.stts.offset _ seek.time seek.stsz.index hat hd (by omega)
    rw [hsteps]
    have e : seek.stsz.index - (seek.stsz.index - ss.2) = ss.2 := by omega
    rw [e] at this
    exact this
  · simp only [Bool.not_true, Bool.false_eq_true, if_false]
    exact ⟨hat, le_refl _⟩

theorem seek_stss_void (mem : Mem) (stbl : stbl_t) (seek : seek_t)
    (hv : VOID stbl.stss.atom = true) :
    (seek_stss mem stbl seek).time = seek.time ∧
    (seek_stss mem stbl seek).stsz.index = seek.stsz.index := by
  unfold seek_stss
  simp [hv]

theorem compile_seek_time (mem : Mem) (stbl : stbl_t) (seek : seek_t) :
    (compile_seek mem stbl seek).time = (seek_stss mem stbl (seek_stts mem stbl seek).1).time := by
  unfold compile_seek seek_stsc seek_ctts
  dsimp only
  split <;> rfl

theorem compile_seek_sample (mem : Mem) (stbl : stbl_t) (seek : seek_t) :
    (compile_seek mem stbl seek).stsz.index =
      (seek_stss mem stbl (seek_stts mem stbl seek).1).stsz.index := by
  unfold compile_seek seek_stsc seek_ctts
  dsimp only
  split <;> rfl

/-- C4 (amended). For every seek with a requested time not beyond `max_time`
(tables without 32-bit overflow; with an `stss`, every `stts` entry holding at
least one sample), the value left in `seek.time` is the decode time of the
returned sample and is `<=` the requested time; when the track has no `stss`
(no keyframe snapping), the requested time is also `<=` the decode time of the
sample following the returned one. -/
theorem compile_seek_time_bounds (mem : Mem) (stbl : stbl_t) (seek : seek_t)
    (hT : stts_time mem stbl stbl.stts.count < 2 ^ 32)
    (hN : stts_samples mem stbl stbl.stts.count < 2 ^ 32)
    (hsz : 8 * stbl.stts.count + 4 < 2 ^ 32)
    (hc : VOID stbl.stss.atom = false → ∀ i, i < stbl.stts.count → 0 < stts_count mem stbl i)
    (hreq : seek.time ≤ (compile_maxs mem stbl).max_time) :
    (compile_seek mem (compile_maxs mem stbl) seek).time =
      decode_time mem stbl (compile_seek mem (compile_maxs mem stbl) seek).stsz.index ∧
    (compile_seek mem (compile_maxs mem stbl) seek).time ≤ seek.time ∧
    (VOID stbl.stss.atom = true →
      seek.time ≤
        decode_time mem stbl ((compile_seek mem (compile_maxs mem stbl) seek).stsz.index + 1)) := by
  have hmax := compile_maxs_max mem stbl hT hN
  have e1 : (compile_maxs mem stbl).stts = stbl.stts := rfl
  have e2 : (compile_maxs mem stbl).stss = stbl.stss := rfl
  have eT : ∀ i, stts_time mem (compile_maxs mem stbl) i = stts_time mem stbl i :=
    stts_time_congr mem _ _ e1
  have eN : ∀ i, stts_samples mem (compile_maxs mem stbl) i = stts_samples mem stbl i :=
    stts_samples_congr mem _ _ e1
  have eC : ∀ i, stts_count mem (compile_maxs mem stbl) i = stts_count mem stbl i := fun _ => rfl
  have hT' : stts_time mem (compile_maxs mem stbl) (compile_maxs mem stbl).stts.count < 2 ^ 32 := by
    rw [eT, e1]; exact hT
  have hN' : stts_samples mem (compile_maxs mem stbl) (compile_maxs mem stbl).stts.count < 2 ^ 32 := by
    rw [eN, e1]; exact hN
  have hsz' : 8 * (compile_maxs mem stbl).stts.count + 4 < 2 ^ 32 := by rw [e1]; exact hsz
  have hc' : VOID (compile_maxs mem stbl).stss.atom = false →
      ∀ i, i < (compile_maxs mem stbl).stts.count → 0 < stts_count mem (compile_maxs mem stbl) i := by
    rw [e1, e2]; intro h i hi; rw [eC]; exact hc h i hi
  have hspec := seek_stts_spec mem (compile_maxs mem stbl) seek hT' hN'
    (by rw [eT, e1]; exact hmax.2) (by rw [eN, e1]; exact hmax.1)
    (by rw [eT, e1, ← hmax.2]; exact hreq)
  obtain ⟨hat, hle, hin, hout⟩ := hspec
  obtain ⟨hat2, h1⟩ := seek_stss_spec mem (compile_maxs mem stbl) _ hT' hN' hsz' hc' hat
  rw [compile_seek_time, compile_seek_sample]
  rw [← decode_time_congr mem (compile_maxs mem stbl) stbl e1,
    ← decode_time_congr mem (compile_maxs mem stbl) stbl e1]
  refine ⟨(decode_time_at mem _ _ _ _ _ hat2).symm, le_trans h1 hle, ?_⟩
  intro hv
  have hv' : VOID (compile_maxs mem stbl).stss.atom = true := by rw [e2]; exact hv
  have hvoid := seek_stss_void mem (compile_maxs mem stbl) (seek_stts mem (compile_maxs mem stbl) seek).1 hv'
  rw [hvoid.2]
  rw [decode_time_next mem _ _ _ _ _ hat]
  split
  · rename_i hlt
    exact le_of_lt (hin hlt)
  · rename_i hlt
    have hidx : (seek_stts mem (compile_maxs mem stbl) seek).1.stts.index =
        (compile_maxs mem stbl).stts.count := by
      rcases hat.2.2 with ⟨h, _⟩ | ⟨h, _⟩
      · exact absurd h hlt
      · exact h
    exact le_of_eq (hout hidx)

/-- C4 counterexample: on the video track of `sample_file` (ten samples of
duration 1, sync samples 1 and 6) a seek to time 3, which is below `max_time`,
returns sample 0 with time 0; the decode time of the following sample is 1,
which is below the requested time. -/
theorem compile_seek_time_bounds_counterexample :
    (seek_request 3).time ≤ (compile_maxs sample_tables.1 sample_tables.2).max_time ∧
    (compile_seek sample_tables.1 (compile_maxs sample_tables.1 sample_tables.2)
      (seek_request 3)).stsz.index = 0 ∧
    ¬ ((compile_seek sample_tables.1 (compile_maxs sample_tables.1 sample_tables.2)
          (seek_request 3)).time ≤ (seek_request 3).time ∧
       (seek_request 3).time ≤ decode_time sample_tables.1 sample_tables.2
          ((compile_seek sample_tables.1 (compile_maxs sample_tables.1 sample_tables.2)
            (seek_request 3)).stsz.index + 1)) := by
  decide!

theorem compile_seek_time_bounds_witness :
    ((compile_seek sound_tables.1 (compile_maxs sound_tables.1 sound_tables.2)
        (seek_request 3)).time =
      decode_time sound_tables.1 sound_tables.2
        (compile_seek sound_tables.1 (compile_maxs sound_tables.1 sound_tables.2)
          (seek_request 3)).stsz.index ∧
    (compile_seek sound_tables.1 (compile_maxs sound_tables.1 sound_tables.2)
        (seek_request 3)).time ≤ (seek_request 3).time ∧
    (VOID sound_tables.2.stss.atom = true →
      (seek_request 3).time ≤
        decode_time sound_tables.1 sound_tables.2
          ((compile_seek sound_tables.1 (compile_maxs sound_tables.1 sound_tables.2)
            (seek_request 3)).stsz.index + 1))) ∧
    VOID sound_tables.2.stss.atom = true ∧
    (VOID sample_tables.2.stss.atom = false →
      ∀ i, i < sample_tables.2.stts.count → 0 < stts_count sample_tables.1 sample_tables.2 i) ∧
    VOID sample_tables.2.stss.atom = false :=
  ⟨compile_seek_time_bounds sound_tables.1 sound_tables.2 (seek_request 3)
    (by decide!) (by decide!) (by decide!) (by decide!) (by decide!),
   by decide!, by decide!, by decide!⟩

theorem resize_xxxx_eq (xxxx : stxx_t) (start end_ : tbli_t) (end2 : Option tbli_t) :
    resize_xxxx xxxx start end_ end2 =
      { xxxx with
        count := w32 (sub32 end_.index start.index + keep_last end_ end2)
        data := xxxx.data + w32 (start.index * xxxx.bytes)
        atom := { xxxx.atom with
          size := sub64 xxxx.atom.size (w64 (w32 (start.index * xxxx.bytes) +
            w32 (sub32 (sub32 xxxx.count end_.index) (keep_last end_ end2) * xxxx.bytes)))
          start := w64 (xxxx.atom.start + w32 (start.index * xxxx.bytes))
          end_ := sub64 xxxx.atom.end_
            (w32 (sub32 (sub32 xxxx.count end_.index) (keep_last end_ end2) * xxxx.bytes))
          data := xxxx.atom.data.map (fun q => q + w32 (start.index * xxxx.bytes))
          data_start := w64 (xxxx.atom.data_start + w32 (start.index * xxxx.bytes))
          data_size := w32 (8 + w32 (w32 (sub32 end_.index start.index + keep_last end_ end2) *
            xxxx.bytes))
          data_position := 0 } } := rfl

theorem keep_last_le (e : tbli_t) (e2 : Option tbli_t) : keep_last e e2 ≤ 1 := by
  unfold keep_last; split <;> omega

theorem resize_xxxx_sizes (t : stxx_t) (extra : Nat) (s e : tbli_t) (e2 : Option tbli_t)
    (hext : extra ≤ 4)
    (hsz : t.atom.size = head_size t.atom + 8 + extra + t.count * t.bytes)
    (hb : 0 < t.bytes) (hsmall : t.count * t.bytes + 64 < 2 ^ 32)
    (hse : s.index ≤ e.index) (hec : e.index + keep_last e e2 ≤ t.count) :
    (resize_xxxx t s e e2).atom.size =
      head_size t.atom + 8 + extra + (e.index + keep_last e e2 - s.index) * t.bytes ∧
    (resize_xxxx t s e e2).atom.data_size = 8 + (e.index + keep_last e e2 - s.index) * t.bytes ∧
    (resize_xxxx t s e e2).atom.flags = t.atom.flags ∧
    (e.index + keep_last e e2 - s.index) * t.bytes ≤ t.count * t.bytes := by
  have hx := keep_last_le e e2
  have hcnt : t.count ≤ t.count * t.bytes := Nat.le_mul_of_pos_right _ hb
  rw [resize_xxxx_eq]
  dsimp only
  generalize keep_last e e2 = x at *
  obtain ⟨k, hk⟩ : ∃ k, e.index + x = s.index + k := ⟨e.index + x - s.index, by omega⟩
  obtain ⟨r, hr⟩ : ∃ r, t.count = e.index + x + r := ⟨t.count - (e.index + x), by omega⟩
  have hC : t.count * t.bytes = s.index * t.bytes + k * t.bytes + r * t.bytes := by
    rw [hr, hk]; ring
  have e1 : sub32 (sub32 t.count e.index) x = r := by
    unfold sub32; omega
  have e2' : sub32 e.index s.index + x = k + (if k < x then 2 ^ 32 else 0) := by
    unfold sub32; split <;> omega
  have e3 : w32 (sub32 e.index s.index + x) = k := by
    rw [e2']; unfold w32; split <;> omega
  have e4 : e.index + x - s.index = k := by omega
  rw [e1, e3, e4, hsz, hC]
  generalize s.index * t.bytes = A at *
  generalize k * t.bytes = K at *
  generalize r * t.bytes = R at *
  have hhs : head_size t.atom ≤ 16 := by unfold head_size; split <;> omega
  generalize head_size t.atom = H at *
  refine ⟨?_, ?_, rfl, by omega⟩
  · unfold sub64 w64 w32; omega
  · unfold w32; omega

theorem clip_stsc_prepend_spec (mem : Mem) (stsc : stxx_t) (s : seek_t) (p n c : Nat) :
    (clip_stsc_prepend mem stsc s p n c).2.2.stts = s.stts ∧
    (clip_stsc_prepend mem stsc s p n c).2.2.ctts = s.ctts ∧
    (clip_stsc_prepend mem stsc s p n c).2.2.stss = s.stss ∧
    (clip_stsc_prepend mem stsc s p n c).2.2.stsz = s.stsz ∧
    (clip_stsc_prepend mem stsc s p n c).2.2.stsc = s.stsc ∧
    (clip_stsc_prepend mem stsc s p n c).2.2.coxx.index = s.coxx.index ∧
    (clip_stsc_prepend mem stsc s p n c).2.1.atom.data_size = stsc.atom.data_size ∧
    (clip_stsc_prepend mem stsc s p n c).2.1.atom.flags = stsc.atom.flags ∧
    (stsc.atom.size + 24 < 2 ^ 64 →
      (clip_stsc_prepend mem stsc s p n c).2.1.atom.size =
        stsc.atom.size + entry_bytes (clip_stsc_prepend mem stsc s p n c).2.2.coxx.offset) := by
  obtain ⟨⟨a1, a2, a3, a4, a5, a6, a7, a8, a9⟩, b1, b2, b3, b4, b5, b6⟩ := stsc
  unfold clip_stsc_prepend
  split_ifs <;> dsimp only <;>
    refine ⟨rfl, rfl, rfl, rfl, rfl, rfl, rfl, rfl, ?_⟩ <;> intro h
  · simp only [entry_bytes, w64, ne_eq, one_ne_zero, not_false_eq_true, if_true]
    omega
  · simp only [entry_bytes, sub64, w64, ne_eq, not_true_eq_false, if_false]
    omega
  · rename_i h1
    have h0 : s.coxx.offset = 0 := by omega
    simp only [entry_bytes, h0, ne_eq, not_true_eq_false, if_false]
    omega
theorem clip_stsc_append_spec (mem : Mem) (k : Nat) (stsc : stxx_t) (p : Nat) (e : seek_t) :
    (clip_stsc_append mem k stsc p e).2.stts = e.stts ∧
    (clip_stsc_append mem k stsc p e).2.ctts = e.ctts ∧
    (clip_stsc_append mem k stsc p e).2.stss = e.stss ∧
    (clip_stsc_append mem k stsc p e).2.stsz = e.stsz ∧
    (clip_stsc_append mem k stsc p e).2.stsc = e.stsc ∧
    (clip_stsc_append mem k stsc p e).2.coxx.index = e.coxx.index ∧
    (clip_stsc_append mem k stsc p e).1.atom.data_size = stsc.atom.data_size ∧
    (clip_stsc_append mem k stsc p e).1.atom.flags = stsc.atom.flags ∧
    (0 < (clip_stsc_append mem k stsc p e).2.coxx.offset ↔ 0 < e.coxx.offset) ∧
    (stsc.atom.size + 12 < 2 ^ 64 →
      (clip_stsc_append mem k stsc p e).1.atom.size =
        stsc.atom.size + entry_bytes (clip_stsc_append mem k stsc p e).2.coxx.offset) := by
  obtain ⟨⟨a1, a2, a3, a4, a5, a6, a7, a8, a9⟩, b1, b2, b3, b4, b5, b6⟩ := stsc
  unfold clip_stsc_append
  split_ifs <;> dsimp only <;>
    refine ⟨rfl, rfl, rfl, rfl, rfl, rfl, rfl, rfl, ?_, ?_⟩
  · omega
  · intro h
    simp only [entry_bytes, w64, ne_eq, one_ne_zero, not_false_eq_true, if_true]
    omega
  · exact Iff.rfl
  · intro h
    rename_i h1
    have h0 : e.coxx.offset = 0 := by omega
    simp only [entry_bytes, h0, ne_eq, not_true_eq_false, if_false]
    omega

theorem clip_stsc_keeps (mem : Mem) (stbl : stbl_t) (s e : seek_t) :
    (clip_stsc mem stbl s e).2.1.stts = stbl.stts ∧
    (clip_stsc mem stbl s e).2.1.ctts = stbl.ctts ∧
    (clip_stsc mem stbl s e).2.1.stss = stbl.stss ∧
    (clip_stsc mem stbl s e).2.1.stsz = stbl.stsz ∧
    (clip_stsc mem stbl s e).2.1.coxx = stbl.coxx ∧
    (clip_stsc mem stbl s e).2.1.stsd = stbl.stsd ∧
    (clip_stsc mem stbl s e).2.1.atom = stbl.atom ∧
    (clip_stsc mem stbl s e).2.2.1.stts = s.stts ∧
    (clip_stsc mem stbl s e).2.2.1.ctts = s.ctts ∧
    (clip_stsc mem stbl s e).2.2.1.stss = s.stss ∧
    (clip_stsc mem stbl s e).2.2.1.stsz = s.stsz ∧
    (clip_stsc mem stbl s e).2.2.1.stsc = s.stsc ∧
    (clip_stsc mem stbl s e).2.2.1.coxx.index = s.coxx.index ∧
    (clip_stsc mem stbl s e).2.2.2.stts = e.stts ∧
    (clip_stsc mem stbl s e).2.2.2.ctts = e.ctts ∧
    (clip_stsc mem stbl s e).2.2.2.stss = e.stss ∧
    (clip_stsc mem stbl s e).2.2.2.stsz = e.stsz ∧
    (clip_stsc mem stbl s e).2.2.2.stsc = e.stsc ∧
    (clip_stsc mem stbl s e).2.2.2.coxx.index = e.coxx.index ∧
    (0 < (clip_stsc mem stbl s e).2.2.2.coxx.offset ↔ 0 < e.coxx.offset) := by
  unfold clip_stsc
  split
  · simp
  · dsimp only
    obtain ⟨p1, p2, p3, p4, p5, p6, -⟩ := clip_stsc_prepend_spec
      (write_xx mem stbl.coxx.data s.offset (stbl.coxx.bytes <<< 3)) stbl.stsc s stbl.stsc.data
      (sub32 (if stbl.stsc.count = 1 then w32 stbl.max_chunks
          else sub32 (read_32 (write_xx mem stbl.coxx.data s.offset (stbl.coxx.bytes <<< 3))
            (stbl.stsc.data + 12)) 1)
        (w32 (sub32 (read_32 (write_xx mem stbl.coxx.data s.offset (stbl.coxx.bytes <<< 3))
          stbl.stsc.data) 1 + s.stsc.offset)))
      (read_32 (write_xx mem stbl.coxx.data s.offset (stbl.coxx.bytes <<< 3))
        (stbl.stsc.data + 4))
    refine ⟨rfl, rfl, rfl, rfl, rfl, rfl, rfl, p1, p2, p3, p4, p5, p6, ?_⟩
    obtain ⟨q1, q2, q3, q4, q5, q6, -, -, q7, -⟩ := clip_stsc_append_spec
      (clip_stsc_remaining _ stbl.stsc.count (stbl.stsc.data + 12) _ _ e).1 stbl.coxx.count
      (clip_stsc_prepend _ stbl.stsc s stbl.stsc.data _ _).2.1
      (clip_stsc_remaining _ stbl.stsc.count (stbl.stsc.data + 12) _ _ e).2 e
    exact ⟨q1, q2, q3, q4, q5, q6, q7⟩

theorem clip_stsc_size (mem : Mem) (stbl : stbl_t) (s e : seek_t)
    (hv : VOID stbl.stsc.atom = false) (hsz : stbl.stsc.atom.size + 24 < 2 ^ 64) :
    (clip_stsc mem stbl s e).2.1.stsc.atom.size =
      stbl.stsc.atom.size + entry_bytes (clip_stsc mem stbl s e).2.2.1.coxx.offset +
        entry_bytes (clip_stsc mem stbl s e).2.2.2.coxx.offset ∧
    (clip_stsc mem stbl s e).2.1.stsc.atom.data_size = stbl.stsc.atom.data_size ∧
    (clip_stsc mem stbl s e).2.1.stsc.atom.flags = stbl.stsc.atom.flags := by
  unfold clip_stsc
  rw [if_neg (by simp [hv])]
  dsimp only
  generalize write_xx mem stbl.coxx.data s.offset (stbl.coxx.bytes <<< 3) = mem1
  generalize sub32 (if stbl.stsc.count = 1 then w32 stbl.max_chunks
      else sub32 (read_32 mem1 (stbl.stsc.data + 12)) 1)
    (w32 (sub32 (read_32 mem1 stbl.stsc.data) 1 + s.stsc.offset)) = n
  generalize read_32 mem1 (stbl.stsc.data + 4) = c
  obtain ⟨-, -, -, -, -, -, p7, p8, p9⟩ := clip_stsc_prepend_spec mem1 stbl.stsc s stbl.stsc.data n c
  have p9 := p9 hsz
  generalize clip_stsc_prepend mem1 stbl.stsc s stbl.stsc.data n c = r at *
  generalize clip_stsc_remaining r.1 stbl.stsc.count (stbl.stsc.data + 12) (w32 (n + 1)) r.2.2 e = q
  obtain ⟨-, -, -, -, -, -, q8, q9, -, q10⟩ := clip_stsc_append_spec q.1 stbl.coxx.count r.2.1 q.2 e
  have hb : entry_bytes r.2.2.coxx.offset ≤ 12 := by unfold entry_bytes; split <;> omega
  have q10 := q10 (by omega)
  rw [q10, q8, q9, p9, p7, p8]
  exact ⟨rfl, rfl, rfl⟩

theorem iovs_bytes_push (i : iovs_t) (b : iov_base) (n : Nat) :
    iovs_bytes (iovs_push i b n) = iovs_bytes i + n := by
  unfold iovs_bytes iovs_push
  simp

theorem iovs_bytes_head (i : iovs_t) (s : atom_t) :
    iovs_bytes (iovs_head i s) = iovs_bytes i + head_bytes s := by
  unfold iovs_head head_bytes
  cases hv : VOID s
  · simp only [Bool.false_eq_true, if_false]
    show iovs_bytes (iovs_push _ _ _) = _
    rw [iovs_bytes_push]
    rfl
  · simp

theorem iovs_bytes_full (i : iovs_t) (s : atom_t) (base : Nat → iov_base) :
    iovs_bytes (iovs_full i s base) = iovs_bytes i + box_bytes s := by
  unfold iovs_full box_bytes
  cases hv : VOID s
  · simp only [Bool.false_eq_true, if_false]
    rw [iovs_bytes_push, iovs_bytes_head]
    unfold head_bytes
    rw [hv]
    simp only [Bool.false_eq_true, if_false]
    omega
  · simp

theorem iovs_bytes_stsc (i : iovs_t) (s : stxx_t) (start end_ : seek_t) (track : Nat) :
    iovs_bytes (iovs_stsc i s start end_ track).1 =
      iovs_bytes i + (if VOID s.atom then 0 else
        8 + entry_bytes start.coxx.offset + sub64 s.atom.data_size 8 +
          entry_bytes end_.coxx.offset) := by
  unfold iovs_stsc entry_bytes
  cases hv : VOID s.atom
  · simp only [Bool.false_eq_true, if_false]
    split_ifs <;> simp only [iovs_bytes_push] <;> omega
  · simp

theorem head_size_pos (a : atom_t) : 8 ≤ head_size a ∧ head_size a ≤ 16 := by
  unfold head_size; split <;> omega

theorem compile_xxxx_ok (mem : Mem) (t : stxx_t) (s e : tbli_t)
    (h : VOID t.atom = false → table_ok t 0 s.index e.index (keep_last e none)) :
    leaf_ok (compile_xxxx mem t s e none).1.atom ∧
    VOID (compile_xxxx mem t s e none).1.atom = VOID t.atom := by
  unfold compile_xxxx
  cases hv : VOID t.atom
  · obtain ⟨h1, h2, h3, h4, h5⟩ := h hv
    simp only [Bool.false_eq_true, if_false]
    obtain ⟨r1, r2, r3, r4⟩ := resize_xxxx_sizes t 0 s e none (by omega) h1 h2 h3 h4 h5
    have hh := head_size_pos t.atom
    have ehs : head_size (resize_xxxx t s e none).atom = head_size t.atom := by
      unfold head_size Q_EX; rw [r3]
    have hnv : VOID (resize_xxxx t s e none).atom = false := by
      unfold VOID; rw [r1]; simp
    refine ⟨?_, hnv⟩
    intro _
    rw [ehs, r1, r2]
    omega
  · simp only [if_true]
    refine ⟨?_, hv⟩
    intro h'
    rw [hv] at h'
    exact absurd h' (by decide)

theorem compile_stsz_ok (mem : Mem) (t : stxx_t) (s e : tbli_t)
    (h : if t.size ≠ 0 then leaf_ok t.atom
         else table_ok t 4 s.index e.index (keep_last e none)) :
    leaf_ok (compile_stsz mem t s e none).1.atom := by
  unfold compile_stsz
  by_cases hz : t.size ≠ 0
  · rw [if_pos hz] at h
    rw [if_pos hz]
    exact h
  · rw [if_neg hz] at h
    rw [if_neg hz]
    obtain ⟨h1, h2, h3, h4, h5⟩ := h
    obtain ⟨r1, r2, r3, r4⟩ := resize_xxxx_sizes t 4 s e none (by omega) h1 h2 h3 h4 h5
    have hh := head_size_pos t.atom
    intro _
    dsimp only
    have ehs : head_size { (resize_xxxx t s e none).atom with
        data_size := w64 ((resize_xxxx t s e none).atom.data_size + 4) } = head_size t.atom := by
      unfold head_size Q_EX; dsimp only; rw [r3]
    rw [ehs, r1, r2]
    unfold w64
    omega

theorem keep_last_congr (e e' : tbli_t) (e2 : Option tbli_t) (h : e' = e) :
    keep_last e' e2 = keep_last e e2 := by rw [h]

theorem keep_last_coxx (e e' c c' : tbli_t) (h : e' = e) (hc : 0 < c'.offset ↔ 0 < c.offset) :
    keep_last e' (some c') = keep_last e (some c) := by
  subst h
  unfold keep_last
  simp only [gt_iff_lt, hc]

theorem keep_last_none (c c' : tbli_t) (hc : 0 < c'.offset ↔ 0 < c.offset) :
    keep_last c' none = keep_last c none := by
  unfold keep_last
  simp only [gt_iff_lt, hc]

theorem compile_trak_stbl_ok (mem : Mem) (stbl : stbl_t) (S E : seek_t)
    (R : Mem × stbl_t × seek_t × seek_t) (hR : compile_trak_stbl mem stbl S E = R)
    (h : stbl_ok stbl R.2.2.1 R.2.2.2) :
    R.2.1.atom = stbl.atom ∧
    leaf_ok R.2.1.stsd.atom ∧ leaf_ok R.2.1.stts.atom ∧ leaf_ok R.2.1.ctts.atom ∧
    leaf_ok R.2.1.stss.atom ∧ leaf_ok R.2.1.stsz.atom ∧ leaf_ok R.2.1.coxx.atom ∧
    stsc_ok R.2.1.stsc R.2.2.1 R.2.2.2 := by
  obtain ⟨m1, m2, m3, m4, m5, hc⟩ : ∃ m1 m2 m3 m4 m5,
      compile_trak_stbl mem stbl S E = clip_stsc m5
        { stbl with
          stts := (compile_xxxx mem stbl.stts S.stts E.stts none).1
          ctts := (compile_xxxx m1 stbl.ctts S.ctts E.ctts none).1
          stss := (compile_xxxx m2 stbl.stss S.stss E.stss none).1
          stsz := (compile_stsz m3 stbl.stsz S.stsz E.stsz none).1
          coxx := (compile_xxxx m4 stbl.coxx S.coxx E.coxx none).1
          stsc := resize_xxxx stbl.stsc S.stsc E.stsc (some E.coxx) } S E :=
    ⟨_, _, _, _, _, rfl⟩
  rw [hc] at hR
  obtain ⟨k1, k2, k3, k4, k5, k6, k7, s1, s2, s3, s4, s5, s6, e1, e2, e3, e4, e5, e6, e7⟩ :=
    clip_stsc_keeps m5
        { stbl with
          stts := (compile_xxxx mem stbl.stts S.stts E.stts none).1
          ctts := (compile_xxxx m1 stbl.ctts S.ctts E.ctts none).1
          stss := (compile_xxxx m2 stbl.stss S.stss E.stss none).1
          stsz := (compile_stsz m3 stbl.stsz S.stsz E.stsz none).1
          coxx := (compile_xxxx m4 stbl.coxx S.coxx E.coxx none).1
          stsc := resize_xxxx stbl.stsc S.stsc E.stsc (some E.coxx) } S E
  obtain ⟨hsd, htt, hct, hss, hsz, hco, hsc⟩ := h
  rw [hR] at k1 k2 k3 k4 k5 k6 k7 s1 s2 s3 s4 s5 s6 e1 e2 e3 e4 e5 e6 e7
  rw [s1, e1] at htt
  rw [s2, e2] at hct
  rw [s3, e3] at hss
  rw [s4, e4] at hsz
  rw [s6, e6, keep_last_none _ _ e7] at hco
  rw [s5, e5, keep_last_coxx E.stsc E.stsc _ _ rfl e7] at hsc
  have ctt := compile_xxxx_ok mem stbl.stts S.stts E.stts htt
  have cct := compile_xxxx_ok m1 stbl.ctts S.ctts E.ctts hct
  have css := compile_xxxx_ok m2 stbl.stss S.stss E.stss hss
  have csz := compile_stsz_ok m3 stbl.stsz S.stsz E.stsz hsz
  have cco := compile_xxxx_ok m4 stbl.coxx S.coxx E.coxx hco
  obtain ⟨h1, h2, h3, h4, h5⟩ := hsc
  obtain ⟨r1, r2, r3, r4⟩ := resize_xxxx_sizes stbl.stsc 0 S.stsc E.stsc (some E.coxx)
    (by omega) h1 h2 h3 h4 h5
  have hh := head_size_pos stbl.stsc.atom
  have hnv : VOID (resize_xxxx stbl.stsc S.stsc E.stsc (some E.coxx)).atom = false := by
    unfold VOID; rw [r1]; simp
  obtain ⟨z1, z2, z3⟩ := clip_stsc_size m5
        { stbl with
          stts := (compile_xxxx mem stbl.stts S.stts E.stts none).1
          ctts := (compile_xxxx m1 stbl.ctts S.ctts E.ctts none).1
          stss := (compile_xxxx m2 stbl.stss S.stss E.stss none).1
          stsz := (compile_stsz m3 stbl.stsz S.stsz E.stsz none).1
          coxx := (compile_xxxx m4 stbl.coxx S.coxx E.coxx none).1
          stsc := resize_xxxx stbl.stsc S.stsc E.stsc (some E.coxx) } S E hnv
        (by show (resize_xxxx stbl.stsc S.stsc E.stsc (some E.coxx)).atom.size + 24 < 2 ^ 64
            rw [r1]; omega)
  rw [hR] at z1 z2 z3
  have z1' : R.2.1.stsc.atom.size = (resize_xxxx stbl.stsc S.stsc E.stsc (some E.coxx)).atom.size +
      entry_bytes R.2.2.1.coxx.offset + entry_bytes R.2.2.2.coxx.offset := z1
  have z2' : R.2.1.stsc.atom.data_size =
      (resize_xxxx stbl.stsc S.stsc E.stsc (some E.coxx)).atom.data_size := z2
  have z3' : R.2.1.stsc.atom.flags =
      (resize_xxxx stbl.stsc S.stsc E.stsc (some E.coxx)).atom.flags := z3
  have hb1 : entry_bytes R.2.2.1.coxx.offset ≤ 12 := by unfold entry_bytes; split <;> omega
  have hb2 : entry_bytes R.2.2.2.coxx.offset ≤ 12 := by unfold entry_bytes; split <;> omega
  have ehs : head_size R.2.1.stsc.atom = head_size stbl.stsc.atom := by
    unfold head_size Q_EX; rw [z3', r3]
  refine ⟨k7, ?_, ?_, ?_, ?_, ?_, ?_, ?_⟩
  · rw [k6]; exact hsd
  · rw [k1]; exact ctt.1
  · rw [k2]; exact cct.1
  · rw [k3]; exact css.1
  · rw [k4]; exact csz
  · rw [k5]; exact cco.1
  · refine ⟨?_, ?_, ?_, ?_⟩
    · unfold VOID; rw [z1', r1]; simp
    · rw [ehs, z1', z2', r1, r2]; omega
    · rw [z2', r2]; omega
    · rw [z1', r1]; omega

theorem compile_trak_resize_spec (tr : trak_t) (mdhd tkhd : xxhd_t) (stbl : stbl_t)
    (start end_ : seek_t) (T : trak_t)
    (hT : compile_trak_resize tr mdhd tkhd stbl start end_ = T) :
    T.start = start ∧ T.end_ = end_ ∧ T.tkhd = tkhd ∧ T.mdia.mdhd = mdhd ∧
    T.mdia.hdlr = tr.mdia.hdlr ∧ T.mdia.minf.xmhd = tr.mdia.minf.xmhd ∧
    T.mdia.minf.stbl.stsd = stbl.stsd ∧ T.mdia.minf.stbl.stts = stbl.stts ∧
    T.mdia.minf.stbl.ctts = stbl.ctts ∧ T.mdia.minf.stbl.stss = stbl.stss ∧
    T.mdia.minf.stbl.stsz = stbl.stsz ∧ T.mdia.minf.stbl.stsc = stbl.stsc ∧
    T.mdia.minf.stbl.coxx = stbl.coxx ∧ containers_ok T := by
  subst hT
  obtain ⟨ta, ttk, ⟨ma, mmd, mh, ⟨ia, ix, is_⟩⟩, ts, te⟩ := tr
  obtain ⟨sa, s1, s2, s3, s4, sd, stt, sct, sss, ssc, ssz, sco⟩ := stbl
  refine ⟨rfl, rfl, rfl, rfl, rfl, rfl, rfl, rfl, rfl, rfl, rfl, rfl, rfl, ?_⟩
  exact ⟨rfl, rfl, rfl, rfl, rfl, rfl, rfl, rfl⟩

theorem iovs_bytes_trak (i : iovs_t) (T : trak_t) (track : Nat) :
    iovs_bytes (iovs_trak i T track).1 = iovs_bytes i + (if VOID T.atom then 0 else
      head_bytes T.atom + box_bytes T.tkhd.atom + head_bytes T.mdia.atom +
      box_bytes T.mdia.mdhd.atom + box_bytes T.mdia.hdlr.atom + head_bytes T.mdia.minf.atom +
      box_bytes T.mdia.minf.xmhd.atom + head_bytes T.mdia.minf.stbl.atom +
      box_bytes T.mdia.minf.stbl.stsd.atom + box_bytes T.mdia.minf.stbl.stts.atom +
      box_bytes T.mdia.minf.stbl.stss.atom + head_bytes T.mdia.minf.stbl.stsc.atom +
      (if VOID T.mdia.minf.stbl.stsc.atom then 0 else
        8 + entry_bytes T.start.coxx.offset + sub64 T.mdia.minf.stbl.stsc.atom.data_size 8 +
          entry_bytes T.end_.coxx.offset) +
      box_bytes T.mdia.minf.stbl.ctts.atom + box_bytes T.mdia.minf.stbl.stsz.atom +
      box_bytes T.mdia.minf.stbl.coxx.atom) := by
  unfold iovs_trak
  cases hv : VOID T.atom
  · simp only [Bool.false_eq_true, if_false, iovs_bytes_full, iovs_bytes_stsc, iovs_bytes_head]
    omega
  · simp

theorem box_bytes_eq (a : atom_t) (h : leaf_ok a) : box_bytes a = a.size ∧ a.size < 2 ^ 32 := by
  unfold box_bytes
  cases hv : VOID a
  · obtain ⟨h1, h2⟩ := h hv
    simp only [Bool.false_eq_true, if_false]
    omega
  · have : a.size = 0 := by
      unfold VOID at hv
      simpa using hv
    simp only [if_true]
    omega

theorem head_bytes_eq (a : atom_t) (h : 0 < a.size) : head_bytes a = head_size a := by
  unfold head_bytes VOID
  have : (a.size == 0) = false := by simp; omega
  rw [this]
  simp

theorem compile_trak_eq (stream : stream_t) (mvhd_scale : Nat) (mem : Mem) (trak : trak_t)
    (hv : VOID trak.atom = false) :
    ∃ (m : Mem) (S E : seek_t) (d1 d2 : Nat),
      (compile_trak stream mvhd_scale mem trak).2.2 =
        compile_trak_resize trak { trak.mdia.mdhd with duration := d1 }
          { trak.tkhd with duration := d2 }
          (compile_trak_stbl m trak.mdia.minf.stbl S E).2.1
          (compile_trak_stbl m trak.mdia.minf.stbl S E).2.2.1
          (compile_trak_stbl m trak.mdia.minf.stbl S E).2.2.2 := by
  unfold compile_trak
  rw [if_neg (by simp [hv])]
  exact ⟨_, _, _, _, _, rfl⟩

theorem compile_trak_gather (stream : stream_t) (mvhd_scale : Nat) (mem : Mem) (trak : trak_t)
    (T : trak_t) (hT : (compile_trak stream mvhd_scale mem trak).2.2 = T)
    (hv : VOID trak.atom = false)
    (h1 : leaf_ok trak.tkhd.atom) (h2 : leaf_ok trak.mdia.mdhd.atom)
    (h3 : leaf_ok trak.mdia.hdlr.atom) (h4 : leaf_ok trak.mdia.minf.xmhd.atom)
    (hs : stbl_ok trak.mdia.minf.stbl T.start T.end_) :
    containers_ok T ∧ VOID T.atom = false ∧ T.atom.size < 2 ^ 40 ∧
    ∀ i track, iovs_bytes (iovs_trak i T track).1 = iovs_bytes i + T.atom.size := by
  obtain ⟨m, S, E, d1, d2, he⟩ := compile_trak_eq stream mvhd_scale mem trak hv
  rw [he] at hT
  generalize hR : compile_trak_stbl m trak.mdia.minf.stbl S E = R at hT
  obtain ⟨t1, t2, t3, t4, t5, t6, c1, c2, c3, c4, c5, c6, c7, hc⟩ :=
    compile_trak_resize_spec _ _ _ _ _ _ T hT
  rw [t1, t2] at hs
  obtain ⟨-, l1, l2, l3, l4, l5, l6, l7⟩ := compile_trak_stbl_ok m _ S E R hR hs
  rw [← c1] at l1
  rw [← c2] at l2
  rw [← c3] at l3
  rw [← c4] at l4
  rw [← c5] at l5
  rw [← c7] at l6
  rw [← c6, ← t1, ← t2] at l7
  have h1' : leaf_ok T.tkhd.atom := by rw [t3]; exact h1
  have h2' : leaf_ok T.mdia.mdhd.atom := by rw [t4]; exact h2
  have h3' : leaf_ok T.mdia.hdlr.atom := by rw [t5]; exact h3
  have h4' : leaf_ok T.mdia.minf.xmhd.atom := by rw [t6]; exact h4
  obtain ⟨b1, n1⟩ := box_bytes_eq _ h1'
  obtain ⟨b2, n2⟩ := box_bytes_eq _ h2'
  obtain ⟨b3, n3⟩ := box_bytes_eq _ h3'
  obtain ⟨b4, n4⟩ := box_bytes_eq _ h4'
  obtain ⟨b5, n5⟩ := box_bytes_eq _ l1
  obtain ⟨b6, n6⟩ := box_bytes_eq _ l2
  obtain ⟨b7, n7⟩ := box_bytes_eq _ l3
  obtain ⟨b8, n8⟩ := box_bytes_eq _ l4
  obtain ⟨b9, n9⟩ := box_bytes_eq _ l5
  obtain ⟨b10, n10⟩ := box_bytes_eq _ l6
  obtain ⟨v1, v2, v3, v4⟩ := l7
  have hc0 := hc
  obtain ⟨k1, k2, k3, k4, k5, k6, k7, k8⟩ := hc
  have g1 := head_size_pos T.atom
  have g2 := head_size_pos T.mdia.atom
  have g3 := head_size_pos T.mdia.minf.atom
  have g4 := head_size_pos T.mdia.minf.stbl.atom
  have g5 := head_size_pos T.mdia.minf.stbl.stsc.atom
  have w : ∀ x, x < 2 ^ 64 → w64 x = x := fun x hx => by unfold w64; omega
  rw [w _ (by omega)] at k1
  rw [w _ (by omega)] at k2
  rw [w _ (by omega)] at k3
  rw [w _ (by omega)] at k4
  rw [w _ (by omega)] at k5
  rw [w _ (by omega)] at k6
  rw [w _ (by omega)] at k7
  rw [w _ (by omega)] at k8
  have p4 : 0 < T.mdia.minf.stbl.atom.size := by omega
  have p3 : 0 < T.mdia.minf.atom.size := by omega
  have p2 : 0 < T.mdia.atom.size := by omega
  have p1 : 0 < T.atom.size := by omega
  have p5 : 0 < T.mdia.minf.stbl.stsc.atom.size := by omega
  have hvT : VOID T.atom = false := by
    unfold VOID; simp; omega
  have e8 : sub64 T.mdia.minf.stbl.stsc.atom.data_size 8 =
      T.mdia.minf.stbl.stsc.atom.data_size - 8 := by
    unfold sub64; omega
  refine ⟨?_, hvT, by omega, ?_⟩
  · exact hc0
  · intro i track
    rw [iovs_bytes_trak, hvT, v1]
    simp only [Bool.false_eq_true, if_false]
    rw [head_bytes_eq _ p1, head_bytes_eq _ p2, head_bytes_eq _ p3, head_bytes_eq _ p4,
      head_bytes_eq _ p5, b1, b2, b3, b4, b5, b6, b7, b8, b9, b10, e8]
    omega

theorem prepare_maxs_spec (mem : Mem) (file G : file_t) (hG : prepare_maxs mem file = G) :
    G.ftyp = file.ftyp ∧ G.mdat = file.mdat ∧ G.moov.atom = file.moov.atom ∧
    G.moov.mvhd = file.moov.mvhd ∧
    (∀ T, trak_ok file.moov.vtrak T → trak_ok G.moov.vtrak T) ∧
    (∀ T, trak_ok file.moov.strak T → trak_ok G.moov.strak T) ∧
    G.moov.vtrak.atom = file.moov.vtrak.atom ∧ G.moov.strak.atom = file.moov.strak.atom := by
  subst hG
  obtain ⟨ft, ⟨ma, mv, ⟨va, vt, ⟨vma, vmd, vh, ⟨via, vix, vs⟩⟩, vst, ven⟩,
    ⟨sa, st, ⟨sma, smd, sh, ⟨sia, six, ss⟩⟩, sst, sen⟩⟩, md⟩ := file
  unfold prepare_maxs
  dsimp only
  split_ifs <;> exact ⟨rfl, rfl, rfl, rfl, fun _ h => h, fun _ h => h, rfl, rfl⟩

theorem prepare_seek_spec (self : stream_t) (mem : Mem) (G : file_t)
    (P : stream_t × Mem × file_t) (hP : prepare_seek self mem G = P) :
    ∃ (s0 s1 : stream_t) (sc : Nat) (m1 : Mem),
      P.2.2.ftyp = G.ftyp ∧
      P.2.2.moov.vtrak = (compile_trak s0 sc mem G.moov.vtrak).2.2 ∧
      P.2.2.moov.strak = (compile_trak s1 sc m1 G.moov.strak).2.2 ∧
      P.2.2.moov.mvhd.atom = G.moov.mvhd.atom ∧
      P.2.2.moov.atom.data_size = w64 (P.2.2.moov.mvhd.atom.size +
        P.2.2.moov.vtrak.atom.size + P.2.2.moov.strak.atom.size) ∧
      P.2.2.moov.atom.size = w64 (P.2.2.moov.atom.data_size + head_size P.2.2.moov.atom) := by
  subst hP
  obtain ⟨ft, ⟨ma, ⟨mva, mv1, mv2, mv3, mv4⟩, v, s⟩, md⟩ := G
  exact ⟨_, _, _, _, rfl, rfl, rfl, rfl, rfl, rfl⟩

theorem compile_trak_void (stream : stream_t) (mvhd_scale : Nat) (mem : Mem) (trak : trak_t)
    (hv : VOID trak.atom = true) : (compile_trak stream mvhd_scale mem trak).2.2 = trak := by
  unfold compile_trak
  rw [if_pos hv]

theorem compile_trak_sizes (stream : stream_t) (mvhd_scale : Nat) (mem : Mem) (trak : trak_t)
    (T : trak_t) (hT : (compile_trak stream mvhd_scale mem trak).2.2 = T)
    (h : trak_ok trak T) :
    (VOID T.atom = false → containers_ok T) ∧ T.atom.size < 2 ^ 40 ∧
    ∀ i track, iovs_bytes (iovs_trak i T track).1 = iovs_bytes i + T.atom.size := by
  cases hv : VOID trak.atom
  · obtain ⟨h1, h2, h3, h4, h5⟩ := h hv
    obtain ⟨c1, c2, c3, c4⟩ := compile_trak_gather stream mvhd_scale mem trak T hT hv h1 h2 h3 h4 h5
    exact ⟨fun _ => c1, c3, c4⟩
  · rw [compile_trak_void _ _ _ _ hv] at hT
    subst hT
    have h0 : trak.atom.size = 0 := by
      unfold VOID at hv
      simpa using hv
    refine ⟨?_, by omega, ?_⟩
    · intro h'
      rw [hv] at h'
      exact absurd h' (by decide)
    · intro i track
      rw [iovs_bytes_trak, hv, h0]
      rfl

theorem iovs_bytes_empty : iovs_bytes {} = 0 := rfl

/-- C6 (amended). After `compile_trak`, `compile_moov` and `compile_mdat`,
every emitted container (`stbl`, `minf`, `mdia`, `trak`, `moov`) has
`data_size` equal to the sum (modulo 2^64) of the sizes of the children that
`compile_head` emits into it and `size = data_size + head size` (16 with the
extended-size flag, else 8). When moreover the boxes emitted as parsed have
`size = data_size + head size`, every source table box is exactly its head,
its 8 (for `stsz` 12) leading bytes and `count` entries, and for each table the
start entry is not after the end entry and the end entry (plus `1` when it is
kept) is inside the table, the bytes that `compile_head` gathers for each
track equal the size of its `trak` box, and the bytes gathered in total equal
the size of `ftyp` plus the size of `moov` plus the `mdat` head. -/
theorem prepare_box_sizes (self : stream_t) (mem : Mem) (file : file_t)
    (hf : leaf_ok file.ftyp.atom) (hm : leaf_ok file.moov.mvhd.atom)
    (hv : trak_ok file.moov.vtrak (prepare self mem file).2.2.moov.vtrak)
    (hs : trak_ok file.moov.strak (prepare self mem file).2.2.moov.strak) :
    (VOID (prepare self mem file).2.2.moov.vtrak.atom = false →
      containers_ok (prepare self mem file).2.2.moov.vtrak) ∧
    (VOID (prepare self mem file).2.2.moov.strak.atom = false →
      containers_ok (prepare self mem file).2.2.moov.strak) ∧
    (prepare self mem file).2.2.moov.atom.data_size =
      w64 ((prepare self mem file).2.2.moov.mvhd.atom.size +
        (prepare self mem file).2.2.moov.vtrak.atom.size +
        (prepare self mem file).2.2.moov.strak.atom.size) ∧
    (prepare self mem file).2.2.moov.atom.size =
      w64 ((prepare self mem file).2.2.moov.atom.data_size +
        head_size (prepare self mem file).2.2.moov.atom) ∧
    (∀ i track, iovs_bytes (iovs_trak i (prepare self mem file).2.2.moov.vtrak track).1 =
      iovs_bytes i + (prepare self mem file).2.2.moov.vtrak.atom.size) ∧
    (∀ i track, iovs_bytes (iovs_trak i (prepare self mem file).2.2.moov.strak track).1 =
      iovs_bytes i + (prepare self mem file).2.2.moov.strak.atom.size) ∧
    gather_size (prepare self mem file).2.2 =
      (prepare self mem file).2.2.ftyp.atom.size + (prepare self mem file).2.2.moov.atom.size +
        head_bytes (prepare self mem file).2.2.mdat.atom := by
  have hp : prepare self mem file = prepare_seek
      (prepare_limits self mem (prepare_maxs mem file)) mem (prepare_maxs mem file) := rfl
  rw [hp] at hv hs ⊢
  generalize hG : prepare_maxs mem file = G at *
  obtain ⟨g1, g2, g3, g4, g5, g6, g7, g8⟩ := prepare_maxs_spec mem file G hG
  generalize prepare_limits self mem G = self1 at *
  generalize hP : prepare_seek self1 mem G = P at *
  obtain ⟨s0, s1, sc, m1, q1, q2, q3, q4, q5, q6⟩ := prepare_seek_spec self1 mem G P hP
  obtain ⟨v1, v2, v3⟩ := compile_trak_sizes s0 sc mem G.moov.vtrak _ q2.symm (g5 _ hv)
  obtain ⟨t1, t2, t3⟩ := compile_trak_sizes s1 sc m1 G.moov.strak _ q3.symm (g6 _ hs)
  refine ⟨v1, t1, q5, q6, v3, t3, ?_⟩
  have hf' : leaf_ok P.2.2.ftyp.atom := by rw [q1, g1]; exact hf
  have hm' : leaf_ok P.2.2.moov.mvhd.atom := by rw [q4, g4]; exact hm
  obtain ⟨b1, n1⟩ := box_bytes_eq _ hf'
  obtain ⟨b2, n2⟩ := box_bytes_eq _ hm'
  have g := head_size_pos P.2.2.moov.atom
  have w : ∀ x, x < 2 ^ 64 → w64 x = x := fun x hx => by unfold w64; omega
  rw [w _ (by omega)] at q5
  rw [w _ (by omega)] at q6
  have p1 : 0 < P.2.2.moov.atom.size := by omega
  unfold gather_size compile_head_gather
  dsimp only
  have e : ∀ i : iovs_t, (i.iovs.map iov_t.size).sum = iovs_bytes i := fun _ => rfl
  rw [e, iovs_bytes_head, t3, v3, iovs_bytes_full, iovs_bytes_head, iovs_bytes_full,
    iovs_bytes_empty, b1, b2, head_bytes_eq _ p1]
  omega

/-- C6 counterexample: for a request on `sound_file` whose stop (0.2 s) lies
before its start (0.5 s), the spliced `stsz` box carries size 8 in its header
while `compile_head` gathers 4294967304 bytes for it, and the bytes gathered
in total (4294967761) differ from `ftyp` (20) plus `moov` (437) plus the
`mdat` head (8). -/
theorem prepare_box_sizes_counterexample :
    (prepare (meta_input 20 reversed_stream).1 (meta_input 20 reversed_stream).2.1
      (meta_input 20 reversed_stream).2.2).2.2.moov.strak.mdia.minf.stbl.stsz.atom.size = 8 ∧
    box_bytes (prepare (meta_input 20 reversed_stream).1 (meta_input 20 reversed_stream).2.1
      (meta_input 20 reversed_stream).2.2).2.2.moov.strak.mdia.minf.stbl.stsz.atom = 4294967304 ∧
    (prepare (meta_input 20 reversed_stream).1 (meta_input 20 reversed_stream).2.1
      (meta_input 20 reversed_stream).2.2).2.2.ftyp.atom.size = 20 ∧
    (prepare (meta_input 20 reversed_stream).1 (meta_input 20 reversed_stream).2.1
      (meta_input 20 reversed_stream).2.2).2.2.moov.atom.size = 437 ∧
    head_bytes (prepare (meta_input 20 reversed_stream).1 (meta_input 20 reversed_stream).2.1
      (meta_input 20 reversed_stream).2.2).2.2.mdat.atom = 8 ∧
    gather_size (prepare (meta_input 20 reversed_stream).1 (meta_input 20 reversed_stream).2.1
      (meta_input 20 reversed_stream).2.2).2.2 = 4294967761 := by
  decide!

theorem prepare_box_sizes_witness :
    gather_size (prepare (meta_input 20 sample_stream).1 (meta_input 20 sample_stream).2.1
        (meta_input 20 sample_stream).2.2).2.2 =
      (prepare (meta_input 20 sample_stream).1 (meta_input 20 sample_stream).2.1
        (meta_input 20 sample_stream).2.2).2.2.ftyp.atom.size +
      (prepare (meta_input 20 sample_stream).1 (meta_input 20 sample_stream).2.1
        (meta_input 20 sample_stream).2.2).2.2.moov.atom.size +
      head_bytes (prepare (meta_input 20 sample_stream).1 (meta_input 20 sample_stream).2.1
        (meta_input 20 sample_stream).2.2).2.2.mdat.atom ∧
    VOID (meta_input 20 sample_stream).2.2.moov.vtrak.atom = false :=
  ⟨(prepare_box_sizes (meta_input 20 sample_stream).1 (meta_input 20 sample_stream).2.1
    (meta_input 20 sample_stream).2.2 (by decide!) (by decide!) (by decide!)
    (by decide!)).2.2.2.2.2.2, by decide!⟩

/-! ### Start beyond the duration -/

theorem compile_seek_offset (mem : Mem) (stbl : stbl_t) (s : seek_t) (o : Nat) :
    compile_seek mem stbl { s with offset := o } = compile_seek mem stbl s := by
  obtain ⟨t, o', stts, ctts, stss, stsc, stsz, coxx, en⟩ := s
  unfold compile_seek seek_stsc seek_ctts seek_stss seek_stts
  cases h1 : VOID stbl.stss.atom <;> cases h2 : VOID stbl.ctts.atom <;> rfl

theorem to_uint64_zero_mul (x : ℚ) : to_uint64 (0 * x) = 0 := by
  have h : Rat.floor 0 = 0 := rfl
  simp [to_uint64, w64, h]

theorem compile_trak_seek_beyond (stream : stream_t) (mem : Mem) (trak : trak_t)
    (hse : trak.start = trak.end_) (hstop : stream.stop = 0)
    (hb : (if trak.mdia.mdhd.duration > trak.mdia.minf.stbl.max_time then
        trak.mdia.minf.stbl.max_time else trak.mdia.mdhd.duration) ≤
      to_uint64 (stream.start * (trak.mdia.mdhd.scale : ℚ))) :
    (compile_trak_seek stream mem trak).1 = (compile_trak_seek stream mem trak).2 := by
  unfold compile_trak_seek
  dsimp only
  rw [hstop, to_uint64_zero_mul, hse]
  generalize (if trak.mdia.mdhd.duration > trak.mdia.minf.stbl.max_time then
        trak.mdia.minf.stbl.max_time else trak.mdia.mdhd.duration) = d at *
  have e1 : (if to_uint64 (stream.start * (trak.mdia.mdhd.scale : ℚ)) > d then d
      else to_uint64 (stream.start * (trak.mdia.mdhd.scale : ℚ))) = d := by
    split <;> omega
  rw [e1]
  simp only [true_or, decide_True, if_true]
  exact (compile_seek_offset mem trak.mdia.minf.stbl { trak.end_ with time := d } _).symm

theorem clip_stsc_prepend_times (mem : Mem) (stsc : stxx_t) (s : seek_t) (p n c : Nat) :
    (clip_stsc_prepend mem stsc s p n c).2.2.time = s.time ∧
    (clip_stsc_prepend mem stsc s p n c).2.2.offset = s.offset := by
  obtain ⟨t, o', stts, ctts, stss, stsc', stsz, coxx, en⟩ := s
  unfold clip_stsc_prepend
  split_ifs <;> exact ⟨rfl, rfl⟩

theorem clip_stsc_append_times (mem : Mem) (k : Nat) (stsc : stxx_t) (p : Nat) (e : seek_t) :
    (clip_stsc_append mem k stsc p e).2.time = e.time ∧
    (clip_stsc_append mem k stsc p e).2.offset = e.offset := by
  obtain ⟨t, o', stts, ctts, stss, stsc', stsz, coxx, en⟩ := e
  unfold clip_stsc_append
  split_ifs <;> exact ⟨rfl, rfl⟩

theorem clip_stsc_times (mem : Mem) (stbl : stbl_t) (s e : seek_t) :
    (clip_stsc mem stbl s e).2.2.1.time = s.time ∧
    (clip_stsc mem stbl s e).2.2.1.offset = s.offset ∧
    (clip_stsc mem stbl s e).2.2.2.time = e.time ∧
    (clip_stsc mem stbl s e).2.2.2.offset = e.offset := by
  unfold clip_stsc
  split
  · exact ⟨rfl, rfl, rfl, rfl⟩
  · dsimp only
    exact ⟨(clip_stsc_prepend_times _ _ _ _ _ _).1, (clip_stsc_prepend_times _ _ _ _ _ _).2,
      (clip_stsc_append_times _ _ _ _ _).1, (clip_stsc_append_times _ _ _ _ _).2⟩

theorem compile_trak_seeks (stream : stream_t) (mvhd_scale : Nat) (mem : Mem) (trak : trak_t)
    (hv : VOID trak.atom = false) :
    (compile_trak stream mvhd_scale mem trak).1 =
      compile_trak_offsets stream trak.mdia.mdhd.scale (compile_trak_seek stream mem trak).1
        (compile_trak_seek stream mem trak).2 ∧
    (compile_trak stream mvhd_scale mem trak).2.2.start.time =
      (compile_trak_seek stream mem trak).1.time ∧
    (compile_trak stream mvhd_scale mem trak).2.2.start.offset =
      (compile_trak_seek stream mem trak).1.offset ∧
    (compile_trak stream mvhd_scale mem trak).2.2.end_.time =
      (compile_trak_seek stream mem trak).2.time ∧
    (compile_trak stream mvhd_scale mem trak).2.2.end_.offset =
      (compile_trak_seek stream mem trak).2.offset := by
  unfold compile_trak
  rw [if_neg (by simp [hv])]
  dsimp only
  unfold compile_trak_stbl
  dsimp only
  exact ⟨rfl, (clip_stsc_times _ _ _ _).1, (clip_stsc_times _ _ _ _).2.1,
    (clip_stsc_times _ _ _ _).2.2.1, (clip_stsc_times _ _ _ _).2.2.2⟩

theorem compile_trak_offsets_fresh (stream : stream_t) (scale : Nat) (S E : seek_t)
    (h0 : stream.file_offset = 0) (h1 : stream.file_finish = 0) (hSE : S = E) :
    (compile_trak_offsets stream scale S E).file_offset = S.offset ∧
    (compile_trak_offsets stream scale S E).file_finish = S.offset := by
  subst hSE
  obtain ⟨a1, a2, a3, a4, a5, a6, a7, a8, a9, a10, a11, a12, a13, a14, a15, a16, a17, a18,
    a19, a20, a21, a22, a23, a24, a25, a26, a27, a28, a29, a30, a31, a32, a33⟩ :=
    stream
  simp only at h0 h1
  subst h0 h1
  unfold compile_trak_offsets
  simp

theorem prepare_limits_keeps (self : stream_t) (mem : Mem) (file : file_t)
    (hsp : self.spatial ≠ 1) :
    (prepare_limits self mem file).start = self.start ∧
    (prepare_limits self mem file).stop = self.stop := by
  unfold prepare_limits
  cases h : self.offsets.isNone <;>
    simp [if_neg hsp]

theorem prepare_maxs_tracks (mem : Mem) (file G : file_t) (hG : prepare_maxs mem file = G) :
    G.moov.mvhd = file.moov.mvhd ∧
    (VOID file.moov.vtrak.atom = true → G.moov.vtrak = file.moov.vtrak) ∧
    (VOID file.moov.strak.atom = true → G.moov.strak = file.moov.strak) ∧
    (VOID file.moov.vtrak.atom = false → G.moov.vtrak =
      { file.moov.vtrak with mdia := { file.moov.vtrak.mdia with minf :=
        { file.moov.vtrak.mdia.minf with
          stbl := compile_maxs mem file.moov.vtrak.mdia.minf.stbl } } }) ∧
    (VOID file.moov.strak.atom = false → G.moov.strak =
      { file.moov.strak with mdia := { file.moov.strak.mdia with minf :=
        { file.moov.strak.mdia.minf with
          stbl := compile_maxs mem file.moov.strak.mdia.minf.stbl } } }) := by
  subst hG
  obtain ⟨ft, ⟨ma, mv, ⟨va, vt, vm, vst, ven⟩, ⟨sa, st, sm, sst, sen⟩⟩, md⟩ := file
  unfold prepare_maxs
  dsimp only
  cases h1 : VOID va <;>
    simp only [Bool.not_false, Bool.not_true, if_true, Bool.false_eq_true, if_false] <;>
    cases h2 : VOID sa <;> simp

theorem prepare_seek_tracks (self : stream_t) (mem : Mem) (G : file_t)
    (P : stream_t × Mem × file_t) (hP : prepare_seek self mem G = P) :
    P.1 = (compile_trak
      (compile_trak { self with file_offset := 0, file_finish := 0 } G.moov.mvhd.scale mem
        G.moov.vtrak).1 G.moov.mvhd.scale
      (compile_trak { self with file_offset := 0, file_finish := 0 } G.moov.mvhd.scale mem
        G.moov.vtrak).2.1 G.moov.strak).1 ∧
    P.2.2.moov.vtrak = (compile_trak { self with file_offset := 0, file_finish := 0 }
      G.moov.mvhd.scale mem G.moov.vtrak).2.2 ∧
    P.2.2.moov.strak = (compile_trak
      (compile_trak { self with file_offset := 0, file_finish := 0 } G.moov.mvhd.scale mem
        G.moov.vtrak).1 G.moov.mvhd.scale
      (compile_trak { self with file_offset := 0, file_finish := 0 } G.moov.mvhd.scale mem
        G.moov.vtrak).2.1 G.moov.strak).2.2 := by
  subst hP
  exact ⟨rfl, rfl, rfl⟩

theorem compile_trak_void_all (stream : stream_t) (mvhd_scale : Nat) (mem : Mem) (trak : trak_t)
    (hv : VOID trak.atom = true) :
    compile_trak stream mvhd_scale mem trak = (stream, mem, trak) := by
  unfold compile_trak
  rw [if_pos hv]

/-- A single track sought with coinciding start and end, from a stream whose
byte offsets have been reset. -/
theorem compile_trak_single (stream : stream_t) (mvhd_scale : Nat) (mem : Mem) (trak : trak_t)
    (hv : VOID trak.atom = false) (h0 : stream.file_offset = 0) (h1 : stream.file_finish = 0)
    (hc : (compile_trak_seek stream mem trak).1 = (compile_trak_seek stream mem trak).2) :
    (compile_trak stream mvhd_scale mem trak).2.2.start.time =
      (compile_trak stream mvhd_scale mem trak).2.2.end_.time ∧
    (compile_trak stream mvhd_scale mem trak).2.2.start.offset =
      (compile_trak stream mvhd_scale mem trak).2.2.end_.offset ∧
    (compile_trak stream mvhd_scale mem trak).1.file_finish =
      (compile_trak stream mvhd_scale mem trak).1.file_offset := by
  obtain ⟨q1, q2, q3, q4, q5⟩ := compile_trak_seeks stream mvhd_scale mem trak hv
  obtain ⟨o1, o2⟩ := compile_trak_offsets_fresh stream trak.mdia.mdhd.scale _ _ h0 h1 hc
  rw [q1, q2, q3, q4, q5, o1, o2, hc]
  exact ⟨rfl, rfl, rfl⟩

/-- C7 (amended). For every MP4 file with a single participating track and
every request in time mode with `stop = 0` whose start, in the track's time
scale, is not below the track's clamping limit (the smaller of the media
duration and `max_time`), the start and the end seek of the track coincide
(same time, same byte offset) and the response body is empty:
`file_finish = file_offset`. -/
theorem prepare_start_beyond_duration (self : stream_t) (mem : Mem) (file : file_t)
    (trak : trak_t) (hsp : self.spatial ≠ 1) (hstop : self.stop = 0)
    (hone : (file.moov.vtrak = trak ∧ VOID file.moov.strak.atom = true) ∨
      (file.moov.strak = trak ∧ VOID file.moov.vtrak.atom = true))
    (hv : VOID trak.atom = false) (hse : trak.start = trak.end_)
    (hb : trak_limit mem trak ≤ to_uint64 (self.start * (trak.mdia.mdhd.scale : ℚ))) :
    (∀ T, T = (prepare self mem file).2.2.moov.vtrak ∨ T = (prepare self mem file).2.2.moov.strak →
      VOID T.atom = false → T.start.time = T.end_.time ∧ T.start.offset = T.end_.offset) ∧
    (prepare self mem file).1.file_finish = (prepare self mem file).1.file_offset := by
  have hp : prepare self mem file = prepare_seek
      (prepare_limits self mem (prepare_maxs mem file)) mem (prepare_maxs mem file) := rfl
  rw [hp]
  generalize hG : prepare_maxs mem file = G
  obtain ⟨g0, g1, g2, g3, g4⟩ := prepare_maxs_tracks mem file G hG
  obtain ⟨l1, l2⟩ := prepare_limits_keeps self mem G hsp
  generalize prepare_limits self mem G = self1 at *
  generalize hP : prepare_seek self1 mem G = P
  obtain ⟨p1, p2, p3⟩ := prepare_seek_tracks self1 mem G P hP
  generalize hs0 : ({ self1 with file_offset := 0, file_finish := 0 } : stream_t) = s0 at *
  have s0a : s0.start = self.start := by rw [← hs0, ← l1]
  have s0b : s0.stop = 0 := by rw [← hs0, ← hstop, ← l2]
  have s0c : s0.file_offset = 0 := by rw [← hs0]
  have s0d : s0.file_finish = 0 := by rw [← hs0]
  rcases hone with ⟨ht, hvo⟩ | ⟨ht, hvo⟩
  · subst ht
    have gv := g3 hv
    have gs := g2 hvo
    have hvG : VOID G.moov.vtrak.atom = false := by rw [gv]; exact hv
    have hsG : VOID G.moov.strak.atom = true := by rw [gs]; exact hvo
    have hc : (compile_trak_seek s0 mem G.moov.vtrak).1 = (compile_trak_seek s0 mem G.moov.vtrak).2 := by
      apply compile_trak_seek_beyond s0 mem G.moov.vtrak
      · rw [gv]; exact hse
      · exact s0b
      · rw [gv, s0a]; exact hb
    obtain ⟨c1, c2, c3⟩ := compile_trak_single s0 G.moov.mvhd.scale mem G.moov.vtrak hvG s0c s0d hc
    rw [compile_trak_void_all _ _ _ _ hsG] at p1 p3
    refine ⟨?_, ?_⟩
    · intro T hT hTv
      rcases hT with rfl | rfl
      · rw [p2]; exact ⟨c1, c2⟩
      · rw [p3] at hTv
        rw [hsG] at hTv
        exact absurd hTv (by decide)
    · rw [p1]; exact c3
  · subst ht
    have gv := g1 hvo
    have gs := g4 hv
    have hvG : VOID G.moov.vtrak.atom = true := by rw [gv]; exact hvo
    have hsG : VOID G.moov.strak.atom = false := by rw [gs]; exact hv
    have hc : (compile_trak_seek s0 mem G.moov.strak).1 = (compile_trak_seek s0 mem G.moov.strak).2 := by
      apply compile_trak_seek_beyond s0 mem G.moov.strak
      · rw [gs]; exact hse
      · exact s0b
      · rw [gs, s0a]; exact hb
    obtain ⟨c1, c2, c3⟩ := compile_trak_single s0 G.moov.mvhd.scale mem G.moov.strak hsG s0c s0d hc
    rw [compile_trak_void_all _ _ _ _ hvG] at p1 p2 p3
    refine ⟨?_, ?_⟩
    · intro T hT hTv
      rcases hT with rfl | rfl
      · rw [p2] at hTv
        rw [hvG] at hTv
        exact absurd hTv (by decide)
      · rw [p3]; exact ⟨c1, c2⟩
    · rw [p1]; exact c3

/-- C7 counterexample: `av_file` has a video and a sound track of 0.2 s each;
for a request with `start = 5` and `stop = 0` the parse succeeds with
`file_offset = 798` (the end of the video chunk) and `file_finish = 804` (the
end of the sound chunk): the body has 6 bytes. -/
theorem prepare_start_beyond_duration_counterexample :
    beyond_stream.start = 5 ∧ beyond_stream.stop = 0 ∧
    (stream_mp4_parse 20 beyond_stream).map
      (fun r => (r.1, r.2.file_offset, r.2.file_finish)) = some (0, 798, 804) := by
  decide!

theorem prepare_start_beyond_duration_witness :
    (prepare (meta_input 20 sound_beyond_stream).1 (meta_input 20 sound_beyond_stream).2.1
        (meta_input 20 sound_beyond_stream).2.2).1.file_finish =
      (prepare (meta_input 20 sound_beyond_stream).1 (meta_input 20 sound_beyond_stream).2.1
        (meta_input 20 sound_beyond_stream).2.2).1.file_offset ∧
    (meta_input 20 sound_beyond_stream).1.start = 5 :=
  ⟨(prepare_start_beyond_duration (meta_input 20 sound_beyond_stream).1
    (meta_input 20 sound_beyond_stream).2.1 (meta_input 20 sound_beyond_stream).2.2
    (meta_input 20 sound_beyond_stream).2.2.moov.strak (by decide!) (by decide!)
    (Or.inr ⟨rfl, by decide!⟩) (by decide!) (by decide!) (by decide!)).2, by decide!⟩

/-! ### Acceptance of sample tables -/

theorem same_boxes_refl (s : stbl_t) : same_boxes s s := ⟨rfl, rfl, rfl, rfl, rfl, rfl, rfl⟩

theorem same_boxes_trans (s t u : stbl_t) (h1 : same_boxes s t) (h2 : same_boxes t u) :
    same_boxes s u := by
  obtain ⟨a1, a2, a3, a4, a5, a6, a7⟩ := h1
  obtain ⟨b1, b2, b3, b4, b5, b6, b7⟩ := h2
  exact ⟨a1.trans b1, a2.trans b2, a3.trans b3, a4.trans b4, a5.trans b5, a6.trans b6,
    a7.trans b7⟩

theorem stbl_assign_congr (s t : stbl_t) (ty : Nat) (atom : atom_t) (h : same_boxes s t) :
    (stbl_assign s ty atom = none ∧ stbl_assign t ty atom = none) ∨
    ∃ s' t', stbl_assign s ty atom = some s' ∧ stbl_assign t ty atom = some t' ∧
      same_boxes s' t' := by
  obtain ⟨a0, m1, m2, m3, m4, sd, tt, ct, ss, sc, sz, co⟩ := s
  obtain ⟨a0', m1', m2', m3', m4', sd', tt', ct', ss', sc', sz', co'⟩ := t
  obtain ⟨h1, h2, h3, h4, h5, h6, h7⟩ := h
  simp only at h1 h2 h3 h4 h5 h6 h7
  subst h1 h2 h3 h4 h5 h6 h7
  unfold stbl_assign
  by_cases c0 : ty = STSD
  · rw [if_pos c0, if_pos c0]
    exact Or.inr ⟨_, _, rfl, rfl, rfl, rfl, rfl, rfl, rfl, rfl, rfl⟩
  rw [if_neg c0, if_neg c0]
  by_cases c1 : ty = STTS
  · rw [if_pos c1, if_pos c1]
    exact Or.inr ⟨_, _, rfl, rfl, rfl, rfl, rfl, rfl, rfl, rfl, rfl⟩
  rw [if_neg c1, if_neg c1]
  by_cases c2 : ty = CTTS
  · rw [if_pos c2, if_pos c2]
    exact Or.inr ⟨_, _, rfl, rfl, rfl, rfl, rfl, rfl, rfl, rfl, rfl⟩
  rw [if_neg c2, if_neg c2]
  by_cases c3 : ty = STSS
  · rw [if_pos c3, if_pos c3]
    exact Or.inr ⟨_, _, rfl, rfl, rfl, rfl, rfl, rfl, rfl, rfl, rfl⟩
  rw [if_neg c3, if_neg c3]
  by_cases c4 : ty = STSC
  · rw [if_pos c4, if_pos c4]
    exact Or.inr ⟨_, _, rfl, rfl, rfl, rfl, rfl, rfl, rfl, rfl, rfl⟩
  rw [if_neg c4, if_neg c4]
  by_cases c5 : ty = STSZ
  · rw [if_pos c5, if_pos c5]
    exact Or.inr ⟨_, _, rfl, rfl, rfl, rfl, rfl, rfl, rfl, rfl, rfl⟩
  rw [if_neg c5, if_neg c5]
  by_cases c6 : ty = STCO
  · rw [if_pos c6, if_pos c6]
    exact Or.inr ⟨_, _, rfl, rfl, rfl, rfl, rfl, rfl, rfl, rfl, rfl⟩
  rw [if_neg c6, if_neg c6]
  by_cases c7 : ty = CO64
  · rw [if_pos c7, if_pos c7]
    exact Or.inr ⟨_, _, rfl, rfl, rfl, rfl, rfl, rfl, rfl, rfl, rfl⟩
  rw [if_neg c7, if_neg c7]
  exact Or.inl ⟨rfl, rfl⟩

theorem stbl_assign_atom (s s' : stbl_t) (ty : Nat) (atom : atom_t)
    (h : stbl_assign s ty atom = some s') : s'.atom = s.atom := by
  unfold stbl_assign at h
  by_cases c0 : ty = STSD
  · rw [if_pos c0] at h
    simp only [Option.some.injEq] at h
    rw [← h]
  rw [if_neg c0] at h
  by_cases c1 : ty = STTS
  · rw [if_pos c1] at h
    simp only [Option.some.injEq] at h
    rw [← h]
  rw [if_neg c1] at h
  by_cases c2 : ty = CTTS
  · rw [if_pos c2] at h
    simp only [Option.some.injEq] at h
    rw [← h]
  rw [if_neg c2] at h
  by_cases c3 : ty = STSS
  · rw [if_pos c3] at h
    simp only [Option.some.injEq] at h
    rw [← h]
  rw [if_neg c3] at h
  by_cases c4 : ty = STSC
  · rw [if_pos c4] at h
    simp only [Option.some.injEq] at h
    rw [← h]
  rw [if_neg c4] at h
  by_cases c5 : ty = STSZ
  · rw [if_pos c5] at h
    simp only [Option.some.injEq] at h
    rw [← h]
  rw [if_neg c5] at h
  by_cases c6 : ty = STCO
  · rw [if_pos c6] at h
    simp only [Option.some.injEq] at h
    rw [← h]
  rw [if_neg c6] at h
  by_cases c7 : ty = CO64
  · rw [if_pos c7] at h
    simp only [Option.some.injEq] at h
    rw [← h]
  rw [if_neg c7] at h
  simp at h

theorem stbl_fill_congr (left : Nat) (s t : stbl_t) (w : List (Nat × atom_t))
    (h : same_boxes s t) : same_boxes (stbl_fill left s w) (stbl_fill left t w) := by
  induction w generalizing left s t with
  | nil => cases left <;> exact h
  | cons c w ih =>
    obtain ⟨ty, atom⟩ := c
    cases left with
    | zero => exact h
    | succ left =>
      unfold stbl_fill
      rcases stbl_assign_congr s t ty atom h with ⟨e1, e2⟩ | ⟨s', t', e1, e2, hs⟩
      · rw [e1, e2]; exact ih _ _ _ h
      · rw [e1, e2]; exact ih _ _ _ hs

theorem parse_stbl_loop_step (mem : Mem) (fuel left : Nat) (stbl : stbl_t) (atom : atom_t) :
    parse_stbl_loop mem (fuel + 1) left stbl atom =
      if left > 0 ∧ stbl.atom.data_position < stbl.atom.data_size then
        match stbl_assign { stbl with atom := (data_atom mem stbl.atom atom).2.1 }
            (data_atom mem stbl.atom atom).1 (data_atom mem stbl.atom atom).2.2 with
        | some s => parse_stbl_loop mem fuel (left - 1) s (data_atom mem stbl.atom atom).2.2
        | none => parse_stbl_loop mem fuel left
            { stbl with atom := (data_atom mem stbl.atom atom).2.1 }
            (data_atom mem stbl.atom atom).2.2
      else some stbl := by
  rw [parse_stbl_loop]
  by_cases hc : left > 0 ∧ stbl.atom.data_position < stbl.atom.data_size
  · rw [if_pos hc, if_pos hc]
    dsimp only
    unfold stbl_assign
    generalize (data_atom mem stbl.atom atom).1 = ty
    by_cases c0 : ty = STSD
    · rw [if_pos c0, if_pos c0]
    rw [if_neg c0, if_neg c0]
    by_cases c1 : ty = STTS
    · rw [if_pos c1, if_pos c1]
    rw [if_neg c1, if_neg c1]
    by_cases c2 : ty = CTTS
    · rw [if_pos c2, if_pos c2]
    rw [if_neg c2, if_neg c2]
    by_cases c3 : ty = STSS
    · rw [if_pos c3, if_pos c3]
    rw [if_neg c3, if_neg c3]
    by_cases c4 : ty = STSC
    · rw [if_pos c4, if_pos c4]
    rw [if_neg c4, if_neg c4]
    by_cases c5 : ty = STSZ
    · rw [if_pos c5, if_pos c5]
    rw [if_neg c5, if_neg c5]
    by_cases c6 : ty = STCO
    · rw [if_pos c6, if_pos c6]
    rw [if_neg c6, if_neg c6]
    by_cases c7 : ty = CO64
    · rw [if_pos c7, if_pos c7]
    rw [if_neg c7, if_neg c7]
  · rw [if_neg hc, if_neg hc]

theorem parse_stbl_loop_fill (mem : Mem) (fuel left : Nat) (stbl : stbl_t) (atom : atom_t)
    (w : List (Nat × atom_t)) (hw : child_walk mem fuel stbl.atom atom = some w) :
    ∃ R, parse_stbl_loop mem fuel left stbl atom = some R ∧
      same_boxes R (stbl_fill left stbl w) := by
  induction fuel generalizing left stbl atom w with
  | zero => simp [child_walk] at hw
  | succ fuel ih =>
    unfold child_walk at hw
    rw [parse_stbl_loop_step]
    by_cases hp : stbl.atom.data_position < stbl.atom.data_size
    · rw [if_pos hp] at hw
      cases hc : child_walk mem fuel (data_atom mem stbl.atom atom).2.1
          (data_atom mem stbl.atom atom).2.2 with
      | none => rw [hc] at hw; simp at hw
      | some w' =>
        rw [hc] at hw
        simp only [Option.map_some', Option.some.injEq] at hw
        subst hw
        cases left with
        | zero =>
          rw [if_neg (by omega)]
          exact ⟨stbl, rfl, same_boxes_refl _⟩
        | succ left =>
          rw [if_pos ⟨by omega, hp⟩]
          unfold stbl_fill
          simp only [Nat.add_sub_cancel]
          have hsb : same_boxes { stbl with atom := (data_atom mem stbl.atom atom).2.1 } stbl :=
            ⟨rfl, rfl, rfl, rfl, rfl, rfl, rfl⟩
          rcases stbl_assign_congr _ _ (data_atom mem stbl.atom atom).1
            (data_atom mem stbl.atom atom).2.2 hsb with ⟨e1, e2⟩ | ⟨s', t', e1, e2, hs⟩
          · rw [e1, e2]
            obtain ⟨R, hR, hs⟩ := ih (left + 1)
              { stbl with atom := (data_atom mem stbl.atom atom).2.1 } _ w' hc
            exact ⟨R, hR, same_boxes_trans _ _ _ hs (stbl_fill_congr _ _ _ _ hsb)⟩
          · rw [e1, e2]
            have ha : s'.atom = (data_atom mem stbl.atom atom).2.1 := by
              exact stbl_assign_atom _ _ _ _ e1
            obtain ⟨R, hR, hs2⟩ := ih left s' (data_atom mem stbl.atom atom).2.2 w'
              (by rw [ha]; exact hc)
            exact ⟨R, hR, same_boxes_trans _ _ _ hs2 (stbl_fill_congr _ _ _ _ hs)⟩
    · rw [if_neg hp] at hw
      simp only [Option.some.injEq] at hw
      subst hw
      rw [if_neg (by omega)]
      refine ⟨stbl, rfl, ?_⟩
      cases left <;> exact same_boxes_refl _

theorem stbl_assign_spec (s : stbl_t) (ty : Nat) (atom : atom_t) :
    (stbl_assign s ty atom = none ∧ stbl_kinds.contains ty = false) ∨
    ∃ s', stbl_assign s ty atom = some s' ∧ stbl_kinds.contains ty = true ∧
      s'.stts.atom = (if [STTS].contains ty then atom else s.stts.atom) ∧
      s'.stsc.atom = (if [STSC].contains ty then atom else s.stsc.atom) ∧
      s'.stsz.atom = (if [STSZ].contains ty then atom else s.stsz.atom) ∧
      s'.coxx.atom = (if [STCO, CO64].contains ty then atom else s.coxx.atom) := by
  unfold stbl_assign
  by_cases c0 : ty = STSD
  · rw [if_pos c0]
    subst c0
    exact Or.inr ⟨_, rfl, by decide, (by first | rw [if_pos (by decide)] | rw [if_neg (by decide)]), (by first | rw [if_pos (by decide)] | rw [if_neg (by decide)]),
      (by first | rw [if_pos (by decide)] | rw [if_neg (by decide)]), (by first | rw [if_pos (by decide)] | rw [if_neg (by decide)])⟩
  rw [if_neg c0]
  by_cases c1 : ty = STTS
  · rw [if_pos c1]
    subst c1
    exact Or.inr ⟨_, rfl, by decide, (by first | rw [if_pos (by decide)] | rw [if_neg (by decide)]), (by first | rw [if_pos (by decide)] | rw [if_neg (by decide)]),
      (by first | rw [if_pos (by decide)] | rw [if_neg (by decide)]), (by first | rw [if_pos (by decide)] | rw [if_neg (by decide)])⟩
  rw [if_neg c1]
  by_cases c2 : ty = CTTS
  · rw [if_pos c2]
    subst c2
    exact Or.inr ⟨_, rfl, by decide, (by first | rw [if_pos (by decide)] | rw [if_neg (by decide)]), (by first | rw [if_pos (by decide)] | rw [if_neg (by decide)]),
      (by first | rw [if_pos (by decide)] | rw [if_neg (by decide)]), (by first | rw [if_pos (by decide)] | rw [if_neg (by decide)])⟩
  rw [if_neg c2]
  by_cases c3 : ty = STSS
  · rw [if_pos c3]
    subst c3
    exact Or.inr ⟨_, rfl, by decide, (by first | rw [if_pos (by decide)] | rw [if_neg (by decide)]), (by first | rw [if_pos (by decide)] | rw [if_neg (by decide)]),
      (by first | rw [if_pos (by decide)] | rw [if_neg (by decide)]), (by first | rw [if_pos (by decide)] | rw [if_neg (by decide)])⟩
  rw [if_neg c3]
  by_cases c4 : ty = STSC
  · rw [if_pos c4]
    subst c4
    exact Or.inr ⟨_, rfl, by decide, (by first | rw [if_pos (by decide)] | rw [if_neg (by decide)]), (by first | rw [if_pos (by decide)] | rw [if_neg (by decide)]),
      (by first | rw [if_pos (by decide)] | rw [if_neg (by decide)]), (by first | rw [if_pos (by decide)] | rw [if_neg (by decide)])⟩
  rw [if_neg c4]
  by_cases c5 : ty = STSZ
  · rw [if_pos c5]
    subst c5
    exact Or.inr ⟨_, rfl, by decide, (by first | rw [if_pos (by decide)] | rw [if_neg (by decide)]), (by first | rw [if_pos (by decide)] | rw [if_neg (by decide)]),
      (by first | rw [if_pos (by decide)] | rw [if_neg (by decide)]), (by first | rw [if_pos (by decide)] | rw [if_neg (by decide)])⟩
  rw [if_neg c5]
  by_cases c6 : ty = STCO
  · rw [if_pos c6]
    subst c6
    exact Or.inr ⟨_, rfl, by decide, (by first | rw [if_pos (by decide)] | rw [if_neg (by decide)]), (by first | rw [if_pos (by decide)] | rw [if_neg (by decide)]),
      (by first | rw [if_pos (by decide)] | rw [if_neg (by decide)]), (by first | rw [if_pos (by decide)] | rw [if_neg (by decide)])⟩
  rw [if_neg c6]
  by_cases c7 : ty = CO64
  · rw [if_pos c7]
    subst c7
    exact Or.inr ⟨_, rfl, by decide, (by first | rw [if_pos (by decide)] | rw [if_neg (by decide)]), (by first | rw [if_pos (by decide)] | rw [if_neg (by decide)]),
      (by first | rw [if_pos (by decide)] | rw [if_neg (by decide)]), (by first | rw [if_pos (by decide)] | rw [if_neg (by decide)])⟩
  rw [if_neg c7]
  refine Or.inl ⟨rfl, ?_⟩
  simp [stbl_kinds, c0, c1, c2, c3, c4, c5, c6, c7]

theorem last_of_cons (K : List Nat) (c : Nat × atom_t) (l : List (Nat × atom_t)) (d : atom_t) :
    (last_of K (c :: l)).getD d = (last_of K l).getD (if K.contains c.1 then c.2 else d) := by
  unfold last_of
  rw [List.filter_cons]
  cases hk : K.contains c.1
  · simp
  · simp only [if_true]
    cases hl : List.filter (fun c => K.contains c.1) l with
    | nil => simp
    | cons x xs => simp [List.getLast?_eq_getLast]

theorem first_recognised_cons_true (left : Nat) (c : Nat × atom_t) (w : List (Nat × atom_t))
    (h : stbl_kinds.contains c.1 = true) :
    first_recognised (left + 1) (c :: w) = c :: first_recognised left w := by
  unfold first_recognised
  rw [List.filter_cons, if_pos h, List.take_succ_cons]

theorem first_recognised_cons_false (left : Nat) (c : Nat × atom_t) (w : List (Nat × atom_t))
    (h : stbl_kinds.contains c.1 = false) :
    first_recognised left (c :: w) = first_recognised left w := by
  unfold first_recognised
  rw [List.filter_cons, if_neg (by rw [h]; exact Bool.false_ne_true)]

theorem stbl_fill_last (left : Nat) (s : stbl_t) (w : List (Nat × atom_t)) :
    (stbl_fill left s w).stts.atom = (last_of [STTS] (first_recognised left w)).getD s.stts.atom ∧
    (stbl_fill left s w).stsc.atom = (last_of [STSC] (first_recognised left w)).getD s.stsc.atom ∧
    (stbl_fill left s w).stsz.atom = (last_of [STSZ] (first_recognised left w)).getD s.stsz.atom ∧
    (stbl_fill left s w).coxx.atom =
      (last_of [STCO, CO64] (first_recognised left w)).getD s.coxx.atom := by
  induction w generalizing left s with
  | nil => cases left <;> exact ⟨rfl, rfl, rfl, rfl⟩
  | cons c w ih =>
    obtain ⟨ty, atom⟩ := c
    cases left with
    | zero => exact ⟨rfl, rfl, rfl, rfl⟩
    | succ left =>
      unfold stbl_fill
      rcases stbl_assign_spec s ty atom with ⟨e, hk⟩ | ⟨s', e, hk, a1, a2, a3, a4⟩
      · rw [e, first_recognised_cons_false _ _ _ hk]
        exact ih _ _
      · rw [e, first_recognised_cons_true _ _ _ hk]
        simp only [last_of_cons]
        rw [← a1, ← a2, ← a3, ← a4]
        exact ih _ _

theorem has_box_void (K : List Nat) (l : List (Nat × atom_t)) (d : atom_t) (hd : VOID d = true) :
    VOID ((last_of K l).getD d) = !has_box K l := by
  unfold has_box
  cases last_of K l with
  | none => simpa using hd
  | some a => simp

/-- C8 (amended). For an `stbl` whose child walk ends and whose table slots
are empty before the call, `parse_stbl` returns, and it reports success
exactly when each of `stts`, `stsc`, `stsz` and a chunk-offset box (`stco` or
`co64`) is found among the first 7 children of a recognised type (`stsd`,
`stts`, `ctts`, `stss`, `stsc`, `stsz`, `stco`, `co64`, repetitions counted),
the last box of a kind being the one that counts and a box of size 0 counting
as missing. Children of other types are skipped; children after the seventh
recognised one are not looked at. -/
theorem parse_stbl_accepts (mem : Mem) (fuel : Nat) (stbl : stbl_t) (w : List (Nat × atom_t))
    (h0 : VOID stbl.stts.atom = true ∧ VOID stbl.stsc.atom = true ∧
      VOID stbl.stsz.atom = true ∧ VOID stbl.coxx.atom = true)
    (hw : child_walk mem fuel { stbl.atom with data_position := 0 } {} = some w) :
    ∃ R, parse_stbl mem fuel stbl =
      some ((if has_box [STTS] (first_recognised 7 w) && has_box [STSC] (first_recognised 7 w) &&
          has_box [STSZ] (first_recognised 7 w) && has_box [STCO, CO64] (first_recognised 7 w)
        then 0 else 1), R) := by
  obtain ⟨R, hR, hs⟩ := parse_stbl_loop_fill mem fuel 7
    { stbl with atom := { stbl.atom with data_position := 0 } } {} w hw
  obtain ⟨f1, f2, f3, f4⟩ := stbl_fill_last 7
    { stbl with atom := { stbl.atom with data_position := 0 } } w
  obtain ⟨-, s2, -, -, s5, s6, s7⟩ := hs
  rw [← s2] at f1
  rw [← s5] at f2
  rw [← s6] at f3
  rw [← s7] at f4
  have v1 : VOID R.stts.atom = !has_box [STTS] (first_recognised 7 w) := by
    rw [f1]; exact has_box_void _ _ _ h0.1
  have v2 : VOID R.stsc.atom = !has_box [STSC] (first_recognised 7 w) := by
    rw [f2]; exact has_box_void _ _ _ h0.2.1
  have v3 : VOID R.stsz.atom = !has_box [STSZ] (first_recognised 7 w) := by
    rw [f3]; exact has_box_void _ _ _ h0.2.2.1
  have v4 : VOID R.coxx.atom = !has_box [STCO, CO64] (first_recognised 7 w) := by
    rw [f4]; exact has_box_void _ _ _ h0.2.2.2
  unfold parse_stbl
  rw [hR]
  dsimp only
  rw [v1, v2, v3, v4]
  cases has_box [STTS] (first_recognised 7 w) <;> cases has_box [STSC] (first_recognised 7 w) <;>
    cases has_box [STSZ] (first_recognised 7 w) <;>
    cases has_box [STCO, CO64] (first_recognised 7 w) <;>
    exact ⟨_, rfl⟩

/-- C8 counterexample: the `stbl` with payload `crowded_mem` holds `stts`,
`stsc`, `stsz` and a chunk-offset box (all of non-zero size), yet `parse_stbl`
reports failure: `stsz` is the eighth recognised child. -/
theorem parse_stbl_accepts_counterexample :
    (child_walk crowded_mem 20 crowded_stbl.atom {}).map
        (fun w => w.map (fun c => (c.1, VOID c.2))) =
      some [(STSD, false), (STTS, false), (CTTS, false), (STSS, false), (STSC, false),
        (STCO, false), (CO64, false), (STSZ, false)] ∧
    (parse_stbl crowded_mem 20 crowded_stbl).map (fun r => r.1) = some 1 := by
  decide!

theorem eq_some_getD {α : Type} (o : Option α) (d : α) (h : o.isSome = true) :
    o = some (o.getD d) := by
  cases o with
  | none => simp at h
  | some x => rfl

theorem parse_stbl_accepts_witness :
    (∃ R, parse_stbl sample_tables.1 20 sample_stbl =
      some ((if has_box [STTS] (first_recognised 7
              ((child_walk sample_tables.1 20
              { sample_stbl.atom with data_position := 0 } {}).getD [])) &&
            has_box [STSC] (first_recognised 7
              ((child_walk sample_tables.1 20
              { sample_stbl.atom with data_position := 0 } {}).getD [])) &&
            has_box [STSZ] (first_recognised 7
              ((child_walk sample_tables.1 20
              { sample_stbl.atom with data_position := 0 } {}).getD [])) &&
            has_box [STCO, CO64] (first_recognised 7
              ((child_walk sample_tables.1 20
              { sample_stbl.atom with data_position := 0 } {}).getD []))
        then 0 else 1), R)) ∧
    ((child_walk sample_tables.1 20
              { sample_stbl.atom with data_position := 0 } {}).getD []).map (fun c => c.1) =
      [STSD, STTS, STSS, STSC, STSZ, STCO] :=
  ⟨parse_stbl_accepts sample_tables.1 20 sample_stbl
    ((child_walk sample_tables.1 20
              { sample_stbl.atom with data_position := 0 } {}).getD []) (by decide!)
    (eq_some_getD _ _ (by decide!)),
   by decide!⟩

/-! ### Cache after a failed parse -/

theorem tcadbget_tcadbput_other (db : Cache) (k k' : String) (v : Mem) (h : k ≠ k') :
    tcadbget (tcadbput db k' v) k = tcadbget db k := by
  induction db with
  | nil =>
    unfold tcadbput tcadbget
    rw [if_neg (fun e => h e.symm)]
    rfl
  | cons c rest ih =>
    obtain ⟨k0, v0⟩ := c
    unfold tcadbput
    by_cases e : k0 = k'
    · rw [if_pos e]
      unfold tcadbget
      rw [if_neg (fun e' => h e'.symm), if_neg (fun e' => h (e'.symm.trans e))]
    · rw [if_neg e]
      unfold tcadbget
      rw [ih]

theorem store_atoms_other (path : String) (b : blobs_t) (moov mdat : Mem) (db : Cache)
    (key : String) (h1 : key ≠ path ++ ":atom:ftyp") (h2 : key ≠ path ++ ":atom:moov")
    (h3 : key ≠ path ++ ":atom:mdat") :
    tcadbget (store_atoms path b moov mdat db) key = tcadbget db key := by
  unfold store_atoms
  dsimp only
  rw [tcadbget_tcadbput_other _ _ _ _ h3, tcadbget_tcadbput_other _ _ _ _ h2]
  cases b.ftyp with
  | none => rfl
  | some f => exact tcadbget_tcadbput_other _ _ _ _ h1

theorem file_atom_keeps (stream : stream_t) (atom : atom_t) :
    (file_atom stream atom).2.1.db = stream.db ∧
    (file_atom stream atom).2.1.path = stream.path := by
  obtain ⟨a1, a2, a3, a4, a5, a6, a7, a8, a9, a10, a11, a12, a13, a14, a15, a16, a17, a18,
    a19, a20, a21, a22, a23, a24, a25, a26, a27, a28, a29, a30, a31, a32, a33⟩ :=
    stream
  unfold file_atom
  dsimp only
  split_ifs <;> exact ⟨rfl, rfl⟩

theorem scan_loop_keeps (fuel left : Nat) (self : stream_t) (b : blobs_t) (atom : atom_t)
    (s' : stream_t) (r : Option (blobs_t × atom_t))
    (h : scan_loop fuel left self b atom = some (s', r)) :
    s'.db = self.db ∧ s'.path = self.path := by
  induction fuel generalizing left self b atom with
  | zero => simp [scan_loop] at h
  | succ fuel ih =>
    rw [scan_loop] at h
    obtain ⟨k1, k2⟩ := file_atom_keeps self atom
    by_cases hc : left > 0 ∧ self.file_offset < self.file_length
    · rw [if_pos hc] at h
      dsimp only at h
      generalize file_atom self atom = fa at h k1 k2
      obtain ⟨ty, st, at'⟩ := fa
      dsimp only at h k1 k2
      have hst : ∀ o, ({ st with file_offset := o } : stream_t).db = self.db ∧
          ({ st with file_offset := o } : stream_t).path = self.path := fun o => ⟨k1, k2⟩
      by_cases c1 : ty = FTYP
      · rw [if_pos c1] at h
        cases hs : save_atom st at' with
        | none =>
          rw [hs] at h
          simp only [Option.some.injEq, Prod.mk.injEq] at h
          rw [← h.1]; exact ⟨k1, k2⟩
        | some blob =>
          rw [hs] at h
          have := ih _ _ _ _ h
          exact ⟨this.1.trans (hst _).1, this.2.trans (hst _).2⟩
      rw [if_neg c1] at h
      by_cases c2 : ty = MDAT
      · rw [if_pos c2] at h
        cases hs : save_atom st { at' with size := sub64 at'.data_start at'.start } with
        | none =>
          rw [hs] at h
          simp only [Option.some.injEq, Prod.mk.injEq] at h
          rw [← h.1]; exact ⟨k1, k2⟩
        | some blob =>
          rw [hs] at h
          have := ih _ _ _ _ h
          exact ⟨this.1.trans (hst _).1, this.2.trans (hst _).2⟩
      rw [if_neg c2] at h
      by_cases c3 : ty = MOOV
      · rw [if_pos c3] at h
        cases hs : save_atom st at' with
        | none =>
          rw [hs] at h
          simp only [Option.some.injEq, Prod.mk.injEq] at h
          rw [← h.1]; exact ⟨k1, k2⟩
        | some blob =>
          rw [hs] at h
          have := ih _ _ _ _ h
          exact ⟨this.1.trans (hst _).1, this.2.trans (hst _).2⟩
      rw [if_neg c3] at h
      by_cases c4 : ty = ____
      · rw [if_pos c4] at h
        simp only [Option.some.injEq, Prod.mk.injEq] at h
        rw [← h.1]; exact ⟨k1, k2⟩
      rw [if_neg c4] at h
      have := ih _ _ _ _ h
      exact ⟨this.1.trans (hst _).1, this.2.trans (hst _).2⟩
    · rw [if_neg hc] at h
      simp only [Option.some.injEq, Prod.mk.injEq] at h
      rw [← h.1]
      exact ⟨rfl, rfl⟩

theorem zero_seek_keeps (self : stream_t) :
    (zero_seek self).db = self.db ∧ (zero_seek self).path = self.path := by
  obtain ⟨a1, a2, a3, a4, a5, a6, a7, a8, a9, a10, a11, a12, a13, a14, a15, a16, a17, a18,
    a19, a20, a21, a22, a23, a24, a25, a26, a27, a28, a29, a30, a31, a32, a33⟩ :=
    self
  unfold zero_seek
  dsimp only
  cases a9 with
  | none => exact ⟨rfl, rfl⟩
  | some db =>
    dsimp only
    split_ifs
    · split <;> exact ⟨rfl, rfl⟩
    · exact ⟨rfl, rfl⟩

theorem load_atoms_cache (fuel : Nat) (self s' : stream_t) (r : Option (blobs_t × atom_t))
    (h : load_atoms fuel self = some (s', r)) : atoms_stored self s' := by
  unfold load_atoms at h
  dsimp only at h
  split_ifs at h
  · split at h
    · simp at h
    · rename_i s1 heq
      obtain ⟨k1, k2⟩ := scan_loop_keeps _ _ _ _ _ _ _ heq
      simp only [Option.some.injEq, Prod.mk.injEq] at h
      rw [← h.1]; exact Or.inl k1
    · rename_i s1 b atom heq
      obtain ⟨k1, k2⟩ := scan_loop_keeps _ _ _ _ _ _ _ heq
      have k1' : s1.db = self.db := k1
      have k2' : s1.path = self.path := k2
      split at h
      · rename_i moov mdat hm hd
        simp only [Option.some.injEq, Prod.mk.injEq] at h
        rw [← h.1]
        refine Or.inr ⟨b, moov, mdat, ?_⟩
        show s1.db.map (store_atoms s1.path b moov mdat) = _
        rw [k1', k2']
      · simp only [Option.some.injEq, Prod.mk.injEq] at h
        rw [← h.1]; exact Or.inl k1'
  · simp only [Option.some.injEq, Prod.mk.injEq] at h
    rw [← h.1]; exact Or.inl rfl

theorem load_meta_cache (fuel : Nat) (self s' : stream_t) (r : Option (Mem × Mem × file_t))
    (h : load_meta fuel self = some (s', r)) : atoms_stored self s' := by
  unfold load_meta at h
  cases ha : load_atoms fuel self with
  | none => rw [ha] at h; simp at h
  | some p =>
    obtain ⟨s1, r1⟩ := p
    have hc := load_atoms_cache fuel self s1 r1 ha
    rw [ha] at h
    cases r1 with
    | none =>
      simp only [Option.some.injEq, Prod.mk.injEq] at h
      rw [← h.1]; exact hc
    | some q =>
      obtain ⟨b, atom⟩ := q
      dsimp only at h
      cases hp : parse_meta fuel b atom with
      | none => rw [hp] at h; simp at h
      | some o =>
        rw [hp] at h
        cases o with
        | none =>
          simp only [Option.some.injEq, Prod.mk.injEq] at h
          rw [← h.1]; exact hc
        | some fm =>
          obtain ⟨file, mem⟩ := fm
          dsimp only at h
          split_ifs at h <;> simp only [Option.some.injEq, Prod.mk.injEq] at h <;>
            rw [← h.1] <;> exact hc

/-- C9 (amended). Whenever `stream_mp4_parse` returns failure, the cache is
either exactly as it was before the call (a failure of the first-level scan:
unreadable atom, missing `moov` or `mdat`), or it is the cache before the call
with the three main atoms stored under `:atom:ftyp` (if an `ftyp` was found),
`:atom:moov` and `:atom:mdat` (a failure after the scan: unparsable or
compressed `moov`, `mvhd.scale = 0`, zero periods). In both cases every other
key, `:offsets` and `:zero:*` included, reads as before the call. -/
theorem stream_mp4_parse_failure_cache (fuel : Nat) (self self' : stream_t)
    (h : stream_mp4_parse fuel self = some (1, self')) :
    atoms_stored self self' ∧
    ∀ db db', self.db = some db → self'.db = some db' → ∀ key,
      key ≠ self.path ++ ":atom:ftyp" → key ≠ self.path ++ ":atom:moov" →
      key ≠ self.path ++ ":atom:mdat" → tcadbget db' key = tcadbget db key := by
  have hs : atoms_stored self self' := by
    unfold stream_mp4_parse at h
    dsimp only at h
    obtain ⟨z1, z2⟩ := zero_seek_keeps self
    split_ifs at h
    · simp at h
    · cases hl : load_meta fuel (zero_seek self) with
      | none => rw [hl] at h; simp at h
      | some p =>
        obtain ⟨s1, r1⟩ := p
        have hc := load_meta_cache fuel _ s1 r1 hl
        rw [hl] at h
        cases r1 with
        | none =>
          simp only [Option.some.injEq, Prod.mk.injEq, true_and] at h
          rw [← h]
          unfold atoms_stored at hc ⊢
          rw [z1, z2] at hc
          exact hc
        | some q =>
          obtain ⟨ftyp, mem, file⟩ := q
          simp at h
  refine ⟨hs, ?_⟩
  intro db db' h1 h2 key k1 k2 k3
  rcases hs with e | ⟨b, moov, mdat, e⟩
  · rw [e, h1] at h2
    simp only [Option.some.injEq] at h2
    rw [← h2]
  · rw [e, h1] at h2
    simp only [Option.map_some', Option.some.injEq] at h2
    rw [← h2]
    exact store_atoms_other _ _ _ _ _ _ k1 k2 k3

/-- C9 counterexample: `trackless_file` has `ftyp`, `moov` and `mdat`, but
its `moov` holds no track; with an empty cache the parse fails, and the cache
then holds the three `:atom:` entries for the path. -/
theorem stream_mp4_parse_failure_cache_counterexample :
    trackless_stream.db = some [] ∧
    (stream_mp4_parse 20 trackless_stream).map
        (fun r => (r.1, (r.2.db.getD []).map (fun e => (e.1, e.2.size)))) =
      some (1, [("d.mp4:atom:ftyp", 20), ("d.mp4:atom:moov", 116), ("d.mp4:atom:mdat", 8)]) := by
  decide!

theorem eq_some_of_fst {α β : Type} (o : Option (α × β)) (a : α) (d : α × β)
    (h : o.map (fun r => r.1) = some a) : o = some (a, (o.getD d).2) := by
  cases o with
  | none => simp at h
  | some x =>
    obtain ⟨x1, x2⟩ := x
    simp only [Option.map_some', Option.some.injEq] at h
    subst h
    rfl

theorem stream_mp4_parse_failure_cache_witness :
    tcadbget (((stream_mp4_parse 20 trackless_stream).getD (0, {})).2.db.getD [])
        "d.mp4:offsets" = tcadbget [] "d.mp4:offsets" ∧
    (stream_mp4_parse 20 trackless_stream).map (fun r => r.1) = some 1 :=
  ⟨(stream_mp4_parse_failure_cache 20 trackless_stream
      ((stream_mp4_parse 20 trackless_stream).getD (0, {})).2
      (eq_some_of_fst _ _ _ (by decide!))).2 []
      (((stream_mp4_parse 20 trackless_stream).getD (0, {})).2.db.getD []) rfl
      (eq_some_getD _ _ (by decide!)) "d.mp4:offsets" (by decide) (by decide) (by decide),
   by decide!⟩

/-! ### Zero-seek cache -/

/-- C10 (evaluation at the failing input). The zero-seek request
`sample_stream` on `sample_file` succeeds, but `compile_trak` has overwritten
`stream.stop` with the end time (1 s), so the store of the zero-seek head is
skipped: the cache holds neither `:zero:head` nor `:zero:limits`. A second
zero-seek request with that cache is not served from the zero-seek cache
(`zero_seek` finds no head); it is regenerated from the cached atoms, which
counts one cache hit and no miss and yields the same head and limits. -/
theorem zero_seek_cache_not_stored :
    sample_stream.start = 0 ∧ sample_stream.stop = 0 ∧
    (stream_mp4_parse 20 sample_stream).map (fun r => r.1) = some 0 ∧
    first_request.stop = 1 ∧
    (first_request.db.getD []).map (fun e => e.1) =
      ["a.mp4:atom:ftyp", "a.mp4:atom:moov", "a.mp4:atom:mdat", "a.mp4:offsets"] ∧
    tcadbget (first_request.db.getD []) "a.mp4:zero:head" = none ∧
    tcadbget (first_request.db.getD []) "a.mp4:zero:limits" = none ∧
    (zero_seek second_stream).head = none ∧
    (stream_mp4_parse 20 second_stream).map (fun r => r.1) = some 0 ∧
    second_request.cache_hits = second_stream.cache_hits + 1 ∧
    second_request.cache_misses = second_stream.cache_misses ∧
    second_request.head = first_request.head ∧
    second_request.file_offset = first_request.file_offset ∧
    second_request.file_finish = first_request.file_finish := by
  decide!

/-! ### Seeking without sync samples -/

theorem compile_seek_stts (mem : Mem) (stbl : stbl_t) (seek : seek_t) :
    (compile_seek mem stbl seek).stts = (seek_stss mem stbl (seek_stts mem stbl seek).1).stts := by
  unfold compile_seek seek_stsc seek_ctts
  dsimp only
  split <;> rfl

theorem seek_stss_void_stts (mem : Mem) (stbl : stbl_t) (seek : seek_t)
    (hv : VOID stbl.stss.atom = true) : (seek_stss mem stbl seek).stts = seek.stts := by
  unfold seek_stss
  simp [hv]

theorem compile_seek_stss_cursor (mem : Mem) (stbl : stbl_t) (seek : seek_t) :
    (compile_seek mem stbl seek).stss = (seek_stss mem stbl (seek_stts mem stbl seek).1).stss := by
  unfold compile_seek seek_stsc seek_ctts
  dsimp only
  split <;> rfl

/-- C11. Without an `stss` box `compile_seek` performs no keyframe snapping:
the returned `stsz.index`, `stts` index and offset and `seek.time` are those
produced by the `stts` walk, for every requested time. With an `stss` box of
zero entries it does snap: every requested time whose located sample is below
`stsz.count` is moved to sample 0, and the sync cursor `stss.index` is left at
1, beyond the end of the empty table. -/
theorem compile_seek_without_stss (mem : Mem) (stbl : stbl_t) (seek : seek_t) :
    (VOID stbl.stss.atom = true →
      (compile_seek mem stbl seek).stsz.index = (seek_stts mem stbl seek).1.stsz.index ∧
      (compile_seek mem stbl seek).stts = (seek_stts mem stbl seek).1.stts ∧
      (compile_seek mem stbl seek).time = (seek_stts mem stbl seek).1.time) ∧
    (VOID stbl.stss.atom = false → stbl.stss.count = 0 →
      (seek_stts mem stbl seek).1.stsz.index < stbl.stsz.count →
      (compile_seek mem stbl seek).stsz.index = 0 ∧
      (compile_seek mem stbl seek).stss.index = 1) := by
  rw [compile_seek_sample, compile_seek_stts, compile_seek_time, compile_seek_stss_cursor]
  refine ⟨?_, ?_⟩
  · intro hv
    exact ⟨(seek_stss_void mem stbl _ hv).2, seek_stss_void_stts mem stbl _ hv,
      (seek_stss_void mem stbl _ hv).1⟩
  · intro hv hc hl
    unfold seek_stss
    simp only [hv, Bool.not_false, if_true, hl, hc]
    exact ⟨rfl, rfl⟩

/-- C11 (evaluation). On `sound_file` (no `stss`) a seek to time 3 is the one
of the `stts` walk. On `empty_stss_file` (an `stss` box with zero entries) the
same seek is located at sample 3 by the `stts` walk and returned at sample 0,
time 0, with `stss.index = 1`; for the request of the whole file the start
cursor is 1 and the end cursor 0, and the `stss` table handed to
`compile_head` has `0 - 1 = 4294967295` entries inside a box of 12 bytes. -/
theorem compile_seek_without_stss_witness :
    ((compile_seek sound_tables.1 (compile_maxs sound_tables.1 sound_tables.2)
        (seek_request 3)).stsz.index =
      (seek_stts sound_tables.1 (compile_maxs sound_tables.1 sound_tables.2)
        (seek_request 3)).1.stsz.index ∧
    (compile_seek sound_tables.1 (compile_maxs sound_tables.1 sound_tables.2)
        (seek_request 3)).stts =
      (seek_stts sound_tables.1 (compile_maxs sound_tables.1 sound_tables.2)
        (seek_request 3)).1.stts ∧
    (compile_seek sound_tables.1 (compile_maxs sound_tables.1 sound_tables.2)
        (seek_request 3)).time =
      (seek_stts sound_tables.1 (compile_maxs sound_tables.1 sound_tables.2)
        (seek_request 3)).1.time) ∧
    ((seek_stts empty_stss_tables.1 (compile_maxs empty_stss_tables.1 empty_stss_tables.2)
      (seek_request 3)).1.stsz.index = 3 ∧
     (compile_seek empty_stss_tables.1 (compile_maxs empty_stss_tables.1 empty_stss_tables.2)
      (seek_request 3)).time = 0) ∧
    ((compile_seek empty_stss_tables.1 (compile_maxs empty_stss_tables.1 empty_stss_tables.2)
      (seek_request 3)).stsz.index = 0 ∧
     (compile_seek empty_stss_tables.1 (compile_maxs empty_stss_tables.1 empty_stss_tables.2)
      (seek_request 3)).stss.index = 1) ∧
    (head_input 20 empty_stss_stream).2.2.2.moov.vtrak.start.stss.index = 1 ∧
    (head_input 20 empty_stss_stream).2.2.2.moov.vtrak.end_.stss.index = 0 ∧
    (head_input 20 empty_stss_stream).2.2.2.moov.vtrak.mdia.minf.stbl.stss.count = 4294967295 ∧
    (head_input 20 empty_stss_stream).2.2.2.moov.vtrak.mdia.minf.stbl.stss.atom.size = 12 :=
  ⟨(compile_seek_without_stss sound_tables.1 (compile_maxs sound_tables.1 sound_tables.2)
      (seek_request 3)).1 (by decide!),
   by decide!,
   (compile_seek_without_stss empty_stss_tables.1
      (compile_maxs empty_stss_tables.1 empty_stss_tables.2) (seek_request 3)).2
      (by decide!) (by decide!) (by decide!),
   by decide!, by decide!, by decide!, by decide!⟩

/-! ### Width of the chunk offsets -/

theorem seek_stsc_loop_congr (mem : Mem) (a b : stbl_t) (sample : Nat)
    (h1 : a.stsc = b.stsc) (h2 : a.max_chunks = b.max_chunks) (k index chunk c n : Nat) :
    seek_stsc_loop mem a sample k index chunk c n = seek_stsc_loop mem b sample k index chunk c n := by
  induction k generalizing index chunk c n with
  | zero => rfl
  | succ k ih =>
    unfold seek_stsc_loop
    rw [h1, h2]
    simp only [ih]

theorem w32_small (x : Nat) (h : x < 2 ^ 32) : w32 x = x := by
  unfold w32; omega

/-- The byte offset that `compile_seek` attaches to a seek record does not
depend on the width of the chunk offset entries. -/
theorem seek_stsc_width (mem : Mem) (A : stbl_t) (c4 c8 : stxx_t) (seek : seek_t) (c : Nat)
    (h4 : c4.bytes = 4) (h8 : c8.bytes = 8) (hc : c4.count = c8.count)
    (hsmall : c4.count < 2 ^ 28) (hm : A.max_chunks = c4.count)
    (he : ∀ i, i < c4.count → read_xx mem (c4.data + 4 * i) 32 = read_xx mem (c8.data + 8 * i) 64) :
    seek_stsc mem { A with coxx := c4 } seek c = seek_stsc mem { A with coxx := c8 } seek c := by
  unfold seek_stsc
  rw [seek_stsc_loop_congr mem { A with coxx := c4 } { A with coxx := c8 } _ rfl rfl]
  dsimp only
  generalize seek_stsc_loop mem { A with coxx := c8 } seek.stsz.index A.stsc.count 0 0 c 0 = r
  rw [h4, h8]
  have hread : (if w32 (r.2.1 + sub32 seek.stsz.index r.2.2.2 / r.2.2.1) < A.max_chunks then
        read_xx mem (c4.data + w32 (w32 (r.2.1 + sub32 seek.stsz.index r.2.2.2 / r.2.2.1) * 4))
          (4 <<< 3)
      else A.max_offset) =
      (if w32 (r.2.1 + sub32 seek.stsz.index r.2.2.2 / r.2.2.1) < A.max_chunks then
        read_xx mem (c8.data + w32 (w32 (r.2.1 + sub32 seek.stsz.index r.2.2.2 / r.2.2.1) * 8))
          (8 <<< 3)
      else A.max_offset) := by
    generalize w32 (r.2.1 + sub32 seek.stsz.index r.2.2.2 / r.2.2.1) = j
    by_cases hj : j < A.max_chunks
    · rw [if_pos hj, if_pos hj]
      rw [hm] at hj
      rw [w32_small (j * 4) (by omega), w32_small (j * 8) (by omega)]
      have := he j hj
      rw [Nat.mul_comm 4 j, Nat.mul_comm 8 j] at this
      exact this
    · rw [if_neg hj, if_neg hj]
  rw [hread]

/-- C12. For sample tables whose chunk offset table is not empty (and has
fewer than 2^28 entries), `compile_maxs` and `compile_seek` return the same
limits and the same seek record whether the chunk offsets are read from a
table of 4-byte entries (`stco`) or from a table of 8-byte entries (`co64`)
holding the same values. -/
theorem compile_seek_coxx_width (mem : Mem) (stbl : stbl_t) (c4 c8 : stxx_t) (seek : seek_t)
    (h4 : c4.bytes = 4) (h8 : c8.bytes = 8) (hc : c4.count = c8.count)
    (hpos : 0 < c4.count) (hsmall : c4.count < 2 ^ 28)
    (he : ∀ i, i < c4.count → read_xx mem (c4.data + 4 * i) 32 = read_xx mem (c8.data + 8 * i) 64) :
    (compile_maxs mem { stbl with coxx := c4 }).max_offset =
      (compile_maxs mem { stbl with coxx := c8 }).max_offset ∧
    (compile_maxs mem { stbl with coxx := c4 }).max_chunks =
      (compile_maxs mem { stbl with coxx := c8 }).max_chunks ∧
    (compile_maxs mem { stbl with coxx := c4 }).max_samples =
      (compile_maxs mem { stbl with coxx := c8 }).max_samples ∧
    (compile_maxs mem { stbl with coxx := c4 }).max_time =
      (compile_maxs mem { stbl with coxx := c8 }).max_time ∧
    compile_seek mem (compile_maxs mem { stbl with coxx := c4 }) seek =
      compile_seek mem (compile_maxs mem { stbl with coxx := c8 }) seek := by
  have hlast : read_xx mem (c4.data + w32 (sub32 c4.count 1 * c4.bytes)) (c4.bytes <<< 3) =
      read_xx mem (c8.data + w32 (sub32 c8.count 1 * c8.bytes)) (c8.bytes <<< 3) := by
    rw [h4, h8, ← hc]
    have e1 : sub32 c4.count 1 = c4.count - 1 := by unfold sub32; omega
    rw [e1, w32_small _ (by omega), w32_small _ (by omega)]
    have := he (c4.count - 1) (by omega)
    rw [Nat.mul_comm 4, Nat.mul_comm 8] at this
    exact this
  have hA : ∃ A : stbl_t, compile_maxs mem { stbl with coxx := c4 } = { A with coxx := c4 } ∧
      compile_maxs mem { stbl with coxx := c8 } = { A with coxx := c8 } ∧
      A.max_chunks = c4.count := by
    refine ⟨{ stbl with
      max_samples := (compile_maxs_loop mem stbl.stts.data stbl.stts.count 0 0 0).1
      max_time := (compile_maxs_loop mem stbl.stts.data stbl.stts.count 0 0 0).2
      max_chunks := c4.count
      max_offset := compile_maxs_size mem stbl.stsz
        (read_32 mem (stbl.stsc.data + w32 (w32 (sub32 stbl.stsc.count 1 * 12) + 4))) 0
        (read_xx mem (c4.data + w32 (sub32 c4.count 1 * c4.bytes)) (c4.bytes <<< 3)) },
      rfl, ?_, rfl⟩
    unfold compile_maxs
    dsimp only
    rw [← hlast, ← hc]
  obtain ⟨A, e4, e8, hm⟩ := hA
  rw [e4, e8]
  refine ⟨rfl, rfl, rfl, rfl, ?_⟩
  unfold compile_seek
  exact seek_stsc_width mem A c4 c8 _ _ h4 h8 hc hsmall hm he

/-- C12 (witness). The `stbl` of `dual_offsets_file` holds its chunk offsets
585, 605 and 625 both in an `stco` and in a `co64` box. The seek for time 8 is
snapped to sample 5 (sync sample 6), the second sample of chunk 1, at byte
offset 610, and `max_offset` is 635, whether the offsets are read through the
4-byte or through the 8-byte descriptor. -/
theorem compile_seek_coxx_width_witness :
    (dual_stco.atom.type = STCO ∧ dual_co64.atom.type = CO64 ∧
     (dual_stco.count, dual_stco.data, dual_stco.bytes) = (3, 505, 4) ∧
     (dual_co64.count, dual_co64.data, dual_co64.bytes) = (3, 533, 8) ∧
     (List.range 3).map (fun i => read_xx dual_offsets_tables.1 (dual_stco.data + 4 * i) 32) =
       [585, 605, 625] ∧
     (List.range 3).map (fun i => read_xx dual_offsets_tables.1 (dual_co64.data + 8 * i) 64) =
       [585, 605, 625]) ∧
    ((compile_maxs dual_offsets_tables.1 { dual_offsets_tables.2 with coxx := dual_stco }).max_offset =
      (compile_maxs dual_offsets_tables.1 { dual_offsets_tables.2 with coxx := dual_co64 }).max_offset ∧
    (compile_maxs dual_offsets_tables.1 { dual_offsets_tables.2 with coxx := dual_stco }).max_chunks =
      (compile_maxs dual_offsets_tables.1 { dual_offsets_tables.2 with coxx := dual_co64 }).max_chunks ∧
    (compile_maxs dual_offsets_tables.1 { dual_offsets_tables.2 with coxx := dual_stco }).max_samples =
      (compile_maxs dual_offsets_tables.1 { dual_offsets_tables.2 with coxx := dual_co64 }).max_samples ∧
    (compile_maxs dual_offsets_tables.1 { dual_offsets_tables.2 with coxx := dual_stco }).max_time =
      (compile_maxs dual_offsets_tables.1 { dual_offsets_tables.2 with coxx := dual_co64 }).max_time ∧
    compile_seek dual_offsets_tables.1
        (compile_maxs dual_offsets_tables.1 { dual_offsets_tables.2 with coxx := dual_stco })
        (seek_request 8) =
      compile_seek dual_offsets_tables.1
        (compile_maxs dual_offsets_tables.1 { dual_offsets_tables.2 with coxx := dual_co64 })
        (seek_request 8)) ∧
    ((compile_maxs dual_offsets_tables.1
        { dual_offsets_tables.2 with coxx := dual_stco }).max_offset = 635 ∧
     (seek_at dual_offsets_tables 8).stsz.index = 5 ∧
     (seek_at dual_offsets_tables 8).coxx = { index := 1, offset := 1 } ∧
     (seek_at dual_offsets_tables 8).offset = 610 ∧
     (compile_seek dual_offsets_tables.1
        (compile_maxs dual_offsets_tables.1 { dual_offsets_tables.2 with coxx := dual_stco })
        (seek_request 8)).offset = 610) :=
  ⟨by decide!,
   compile_seek_coxx_width dual_offsets_tables.1 dual_offsets_tables.2 dual_stco dual_co64
     (seek_request 8) (by decide!) (by decide!) (by decide!) (by decide!) (by decide!)
     (by decide!),
   by decide!⟩

/-! ### Byte limits of the response body -/

theorem compile_trak_offsets_spec (stream : stream_t) (scale : Nat) (S E : seek_t) :
    (compile_trak_offsets stream scale S E).file_offset =
      (if stream.file_offset = 0 ∨ stream.file_offset > S.offset then S.offset
       else stream.file_offset) ∧
    (compile_trak_offsets stream scale S E).file_finish =
      (if stream.file_finish = 0 ∨ stream.file_finish < E.offset then E.offset
       else stream.file_finish) := by
  obtain ⟨a1, a2, a3, a4, a5, a6, a7, a8, a9, a10, a11, a12, a13, a14, a15, a16, a17, a18,
    a19, a20, a21, a22, a23, a24, a25, a26, a27, a28, a29, a30, a31, a32, a33⟩ :=
    stream
  unfold compile_trak_offsets
  dsimp only
  by_cases h1 : a18 = 0 ∨ a18 > S.offset <;> by_cases h2 : a17 = 0 ∨ a17 < E.offset <;>
    simp [h1, h2]

/-- The byte limits after `compile_trak` on one present track. -/
theorem compile_trak_limits (stream : stream_t) (mvhd_scale : Nat) (mem : Mem) (trak : trak_t)
    (hv : VOID trak.atom = false) :
    (compile_trak stream mvhd_scale mem trak).1.file_offset =
      (if stream.file_offset = 0 ∨
          stream.file_offset > (compile_trak stream mvhd_scale mem trak).2.2.start.offset then
        (compile_trak stream mvhd_scale mem trak).2.2.start.offset
       else stream.file_offset) ∧
    (compile_trak stream mvhd_scale mem trak).1.file_finish =
      (if stream.file_finish = 0 ∨
          stream.file_finish < (compile_trak stream mvhd_scale mem trak).2.2.end_.offset then
        (compile_trak stream mvhd_scale mem trak).2.2.end_.offset
       else stream.file_finish) := by
  obtain ⟨q1, q2, q3, q4, q5⟩ := compile_trak_seeks stream mvhd_scale mem trak hv
  obtain ⟨o1, o2⟩ := compile_trak_offsets_spec stream trak.mdia.mdhd.scale
    (compile_trak_seek stream mem trak).1 (compile_trak_seek stream mem trak).2
  rw [q1, q3, q5]
  exact ⟨o1, o2⟩

/-- C13 (amended). After `compile_trak` has run for every participating
track, `stream.file_finish` is the maximum of the participating tracks' end
byte offsets; `stream.file_offset` is the minimum of their start byte offsets
when only one track participates or when the start offset of the video track
is not zero, and is the start offset of the sound track when the start offset
of the video track is zero. -/
theorem prepare_limits_min_max (self : stream_t) (mem : Mem) (file : file_t) :
    (VOID file.moov.vtrak.atom = false → VOID file.moov.strak.atom = true →
      (prepare self mem file).1.file_offset =
        (prepare self mem file).2.2.moov.vtrak.start.offset ∧
      (prepare self mem file).1.file_finish =
        (prepare self mem file).2.2.moov.vtrak.end_.offset) ∧
    (VOID file.moov.vtrak.atom = true → VOID file.moov.strak.atom = false →
      (prepare self mem file).1.file_offset =
        (prepare self mem file).2.2.moov.strak.start.offset ∧
      (prepare self mem file).1.file_finish =
        (prepare self mem file).2.2.moov.strak.end_.offset) ∧
    (VOID file.moov.vtrak.atom = false → VOID file.moov.strak.atom = false →
      (prepare self mem file).1.file_offset =
        (if (prepare self mem file).2.2.moov.vtrak.start.offset = 0 then
          (prepare self mem file).2.2.moov.strak.start.offset
         else MIN (prepare self mem file).2.2.moov.vtrak.start.offset
          (prepare self mem file).2.2.moov.strak.start.offset) ∧
      (prepare self mem file).1.file_finish =
        MAX (prepare self mem file).2.2.moov.vtrak.end_.offset
          (prepare self mem file).2.2.moov.strak.end_.offset) := by
  have hp : prepare self mem file = prepare_seek
      (prepare_limits self mem (prepare_maxs mem file)) mem (prepare_maxs mem file) := rfl
  rw [hp]
  generalize hG : prepare_maxs mem file = G
  obtain ⟨g0, g1, g2, g3, g4⟩ := prepare_maxs_tracks mem file G hG
  generalize prepare_limits self mem G = self1
  generalize hP : prepare_seek self1 mem G = P
  obtain ⟨p1, p2, p3⟩ := prepare_seek_tracks self1 mem G P hP
  generalize hs0 : ({ self1 with file_offset := 0, file_finish := 0 } : stream_t) = s0 at *
  have s0c : s0.file_offset = 0 := by rw [← hs0]
  have s0d : s0.file_finish = 0 := by rw [← hs0]
  have hvG : ∀ b, VOID file.moov.vtrak.atom = b → VOID G.moov.vtrak.atom = b := by
    intro b hb
    cases b
    · rw [g3 hb]; exact hb
    · rw [g1 hb]; exact hb
  have hsG : ∀ b, VOID file.moov.strak.atom = b → VOID G.moov.strak.atom = b := by
    intro b hb
    cases b
    · rw [g4 hb]; exact hb
    · rw [g2 hb]; exact hb
  refine ⟨?_, ?_, ?_⟩
  · intro hv hs
    obtain ⟨l1, l2⟩ := compile_trak_limits s0 G.moov.mvhd.scale mem G.moov.vtrak (hvG _ hv)
    rw [compile_trak_void_all _ _ _ _ (hsG _ hs)] at p1
    rw [p1, p2, l1, l2, s0c, s0d]
    simp
  · intro hv hs
    rw [compile_trak_void_all _ _ _ _ (hvG _ hv)] at p1 p3
    obtain ⟨l1, l2⟩ := compile_trak_limits s0 G.moov.mvhd.scale mem G.moov.strak (hsG _ hs)
    rw [p1, p3, l1, l2, s0c, s0d]
    simp
  · intro hv hs
    obtain ⟨l1, l2⟩ := compile_trak_limits s0 G.moov.mvhd.scale mem G.moov.vtrak (hvG _ hv)
    rw [s0c] at l1
    rw [s0d] at l2
    simp only [true_or, if_true] at l1 l2
    obtain ⟨k1, k2⟩ := compile_trak_limits
      (compile_trak s0 G.moov.mvhd.scale mem G.moov.vtrak).1 G.moov.mvhd.scale
      (compile_trak s0 G.moov.mvhd.scale mem G.moov.vtrak).2.1 G.moov.strak (hsG _ hs)
    rw [l1] at k1
    rw [l2] at k2
    rw [p1, p2, p3, k1, k2]
    generalize (compile_trak s0 G.moov.mvhd.scale mem G.moov.vtrak).2.2.start.offset = a
    generalize (compile_trak s0 G.moov.mvhd.scale mem G.moov.vtrak).2.2.end_.offset = b
    generalize (compile_trak (compile_trak s0 G.moov.mvhd.scale mem G.moov.vtrak).1
      G.moov.mvhd.scale (compile_trak s0 G.moov.mvhd.scale mem G.moov.vtrak).2.1
      G.moov.strak).2.2.start.offset = c
    generalize (compile_trak (compile_trak s0 G.moov.mvhd.scale mem G.moov.vtrak).1
      G.moov.mvhd.scale (compile_trak s0 G.moov.mvhd.scale mem G.moov.vtrak).2.1
      G.moov.strak).2.2.end_.offset = d
    unfold MIN MAX
    refine ⟨?_, ?_⟩
    · by_cases ha : a = 0
      · simp [ha]
      · simp only [ha, false_or, if_false]
        split <;> split <;> omega
    · by_cases hb : b = 0
      · subst hb
        simp
      · simp only [hb, false_or]
        split <;> split <;> omega

/-- C13 (counterexample). On `zero_offset_file`, requested from the beginning,
both tracks take part: the video track starts at byte offset 0 and the sound
track at byte offset 798, yet `file_offset` is 798 and not the minimum 0. -/
theorem prepare_limits_min_max_counterexample :
    (stream_mp4_parse 20 zero_offset_stream).map (fun r => (r.1, r.2.file_offset)) =
      some (0, 798) ∧
    (prepare (meta_input 20 zero_offset_stream).1 (meta_input 20 zero_offset_stream).2.1
      (meta_input 20 zero_offset_stream).2.2).1.file_offset = 798 ∧
    (prepare (meta_input 20 zero_offset_stream).1 (meta_input 20 zero_offset_stream).2.1
      (meta_input 20 zero_offset_stream).2.2).2.2.moov.vtrak.start.offset = 0 ∧
    (prepare (meta_input 20 zero_offset_stream).1 (meta_input 20 zero_offset_stream).2.1
      (meta_input 20 zero_offset_stream).2.2).2.2.moov.strak.start.offset = 798 ∧
    VOID (meta_input 20 zero_offset_stream).2.2.moov.vtrak.atom = false ∧
    VOID (meta_input 20 zero_offset_stream).2.2.moov.strak.atom = false := by
  decide!

theorem prepare_limits_min_max_witness :
    (VOID (meta_input 20 av_stream).2.2.moov.vtrak.atom = false ∧
      VOID (meta_input 20 av_stream).2.2.moov.strak.atom = false) ∧
    (prepare (meta_input 20 av_stream).1 (meta_input 20 av_stream).2.1
      (meta_input 20 av_stream).2.2).2.2.moov.vtrak.start.offset = 790 ∧
    (prepare (meta_input 20 av_stream).1 (meta_input 20 av_stream).2.1
      (meta_input 20 av_stream).2.2).2.2.moov.strak.start.offset = 798 ∧
    ((prepare (meta_input 20 av_stream).1 (meta_input 20 av_stream).2.1
        (meta_input 20 av_stream).2.2).1.file_offset =
      (if (prepare (meta_input 20 av_stream).1 (meta_input 20 av_stream).2.1
          (meta_input 20 av_stream).2.2).2.2.moov.vtrak.start.offset = 0 then
        (prepare (meta_input 20 av_stream).1 (meta_input 20 av_stream).2.1
          (meta_input 20 av_stream).2.2).2.2.moov.strak.start.offset
       else MIN (prepare (meta_input 20 av_stream).1 (meta_input 20 av_stream).2.1
          (meta_input 20 av_stream).2.2).2.2.moov.vtrak.start.offset
        (prepare (meta_input 20 av_stream).1 (meta_input 20 av_stream).2.1
          (meta_input 20 av_stream).2.2).2.2.moov.strak.start.offset) ∧
      (prepare (meta_input 20 av_stream).1 (meta_input 20 av_stream).2.1
        (meta_input 20 av_stream).2.2).1.file_finish =
      MAX (prepare (meta_input 20 av_stream).1 (meta_input 20 av_stream).2.1
          (meta_input 20 av_stream).2.2).2.2.moov.vtrak.end_.offset
        (prepare (meta_input 20 av_stream).1 (meta_input 20 av_stream).2.1
          (meta_input 20 av_stream).2.2).2.2.moov.strak.end_.offset) :=
  ⟨⟨by decide!, by decide!⟩, by decide!, by decide!,
    (prepare_limits_min_max (meta_input 20 av_stream).1 (meta_input 20 av_stream).2.1
      (meta_input 20 av_stream).2.2).2.2 (by decide!) (by decide!)⟩

/-! ### Selection of the tracks -/

theorem data_atom_parent_size (mem : Mem) (parent atom : atom_t) :
    (data_atom mem parent atom).2.1.size = parent.size := by
  obtain ⟨a1, a2, a3, a4, a5, a6, a7, a8, a9⟩ := parent
  unfold data_atom
  dsimp only
  cases a6 with
  | none => rfl
  | some d =>
    dsimp only
    split
    · rfl
    · split
      · split
        · rfl
        · rfl
      · rfl

theorem parse_trak_loop_step (mem : Mem) (fuel left : Nat) (trak : trak_t) (atom : atom_t) :
    parse_trak_loop mem (fuel + 1) left trak atom =
      if left > 0 ∧ trak.atom.data_position < trak.atom.data_size then
        if (data_atom mem trak.atom atom).1 = TKHD then
          parse_trak_loop mem fuel (left - 1)
            { trak with atom := (data_atom mem trak.atom atom).2.1,
                        tkhd := { trak.tkhd with atom := (data_atom mem trak.atom atom).2.2 } }
            (data_atom mem trak.atom atom).2.2
        else if (data_atom mem trak.atom atom).1 = MDIA then
          match parse_mdia mem fuel { trak.mdia with atom := (data_atom mem trak.atom atom).2.2 } with
          | none => none
          | some (rc, mdia) =>
            if rc ≠ 0 then some (1, { trak with atom := (data_atom mem trak.atom atom).2.1, mdia := mdia })
            else parse_trak_loop mem fuel (left - 1)
              { trak with atom := (data_atom mem trak.atom atom).2.1, mdia := mdia }
              (data_atom mem trak.atom atom).2.2
        else
          parse_trak_loop mem fuel left { trak with atom := (data_atom mem trak.atom atom).2.1 }
            (data_atom mem trak.atom atom).2.2
      else some (0, trak) := rfl

theorem parse_trak_loop_size (mem : Mem) (fuel left : Nat) (trak : trak_t) (atom : atom_t)
    (R : Nat × trak_t) (h : parse_trak_loop mem fuel left trak atom = some R) :
    R.2.atom.size = trak.atom.size := by
  induction fuel generalizing left trak atom with
  | zero => simp [parse_trak_loop] at h
  | succ fuel ih =>
    rw [parse_trak_loop_step] at h
    by_cases hc : left > 0 ∧ trak.atom.data_position < trak.atom.data_size
    · rw [if_pos hc] at h
      have hs := data_atom_parent_size mem trak.atom atom
      by_cases h1 : (data_atom mem trak.atom atom).1 = TKHD
      · rw [if_pos h1] at h
        rw [ih _ _ _ h]
        exact hs
      · rw [if_neg h1] at h
        by_cases h2 : (data_atom mem trak.atom atom).1 = MDIA
        · rw [if_pos h2] at h
          split at h
          · simp at h
          · rename_i rc mdia hm
            by_cases h3 : rc ≠ 0
            · rw [if_pos h3] at h
              simp only [Option.some.injEq] at h
              subst h
              exact hs
            · rw [if_neg h3] at h
              rw [ih _ _ _ h]
              exact hs
        · rw [if_neg h2] at h
          rw [ih _ _ _ h]
          exact hs
    · rw [if_neg hc] at h
      simp only [Option.some.injEq] at h
      subst h
      rfl

theorem parse_trak_size (mem : Mem) (fuel : Nat) (trak : trak_t) (R : Nat × trak_t)
    (h : parse_trak mem fuel trak = some R) : R.2.atom.size = trak.atom.size := by
  unfold parse_trak at h
  split at h
  · simp at h
  · rename_i rc t hl
    have hs := parse_trak_loop_size mem fuel 2 _ _ _ hl
    simp only at hs
    split_ifs at h <;> simp only [Option.some.injEq] at h <;> subst h <;> exact hs

theorem parse_moov_loop_step (mem : Mem) (fuel left : Nat) (moov : moov_t) (atom : atom_t) :
    parse_moov_loop mem (fuel + 1) left moov atom =
      if left > 0 ∧ moov.atom.data_position < moov.atom.data_size then
        if (data_atom mem moov.atom atom).1 = MVHD then
          parse_moov_loop mem fuel (left - 1)
            { moov with atom := (data_atom mem moov.atom atom).2.1,
                        mvhd := { moov.mvhd with atom := (data_atom mem moov.atom atom).2.2 } }
            (data_atom mem moov.atom atom).2.2
        else if (data_atom mem moov.atom atom).1 = TRAK then
          match parse_trak mem fuel { atom := (data_atom mem moov.atom atom).2.2 } with
          | none => none
          | some (rc, trak) =>
            if rc ≠ 0 then some (1, { moov with atom := (data_atom mem moov.atom atom).2.1 })
            else if trak.tkhd.flags &&& 1 = 0 then
              parse_moov_loop mem fuel left { moov with atom := (data_atom mem moov.atom atom).2.1 }
                (data_atom mem moov.atom atom).2.2
            else if trak.mdia.minf.xmhd.atom.type = VMHD then
              if VOID moov.vtrak.atom then
                parse_moov_loop mem fuel (left - 1)
                  { moov with atom := (data_atom mem moov.atom atom).2.1, vtrak := trak }
                  (data_atom mem moov.atom atom).2.2
              else parse_moov_loop mem fuel left
                { moov with atom := (data_atom mem moov.atom atom).2.1 }
                (data_atom mem moov.atom atom).2.2
            else if trak.mdia.minf.xmhd.atom.type = SMHD then
              if VOID moov.strak.atom then
                parse_moov_loop mem fuel (left - 1)
                  { moov with atom := (data_atom mem moov.atom atom).2.1, strak := trak }
                  (data_atom mem moov.atom atom).2.2
              else parse_moov_loop mem fuel left
                { moov with atom := (data_atom mem moov.atom atom).2.1 }
                (data_atom mem moov.atom atom).2.2
            else parse_moov_loop mem fuel left
              { moov with atom := (data_atom mem moov.atom atom).2.1 }
              (data_atom mem moov.atom atom).2.2
        else if (data_atom mem moov.atom atom).1 = CMOV then
          some (1, { moov with atom := (data_atom mem moov.atom atom).2.1 })
        else
          parse_moov_loop mem fuel left { moov with atom := (data_atom mem moov.atom atom).2.1 }
            (data_atom mem moov.atom atom).2.2
      else some (0, moov) := rfl

theorem moov_walk_step (mem : Mem) (fuel : Nat) (parent atom : atom_t) :
    moov_walk mem (fuel + 1) parent atom =
      if parent.data_position < parent.data_size then
        ((data_atom mem parent atom).1, (data_atom mem parent atom).2.2,
          if (data_atom mem parent atom).1 = TRAK then
            parse_trak mem fuel { atom := (data_atom mem parent atom).2.2 }
          else none) ::
          moov_walk mem fuel (data_atom mem parent atom).2.1 (data_atom mem parent atom).2.2
      else [] := rfl

theorem first_track_cons (kind : Nat) (c : Nat × atom_t × Option (Nat × trak_t))
    (cs : List (Nat × atom_t × Option (Nat × trak_t))) :
    first_track kind (c :: cs) =
      match enabled_track kind c with
      | some trak => some trak
      | none => first_track kind cs := rfl

theorem first_track_skip (kind : Nat) (c : Nat × atom_t × Option (Nat × trak_t))
    (cs : List (Nat × atom_t × Option (Nat × trak_t))) (h : enabled_track kind c = none) :
    first_track kind (c :: cs) = first_track kind cs := by
  rw [first_track_cons, h]

theorem first_track_take (kind : Nat) (c : Nat × atom_t × Option (Nat × trak_t))
    (cs : List (Nat × atom_t × Option (Nat × trak_t))) (trak : trak_t)
    (h : enabled_track kind c = some trak) :
    first_track kind (c :: cs) = some trak := by
  rw [first_track_cons, h]

theorem enabled_track_trak (kind ty : Nat) (a : atom_t) (rc : Nat) (trak : trak_t) :
    enabled_track kind (ty, a, some (rc, trak)) =
      if ty = TRAK ∧ rc = 0 ∧ trak.tkhd.flags &&& 1 ≠ 0 ∧
          trak.mdia.minf.xmhd.atom.type = kind then some trak
      else none := rfl

theorem enabled_track_none (kind ty : Nat) (a : atom_t) :
    enabled_track kind (ty, a, none) = none := rfl

theorem mvhd_boxes_cons (c : Nat × atom_t × Option (Nat × trak_t))
    (cs : List (Nat × atom_t × Option (Nat × trak_t))) :
    mvhd_boxes (c :: cs) = (if c.1 = MVHD then 1 else 0) + mvhd_boxes cs := rfl

theorem parse_moov_loop_first (mem : Mem) (fuel left : Nat) (moov : moov_t) (atom : atom_t)
    (R : Nat × moov_t)
    (hb : (if VOID moov.vtrak.atom then 1 else 0) + (if VOID moov.strak.atom then 1 else 0) +
      mvhd_boxes (moov_walk mem fuel moov.atom atom) ≤ left)
    (hz : ∀ c ∈ moov_walk mem fuel moov.atom atom, c.1 = TRAK → VOID c.2.1 = false)
    (h : parse_moov_loop mem fuel left moov atom = some R) (h0 : R.1 = 0) :
    R.2.vtrak = (if VOID moov.vtrak.atom then
        (first_track VMHD (moov_walk mem fuel moov.atom atom)).getD moov.vtrak
      else moov.vtrak) ∧
    R.2.strak = (if VOID moov.strak.atom then
        (first_track SMHD (moov_walk mem fuel moov.atom atom)).getD moov.strak
      else moov.strak) := by
  induction fuel generalizing left moov atom with
  | zero => simp [parse_moov_loop] at h
  | succ fuel ih =>
    rw [parse_moov_loop_step] at h
    rw [moov_walk_step] at hb hz ⊢
    by_cases hp : moov.atom.data_position < moov.atom.data_size
    · rw [if_pos hp] at hb hz ⊢
      rw [mvhd_boxes_cons] at hb
      rw [List.forall_mem_cons] at hz
      obtain ⟨hz1, hz2⟩ := hz
      by_cases hl : left > 0
      · rw [if_pos ⟨hl, hp⟩] at h
        generalize data_atom mem moov.atom atom = r at h hb hz1 hz2 ⊢
        obtain ⟨ty, par, a⟩ := r
        simp only at h hb hz1 hz2 ⊢
        generalize hnv : (if VOID moov.vtrak.atom = true then 1 else 0) = nv at hb
        generalize hns : (if VOID moov.strak.atom = true then 1 else 0) = ns at hb
        by_cases c1 : ty = MVHD
        · rw [if_pos c1] at h hb
          have c2 : ¬ ty = TRAK := by rw [c1]; decide
          rw [if_neg c2]
          obtain ⟨i1, i2⟩ := ih (left - 1) _ _
            (by simp only; rw [hnv, hns]; omega) hz2 h
          rw [first_track_skip _ _ _ (enabled_track_none _ _ _),
            first_track_skip _ _ _ (enabled_track_none _ _ _)]
          exact ⟨i1, i2⟩
        · rw [if_neg c1] at h hb
          by_cases c2 : ty = TRAK
          · rw [if_pos c2] at h ⊢
            cases hq : parse_trak mem fuel { atom := a } with
            | none => rw [hq] at h; simp at h
            | some q =>
              obtain ⟨rc, trak⟩ := q
              have hsz := parse_trak_size mem fuel _ _ hq
              simp only at hsz
              have hvt : VOID trak.atom = false := by
                have := hz1 c2
                unfold VOID at this ⊢
                rw [hsz]
                exact this
              rw [hq] at h
              simp only at h
              clear hq hsz
              have c2t : ty = TRAK := c2
              have hk : ¬ VMHD = SMHD := by decide
              have hk2 : ¬ SMHD = VMHD := by decide
              by_cases c3 : rc ≠ 0
              · rw [if_pos c3] at h
                simp only [Option.some.injEq] at h
                subst h
                simp at h0
              · rw [if_neg c3] at h
                by_cases c4 : trak.tkhd.flags &&& 1 = 0
                · rw [if_pos c4] at h
                  obtain ⟨i1, i2⟩ := ih left _ _
                    (by simp only; rw [hnv, hns]; omega) hz2 h
                  rw [first_track_skip _ _ _ (by rw [enabled_track_trak]; simp [c4]),
                    first_track_skip _ _ _ (by rw [enabled_track_trak]; simp [c4])]
                  exact ⟨i1, i2⟩
                · rw [if_neg c4] at h
                  have c3z : rc = 0 := by omega
                  by_cases c5 : trak.mdia.minf.xmhd.atom.type = VMHD
                  · rw [if_pos c5] at h
                    have es : enabled_track SMHD (ty, a, some (rc, trak)) = none := by
                      rw [enabled_track_trak, c5]; simp [hk]
                    rw [first_track_skip _ _ _ es]
                    by_cases hv : VOID moov.vtrak.atom = true
                    · rw [if_pos hv] at h hnv ⊢
                      have ev : enabled_track VMHD (ty, a, some (rc, trak)) = some trak := by
                        rw [enabled_track_trak, if_pos ⟨c2t, c3z, c4, c5⟩]
                      rw [first_track_take _ _ _ trak ev]
                      obtain ⟨i1, i2⟩ := ih (left - 1) _ _
                        (by simp only; rw [hvt, hns]; simp; omega) hz2 h
                      simp only at i1 i2
                      rw [hvt] at i1
                      simp at i1
                      exact ⟨by simpa using i1, i2⟩
                    · rw [if_neg hv] at h ⊢
                      obtain ⟨i1, i2⟩ := ih left _ _
                        (by simp only; rw [hnv, hns]; omega) hz2 h
                      simp only at i1 i2
                      rw [if_neg hv] at i1
                      exact ⟨i1, i2⟩
                  · rw [if_neg c5] at h
                    have ev : enabled_track VMHD (ty, a, some (rc, trak)) = none := by
                      rw [enabled_track_trak]; simp [c5]
                    rw [first_track_skip _ _ _ ev]
                    by_cases c6 : trak.mdia.minf.xmhd.atom.type = SMHD
                    · rw [if_pos c6] at h
                      by_cases hs : VOID moov.strak.atom = true
                      · rw [if_pos hs] at h hns ⊢
                        have es : enabled_track SMHD (ty, a, some (rc, trak)) = some trak := by
                          rw [enabled_track_trak, if_pos ⟨c2t, c3z, c4, c6⟩]
                        rw [first_track_take _ _ _ trak es]
                        obtain ⟨i1, i2⟩ := ih (left - 1) _ _
                          (by simp only; rw [hvt, hnv]; simp; omega) hz2 h
                        simp only at i1 i2
                        rw [hvt] at i2
                        simp at i2
                        exact ⟨i1, by simpa using i2⟩
                      · rw [if_neg hs] at h ⊢
                        obtain ⟨i1, i2⟩ := ih left _ _
                          (by simp only; rw [hnv, hns]; omega) hz2 h
                        simp only at i1 i2
                        rw [if_neg hs] at i2
                        exact ⟨i1, i2⟩
                    · rw [if_neg c6] at h
                      have es : enabled_track SMHD (ty, a, some (rc, trak)) = none := by
                        rw [enabled_track_trak]; simp [c6]
                      rw [first_track_skip _ _ _ es]
                      exact ih left _ _ (by simp only; rw [hnv, hns]; omega) hz2 h
          · rw [if_neg c2] at h ⊢
            rw [first_track_skip _ _ _ (enabled_track_none _ _ _),
              first_track_skip _ _ _ (enabled_track_none _ _ _)]
            by_cases c7 : ty = CMOV
            · rw [if_pos c7] at h
              simp only [Option.some.injEq] at h
              subst h
              simp at h0
            · rw [if_neg c7] at h
              exact ih left _ _ (by simp only; rw [hnv, hns]; omega) hz2 h
      · rw [if_neg (by omega)] at h
        simp only [Option.some.injEq] at h
        subst h
        have hv : VOID moov.vtrak.atom = false := by
          cases hh : VOID moov.vtrak.atom
          · rfl
          · rw [hh] at hb; simp at hb; omega
        have hs : VOID moov.strak.atom = false := by
          cases hh : VOID moov.strak.atom
          · rfl
          · rw [hh] at hb; simp at hb; omega
        simp [hv, hs]
    · rw [if_neg hp] at hb hz ⊢
      rw [if_neg (by intro hh; exact hp hh.2)] at h
      simp only [Option.some.injEq] at h
      subst h
      simp [first_track]

theorem parse_moov_loop_returns (mem : Mem) (fuel left : Nat) (moov : moov_t) (atom : atom_t)
    (hn : (moov_walk mem fuel moov.atom atom).length < fuel)
    (ht : ∀ c ∈ moov_walk mem fuel moov.atom atom, c.1 = TRAK → c.2.2.isSome = true) :
    ∃ R, parse_moov_loop mem fuel left moov atom = some R := by
  induction fuel generalizing left moov atom with
  | zero => simp at hn
  | succ fuel ih =>
    rw [parse_moov_loop_step]
    rw [moov_walk_step] at hn ht
    by_cases hp : moov.atom.data_position < moov.atom.data_size
    · rw [if_pos hp] at hn ht
      rw [List.forall_mem_cons] at ht
      obtain ⟨ht1, ht2⟩ := ht
      rw [List.length_cons] at hn
      have hn2 := Nat.lt_of_succ_lt_succ hn
      by_cases hl : left > 0
      · rw [if_pos ⟨hl, hp⟩]
        generalize data_atom mem moov.atom atom = r at ht1 ht2 hn2 ⊢
        obtain ⟨ty, par, a⟩ := r
        simp only at ht1 ht2 hn2 ⊢
        by_cases c1 : ty = MVHD
        · rw [if_pos c1]
          exact ih _ _ _ hn2 ht2
        · rw [if_neg c1]
          by_cases c2 : ty = TRAK
          · rw [if_pos c2] at ht1 ⊢
            have hq := ht1 c2
            cases hq2 : parse_trak mem fuel { atom := a } with
            | none => rw [hq2] at hq; simp at hq
            | some q =>
              obtain ⟨rc, trak⟩ := q
              clear hq2 hq ht1
              simp only
              by_cases c3 : rc ≠ 0
              · rw [if_pos c3]
                exact ⟨_, rfl⟩
              · rw [if_neg c3]
                by_cases c4 : trak.tkhd.flags &&& 1 = 0
                · rw [if_pos c4]
                  exact ih _ _ _ hn2 ht2
                · rw [if_neg c4]
                  by_cases c5 : trak.mdia.minf.xmhd.atom.type = VMHD
                  · rw [if_pos c5]
                    by_cases hv : VOID moov.vtrak.atom = true
                    · rw [if_pos hv]
                      exact ih _ _ _ hn2 ht2
                    · rw [if_neg hv]
                      exact ih _ _ _ hn2 ht2
                  · rw [if_neg c5]
                    by_cases c6 : trak.mdia.minf.xmhd.atom.type = SMHD
                    · rw [if_pos c6]
                      by_cases hs : VOID moov.strak.atom = true
                      · rw [if_pos hs]
                        exact ih _ _ _ hn2 ht2
                      · rw [if_neg hs]
                        exact ih _ _ _ hn2 ht2
                    · rw [if_neg c6]
                      exact ih _ _ _ hn2 ht2
          · rw [if_neg c2]
            by_cases c7 : ty = CMOV
            · rw [if_pos c7]
              exact ⟨_, rfl⟩
            · rw [if_neg c7]
              exact ih _ _ _ hn2 ht2
      · rw [if_neg (by omega)]
        exact ⟨_, rfl⟩
    · rw [if_neg (by intro hh; exact hp hh.2)]
      exact ⟨_, rfl⟩

theorem first_track_spec (kind : Nat) (cs : List (Nat × atom_t × Option (Nat × trak_t)))
    (trak : trak_t) (h : first_track kind cs = some trak) :
    trak.tkhd.flags &&& 1 ≠ 0 ∧ trak.mdia.minf.xmhd.atom.type = kind := by
  induction cs with
  | nil => simp [first_track] at h
  | cons c cs ih =>
    rw [first_track_cons] at h
    cases he : enabled_track kind c with
    | none =>
      rw [he] at h
      exact ih h
    | some t =>
      rw [he] at h
      simp only [Option.some.injEq] at h
      subst h
      obtain ⟨ty, a, p⟩ := c
      cases p with
      | none => simp [enabled_track] at he
      | some q =>
        obtain ⟨rc, t2⟩ := q
        rw [enabled_track_trak] at he
        by_cases hc : ty = TRAK ∧ rc = 0 ∧ t2.tkhd.flags &&& 1 ≠ 0 ∧
            t2.mdia.minf.xmhd.atom.type = kind
        · rw [if_pos hc] at he
          simp only [Option.some.injEq] at he
          subst he
          exact ⟨hc.2.2.1, hc.2.2.2⟩
        · rw [if_neg hc] at he
          simp at he

/-- C14 (amended). For a `moov` whose track slots are empty before the call,
whose child walk ends, with at most one `mvhd` child and no `trak` child of
size 0, `parse_moov` returns; when it reports success, the video (resp. sound)
track is the first `trak` child, in file order, that `parse_trak` accepts,
whose `tkhd` flags have bit `0x000001` set and whose `minf` header is a `vmhd`
(resp. `smhd`), and the slot stays empty when there is none. A track that is
selected is enabled and of that kind, and a later `trak` of the same kind does
not replace it. -/
theorem parse_moov_selects (mem : Mem) (fuel : Nat) (moov : moov_t)
    (h0 : VOID moov.vtrak.atom = true ∧ VOID moov.strak.atom = true)
    (h1 : mvhd_boxes (moov_walk mem fuel { moov.atom with data_position := 0 } {}) ≤ 1)
    (h2 : ∀ c ∈ moov_walk mem fuel { moov.atom with data_position := 0 } {},
      c.1 = TRAK → VOID c.2.1 = false)
    (h3 : (moov_walk mem fuel { moov.atom with data_position := 0 } {}).length < fuel)
    (h4 : ∀ c ∈ moov_walk mem fuel { moov.atom with data_position := 0 } {},
      c.1 = TRAK → c.2.2.isSome = true) :
    ∃ R, parse_moov mem fuel moov = some R ∧
      (R.1 = 0 →
        R.2.1.vtrak = (first_track VMHD
          (moov_walk mem fuel { moov.atom with data_position := 0 } {})).getD moov.vtrak ∧
        R.2.1.strak = (first_track SMHD
          (moov_walk mem fuel { moov.atom with data_position := 0 } {})).getD moov.strak) ∧
      (∀ kind trak, first_track kind
          (moov_walk mem fuel { moov.atom with data_position := 0 } {}) = some trak →
        trak.tkhd.flags &&& 1 ≠ 0 ∧ trak.mdia.minf.xmhd.atom.type = kind) := by
  obtain ⟨L, hL⟩ := parse_moov_loop_returns mem fuel 3
    { moov with atom := { moov.atom with data_position := 0 } } {} h3 h4
  have hf := parse_moov_loop_first mem fuel 3
    { moov with atom := { moov.atom with data_position := 0 } } {} L
    (by
      show (if VOID moov.vtrak.atom = true then 1 else 0) +
        (if VOID moov.strak.atom = true then 1 else 0) +
        mvhd_boxes (moov_walk mem fuel { moov.atom with data_position := 0 } {}) ≤ 3
      rw [h0.1, h0.2]
      simp only [if_true]
      exact Nat.add_le_add_left h1 2) h2 hL
  simp only at hf
  rw [h0.1, h0.2] at hf
  simp only [if_true] at hf
  unfold parse_moov
  rw [hL]
  obtain ⟨rc, M⟩ := L
  simp only at hf ⊢
  by_cases c1 : rc ≠ 0
  · rw [if_pos c1]
    exact ⟨_, rfl, by intro hh; simp at hh, fun kind trak hk => first_track_spec _ _ _ hk⟩
  · rw [if_neg c1]
    by_cases c2 : VOID M.mvhd.atom = true
    · rw [if_pos c2]
      exact ⟨_, rfl, by intro hh; simp at hh, fun kind trak hk => first_track_spec _ _ _ hk⟩
    · rw [if_neg c2]
      by_cases c3 : (VOID M.vtrak.atom && VOID M.strak.atom) = true
      · rw [if_pos c3]
        exact ⟨_, rfl, by intro hh; simp at hh, fun kind trak hk => first_track_spec _ _ _ hk⟩
      · rw [if_neg c3]
        exact ⟨_, rfl, fun _ => hf (by omega), fun kind trak hk => first_track_spec _ _ _ hk⟩

/-- C14 (counterexample). In `twin_mvhd_file` the children of `moov` are
`mvhd`, `mvhd`, an enabled video `trak` and an enabled sound `trak`.
`parse_moov` reports success with the video track selected and the sound slot
empty: the sound `trak` is never read, although it is the first enabled
`trak` with an `smhd`. -/
theorem parse_moov_selects_counterexample :
    (moov_walk (moov_input 20 twin_mvhd_stream).1 20
        { (moov_input 20 twin_mvhd_stream).2.atom with data_position := 0 } {}).map
      (fun c => (c.1, (enabled_track VMHD c).isSome, (enabled_track SMHD c).isSome)) =
      [(MVHD, false, false), (MVHD, false, false), (TRAK, true, false), (TRAK, false, true)] ∧
    (parse_moov (moov_input 20 twin_mvhd_stream).1 20 (moov_input 20 twin_mvhd_stream).2).map
      (fun r => (r.1, VOID r.2.1.vtrak.atom, VOID r.2.1.strak.atom)) = some (0, false, true) ∧
    (stream_mp4_parse 20 twin_mvhd_stream).map (fun r => r.1) = some 0 := by
  decide!

theorem parse_moov_selects_witness :
    (moov_walk (moov_input 20 av_stream).1 20
        { (moov_input 20 av_stream).2.atom with data_position := 0 } {}).map
      (fun c => (c.1, (enabled_track VMHD c).isSome, (enabled_track SMHD c).isSome)) =
      [(MVHD, false, false), (TRAK, true, false), (TRAK, false, true)] ∧
    ∃ R, parse_moov (moov_input 20 av_stream).1 20 (moov_input 20 av_stream).2 = some R ∧
      (R.1 = 0 →
        R.2.1.vtrak = (first_track VMHD
          (moov_walk (moov_input 20 av_stream).1 20
            { (moov_input 20 av_stream).2.atom with data_position := 0 } {})).getD
            (moov_input 20 av_stream).2.vtrak ∧
        R.2.1.strak = (first_track SMHD
          (moov_walk (moov_input 20 av_stream).1 20
            { (moov_input 20 av_stream).2.atom with data_position := 0 } {})).getD
            (moov_input 20 av_stream).2.strak) ∧
      (∀ kind trak, first_track kind
          (moov_walk (moov_input 20 av_stream).1 20
            { (moov_input 20 av_stream).2.atom with data_position := 0 } {}) = some trak →
        trak.tkhd.flags &&& 1 ≠ 0 ∧ trak.mdia.minf.xmhd.atom.type = kind) :=
  ⟨by decide!, parse_moov_selects (moov_input 20 av_stream).1 20 (moov_input 20 av_stream).2
    (by decide!) (by decide!) (by decide!) (by decide!) (by decide!)⟩

/-! ### Spatial limits -/

theorem spatial_loop_spec (offsets : List Nat) (target : ℚ) (n : Nat) :
    (∃ i, spatial_loop offsets target n = some i ∧ i < n ∧ (offsets.getD i 0 : ℚ) < target ∧
      ∀ j, i < j → j < n → target ≤ (offsets.getD j 0 : ℚ)) ∨
    (spatial_loop offsets target n = none ∧ ∀ j, j < n → target ≤ (offsets.getD j 0 : ℚ)) := by
  induction n with
  | zero => exact Or.inr ⟨rfl, fun j hj => absurd hj (Nat.not_lt_zero j)⟩
  | succ n ih =>
    unfold spatial_loop
    by_cases h : (offsets.getD n 0 : ℚ) < target
    · rw [if_pos h]
      exact Or.inl ⟨n, rfl, Nat.lt_succ_self n, h, fun j h1 h2 => by omega⟩
    · rw [if_neg h]
      have hle : target ≤ (offsets.getD n 0 : ℚ) := not_lt.mp h
      rcases ih with ⟨i, h1, h2, h3, h4⟩ | ⟨h1, h2⟩
      · refine Or.inl ⟨i, h1, by omega, h3, fun j j1 j2 => ?_⟩
        by_cases hj : j = n
        · rw [hj]; exact hle
        · exact h4 j j1 (by omega)
      · refine Or.inr ⟨h1, fun j j2 => ?_⟩
        by_cases hj : j = n
        · rw [hj]; exact hle
        · exact h2 j (by omega)

theorem spatial_limit_spec (s : stream_t) (l : ℚ) (hl : l ≠ 0) :
    (∃ i, i < s.periods ∧ ((s.offsets.getD []).getD i 0 : ℚ) < l ∧
      (∀ j, i < j → j < s.periods → l ≤ ((s.offsets.getD []).getD j 0 : ℚ)) ∧
      spatial_limit s l = (i : ℚ) * s.period) ∨
    ((∀ j, j < s.periods → l ≤ ((s.offsets.getD []).getD j 0 : ℚ)) ∧ spatial_limit s l = 0) := by
  unfold spatial_limit
  rw [if_pos hl]
  rcases spatial_loop_spec (s.offsets.getD []) l s.periods with ⟨i, h1, h2, h3, h4⟩ | ⟨h1, h2⟩
  · rw [h1]
    exact Or.inl ⟨i, h2, h3, h4, rfl⟩
  · rw [h1]
    exact Or.inr ⟨h2, rfl⟩

theorem prepare_limits_spatial (self : stream_t) (mem : Mem) (file : file_t)
    (hs : self.spatial = 1) :
    ∃ s1 s2 : stream_t,
      s1.offsets = (prepare_limits self mem file).offsets ∧ s1.periods = self.periods ∧
      s1.period = self.period ∧
      s2.offsets = (prepare_limits self mem file).offsets ∧ s2.periods = self.periods ∧
      s2.period = self.period ∧
      (prepare_limits self mem file).start = spatial_limit s1 self.start ∧
      (prepare_limits self mem file).stop = spatial_limit s2 self.stop := by
  obtain ⟨a1, a2, a3, a4, a5, a6, a7, a8, a9, a10, a11, a12, a13, a14, a15, a16, a17, a18,
    a19, a20, a21, a22, a23, a24, a25, a26, a27, a28, a29, a30, a31, a32, a33⟩ := self
  simp only at hs
  subst hs
  unfold prepare_limits
  by_cases h : a11.isNone = true
  · simp only [h, if_true]
    exact ⟨_, _, rfl, rfl, rfl, rfl, rfl, rfl, rfl, rfl⟩
  · simp only [h, if_true]
    exact ⟨_, _, rfl, rfl, rfl, rfl, rfl, rfl, rfl, rfl⟩

/-- C15 (amended). With `spatial = true` and a non-zero start (resp. stop)
byte target `b`, the block "normalize limits" of `stream_mp4_parse` replaces
it by `i * period`, where `i` is the largest period index with
`offsets[i] < b` (strictly below the target), and by 0 when no period
qualifies: a target equal to `offsets[i]` snaps to the period before `i`. -/
theorem prepare_limits_snap (self : stream_t) (mem : Mem) (file : file_t)
    (hs : self.spatial = 1) :
    (self.start ≠ 0 →
      (∃ i, i < self.periods ∧
        (((prepare_limits self mem file).offsets.getD []).getD i 0 : ℚ) < self.start ∧
        (∀ j, i < j → j < self.periods →
          self.start ≤ (((prepare_limits self mem file).offsets.getD []).getD j 0 : ℚ)) ∧
        (prepare_limits self mem file).start = (i : ℚ) * self.period) ∨
      ((∀ j, j < self.periods →
          self.start ≤ (((prepare_limits self mem file).offsets.getD []).getD j 0 : ℚ)) ∧
        (prepare_limits self mem file).start = 0)) ∧
    (self.stop ≠ 0 →
      (∃ i, i < self.periods ∧
        (((prepare_limits self mem file).offsets.getD []).getD i 0 : ℚ) < self.stop ∧
        (∀ j, i < j → j < self.periods →
          self.stop ≤ (((prepare_limits self mem file).offsets.getD []).getD j 0 : ℚ)) ∧
        (prepare_limits self mem file).stop = (i : ℚ) * self.period) ∨
      ((∀ j, j < self.periods →
          self.stop ≤ (((prepare_limits self mem file).offsets.getD []).getD j 0 : ℚ)) ∧
        (prepare_limits self mem file).stop = 0)) := by
  obtain ⟨s1, s2, e1, e2, e3, f1, f2, f3, g1, g2⟩ := prepare_limits_spatial self mem file hs
  rw [g1, g2, ← e1]
  refine ⟨fun h => ?_, fun h => ?_⟩
  · rw [← e2, ← e3]
    exact spatial_limit_spec s1 self.start h
  · rw [e1, ← f1, ← f2, ← f3]
    exact spatial_limit_spec s2 self.stop h

/-- C15 (counterexample). For the spatial request on `two_second_file` with
start byte 473, the offsets of the two periods are 469 and 473; period 1 has
`offsets[1] <= 473`, yet the start becomes `0 * period = 0` and the body
starts at byte 469. -/
theorem prepare_limits_snap_counterexample :
    (meta_input 20 spatial_stream).1.spatial = 1 ∧ (meta_input 20 spatial_stream).1.start = 473 ∧ (meta_input 20 spatial_stream).1.periods = 2 ∧ (meta_input 20 spatial_stream).1.period = 1 ∧
    (prepare_limits (meta_input 20 spatial_stream).1 (meta_input 20 spatial_stream).2.1 (prepare_maxs (meta_input 20 spatial_stream).2.1 (meta_input 20 spatial_stream).2.2)).offsets = some [469, 473] ∧ (prepare_limits (meta_input 20 spatial_stream).1 (meta_input 20 spatial_stream).2.1 (prepare_maxs (meta_input 20 spatial_stream).2.1 (meta_input 20 spatial_stream).2.2)).start = 0 ∧
    (stream_mp4_parse 20 spatial_stream).map (fun r => (r.1, r.2.file_offset)) =
      some (0, 469) := by
  decide!

theorem prepare_limits_snap_witness :
    ((∃ i, i < (meta_input 20 late_spatial_stream).1.periods ∧
        (((prepare_limits (meta_input 20 late_spatial_stream).1 (meta_input 20 late_spatial_stream).2.1 (prepare_maxs (meta_input 20 late_spatial_stream).2.1 (meta_input 20 late_spatial_stream).2.2)).offsets.getD []).getD i 0 : ℚ) < (meta_input 20 late_spatial_stream).1.start ∧
        (∀ j, i < j → j < (meta_input 20 late_spatial_stream).1.periods →
          (meta_input 20 late_spatial_stream).1.start ≤ (((prepare_limits (meta_input 20 late_spatial_stream).1 (meta_input 20 late_spatial_stream).2.1 (prepare_maxs (meta_input 20 late_spatial_stream).2.1 (meta_input 20 late_spatial_stream).2.2)).offsets.getD []).getD j 0 : ℚ)) ∧
        (prepare_limits (meta_input 20 late_spatial_stream).1 (meta_input 20 late_spatial_stream).2.1 (prepare_maxs (meta_input 20 late_spatial_stream).2.1 (meta_input 20 late_spatial_stream).2.2)).start = (i : ℚ) * (meta_input 20 late_spatial_stream).1.period) ∨
      ((∀ j, j < (meta_input 20 late_spatial_stream).1.periods →
          (meta_input 20 late_spatial_stream).1.start ≤ (((prepare_limits (meta_input 20 late_spatial_stream).1 (meta_input 20 late_spatial_stream).2.1 (prepare_maxs (meta_input 20 late_spatial_stream).2.1 (meta_input 20 late_spatial_stream).2.2)).offsets.getD []).getD j 0 : ℚ)) ∧
        (prepare_limits (meta_input 20 late_spatial_stream).1 (meta_input 20 late_spatial_stream).2.1 (prepare_maxs (meta_input 20 late_spatial_stream).2.1 (meta_input 20 late_spatial_stream).2.2)).start = 0)) ∧
    (prepare_limits (meta_input 20 late_spatial_stream).1 (meta_input 20 late_spatial_stream).2.1 (prepare_maxs (meta_input 20 late_spatial_stream).2.1 (meta_input 20 late_spatial_stream).2.2)).start = 1 :=
  ⟨(prepare_limits_snap (meta_input 20 late_spatial_stream).1 (meta_input 20 late_spatial_stream).2.1
    (prepare_maxs (meta_input 20 late_spatial_stream).2.1 (meta_input 20 late_spatial_stream).2.2) (by decide!)).1 (by decide!), by decide!⟩

/-! ### Dispatch to the workers -/

theorem to_int_small (n : Nat) (h : n < 2 ^ 31) : to_int n = (n : Int) := by
  unfold to_int
  have h1 : n % 2 ^ 32 = n := Nat.mod_eq_of_lt (by omega)
  rw [h1, if_pos h]

theorem to_size_t_nat (n : Nat) (h : n < 2 ^ 64) : to_size_t (n : Int) = n := by
  unfold to_size_t
  have h1 : ((n : Int) % 2 ^ 64) = (n : Int) := Int.emod_eq_of_lt (by omega) (by omega)
  rw [h1]
  exact Int.toNat_natCast n

theorem engine_choose_spec (pool : List worker_t) (k i : Nat) (m w : Nat)
    (hl : ∀ j, (pool.getD j {}).load < 2 ^ 31)
    (hw : w < i) (hm : (pool.getD w {}).load = m)
    (hmin : ∀ j, j < i → m ≤ (pool.getD j {}).load)
    (hfirst : ∀ j, j < w → m < (pool.getD j {}).load) :
    (engine_choose pool k i (m : Int) w).2 < i + k ∧
    (∀ j, j < i + k →
      (pool.getD (engine_choose pool k i (m : Int) w).2 {}).load ≤ (pool.getD j {}).load) ∧
    (∀ j, j < (engine_choose pool k i (m : Int) w).2 →
      (pool.getD (engine_choose pool k i (m : Int) w).2 {}).load < (pool.getD j {}).load) := by
  induction k generalizing i m w with
  | zero =>
    unfold engine_choose
    simp only [Nat.add_zero]
    rw [hm]
    exact ⟨hw, hmin, hfirst⟩
  | succ k ih =>
    unfold engine_choose
    have hm31 : m < 2 ^ 31 := by rw [← hm]; exact hl w
    rw [to_size_t_nat m (by omega)]
    by_cases hc : m > (pool.getD i {}).load
    · rw [if_pos hc, to_int_small _ (hl i)]
      have := ih (i + 1) (pool.getD i {}).load i (by omega) rfl
        (fun j hj => by
          by_cases hji : j = i
          · rw [hji]
          · have := hmin j (by omega); omega)
        (fun j hj => by have := hmin j hj; omega)
      rw [show i + (k + 1) = i + 1 + k by omega]
      exact this
    · rw [if_neg hc]
      have := ih (i + 1) m w (by omega) hm
        (fun j hj => by
          by_cases hji : j = i
          · rw [hji]; omega
          · exact hmin j (by omega))
        hfirst
      rw [show i + (k + 1) = i + 1 + k by omega]
      exact this

theorem pool_getD_load (pool : List worker_t) (hl : ∀ w ∈ pool, w.load < 2 ^ 31) (j : Nat) :
    (pool.getD j {}).load < 2 ^ 31 := by
  by_cases hj : j < pool.length
  · rw [List.getD_eq_getElem _ _ hj]
    exact hl _ (List.getElem_mem _)
  · rw [List.getD_eq_default _ _ (by omega)]
    decide

/-- C19. For a pool of `workers >= 1` workers whose loads are below `2^31`
(the range in which the `int` variable `minimum` holds a load),
`engine_dispatch` chooses a worker whose load is at most the load of every
worker of the pool, the lowest-indexed one among those of minimal load; it
appends one `COMMAND_LOAD` node for the stream, with the throttle of the
engine, to the queue of this worker, leaves the other workers as they are and
returns 0. -/
theorem engine_dispatch_least_loaded (self : engine_t) (stream : stream_t)
    (hw : self.workers = self.pool.length) (hn : 0 < self.workers)
    (hl : ∀ w ∈ self.pool, w.load < 2 ^ 31) :
    (engine_dispatch self stream).2.2 < self.workers ∧
    (∀ j, j < self.workers →
      (self.pool.getD (engine_dispatch self stream).2.2 {}).load ≤ (self.pool.getD j {}).load) ∧
    (∀ j, j < (engine_dispatch self stream).2.2 →
      (self.pool.getD (engine_dispatch self stream).2.2 {}).load < (self.pool.getD j {}).load) ∧
    (engine_dispatch self stream).1 = 0 ∧
    (∃ node s, ((engine_dispatch self stream).2.1.pool.getD
        (engine_dispatch self stream).2.2 {}).queue =
        (self.pool.getD (engine_dispatch self stream).2.2 {}).queue ++ [node] ∧
      node.command = COMMAND_LOAD ∧ node.stream = some s ∧ s.path = stream.path ∧
      s.throttle = self.throttle) ∧
    (∀ j, j ≠ (engine_dispatch self stream).2.2 →
      (engine_dispatch self stream).2.1.pool.getD j {} = self.pool.getD j {}) := by
  have hl2 := pool_getD_load self.pool hl
  have hc := engine_choose_spec self.pool (self.workers - 1) 1 (self.pool.getD 0 {}).load 0 hl2
    (by omega) rfl (fun j hj => by have : j = 0 := by omega
                                   rw [this])
    (fun j hj => absurd hj (Nat.not_lt_zero j))
  rw [show 1 + (self.workers - 1) = self.workers by omega] at hc
  have he : (engine_dispatch self stream).2.2 =
      (engine_choose self.pool (self.workers - 1) 1 ((self.pool.getD 0 {}).load : Int) 0).2 := by
    unfold engine_dispatch
    rw [to_int_small _ (hl2 0)]
  rw [he]
  generalize (engine_choose self.pool (self.workers - 1) 1
    ((self.pool.getD 0 {}).load : Int) 0).2 = k at hc he ⊢
  obtain ⟨h1, h2, h3⟩ := hc
  have hp : (engine_dispatch self stream).2.1.pool =
      self.pool.set k (worker_enqueue (self.pool.getD k {})
        { stream with throttle := self.throttle }).2 := by
    rw [← he]
    rfl
  refine ⟨h1, h2, h3, rfl, ?_, ?_⟩
  · rw [hp]
    have hk : k < self.pool.length := by omega
    refine ⟨{ command := COMMAND_LOAD, stream := some { stream with
        throttle := self.throttle
        db := (self.pool.getD k {}).db
        load := (self.pool.getD k {}).load
        cache_hits := (self.pool.getD k {}).cache_hits
        cache_misses := (self.pool.getD k {}).cache_misses
        data_total := (self.pool.getD k {}).data_total
        delay_sum := (self.pool.getD k {}).delay_sum
        delay_count := (self.pool.getD k {}).delay_count
        delay_average := (self.pool.getD k {}).delay_average } }, _, ?_, rfl, rfl, rfl, rfl⟩
    rw [List.getD_eq_getElem _ _ (by rw [List.length_set]; exact hk), List.getElem_set_self]
    rfl
  · intro j hj
    rw [hp]
    by_cases hjl : j < self.pool.length
    · rw [List.getD_eq_getElem _ _ (by rw [List.length_set]; exact hjl),
        List.getD_eq_getElem _ _ hjl, List.getElem_set_ne (Ne.symm hj)]
    · rw [List.getD_eq_default _ _ (by rw [List.length_set]; omega),
        List.getD_eq_default _ _ (by omega)]

theorem engine_dispatch_least_loaded_witness :
    (engine_dispatch sample_engine {}).2.2 = 1 ∧ pool_loads sample_engine.pool = [4, 2, 2] ∧
    (∀ j, j < sample_engine.workers →
      (sample_engine.pool.getD (engine_dispatch sample_engine {}).2.2 {}).load ≤
        (sample_engine.pool.getD j {}).load) :=
  ⟨by decide!, by decide!,
    (engine_dispatch_least_loaded sample_engine {} (by decide!) (by decide!) (by decide!)).2.1⟩

theorem foldl_range_sum (f : Nat → ℚ) (n : Nat) :
    (List.range n).foldl (fun result i => result + f i) 0 = ((List.range n).map f).sum := by
  induction n with
  | zero => rfl
  | succ n ih =>
    rw [List.range_succ, List.foldl_append, List.map_append, List.sum_append, ih]
    simp

theorem map_getD_range (pool : List worker_t) (g : worker_t → ℚ) :
    (List.range pool.length).map (fun i => g (pool.getD i {})) = pool.map g := by
  apply List.ext_getElem
  · simp
  · intro i h1 h2
    simp only [List.getElem_map, List.getElem_range]
    rw [List.getD_eq_getElem _ _ (by simpa using h1)]

theorem engine_monitor_load (self : engine_t) (hw : self.workers = self.pool.length) :
    engine_monitor self ENGINE_LOAD = some (((pool_loads self.pool).sum : Nat) : ℚ) := by
  unfold engine_monitor
  rw [if_pos rfl, hw, foldl_range_sum (fun i => ((self.pool.getD i {}).load : ℚ)),
    map_getD_range self.pool (fun w => (w.load : ℚ))]
  unfold pool_loads
  rw [Nat.cast_list_sum, List.map_map]
  rfl

theorem engine_dispatch_status (self : engine_t) (stream : stream_t) :
    (engine_dispatch self stream).1 = 0 := rfl

/-- C18 (amended). For a stream definition that is a table,
`luaF_engine_dispatch` returns the overload result if and only if the
`clients` setting is not 0 and the sum of the loads of all workers is
`>= clients`; it then enqueues the stream on no worker (the engine is left as
it is). With `clients = 0` there is no admission cap. -/
theorem luaF_engine_dispatch_overload (self : engine_t) (d : definition_t)
    (hw : self.workers = self.pool.length) :
    ((luaF_engine_dispatch self (some d)).1 = dispatch_t.overload ↔
      (self.clients ≠ 0 ∧ (pool_loads self.pool).sum ≥ self.clients)) ∧
    ((luaF_engine_dispatch self (some d)).1 = dispatch_t.overload →
      (luaF_engine_dispatch self (some d)).2 = self) := by
  have hq : ((self.clients ≠ 0 ∧
      (engine_monitor self ENGINE_LOAD).getD 0 ≥ (self.clients : ℚ)) ↔
      (self.clients ≠ 0 ∧ (pool_loads self.pool).sum ≥ self.clients)) := by
    rw [engine_monitor_load self hw, Option.getD_some]
    constructor
    · intro h
      exact ⟨h.1, by exact_mod_cast h.2⟩
    · intro h
      exact ⟨h.1, by exact_mod_cast h.2⟩
  rw [← hq]
  unfold luaF_engine_dispatch
  dsimp only
  split
  · rename_i hc
    exact ⟨⟨fun _ => hc, fun _ => rfl⟩, fun _ => rfl⟩
  · rename_i hc
    split
    · exact ⟨⟨fun h => by simp at h, fun h => absurd h hc⟩, fun h => by simp at h⟩
    · split
      · exact ⟨⟨fun h => by simp at h, fun h => absurd h hc⟩, fun h => by simp at h⟩
      · rw [engine_dispatch_status]
        rw [if_neg (by intro h; exact h rfl)]
        exact ⟨⟨fun h => by simp at h, fun h => absurd h hc⟩, fun h => by simp at h⟩

/-- C18 (counterexample). With `clients = 0` the sum of the loads (8) is
`>= clients`, yet the dispatch succeeds and enqueues the stream on worker 1. -/
theorem luaF_engine_dispatch_overload_counterexample :
    open_engine.clients = 0 ∧ (pool_loads open_engine.pool).sum = 8 ∧
    (luaF_engine_dispatch open_engine (some sample_definition)).1 = dispatch_t.success ∧
    (luaF_engine_dispatch open_engine (some sample_definition)).2.pool.map
      (fun w => w.queue.map (fun n => (n.command, n.stream.map (fun s => s.path)))) =
      [[], [(COMMAND_LOAD, some "a.mp4")], []] := by
  decide!

theorem luaF_engine_dispatch_overload_witness :
    (luaF_engine_dispatch full_engine (some sample_definition)).1 = dispatch_t.overload ∧
    (luaF_engine_dispatch sample_engine (some sample_definition)).1 = dispatch_t.success :=
  ⟨(luaF_engine_dispatch_overload full_engine sample_definition (by decide!)).1.mpr
    ⟨by decide!, by decide!⟩, by decide!⟩

/-! ### A request for a file that is not FLV -/

theorem byte_at_slice (m : Mem) (p n i : Nat) (hi : i < n) (hp : p + i < m.size) :
    byte_at (Mem.slice m p n) i = byte_at m (p + i) := by
  unfold byte_at Mem.slice
  simp only
  rw [if_pos hi, if_pos hp]
  apply Nat.eq_of_testBit_eq
  intro j
  have e256 : (256 : Nat) = 2 ^ 8 := by norm_num
  rw [e256, Nat.testBit_mod_two_pow, Nat.testBit_mod_two_pow, Nat.testBit_shiftRight,
    Nat.testBit_shiftRight, Nat.testBit_mod_two_pow, Nat.testBit_shiftRight,
    Nat.testBit_mod_two_pow]
  by_cases hj : j < 8
  · have h1 : 8 * i + j < 8 * n := by omega
    have h2 : 8 * p + (8 * i + j) < 8 * m.size := by omega
    have h3 : 8 * (p + i) + j = 8 * p + (8 * i + j) := by omega
    simp [hj, h1, h2, h3]
  · simp [hj]

theorem flv_fingerprint_fails (file : Mem)
    (hf : ¬ (4 ≤ file.size ∧ byte_at file 0 = 70 ∧ byte_at file 1 = 76 ∧
      byte_at file 2 = 86 ∧ byte_at file 3 = 1)) :
    (pread file 13 0).size ≠ 13 ∨ byte_at (pread file 13 0) 0 ≠ 70 ∨
      byte_at (pread file 13 0) 1 ≠ 76 ∨ byte_at (pread file 13 0) 2 ≠ 86 ∨
      byte_at (pread file 13 0) 3 ≠ 0x01 := by
  by_cases hs : (pread file 13 0).size = 13
  · right
    have hsz : 13 ≤ file.size := by
      unfold pread Mem.slice at hs
      simp only at hs
      omega
    have hmin : min 13 (file.size - 0) = 13 := by omega
    have hb : ∀ i, i < 4 → byte_at (pread file 13 0) i = byte_at file i := by
      intro i hi
      unfold pread
      rw [hmin, byte_at_slice file 0 13 i (by omega) (by omega), Nat.zero_add]
    rw [hb 0 (by omega), hb 1 (by omega), hb 2 (by omega), hb 3 (by omega)]
    by_contra hcon
    apply hf
    simp only [not_or, not_not] at hcon
    exact ⟨by omega, hcon.1, hcon.2.1, hcon.2.2.1, hcon.2.2.2⟩
  · left
    exact hs

theorem stream_flv_parse_not_flv (flv : flv_compiler) (fuel : Nat) (self : stream_t)
    (hc : ∀ db, self.db = some db → tcadbget db (self.path ++ ":offsets") = none ∧
      tcadbget db (self.path ++ ":meta") = none)
    (hf : ¬ (4 ≤ self.file.size ∧ byte_at self.file 0 = 70 ∧ byte_at self.file 1 = 76 ∧
      byte_at self.file 2 = 86 ∧ byte_at self.file 3 = 1)) :
    ∃ s, stream_flv_parse flv fuel self = some (1, s) ∧ s.http = self.http := by
  have hfp := flv_fingerprint_fails self.file hf
  obtain ⟨a1, a2, a3, a4, a5, a6, a7, a8, a9, a10, a11, a12, a13, a14, a15, a16, a17, a18,
    a19, a20, a21, a22, a23, a24, a25, a26, a27, a28, a29, a30, a31, a32, a33⟩ := self
  simp only at hc hfp
  unfold stream_flv_parse flv_scan flv_offsets
  dsimp only
  cases a9 with
  | none =>
    simp only [Option.map_none', Option.isSome_none, Bool.false_eq_true, false_and, if_false,
      Option.isSome_none]
    rw [if_pos hfp]
    exact ⟨_, rfl, rfl⟩
  | some db =>
    obtain ⟨h1, h2⟩ := hc db rfl
    simp only [h1, h2, Option.map_none', Option.isSome_none, Bool.false_eq_true, false_and,
      if_false, Option.isSome_some, if_true]
    rw [if_pos hfp]
    exact ⟨_, rfl, rfl⟩

/-- C20. For a request with the FLV mime type and a path with nothing cached
(no cache, or neither offsets nor meta-data stored for the path), whose file
can be opened and does not begin with the four bytes `'F'`, `'L'`, `'V'`,
`0x01`, `stream_flv_parse` returns failure and `stream_new` answers with the
head `HTTP/<http> 500 Internal Server Error` followed by a newline, an empty
body range (`file_offset = file_target = file_finish = 0`) and throttle 0;
the stream is not destroyed and its send watcher is started. -/
theorem stream_new_not_flv (disk : String → Option Mem) (flv : flv_compiler) (fuel : Nat)
    (now : ℚ) (self : stream_t) (file : Mem)
    (hm : self.mime = STREAM_FLV_MIME) (hd : disk self.path = some file)
    (hc : ∀ db, self.db = some db → tcadbget db (self.path ++ ":offsets") = none ∧
      tcadbget db (self.path ++ ":meta") = none)
    (hf : ¬ (4 ≤ file.size ∧ byte_at file 0 = 70 ∧ byte_at file 1 = 76 ∧
      byte_at file 2 = 86 ∧ byte_at file 3 = 1)) :
    (∃ s, stream_new_parse disk flv fuel self = some (1, s)) ∧
    ∃ R, stream_new disk flv fuel now self = some (R, false) ∧
      R.head = some (c_string ("HTTP/" ++ self.http ++ " " ++ "500 Internal Server Error" ++ "\n")) ∧
      R.head_length =
        (c_string ("HTTP/" ++ self.http ++ " " ++ "500 Internal Server Error" ++ "\n")).size ∧
      R.file_offset = 0 ∧ R.file_target = 0 ∧ R.file_finish = 0 ∧ R.throttle = 0 ∧
      R.send_w = true := by
  obtain ⟨s, hs, hh⟩ := stream_flv_parse_not_flv flv fuel
    { self with load := w64 (self.load + 1), file := file, file_length := file.size } hc hf
  have hp : stream_new_parse disk flv fuel self = some (1, s) := by
    unfold stream_new_parse
    have hne : ¬ self.mime = STREAM_MP4_MIME := by rw [hm]; decide
    dsimp only
    rw [if_neg hne, if_pos hm, hd]
    dsimp only
    rw [if_neg hne, if_pos hm]
    exact hs
  refine ⟨⟨s, hp⟩, ?_⟩
  unfold stream_new
  rw [hp]
  simp only
  rw [if_pos (by decide)]
  unfold _stream_error _stream_advance _wait_cb
  simp only
  have hlt : ¬ (now + STREAM_THROTTLE_TIMEOUT < now) := by
    unfold STREAM_THROTTLE_TIMEOUT
    linarith
  rw [if_neg hlt]
  simp only [Bool.false_eq_true, if_false]
  exact ⟨_, rfl, by rw [hh], by rw [hh], rfl, rfl, rfl, rfl, rfl⟩

theorem stream_new_not_flv_witness :
    (stream_new not_flv_disk no_compiler 20 5 not_flv_stream).map
      (fun r => (r.1.head.getD {}).to_list) =
      some ("HTTP/1.1 500 Internal Server Error\n".toList.map Char.toNat) ∧
    ∃ R, stream_new not_flv_disk no_compiler 20 5 not_flv_stream = some (R, false) ∧
      R.head = some (c_string ("HTTP/" ++ not_flv_stream.http ++ " " ++
        "500 Internal Server Error" ++ "\n")) ∧
      R.head_length =
        (c_string ("HTTP/" ++ not_flv_stream.http ++ " " ++ "500 Internal Server Error" ++
          "\n")).size ∧
      R.file_offset = 0 ∧ R.file_target = 0 ∧ R.file_finish = 0 ∧ R.throttle = 0 ∧
      R.send_w = true :=
  ⟨by decide!, (stream_new_not_flv not_flv_disk no_compiler 20 5 not_flv_stream not_flv_file
    (by decide!) rfl (by decide!) (by decide!)).2⟩

/-! ### Throttling of small payloads -/

theorem file_atom_throttle (stream : stream_t) (atom : atom_t) :
    (file_atom stream atom).2.1.throttle = stream.throttle := by
  obtain ⟨a1, a2, a3, a4, a5, a6, a7, a8, a9, a10, a11, a12, a13, a14, a15, a16, a17, a18,
    a19, a20, a21, a22, a23, a24, a25, a26, a27, a28, a29, a30, a31, a32, a33⟩ :=
    stream
  unfold file_atom
  dsimp only
  split_ifs <;> rfl

theorem scan_loop_throttle (fuel left : Nat) (self : stream_t) (b : blobs_t) (atom : atom_t)
    (s' : stream_t) (r : Option (blobs_t × atom_t))
    (h : scan_loop fuel left self b atom = some (s', r)) :
    s'.throttle = self.throttle := by
  induction fuel generalizing left self b atom with
  | zero => simp [scan_loop] at h
  | succ fuel ih =>
    rw [scan_loop] at h
    have k1 := file_atom_throttle self atom
    by_cases hc : left > 0 ∧ self.file_offset < self.file_length
    · rw [if_pos hc] at h
      dsimp only at h
      generalize file_atom self atom = fa at h k1
      obtain ⟨ty, st, at'⟩ := fa
      dsimp only at h k1
      have hst : ∀ o, ({ st with file_offset := o } : stream_t).throttle = self.throttle :=
        fun o => k1
      by_cases c1 : ty = FTYP
      · rw [if_pos c1] at h
        cases hs : save_atom st at' with
        | none =>
          rw [hs] at h
          simp only [Option.some.injEq, Prod.mk.injEq] at h
          rw [← h.1]; exact k1
        | some blob =>
          rw [hs] at h
          exact (ih _ _ _ _ h).trans (hst _)
      rw [if_neg c1] at h
      by_cases c2 : ty = MDAT
      · rw [if_pos c2] at h
        cases hs : save_atom st { at' with size := sub64 at'.data_start at'.start } with
        | none =>
          rw [hs] at h
          simp only [Option.some.injEq, Prod.mk.injEq] at h
          rw [← h.1]; exact k1
        | some blob =>
          rw [hs] at h
          exact (ih _ _ _ _ h).trans (hst _)
      rw [if_neg c2] at h
      by_cases c3 : ty = MOOV
      · rw [if_pos c3] at h
        cases hs : save_atom st at' with
        | none =>
          rw [hs] at h
          simp only [Option.some.injEq, Prod.mk.injEq] at h
          rw [← h.1]; exact k1
        | some blob =>
          rw [hs] at h
          exact (ih _ _ _ _ h).trans (hst _)
      rw [if_neg c3] at h
      by_cases c4 : ty = ____
      · rw [if_pos c4] at h
        simp only [Option.some.injEq, Prod.mk.injEq] at h
        rw [← h.1]; exact k1
      rw [if_neg c4] at h
      exact (ih _ _ _ _ h).trans (hst _)
    · rw [if_neg hc] at h
      simp only [Option.some.injEq, Prod.mk.injEq] at h
      rw [← h.1]

theorem zero_seek_throttle (self : stream_t) : (zero_seek self).throttle = self.throttle := by
  obtain ⟨a1, a2, a3, a4, a5, a6, a7, a8, a9, a10, a11, a12, a13, a14, a15, a16, a17, a18,
    a19, a20, a21, a22, a23, a24, a25, a26, a27, a28, a29, a30, a31, a32, a33⟩ :=
    self
  unfold zero_seek
  dsimp only
  cases a9 with
  | none => rfl
  | some db =>
    dsimp only
    split_ifs
    · split <;> rfl
    · rfl

theorem load_atoms_throttle (fuel : Nat) (self s' : stream_t) (r : Option (blobs_t × atom_t))
    (h : load_atoms fuel self = some (s', r)) : s'.throttle = self.throttle := by
  unfold load_atoms at h
  dsimp only at h
  split_ifs at h
  · split at h
    · simp at h
    · rename_i s1 heq
      have k1 : s1.throttle = self.throttle := by
        have := scan_loop_throttle _ _ _ _ _ _ _ heq
        exact this
      simp only [Option.some.injEq, Prod.mk.injEq] at h
      rw [← h.1]; exact k1
    · rename_i s1 b atom heq
      have k1 : s1.throttle = self.throttle := by
        have := scan_loop_throttle _ _ _ _ _ _ _ heq
        exact this
      split at h
      · simp only [Option.some.injEq, Prod.mk.injEq] at h
        rw [← h.1]
        exact k1
      · simp only [Option.some.injEq, Prod.mk.injEq] at h
        rw [← h.1]; exact k1
  · simp only [Option.some.injEq, Prod.mk.injEq] at h
    rw [← h.1]

theorem load_meta_throttle (fuel : Nat) (self s' : stream_t) (r : Option (Mem × Mem × file_t))
    (h : load_meta fuel self = some (s', r)) : s'.throttle = self.throttle := by
  unfold load_meta at h
  cases ha : load_atoms fuel self with
  | none => rw [ha] at h; simp at h
  | some p =>
    obtain ⟨s1, r1⟩ := p
    have hc := load_atoms_throttle fuel self s1 r1 ha
    rw [ha] at h
    cases r1 with
    | none =>
      simp only [Option.some.injEq, Prod.mk.injEq] at h
      rw [← h.1]; exact hc
    | some q =>
      obtain ⟨b, atom⟩ := q
      dsimp only at h
      cases hp : parse_meta fuel b atom with
      | none => rw [hp] at h; simp at h
      | some o =>
        rw [hp] at h
        cases o with
        | none =>
          simp only [Option.some.injEq, Prod.mk.injEq] at h
          rw [← h.1]; exact hc
        | some fm =>
          obtain ⟨file, mem⟩ := fm
          dsimp only at h
          split_ifs at h <;> simp only [Option.some.injEq, Prod.mk.injEq] at h <;>
            rw [← h.1] <;> exact hc

theorem prepare_limits_throttle (self : stream_t) (mem : Mem) (file : file_t) :
    (prepare_limits self mem file).throttle = self.throttle := by
  obtain ⟨a1, a2, a3, a4, a5, a6, a7, a8, a9, a10, a11, a12, a13, a14, a15, a16, a17, a18,
    a19, a20, a21, a22, a23, a24, a25, a26, a27, a28, a29, a30, a31, a32, a33⟩ :=
    self
  unfold prepare_limits
  dsimp only
  split_ifs <;> rfl

theorem compile_trak_offsets_throttle (stream : stream_t) (scale : Nat) (S E : seek_t) :
    (compile_trak_offsets stream scale S E).throttle = stream.throttle := by
  obtain ⟨a1, a2, a3, a4, a5, a6, a7, a8, a9, a10, a11, a12, a13, a14, a15, a16, a17, a18,
    a19, a20, a21, a22, a23, a24, a25, a26, a27, a28, a29, a30, a31, a32, a33⟩ :=
    stream
  unfold compile_trak_offsets
  dsimp only
  split_ifs <;> rfl

theorem compile_trak_throttle (stream : stream_t) (mvhd_scale : Nat) (mem : Mem)
    (trak : trak_t) :
    (compile_trak stream mvhd_scale mem trak).1.throttle = stream.throttle := by
  cases hv : VOID trak.atom
  · rw [(compile_trak_seeks stream mvhd_scale mem trak hv).1]
    exact compile_trak_offsets_throttle _ _ _ _
  · rw [compile_trak_void_all stream mvhd_scale mem trak hv]

theorem prepare_throttle (self : stream_t) (mem : Mem) (file : file_t) :
    (prepare self mem file).1.throttle = self.throttle := by
  have hp : prepare self mem file = prepare_seek
      (prepare_limits self mem (prepare_maxs mem file)) mem (prepare_maxs mem file) := rfl
  rw [hp, (prepare_seek_tracks _ mem _ _ rfl).1, compile_trak_throttle, compile_trak_throttle]
  exact prepare_limits_throttle self mem _

theorem compile_head_throttle (self : stream_t) (ftyp mem : Mem) (file : file_t) :
    (compile_head self ftyp mem file).1.throttle = self.throttle := by
  obtain ⟨a1, a2, a3, a4, a5, a6, a7, a8, a9, a10, a11, a12, a13, a14, a15, a16, a17, a18,
    a19, a20, a21, a22, a23, a24, a25, a26, a27, a28, a29, a30, a31, a32, a33⟩ :=
    self
  rfl

theorem store_zero_throttle (self : stream_t) : (store_zero self).throttle = self.throttle := by
  obtain ⟨a1, a2, a3, a4, a5, a6, a7, a8, a9, a10, a11, a12, a13, a14, a15, a16, a17, a18,
    a19, a20, a21, a22, a23, a24, a25, a26, a27, a28, a29, a30, a31, a32, a33⟩ :=
    self
  unfold store_zero
  dsimp only
  cases a9 with
  | none => rfl
  | some db =>
    dsimp only
    split_ifs <;> rfl

theorem regenerate_throttle (self : stream_t) (ftyp mem : Mem) (file : file_t) :
    (regenerate self ftyp mem file).throttle = self.throttle := by
  unfold regenerate
  dsimp only
  rw [store_zero_throttle, compile_head_throttle, prepare_throttle]

theorem stream_mp4_parse_throttle (fuel : Nat) (self s : stream_t) (status : Nat)
    (h : stream_mp4_parse fuel self = some (status, s)) : s.throttle = self.throttle := by
  unfold stream_mp4_parse at h
  dsimp only at h
  have hz := zero_seek_throttle self
  generalize zero_seek self = z at h hz
  split_ifs at h
  · simp only [Option.some.injEq, Prod.mk.injEq] at h
    rw [← h.2]
    exact hz
  · cases hl : load_meta fuel z with
    | none => rw [hl] at h; simp at h
    | some p =>
      obtain ⟨s1, r⟩ := p
      have k := load_meta_throttle fuel z s1 r hl
      rw [hl] at h
      cases r with
      | none =>
        simp only [Option.some.injEq, Prod.mk.injEq] at h
        rw [← h.2, k, hz]
      | some q =>
        obtain ⟨ftyp, mem, file⟩ := q
        simp only [Option.some.injEq, Prod.mk.injEq] at h
        rw [← h.2, regenerate_throttle, k, hz]

theorem snd_of_eq {α β : Type} (p : α × β) (a : α) (b : β) (h : p = (a, b)) : p.2 = b := by
  rw [h]

theorem flv_finish_throttle (self : stream_t) : (flv_finish self).2.throttle = self.throttle := by
  obtain ⟨a1, a2, a3, a4, a5, a6, a7, a8, a9, a10, a11, a12, a13, a14, a15, a16, a17, a18,
    a19, a20, a21, a22, a23, a24, a25, a26, a27, a28, a29, a30, a31, a32, a33⟩ := self
  rfl

theorem flv_error_throttle (self : stream_t) : (flv_error self).2.throttle = self.throttle := by
  obtain ⟨a1, a2, a3, a4, a5, a6, a7, a8, a9, a10, a11, a12, a13, a14, a15, a16, a17, a18,
    a19, a20, a21, a22, a23, a24, a25, a26, a27, a28, a29, a30, a31, a32, a33⟩ := self
  rfl

theorem flv_compile_throttle (flv : flv_compiler) (self : stream_t) (meta_data : Mem) :
    (flv_compile flv self meta_data).2.throttle = self.throttle := by
  obtain ⟨a1, a2, a3, a4, a5, a6, a7, a8, a9, a10, a11, a12, a13, a14, a15, a16, a17, a18,
    a19, a20, a21, a22, a23, a24, a25, a26, a27, a28, a29, a30, a31, a32, a33⟩ := self
  unfold flv_compile
  dsimp only
  split
  · rfl
  · rw [flv_finish_throttle]
    split_ifs <;> rfl

theorem flv_offsets_throttle (self : stream_t) : (flv_offsets self).throttle = self.throttle := by
  obtain ⟨a1, a2, a3, a4, a5, a6, a7, a8, a9, a10, a11, a12, a13, a14, a15, a16, a17, a18,
    a19, a20, a21, a22, a23, a24, a25, a26, a27, a28, a29, a30, a31, a32, a33⟩ := self
  rfl

theorem flv_scan_throttle (flv : flv_compiler) (fuel : Nat) (self s : stream_t)
    (status : Nat) (h : flv_scan flv fuel self = some (status, s)) :
    s.throttle = self.throttle := by
  unfold flv_scan at h
  dsimp only at h
  have hm : (if self.db.isSome = true then
      { self with cache_misses := self.cache_misses + 1 } else self).throttle =
      self.throttle := by
    split_ifs <;> rfl
  generalize (if self.db.isSome = true then
      { self with cache_misses := self.cache_misses + 1 } else self) = z at h hm
  split_ifs at h
  · simp only [Option.some.injEq] at h
    rw [← snd_of_eq _ _ _ h, flv_error_throttle, hm]
  · split at h
    · exact Option.noConfusion h
    · simp only [Option.some.injEq] at h
      rw [← snd_of_eq _ _ _ h, flv_error_throttle, hm]
    · simp only [Option.some.injEq] at h
      rw [← snd_of_eq _ _ _ h, flv_compile_throttle]
      exact hm

theorem stream_flv_parse_throttle (flv : flv_compiler) (fuel : Nat) (self s : stream_t)
    (status : Nat) (h : stream_flv_parse flv fuel self = some (status, s)) :
    s.throttle = self.throttle := by
  unfold stream_flv_parse at h
  dsimp only at h
  have hz := flv_offsets_throttle self
  generalize flv_offsets self = z at h hz
  split_ifs at h
  · simp only [Option.some.injEq] at h
    rw [← snd_of_eq _ _ _ h, flv_finish_throttle]
    exact hz
  · split at h
    · simp only [Option.some.injEq] at h
      rw [← snd_of_eq _ _ _ h, flv_compile_throttle]
      exact hz
    · rw [flv_scan_throttle flv fuel z s status h]
      exact hz

theorem any_parse_throttle (self : stream_t) : (_stream_any_parse self).2.throttle = 0 := rfl

theorem stream_new_parse_throttle (disk : String → Option Mem) (flv : flv_compiler)
    (fuel : Nat) (self s : stream_t) (status : Nat)
    (h : stream_new_parse disk flv fuel self = some (status, s)) :
    s.throttle = if self.mime = STREAM_MP4_MIME ∨ self.mime = STREAM_FLV_MIME then self.throttle
      else 0 := by
  unfold stream_new_parse at h
  dsimp only at h
  by_cases m1 : self.mime = STREAM_MP4_MIME
  · rw [if_pos (Or.inl m1)]
    rw [if_pos m1] at h
    dsimp only at h
    split at h
    · simp only [Option.some.injEq, Prod.mk.injEq] at h
      rw [← h.2]
    · rw [if_pos m1] at h
      have k := stream_mp4_parse_throttle _ _ _ _ h
      exact k
  · rw [if_neg m1] at h
    by_cases m2 : self.mime = STREAM_FLV_MIME
    · rw [if_pos (Or.inr m2)]
      rw [if_pos m2] at h
      dsimp only at h
      split at h
      · simp only [Option.some.injEq, Prod.mk.injEq] at h
        rw [← h.2]
      · rw [if_neg m1, if_pos m2] at h
        have k := stream_flv_parse_throttle _ _ _ _ _ h
        exact k
    · rw [if_neg (by intro hh; rcases hh with hh | hh; exact m1 hh; exact m2 hh)]
      rw [if_neg m2] at h
      dsimp only at h
      split at h
      · simp only [Option.some.injEq, Prod.mk.injEq] at h
        rw [← h.2]
      · rw [if_neg m1, if_neg m2] at h
        simp only [Option.some.injEq] at h
        rw [← snd_of_eq _ _ _ h]
        rfl

/-- C17. After a successful parse, `stream_new` sets `throttle` to 0 when the
clipped payload `file_finish - file_offset`, as a signed difference, is at
most 1048576 bytes: the test is `<= STREAM_THROTTLE_FROM`, so a payload of
exactly 1048576 bytes, the "minimum length to throttle", is not throttled. A
larger payload keeps the throttle given by the engine when the parser is the
MP4 or the FLV parser, and has throttle 0 with the generic parser. The byte
range is the one the parser left. -/
theorem stream_new_throttle (disk : String → Option Mem) (flv : flv_compiler) (fuel : Nat)
    (now : ℚ) (self s : stream_t)
    (hp : stream_new_parse disk flv fuel self = some (0, s)) :
    ∃ R, stream_new disk flv fuel now self = some (R, false) ∧
      R.file_finish = s.file_finish ∧ R.file_offset = s.file_offset ∧
      R.throttle =
        (if to_off_t (sub64 s.file_finish s.file_offset) ≤ 1048576 then 0
         else if self.mime = STREAM_MP4_MIME ∨ self.mime = STREAM_FLV_MIME then self.throttle
         else 0) := by
  have ht := stream_new_parse_throttle disk flv fuel self s 0 hp
  unfold stream_new
  rw [hp]
  dsimp only
  rw [if_neg (by intro hh; exact hh rfl)]
  unfold _stream_advance _wait_cb
  dsimp only
  have hlt : ¬ (now + STREAM_THROTTLE_TIMEOUT < now) := by
    unfold STREAM_THROTTLE_TIMEOUT
    linarith
  rw [if_neg hlt]
  simp only [Bool.false_eq_true, if_false]
  refine ⟨_, rfl, ?_, ?_, ?_⟩
  · dsimp only
    split_ifs <;> rfl
  · dsimp only
    split_ifs <;> rfl
  · dsimp only
    unfold STREAM_THROTTLE_FROM
    by_cases hc : to_off_t (sub64 s.file_finish s.file_offset) ≤ 1048576
    · rw [if_pos hc, if_pos hc]
    · rw [if_neg hc, if_neg hc]
      exact ht

/-- C17 (evaluation). An FLV request served from the cached offsets table:
for a file of 13 + 1048576 bytes the parse succeeds with a payload
`file_finish - file_offset` of exactly 1048576 bytes and the throttle 20 of
the engine is set to 0; for a file one byte longer the payload is 1048577
bytes and the throttle 20 is kept. -/
theorem stream_new_throttle_witness :
    (cached_flv_stream.throttle = 20 ∧
     (stream_new_parse exact_disk idle_compiler 20 cached_flv_stream).map
       (fun r => (r.1, r.2.file_finish - r.2.file_offset)) = some (0, 1048576) ∧
     (stream_new exact_disk idle_compiler 20 5 cached_flv_stream).map
       (fun r => (r.1.file_finish - r.1.file_offset, r.1.throttle)) = some (1048576, 0)) ∧
    (stream_new large_disk idle_compiler 20 5 cached_flv_stream).map
      (fun r => (r.1.file_finish - r.1.file_offset, r.1.throttle)) = some (1048577, 20) ∧
    ∃ R, stream_new large_disk idle_compiler 20 5 cached_flv_stream = some (R, false) ∧
      R.file_finish =
        ((stream_new_parse large_disk idle_compiler 20 cached_flv_stream).getD (1, {})).2.file_finish ∧
      R.file_offset =
        ((stream_new_parse large_disk idle_compiler 20 cached_flv_stream).getD (1, {})).2.file_offset ∧
      R.throttle =
        (if to_off_t (sub64
            ((stream_new_parse large_disk idle_compiler 20 cached_flv_stream).getD
              (1, {})).2.file_finish
            ((stream_new_parse large_disk idle_compiler 20 cached_flv_stream).getD
              (1, {})).2.file_offset) ≤ 1048576 then 0
         else if cached_flv_stream.mime = STREAM_MP4_MIME ∨
            cached_flv_stream.mime = STREAM_FLV_MIME then cached_flv_stream.throttle
         else 0) :=
  ⟨by decide!, by decide!, stream_new_throttle large_disk idle_compiler 20 5 cached_flv_stream
    ((stream_new_parse large_disk idle_compiler 20 cached_flv_stream).getD (1, {})).2
    (eq_some_of_fst _ 0 (1, {}) (by decide!))⟩

/-! ### The send target of the sender -/

/-- C16. In a step of the sender with `throttle > 0` (here: not 0) the send
target is `offsets[p]` for the period `p = ceil(load_head / period)` whenever
`p < periods`, without a comparison with `file_finish`: when the offset of
period `p` lies beyond `file_finish`, so does `file_target` after the step. -/
theorem send_cb_target_beyond_finish (self : stream_t) (now : ℚ) (ht : self.throttle ≠ 0)
    (hp : to_size_t (Rat.ceil ((self.start + (now - self.tzero) + self.throttle) / self.period)) <
      self.periods)
    (hb : self.file_finish < (self.offsets.getD []).getD
      (to_size_t (Rat.ceil ((self.start + (now - self.tzero) + self.throttle) / self.period))) 0) :
    (_send_cb_throttle self now).file_target = (self.offsets.getD []).getD
      (to_size_t (Rat.ceil ((self.start + (now - self.tzero) + self.throttle) / self.period))) 0 ∧
    (_send_cb_throttle self now).file_finish < (_send_cb_throttle self now).file_target := by
  unfold _send_cb_throttle
  rw [if_pos ht]
  dsimp only
  rw [if_neg (Nat.not_le.mpr hp)]
  exact ⟨rfl, hb⟩

theorem send_cb_target_beyond_finish_witness :
    (playing_stream.file_offset = 473 ∧ playing_stream.file_finish = 1049073 ∧
      playing_stream.throttle = 2 ∧ playing_stream.periods = 3 ∧
      playing_stream.offsets = some [473, 1049073, 1049173] ∧ playing_stream.tzero = 5) ∧
    ((_send_cb playing_stream 5 (socket_t.room 10000000) (socket_t.room 10000000) false).1.file_target
        = 1049173 ∧
      (_send_cb playing_stream 5 (socket_t.room 10000000) (socket_t.room 10000000)
        false).1.file_offset = 1049173 ∧
      (_send_cb playing_stream 5 (socket_t.room 10000000) (socket_t.room 10000000)
        false).1.file_finish = 1049073) ∧
    (_send_cb_throttle playing_stream 5).file_finish <
      (_send_cb_throttle playing_stream 5).file_target :=
  ⟨by decide!, by decide!,
    (send_cb_target_beyond_finish playing_stream 5 (by decide!) (by decide!) (by decide!)).2⟩

/-! ### The big-endian codec -/

theorem big_endian_succ (m : Mem) (p n : Nat) :
    big_endian m p (n + 1) = 256 * big_endian m p n + byte_at m (p + n) := by
  unfold big_endian
  rw [List.range_succ, List.map_append, List.sum_append, ← List.sum_map_mul_left]
  simp only [List.map_cons, List.map_nil, List.sum_cons, List.sum_nil, Nat.add_sub_cancel,
    Nat.sub_self, Nat.pow_zero, Nat.mul_one, Nat.add_zero]
  congr 2
  apply List.map_congr_left
  intro i hi
  rw [List.mem_range] at hi
  have : n - i = (n - 1 - i) + 1 := by omega
  rw [this, Nat.pow_succ]
  ring

theorem big_endian_lt (m : Mem) (p n : Nat) : big_endian m p n < 256 ^ n := by
  induction n with
  | zero => simp [big_endian]
  | succ n ih =>
    rw [big_endian_succ, Nat.pow_succ]
    have := byte_at_lt m (p + n)
    omega

theorem read_fold_big_endian (m : Mem) (p k n : Nat) (hn : n ≤ k) :
    (List.range n).foldl
      (fun result i => result ||| (byte_at m (p + i) <<< (8 * k - 8 - 8 * i))) 0 =
    big_endian m p n * 2 ^ (8 * k - 8 * n) := by
  induction n with
  | zero => simp [big_endian]
  | succ n ih =>
    rw [List.range_succ, List.foldl_append]
    simp only [List.foldl_cons, List.foldl_nil]
    rw [ih (by omega), big_endian_succ, Nat.shiftLeft_eq]
    have hb := byte_at_lt m (p + n)
    have e1 : 8 * k - 8 * n = (8 * k - 8 - 8 * n) + 8 := by omega
    have e2 : 8 * k - 8 * (n + 1) = 8 * k - 8 - 8 * n := by omega
    rw [e1, e2]
    generalize 8 * k - 8 - 8 * n = j
    have hlt : byte_at m (p + n) * 2 ^ j < 2 ^ (j + 8) := by
      rw [Nat.pow_add]
      have : byte_at m (p + n) * 2 ^ j < 256 * 2 ^ j :=
        Nat.mul_lt_mul_of_pos_right hb (Nat.two_pow_pos j)
      have h256 : (2 : Nat) ^ 8 = 256 := by norm_num
      rw [h256]
      linarith
    have := Nat.mul_add_lt_is_or hlt (big_endian m p n)
    rw [Nat.mul_comm (big_endian m p n) (2 ^ (j + 8)), ← this, Nat.pow_add]
    ring

theorem read_xx_be (m : Mem) (p k : Nat) : read_xx m p (8 * k) = big_endian m p k := by
  unfold read_xx
  have hk : (8 * k) >>> 3 = k := by rw [Nat.shiftRight_eq_div_pow]; omega
  rw [hk, read_fold_big_endian m p k k (le_refl k)]
  simp

/-- C22. For `bits` in {24, 32, 64} and every buffer that holds at least
`bits / 8` bytes from `p` on, `read_xx(buffer + p, bits)` returns the unsigned
big-endian value of the `n = bits / 8` bytes at `p`: the sum over `i < n` of
`buffer[p + i] * 256 ^ (n - 1 - i)`. -/
theorem read_xx_big_endian (m : Mem) (p bits : Nat)
    (hb : bits = 24 ∨ bits = 32 ∨ bits = 64) (hs : p + bits / 8 ≤ m.size) :
    read_xx m p bits =
      ((List.range (bits / 8)).map (fun i => byte_at m (p + i) * 256 ^ (bits / 8 - 1 - i))).sum := by
  rcases hb with rfl | rfl | rfl
  · exact read_xx_be m p 3
  · exact read_xx_be m p 4
  · exact read_xx_be m p 8

theorem read_xx_big_endian_witness :
    read_xx codec_mem 2 32 = 3 * 256 ^ 3 + 4 * 256 ^ 2 + 5 * 256 + 6 ∧
    read_xx codec_mem 2 32 =
      ((List.range (32 / 8)).map
        (fun i => byte_at codec_mem (2 + i) * 256 ^ (32 / 8 - 1 - i))).sum :=
  ⟨by decide!, read_xx_big_endian codec_mem 2 32 (by decide) (by decide!)⟩

theorem big_endian_digit (m : Mem) (p n j : Nat) (hj : j < n) :
    (big_endian m p n / 256 ^ (n - 1 - j)) % 256 = byte_at m (p + j) := by
  induction n with
  | zero => omega
  | succ n ih =>
    rw [big_endian_succ]
    have hb := byte_at_lt m (p + n)
    by_cases hjn : j = n
    · subst hjn
      simp only [Nat.add_sub_cancel, Nat.sub_self, Nat.pow_zero, Nat.div_one]
      omega
    · have e : n + 1 - 1 - j = (n - 1 - j) + 1 := by omega
      rw [e, Nat.pow_succ, Nat.mul_comm (256 ^ (n - 1 - j)) 256, ← Nat.div_div_eq_div_mul]
      have : (256 * big_endian m p n + byte_at m (p + n)) / 256 = big_endian m p n := by omega
      rw [this]
      exact ih (by omega)

theorem write_back_byte (m : Mem) (p k q : Nat) (hk : k ≤ 8) :
    byte_at (write_xx m p (read_xx m p (8 * k)) (8 * k)) q = byte_at m q := by
  have hs : (8 * k) >>> 3 = k := by rw [Nat.shiftRight_eq_div_pow]; omega
  rw [byte_at_write_xx, hs]
  split
  · rename_i hc
    obtain ⟨h1, h2, h3⟩ := hc
    have hlt : read_xx m p (8 * k) < 2 ^ 64 :=
      lt_of_lt_of_le (read_xx_lt m p k) (Nat.pow_le_pow_right (by norm_num) (by omega))
    rw [w64_of_lt _ hlt, read_xx_be, Nat.shiftRight_eq_div_pow]
    have e : 8 * k - 8 - 8 * (q - p) = 8 * (k - 1 - (q - p)) := by omega
    rw [e, Nat.pow_mul]
    have h256 : (2 : Nat) ^ 8 = 256 := by norm_num
    rw [h256, big_endian_digit m p k (q - p) (by omega)]
    congr 1
    omega
  · rfl

/-- C23. For `bits` in {24, 32, 64} and a buffer that holds at least `bits / 8`
bytes from `p` on: reading after `write_xx(buffer + p, v, bits)` returns
`v mod 2 ^ bits`; writing back the value read leaves every byte of the buffer
as it was; `write_xx` changes no byte outside the `bits / 8` bytes at `p` and
keeps the size of the buffer. -/
theorem write_xx_read_xx_inverse (m : Mem) (p v bits : Nat)
    (hb : bits = 24 ∨ bits = 32 ∨ bits = 64) (hs : p + bits / 8 ≤ m.size) :
    read_xx (write_xx m p v bits) p bits = v % 2 ^ bits ∧
    (∀ q, byte_at (write_xx m p (read_xx m p bits) bits) q = byte_at m q) ∧
    (∀ q, q < p ∨ p + bits / 8 ≤ q → byte_at (write_xx m p v bits) q = byte_at m q) ∧
    (write_xx m p v bits).size = m.size := by
  refine ⟨?_, ?_, ?_, write_xx_size m p v bits⟩
  · rcases hb with rfl | rfl | rfl
    · exact read_xx_write_xx_same m p v 3 (by omega) (by omega)
    · exact read_xx_write_xx_same m p v 4 (by omega) (by omega)
    · exact read_xx_write_xx_same m p v 8 (by omega) (by omega)
  · intro q
    rcases hb with rfl | rfl | rfl
    · exact write_back_byte m p 3 q (by omega)
    · exact write_back_byte m p 4 q (by omega)
    · exact write_back_byte m p 8 q (by omega)
  · intro q hq
    rw [byte_at_write_xx]
    have hd : bits >>> 3 = bits / 8 := by rw [Nat.shiftRight_eq_div_pow]
    rw [hd]
    rw [if_neg (by intro hc; omega)]

theorem write_xx_read_xx_inverse_witness :
    (write_xx codec_mem 2 0x1A2B3C4D5E 32).to_list = [1, 2, 0x2B, 0x3C, 0x4D, 0x5E, 7, 8, 9, 10] ∧
    read_xx (write_xx codec_mem 2 0x1A2B3C4D5E 32) 2 32 = 0x1A2B3C4D5E % 2 ^ 32 :=
  ⟨by decide!, (write_xx_read_xx_inverse codec_mem 2 0x1A2B3C4D5E 32 (by decide) (by decide!)).1⟩

/-! ### The head of an FLV stream -/

theorem flv_head_text (http : String) (n : Nat) :
    flv_head http n = flv_text http n ++ "............." := rfl

theorem foldr_byte (l : List Nat) (i : Nat) :
    ((l.foldr (fun b acc => b % 256 + 256 * acc) 0) >>> (8 * i)) % 256 = (l.getD i 0) % 256 := by
  induction l generalizing i with
  | nil => simp
  | cons b l ih =>
    cases i with
    | zero =>
      simp only [List.foldr_cons, Nat.mul_zero, Nat.shiftRight_zero, List.getD_cons_zero]
      omega
    | succ i =>
      simp only [List.foldr_cons, List.getD_cons_succ]
      rw [← ih i, Nat.shiftRight_eq_div_pow, Nat.shiftRight_eq_div_pow]
      have e : 2 ^ (8 * (i + 1)) = 256 * 2 ^ (8 * i) := by
        rw [show 8 * (i + 1) = 8 + 8 * i by ring, Nat.pow_add]
      rw [e, ← Nat.div_div_eq_div_mul]
      congr 2
      omega

theorem byte_at_of_list (l : List Nat) (i : Nat) :
    byte_at (Mem.of_list l) i = (l.getD i 0) % 256 := by
  unfold byte_at Mem.of_list
  simp only
  split
  · exact foldr_byte l i
  · rename_i h
    rw [List.getD_eq_default _ _ (by omega)]

theorem memcpy_list_size (m : Mem) (p : Nat) (bytes : List Nat) :
    (memcpy_list m p bytes).size = m.size := by
  unfold memcpy_list
  exact stores_size m p _ _

theorem memcpy_list_tail (T D bytes : List Nat) (hD : D.length = bytes.length) :
    Mem.to_list (memcpy_list (Mem.of_list (T ++ D)) T.length bytes) =
      T.map (fun b => b % 256) ++ bytes.map (fun b => b % 256) := by
  unfold Mem.to_list
  rw [memcpy_list_size]
  have hsz : (Mem.of_list (T ++ D)).size = T.length + bytes.length := by
    show (T ++ D).length = _
    rw [List.length_append, hD]
  rw [hsz]
  apply List.ext_getElem
  · simp
  · intro i h1 h2
    simp only [List.getElem_map, List.getElem_range]
    unfold memcpy_list
    rw [byte_at_stores, hsz]
    have hi : i < T.length + bytes.length := by simpa using h1
    by_cases hc : i < T.length
    · rw [if_neg (by omega), byte_at_of_list]
      rw [List.getElem_append_left (by simpa using hc)]
      simp only [List.getElem_map]
      rw [List.getD_eq_getElem _ _ (by rw [List.length_append]; omega),
        List.getElem_append_left hc]
    · rw [if_pos ⟨by omega, by omega, by omega⟩]
      rw [List.getElem_append_right (by simpa using hc)]
      simp only [List.getElem_map, List.length_map]
      rw [List.getD_eq_getElem _ _ (by omega)]

theorem flv_finish_spec (x s : stream_t) (st : Nat) (h : flv_finish x = (st, s)) :
    st = 0 ∧ s.http = x.http ∧ s.file_finish = x.file_finish ∧ s.file_offset = x.file_offset ∧
    s.head_offset = 0 ∧
    s.head_length = (c_string (flv_head x.http
      (w64 (w64 (sub64 x.file_finish x.file_offset) + 13)))).size ∧
    s.head = some (memcpy_list (c_string (flv_head x.http
      (w64 (w64 (sub64 x.file_finish x.file_offset) + 13))))
      (sub64 (c_string (flv_head x.http
        (w64 (w64 (sub64 x.file_finish x.file_offset) + 13)))).size 13) flv_header) := by
  unfold flv_finish at h
  generalize (c_string (flv_head x.http
      (w64 (w64 (sub64 x.file_finish x.file_offset) + 13)))) = H at h ⊢
  dsimp only at h
  have h1 := congrArg Prod.fst h
  have h2 := congrArg Prod.snd h
  dsimp only at h1 h2
  subst h2
  exact ⟨h1.symm, rfl, rfl, rfl, rfl, rfl, rfl⟩

theorem flv_compile_success (flv : flv_compiler) (x s : stream_t) (meta_data : Mem)
    (h : flv_compile flv x meta_data = (0, s)) : ∃ y, flv_finish y = (0, s) := by
  unfold flv_compile at h
  split at h
  · unfold flv_error at h
    simp at h
  · exact ⟨_, h⟩

theorem flv_scan_success (flv : flv_compiler) (fuel : Nat) (x s : stream_t)
    (h : flv_scan flv fuel x = some (0, s)) : ∃ y, flv_finish y = (0, s) := by
  unfold flv_scan at h
  dsimp only at h
  split_ifs at h
  · unfold flv_error at h
    simp at h
  · split at h
    · exact Option.noConfusion h
    · unfold flv_error at h
      simp at h
    · simp only [Option.some.injEq] at h
      exact flv_compile_success _ _ _ _ h
  · unfold flv_error at h
    simp at h
  · split at h
    · exact Option.noConfusion h
    · unfold flv_error at h
      simp at h
    · simp only [Option.some.injEq] at h
      exact flv_compile_success _ _ _ _ h

theorem stream_flv_parse_success (flv : flv_compiler) (fuel : Nat) (self s : stream_t)
    (h : stream_flv_parse flv fuel self = some (0, s)) : ∃ y, flv_finish y = (0, s) := by
  unfold stream_flv_parse at h
  dsimp only at h
  split_ifs at h
  · simp only [Option.some.injEq] at h
    exact ⟨_, h⟩
  · split at h
    · simp only [Option.some.injEq] at h
      exact flv_compile_success _ _ _ _ h
    · exact flv_scan_success _ _ _ _ h

theorem c_string_append (a b : String) :
    c_string (a ++ b) =
      Mem.of_list (a.toList.map Char.toNat ++ b.toList.map Char.toNat) := by
  unfold c_string
  rw [← List.map_append]
  rfl

/-- C21. For every successful `stream_flv_parse`, the head consists of the
HTTP header text followed by exactly the 13 bytes
`46 4C 56 01 05 00 00 00 09 00 00 00 00`, `head_length` is the length of the
text plus those 13 bytes, `head_offset` is 0, and the `Content-Length` written
in the text is `file_finish - file_offset + 13` (whenever that value and the
head length are representable in 64 bits). -/
theorem stream_flv_parse_head (flv : flv_compiler) (fuel : Nat) (self s : stream_t) (v : Nat)
    (h : stream_flv_parse flv fuel self = some (0, s))
    (hv : (v : ℤ) = (s.file_finish : ℤ) - (s.file_offset : ℤ) + 13) (hr : v < 2 ^ 64)
    (hl : (flv_text s.http v).length + 13 < 2 ^ 64) :
    ∃ H, s.head = some H ∧
      H.to_list = (flv_text s.http v).toList.map (fun c => c.toNat % 256) ++
        [0x46, 0x4C, 0x56, 0x01, 0x05, 0x00, 0x00, 0x00, 0x09, 0x00, 0x00, 0x00, 0x00] ∧
      s.head_length = (flv_text s.http v).length + 13 ∧ s.head_offset = 0 := by
  obtain ⟨y, hy⟩ := stream_flv_parse_success flv fuel self s h
  obtain ⟨-, e1, e2, e3, e4, e5, e6⟩ := flv_finish_spec y s 0 hy
  have hcl : w64 (w64 (sub64 y.file_finish y.file_offset) + 13) = v := by
    rw [← e2, ← e3]
    unfold sub64 w64
    omega
  rw [hcl, ← e1] at e5 e6
  rw [flv_head_text, c_string_append] at e5 e6
  generalize flv_text s.http v = t at hl e5 e6 ⊢
  have htl : t.length = (t.toList.map Char.toNat).length := by
    rw [List.length_map]
    cases t
    rfl
  have hsz : (Mem.of_list (t.toList.map Char.toNat ++
      ".............".toList.map Char.toNat)).size = t.length + 13 := by
    unfold Mem.of_list
    dsimp only
    rw [List.length_append, ← htl]
    rfl
  rw [hsz] at e5 e6
  have hsub : sub64 (t.length + 13) 13 = (t.toList.map Char.toNat).length := by
    rw [sub64_of_le _ _ (by omega) hl, ← htl]
    omega
  rw [hsub] at e6
  refine ⟨_, e6, ?_, e5, e4⟩
  rw [memcpy_list_tail _ _ _ (by rfl), List.map_map]
  rfl

theorem stream_flv_parse_head_witness :
    (stream_flv_parse sample_compiler 20 sample_flv_stream).map
      (fun r => (r.1, r.2.file_offset, r.2.file_finish, r.2.head_length)) =
      some (0, 40, 200, 221) ∧
    ∃ H, ((stream_flv_parse sample_compiler 20 sample_flv_stream).getD (1, {})).2.head = some H ∧
      H.to_list = (flv_text
          ((stream_flv_parse sample_compiler 20 sample_flv_stream).getD (1, {})).2.http
          173).toList.map (fun c => c.toNat % 256) ++
        [0x46, 0x4C, 0x56, 0x01, 0x05, 0x00, 0x00, 0x00, 0x09, 0x00, 0x00, 0x00, 0x00] ∧
      ((stream_flv_parse sample_compiler 20 sample_flv_stream).getD (1, {})).2.head_length =
        (flv_text ((stream_flv_parse sample_compiler 20 sample_flv_stream).getD (1, {})).2.http
          173).length + 13 ∧
      ((stream_flv_parse sample_compiler 20 sample_flv_stream).getD (1, {})).2.head_offset = 0 :=
  ⟨by decide!, stream_flv_parse_head sample_compiler 20 sample_flv_stream
    ((stream_flv_parse sample_compiler 20 sample_flv_stream).getD (1, {})).2 173
    (eq_some_of_fst _ 0 (1, {}) (by decide!)) (by decide!) (by decide!) (by decide!)⟩

/-! ### The cursor after the keyframe snap -/

theorem stts_at_congr (mem : Mem) (a b : stbl_t) (h : a.stts = b.stts)
    (index offset time sample : Nat) (hat : stts_at mem a index offset time sample) :
    stts_at mem b index offset time sample := by
  unfold stts_at at hat ⊢
  rw [stts_samples_congr mem a b h, stts_time_congr mem a b h] at hat
  have eC : ∀ i, stts_count mem a i = stts_count mem b i := by
    intro i; unfold stts_count; rw [h]
  have eD : ∀ i, stts_delta mem a i = stts_delta mem b i := by
    intro i; unfold stts_delta; rw [h]
  rw [eC, eD, h] at hat
  exact hat

theorem seek_stss_sample_le (mem : Mem) (stbl : stbl_t) (seek : seek_t) :
    (seek_stss mem stbl seek).stsz.index ≤ seek.stsz.index := by
  unfold seek_stss
  dsimp only
  split
  · dsimp only
    split
    · exact seek_stss_loop_le mem _ _ _ _ _ (Nat.zero_le _)
    · exact le_refl _
  · exact le_refl _

/-- C24 (amended). For every `stts` table without 32-bit overflow whose
entries each hold at least one sample, and every requested time not beyond
`max_time`, after the keyframe snap in `compile_seek` the cursor
`(stts.index, stts.offset)` addresses the snapped sample `stsz.index` inside
`stts` (the samples of the entries before `stts.index` plus `stts.offset` are
`stsz.index`, with `stts.offset` inside the entry, or the cursor is at the
end of the table), and `seek.time` is the decode time of that sample, the sum
of the durations of all samples before it, whatever the snap distance. -/
theorem compile_seek_snap_cursor (mem : Mem) (stbl : stbl_t) (seek : seek_t)
    (hT : stts_time mem stbl stbl.stts.count < 2 ^ 32)
    (hN : stts_samples mem stbl stbl.stts.count < 2 ^ 32)
    (hsz : 8 * stbl.stts.count + 4 < 2 ^ 32)
    (hc : ∀ i, i < stbl.stts.count → 0 < stts_count mem stbl i)
    (hreq : seek.time ≤ (compile_maxs mem stbl).max_time) :
    stts_at mem stbl (compile_seek mem (compile_maxs mem stbl) seek).stts.index
      (compile_seek mem (compile_maxs mem stbl) seek).stts.offset
      (compile_seek mem (compile_maxs mem stbl) seek).time
      (compile_seek mem (compile_maxs mem stbl) seek).stsz.index ∧
    (compile_seek mem (compile_maxs mem stbl) seek).time =
      decode_time mem stbl (compile_seek mem (compile_maxs mem stbl) seek).stsz.index ∧
    (compile_seek mem (compile_maxs mem stbl) seek).stsz.index ≤
      (seek_stts mem (compile_maxs mem stbl) seek).1.stsz.index := by
  have hmax := compile_maxs_max mem stbl hT hN
  have e1 : (compile_maxs mem stbl).stts = stbl.stts := rfl
  have e2 : (compile_maxs mem stbl).stss = stbl.stss := rfl
  have eT : ∀ i, stts_time mem (compile_maxs mem stbl) i = stts_time mem stbl i :=
    stts_time_congr mem _ _ e1
  have eN : ∀ i, stts_samples mem (compile_maxs mem stbl) i = stts_samples mem stbl i :=
    stts_samples_congr mem _ _ e1
  have eC : ∀ i, stts_count mem (compile_maxs mem stbl) i = stts_count mem stbl i := fun _ => rfl
  have hT' : stts_time mem (compile_maxs mem stbl) (compile_maxs mem stbl).stts.count < 2 ^ 32 := by
    rw [eT, e1]; exact hT
  have hN' : stts_samples mem (compile_maxs mem stbl) (compile_maxs mem stbl).stts.count < 2 ^ 32 := by
    rw [eN, e1]; exact hN
  have hsz' : 8 * (compile_maxs mem stbl).stts.count + 4 < 2 ^ 32 := by rw [e1]; exact hsz
  have hc' : VOID (compile_maxs mem stbl).stss.atom = false →
      ∀ i, i < (compile_maxs mem stbl).stts.count → 0 < stts_count mem (compile_maxs mem stbl) i := by
    rw [e1]; intro _ i hi; rw [eC]; exact hc i hi
  have hspec := seek_stts_spec mem (compile_maxs mem stbl) seek hT' hN'
    (by rw [eT, e1]; exact hmax.2) (by rw [eN, e1]; exact hmax.1)
    (by rw [eT, e1, ← hmax.2]; exact hreq)
  obtain ⟨hat, -, -, -⟩ := hspec
  obtain ⟨hat2, -⟩ := seek_stss_spec mem (compile_maxs mem stbl) _ hT' hN' hsz' hc' hat
  have hat3 := stts_at_congr mem _ stbl e1 _ _ _ _ hat2
  rw [compile_seek_time, compile_seek_sample, compile_seek_stts]
  refine ⟨hat3, (decode_time_at mem _ _ _ _ _ hat3).symm, ?_⟩
  exact seek_stss_sample_le mem _ _

/-- C24 (counterexample). The `stts` of `empty_entry_file` is
`(5, 1), (0, 7), (5, 1)` and its only sync sample is sample 1. A seek to time
7 (`max_time` is 10) is located at sample 7 with the cursor `(2, 2)` and
snapped to sample 0, whose decode time is 0; the walk back leaves the cursor
`(1, 4294967291)` and `seek.time = 2^64 - 30`. -/
theorem compile_seek_snap_cursor_counterexample :
    (List.range empty_entry_tables.2.stts.count).map
      (fun i => (stts_count empty_entry_tables.1 empty_entry_tables.2 i,
                 stts_delta empty_entry_tables.1 empty_entry_tables.2 i)) =
      [(5, 1), (0, 7), (5, 1)] ∧
    (seek_request 7).time ≤
      (compile_maxs empty_entry_tables.1 empty_entry_tables.2).max_time ∧
    (seek_stts empty_entry_tables.1 (compile_maxs empty_entry_tables.1 empty_entry_tables.2)
      (seek_request 7)).1.stsz.index = 7 ∧
    (seek_stts empty_entry_tables.1 (compile_maxs empty_entry_tables.1 empty_entry_tables.2)
      (seek_request 7)).1.stts = { index := 2, offset := 2 } ∧
    (compile_seek empty_entry_tables.1 (compile_maxs empty_entry_tables.1 empty_entry_tables.2)
      (seek_request 7)).stsz.index = 0 ∧
    (compile_seek empty_entry_tables.1 (compile_maxs empty_entry_tables.1 empty_entry_tables.2)
      (seek_request 7)).stts = { index := 1, offset := 4294967291 } ∧
    (compile_seek empty_entry_tables.1 (compile_maxs empty_entry_tables.1 empty_entry_tables.2)
      (seek_request 7)).time = 18446744073709551586 ∧
    decode_time empty_entry_tables.1 empty_entry_tables.2 0 = 0 ∧
    ¬ ((compile_seek empty_entry_tables.1
          (compile_maxs empty_entry_tables.1 empty_entry_tables.2) (seek_request 7)).time =
        decode_time empty_entry_tables.1 empty_entry_tables.2
          (compile_seek empty_entry_tables.1
            (compile_maxs empty_entry_tables.1 empty_entry_tables.2)
            (seek_request 7)).stsz.index) := by
  decide!

theorem compile_seek_snap_cursor_witness :
    (stts_at sample_tables.1 sample_tables.2
      (compile_seek sample_tables.1 (compile_maxs sample_tables.1 sample_tables.2)
        (seek_request 8)).stts.index
      (compile_seek sample_tables.1 (compile_maxs sample_tables.1 sample_tables.2)
        (seek_request 8)).stts.offset
      (compile_seek sample_tables.1 (compile_maxs sample_tables.1 sample_tables.2)
        (seek_request 8)).time
      (compile_seek sample_tables.1 (compile_maxs sample_tables.1 sample_tables.2)
        (seek_request 8)).stsz.index ∧
    (compile_seek sample_tables.1 (compile_maxs sample_tables.1 sample_tables.2)
        (seek_request 8)).time =
      decode_time sample_tables.1 sample_tables.2
        (compile_seek sample_tables.1 (compile_maxs sample_tables.1 sample_tables.2)
          (seek_request 8)).stsz.index ∧
    (compile_seek sample_tables.1 (compile_maxs sample_tables.1 sample_tables.2)
        (seek_request 8)).stsz.index ≤
      (seek_stts sample_tables.1 (compile_maxs sample_tables.1 sample_tables.2)
        (seek_request 8)).1.stsz.index) ∧
    (seek_stts sample_tables.1 (compile_maxs sample_tables.1 sample_tables.2)
      (seek_request 8)).1.stsz.index = 8 ∧
    (compile_seek sample_tables.1 (compile_maxs sample_tables.1 sample_tables.2)
      (seek_request 8)).stsz.index = 5 ∧
    (compile_seek sample_tables.1 (compile_maxs sample_tables.1 sample_tables.2)
      (seek_request 8)).time = 5 :=
  ⟨compile_seek_snap_cursor sample_tables.1 sample_tables.2 (seek_request 8)
    (by decide!) (by decide!) (by decide!) (by decide!) (by decide!),
   by decide!, by decide!, by decide!⟩

/-! ### The chunk of the target sample -/

theorem chunk_samples_range_succ (g : Nat → Nat × Nat × Nat) (m ch : Nat) :
    chunk_samples ((List.range (m + 1)).map g) ch =
      if (g m).1 ≤ ch then (g m).2.1 else chunk_samples ((List.range m).map g) ch := by
  unfold chunk_samples
  rw [List.range_succ, List.map_append, List.foldl_append]
  rfl

theorem chunk_samples_range (g : Nat → Nat × Nat × Nat) (i ch : Nat) (hle : (g i).1 ≤ ch) (m : Nat) :
    i < m → (∀ k, i < k → k < m → ch < (g k).1) →
      chunk_samples ((List.range m).map g) ch = (g i).2.1 := by
  induction m with
  | zero => intro h; omega
  | succ m ih =>
    intro hi hgt
    rw [chunk_samples_range_succ]
    by_cases him : i = m
    · subst him
      rw [if_pos hle]
    · have := hgt m (by omega) (by omega)
      rw [if_neg (by omega)]
      exact ih (by omega) (fun k h1 h2 => hgt k h1 (by omega))

theorem stsc_total_succ (entries : List (Nat × Nat × Nat)) (k : Nat) :
    stsc_total entries (k + 1) = stsc_total entries k + chunk_samples entries (k + 1) := by
  unfold stsc_total
  rw [List.range_succ, List.map_append, List.sum_append]
  simp

theorem stsc_total_const (entries : List (Nat × Nat × Nat)) (a c : Nat) (u : Nat) :
    (∀ j, a ≤ j → j < a + u → chunk_samples entries (j + 1) = c) →
      stsc_total entries (a + u) = stsc_total entries a + u * c := by
  induction u with
  | zero => intro _; simp
  | succ u ih =>
    intro h
    rw [← Nat.add_assoc, stsc_total_succ, ih (fun j h1 h2 => h j h1 (by omega)),
      h (a + u) (by omega) (by omega), Nat.succ_mul]
    omega

theorem stsc_total_mono (entries : List (Nat × Nat × Nat)) (a b : Nat) (h : a ≤ b) :
    stsc_total entries a ≤ stsc_total entries b := by
  induction b with
  | zero =>
    have : a = 0 := by omega
    subst this
    exact le_refl _
  | succ b ih =>
    by_cases hab : a = b + 1
    · subst hab
      exact le_refl _
    · rw [stsc_total_succ]
      have := ih (by omega)
      omega

theorem stsc_first_mono (mem : Mem) (stbl : stbl_t)
    (hasc : ∀ i, i < stbl.stsc.count - 1 → stsc_first mem stbl i ≤ stsc_first mem stbl (i + 1))
    (i j : Nat) (hij : i ≤ j) (hj : j < stbl.stsc.count) :
    stsc_first mem stbl i ≤ stsc_first mem stbl j := by
  induction j with
  | zero =>
    have : i = 0 := by omega
    subst this
    exact le_refl _
  | succ j ih =>
    by_cases h : i = j + 1
    · subst h
      exact le_refl _
    · exact le_trans (ih (by omega) (by omega)) (hasc j (by omega))

/-- In a well-formed `stsc`, the chunks from the first chunk of entry `i` up
to the first chunk of the next entry hold the samples per chunk of entry `i`. -/
theorem stsc_chunk_samples (mem : Mem) (stbl : stbl_t)
    (hfirst : stsc_first mem stbl 0 = 1)
    (hasc : ∀ i, i < stbl.stsc.count - 1 → stsc_first mem stbl i ≤ stsc_first mem stbl (i + 1))
    (i j : Nat) (hi : i < stbl.stsc.count)
    (h1 : stsc_bound mem stbl i ≤ j) (h2 : j < stsc_bound mem stbl (i + 1)) :
    chunk_samples (stsc_entries mem stbl) (j + 1) = stsc_spc mem stbl i := by
  have hpos : 1 ≤ stsc_first mem stbl i := by
    have := stsc_first_mono mem stbl hasc 0 i (Nat.zero_le _) hi
    omega
  have hb : stsc_bound mem stbl i = stsc_first mem stbl i - 1 := by
    unfold stsc_bound
    rw [if_neg (by omega)]
  unfold stsc_entries
  have key := chunk_samples_range
    (fun i => stsc_entry_at mem (stbl.stsc.data + 12 * i)) i (j + 1)
    (by show stsc_first mem stbl i ≤ j + 1; omega) stbl.stsc.count hi
    (by
      intro k hik hk
      show j + 1 < stsc_first mem stbl k
      have hm := stsc_first_mono mem stbl hasc (i + 1) k (by omega) hk
      have hb2 : stsc_bound mem stbl (i + 1) = stsc_first mem stbl (i + 1) - 1 := by
        unfold stsc_bound
        rw [if_neg (by omega)]
      omega)
  rw [key]
  rfl

theorem stsc_bound_step (mem : Mem) (stbl : stbl_t)
    (hasc : ∀ i, i < stbl.stsc.count - 1 → stsc_first mem stbl i ≤ stsc_first mem stbl (i + 1))
    (hlast : stsc_first mem stbl (stbl.stsc.count - 1) ≤ stbl.max_chunks + 1)
    (i : Nat) (hi : i < stbl.stsc.count) :
    stsc_bound mem stbl i ≤ stsc_bound mem stbl (i + 1) ∧
    stsc_bound mem stbl (i + 1) ≤ stbl.max_chunks := by
  have hb : stsc_bound mem stbl i = stsc_first mem stbl i - 1 := by
    unfold stsc_bound
    rw [if_neg (by omega)]
  have hL := stsc_first_mono mem stbl hasc i (stbl.stsc.count - 1) (by omega) (by omega)
  by_cases h : i + 1 = stbl.stsc.count
  · have hb2 : stsc_bound mem stbl (i + 1) = stbl.max_chunks := by
      unfold stsc_bound
      rw [if_pos h]
    omega
  · have hb2 : stsc_bound mem stbl (i + 1) = stsc_first mem stbl (i + 1) - 1 := by
      unfold stsc_bound
      rw [if_neg h]
    have hL2 := stsc_first_mono mem stbl hasc (i + 1) (stbl.stsc.count - 1) (by omega) (by omega)
    have := hasc i (by omega)
    omega

/-- The `stsc` look-up loop stops at the entry that holds the target sample. -/
theorem seek_stsc_loop_spec (mem : Mem) (stbl : stbl_t) (sample : Nat)
    (hcnt : stbl.stsc.count < 2 ^ 32)
    (hfirst : stsc_first mem stbl 0 = 1)
    (hasc : ∀ i, i < stbl.stsc.count - 1 → stsc_first mem stbl i ≤ stsc_first mem stbl (i + 1))
    (hlast : stsc_first mem stbl (stbl.stsc.count - 1) ≤ stbl.max_chunks + 1)
    (hmc : stbl.max_chunks < 2 ^ 32)
    (htot : stsc_total (stsc_entries mem stbl) stbl.max_chunks < 2 ^ 32)
    (hs : sample < stsc_total (stsc_entries mem stbl) stbl.max_chunks) (k : Nat) :
    ∀ i c0, i + k = stbl.stsc.count →
      stsc_total (stsc_entries mem stbl) (stsc_bound mem stbl i) ≤ sample →
      (seek_stsc_loop mem stbl sample k i (stsc_bound mem stbl i) c0
        (stsc_total (stsc_entries mem stbl) (stsc_bound mem stbl i))).1 < stbl.stsc.count ∧
      seek_stsc_loop mem stbl sample k i (stsc_bound mem stbl i) c0
        (stsc_total (stsc_entries mem stbl) (stsc_bound mem stbl i)) =
        ((seek_stsc_loop mem stbl sample k i (stsc_bound mem stbl i) c0
            (stsc_total (stsc_entries mem stbl) (stsc_bound mem stbl i))).1,
         stsc_bound mem stbl (seek_stsc_loop mem stbl sample k i (stsc_bound mem stbl i) c0
            (stsc_total (stsc_entries mem stbl) (stsc_bound mem stbl i))).1,
         stsc_spc mem stbl (seek_stsc_loop mem stbl sample k i (stsc_bound mem stbl i) c0
            (stsc_total (stsc_entries mem stbl) (stsc_bound mem stbl i))).1,
         stsc_total (stsc_entries mem stbl)
          (stsc_bound mem stbl (seek_stsc_loop mem stbl sample k i (stsc_bound mem stbl i) c0
            (stsc_total (stsc_entries mem stbl) (stsc_bound mem stbl i))).1)) ∧
      stsc_total (stsc_entries mem stbl)
          (stsc_bound mem stbl (seek_stsc_loop mem stbl sample k i (stsc_bound mem stbl i) c0
            (stsc_total (stsc_entries mem stbl) (stsc_bound mem stbl i))).1) ≤ sample ∧
      sample < stsc_total (stsc_entries mem stbl)
          (stsc_bound mem stbl ((seek_stsc_loop mem stbl sample k i (stsc_bound mem stbl i) c0
            (stsc_total (stsc_entries mem stbl) (stsc_bound mem stbl i))).1 + 1)) := by
  induction k with
  | zero =>
    intro i c0 hik hn
    exfalso
    have hi : i = stbl.stsc.count := by omega
    have hb : stsc_bound mem stbl i = stbl.max_chunks := by
      unfold stsc_bound
      rw [if_pos hi]
    rw [hb] at hn
    omega
  | succ k ih =>
    intro i c0 hik hn
    have hi : i < stbl.stsc.count := by omega
    obtain ⟨hb1, hb2⟩ := stsc_bound_step mem stbl hasc hlast i hi
    have hsum := stsc_total_const (stsc_entries mem stbl) (stsc_bound mem stbl i)
      (stsc_spc mem stbl i) (stsc_bound mem stbl (i + 1) - stsc_bound mem stbl i)
      (fun j h1 h2 => stsc_chunk_samples mem stbl hfirst hasc i j hi h1 (by omega))
    have e0 : stsc_bound mem stbl i +
        (stsc_bound mem stbl (i + 1) - stsc_bound mem stbl i) = stsc_bound mem stbl (i + 1) := by
      omega
    rw [e0] at hsum
    have hmono := stsc_total_mono (stsc_entries mem stbl) (stsc_bound mem stbl (i + 1))
      stbl.max_chunks hb2
    have hd : (if i = sub32 stbl.stsc.count 1 then w32 stbl.max_chunks
        else sub32 (read_32 mem (stbl.stsc.data + 12 * i + 12)) 1) =
        stsc_bound mem stbl (i + 1) := by
      rw [sub32_of_le _ _ (by omega) hcnt]
      by_cases h : i = stbl.stsc.count - 1
      · rw [if_pos h, w32_of_lt _ hmc]
        unfold stsc_bound
        rw [if_pos (by omega)]
      · rw [if_neg h]
        have hp : 1 ≤ stsc_first mem stbl (i + 1) := by
          have := stsc_first_mono mem stbl hasc 0 (i + 1) (Nat.zero_le _) (by omega)
          omega
        have e : stbl.stsc.data + 12 * i + 12 = stbl.stsc.data + 12 * (i + 1) := by ring
        rw [e]
        unfold stsc_bound
        rw [if_neg (by omega)]
        exact sub32_of_le _ _ hp (read_32_lt _ _)
    rw [seek_stsc_loop]
    rw [hd, sub32_of_le _ _ hb1 (by omega)]
    have eC : read_32 mem (stbl.stsc.data + 12 * i + 4) = stsc_spc mem stbl i := rfl
    rw [eC]
    generalize hu : stsc_bound mem stbl (i + 1) - stsc_bound mem stbl i = u at *
    generalize hN : stsc_total (stsc_entries mem stbl) (stsc_bound mem stbl i) = n at *
    generalize hN1 : stsc_total (stsc_entries mem stbl) (stsc_bound mem stbl (i + 1)) = n1 at *
    generalize hP : u * stsc_spc mem stbl i = p at *
    rw [w32_of_lt p (by omega), w32_of_lt (n + p) (by omega)]
    by_cases hgt : n + p > sample
    · rw [if_pos hgt]
      refine ⟨hi, ?_, ?_, ?_⟩
      · show _ = (i, stsc_bound mem stbl i, stsc_spc mem stbl i,
          stsc_total (stsc_entries mem stbl) (stsc_bound mem stbl i))
        rw [hN]
      · show stsc_total (stsc_entries mem stbl) (stsc_bound mem stbl i) ≤ sample
        rw [hN]
        exact hn
      · show sample < stsc_total (stsc_entries mem stbl) (stsc_bound mem stbl (i + 1))
        rw [hN1]
        omega
    · rw [if_neg hgt]
      have e1 : w32 (stsc_bound mem stbl i + u) = stsc_bound mem stbl (i + 1) := by
        rw [w32_of_lt _ (by omega)]
        omega
      rw [e1, ← hsum, ← hN1]
      exact ih (i + 1) 1 (by omega) (by rw [hN1]; omega)

theorem seek_stsc_coxx (mem : Mem) (stbl : stbl_t) (seek : seek_t) (c : Nat) :
    (seek_stsc mem stbl seek c).coxx =
      { index := w32 ((seek_stsc_loop mem stbl seek.stsz.index stbl.stsc.count 0 0 c 0).2.1 +
          sub32 seek.stsz.index
            (seek_stsc_loop mem stbl seek.stsz.index stbl.stsc.count 0 0 c 0).2.2.2 /
          (seek_stsc_loop mem stbl seek.stsz.index stbl.stsc.count 0 0 c 0).2.2.1),
        offset := sub32 seek.stsz.index
            (seek_stsc_loop mem stbl seek.stsz.index stbl.stsc.count 0 0 c 0).2.2.2 %
          (seek_stsc_loop mem stbl seek.stsz.index stbl.stsc.count 0 0 c 0).2.2.1 } ∧
    (seek_stsc mem stbl seek c).stsz = seek.stsz := ⟨rfl, rfl⟩

/-- The chunk that `seek_stsc` returns for a target sample inside a
well-formed `stsc`. -/
theorem seek_stsc_chunk (mem : Mem) (stbl : stbl_t) (seek : seek_t) (c : Nat)
    (hcount : 0 < stbl.stsc.count) (hcnt : stbl.stsc.count < 2 ^ 32)
    (hfirst : stsc_first mem stbl 0 = 1)
    (hasc : ∀ i, i < stbl.stsc.count - 1 → stsc_first mem stbl i ≤ stsc_first mem stbl (i + 1))
    (hlast : stsc_first mem stbl (stbl.stsc.count - 1) ≤ stbl.max_chunks + 1)
    (hmc : stbl.max_chunks < 2 ^ 32)
    (htot : stsc_total (stsc_entries mem stbl) stbl.max_chunks < 2 ^ 32)
    (hs : seek.stsz.index < stsc_total (stsc_entries mem stbl) stbl.max_chunks) :
    stsc_total (stsc_entries mem stbl) (seek_stsc mem stbl seek c).coxx.index +
      (seek_stsc mem stbl seek c).coxx.offset = seek.stsz.index ∧
    (seek_stsc mem stbl seek c).coxx.offset <
      chunk_samples (stsc_entries mem stbl) ((seek_stsc mem stbl seek c).coxx.index + 1) ∧
    (seek_stsc mem stbl seek c).coxx.index < stbl.max_chunks := by
  have hb0 : stsc_bound mem stbl 0 = 0 := by
    unfold stsc_bound
    rw [if_neg (by omega), hfirst]
  have ht0 : stsc_total (stsc_entries mem stbl) 0 = 0 := rfl
  have hl := seek_stsc_loop_spec mem stbl seek.stsz.index hcnt hfirst hasc hlast hmc htot hs
    stbl.stsc.count 0 c (by omega) (by rw [hb0, ht0]; exact Nat.zero_le _)
  rw [hb0, ht0] at hl
  rw [(seek_stsc_coxx mem stbl seek c).1]
  dsimp only
  generalize seek_stsc_loop mem stbl seek.stsz.index stbl.stsc.count 0 0 c 0 = r at hl ⊢
  obtain ⟨hi, hr, hle, hlt⟩ := hl
  have h1 : r.2.1 = stsc_bound mem stbl r.1 := by rw [hr]
  have h2 : r.2.2.1 = stsc_spc mem stbl r.1 := by rw [hr]
  have h3 : r.2.2.2 = stsc_total (stsc_entries mem stbl) (stsc_bound mem stbl r.1) := by rw [hr]
  rw [h1, h2, h3]
  obtain ⟨hb1, hb2⟩ := stsc_bound_step mem stbl hasc hlast r.1 hi
  have hsum := stsc_total_const (stsc_entries mem stbl) (stsc_bound mem stbl r.1)
    (stsc_spc mem stbl r.1) (stsc_bound mem stbl (r.1 + 1) - stsc_bound mem stbl r.1)
    (fun j h1 h2 => stsc_chunk_samples mem stbl hfirst hasc r.1 j hi h1 (by omega))
  have e0 : stsc_bound mem stbl r.1 +
      (stsc_bound mem stbl (r.1 + 1) - stsc_bound mem stbl r.1) = stsc_bound mem stbl (r.1 + 1) := by
    omega
  rw [e0] at hsum
  rw [sub32_of_le _ _ hle (by omega)]
  generalize hB : stsc_bound mem stbl r.1 = B at *
  generalize hB1 : stsc_bound mem stbl (r.1 + 1) = B1 at *
  generalize hC : stsc_spc mem stbl r.1 = C at *
  generalize hn : stsc_total (stsc_entries mem stbl) B = n at *
  generalize hd : seek.stsz.index - n = d
  have hdlt : d < (B1 - B) * C := by omega
  have hCpos : 0 < C := by
    rcases Nat.eq_zero_or_pos C with h | h
    · rw [h, Nat.mul_zero] at hdlt
      omega
    · exact h
  have hq : d / C < B1 - B := (Nat.div_lt_iff_lt_mul hCpos).mpr hdlt
  have hdm := Nat.div_add_mod d C
  have hml : d % C < C := Nat.mod_lt _ hCpos
  rw [Nat.mul_comm] at hdm
  generalize d / C = q at hq hdm ⊢
  generalize d % C = m at hml hdm ⊢
  rw [w32_of_lt _ (by omega)]
  have hsum2 := stsc_total_const (stsc_entries mem stbl) B C q
    (fun j h1 h2 => by
      have := stsc_chunk_samples mem stbl hfirst hasc r.1 j hi (by rw [hB]; exact h1)
        (by rw [hB1]; omega)
      rw [hC] at this
      exact this)
  have hcs := stsc_chunk_samples mem stbl hfirst hasc r.1 (B + q) hi (by rw [hB]; omega)
    (by rw [hB1]; omega)
  rw [hC] at hcs
  rw [hsum2, hcs, hn]
  generalize q * C = qc at hdm ⊢
  refine ⟨by omega, hml, by omega⟩

/-- C25 (amended). For a well-formed sample-to-chunk table (first entry starting at
chunk 1, first chunks ascending and within the chunk count, totals below
2^32) that describes at least `max_samples` samples, and every seek whose
target sample `s = stsz.index` is below `max_samples`, `compile_seek` returns
a chunk index `coxx.index` below the chunk count and an in-chunk offset
`coxx.offset` such that the samples held by the chunks `0 .. coxx.index - 1`
plus `coxx.offset` are `s`, with `coxx.offset` smaller than the samples per
chunk of chunk `coxx.index`. -/
theorem compile_seek_chunk (mem : Mem) (stbl : stbl_t) (seek : seek_t)
    (hcount : 0 < stbl.stsc.count) (hcnt : stbl.stsc.count < 2 ^ 32)
    (hfirst : stsc_first mem stbl 0 = 1)
    (hasc : ∀ i, i < stbl.stsc.count - 1 → stsc_first mem stbl i ≤ stsc_first mem stbl (i + 1))
    (hlast : stsc_first mem stbl (stbl.stsc.count - 1) ≤ stbl.max_chunks + 1)
    (hmc : stbl.max_chunks < 2 ^ 32)
    (htot : stsc_total (stsc_entries mem stbl) stbl.max_chunks < 2 ^ 32)
    (hcons : stbl.max_samples ≤ stsc_total (stsc_entries mem stbl) stbl.max_chunks)
    (hs : (compile_seek mem stbl seek).stsz.index < stbl.max_samples) :
    stsc_total (stsc_entries mem stbl) (compile_seek mem stbl seek).coxx.index +
      (compile_seek mem stbl seek).coxx.offset = (compile_seek mem stbl seek).stsz.index ∧
    (compile_seek mem stbl seek).coxx.offset <
      chunk_samples (stsc_entries mem stbl) ((compile_seek mem stbl seek).coxx.index + 1) ∧
    (compile_seek mem stbl seek).coxx.index < stbl.max_chunks := by
  have e : compile_seek mem stbl seek =
      seek_stsc mem stbl
        (seek_ctts mem stbl (seek_stss mem stbl (seek_stts mem stbl seek).1)
          (seek_stts mem stbl seek).2).1
        (seek_ctts mem stbl (seek_stss mem stbl (seek_stts mem stbl seek).1)
          (seek_stts mem stbl seek).2).2 := rfl
  rw [e] at hs ⊢
  generalize (seek_ctts mem stbl (seek_stss mem stbl (seek_stts mem stbl seek).1)
    (seek_stts mem stbl seek).2) = X at hs ⊢
  have e2 : (seek_stsc mem stbl X.1 X.2).stsz.index = X.1.stsz.index := by
    rw [(seek_stsc_coxx mem stbl X.1 X.2).2]
  rw [e2] at hs ⊢
  exact seek_stsc_chunk mem stbl X.1 X.2 hcount hcnt hfirst hasc hlast hmc htot (by omega)

theorem compile_seek_chunk_witness :
    (stsc_total (stsc_entries sample_tables.1 (compile_maxs sample_tables.1 sample_tables.2))
        (compile_seek sample_tables.1 (compile_maxs sample_tables.1 sample_tables.2)
          (seek_request 8)).coxx.index +
      (compile_seek sample_tables.1 (compile_maxs sample_tables.1 sample_tables.2)
        (seek_request 8)).coxx.offset =
      (compile_seek sample_tables.1 (compile_maxs sample_tables.1 sample_tables.2)
        (seek_request 8)).stsz.index ∧
    (compile_seek sample_tables.1 (compile_maxs sample_tables.1 sample_tables.2)
        (seek_request 8)).coxx.offset <
      chunk_samples (stsc_entries sample_tables.1 (compile_maxs sample_tables.1 sample_tables.2))
        ((compile_seek sample_tables.1 (compile_maxs sample_tables.1 sample_tables.2)
          (seek_request 8)).coxx.index + 1) ∧
    (compile_seek sample_tables.1 (compile_maxs sample_tables.1 sample_tables.2)
        (seek_request 8)).coxx.index <
      (compile_maxs sample_tables.1 sample_tables.2).max_chunks) ∧
    stsc_entries sample_tables.1 (compile_maxs sample_tables.1 sample_tables.2) =
      [(1, 4, 1), (3, 2, 1)] ∧
    (compile_maxs sample_tables.1 sample_tables.2).max_chunks = 3 ∧
    (compile_maxs sample_tables.1 sample_tables.2).max_samples = 10 ∧
    (compile_seek sample_tables.1 (compile_maxs sample_tables.1 sample_tables.2)
      (seek_request 8)).stsz.index = 5 ∧
    (compile_seek sample_tables.1 (compile_maxs sample_tables.1 sample_tables.2)
      (seek_request 8)).coxx = { index := 1, offset := 1 } :=
  ⟨compile_seek_chunk sample_tables.1 (compile_maxs sample_tables.1 sample_tables.2)
    (seek_request 8) (by decide!) (by decide!) (by decide!) (by decide!) (by decide!)
    (by decide!) (by decide!) (by decide!) (by decide!),
   by decide!, by decide!, by decide!, by decide!, by decide!⟩

/-! ### The byte offset of the target sample -/

theorem sizes_before_succ (mem : Mem) (stbl : stbl_t) (s n : Nat) (h : n + 1 ≤ s) :
    sizes_before mem stbl s (n + 1) =
      sample_size mem stbl (s - (n + 1)) + sizes_before mem stbl s n := by
  unfold sizes_before
  rw [List.range_succ_eq_map, List.map_cons, List.sum_cons, List.map_map]
  have e : List.map ((fun k => sample_size mem stbl (s - (n + 1) + k)) ∘ Nat.succ) (List.range n) =
      List.map (fun k => sample_size mem stbl (s - n + k)) (List.range n) := by
    apply List.map_congr_left
    intro k _
    show sample_size mem stbl (s - (n + 1) + (k + 1)) = sample_size mem stbl (s - n + k)
    have : s - (n + 1) + (k + 1) = s - n + k := by omega
    rw [this]
  rw [e]
  rfl

theorem sizes_before_const (mem : Mem) (stbl : stbl_t) (s n : Nat) (h : stbl.stsz.size ≠ 0) :
    sizes_before mem stbl s n = n * stbl.stsz.size := by
  simp [sizes_before, sample_size, h]

theorem shl2_w32 (i : Nat) (h : 4 * i < 2 ^ 32) : w32 (i <<< 2) = 4 * i := by
  rw [Nat.shiftLeft_eq]
  have : i * 2 ^ 2 = 4 * i := by omega
  rw [this]
  exact w32_of_lt _ h

/-- The `stsz` accumulation loop adds the sizes of the `n` samples before
sample `sample`. -/
theorem seek_stsz_loop_spec (mem : Mem) (stbl : stbl_t) (sample : Nat)
    (hz : stbl.stsz.size = 0) (hs : 4 * sample < 2 ^ 32) (n : Nat) :
    ∀ offset, offset < 2 ^ 64 → n ≤ sample →
      seek_stsz_loop mem stbl.stsz.data sample n offset =
        w64 (offset + sizes_before mem stbl sample n) := by
  induction n with
  | zero =>
    intro offset ho _
    rw [seek_stsz_loop]
    have : sizes_before mem stbl sample 0 = 0 := rfl
    rw [this, Nat.add_zero]
    exact (w64_of_lt _ ho).symm
  | succ n ih =>
    intro offset _ hn
    have hw : ∀ x, w64 x < 2 ^ 64 := fun x => Nat.mod_lt _ (by norm_num)
    rw [seek_stsz_loop, ih _ (hw _) (by omega), w64_add_w64, sizes_before_succ mem stbl sample n hn]
    rw [sub32_of_le _ _ hn (by omega), shl2_w32 _ (by omega)]
    have e : sample_size mem stbl (sample - (n + 1)) =
        read_32 mem (stbl.stsz.data + 4 * (sample - (n + 1))) := by
      unfold sample_size
      rw [if_neg (by omega)]
    rw [e, Nat.add_assoc]

theorem seek_stsc_loop_le (mem : Mem) (stbl : stbl_t) (sample : Nat) (k : Nat) :
    ∀ index chunk c n, n ≤ sample →
      (seek_stsc_loop mem stbl sample k index chunk c n).2.2.2 ≤ sample := by
  induction k with
  | zero => intro index chunk c n h; exact h
  | succ k ih =>
    intro index chunk c n h
    rw [seek_stsc_loop]
    split_ifs <;> first | exact h | exact ih _ _ _ _ (by omega)

theorem seek_stsc_offset (mem : Mem) (stbl : stbl_t) (seek : seek_t) (c : Nat) :
    (seek_stsc mem stbl seek c).offset =
      if stbl.stsz.size ≠ 0 then
        w64 ((if (seek_stsc mem stbl seek c).coxx.index < stbl.max_chunks then
            read_xx mem (stbl.coxx.data +
              w32 ((seek_stsc mem stbl seek c).coxx.index * stbl.coxx.bytes))
              (stbl.coxx.bytes <<< 3)
          else stbl.max_offset) +
          w32 ((seek_stsc mem stbl seek c).coxx.offset * stbl.stsz.size))
      else seek_stsz_loop mem stbl.stsz.data seek.stsz.index
        (seek_stsc mem stbl seek c).coxx.offset
        (if (seek_stsc mem stbl seek c).coxx.index < stbl.max_chunks then
            read_xx mem (stbl.coxx.data +
              w32 ((seek_stsc mem stbl seek c).coxx.index * stbl.coxx.bytes))
              (stbl.coxx.bytes <<< 3)
          else stbl.max_offset) := rfl

theorem seek_stsc_offset_le (mem : Mem) (stbl : stbl_t) (seek : seek_t) (c : Nat)
    (hs : seek.stsz.index < 2 ^ 32) :
    (seek_stsc mem stbl seek c).coxx.offset ≤ seek.stsz.index := by
  have hle := seek_stsc_loop_le mem stbl seek.stsz.index stbl.stsc.count 0 0 c 0 (Nat.zero_le _)
  have e : (seek_stsc mem stbl seek c).coxx.offset =
      sub32 seek.stsz.index
          (seek_stsc_loop mem stbl seek.stsz.index stbl.stsc.count 0 0 c 0).2.2.2 %
        (seek_stsc_loop mem stbl seek.stsz.index stbl.stsc.count 0 0 c 0).2.2.1 := rfl
  rw [e, sub32_of_le _ _ hle hs]
  exact le_trans (Nat.mod_le _ _) (Nat.sub_le _ _)

/-- The byte offset that `seek_stsc` attaches to a seek record. -/
theorem seek_stsc_byte_offset (mem : Mem) (stbl : stbl_t) (seek : seek_t) (c : Nat)
    (hmax : stbl.max_chunks = stbl.coxx.count)
    (hs : 4 * seek.stsz.index < 2 ^ 32)
    (hw : (seek_stsc mem stbl seek c).coxx.index * stbl.coxx.bytes < 2 ^ 32)
    (hS : (seek_stsc mem stbl seek c).coxx.offset * stbl.stsz.size < 2 ^ 32)
    (hsum : chunk_base mem stbl (seek_stsc mem stbl seek c).coxx.index +
      sizes_before mem stbl seek.stsz.index (seek_stsc mem stbl seek c).coxx.offset < 2 ^ 64) :
    (seek_stsc mem stbl seek c).offset =
      chunk_base mem stbl (seek_stsc mem stbl seek c).coxx.index +
        sizes_before mem stbl seek.stsz.index (seek_stsc mem stbl seek c).coxx.offset := by
  have hle := seek_stsc_offset_le mem stbl seek c (by omega)
  rw [seek_stsc_offset]
  have hbase : (if (seek_stsc mem stbl seek c).coxx.index < stbl.max_chunks then
        read_xx mem (stbl.coxx.data +
          w32 ((seek_stsc mem stbl seek c).coxx.index * stbl.coxx.bytes))
          (stbl.coxx.bytes <<< 3)
      else stbl.max_offset) = chunk_base mem stbl (seek_stsc mem stbl seek c).coxx.index := by
    unfold chunk_base coxx_entry
    rw [hmax, w32_of_lt _ hw, Nat.mul_comm]
  rw [hbase]
  generalize (seek_stsc mem stbl seek c).coxx = X at *
  by_cases hz : stbl.stsz.size ≠ 0
  · rw [if_pos hz, w32_of_lt _ hS]
    rw [sizes_before_const mem stbl _ _ hz] at hsum ⊢
    exact w64_of_lt _ hsum
  · rw [if_neg hz]
    rw [seek_stsz_loop_spec mem stbl seek.stsz.index (by omega) hs X.offset _ (by omega) hle]
    exact w64_of_lt _ hsum

/-- Without overflow, the byte offset of a seek is the chunk offset plus the
sizes of the preceding samples of the chunk. -/
theorem compile_seek_byte_offset_exact (mem : Mem) (stbl : stbl_t) (seek : seek_t)
    (hmax : stbl.max_chunks = stbl.coxx.count)
    (hs : 4 * (compile_seek mem stbl seek).stsz.index < 2 ^ 32)
    (hw : (compile_seek mem stbl seek).coxx.index * stbl.coxx.bytes < 2 ^ 32)
    (hS : (compile_seek mem stbl seek).coxx.offset * stbl.stsz.size < 2 ^ 32)
    (hsum : chunk_base mem stbl (compile_seek mem stbl seek).coxx.index +
      sizes_before mem stbl (compile_seek mem stbl seek).stsz.index
        (compile_seek mem stbl seek).coxx.offset < 2 ^ 64) :
    (compile_seek mem stbl seek).offset =
      chunk_base mem stbl (compile_seek mem stbl seek).coxx.index +
        sizes_before mem stbl (compile_seek mem stbl seek).stsz.index
          (compile_seek mem stbl seek).coxx.offset ∧
    (stbl.stsz.size ≠ 0 →
      (compile_seek mem stbl seek).offset =
        chunk_base mem stbl (compile_seek mem stbl seek).coxx.index +
          (compile_seek mem stbl seek).coxx.offset * stbl.stsz.size) := by
  have e : compile_seek mem stbl seek =
      seek_stsc mem stbl
        (seek_ctts mem stbl (seek_stss mem stbl (seek_stts mem stbl seek).1)
          (seek_stts mem stbl seek).2).1
        (seek_ctts mem stbl (seek_stss mem stbl (seek_stts mem stbl seek).1)
          (seek_stts mem stbl seek).2).2 := rfl
  rw [e] at hs hw hS hsum ⊢
  generalize (seek_ctts mem stbl (seek_stss mem stbl (seek_stts mem stbl seek).1)
    (seek_stts mem stbl seek).2) = X at hs hw hS hsum ⊢
  have e2 : (seek_stsc mem stbl X.1 X.2).stsz.index = X.1.stsz.index := rfl
  rw [e2] at hs hsum ⊢
  have key := seek_stsc_byte_offset mem stbl X.1 X.2 hmax hs hw hS hsum
  refine ⟨key, ?_⟩
  intro hz
  rw [key, sizes_before_const mem stbl _ _ hz]

/-! ### The range kept by a resize -/

/-- C28 (amended). `resize_xxxx` keeps the original entries
`start.index .. end.index - 1` and additionally the entry at `end.index`
whenever the end offset is non-zero or a second end cursor `end2` (given for
`stsc` only) has a non-zero offset; the start offset plays no part. For
`start.index <= end.index`, a kept range inside the table and a table below
4 GiB, the new count is `end.index - start.index`, plus 1 in that case, the
entry width is unchanged and entry `i` of the resized table is at the address
of entry `start.index + i` of the original (no byte is written). -/
theorem resize_xxxx_range (xxxx : stxx_t) (start end_ : tbli_t) (end2 : Option tbli_t)
    (hse : start.index ≤ end_.index) (hec : end_.index + keep_last end_ end2 ≤ xxxx.count)
    (hsmall : xxxx.count * xxxx.bytes < 2 ^ 32) (hc : xxxx.count < 2 ^ 32) :
    (0 < end_.offset → (resize_xxxx xxxx start end_ end2).count = end_.index - start.index + 1) ∧
    (∀ e, end2 = some e → 0 < e.offset →
      (resize_xxxx xxxx start end_ end2).count = end_.index - start.index + 1) ∧
    (end_.offset = 0 → (∀ e, end2 = some e → e.offset = 0) →
      (resize_xxxx xxxx start end_ end2).count = end_.index - start.index) ∧
    (resize_xxxx xxxx start end_ end2).bytes = xxxx.bytes ∧
    ∀ i, (resize_xxxx xxxx start end_ end2).data + xxxx.bytes * i =
      xxxx.data + xxxx.bytes * (start.index + i) := by
  have hx := keep_last_le end_ end2
  have hcount : (resize_xxxx xxxx start end_ end2).count =
      end_.index - start.index + keep_last end_ end2 := by
    rw [resize_xxxx_eq]
    dsimp only
    rw [sub32_of_le _ _ hse (by omega), w32_of_lt _ (by omega)]
  have hdata : (resize_xxxx xxxx start end_ end2).data = xxxx.data + start.index * xxxx.bytes := by
    rw [resize_xxxx_eq]
    dsimp only
    have : start.index * xxxx.bytes ≤ xxxx.count * xxxx.bytes :=
      Nat.mul_le_mul_right _ (by omega)
    rw [w32_of_lt _ (by omega)]
  refine ⟨?_, ?_, ?_, ?_, ?_⟩
  · intro h
    rw [hcount]
    unfold keep_last
    simp [h]
  · intro e he h
    rw [hcount, he]
    unfold keep_last
    simp [h]
  · intro h h2
    rw [hcount]
    unfold keep_last
    cases end2 with
    | none => simp [h]
    | some e => simp [h, h2 e rfl]
  · rw [resize_xxxx_eq]
  · intro i
    rw [hdata, Nat.mul_add, Nat.mul_comm start.index]
    omega

/-- C28 (counterexample). The `stts` of the sound track of `sound_file` has
the single entry `(10, 1)`. For the start cursor `(0, 3)` (a seek to time 3)
and the end cursor `(1, 0)` (a seek to the end, time 10) the start offset is
not zero and the end offset is zero: `resize_xxxx` keeps `1 - 0 = 1` entry,
not 2, and the table has no entry number 1. -/
theorem resize_xxxx_range_counterexample :
    sound_tables.2.stts.count = 1 ∧
    (compile_seek sound_tables.1 (compile_maxs sound_tables.1 sound_tables.2)
      (seek_request 3)).stts = { index := 0, offset := 3 } ∧
    (compile_seek sound_tables.1 (compile_maxs sound_tables.1 sound_tables.2)
      (seek_request 10)).stts = { index := 1, offset := 0 } ∧
    (resize_xxxx sound_tables.2.stts { index := 0, offset := 3 } { index := 1, offset := 0 }
      none).count = 1 ∧
    ¬ ((resize_xxxx sound_tables.2.stts { index := 0, offset := 3 } { index := 1, offset := 0 }
      none).count = 1 - 0 + 1) := by
  decide!

theorem resize_xxxx_range_witness :
    (resize_xxxx sample_tables.2.stsc { index := 0, offset := 1 }
        { index := 1, offset := 0 } (some { index := 2, offset := 3 })).count =
      ({ index := 1, offset := 0 } : tbli_t).index -
        ({ index := 0, offset := 1 } : tbli_t).index + 1 ∧
    sample_tables.2.stsc.count = 2 ∧
    (resize_xxxx sample_tables.2.stsc { index := 0, offset := 1 }
        { index := 1, offset := 0 } (some { index := 2, offset := 3 })).count = 2 ∧
    (resize_xxxx sample_tables.2.stts { index := 0, offset := 3 }
        { index := 0, offset := 5 } none).count = 1 :=
  ⟨(resize_xxxx_range sample_tables.2.stsc { index := 0, offset := 1 }
    { index := 1, offset := 0 } (some { index := 2, offset := 3 })
    (by decide!) (by decide!) (by decide!) (by decide!)).2.1 { index := 2, offset := 3 } rfl
      (by decide!),
   by decide!, by decide!, by decide!⟩

/-! ### The counts of a clipped time table -/

theorem xtts_samples_mono (mem : Mem) (data : Nat) (i j : Nat) (h : i ≤ j) :
    xtts_samples mem data i ≤ xtts_samples mem data j := by
  induction j with
  | zero =>
    have : i = 0 := by omega
    subst this
    exact le_refl _
  | succ j ih =>
    by_cases hij : i = j + 1
    · subst hij
      exact le_refl _
    · have := ih (by omega)
      have e : xtts_samples mem data (j + 1) = xtts_samples mem data j + xtts_count mem data j := rfl
      omega

/-- The sums over a table that starts `si` entries into another one. -/
theorem xtts_samples_shift (m1 m : Mem) (p1 p si : Nat) (k : Nat) :
    (∀ j, j < k → xtts_count m1 p1 j = xtts_count m p (si + j)) →
      xtts_samples m1 p1 k + xtts_samples m p si = xtts_samples m p (si + k) := by
  induction k with
  | zero => intro _; simp [xtts_samples]
  | succ k ih =>
    intro h
    have e1 : xtts_samples m1 p1 (k + 1) = xtts_samples m1 p1 k + xtts_count m1 p1 k := rfl
    have e2 : xtts_samples m p (si + (k + 1)) =
        xtts_samples m p (si + k) + xtts_count m p (si + k) := rfl
    rw [e1, e2, h k (by omega), ← ih (fun j hj => h j (by omega))]
    omega

theorem read_32_write_32_same (m : Mem) (p v : Nat) (hp : p + 4 ≤ m.size) (hv : v < 2 ^ 32) :
    read_32 (write_32 m p v) p = v := by
  unfold read_32 write_32
  have := read_xx_write_xx_same m p v 4 (by omega) hp
  rw [this]
  exact Nat.mod_eq_of_lt hv

theorem read_32_write_32_other (m : Mem) (p v q : Nat) (h : q + 4 ≤ p ∨ p + 4 ≤ q) :
    read_32 (write_32 m p v) q = read_32 m q := by
  unfold read_32 write_32
  exact read_xx_write_xx_other m p v 32 q 32 h

/-- Writing the count of entry `j` changes the sums from entry `j + 1` on by
the difference of the counts. -/
theorem xtts_samples_write (m : Mem) (p j v : Nat) (hv : v < 2 ^ 32) (i : Nat) :
    p + 8 * j + 4 ≤ m.size →
    (i ≤ j → xtts_samples (write_32 m (p + 8 * j) v) p i = xtts_samples m p i) ∧
    (j < i → xtts_samples (write_32 m (p + 8 * j) v) p i + xtts_count m p j =
      xtts_samples m p i + v) := by
  intro hm
  induction i with
  | zero => exact ⟨fun _ => rfl, fun h => absurd h (by omega)⟩
  | succ i ih =>
    have e1 : ∀ mm, xtts_samples mm p (i + 1) = xtts_samples mm p i + xtts_count mm p i :=
      fun _ => rfl
    constructor
    · intro hij
      rw [e1, e1, ih.1 (by omega)]
      unfold xtts_count
      rw [read_32_write_32_other _ _ _ _ (by omega)]
    · intro hji
      rw [e1, e1]
      by_cases h : i = j
      · subst h
        rw [ih.1 (le_refl _)]
        have : xtts_count (write_32 m (p + 8 * i) v) p i = v := by
          unfold xtts_count
          exact read_32_write_32_same _ _ _ hm hv
        rw [this]
        omega
      · have := ih.2 (by omega)
        have e : xtts_count (write_32 m (p + 8 * j) v) p i = xtts_count m p i := by
          unfold xtts_count
          rw [read_32_write_32_other _ _ _ _ (by omega)]
        rw [e]
        omega

/-- The table that `compile_xxxx` leaves for a time table: the range of
entries kept, at their original place, with their original counts. -/
theorem compile_xxxx_entries (mem : Mem) (xtts : stxx_t) (s e : tbli_t) (d : Nat)
    (hv : VOID xtts.atom = false)
    (hd : xtts.atom.data = some d) (hdata : xtts.data = d + 8)
    (hb : xtts.bytes = 8)
    (hsmall : 8 * xtts.count + 64 < 2 ^ 32)
    (hsz : xtts.atom.size = head_size xtts.atom + 8 + xtts.count * xtts.bytes)
    (hse : s.index ≤ e.index) (hec : e.index + keep_last e none ≤ xtts.count) :
    (compile_xxxx mem xtts s e none).1.count = e.index + keep_last e none - s.index ∧
    (compile_xxxx mem xtts s e none).1.data = xtts.data + 8 * s.index ∧
    VOID (compile_xxxx mem xtts s e none).1.atom = false ∧
    (compile_xxxx mem xtts s e none).2.size = mem.size ∧
    ∀ k, xtts_count (compile_xxxx mem xtts s e none).2 (xtts.data + 8 * s.index) k =
      xtts_count mem xtts.data (s.index + k) := by
  have hx := keep_last_le e none
  obtain ⟨r1, -, -, -⟩ := resize_xxxx_sizes xtts 0 s e none (by omega) hsz (by omega)
    (by rw [hb]; omega) hse hec
  have hh := head_size_pos xtts.atom
  have hnv : VOID (resize_xxxx xtts s e none).atom = false := by
    unfold VOID; rw [r1]; simp
  have hcount : (resize_xxxx xtts s e none).count = e.index + keep_last e none - s.index := by
    rw [resize_xxxx_eq]
    dsimp only
    rw [sub32_of_le _ _ hse (by omega), w32_of_lt _ (by omega)]
    omega
  have ha : w32 (s.index * xtts.bytes) = 8 * s.index := by
    rw [hb, w32_of_lt _ (by omega)]
    omega
  have hdat : (resize_xxxx xtts s e none).data = xtts.data + 8 * s.index := by
    rw [resize_xxxx_eq]
    dsimp only
    rw [ha]
  have hadat : (resize_xxxx xtts s e none).atom.data.getD 0 = d + 8 * s.index := by
    rw [resize_xxxx_eq]
    dsimp only
    rw [ha, hd]
    rfl
  have hR : compile_xxxx mem xtts s e none =
      (resize_xxxx xtts s e none,
        write_32 (write_32 mem ((resize_xxxx xtts s e none).atom.data.getD 0)
          (w32 ((resize_xxxx xtts s e none).version <<< 24) |||
            (resize_xxxx xtts s e none).flags))
          ((resize_xxxx xtts s e none).atom.data.getD 0 + 4)
          (resize_xxxx xtts s e none).count) := by
    unfold compile_xxxx
    rw [hv]
    rfl
  rw [hR]
  dsimp only
  refine ⟨hcount, hdat, hnv, ?_, ?_⟩
  · unfold write_32
    rw [write_xx_size, write_xx_size]
  · intro k
    unfold xtts_count
    rw [hadat, read_32_write_32_other _ _ _ _ (by omega),
      read_32_write_32_other _ _ _ _ (by omega)]
    congr 1
    omega

theorem clip_xtts_eq (m : Mem) (Y : stxx_t) (so eo : Nat)
    (hv : VOID Y.atom = false) (hn : 8 * Y.count < 2 ^ 32) (hpos : 0 < Y.count) :
    clip_xtts m Y so eo =
      if eo ≠ 0 then
        write_32 (if so ≠ 0 then
            write_32 m (Y.data + 8 * 0) (sub32 (xtts_count m Y.data 0) so) else m)
          (Y.data + 8 * (Y.count - 1))
          (sub64 (read_32 (if so ≠ 0 then
              write_32 m (Y.data + 8 * 0) (sub32 (xtts_count m Y.data 0) so) else m)
              (Y.data + 8 * (Y.count - 1)))
            (sub32 (xtts_count m Y.data (Y.count - 1)) eo))
      else
        (if so ≠ 0 then
          write_32 m (Y.data + 8 * 0) (sub32 (xtts_count m Y.data 0) so) else m) := by
  unfold clip_xtts
  rw [hv]
  have e : (if Y.count ≠ 0 then w32 (sub32 Y.count 1 <<< 3) else 0) = 8 * (Y.count - 1) := by
    rw [if_pos (by omega), sub32_of_le _ _ (by omega) (by omega), shl3_w32 _ (by omega)]
  dsimp only
  rw [e]
  rfl

/-- The sum of the counts after `clip_xtts`: the first entry loses
`offset_start` samples, and with a non-zero `offset_end` the last entry keeps
`offset_end` samples (less `offset_start` when it is also the first). -/
theorem clip_xtts_spec (m : Mem) (Y : stxx_t) (so eo : Nat)
    (hv : VOID Y.atom = false) (hn : 8 * Y.count < 2 ^ 32)
    (hmem : Y.data + 8 * Y.count ≤ m.size)
    (ha : so ≠ 0 → 0 < Y.count ∧ so ≤ xtts_count m Y.data 0)
    (hb : eo ≠ 0 → 0 < Y.count ∧ eo ≤ xtts_count m Y.data (Y.count - 1))
    (hc : so ≠ 0 → eo ≠ 0 → Y.count = 1 → so ≤ eo) :
    xtts_samples (clip_xtts m Y so eo) Y.data Y.count + so +
        (if eo ≠ 0 then xtts_count m Y.data (Y.count - 1) - eo else 0) =
      xtts_samples m Y.data Y.count := by
  by_cases hpos : 0 < Y.count
  · rw [clip_xtts_eq m Y so eo hv hn hpos]
    have hc0 : xtts_count m Y.data 0 < 2 ^ 32 := read_32_lt _ _
    have hcb : xtts_count m Y.data (Y.count - 1) < 2 ^ 32 := read_32_lt _ _
    by_cases hso : so ≠ 0
    · obtain ⟨-, ha2⟩ := ha hso
      rw [if_pos hso]
      have w1 := (xtts_samples_write m Y.data 0 (xtts_count m Y.data 0 - so) (by omega) Y.count
        (by omega)).2 hpos
      rw [sub32_of_le _ _ ha2 hc0]
      by_cases heo : eo ≠ 0
      · obtain ⟨-, hb2⟩ := hb heo
        rw [if_pos heo, if_pos heo, sub32_of_le _ _ hb2 hcb]
        generalize hm2 : write_32 m (Y.data + 8 * 0) (xtts_count m Y.data 0 - so) = m2 at *
        have hm2s : m2.size = m.size := by
          rw [← hm2]
          unfold write_32
          rw [write_xx_size]
        have hr : read_32 m2 (Y.data + 8 * (Y.count - 1)) =
            if Y.count = 1 then xtts_count m Y.data 0 - so
            else xtts_count m Y.data (Y.count - 1) := by
          by_cases h1 : Y.count = 1
          · rw [if_pos h1, h1, ← hm2]
            exact read_32_write_32_same _ _ _ (by omega) (by omega)
          · rw [if_neg h1, ← hm2, read_32_write_32_other _ _ _ _ (by omega)]
            rfl
        have hrl : read_32 m2 (Y.data + 8 * (Y.count - 1)) < 2 ^ 32 := read_32_lt _ _
        have hge : xtts_count m Y.data (Y.count - 1) - eo ≤
            read_32 m2 (Y.data + 8 * (Y.count - 1)) := by
          rw [hr]
          by_cases h1 : Y.count = 1
          · have e0 : Y.count - 1 = 0 := by omega
            have := hc hso heo h1
            rw [if_pos h1, e0]
            omega
          · rw [if_neg h1]
            omega
        rw [sub64_of_le _ _ hge (by omega)]
        have w2 := (xtts_samples_write m2 Y.data (Y.count - 1)
          (read_32 m2 (Y.data + 8 * (Y.count - 1)) - (xtts_count m Y.data (Y.count - 1) - eo))
          (by omega) Y.count (by omega)).2 (by omega)
        have e2 : xtts_count m2 Y.data (Y.count - 1) =
            read_32 m2 (Y.data + 8 * (Y.count - 1)) := rfl
        rw [e2] at w2
        omega
      · rw [if_neg heo, if_neg heo]
        omega
    · have hso0 : so = 0 := by omega
      rw [if_neg hso]
      by_cases heo : eo ≠ 0
      · obtain ⟨-, hb2⟩ := hb heo
        rw [if_pos heo, if_pos heo, sub32_of_le _ _ hb2 hcb]
        have e2 : read_32 m (Y.data + 8 * (Y.count - 1)) = xtts_count m Y.data (Y.count - 1) := rfl
        rw [e2, sub64_of_le _ _ (by omega) (by omega)]
        have w2 := (xtts_samples_write m Y.data (Y.count - 1)
          (xtts_count m Y.data (Y.count - 1) - (xtts_count m Y.data (Y.count - 1) - eo))
          (by omega) Y.count (by omega)).2 (by omega)
        omega
      · rw [if_neg heo, if_neg heo]
        omega
  · have hso : so = 0 := by
      by_contra h
      exact hpos (ha h).1
    have heo : eo = 0 := by
      by_contra h
      exact hpos (hb h).1
    subst hso; subst heo
    unfold clip_xtts
    rw [hv]
    simp

theorem keep_last_none_eq (e : tbli_t) : keep_last e none = if e.offset ≠ 0 then 1 else 0 := by
  unfold keep_last
  by_cases h : e.offset = 0
  · simp [h]
  · have : e.offset > 0 := by omega
    simp [h, this]

/-- C27. After `compile_xxxx` followed by `clip_xtts` on a time table (`stts`,
and likewise `ctts`), the sum of the entry counts of the retained table is
`E - S`, where `S` and `E` are the samples that the start and end cursors
address (`start.stsz.index` and `end.stsz.index`), for every `S <= E`,
including the case where both cursors are in the same entry. The table is a
well-formed box (`size` = head + 8 + 8 * count, entries 8 bytes after the
payload start) inside the buffer and below 4 GiB. -/
theorem clip_xtts_total (mem : Mem) (xtts : stxx_t) (s e : tbli_t) (S E d : Nat)
    (hv : VOID xtts.atom = false)
    (hd : xtts.atom.data = some d) (hdata : xtts.data = d + 8)
    (hb : xtts.bytes = 8)
    (hsmall : 8 * xtts.count + 64 < 2 ^ 32)
    (hsz : xtts.atom.size = head_size xtts.atom + 8 + xtts.count * xtts.bytes)
    (hmem : xtts.data + 8 * xtts.count ≤ mem.size)
    (hs : xtts_at mem xtts s.index s.offset S) (he : xtts_at mem xtts e.index e.offset E)
    (hle : S ≤ E) :
    xtts_samples
      (clip_xtts (compile_xxxx mem xtts s e none).2 (compile_xxxx mem xtts s e none).1
        s.offset e.offset)
      (compile_xxxx mem xtts s e none).1.data (compile_xxxx mem xtts s e none).1.count =
      E - S := by
  obtain ⟨hS, hsc⟩ := hs
  obtain ⟨hE, hec⟩ := he
  have hstep : ∀ i, xtts_samples mem xtts.data (i + 1) =
      xtts_samples mem xtts.data i + xtts_count mem xtts.data i := fun _ => rfl
  have hk := keep_last_none_eq e
  have hsi : s.index ≤ xtts.count := by
    rcases hsc with ⟨h, _⟩ | ⟨h, _⟩ <;> omega
  have hse : s.index ≤ e.index := by
    by_contra hcon
    rcases hec with ⟨h1, h2⟩ | ⟨h1, _⟩
    · have := xtts_samples_mono mem xtts.data (e.index + 1) s.index (by omega)
      have := hstep e.index
      omega
    · omega
  have hec2 : e.index + keep_last e none ≤ xtts.count := by
    rw [hk]
    rcases hec with ⟨h1, h2⟩ | ⟨h1, h2⟩
    · split <;> omega
    · rw [if_neg (by omega)]
      omega
  obtain ⟨hcnt, hdat, hnv, hsize, hent⟩ :=
    compile_xxxx_entries mem xtts s e d hv hd hdata hb hsmall hsz hse hec2
  generalize compile_xxxx mem xtts s e none = R at hcnt hdat hnv hsize hent ⊢
  rw [← hdat] at hent
  have hshift := xtts_samples_shift R.2 mem R.1.data xtts.data s.index R.1.count
    (fun j _ => hent j)
  have hspec := clip_xtts_spec R.2 R.1 s.offset e.offset hnv (by omega) (by omega)
    (by
      intro hso
      rcases hsc with ⟨h1, h2⟩ | ⟨h1, h2⟩
      · have h0 := hent 0
        rw [Nat.add_zero] at h0
        rw [h0]
        refine ⟨?_, by omega⟩
        rw [hcnt, hk]
        by_cases heo : e.offset ≠ 0
        · rw [if_pos heo]
          omega
        · rw [if_neg heo]
          have : s.index ≠ e.index := by
            intro h
            rw [h] at hS
            omega
          omega
      · omega)
    (by
      intro heo
      rcases hec with ⟨h1, h2⟩ | ⟨h1, h2⟩
      · have hc1 : R.1.count = e.index - s.index + 1 := by
          rw [hcnt, hk, if_pos heo]
          omega
        have h0 := hent (R.1.count - 1)
        have e1 : s.index + (R.1.count - 1) = e.index := by omega
        rw [e1] at h0
        rw [h0]
        exact ⟨by omega, by omega⟩
      · omega)
    (by
      intro hso heo h1
      have : s.index = e.index := by
        rw [hcnt, hk, if_pos heo] at h1
        omega
      rw [this] at hS
      omega)
  by_cases heo : e.offset ≠ 0
  · rw [if_pos heo] at hspec
    have hc1 : R.1.count = e.index - s.index + 1 := by
      rw [hcnt, hk, if_pos heo]
      omega
    have h0 := hent (R.1.count - 1)
    have e1 : s.index + (R.1.count - 1) = e.index := by omega
    have e2 : s.index + R.1.count = e.index + 1 := by omega
    rw [e1] at h0
    rw [h0] at hspec
    rw [e2, hstep] at hshift
    rcases hec with ⟨h1, h2⟩ | ⟨h1, h2⟩
    · omega
    · omega
  · rw [if_neg heo] at hspec
    have e2 : s.index + R.1.count = e.index := by
      rw [hcnt, hk, if_neg heo]
      omega
    rw [e2] at hshift
    omega

theorem clip_xtts_total_witness :
    xtts_samples
      (clip_xtts
        (compile_xxxx empty_entry_tables.1 empty_entry_tables.2.stts { index := 0, offset := 3 }
          { index := 2, offset := 2 } none).2
        (compile_xxxx empty_entry_tables.1 empty_entry_tables.2.stts { index := 0, offset := 3 }
          { index := 2, offset := 2 } none).1
        ({ index := 0, offset := 3 } : tbli_t).offset
        ({ index := 2, offset := 2 } : tbli_t).offset)
      (compile_xxxx empty_entry_tables.1 empty_entry_tables.2.stts { index := 0, offset := 3 }
        { index := 2, offset := 2 } none).1.data
      (compile_xxxx empty_entry_tables.1 empty_entry_tables.2.stts { index := 0, offset := 3 }
        { index := 2, offset := 2 } none).1.count = 7 - 3 ∧
    (List.range 3).map (xtts_count empty_entry_tables.1 empty_entry_tables.2.stts.data) =
      [5, 0, 5] ∧
    (List.range 3).map (xtts_count
      (clip_xtts
        (compile_xxxx empty_entry_tables.1 empty_entry_tables.2.stts { index := 0, offset := 3 }
          { index := 2, offset := 2 } none).2
        (compile_xxxx empty_entry_tables.1 empty_entry_tables.2.stts { index := 0, offset := 3 }
          { index := 2, offset := 2 } none).1 3 2)
      (compile_xxxx empty_entry_tables.1 empty_entry_tables.2.stts { index := 0, offset := 3 }
        { index := 2, offset := 2 } none).1.data) = [2, 0, 2] ∧
    xtts_samples
      (clip_xtts
        (compile_xxxx sample_tables.1 sample_tables.2.stts { index := 0, offset := 3 }
          { index := 0, offset := 8 } none).2
        (compile_xxxx sample_tables.1 sample_tables.2.stts { index := 0, offset := 3 }
          { index := 0, offset := 8 } none).1 3 8)
      (compile_xxxx sample_tables.1 sample_tables.2.stts { index := 0, offset := 3 }
        { index := 0, offset := 8 } none).1.data
      (compile_xxxx sample_tables.1 sample_tables.2.stts { index := 0, offset := 3 }
        { index := 0, offset := 8 } none).1.count = 5 :=
  ⟨clip_xtts_total empty_entry_tables.1 empty_entry_tables.2.stts { index := 0, offset := 3 }
    { index := 2, offset := 2 } 3 7 (empty_entry_tables.2.stts.atom.data.getD 0)
    (by decide!) (by decide!) (by decide!) (by decide!) (by decide!) (by decide!) (by decide!)
    (by decide!) (by decide!) (by decide!),
   by decide!, by decide!, by decide!⟩

/-! ### The start entry of a clipped sample-to-chunk table -/

theorem read_32_write_32_mod (m : Mem) (p v : Nat) (hp : p + 4 ≤ m.size) :
    read_32 (write_32 m p v) p = v % 2 ^ 32 := by
  unfold read_32 write_32
  exact read_xx_write_xx_same m p v 4 (by omega) hp

theorem write_32_size (m : Mem) (p v : Nat) : (write_32 m p v).size = m.size := by
  unfold write_32
  exact write_xx_size m p v 32

/-- The three fields of an additional `stsc` entry after its three writes. -/
theorem stsc_entry_written (b : Mem) (x y z : Nat) (hb : 12 ≤ b.size) :
    stsc_entry_at (write_32 (write_32 (write_32 b 0 x) 4 y) 8 z) 0 =
      (x % 2 ^ 32, y % 2 ^ 32, z % 2 ^ 32) := by
  unfold stsc_entry_at
  have s1 := write_32_size b 0 x
  have s2 := write_32_size (write_32 b 0 x) 4 y
  rw [read_32_write_32_other _ _ _ _ (by omega), read_32_write_32_other _ _ _ _ (by omega),
    read_32_write_32_mod _ _ _ (by omega)]
  rw [read_32_write_32_other _ _ _ _ (by omega), read_32_write_32_mod _ _ _ (by omega)]
  rw [read_32_write_32_mod _ _ _ (by omega)]

theorem byte_at_mod (m : Mem) (p : Nat) : byte_at m p % 256 = byte_at m p :=
  Nat.mod_eq_of_lt (byte_at_lt m p)

/-- Reading a field of an entry copied by `copy_entry`. -/
theorem read_32_copy_entry (mem : Mem) (p : Nat) (e : Mem) (o : Nat) (ho : o + 4 ≤ 12)
    (hp : p + 12 ≤ mem.size) :
    read_32 (copy_entry mem p e) (p + o) = read_32 e o := by
  unfold read_32
  apply read_xx_congr
  intro i hi
  have hi4 : i < 4 := hi
  unfold copy_entry
  rw [byte_at_stores, if_pos ⟨by omega, by omega, by omega⟩]
  have : p + o + i - p = o + i := by omega
  rw [this, byte_at_mod]

theorem read_32_copy_entry_other (mem : Mem) (p : Nat) (e : Mem) (q : Nat)
    (h : q + 4 ≤ p ∨ p + 12 ≤ q) :
    read_32 (copy_entry mem p e) q = read_32 mem q := by
  unfold read_32
  apply read_xx_congr
  intro i hi
  have hi4 : i < 4 := hi
  unfold copy_entry
  rw [byte_at_stores, if_neg (by omega)]

theorem copy_entry_size (mem : Mem) (p : Nat) (e : Mem) : (copy_entry mem p e).size = mem.size := by
  unfold copy_entry
  exact stores_size mem p _ 12

/-- The loop of `clip_stsc` writes at or after its start pointer only. -/
theorem clip_stsc_loop_frame (d : Nat) (k : Nat) :
    ∀ (mem : Mem) (p a : Nat), a + 4 ≤ p →
      read_32 (clip_stsc_loop d k mem p) a = read_32 mem a := by
  induction k with
  | zero => intro mem p a _; rfl
  | succ k ih =>
    intro mem p a h
    rw [clip_stsc_loop, ih _ _ _ (by omega), read_32_write_32_other _ _ _ _ (by omega)]

theorem clip_stsc_prepend_data (mem : Mem) (stsc : stxx_t) (s : seek_t) (p n c : Nat) :
    (clip_stsc_prepend mem stsc s p n c).2.1.atom.data = stsc.atom.data := by
  obtain ⟨⟨a1, a2, a3, a4, a5, a6, a7, a8, a9⟩, b1, b2, b3, b4, b5, b6⟩ := stsc
  unfold clip_stsc_prepend
  split_ifs <;> rfl

theorem clip_stsc_append_data (mem : Mem) (k : Nat) (stsc : stxx_t) (p : Nat) (e : seek_t) :
    (clip_stsc_append mem k stsc p e).1.atom.data = stsc.atom.data := by
  obtain ⟨⟨a1, a2, a3, a4, a5, a6, a7, a8, a9⟩, b1, b2, b3, b4, b5, b6⟩ := stsc
  unfold clip_stsc_append
  split_ifs <;> rfl

theorem clip_stsc_remaining_frame (mem : Mem) (s p n : Nat) (start end_ : seek_t) (a : Nat)
    (h : a + 4 ≤ p) :
    read_32 (clip_stsc_remaining mem s p n start end_).1 a = read_32 mem a := by
  unfold clip_stsc_remaining
  split
  · exact clip_stsc_loop_frame _ _ _ _ _ h
  · rfl

/-- The blocks of `clip_stsc`. -/
theorem clip_stsc_phases (mem : Mem) (stbl : stbl_t) (start end_ : seek_t)
    (hv : VOID stbl.stsc.atom = false) :
    clip_stsc mem stbl start end_ =
      (write_32
        (write_32 (clip_remained mem stbl start end_).1
          ((clip_appended mem stbl start end_).1.atom.data.getD 0)
          (w32 ((clip_appended mem stbl start end_).1.version <<< 24) |||
            (clip_appended mem stbl start end_).1.flags))
        ((clip_appended mem stbl start end_).1.atom.data.getD 0 + 4)
        (clip_appended mem stbl start end_).1.count,
       { stbl with stsc := (clip_appended mem stbl start end_).1 },
       (clip_prepended mem stbl start).2.2,
       (clip_appended mem stbl start end_).2) := by
  unfold clip_stsc
  rw [hv]
  rfl

/-- The first retained entry after `clip_stsc` is as its "prepend" block left
it: the later blocks write behind it, the header before it. -/
theorem clip_stsc_first_entry (mem : Mem) (stbl : stbl_t) (start end_ : seek_t) (d a : Nat)
    (hv : VOID stbl.stsc.atom = false)
    (hd : stbl.stsc.atom.data = some d) (hdata : stbl.stsc.data = d + 8)
    (h1 : stbl.stsc.data ≤ a) (h2 : a + 4 ≤ stbl.stsc.data + 12) :
    read_32 (clip_stsc mem stbl start end_).1 a = read_32 (clip_prepended mem stbl start).1 a := by
  rw [clip_stsc_phases mem stbl start end_ hv]
  dsimp only
  have e : (clip_appended mem stbl start end_).1.atom.data.getD 0 = d := by
    unfold clip_appended clip_prepended
    rw [clip_stsc_append_data, clip_stsc_prepend_data, hd]
    rfl
  rw [e, read_32_write_32_other _ _ _ _ (by omega), read_32_write_32_other _ _ _ _ (by omega)]
  unfold clip_remained
  exact clip_stsc_remaining_frame _ _ _ _ _ _ _ (by omega)

theorem clip_stsc_prepend_table (mem : Mem) (stsc : stxx_t) (s : seek_t) (p n c : Nat) :
    (clip_stsc_prepend mem stsc s p n c).2.1.data = stsc.data := by
  obtain ⟨⟨a1, a2, a3, a4, a5, a6, a7, a8, a9⟩, b1, b2, b3, b4, b5, b6⟩ := stsc
  unfold clip_stsc_prepend
  split_ifs <;> rfl

theorem clip_stsc_append_table (mem : Mem) (k : Nat) (stsc : stxx_t) (p : Nat) (e : seek_t) :
    (clip_stsc_append mem k stsc p e).1.data = stsc.data := by
  obtain ⟨⟨a1, a2, a3, a4, a5, a6, a7, a8, a9⟩, b1, b2, b3, b4, b5, b6⟩ := stsc
  unfold clip_stsc_append
  split_ifs <;> rfl

/-- The "prepend" block of `clip_stsc` for a start cut inside a chunk. -/
theorem clip_stsc_prepend_entry (mem : Mem) (stsc : stxx_t) (s : seek_t) (p n c : Nat)
    (hoff : s.coxx.offset ≠ 0) (hse : 12 ≤ s.stsc_entry.size) (hmem : p + 12 ≤ mem.size)
    (hc : c = read_32 mem (p + 4)) :
    stsc_entry_at (clip_stsc_prepend mem stsc s p n c).2.2.stsc_entry 0 =
      (1, sub32 c s.coxx.offset, read_32 mem (p + 8)) ∧
    (1 < n → (clip_stsc_prepend mem stsc s p n c).2.2.coxx.offset = 1 ∧
      stsc_entry_at (clip_stsc_prepend mem stsc s p n c).1 p = (2, c, read_32 mem (p + 8))) ∧
    (n ≤ 1 → (clip_stsc_prepend mem stsc s p n c).2.2.coxx.offset = 0 ∧
      stsc_entry_at (clip_stsc_prepend mem stsc s p n c).1 p =
        (1, sub32 c s.coxx.offset, read_32 mem (p + 8))) := by
  have hE := stsc_entry_written s.stsc_entry 1 (sub32 c s.coxx.offset) (read_32 mem (p + 8)) hse
  have m1 : (1 : Nat) % 2 ^ 32 = 1 := by norm_num
  have m2 : sub32 c s.coxx.offset % 2 ^ 32 = sub32 c s.coxx.offset := by
    unfold sub32
    exact Nat.mod_mod _ _
  have m3 : read_32 mem (p + 8) % 2 ^ 32 = read_32 mem (p + 8) :=
    Nat.mod_eq_of_lt (read_32_lt _ _)
  rw [m1, m2, m3] at hE
  unfold clip_stsc_prepend
  rw [if_pos hoff]
  dsimp only
  by_cases hn : n > 1
  · rw [if_pos hn]
    dsimp only
    refine ⟨hE, fun _ => ⟨rfl, ?_⟩, fun h => absurd hn (by omega)⟩
    unfold stsc_entry_at
    rw [read_32_write_32_mod _ _ _ (by omega), read_32_write_32_other _ _ _ _ (by omega),
      read_32_write_32_other _ _ _ _ (by omega), ← hc]
    rfl
  · rw [if_neg hn]
    dsimp only
    refine ⟨hE, fun h => absurd h hn, fun _ => ⟨rfl, ?_⟩⟩
    rw [← hE]
    unfold stsc_entry_at
    have e0 : read_32 (copy_entry mem p
        (write_32 (write_32 (write_32 s.stsc_entry 0 1) 4 (sub32 c s.coxx.offset)) 8
          (read_32 mem (p + 8)))) p = _ := read_32_copy_entry mem p
      (write_32 (write_32 (write_32 s.stsc_entry 0 1) 4 (sub32 c s.coxx.offset)) 8
        (read_32 mem (p + 8))) 0 (by omega) hmem
    rw [e0, read_32_copy_entry mem p _ 4 (by omega) hmem,
      read_32_copy_entry mem p _ 8 (by omega) hmem]

theorem emitted_stsc_cons (mem : Mem) (trak : trak_t)
    (hds : 20 ≤ trak.mdia.minf.stbl.stsc.atom.data_size) :
    ∃ rest, emitted_stsc mem trak =
      (if trak.start.coxx.offset ≠ 0 then [stsc_entry_at trak.start.stsc_entry 0] else []) ++
        stsc_entry_at mem trak.mdia.minf.stbl.stsc.data :: rest := by
  unfold emitted_stsc
  obtain ⟨k, hk⟩ : ∃ k, (trak.mdia.minf.stbl.stsc.atom.data_size - 8) / 12 = k + 1 :=
    ⟨(trak.mdia.minf.stbl.stsc.atom.data_size - 8) / 12 - 1, by omega⟩
  rw [hk, List.range_succ_eq_map, List.map_cons, List.append_assoc, List.cons_append]
  exact ⟨_, rfl⟩

/-- C29. When the start cut falls inside a chunk (`start.coxx.offset > 0`,
not above the samples per chunk `c` of the first retained entry), the `stsc`
emitted after `clip_stsc` begins with the entry `(1, c - start.coxx.offset, d)`,
`d` the sample description id of the first retained entry. Whether that entry
replaces the first retained entry or precedes it is decided by `chunks_left`,
the value `n` that `clip_stsc` computes as "chunks left in entry": the chunks
from the start chunk up to the first chunk of the second retained entry, but
up to `max_chunks`, the end of the whole source table, when a single entry is
retained. For `chunks_left > 1` the additional entry is activated and precedes
the first retained entry, whose first chunk is rewritten to 2; otherwise it is
copied over the first retained entry and no additional entry is emitted. -/
theorem clip_stsc_start_entry (mem : Mem) (stbl : stbl_t) (start end_ : seek_t) (d : Nat)
    (hv : VOID stbl.stsc.atom = false) (hoff : start.coxx.offset ≠ 0)
    (hd : stbl.stsc.atom.data = some d) (hdata : stbl.stsc.data = d + 8)
    (hmem : stbl.stsc.data + 12 ≤ mem.size) (hse : 12 ≤ start.stsc_entry.size)
    (hcx : stbl.coxx.data + stbl.coxx.bytes ≤ stbl.stsc.data ∨
      stbl.stsc.data + 16 ≤ stbl.coxx.data)
    (hds : 20 ≤ stbl.stsc.atom.data_size)
    (hlt : start.coxx.offset ≤ read_32 mem (stbl.stsc.data + 4)) :
    (1 < chunks_left mem stbl start →
      (clip_stsc mem stbl start end_).2.2.1.coxx.offset = 1 ∧
      ∃ rest, spliced_stsc mem stbl start end_ =
        (1, read_32 mem (stbl.stsc.data + 4) - start.coxx.offset,
          read_32 mem (stbl.stsc.data + 8)) ::
        (2, read_32 mem (stbl.stsc.data + 4), read_32 mem (stbl.stsc.data + 8)) :: rest) ∧
    (chunks_left mem stbl start ≤ 1 →
      (clip_stsc mem stbl start end_).2.2.1.coxx.offset = 0 ∧
      ∃ rest, spliced_stsc mem stbl start end_ =
        (1, read_32 mem (stbl.stsc.data + 4) - start.coxx.offset,
          read_32 mem (stbl.stsc.data + 8)) :: rest) := by
  have hw : (stbl.coxx.bytes <<< 3) >>> 3 = stbl.coxx.bytes := by rw [shl3, shr3]
  have hr : ∀ a, stbl.stsc.data ≤ a → a + 4 ≤ stbl.stsc.data + 16 →
      read_32 (write_xx mem stbl.coxx.data start.offset (stbl.coxx.bytes <<< 3)) a =
        read_32 mem a := by
    intro a h1 h2
    unfold read_32
    apply read_xx_write_xx_other
    rw [hw]
    have : (32 : Nat) >>> 3 = 4 := by decide
    rw [this]
    omega
  have hn : chunks_left (write_xx mem stbl.coxx.data start.offset (stbl.coxx.bytes <<< 3))
      stbl start = chunks_left mem stbl start := by
    unfold chunks_left
    rw [hr _ (by omega) (by omega), hr _ (le_refl _) (by omega)]
  have hsub : sub32 (read_32 mem (stbl.stsc.data + 4)) start.coxx.offset =
      read_32 mem (stbl.stsc.data + 4) - start.coxx.offset :=
    sub32_of_le _ _ hlt (read_32_lt _ _)
  obtain ⟨pE, pA, pB⟩ := clip_stsc_prepend_entry
    (write_xx mem stbl.coxx.data start.offset (stbl.coxx.bytes <<< 3)) stbl.stsc start
    stbl.stsc.data (chunks_left mem stbl start) (read_32 mem (stbl.stsc.data + 4))
    hoff hse (by rw [write_xx_size]; exact hmem) (hr _ (by omega) (by omega)).symm
  rw [hr _ (by omega) (by omega)] at pE pA pB
  rw [hsub] at pE pB
  have hP : clip_prepended mem stbl start =
      clip_stsc_prepend (write_xx mem stbl.coxx.data start.offset (stbl.coxx.bytes <<< 3))
        stbl.stsc start stbl.stsc.data (chunks_left mem stbl start)
        (read_32 mem (stbl.stsc.data + 4)) := by
    unfold clip_prepended
    rw [hn, hr _ (by omega) (by omega)]
  rw [← hP] at pE pA pB
  have hstart : (clip_stsc mem stbl start end_).2.2.1 = (clip_prepended mem stbl start).2.2 := by
    rw [clip_stsc_phases mem stbl start end_ hv]
  have hfirst : stsc_entry_at (clip_stsc mem stbl start end_).1 stbl.stsc.data =
      stsc_entry_at (clip_prepended mem stbl start).1 stbl.stsc.data := by
    unfold stsc_entry_at
    rw [clip_stsc_first_entry mem stbl start end_ d _ hv hd hdata (le_refl _) (by omega),
      clip_stsc_first_entry mem stbl start end_ d _ hv hd hdata (by omega) (by omega),
      clip_stsc_first_entry mem stbl start end_ d _ hv hd hdata (by omega) (by omega)]
  have htab : (clip_stsc mem stbl start end_).2.1.stsc.data = stbl.stsc.data := by
    rw [clip_stsc_phases mem stbl start end_ hv]
    show (clip_appended mem stbl start end_).1.data = _
    unfold clip_appended clip_prepended
    rw [clip_stsc_append_table, clip_stsc_prepend_table]
  have hsize : (clip_stsc mem stbl start end_).2.1.stsc.atom.data_size =
      stbl.stsc.atom.data_size := by
    rw [clip_stsc_phases mem stbl start end_ hv]
    show (clip_appended mem stbl start end_).1.atom.data_size = _
    unfold clip_appended clip_prepended
    rw [(clip_stsc_append_spec _ _ _ _ _).2.2.2.2.2.2.1,
      (clip_stsc_prepend_spec _ _ _ _ _ _).2.2.2.2.2.2.1]
  obtain ⟨rest, hrest⟩ := emitted_stsc_cons (clip_stsc mem stbl start end_).1
    { mdia := { minf := { stbl := (clip_stsc mem stbl start end_).2.1 } }
      start := (clip_stsc mem stbl start end_).2.2.1
      end_ := (clip_stsc mem stbl start end_).2.2.2 } (by show 20 ≤ _; rw [hsize]; exact hds)
  have hsp : spliced_stsc mem stbl start end_ =
      (if (clip_stsc mem stbl start end_).2.2.1.coxx.offset ≠ 0 then
        [stsc_entry_at (clip_stsc mem stbl start end_).2.2.1.stsc_entry 0] else []) ++
        stsc_entry_at (clip_stsc mem stbl start end_).1
          (clip_stsc mem stbl start end_).2.1.stsc.data :: rest := hrest
  rw [htab, hfirst, hstart, pE] at hsp
  constructor
  · intro h
    obtain ⟨f1, f2⟩ := pA h
    rw [f1, f2] at hsp
    rw [hstart]
    exact ⟨f1, rest, hsp⟩
  · intro h
    obtain ⟨f1, f2⟩ := pB h
    rw [f1, f2] at hsp
    rw [hstart]
    exact ⟨f1, rest, hsp⟩

theorem compile_trak_stbl_clip (mem : Mem) (stbl : stbl_t) (start end_ : seek_t) :
    compile_trak_stbl mem stbl start end_ =
      clip_stsc (clip_input mem stbl start end_).1 (clip_input mem stbl start end_).2
        start end_ := rfl

/-- C29 (evaluation). On `sound_file` (`stsc` `(1, 4, 1), (3, 2, 1)`) the cut
from sample 1 leaves 2 chunks in the first run and the start entry precedes
the retained one; the cut from sample 5 leaves 1 and the start entry replaces
it. The `stsc` of `single_run_file` is `(1, 4, 1), (2, 2, 1)`: the first run is
the single chunk 1. For the cut from time 1 (sample 1, inside chunk 1) to
time 4 (sample 4, the first sample of chunk 2) one entry and one chunk are
retained; `clip_stsc` counts `max_chunks - 0 = 3` chunks as left, activates
the additional entry and rewrites the first chunk of the retained entry to 2:
the emitted table is `(1, 3, 1), (2, 4, 1)` over a single chunk, and not the
single entry `(1, 3, 1)`. -/
theorem clip_stsc_start_entry_witness :
    (((clip_stsc (cut_input sound_tables 1 10).1 (cut_input sound_tables 1 10).2
        (seek_at sound_tables 1) (seek_at sound_tables 10)).2.2.1.coxx.offset = 1 ∧
      ∃ rest, spliced_stsc (cut_input sound_tables 1 10).1 (cut_input sound_tables 1 10).2
          (seek_at sound_tables 1) (seek_at sound_tables 10) =
        (1, read_32 (cut_input sound_tables 1 10).1
            ((cut_input sound_tables 1 10).2.stsc.data + 4) -
            (seek_at sound_tables 1).coxx.offset,
          read_32 (cut_input sound_tables 1 10).1
            ((cut_input sound_tables 1 10).2.stsc.data + 8)) ::
        (2, read_32 (cut_input sound_tables 1 10).1
            ((cut_input sound_tables 1 10).2.stsc.data + 4),
          read_32 (cut_input sound_tables 1 10).1
            ((cut_input sound_tables 1 10).2.stsc.data + 8)) :: rest) ∧
    (seek_at sound_tables 1).coxx = { index := 0, offset := 1 } ∧
    chunks_left (cut_input sound_tables 1 10).1 (cut_input sound_tables 1 10).2
      (seek_at sound_tables 1) = 2 ∧
    spliced_stsc (cut_input sound_tables 1 10).1 (cut_input sound_tables 1 10).2
      (seek_at sound_tables 1) (seek_at sound_tables 10) = [(1, 3, 1), (2, 4, 1), (3, 2, 1)] ∧
    chunks_left (cut_input sound_tables 5 10).1 (cut_input sound_tables 5 10).2
      (seek_at sound_tables 5) = 1 ∧
    spliced_stsc (cut_input sound_tables 5 10).1 (cut_input sound_tables 5 10).2
      (seek_at sound_tables 5) (seek_at sound_tables 10) = [(1, 3, 1), (2, 2, 1)]) ∧
    (stsc_entries single_run_tables.1 single_run_tables.2 = [(1, 4, 1), (2, 2, 1)] ∧
    (seek_at single_run_tables 1).stsz.index = 1 ∧
    (seek_at single_run_tables 1).coxx = { index := 0, offset := 1 } ∧
    (seek_at single_run_tables 4).stsz.index = 4 ∧
    (seek_at single_run_tables 4).coxx = { index := 1, offset := 0 } ∧
    (cut_input single_run_tables 1 4).2.stsc.count = 1 ∧
    (cut_input single_run_tables 1 4).2.coxx.count = 1 ∧
    chunks_left (cut_input single_run_tables 1 4).1 (cut_input single_run_tables 1 4).2
      (seek_at single_run_tables 1) = 3 ∧
    (clip_stsc (cut_input single_run_tables 1 4).1 (cut_input single_run_tables 1 4).2
      (seek_at single_run_tables 1) (seek_at single_run_tables 4)).2.2.1.coxx.offset = 1 ∧
    spliced_stsc (cut_input single_run_tables 1 4).1 (cut_input single_run_tables 1 4).2
      (seek_at single_run_tables 1) (seek_at single_run_tables 4) = [(1, 3, 1), (2, 4, 1)] ∧
    emitted_stsc (head_input 20 single_run_stream).2.2.1
      (head_input 20 single_run_stream).2.2.2.moov.strak = [(1, 3, 1), (2, 4, 1)] ∧
    (head_input 20 single_run_stream).2.2.2.moov.strak.mdia.minf.stbl.coxx.count = 1) :=
  ⟨⟨(clip_stsc_start_entry (cut_input sound_tables 1 10).1 (cut_input sound_tables 1 10).2
      (seek_at sound_tables 1) (seek_at sound_tables 10)
      ((cut_input sound_tables 1 10).2.stsc.atom.data.getD 0)
      (by decide!) (by decide!) (by decide!) (by decide!) (by decide!) (by decide!) (by decide!)
      (by decide!) (by decide!)).1 (by decide!),
   by decide!, by decide!, by decide!, by decide!, by decide!⟩, by decide!⟩

/-! ### The end entry of a clipped sample-to-chunk table -/

/-- The loop of `clip_stsc` does not write behind the first field of the last
entry it visits. -/
theorem clip_stsc_loop_after (d : Nat) (k : Nat) :
    ∀ (mem : Mem) (p a : Nat), p + 12 * k ≤ a + 8 →
      read_32 (clip_stsc_loop d k mem p) a = read_32 mem a := by
  induction k with
  | zero => intro mem p a _; rfl
  | succ k ih =>
    intro mem p a h
    rw [clip_stsc_loop, ih _ _ _ (by omega), read_32_write_32_other _ _ _ _ (by omega)]

theorem clip_stsc_prepend_frame (mem : Mem) (stsc : stxx_t) (s : seek_t) (p n c a : Nat)
    (h : p + 12 ≤ a) :
    read_32 (clip_stsc_prepend mem stsc s p n c).1 a = read_32 mem a := by
  obtain ⟨⟨a1, a2, a3, a4, a5, a6, a7, a8, a9⟩, b1, b2, b3, b4, b5, b6⟩ := stsc
  unfold clip_stsc_prepend
  split_ifs <;> dsimp only
  · exact read_32_write_32_other _ _ _ _ (Or.inr (by omega))
  · exact read_32_copy_entry_other _ _ _ _ (Or.inr (by omega))
  · exact read_32_write_32_other _ _ _ _ (Or.inr (by omega))

/-- The "append" block of `clip_stsc` for an end cut inside a chunk. -/
theorem clip_stsc_append_entry (mem : Mem) (k : Nat) (stsc : stxx_t) (p : Nat) (e : seek_t)
    (hoff : e.coxx.offset ≠ 0) (hse : 12 ≤ e.stsc_entry.size) :
    stsc_entry_at (clip_stsc_append mem k stsc p e).2.stsc_entry 0 =
      (k % 2 ^ 32, e.coxx.offset % 2 ^ 32, read_32 mem (p + 8)) ∧
    (clip_stsc_append mem k stsc p e).2.coxx.offset = 1 := by
  have hE := stsc_entry_written e.stsc_entry k e.coxx.offset (read_32 mem (p + 8)) hse
  have m3 : read_32 mem (p + 8) % 2 ^ 32 = read_32 mem (p + 8) :=
    Nat.mod_eq_of_lt (read_32_lt _ _)
  rw [m3] at hE
  obtain ⟨⟨a1, a2, a3, a4, a5, a6, a7, a8, a9⟩, b1, b2, b3, b4, b5, b6⟩ := stsc
  unfold clip_stsc_append
  rw [if_pos hoff]
  dsimp only
  exact ⟨hE, rfl⟩

/-- The pointer and the bytes behind it that the "remaining entries" block of
`clip_stsc` hands to the "append" block, for an end cut inside a chunk. -/
theorem clip_remained_pointer (mem : Mem) (stbl : stbl_t) (start end_ : seek_t)
    (hoff : end_.coxx.offset ≠ 0)
    (hcount : 1 < stbl.stsc.count → start.stsc.index ≤ end_.stsc.index ∧
      end_.stsc.index + 1 < 2 ^ 32 ∧
      stbl.stsc.count = end_.stsc.index - start.stsc.index + 1) :
    (clip_remained mem stbl start end_).2 = append_pointer stbl ∧
    read_32 (clip_remained mem stbl start end_).1 (append_pointer stbl + 8) =
      read_32 (write_xx mem stbl.coxx.data start.offset (stbl.coxx.bytes <<< 3))
        (append_pointer stbl + 8) := by
  have hsi : (clip_prepended mem stbl start).2.2.stsc = start.stsc := by
    unfold clip_prepended
    exact (clip_stsc_prepend_spec _ _ _ _ _ _).2.2.2.2.1
  unfold clip_remained clip_stsc_remaining append_pointer
  by_cases hc : stbl.stsc.count > 1
  · obtain ⟨h1, h2, h3⟩ := hcount hc
    rw [if_pos hc, if_pos hc]
    dsimp only
    rw [hsi, if_pos (Or.inr (by omega)), w32_of_lt _ (by omega), w32_of_lt _ (by omega)]
    have e : end_.stsc.index + 1 - (start.stsc.index + 1) = stbl.stsc.count - 1 := by omega
    rw [e]
    constructor
    · omega
    · rw [clip_stsc_loop_after _ _ _ _ _ (by omega)]
      unfold clip_prepended
      exact clip_stsc_prepend_frame _ _ _ _ _ _ _ (by omega)
  · rw [if_neg hc, if_neg hc]
    refine ⟨rfl, ?_⟩
    unfold clip_prepended
    exact clip_stsc_prepend_frame _ _ _ _ _ _ _ (by omega)

/-- C30. When the end cut falls inside a chunk (`end.coxx.offset > 0`),
`clip_stsc` builds an appended entry with first chunk = the new chunk count
(`coxx.count`), samples per chunk = `end.coxx.offset` and the sample
description id read 8 bytes behind its pointer `p`: with more than one
retained entry `p` is the last retained entry; with a single retained entry
`p` is the position behind that entry, so that the id is read from the bytes
20 .. 23 after the start of the table and not from the retained entry. -/
theorem clip_stsc_end_entry (mem : Mem) (stbl : stbl_t) (start end_ : seek_t)
    (hv : VOID stbl.stsc.atom = false) (hoff : end_.coxx.offset ≠ 0)
    (hse : 12 ≤ end_.stsc_entry.size)
    (hk : stbl.coxx.count < 2 ^ 32) (ho : end_.coxx.offset < 2 ^ 32)
    (hcount : 1 < stbl.stsc.count → start.stsc.index ≤ end_.stsc.index ∧
      end_.stsc.index + 1 < 2 ^ 32 ∧
      stbl.stsc.count = end_.stsc.index - start.stsc.index + 1)
    (hcx : stbl.coxx.data + stbl.coxx.bytes ≤ append_pointer stbl + 8 ∨
      append_pointer stbl + 12 ≤ stbl.coxx.data) :
    stsc_entry_at (clip_stsc mem stbl start end_).2.2.2.stsc_entry 0 =
      (stbl.coxx.count, end_.coxx.offset, read_32 mem (append_pointer stbl + 8)) ∧
    (clip_stsc mem stbl start end_).2.2.2.coxx.offset = 1 ∧
    (1 < stbl.stsc.count →
      append_pointer stbl = stbl.stsc.data + 12 * (stbl.stsc.count - 1)) ∧
    (stbl.stsc.count = 1 → append_pointer stbl + 8 = stbl.stsc.data + 20) := by
  have hw : (stbl.coxx.bytes <<< 3) >>> 3 = stbl.coxx.bytes := by rw [shl3, shr3]
  have hr : read_32 (write_xx mem stbl.coxx.data start.offset (stbl.coxx.bytes <<< 3))
      (append_pointer stbl + 8) = read_32 mem (append_pointer stbl + 8) := by
    unfold read_32
    apply read_xx_write_xx_other
    rw [hw]
    have : (32 : Nat) >>> 3 = 4 := by decide
    rw [this]
    omega
  obtain ⟨q1, q2⟩ := clip_remained_pointer mem stbl start end_ hoff hcount
  have hend : (clip_stsc mem stbl start end_).2.2.2 = (clip_appended mem stbl start end_).2 := by
    rw [clip_stsc_phases mem stbl start end_ hv]
  obtain ⟨a1, a2⟩ := clip_stsc_append_entry (clip_remained mem stbl start end_).1
    stbl.coxx.count (clip_prepended mem stbl start).2.1 (clip_remained mem stbl start end_).2
    end_ hoff hse
  rw [hend]
  unfold clip_appended
  refine ⟨?_, a2, ?_, ?_⟩
  · rw [a1, Nat.mod_eq_of_lt hk, Nat.mod_eq_of_lt ho, q1, q2, hr]
  · intro h
    unfold append_pointer
    rw [if_pos h]
  · intro h
    unfold append_pointer
    rw [if_neg (by omega)]

theorem clip_stsc_end_entry_witness :
    (stsc_entry_at (clip_stsc (cut_input uniform_tables 0 7).1 (cut_input uniform_tables 0 7).2
        (seek_at uniform_tables 0) (seek_at uniform_tables 7)).2.2.2.stsc_entry 0 =
      ((cut_input uniform_tables 0 7).2.coxx.count, (seek_at uniform_tables 7).coxx.offset,
        read_32 (cut_input uniform_tables 0 7).1
          (append_pointer (cut_input uniform_tables 0 7).2 + 8)) ∧
    (clip_stsc (cut_input uniform_tables 0 7).1 (cut_input uniform_tables 0 7).2
        (seek_at uniform_tables 0) (seek_at uniform_tables 7)).2.2.2.coxx.offset = 1 ∧
    (1 < (cut_input uniform_tables 0 7).2.stsc.count →
      append_pointer (cut_input uniform_tables 0 7).2 =
        (cut_input uniform_tables 0 7).2.stsc.data +
          12 * ((cut_input uniform_tables 0 7).2.stsc.count - 1)) ∧
    ((cut_input uniform_tables 0 7).2.stsc.count = 1 →
      append_pointer (cut_input uniform_tables 0 7).2 + 8 =
        (cut_input uniform_tables 0 7).2.stsc.data + 20)) ∧
    stsc_entries uniform_tables.1 uniform_tables.2 = [(1, 5, 1)] ∧
    (seek_at uniform_tables 7).stsz.index = 7 ∧
    (seek_at uniform_tables 7).coxx = { index := 1, offset := 2 } ∧
    (cut_input uniform_tables 0 7).2.stsc.count = 1 ∧
    stsc_entry_at (cut_input uniform_tables 0 7).1 (cut_input uniform_tables 0 7).2.stsc.data =
      (1, 5, 1) ∧
    read_32 (cut_input uniform_tables 0 7).1 ((cut_input uniform_tables 0 7).2.stsc.data + 20) =
      0 ∧
    (cut_input uniform_tables 0 7).2.stsc.data + 12 + 8 =
      uniform_tables.2.stsz.atom.data.getD 0 ∧
    spliced_stsc (cut_input uniform_tables 0 7).1 (cut_input uniform_tables 0 7).2
      (seek_at uniform_tables 0) (seek_at uniform_tables 7) = [(1, 5, 1), (2, 2, 0)] ∧
    emitted_stsc (head_input 20 uniform_stream).2.2.1
      (head_input 20 uniform_stream).2.2.2.moov.strak = [(1, 5, 1), (2, 2, 0)] ∧
    spliced_stsc (cut_input sound_tables 0 9).1 (cut_input sound_tables 0 9).2
      (seek_at sound_tables 0) (seek_at sound_tables 9) = [(1, 4, 1), (3, 2, 1), (3, 1, 1)] :=
  ⟨clip_stsc_end_entry (cut_input uniform_tables 0 7).1 (cut_input uniform_tables 0 7).2
    (seek_at uniform_tables 0) (seek_at uniform_tables 7)
    (by decide!) (by decide!) (by decide!) (by decide!) (by decide!) (by decide!) (by decide!),
   by decide!, by decide!, by decide!, by decide!, by decide!, by decide!, by decide!,
   by decide!, by decide!, by decide!⟩

/-! ### The divisors of the seek -/

theorem w32_lt (x : Nat) : w32 x < 2 ^ 32 := Nat.mod_lt _ (by norm_num)

theorem w32_mul_ne_zero (c d : Nat) (h : w32 (c * d) ≠ 0) : d ≠ 0 := by
  intro hd
  apply h
  rw [hd, Nat.mul_zero]
  rfl

/-- The `stts` look-up loop leaves a non-zero `d` once it has visited an
entry: `1` after an entry that was passed, and the duration of the entry at
which it stops, whose whole time is then not zero. -/
theorem seek_stts_loop_divisor (mem : Mem) (data time : Nat) (k : Nat) :
    ∀ index (l : seek_locals), l.t ≤ time → l.t < 2 ^ 32 → (k = 0 → l.d ≠ 0) →
      (seek_stts_loop mem data time k index l).2.d ≠ 0 := by
  induction k with
  | zero =>
    intro index l _ _ h
    exact h rfl
  | succ k ih =>
    intro index l ht hl _
    rw [seek_stts_loop]
    by_cases hgt : w32 (l.t + w32 (read_32 mem (data + 8 * index) *
        read_32 mem (data + 8 * index + 4))) > time
    · rw [if_pos hgt]
      show read_32 mem (data + 8 * index + 4) ≠ 0
      apply w32_mul_ne_zero (read_32 mem (data + 8 * index))
      intro h0
      rw [h0, Nat.add_zero, w32_of_lt _ hl] at hgt
      omega
    · rw [if_neg hgt]
      exact ih _ _ (by show w32 _ ≤ time; omega) (w32_lt _) (fun _ => Nat.one_ne_zero)

/-- The `stsc` look-up loop leaves a non-zero `c` once it has visited an
entry. -/
theorem seek_stsc_loop_divisor (mem : Mem) (stbl : stbl_t) (sample : Nat) (k : Nat) :
    ∀ index chunk c n, n ≤ sample → n < 2 ^ 32 → (k = 0 → c ≠ 0) →
      (seek_stsc_loop mem stbl sample k index chunk c n).2.2.1 ≠ 0 := by
  induction k with
  | zero =>
    intro index chunk c n _ _ h
    exact h rfl
  | succ k ih =>
    intro index chunk c n hn hl _
    rw [seek_stsc_loop]
    generalize (if index = sub32 stbl.stsc.count 1 then w32 stbl.max_chunks
      else sub32 (read_32 mem (stbl.stsc.data + 12 * index + 12)) 1) = nx
    by_cases hgt : w32 (n + w32 (sub32 nx chunk * read_32 mem (stbl.stsc.data + 12 * index + 4)))
        > sample
    · rw [if_pos hgt]
      show read_32 mem (stbl.stsc.data + 12 * index + 4) ≠ 0
      apply w32_mul_ne_zero (sub32 nx chunk)
      intro h0
      rw [h0, Nat.add_zero, w32_of_lt _ hl] at hgt
      omega
    · rw [if_neg hgt]
      exact ih _ _ _ _ (by omega) (w32_lt _) (fun _ => Nat.one_ne_zero)

/-- C37. In `compile_seek`, for every sample table with at least one `stts`
entry and one `stsc` entry, the divisor `d` of the `stts` intra-entry offset
`(time - t) / d` and the divisor `c` of the `stsc` split `d / c`, `d % c` are
not zero, whatever counts, durations and samples-per-chunk values the tables
hold; the two fields computed with them are the quotients by these divisors. -/
theorem compile_seek_divisors (mem : Mem) (stbl : stbl_t) (seek : seek_t)
    (hstts : 0 < stbl.stts.count) (hstsc : 0 < stbl.stsc.count) :
    stts_divisor mem stbl seek ≠ 0 ∧ stsc_divisor mem stbl seek ≠ 0 ∧
    (seek_stts mem stbl seek).1.stts.offset =
      w32 (sub64 seek.time
        (seek_stts_loop mem stbl.stts.data seek.time stbl.stts.count 0 {}).2.t /
        stts_divisor mem stbl seek) ∧
    (compile_seek mem stbl seek).coxx.offset =
      sub32 (compile_seek mem stbl seek).stsz.index
        (seek_stsc_loop mem stbl (compile_seek mem stbl seek).stsz.index stbl.stsc.count 0 0
          (seek_ctts mem stbl (seek_stss mem stbl (seek_stts mem stbl seek).1)
            (seek_stts mem stbl seek).2).2 0).2.2.2 %
        stsc_divisor mem stbl seek := by
  refine ⟨?_, ?_, rfl, rfl⟩
  · unfold stts_divisor
    exact seek_stts_loop_divisor mem _ _ _ 0 {} (Nat.zero_le _) (by decide)
      (fun h => absurd h (by omega))
  · unfold stsc_divisor
    exact seek_stsc_loop_divisor mem stbl _ _ 0 0 _ 0 (Nat.zero_le _) (by decide)
      (fun h => absurd h (by omega))

theorem compile_seek_divisors_witness :
    (stts_divisor sample_tables.1 (compile_maxs sample_tables.1 sample_tables.2)
        (seek_request 8) ≠ 0 ∧
      stsc_divisor sample_tables.1 (compile_maxs sample_tables.1 sample_tables.2)
        (seek_request 8) ≠ 0) ∧
    stts_divisor sample_tables.1 (compile_maxs sample_tables.1 sample_tables.2)
      (seek_request 8) = 1 ∧
    stsc_divisor sample_tables.1 (compile_maxs sample_tables.1 sample_tables.2)
      (seek_request 8) = 4 :=
  ⟨⟨(compile_seek_divisors sample_tables.1 (compile_maxs sample_tables.1 sample_tables.2)
      (seek_request 8) (by decide!) (by decide!)).1,
    (compile_seek_divisors sample_tables.1 (compile_maxs sample_tables.1 sample_tables.2)
      (seek_request 8) (by decide!) (by decide!)).2.1⟩, by decide!, by decide!⟩

/-! ### The bytes cleared in mvhd -/

theorem byte_at_memset_zero (m : Mem) (p n q : Nat) :
    byte_at (memset_zero m p n) q =
      if p ≤ q ∧ q < p + n ∧ q < m.size then 0 else byte_at m q := by
  unfold memset_zero
  rw [byte_at_stores]

theorem memset_zero_size (m : Mem) (p n : Nat) : (memset_zero m p n).size = m.size := by
  unfold memset_zero
  exact stores_size m p _ n

/-- The bytes after the clearing block of `parse_moov`. -/
theorem clear_block_bytes (m : Mem) (p q : Nat) :
    byte_at (memset_zero (store m p 0) p 24) q =
      if p ≤ q ∧ q < p + 24 ∧ q < m.size then 0 else byte_at m q := by
  rw [byte_at_memset_zero, store_size, byte_at_store]
  by_cases h : p ≤ q ∧ q < p + 24 ∧ q < m.size
  · rw [if_pos h, if_pos h]
  · rw [if_neg h, if_neg h]
    by_cases h2 : q = p ∧ p < m.size
    · exfalso
      apply h
      obtain ⟨h3, h4⟩ := h2
      subst h3
      exact ⟨le_refl _, by omega, h4⟩
    · rw [if_neg h2]

/-- The buffer that a successful `parse_moov` returns. -/
theorem parse_moov_buffer (mem : Mem) (fuel : Nat) (moov R : moov_t) (mem2 : Mem)
    (h : parse_moov mem fuel moov = some (0, R, mem2)) :
    R.mvhd.version = byte_at mem (R.mvhd.atom.data.getD 0) ∧
    mem2 = memset_zero
      (store mem (R.mvhd.atom.data.getD 0 + mvhd_clear_offset R.mvhd.version) 0)
      (R.mvhd.atom.data.getD 0 + mvhd_clear_offset R.mvhd.version) 24 := by
  unfold parse_moov at h
  split at h
  · exact Option.noConfusion h
  · rename_i rc M hl
    split_ifs at h
    · simp at h
    · simp at h
    · simp at h
    · simp only [Option.some.injEq, Prod.mk.injEq, true_and] at h
      obtain ⟨h1, h2⟩ := h
      subst h1
      subst h2
      exact ⟨rfl, rfl⟩

theorem compile_moov_mem (m : Mem) (file : file_t) :
    (compile_moov m file).1 =
      write_xx m
        (file.moov.mvhd.atom.data.getD 0 + (if file.moov.mvhd.version ≠ 0 then 24 else 16))
        (MAX file.moov.strak.tkhd.duration file.moov.vtrak.tkhd.duration)
        (if file.moov.mvhd.version ≠ 0 then 64 else 32) := rfl

theorem mvhd_clear_offset_eq (version : Nat) :
    mvhd_clear_offset version = if version ≠ 0 then 84 else 72 := by
  unfold mvhd_clear_offset
  split <;> rfl

/-- C32 (amended). A successful `parse_moov` zeroes 24 bytes of the `mvhd`
payload, the bytes 72 .. 95 for version 0 and 84 .. 107 for the other
versions (the six 32-bit preview, poster, selection and current time fields),
and leaves every other byte of the buffer unchanged, the version byte and the
4 bytes of the next track id behind the cleared area included; `compile_moov`
changes no byte outside the duration field of `mvhd` (4 bytes at 16 for
version 0, 8 bytes at 24 otherwise). -/
theorem parse_moov_clears (mem : Mem) (fuel : Nat) (moov R : moov_t) (mem2 : Mem)
    (h : parse_moov mem fuel moov = some (0, R, mem2)) :
    mem2.size = mem.size ∧
    R.mvhd.version = byte_at mem (R.mvhd.atom.data.getD 0) ∧
    (∀ q, byte_at mem2 q =
      if R.mvhd.atom.data.getD 0 + (if R.mvhd.version ≠ 0 then 84 else 72) ≤ q ∧
          q < R.mvhd.atom.data.getD 0 + (if R.mvhd.version ≠ 0 then 84 else 72) + 24 ∧
          q < mem.size then 0
      else byte_at mem q) ∧
    (∀ (m : Mem) (file : file_t) (q : Nat),
      ¬ (file.moov.mvhd.atom.data.getD 0 + (if file.moov.mvhd.version ≠ 0 then 24 else 16) ≤ q ∧
         q < file.moov.mvhd.atom.data.getD 0 + (if file.moov.mvhd.version ≠ 0 then 24 else 16) +
          (if file.moov.mvhd.version ≠ 0 then 8 else 4)) →
      byte_at (compile_moov m file).1 q = byte_at m q) := by
  obtain ⟨hver, hmem⟩ := parse_moov_buffer mem fuel moov R mem2 h
  rw [mvhd_clear_offset_eq] at hmem
  refine ⟨?_, hver, ?_, ?_⟩
  · rw [hmem, memset_zero_size, store_size]
  · intro q
    rw [hmem]
    exact clear_block_bytes mem _ q
  · intro m file q hq
    rw [compile_moov_mem, byte_at_write_xx]
    apply if_neg
    intro hc
    apply hq
    obtain ⟨c1, c2, -⟩ := hc
    refine ⟨c1, ?_⟩
    by_cases hv : file.moov.mvhd.version ≠ 0
    · rw [if_pos hv] at c1 c2 ⊢
      rw [if_pos hv]
      rw [if_pos hv] at c2
      have : (64 : Nat) >>> 3 = 8 := by decide
      omega
    · rw [if_neg hv] at c1 c2 ⊢
      rw [if_neg hv]
      rw [if_neg hv] at c2
      have : (32 : Nat) >>> 3 = 4 := by decide
      omega

/-- C32 (counterexample). The `mvhd` of `sample_file` (version 0) holds the
byte 7 in its 24 bytes at 72 .. 95 and the next track id 2 in the bytes
96 .. 99. After `parse_moov` the 24 bytes are zero and the next track id is
still 2: of the 28 bytes from 72 on, the last one is not zeroed. -/
theorem parse_moov_clears_counterexample :
    parsed_sample.1 = 0 ∧ parsed_sample.2.1.mvhd.version = 0 ∧
    (List.range 28).map (fun i => byte_at (moov_input 20 sample_stream).1
      (parsed_sample.2.1.mvhd.atom.data.getD 0 + 72 + i)) =
      [7, 7, 7, 7, 7, 7, 7, 7, 7, 7, 7, 7, 7, 7, 7, 7, 7, 7, 7, 7, 7, 7, 7, 7, 0, 0, 0, 2] ∧
    (List.range 28).map (fun i => byte_at parsed_sample.2.2
      (parsed_sample.2.1.mvhd.atom.data.getD 0 + 72 + i)) =
      [0, 0, 0, 0, 0, 0, 0, 0, 0, 0, 0, 0, 0, 0, 0, 0, 0, 0, 0, 0, 0, 0, 0, 0, 0, 0, 0, 2] ∧
    ¬ (∀ i, i < 28 →
      byte_at parsed_sample.2.2 (parsed_sample.2.1.mvhd.atom.data.getD 0 + 72 + i) = 0) := by
  decide!

theorem getD_eq_some {α : Type} (o : Option α) (d : α) (h : o.isSome = true) :
    o = some (o.getD d) := by
  cases o with
  | none => simp at h
  | some x => rfl

theorem triple_of_fst {α β γ : Type} (p : α × β × γ) (a : α) (h : p.1 = a) :
    p = (a, p.2.1, p.2.2) := by
  obtain ⟨x, y, z⟩ := p
  subst h
  rfl

theorem parsed_sample_returns :
    (parse_moov (moov_input 20 sample_stream).1 20 (moov_input 20 sample_stream).2).isSome = true := by
  decide!

theorem parsed_sample_rc : parsed_sample.1 = 0 := by decide!

theorem parsed_sample_eq :
    parse_moov (moov_input 20 sample_stream).1 20 (moov_input 20 sample_stream).2 =
      some (0, parsed_sample.2.1, parsed_sample.2.2) := by
  have h1 : parse_moov (moov_input 20 sample_stream).1 20 (moov_input 20 sample_stream).2 =
      some parsed_sample := getD_eq_some _ _ parsed_sample_returns
  exact h1.trans (congrArg some (triple_of_fst parsed_sample 0 parsed_sample_rc))

theorem parse_moov_clears_witness :
    (parsed_sample.2.2.size = (moov_input 20 sample_stream).1.size ∧
      parsed_sample.2.1.mvhd.version =
        byte_at (moov_input 20 sample_stream).1 (parsed_sample.2.1.mvhd.atom.data.getD 0) ∧
      (∀ q, byte_at parsed_sample.2.2 q =
        if parsed_sample.2.1.mvhd.atom.data.getD 0 +
              (if parsed_sample.2.1.mvhd.version ≠ 0 then 84 else 72) ≤ q ∧
            q < parsed_sample.2.1.mvhd.atom.data.getD 0 +
              (if parsed_sample.2.1.mvhd.version ≠ 0 then 84 else 72) + 24 ∧
            q < (moov_input 20 sample_stream).1.size then 0
        else byte_at (moov_input 20 sample_stream).1 q) ∧
      (∀ (m : Mem) (file : file_t) (q : Nat),
        ¬ (file.moov.mvhd.atom.data.getD 0 +
              (if file.moov.mvhd.version ≠ 0 then 24 else 16) ≤ q ∧
           q < file.moov.mvhd.atom.data.getD 0 +
              (if file.moov.mvhd.version ≠ 0 then 24 else 16) +
            (if file.moov.mvhd.version ≠ 0 then 8 else 4)) →
        byte_at (compile_moov m file).1 q = byte_at m q)) ∧
    parsed_sample.1 = 0 ∧ parsed_sample.2.1.mvhd.atom.data.getD 0 = 16 :=
  ⟨parse_moov_clears (moov_input 20 sample_stream).1 20 (moov_input 20 sample_stream).2
    parsed_sample.2.1 parsed_sample.2.2
    parsed_sample_eq,
   by decide!, by decide!⟩

/-! ### The checks of data_atom -/

theorem sub64_small (a : Nat) (h : a < 8) : sub64 a 8 = a + (2 ^ 64 - 8) := by
  unfold sub64
  omega

/-- C36. What `data_atom` checks for a child without extended size: the only
test is `data_position > data_size - 8` in 64-bit unsigned arithmetic. When it
does not hold the child is returned with the type, size and data size read
from the header, whatever the declared size, and the parent's cursor moves by
that size; for a parent of fewer than 8 data bytes the test never holds at a
cursor inside the data, so a header of 8 bytes is read there. -/
theorem data_atom_checks (mem : Mem) (parent atom : atom_t) (p : Nat)
    (hd : parent.data = some p)
    (hs : read_32 mem (p + parent.data_position) ≠ 1) :
    ((data_atom mem parent atom).1 =
      if parent.data_position > sub64 parent.data_size 8 then ____
      else read_32 mem (p + parent.data_position + 4)) ∧
    (¬ parent.data_position > sub64 parent.data_size 8 →
      (data_atom mem parent atom).2.2.size = read_32 mem (p + parent.data_position) ∧
      (data_atom mem parent atom).2.2.data_size =
        sub64 (read_32 mem (p + parent.data_position)) 8 ∧
      (data_atom mem parent atom).2.2.data = some (p + w64 (parent.data_position + 8)) ∧
      (data_atom mem parent atom).2.1.data_position =
        w64 (w64 (parent.data_position + 8) +
          sub64 (read_32 mem (p + parent.data_position)) 8)) ∧
    (parent.data_size < 8 → parent.data_position ≤ parent.data_size →
      ¬ parent.data_position > sub64 parent.data_size 8) := by
  refine ⟨?_, ?_, ?_⟩
  · unfold data_atom
    rw [hd]
    dsimp only
    by_cases hc : parent.data_position > sub64 parent.data_size 8
    · rw [if_pos hc, if_pos hc]
    · rw [if_neg hc, if_neg hc, if_neg hs]
  · intro hc
    unfold data_atom
    rw [hd]
    dsimp only
    rw [if_neg hc, if_neg hs]
    exact ⟨rfl, rfl, rfl, rfl⟩
  · intro h8 hp
    rw [sub64_small _ h8]
    omega

/-- C36 (failing inputs). On `short_parent` (4 data bytes) `data_atom` returns
the `stts` child of size 1000 although neither the header nor the child lies
inside the parent's data; on `full_parent` (16 data bytes) the header is
inside, the returned child of size 1000 is not, and the cursor is left at
1000, behind the end of the data. -/
theorem data_atom_checks_witness :
    ((data_atom oversized_mem short_parent {}).1 = STTS ∧
      (data_atom oversized_mem short_parent {}).2.2.size = 1000 ∧
      (data_atom oversized_mem short_parent {}).2.2.data_size = 992 ∧
      (data_atom oversized_mem short_parent {}).2.1.data_position = 1000) ∧
    ((data_atom oversized_mem full_parent {}).1 = STTS ∧
      (data_atom oversized_mem full_parent {}).2.2.size = 1000 ∧
      (data_atom oversized_mem full_parent {}).2.1.data_position = 1000) ∧
    STTS ≠ ____ ∧
    ¬ header_inside oversized_mem short_parent ∧
    ¬ child_inside short_parent (data_atom oversized_mem short_parent {}).2.2 ∧
    header_inside oversized_mem full_parent ∧
    ¬ child_inside full_parent (data_atom oversized_mem full_parent {}).2.2 := by
  have a := data_atom_checks oversized_mem short_parent {} 0 rfl (by decide!)
  have b := data_atom_checks oversized_mem full_parent {} 0 rfl (by decide!)
  have ha : ¬ short_parent.data_position > sub64 short_parent.data_size 8 :=
    a.2.2 (by decide!) (by decide!)
  have hb : ¬ full_parent.data_position > sub64 full_parent.data_size 8 := by decide!
  refine ⟨⟨?_, ?_, ?_, ?_⟩, ⟨?_, ?_, ?_⟩, by decide!, by decide!, by decide!, by decide!,
    by decide!⟩
  · rw [a.1, if_neg ha]; decide!
  · rw [(a.2.1 ha).1]; decide!
  · rw [(a.2.1 ha).2.1]; decide!
  · rw [(a.2.1 ha).2.2.2]; decide!
  · rw [b.1, if_neg hb]; decide!
  · rw [(b.2.1 hb).1]; decide!
  · rw [(b.2.1 hb).2.2.2]; decide!

/-! ### Trailing bytes in the child walks -/

theorem data_atom_stuck (mem : Mem) (parent atom : atom_t)
    (h : parent.data_position > sub64 parent.data_size 8) :
    data_atom mem parent atom = (____, parent, atom) := by
  unfold data_atom
  cases hd : parent.data with
  | none => rfl
  | some p =>
    dsimp only
    rw [if_pos h]

theorem parse_stbl_loop_stuck (mem : Mem) (fuel left : Nat) (stbl : stbl_t) (atom : atom_t)
    (hl : left > 0) (h1 : stbl.atom.data_position < stbl.atom.data_size)
    (h2 : stbl.atom.data_position > sub64 stbl.atom.data_size 8) :
    parse_stbl_loop mem fuel left stbl atom = none := by
  induction fuel with
  | zero => rfl
  | succ fuel ih =>
    rw [parse_stbl_loop, if_pos ⟨hl, h1⟩, data_atom_stuck mem stbl.atom atom h2]
    exact ih

theorem parse_minf_loop_stuck (mem : Mem) (fuel left : Nat) (minf : minf_t) (atom : atom_t)
    (hl : left > 0) (h1 : minf.atom.data_position < minf.atom.data_size)
    (h2 : minf.atom.data_position > sub64 minf.atom.data_size 8) :
    parse_minf_loop mem fuel left minf atom = none := by
  induction fuel with
  | zero => rfl
  | succ fuel ih =>
    rw [parse_minf_loop, if_pos ⟨hl, h1⟩, data_atom_stuck mem minf.atom atom h2]
    exact ih

theorem parse_mdia_loop_stuck (mem : Mem) (fuel left : Nat) (mdia : mdia_t) (atom : atom_t)
    (hl : left > 0) (h1 : mdia.atom.data_position < mdia.atom.data_size)
    (h2 : mdia.atom.data_position > sub64 mdia.atom.data_size 8) :
    parse_mdia_loop mem fuel left mdia atom = none := by
  induction fuel with
  | zero => rfl
  | succ fuel ih =>
    rw [parse_mdia_loop, if_pos ⟨hl, h1⟩, data_atom_stuck mem mdia.atom atom h2]
    exact ih

theorem parse_trak_loop_stuck (mem : Mem) (fuel left : Nat) (trak : trak_t) (atom : atom_t)
    (hl : left > 0) (h1 : trak.atom.data_position < trak.atom.data_size)
    (h2 : trak.atom.data_position > sub64 trak.atom.data_size 8) :
    parse_trak_loop mem fuel left trak atom = none := by
  induction fuel with
  | zero => rfl
  | succ fuel ih =>
    rw [parse_trak_loop, if_pos ⟨hl, h1⟩, data_atom_stuck mem trak.atom atom h2]
    exact ih

theorem parse_moov_loop_stuck (mem : Mem) (fuel left : Nat) (moov : moov_t) (atom : atom_t)
    (hl : left > 0) (h1 : moov.atom.data_position < moov.atom.data_size)
    (h2 : moov.atom.data_position > sub64 moov.atom.data_size 8) :
    parse_moov_loop mem fuel left moov atom = none := by
  induction fuel with
  | zero => rfl
  | succ fuel ih =>
    rw [parse_moov_loop, if_pos ⟨hl, h1⟩, data_atom_stuck mem moov.atom atom h2]
    exact ih

theorem parse_stbl_loop_trailing (mem : Mem) (n left : Nat) (stbl : stbl_t) (atom : atom_t)
    (hl : left > 0) (h0 : stbl.atom.data_position < stbl.atom.data_size)
    (hty : (data_atom mem stbl.atom atom).1 = ATOM 'f' 'r' 'e' 'e')
    (h1 : (data_atom mem stbl.atom atom).2.1.data_position <
      (data_atom mem stbl.atom atom).2.1.data_size)
    (h2 : (data_atom mem stbl.atom atom).2.1.data_position >
      sub64 (data_atom mem stbl.atom atom).2.1.data_size 8) :
    parse_stbl_loop mem (n + 1) left stbl atom = none := by
  rw [parse_stbl_loop, if_pos ⟨hl, h0⟩]
  dsimp only
  rw [hty]
  rw [if_neg (by decide), if_neg (by decide), if_neg (by decide), if_neg (by decide), if_neg (by decide), if_neg (by decide), if_neg (by decide), if_neg (by decide)]
  exact parse_stbl_loop_stuck mem n left _ _ hl h1 h2

theorem parse_stbl_trailing (mem : Mem) (fuel : Nat) (stbl : stbl_t)
    (h0 : 0 < stbl.atom.data_size)
    (hty : (data_atom mem { stbl.atom with data_position := 0 } {}).1 = ATOM 'f' 'r' 'e' 'e')
    (h1 : (data_atom mem { stbl.atom with data_position := 0 } {}).2.1.data_position <
      (data_atom mem { stbl.atom with data_position := 0 } {}).2.1.data_size)
    (h2 : (data_atom mem { stbl.atom with data_position := 0 } {}).2.1.data_position >
      sub64 (data_atom mem { stbl.atom with data_position := 0 } {}).2.1.data_size 8) :
    parse_stbl mem fuel stbl = none := by
  unfold parse_stbl
  cases fuel with
  | zero => rfl
  | succ n =>
    have key := parse_stbl_loop_trailing mem n 7
      { stbl with atom := { stbl.atom with data_position := 0 } } {} (by decide) h0 hty h1 h2
    rw [key]

theorem parse_minf_loop_trailing (mem : Mem) (n left : Nat) (minf : minf_t) (atom : atom_t)
    (hl : left > 0) (h0 : minf.atom.data_position < minf.atom.data_size)
    (hty : (data_atom mem minf.atom atom).1 = ATOM 'f' 'r' 'e' 'e')
    (h1 : (data_atom mem minf.atom atom).2.1.data_position <
      (data_atom mem minf.atom atom).2.1.data_size)
    (h2 : (data_atom mem minf.atom atom).2.1.data_position >
      sub64 (data_atom mem minf.atom atom).2.1.data_size 8) :
    parse_minf_loop mem (n + 1) left minf atom = none := by
  rw [parse_minf_loop, if_pos ⟨hl, h0⟩]
  dsimp only
  rw [hty]
  rw [if_neg (by decide), if_neg (by decide)]
  exact parse_minf_loop_stuck mem n left _ _ hl h1 h2

theorem parse_minf_trailing (mem : Mem) (fuel : Nat) (minf : minf_t)
    (h0 : 0 < minf.atom.data_size)
    (hty : (data_atom mem { minf.atom with data_position := 0 } {}).1 = ATOM 'f' 'r' 'e' 'e')
    (h1 : (data_atom mem { minf.atom with data_position := 0 } {}).2.1.data_position <
      (data_atom mem { minf.atom with data_position := 0 } {}).2.1.data_size)
    (h2 : (data_atom mem { minf.atom with data_position := 0 } {}).2.1.data_position >
      sub64 (data_atom mem { minf.atom with data_position := 0 } {}).2.1.data_size 8) :
    parse_minf mem fuel minf = none := by
  unfold parse_minf
  cases fuel with
  | zero => rfl
  | succ n =>
    have key := parse_minf_loop_trailing mem n 2
      { minf with atom := { minf.atom with data_position := 0 } } {} (by decide) h0 hty h1 h2
    rw [key]

theorem parse_mdia_loop_trailing (mem : Mem) (n left : Nat) (mdia : mdia_t) (atom : atom_t)
    (hl : left > 0) (h0 : mdia.atom.data_position < mdia.atom.data_size)
    (hty : (data_atom mem mdia.atom atom).1 = ATOM 'f' 'r' 'e' 'e')
    (h1 : (data_atom mem mdia.atom atom).2.1.data_position <
      (data_atom mem mdia.atom atom).2.1.data_size)
    (h2 : (data_atom mem mdia.atom atom).2.1.data_position >
      sub64 (data_atom mem mdia.atom atom).2.1.data_size 8) :
    parse_mdia_loop mem (n + 1) left mdia atom = none := by
  rw [parse_mdia_loop, if_pos ⟨hl, h0⟩]
  dsimp only
  rw [hty]
  rw [if_neg (by decide), if_neg (by decide), if_neg (by decide)]
  exact parse_mdia_loop_stuck mem n left _ _ hl h1 h2

theorem parse_mdia_trailing (mem : Mem) (fuel : Nat) (mdia : mdia_t)
    (h0 : 0 < mdia.atom.data_size)
    (hty : (data_atom mem { mdia.atom with data_position := 0 } {}).1 = ATOM 'f' 'r' 'e' 'e')
    (h1 : (data_atom mem { mdia.atom with data_position := 0 } {}).2.1.data_position <
      (data_atom mem { mdia.atom with data_position := 0 } {}).2.1.data_size)
    (h2 : (data_atom mem { mdia.atom with data_position := 0 } {}).2.1.data_position >
      sub64 (data_atom mem { mdia.atom with data_position := 0 } {}).2.1.data_size 8) :
    parse_mdia mem fuel mdia = none := by
  unfold parse_mdia
  cases fuel with
  | zero => rfl
  | succ n =>
    have key := parse_mdia_loop_trailing mem n 3
      { mdia with atom := { mdia.atom with data_position := 0 } } {} (by decide) h0 hty h1 h2
    rw [key]

theorem parse_trak_loop_trailing (mem : Mem) (n left : Nat) (trak : trak_t) (atom : atom_t)
    (hl : left > 0) (h0 : trak.atom.data_position < trak.atom.data_size)
    (hty : (data_atom mem trak.atom atom).1 = ATOM 'f' 'r' 'e' 'e')
    (h1 : (data_atom mem trak.atom atom).2.1.data_position <
      (data_atom mem trak.atom atom).2.1.data_size)
    (h2 : (data_atom mem trak.atom atom).2.1.data_position >
      sub64 (data_atom mem trak.atom atom).2.1.data_size 8) :
    parse_trak_loop mem (n + 1) left trak atom = none := by
  rw [parse_trak_loop, if_pos ⟨hl, h0⟩]
  dsimp only
  rw [hty]
  rw [if_neg (by decide), if_neg (by decide)]
  exact parse_trak_loop_stuck mem n left _ _ hl h1 h2

theorem parse_trak_trailing (mem : Mem) (fuel : Nat) (trak : trak_t)
    (h0 : 0 < trak.atom.data_size)
    (hty : (data_atom mem { trak.atom with data_position := 0 } {}).1 = ATOM 'f' 'r' 'e' 'e')
    (h1 : (data_atom mem { trak.atom with data_position := 0 } {}).2.1.data_position <
      (data_atom mem { trak.atom with data_position := 0 } {}).2.1.data_size)
    (h2 : (data_atom mem { trak.atom with data_position := 0 } {}).2.1.data_position >
      sub64 (data_atom mem { trak.atom with data_position := 0 } {}).2.1.data_size 8) :
    parse_trak mem fuel trak = none := by
  unfold parse_trak
  cases fuel with
  | zero => rfl
  | succ n =>
    have key := parse_trak_loop_trailing mem n 2
      { trak with atom := { trak.atom with data_position := 0 } } {} (by decide) h0 hty h1 h2
    rw [key]

theorem parse_moov_loop_trailing (mem : Mem) (n left : Nat) (moov : moov_t) (atom : atom_t)
    (hl : left > 0) (h0 : moov.atom.data_position < moov.atom.data_size)
    (hty : (data_atom mem moov.atom atom).1 = ATOM 'f' 'r' 'e' 'e')
    (h1 : (data_atom mem moov.atom atom).2.1.data_position <
      (data_atom mem moov.atom atom).2.1.data_size)
    (h2 : (data_atom mem moov.atom atom).2.1.data_position >
      sub64 (data_atom mem moov.atom atom).2.1.data_size 8) :
    parse_moov_loop mem (n + 1) left moov atom = none := by
  rw [parse_moov_loop, if_pos ⟨hl, h0⟩]
  dsimp only
  rw [hty]
  rw [if_neg (by decide), if_neg (by decide), if_neg (by decide)]
  exact parse_moov_loop_stuck mem n left _ _ hl h1 h2

theorem parse_moov_trailing (mem : Mem) (fuel : Nat) (moov : moov_t)
    (h0 : 0 < moov.atom.data_size)
    (hty : (data_atom mem { moov.atom with data_position := 0 } {}).1 = ATOM 'f' 'r' 'e' 'e')
    (h1 : (data_atom mem { moov.atom with data_position := 0 } {}).2.1.data_position <
      (data_atom mem { moov.atom with data_position := 0 } {}).2.1.data_size)
    (h2 : (data_atom mem { moov.atom with data_position := 0 } {}).2.1.data_position >
      sub64 (data_atom mem { moov.atom with data_position := 0 } {}).2.1.data_size 8) :
    parse_moov mem fuel moov = none := by
  unfold parse_moov
  cases fuel with
  | zero => rfl
  | succ n =>
    have key := parse_moov_loop_trailing mem n 3
      { moov with atom := { moov.atom with data_position := 0 } } {} (by decide) h0 hty h1 h2
    rw [key]

/-- C35. The nested child walks do not terminate on every buffer. On a box
whose data is a `free` box of 8 bytes followed by 4 trailing bytes
(`padded_mem`), none of `parse_moov`, `parse_trak`, `parse_mdia`, `parse_minf`
and `parse_stbl` returns, whatever number of loop iterations is allowed: after
the `free` child the cursor is 8, fewer than 8 bytes before the end 12, so
`data_atom` returns `____` without moving the cursor, the budget is not
decremented, and the loop condition stays true. -/
theorem nested_walks_trailing_bytes (fuel : Nat) :
    parse_moov padded_mem fuel { atom := padded_atom } = none ∧
    parse_trak padded_mem fuel { atom := padded_atom } = none ∧
    parse_mdia padded_mem fuel { atom := padded_atom } = none ∧
    parse_minf padded_mem fuel { atom := padded_atom } = none ∧
    parse_stbl padded_mem fuel { atom := padded_atom } = none ∧
    (data_atom padded_mem { padded_atom with data_position := 0 } {}).2.1.data_position = 8 ∧
    data_atom padded_mem { padded_atom with data_position := 8 } {} =
      (____, { padded_atom with data_position := 8 }, {}) :=
  ⟨parse_moov_trailing _ _ _ (by decide!) (by decide!) (by decide!) (by decide!),
   parse_trak_trailing _ _ _ (by decide!) (by decide!) (by decide!) (by decide!),
   parse_mdia_trailing _ _ _ (by decide!) (by decide!) (by decide!) (by decide!),
   parse_minf_trailing _ _ _ (by decide!) (by decide!) (by decide!) (by decide!),
   parse_stbl_trailing _ _ _ (by decide!) (by decide!) (by decide!) (by decide!),
   by decide!, by decide!⟩

/-! ### Repeated children in the nested walks -/

/-- C33 (counterexample). In `twin_stts_mem` the `stbl` holds two `stts`
boxes. `parse_stbl` succeeds and records the second one (the box at 24, table
of 2 entries at 40); on the same payload with the second `stts` removed
(`lone_stts_mem`) it records the box at 0 with its table of 1 entry at 16: the
duplicate is not ignored and the two results differ. -/
theorem nested_walks_duplicates_counterexample :
    (parse_stbl twin_stts_mem 20 twin_stts_stbl).map
        (fun r => (r.1, r.2.stts.atom.start, r.2.stts.count, r.2.stts.data)) =
      some (0, 24, 2, 40) ∧
    (parse_stbl lone_stts_mem 20 lone_stts_stbl).map
        (fun r => (r.1, r.2.stts.atom.start, r.2.stts.count, r.2.stts.data)) =
      some (0, 0, 1, 16) ∧
    (List.range 24).map (fun i => byte_at lone_stts_mem i) =
      (List.range 24).map (fun i => byte_at twin_stts_mem i) ∧
    (List.range 68).map (fun i => byte_at lone_stts_mem (24 + i)) =
      (List.range 68).map (fun i => byte_at twin_stts_mem (56 + i)) := by
  decide!

theorem pair_of_fst {α β : Type} (p : α × β) (a : α) (h : p.1 = a) : p = (a, p.2) := by
  obtain ⟨x, y⟩ := p
  subst h
  rfl

theorem twin_video_parsed_returns :
    (parse_trak twin_video_mem 18
      { atom := (data_atom twin_video_mem twin_video_state.atom {}).2.2 }).isSome = true := by
  decide!

theorem twin_video_parsed_rc : twin_video_parsed.1 = 0 := by decide!

theorem twin_video_second_eq :
    parse_trak twin_video_mem 18
        { atom := (data_atom twin_video_mem twin_video_state.atom {}).2.2 } =
      some (0, twin_video_second) := by
  have h1 : parse_trak twin_video_mem 18
      { atom := (data_atom twin_video_mem twin_video_state.atom {}).2.2 } =
      some twin_video_parsed := getD_eq_some _ _ twin_video_parsed_returns
  exact h1.trans (congrArg some (pair_of_fst twin_video_parsed 0 twin_video_parsed_rc))

/-! ### Sync samples after relocation -/

theorem seek_stss_loop_index (mem : Mem) (stbl : stbl_t) (t : Nat) (k : Nat) :
    ∀ idx cur, 1 ≤ idx →
      (∀ i, i < idx + k → 1 ≤ stss_entry mem stbl i) →
      stss_entry mem stbl (idx - 1) = cur + 1 → cur ≤ t →
      ((seek_stss_loop mem stbl.stss.data t k idx cur).1 < idx + k ∧
        stss_entry mem stbl (seek_stss_loop mem stbl.stss.data t k idx cur).1 = (seek_stss_loop mem stbl.stss.data t k idx cur).2 + 1 ∧
        t + 1 < stss_entry mem stbl ((seek_stss_loop mem stbl.stss.data t k idx cur).1 + 1)) ∨
      ((seek_stss_loop mem stbl.stss.data t k idx cur).1 = idx + k ∧
        stss_entry mem stbl (idx + k - 1) = (seek_stss_loop mem stbl.stss.data t k idx cur).2 + 1 ∧
        (seek_stss_loop mem stbl.stss.data t k idx cur).2 ≤ t) := by
  induction k with
  | zero =>
    intro idx cur _ _ hcur hle
    rw [seek_stss_loop]
    exact Or.inr ⟨rfl, hcur, hle⟩
  | succ k ih =>
    intro idx cur hidx h1 hcur hle
    rw [seek_stss_loop]
    have hE : 1 ≤ stss_entry mem stbl idx := h1 idx (by omega)
    have hElt : stss_entry mem stbl idx < 2 ^ 32 := read_32_lt _ _
    have hn : sub32 (read_32 mem (stbl.stss.data + 4 * idx)) 1 = stss_entry mem stbl idx - 1 :=
      sub32_of_le _ _ hE hElt
    rw [hn]
    by_cases hc : stss_entry mem stbl idx - 1 > t
    · rw [if_pos hc]
      refine Or.inl ⟨by dsimp only; omega, hcur, ?_⟩
      dsimp only
      have : idx - 1 + 1 = idx := by omega
      rw [this]
      omega
    · rw [if_neg hc]
      have e : idx + 1 + k = idx + (k + 1) := by omega
      have hi := ih (idx + 1) (stss_entry mem stbl idx - 1) (by omega)
        (fun i hi => h1 i (by omega))
        (by rw [Nat.add_sub_cancel]; omega) (by omega)
      rw [e] at hi
      exact hi

theorem compile_seek_stss (mem : Mem) (stbl : stbl_t) (seek : seek_t) :
    (compile_seek mem stbl seek).stss = (seek_stss mem stbl (seek_stts mem stbl seek).1).stss := by
  unfold compile_seek seek_stsc seek_ctts
  dsimp only
  split <;> rfl

theorem relocate_stss_loop_read (delta : Nat) (n : Nat) (mem : Mem) (p j : Nat)
    (hb : p + 4 * n ≤ mem.size) (hj : j < n) :
    read_32 (relocate_stss_loop delta n mem p) (p + 4 * j) =
      sub64 (read_32 mem (p + 4 * j)) delta % 2 ^ 32 := by
  induction n generalizing mem p j with
  | zero => omega
  | succ n ih =>
    unfold relocate_stss_loop
    cases j with
    | zero =>
      simp only [Nat.mul_zero, Nat.add_zero]
      have e : read_32 (relocate_stss_loop delta n (write_32 mem p (sub64 (read_32 mem p) delta))
          (p + 4)) p = read_32 (write_32 mem p (sub64 (read_32 mem p) delta)) p := by
        unfold read_32
        apply read_xx_congr
        intro i hi
        have e4 : (32 : Nat) >>> 3 = 4 := by decide
        rw [e4] at hi
        exact relocate_stss_loop_frame delta n _ (p + 4) (p + i) (by left; omega)
      rw [e]
      exact read_32_write_32_mod mem p _ (by omega)
    | succ j =>
      have e : p + 4 * (j + 1) = (p + 4) + 4 * j := by omega
      rw [e, ih _ (p + 4) j (by rw [write_32_size]; omega) (by omega)]
      rw [read_32_write_32_other]
      right; omega

/-- C31. Part 1: `relocate_trak` rewrites every entry of the retained `stss`
(table inside the buffer, apart from the chunk offset table) to the original
entry minus (first retained entry - 1), for entries not below the first one,
so that a non-empty retained table starts with sync sample 1. Part 2: the
sync-sample index that `compile_seek` returns, for a track with a non-empty
`stss` whose entries are at least 1 and whose first entry is 1, when the sample
located by the `stts` look-up is below `stsz.count`. Either the loop stopped at
an entry after the located sample: then `stss.index` is the index of the sync
sample snapped to (entry `stss.index` is `stsz.index + 1`, the number of
samples removed plus one), so the retained table starts with it. Or no entry
is after the located sample: then the sample is snapped to the last sync
sample but `stss.index` is `stss.count`, one past it, so that no entry of
`stss` is retained. -/
theorem compile_seek_stss_index (mem : Mem) (stbl : stbl_t) (seek : seek_t) :
    (∀ (stream : stream_t) (trak : trak_t) (start i : Nat),
      VOID trak.atom = false → VOID trak.mdia.minf.stbl.stss.atom = false →
      trak.mdia.minf.stbl.stss.data + 4 * trak.mdia.minf.stbl.stss.count ≤ mem.size →
      (trak.mdia.minf.stbl.stss.data + 4 * trak.mdia.minf.stbl.stss.count ≤ trak.mdia.minf.stbl.coxx.data ∨
        trak.mdia.minf.stbl.coxx.data + trak.mdia.minf.stbl.coxx.bytes * trak.mdia.minf.stbl.coxx.count ≤ trak.mdia.minf.stbl.stss.data) →
      i < trak.mdia.minf.stbl.stss.count →
      1 ≤ stss_entry mem trak.mdia.minf.stbl 0 → stss_entry mem trak.mdia.minf.stbl 0 ≤ stss_entry mem trak.mdia.minf.stbl i →
      stss_entry (relocate_trak stream mem trak start) trak.mdia.minf.stbl i =
        stss_entry mem trak.mdia.minf.stbl i - (stss_entry mem trak.mdia.minf.stbl 0 - 1)) ∧
    (VOID stbl.stss.atom = false → 0 < stbl.stss.count →
      (∀ i, i < stbl.stss.count → 1 ≤ stss_entry mem stbl i) →
      stss_entry mem stbl 0 = 1 →
      (seek_stts mem stbl seek).1.stsz.index < stbl.stsz.count →
      ((compile_seek mem stbl seek).stss.index < stbl.stss.count ∧
        stss_entry mem stbl (compile_seek mem stbl seek).stss.index = (compile_seek mem stbl seek).stsz.index + 1 ∧
        (seek_stts mem stbl seek).1.stsz.index + 1 <
          stss_entry mem stbl ((compile_seek mem stbl seek).stss.index + 1)) ∨
      ((compile_seek mem stbl seek).stss.index = stbl.stss.count ∧
        stss_entry mem stbl (stbl.stss.count - 1) = (compile_seek mem stbl seek).stsz.index + 1 ∧
        stss_entry mem stbl (stbl.stss.count - 1) ≤
          (seek_stts mem stbl seek).1.stsz.index + 1)) := by
  refine ⟨?_, ?_⟩
  · intro stream trak start i hvt hvs hb hdis hi h1 hle
    unfold relocate_trak
    simp only [hvt, hvs, Bool.not_false, if_true, Bool.false_eq_true, if_false]
    have e1 : stss_entry (relocate_coxx_loop (sub64 stream.file_offset start) trak.mdia.minf.stbl.coxx.bytes
          trak.mdia.minf.stbl.coxx.count
          (relocate_stss_loop (sub64 (read_32 mem trak.mdia.minf.stbl.stss.data) 1) trak.mdia.minf.stbl.stss.count mem
            trak.mdia.minf.stbl.stss.data) trak.mdia.minf.stbl.coxx.data) trak.mdia.minf.stbl i =
        read_32 (relocate_stss_loop (sub64 (read_32 mem trak.mdia.minf.stbl.stss.data) 1) trak.mdia.minf.stbl.stss.count mem
            trak.mdia.minf.stbl.stss.data) (trak.mdia.minf.stbl.stss.data + 4 * i) := by
      unfold stss_entry read_32
      apply read_xx_congr
      intro k hk
      have e4 : (32 : Nat) >>> 3 = 4 := by decide
      rw [e4] at hk
      apply relocate_coxx_loop_frame
      rcases hdis with h | h
      · left; omega
      · right; omega
    rw [e1, relocate_stss_loop_read _ _ _ _ _ hb hi]
    have e0 : read_32 mem trak.mdia.minf.stbl.stss.data = stss_entry mem trak.mdia.minf.stbl 0 := by
      unfold stss_entry; rw [Nat.mul_zero, Nat.add_zero]
    have ei : read_32 mem (trak.mdia.minf.stbl.stss.data + 4 * i) = stss_entry mem trak.mdia.minf.stbl i := rfl
    rw [e0, ei]
    have l0 : stss_entry mem trak.mdia.minf.stbl 0 < 2 ^ 32 := read_32_lt _ _
    have li : stss_entry mem trak.mdia.minf.stbl i < 2 ^ 32 := read_32_lt _ _
    rw [sub64_of_le _ _ h1 (by omega), sub64_of_le _ _ (by omega) (by omega)]
    exact Nat.mod_eq_of_lt (by omega)
  · intro hv hn h1 h0 ht
    rw [compile_seek_stss, compile_seek_sample]
    have hl := seek_stss_loop_index mem stbl (seek_stts mem stbl seek).1.stsz.index
      (stbl.stss.count - 1) 1 0 (le_refl _)
      (fun i hi => h1 i (by omega)) h0 (Nat.zero_le _)
    have e : 1 + (stbl.stss.count - 1) = stbl.stss.count := by omega
    rw [e] at hl
    have es : (seek_stss mem stbl (seek_stts mem stbl seek).1).stss.index =
        (seek_stss_loop mem stbl.stss.data (seek_stts mem stbl seek).1.stsz.index
          (stbl.stss.count - 1) 1 0).1 := by
      unfold seek_stss
      simp only [hv, Bool.not_false, if_true, if_pos ht]
    have ez : (seek_stss mem stbl (seek_stts mem stbl seek).1).stsz.index =
        (seek_stss_loop mem stbl.stss.data (seek_stts mem stbl seek).1.stsz.index
          (stbl.stss.count - 1) 1 0).2 := by
      unfold seek_stss
      simp only [hv, Bool.not_false, if_true, if_pos ht]
    rw [es, ez]
    rcases hl with ⟨a, b, c⟩ | ⟨a, b, c⟩
    · exact Or.inl ⟨a, b, c⟩
    · exact Or.inr ⟨a, b, by omega⟩

/-- C31 (witness and failing input). `three_key_file` has the sync samples 1, 4
and 8. For a start at 0.5 s the located sample 5 is snapped to sample 3 (sync
sample 4) with `stss.index = 1`; the retained table 4, 8 is emitted as 1, 5.
For a start at 0.9 s the located sample 9 is snapped to sample 7 (sync sample
8) with `stss.index = 3 = stss.count`: 3 samples are emitted, the first of
them the sync sample 8, and the emitted `stss` is empty. -/
theorem compile_seek_stss_index_witness :
    (emitted_stss three_key_tables.1 { mdia := { minf := { stbl := three_key_tables.2 } } } =
        [1, 4, 8] ∧
      emitted_stss mid_key_mem mid_key_trak = [4, 8] ∧
      (relocated mid_key_stream).2.moov.vtrak.start.stsz.index = 3 ∧
      (relocated mid_key_stream).2.moov.vtrak.mdia.minf.stbl.stsz.count = 7 ∧
      emitted_stss (relocated mid_key_stream).1 (relocated mid_key_stream).2.moov.vtrak =
        [1, 5] ∧
      (seek_at three_key_tables 5).stss.index = 1 ∧
      (seek_at three_key_tables 5).stsz.index = 3 ∧
      (seek_at three_key_tables 9).stss.index = 3 ∧
      (seek_at three_key_tables 9).stsz.index = 7 ∧
      three_key_stbl.stss.count = 3 ∧
      (relocated last_key_stream).2.moov.vtrak.start.stsz.index = 7 ∧
      (relocated last_key_stream).2.moov.vtrak.mdia.minf.stbl.stsz.count = 3 ∧
      VOID (relocated last_key_stream).2.moov.vtrak.mdia.minf.stbl.stss.atom = false ∧
      (relocated last_key_stream).2.moov.vtrak.mdia.minf.stbl.stss.count = 0 ∧
      emitted_stss (relocated last_key_stream).1 (relocated last_key_stream).2.moov.vtrak =
        []) ∧
    stss_entry (relocate_trak (head_input 20 mid_key_stream).1 mid_key_mem mid_key_trak
        (compile_head_gather (head_input 20 mid_key_stream).2.2.2).1.size) mid_key_trak.mdia.minf.stbl 1 =
      stss_entry mid_key_mem mid_key_trak.mdia.minf.stbl 1 - (stss_entry mid_key_mem mid_key_trak.mdia.minf.stbl 0 - 1) ∧
    (((compile_seek three_key_tables.1 three_key_stbl (seek_request 5)).stss.index < three_key_stbl.stss.count ∧
        stss_entry three_key_tables.1 three_key_stbl (compile_seek three_key_tables.1 three_key_stbl (seek_request 5)).stss.index =
          (compile_seek three_key_tables.1 three_key_stbl (seek_request 5)).stsz.index + 1 ∧
        (seek_stts three_key_tables.1 three_key_stbl (seek_request 5)).1.stsz.index + 1 <
          stss_entry three_key_tables.1 three_key_stbl
            ((compile_seek three_key_tables.1 three_key_stbl (seek_request 5)).stss.index + 1)) ∨
      ((compile_seek three_key_tables.1 three_key_stbl (seek_request 5)).stss.index = three_key_stbl.stss.count ∧
        stss_entry three_key_tables.1 three_key_stbl (three_key_stbl.stss.count - 1) =
          (compile_seek three_key_tables.1 three_key_stbl (seek_request 5)).stsz.index + 1 ∧
        stss_entry three_key_tables.1 three_key_stbl (three_key_stbl.stss.count - 1) ≤
          (seek_stts three_key_tables.1 three_key_stbl (seek_request 5)).1.stsz.index + 1)) ∧
    (((compile_seek three_key_tables.1 three_key_stbl (seek_request 9)).stss.index < three_key_stbl.stss.count ∧
        stss_entry three_key_tables.1 three_key_stbl (compile_seek three_key_tables.1 three_key_stbl (seek_request 9)).stss.index =
          (compile_seek three_key_tables.1 three_key_stbl (seek_request 9)).stsz.index + 1 ∧
        (seek_stts three_key_tables.1 three_key_stbl (seek_request 9)).1.stsz.index + 1 <
          stss_entry three_key_tables.1 three_key_stbl
            ((compile_seek three_key_tables.1 three_key_stbl (seek_request 9)).stss.index + 1)) ∨
      ((compile_seek three_key_tables.1 three_key_stbl (seek_request 9)).stss.index = three_key_stbl.stss.count ∧
        stss_entry three_key_tables.1 three_key_stbl (three_key_stbl.stss.count - 1) =
          (compile_seek three_key_tables.1 three_key_stbl (seek_request 9)).stsz.index + 1 ∧
        stss_entry three_key_tables.1 three_key_stbl (three_key_stbl.stss.count - 1) ≤
          (seek_stts three_key_tables.1 three_key_stbl (seek_request 9)).1.stsz.index + 1)) :=
  ⟨by decide!,
   (compile_seek_stss_index mid_key_mem {} {}).1 (head_input 20 mid_key_stream).1 mid_key_trak
     (compile_head_gather (head_input 20 mid_key_stream).2.2.2).1.size 1
     (by decide!) (by decide!) (by decide!) (by decide!) (by decide!) (by decide!) (by decide!),
   (compile_seek_stss_index three_key_tables.1 three_key_stbl (seek_request 5)).2
     (by decide!) (by decide!) (by decide!) (by decide!) (by decide!),
   (compile_seek_stss_index three_key_tables.1 three_key_stbl (seek_request 9)).2
     (by decide!) (by decide!) (by decide!) (by decide!) (by decide!)⟩

/-! ### Constant sample size -/

theorem compile_maxs_size_explicit (mem : Mem) (zc ze : stxx_t)
    (hS : zc.size ≠ 0) (hz : ze.size = 0) (hn : 4 * ze.count < 2 ^ 32)
    (htab : ∀ i, i < ze.count → read_32 mem (ze.data + 4 * i) = zc.size) (k : Nat) :
    ∀ i mo, i + k ≤ ze.count →
      compile_maxs_size mem ze k i mo = compile_maxs_size mem zc k i mo := by
  induction k with
  | zero => intro i mo _; rfl
  | succ k ih =>
    intro i mo h
    rw [compile_maxs_size, compile_maxs_size, ih (i + 1) _ (by omega)]
    rw [hz, if_neg (by omega), if_pos hS]
    rw [sub32_of_le ze.count i (by omega) (by omega),
      sub32_of_le (ze.count - i) 1 (by omega) (by omega),
      shl2_w32 _ (by omega), htab _ (by omega)]

theorem compile_maxs_size_lt (mem : Mem) (stsz : stxx_t) (k : Nat) :
    ∀ i mo, mo < 2 ^ 64 → compile_maxs_size mem stsz k i mo < 2 ^ 64 := by
  induction k with
  | zero => intro i mo h; exact h
  | succ k ih =>
    intro i mo _
    rw [compile_maxs_size]
    exact ih _ _ (Nat.mod_lt _ (by norm_num))

theorem sizes_before_explicit (mem : Mem) (A : stbl_t) (zc ze : stxx_t) (hz : ze.size = 0)
    (htab : ∀ i, i < ze.count → read_32 mem (ze.data + 4 * i) = zc.size) (s k : Nat)
    (hk : k ≤ s) (hs : s ≤ ze.count) :
    sizes_before mem { A with stsz := ze } s k = k * zc.size := by
  induction k with
  | zero => simp [sizes_before]
  | succ k ih =>
    rw [sizes_before_succ _ _ _ _ hk, ih (by omega)]
    have e : sample_size mem { A with stsz := ze } (s - (k + 1)) = zc.size := by
      unfold sample_size
      dsimp only
      rw [hz, if_neg (by omega)]
      exact htab _ (by omega)
    rw [e, Nat.succ_mul]
    omega

theorem seek_ctts_sample (mem : Mem) (stbl : stbl_t) (seek : seek_t) (c : Nat) :
    (seek_ctts mem stbl seek c).1.stsz = seek.stsz := by
  unfold seek_ctts
  split <;> rfl

theorem seek_stts_sample_le (mem : Mem) (stbl : stbl_t) (seek : seek_t) :
    (seek_stts mem stbl seek).1.stsz.index ≤ stbl.max_samples := by
  unfold seek_stts
  dsimp only
  unfold w32 MIN
  split
  · exact le_trans (Nat.mod_le _ _) (by omega)
  · exact Nat.mod_le _ _

theorem coxx_base_lt (mem : Mem) (A : stbl_t) (j : Nat) (hb : A.coxx.bytes ≤ 8)
    (hm : A.max_offset < 2 ^ 64) :
    (if j < A.max_chunks then
        read_xx mem (A.coxx.data + w32 (j * A.coxx.bytes)) (A.coxx.bytes <<< 3)
      else A.max_offset) < 2 ^ 64 := by
  split
  · rw [shl3]
    exact lt_of_lt_of_le (read_xx_lt _ _ _) (Nat.pow_le_pow_right (by norm_num) (by omega))
  · exact hm

/-- The seek record that `seek_stsc` completes is the same for a constant
sample size and for an explicit table that lists that size for every sample. -/
theorem seek_stsc_constant (mem : Mem) (A : stbl_t) (zc ze : stxx_t) (seek : seek_t) (c : Nat)
    (hS : zc.size ≠ 0) (hz : ze.size = 0) (hn : 4 * ze.count < 2 ^ 32)
    (htab : ∀ i, i < ze.count → read_32 mem (ze.data + 4 * i) = zc.size)
    (hb : A.coxx.bytes ≤ 8) (hm : A.max_offset < 2 ^ 64)
    (hs : seek.stsz.index ≤ ze.count)
    (hp : (seek_stsc mem { A with stsz := zc } seek c).coxx.offset * zc.size < 2 ^ 32) :
    seek_stsc mem { A with stsz := zc } seek c = seek_stsc mem { A with stsz := ze } seek c := by
  have hle := seek_stsc_offset_le mem { A with stsz := zc } seek c (by omega)
  have hspec : ∀ n offset, offset < 2 ^ 64 → n ≤ seek.stsz.index →
      seek_stsz_loop mem ze.data seek.stsz.index n offset =
        w64 (offset + sizes_before mem { A with stsz := ze } seek.stsz.index n) :=
    seek_stsz_loop_spec mem { A with stsz := ze } seek.stsz.index hz (by omega)
  have h00 : ¬ ((0 : Nat) ≠ 0) := fun h => h rfl
  have hsz := sizes_before_explicit mem A zc ze hz htab seek.stsz.index
  revert hp hle
  unfold seek_stsc
  rw [seek_stsc_loop_congr mem { A with stsz := zc } { A with stsz := ze } _ rfl rfl]
  dsimp only
  generalize seek_stsc_loop mem { A with stsz := ze } seek.stsz.index A.stsc.count 0 0 c 0 = r
  intro hp hle
  rw [hz, if_pos hS, if_neg h00]
  generalize sub32 seek.stsz.index r.2.2.2 % r.2.2.1 = co at hp hle
  have hbase := coxx_base_lt mem A (w32 (r.2.1 + sub32 seek.stsz.index r.2.2.2 / r.2.2.1)) hb hm
  generalize (if w32 (r.2.1 + sub32 seek.stsz.index r.2.2.2 / r.2.2.1) < A.max_chunks then
        read_xx mem (A.coxx.data +
          w32 (w32 (r.2.1 + sub32 seek.stsz.index r.2.2.2 / r.2.2.1) * A.coxx.bytes))
          (A.coxx.bytes <<< 3)
      else A.max_offset) = base at hbase
  rw [hspec co base hbase hle, hsz co hle hs, w32_of_lt _ hp]

theorem seek_stss_void_eq (mem : Mem) (stbl : stbl_t) (seek : seek_t)
    (hv : VOID stbl.stss.atom = true) :
    seek_stss mem stbl seek = { seek with stss := { seek.stss with index := 0 } } := by
  unfold seek_stss
  simp [hv]

theorem compile_seek_void (mem : Mem) (stbl : stbl_t) (seek : seek_t)
    (hv : VOID stbl.stss.atom = true) :
    compile_seek mem stbl seek =
      seek_stsc mem stbl
        (seek_ctts mem stbl
          { (seek_stts mem stbl seek).1 with
            stss := { (seek_stts mem stbl seek).1.stss with index := 0 } }
          (seek_stts mem stbl seek).2).1
        (seek_ctts mem stbl
          { (seek_stts mem stbl seek).1 with
            stss := { (seek_stts mem stbl seek).1.stss with index := 0 } }
          (seek_stts mem stbl seek).2).2 := by
  unfold compile_seek
  dsimp only
  rw [seek_stss_void_eq mem stbl _ hv]

/-- Without `stss`, a constant sample size and an explicit table listing that
size for every sample give the same limits and the same seek record. -/
theorem compile_seek_constant_void (mem : Mem) (stbl : stbl_t) (zc ze : stxx_t) (seek : seek_t)
    (hS : zc.size ≠ 0) (hz : ze.size = 0) (hn : 4 * ze.count < 2 ^ 32)
    (htab : ∀ i, i < ze.count → read_32 mem (ze.data + 4 * i) = zc.size)
    (hv : VOID stbl.stss.atom = true) (hb : stbl.coxx.bytes ≤ 8)
    (hc : read_32 mem (stbl.stsc.data + w32 (w32 (sub32 stbl.stsc.count 1 * 12) + 4)) ≤
      ze.count)
    (hms : (compile_maxs mem { stbl with stsz := zc }).max_samples ≤ ze.count)
    (hp : (compile_seek mem (compile_maxs mem { stbl with stsz := zc }) seek).coxx.offset *
      zc.size < 2 ^ 32) :
    (compile_maxs mem { stbl with stsz := zc }).max_offset =
      (compile_maxs mem { stbl with stsz := ze }).max_offset ∧
    compile_seek mem (compile_maxs mem { stbl with stsz := zc }) seek =
      compile_seek mem (compile_maxs mem { stbl with stsz := ze }) seek := by
  have hmo := compile_maxs_size_explicit mem zc ze hS hz hn htab
    (read_32 mem (stbl.stsc.data + w32 (w32 (sub32 stbl.stsc.count 1 * 12) + 4))) 0
    (read_xx mem (stbl.coxx.data + w32 (sub32 stbl.coxx.count 1 * stbl.coxx.bytes))
      (stbl.coxx.bytes <<< 3)) (by omega)
  have hlast : read_xx mem (stbl.coxx.data + w32 (sub32 stbl.coxx.count 1 * stbl.coxx.bytes))
      (stbl.coxx.bytes <<< 3) < 2 ^ 64 := by
    rw [shl3]
    exact lt_of_lt_of_le (read_xx_lt _ _ _) (Nat.pow_le_pow_right (by norm_num) (by omega))
  have hA : ∃ A : stbl_t, compile_maxs mem { stbl with stsz := zc } = { A with stsz := zc } ∧
      compile_maxs mem { stbl with stsz := ze } = { A with stsz := ze } ∧
      A.max_offset < 2 ^ 64 ∧ A.coxx = stbl.coxx ∧ A.stss = stbl.stss := by
    refine ⟨{ stbl with
      max_samples := (compile_maxs_loop mem stbl.stts.data stbl.stts.count 0 0 0).1
      max_time := (compile_maxs_loop mem stbl.stts.data stbl.stts.count 0 0 0).2
      max_chunks := stbl.coxx.count
      max_offset := compile_maxs_size mem zc
        (read_32 mem (stbl.stsc.data + w32 (w32 (sub32 stbl.stsc.count 1 * 12) + 4))) 0
        (read_xx mem (stbl.coxx.data + w32 (sub32 stbl.coxx.count 1 * stbl.coxx.bytes))
          (stbl.coxx.bytes <<< 3)) },
      rfl, ?_, compile_maxs_size_lt _ _ _ _ _ hlast, rfl, rfl⟩
    unfold compile_maxs
    dsimp only
    rw [hmo]
  obtain ⟨A, ec, ee, hm, hcx, hss⟩ := hA
  rw [ec, ee]
  rw [ec] at hms hp
  refine ⟨rfl, ?_⟩
  have hvc : VOID ({ A with stsz := zc } : stbl_t).stss.atom = true := by
    show VOID A.stss.atom = true
    rw [hss]; exact hv
  have hve : VOID ({ A with stsz := ze } : stbl_t).stss.atom = true := hvc
  rw [compile_seek_void mem _ seek hvc] at hp
  rw [compile_seek_void mem _ seek hvc, compile_seek_void mem _ seek hve]
  refine seek_stsc_constant mem A zc ze _ _ hS hz hn htab (by rw [hcx]; exact hb) hm ?_ hp
  rw [seek_ctts_sample]
  exact le_trans (seek_stts_sample_le mem _ seek) hms

theorem init_stsz_count (mem : Mem) (z : stxx_t) (h : (init_stsz mem z).size ≠ 0) :
    (init_stsz mem z).count = 0 := by
  unfold init_stsz at h ⊢
  dsimp only at h ⊢
  rw [if_pos h]

theorem sub32_self (a : Nat) : sub32 a a = 0 := by
  unfold sub32
  have : a % 2 ^ 32 < 2 ^ 32 := Nat.mod_lt _ (by norm_num)
  omega

/-- With a sample table whose `stsz.count` is zero, the sync-sample look-up of
`compile_seek` changes nothing but the sync cursor, which it puts at the end
of the table. -/
theorem seek_stss_uncounted (mem : Mem) (stbl : stbl_t) (seek : seek_t)
    (hv : VOID stbl.stss.atom = false) (hc : stbl.stsz.count = 0) :
    (seek_stss mem stbl seek).stsz.index = seek.stsz.index ∧
    (seek_stss mem stbl seek).stts = seek.stts ∧
    (seek_stss mem stbl seek).time = seek.time ∧
    (seek_stss mem stbl seek).stss.index = stbl.stss.count := by
  unfold seek_stss
  simp only [hv, Bool.not_false, if_true, hc, Nat.not_lt_zero, if_false, sub32_self]
  unfold seek_back_loop
  simp

theorem compile_maxs_stsz (mem : Mem) (stbl : stbl_t) :
    (compile_maxs mem stbl).stsz = stbl.stsz ∧ (compile_maxs mem stbl).stss = stbl.stss := by
  unfold compile_maxs
  exact ⟨rfl, rfl⟩

/-- C40. A track with a constant sample size `S` (descriptor `zc`, as
`init_stsz` leaves it: `size = S`, `count = 0`) against the same track with an
explicit `stsz` table `ze` that lists `S` for every sample. Without an `stss`
box, `compile_maxs` yields the same `max_offset` and `compile_seek` the same
seek record (sample index, chunk index, in-chunk offset, byte offset, time and
table cursors), provided the explicit table has an entry for every sample of
`stts` and for every sample of a chunk of the last `stsc` entry, its length in
bytes fits 32 bits, the chunk offsets are at most 8 bytes wide, and the
in-chunk byte offset `coxx.offset * S` fits 32 bits. With an `stss` box the
constant-size track is never snapped to a sync sample: since `stsz.count` is 0
the test `t < stsz.count` fails for every located sample `t`, and
`compile_seek` returns the sample, the `stts` cursor and the time of the
`stts` walk, with the sync cursor at the end of the `stss` table. -/
theorem compile_seek_constant_size (mem : Mem) (stbl : stbl_t) (zc ze : stxx_t) (seek : seek_t)
    (hS : zc.size ≠ 0) :
    (ze.size = 0 → 4 * ze.count < 2 ^ 32 →
      (∀ i, i < ze.count → read_32 mem (ze.data + 4 * i) = zc.size) →
      VOID stbl.stss.atom = true → stbl.coxx.bytes ≤ 8 →
      read_32 mem (stbl.stsc.data + w32 (w32 (sub32 stbl.stsc.count 1 * 12) + 4)) ≤ ze.count →
      (compile_maxs mem { stbl with stsz := zc }).max_samples ≤ ze.count →
      (compile_seek mem (compile_maxs mem { stbl with stsz := zc }) seek).coxx.offset *
        zc.size < 2 ^ 32 →
      (compile_maxs mem { stbl with stsz := zc }).max_offset =
        (compile_maxs mem { stbl with stsz := ze }).max_offset ∧
      compile_seek mem (compile_maxs mem { stbl with stsz := zc }) seek =
        compile_seek mem (compile_maxs mem { stbl with stsz := ze }) seek) ∧
    (VOID stbl.stss.atom = false → stbl.stsz.size ≠ 0 → stbl.stsz.count = 0 →
      (compile_seek mem (compile_maxs mem stbl) seek).stsz.index =
        (seek_stts mem (compile_maxs mem stbl) seek).1.stsz.index ∧
      (compile_seek mem (compile_maxs mem stbl) seek).stts =
        (seek_stts mem (compile_maxs mem stbl) seek).1.stts ∧
      (compile_seek mem (compile_maxs mem stbl) seek).time =
        (seek_stts mem (compile_maxs mem stbl) seek).1.time ∧
      (compile_seek mem (compile_maxs mem stbl) seek).stss.index = stbl.stss.count) ∧
    (∀ z : stxx_t, (init_stsz mem z).size ≠ 0 → (init_stsz mem z).count = 0) := by
  refine ⟨?_, ?_, ?_⟩
  · intro hz hn htab hv hb hc hms hp
    exact compile_seek_constant_void mem stbl zc ze seek hS hz hn htab hv hb hc hms hp
  · intro hv _ hc
    rw [compile_seek_sample, compile_seek_stts, compile_seek_time, compile_seek_stss_cursor]
    have h1 : VOID (compile_maxs mem stbl).stss.atom = false := by
      rw [(compile_maxs_stsz mem _).2]; exact hv
    have h2 : (compile_maxs mem stbl).stsz.count = 0 := by
      rw [(compile_maxs_stsz mem _).1]; exact hc
    have h3 : (compile_maxs mem stbl).stss.count = stbl.stss.count := by
      rw [(compile_maxs_stsz mem _).2]
    rw [← h3]
    exact seek_stss_uncounted mem _ _ h1 h2
  · intro z hz
    exact init_stsz_count mem z hz

/-- C40 (evaluation). The sound track of `uniform_file` (no `stss`, ten samples
of 5 bytes listed in `stsz`) and the same track with the descriptor of a
constant sample size 5: the seek for time 7 gives the same record, with byte
offset 536. `constant_key_file` and `sample_file` hold the same video track
with sync samples 1 and 6, the first with the constant sample size 5, the
second with an explicit `stsz` table of ten entries 5; `max_offset` is 595 for
both. For the requested time 8, `compile_seek` returns sample 5 (the sync
sample 6), chunk 1, in-chunk offset 1, byte offset 570 and time 5 on
`sample_file`, but sample 8, chunk 2, in-chunk offset 0, byte offset 585 and
time 8 on `constant_key_file`. -/
theorem compile_seek_constant_size_witness :
    ((compile_maxs uniform_tables.1
        { uniform_tables.2 with stsz := constant_stsz uniform_tables.2.stsz 5 }).max_offset =
      (compile_maxs uniform_tables.1
        { uniform_tables.2 with stsz := uniform_tables.2.stsz }).max_offset ∧
    compile_seek uniform_tables.1 (compile_maxs uniform_tables.1
        { uniform_tables.2 with stsz := constant_stsz uniform_tables.2.stsz 5 })
        (seek_request 7) =
      compile_seek uniform_tables.1 (compile_maxs uniform_tables.1
        { uniform_tables.2 with stsz := uniform_tables.2.stsz }) (seek_request 7)) ∧
    ((seek_at uniform_tables 7).offset = 536 ∧
     (seek_at uniform_tables 7).coxx = { index := 1, offset := 2 } ∧
     uniform_tables.2.stsz.count = 10) ∧
    ((compile_seek constant_key_tables.1 (compile_maxs constant_key_tables.1
        constant_key_tables.2) (seek_request 8)).stsz.index =
      (seek_stts constant_key_tables.1 (compile_maxs constant_key_tables.1
        constant_key_tables.2)
        (seek_request 8)).1.stsz.index ∧
     (compile_seek constant_key_tables.1 (compile_maxs constant_key_tables.1
        constant_key_tables.2) (seek_request 8)).stts =
      (seek_stts constant_key_tables.1 (compile_maxs constant_key_tables.1
        constant_key_tables.2)
        (seek_request 8)).1.stts ∧
     (compile_seek constant_key_tables.1 (compile_maxs constant_key_tables.1
        constant_key_tables.2) (seek_request 8)).time =
      (seek_stts constant_key_tables.1 (compile_maxs constant_key_tables.1
        constant_key_tables.2)
        (seek_request 8)).1.time ∧
     (compile_seek constant_key_tables.1 (compile_maxs constant_key_tables.1
        constant_key_tables.2) (seek_request 8)).stss.index =
      constant_key_tables.2.stss.count) ∧
    (VOID constant_key_tables.2.stss.atom = false ∧
     emitted_stss constant_key_tables.1
        { mdia := { minf := { stbl := constant_key_tables.2 } } } = [1, 6] ∧
     emitted_stss sample_tables.1 { mdia := { minf := { stbl := sample_tables.2 } } } = [1, 6] ∧
     (constant_key_tables.2.stsz.size, constant_key_tables.2.stsz.count) = (5, 0) ∧
     (sample_tables.2.stsz.size, sample_tables.2.stsz.count) = (0, 10) ∧
     (List.range 10).map (fun i => sample_size sample_tables.1 sample_tables.2 i) =
       List.replicate 10 5 ∧
     (compile_maxs constant_key_tables.1 constant_key_tables.2).max_offset = 595 ∧
     (compile_maxs sample_tables.1 sample_tables.2).max_offset = 595 ∧
     ((seek_at sample_tables 8).stsz.index, (seek_at sample_tables 8).coxx.index,
       (seek_at sample_tables 8).coxx.offset, (seek_at sample_tables 8).offset,
       (seek_at sample_tables 8).time) = (5, 1, 1, 570, 5) ∧
     ((seek_at constant_key_tables 8).stsz.index, (seek_at constant_key_tables 8).coxx.index,
       (seek_at constant_key_tables 8).coxx.offset, (seek_at constant_key_tables 8).offset,
       (seek_at constant_key_tables 8).time) = (8, 2, 0, 585, 8) ∧
     constant_key_tables.2.stss.count = 2) :=
  ⟨(compile_seek_constant_size uniform_tables.1 uniform_tables.2
      (constant_stsz uniform_tables.2.stsz 5) uniform_tables.2.stsz (seek_request 7)
      (by decide!)).1 (by decide!) (by decide!) (by decide!) (by decide!) (by decide!)
      (by decide!) (by decide!) (by decide!),
   by decide!,
   (compile_seek_constant_size constant_key_tables.1 constant_key_tables.2
      constant_key_tables.2.stsz constant_key_tables.2.stsz (seek_request 8)
      (by decide!)).2.1 (by decide!) (by decide!) (by decide!),
   by decide!⟩

/-! ### Width of the offsets walk -/

theorem offsets_stsz_loop_lt (mem : Mem) (data sample_id : Nat) (u : Nat) :
    ∀ offset, offset < 2 ^ 32 → offsets_stsz_loop mem data sample_id u offset < 2 ^ 32 := by
  induction u with
  | zero => intro offset h; exact h
  | succ u ih =>
    intro offset _
    rw [offsets_stsz_loop]
    exact ih _ (Nat.mod_lt _ (by norm_num))

theorem offsets_step_lt (mem : Mem) (stbl : stbl_t) (w : walk_t) :
    (offsets_step mem stbl w).2 < 2 ^ 32 := by
  have h0 : ∀ (c : Prop) [Decidable c] (a b : Nat), (if c then w32 a else w32 b) < 2 ^ 32 := by
    intro c _ a b
    split <;> exact Nat.mod_lt _ (by norm_num)
  unfold offsets_step
  dsimp only
  by_cases hs : stbl.stsz.size ≠ 0
  · rw [if_pos hs]
    exact Nat.mod_lt _ (by norm_num)
  · rw [if_neg hs]
    apply offsets_stsz_loop_lt
    exact h0 _ _ _

/-- C34. Every entry of the offsets table built by the walk of
`stream_mp4_parse` is below 2^32, whatever the chunk offsets of the track: the
walk keeps the offset in a 32-bit variable. -/
theorem offsets_loop_truncated (mem : Mem) (stbl : stbl_t) (period n : Nat) (w : walk_t)
    (i : Nat) : (offsets_loop mem stbl period n w).getD i 0 < 2 ^ 32 := by
  induction n generalizing w i with
  | zero =>
    rw [offsets_loop]
    simp
  | succ n ih =>
    rw [offsets_loop]
    cases i with
    | zero => exact offsets_step_lt mem stbl w
    | succ i => exact ih _ i

/-- C34 (failing input). For the file of 4 GiB + 1300 bytes described by
`wide_moov` (a `co64` table with the chunk offsets 2^32 + 1000, 2^32 + 1100
and 2^32 + 1200, 3 periods of one second), `stream_mp4_parse` succeeds and
stores the offsets 1000, 1100 and 1200, while `compile_seek` gives the byte
offsets 4294968296, 4294968396 and 4294968496 for the times 0, 10 and 20; with
the chunk offsets 1000, 1100 and 1200 in the same `co64` table
(`narrow_moov`) both give 1000, 1100 and 1200. -/
theorem offsets_loop_truncated_witness :
    (wide_tables.2.coxx.bytes = 8 ∧ VOID wide_tables.2.stss.atom = true ∧
      (List.range 3).map (fun i => coxx_entry wide_tables.1 wide_tables.2 i) =
        [4294968296, 4294968396, 4294968496] ∧
      (stream_mp4_parse 20 wide_stream).map (fun r => (r.1, r.2.periods)) = some (0, 3) ∧
      (meta_input 20 wide_stream).2.2.moov.strak.mdia.mdhd.scale = 10 ∧
      parsed_offsets wide_stream = [1000, 1100, 1200] ∧
      (List.range 3).map (fun i => (seek_at wide_tables (i * 10)).offset) =
        [4294968296, 4294968396, 4294968496] ∧
      parsed_offsets narrow_stream = [1000, 1100, 1200] ∧
      (List.range 3).map (fun i => (seek_at narrow_tables (i * 10)).offset) =
        [1000, 1100, 1200]) ∧
    (offsets_loop wide_tables.1 (compile_maxs wide_tables.1 wide_tables.2) 10 3 {}).getD 0 0 <
      2 ^ 32 :=
  ⟨by decide!,
   offsets_loop_truncated wide_tables.1 (compile_maxs wide_tables.1 wide_tables.2) 10 3 {} 0⟩

/-! ### Monotonicity of the seek -/

theorem decode_time_from_mono (mem : Mem) (stbl : stbl_t) (k : Nat) :
    ∀ i s s2, s ≤ s2 → decode_time_from mem stbl k i s ≤ decode_time_from mem stbl k i s2 := by
  induction k with
  | zero => intro i s s2 _; exact le_refl _
  | succ k ih =>
    intro i s s2 h
    unfold decode_time_from
    by_cases h1 : s < stts_count mem stbl i
    · rw [if_pos h1]
      by_cases h2 : s2 < stts_count mem stbl i
      · rw [if_pos h2]
        exact Nat.mul_le_mul_right _ h
      · rw [if_neg h2]
        exact le_trans (Nat.mul_le_mul_right _ (le_of_lt h1)) (Nat.le_add_right _ _)
    · rw [if_neg h1, if_neg (by omega)]
      exact Nat.add_le_add_left (ih _ _ _ (by omega)) _

theorem decode_time_mono (mem : Mem) (stbl : stbl_t) (s s2 : Nat) (h : s ≤ s2) :
    decode_time mem stbl s ≤ decode_time mem stbl s2 :=
  decode_time_from_mono mem stbl _ _ _ _ h

/-- The sync-sample loop does not return less than the sample it starts
from, for a table that is ascending from its second entry on. -/
theorem seek_stss_loop_ge (mem : Mem) (stbl : stbl_t) (t : Nat)
    (h1 : ∀ i, 1 ≤ i → i < stbl.stss.count → 1 ≤ stss_entry mem stbl i)
    (hasc : ∀ i j, 1 ≤ i → i ≤ j → j < stbl.stss.count →
      stss_entry mem stbl i ≤ stss_entry mem stbl j) (k : Nat) :
    ∀ idx cur, 1 ≤ idx → idx + k = stbl.stss.count →
      (cur = 0 ∨ (2 ≤ idx ∧ cur + 1 = stss_entry mem stbl (idx - 1))) →
      cur ≤ (seek_stss_loop mem stbl.stss.data t k idx cur).2 := by
  induction k with
  | zero => intro idx cur _ _ _; exact le_refl _
  | succ k ih =>
    intro idx cur hidx hk hinv
    rw [seek_stss_loop]
    have hE : 1 ≤ stss_entry mem stbl idx := h1 idx hidx (by omega)
    have hElt : stss_entry mem stbl idx < 2 ^ 32 := read_32_lt _ _
    have hn : sub32 (read_32 mem (stbl.stss.data + 4 * idx)) 1 = stss_entry mem stbl idx - 1 :=
      sub32_of_le _ _ hE hElt
    rw [hn]
    by_cases hc : stss_entry mem stbl idx - 1 > t
    · rw [if_pos hc]
    · rw [if_neg hc]
      have hstep := ih (idx + 1) (stss_entry mem stbl idx - 1) (by omega) (by omega)
        (Or.inr ⟨by omega, by rw [Nat.add_sub_cancel]; omega⟩)
      refine le_trans ?_ hstep
      rcases hinv with h0 | ⟨h2, hcur⟩
      · omega
      · have := hasc (idx - 1) idx (by omega) (by omega) (by omega)
        omega

/-- The sync-sample loop is monotone in the sample it is given. -/
theorem seek_stss_loop_mono (mem : Mem) (stbl : stbl_t) (t1 t2 : Nat) (h12 : t1 ≤ t2)
    (h1 : ∀ i, 1 ≤ i → i < stbl.stss.count → 1 ≤ stss_entry mem stbl i)
    (hasc : ∀ i j, 1 ≤ i → i ≤ j → j < stbl.stss.count →
      stss_entry mem stbl i ≤ stss_entry mem stbl j) (k : Nat) :
    ∀ idx cur, 1 ≤ idx → idx + k = stbl.stss.count →
      (cur = 0 ∨ (2 ≤ idx ∧ cur + 1 = stss_entry mem stbl (idx - 1))) → cur ≤ t1 →
      (seek_stss_loop mem stbl.stss.data t1 k idx cur).2 ≤
        (seek_stss_loop mem stbl.stss.data t2 k idx cur).2 := by
  induction k with
  | zero => intro idx cur _ _ _ _; exact le_refl _
  | succ k ih =>
    intro idx cur hidx hk hinv hle
    rw [seek_stss_loop, seek_stss_loop]
    have hE : 1 ≤ stss_entry mem stbl idx := h1 idx hidx (by omega)
    have hElt : stss_entry mem stbl idx < 2 ^ 32 := read_32_lt _ _
    have hn : sub32 (read_32 mem (stbl.stss.data + 4 * idx)) 1 = stss_entry mem stbl idx - 1 :=
      sub32_of_le _ _ hE hElt
    rw [hn]
    have hinv2 : stss_entry mem stbl idx - 1 = 0 ∨
        (2 ≤ idx + 1 ∧ stss_entry mem stbl idx - 1 + 1 = stss_entry mem stbl (idx + 1 - 1)) :=
      Or.inr ⟨by omega, by rw [Nat.add_sub_cancel]; omega⟩
    by_cases hc1 : stss_entry mem stbl idx - 1 > t1
    · rw [if_pos hc1]
      by_cases hc2 : stss_entry mem stbl idx - 1 > t2
      · rw [if_pos hc2]
      · rw [if_neg hc2]
        have := seek_stss_loop_ge mem stbl t2 h1 hasc k (idx + 1)
          (stss_entry mem stbl idx - 1) (by omega) (by omega) hinv2
        exact le_trans (by omega) this
    · rw [if_neg hc1, if_neg (by omega)]
      exact ih (idx + 1) _ (by omega) (by omega) hinv2 (by omega)

/-- The keyframe snap of `compile_seek` is monotone in the located sample. -/
theorem seek_stss_mono (mem : Mem) (stbl : stbl_t) (a b : seek_t)
    (h1 : VOID stbl.stss.atom = false →
      ∀ i, 1 ≤ i → i < stbl.stss.count → 1 ≤ stss_entry mem stbl i)
    (hasc : VOID stbl.stss.atom = false → ∀ i j, 1 ≤ i → i ≤ j → j < stbl.stss.count →
      stss_entry mem stbl i ≤ stss_entry mem stbl j)
    (h : a.stsz.index ≤ b.stsz.index) :
    (seek_stss mem stbl a).stsz.index ≤ (seek_stss mem stbl b).stsz.index := by
  cases hv : VOID stbl.stss.atom
  · unfold seek_stss
    simp only [hv, Bool.not_false, if_true]
    by_cases ha : a.stsz.index < stbl.stsz.count
    · rw [if_pos ha]
      by_cases hb : b.stsz.index < stbl.stsz.count
      · rw [if_pos hb]
        by_cases hcnt : 1 ≤ stbl.stss.count
        · exact seek_stss_loop_mono mem stbl _ _ h (h1 hv) (hasc hv) _ 1 0 (le_refl _)
            (by omega) (Or.inl rfl) (Nat.zero_le _)
        · have e : stbl.stss.count - 1 = 0 := by omega
          rw [e]
          exact le_refl _
      · rw [if_neg hb]
        exact le_trans (seek_stss_loop_le mem _ _ _ _ _ (Nat.zero_le _)) h
    · rw [if_neg ha, if_neg (by omega)]
      exact h
  · rw [(seek_stss_void mem stbl a hv).2, (seek_stss_void mem stbl b hv).2]
    exact h

/-- The sample located by the `stts` look-up is monotone in the requested
time. -/
theorem seek_stts_mono (mem : Mem) (A : stbl_t) (a b : seek_t)
    (hT : stts_time mem A A.stts.count < 2 ^ 32)
    (hN : stts_samples mem A A.stts.count < 2 ^ 32)
    (hmt : A.max_time = stts_time mem A A.stts.count)
    (hms : A.max_samples = stts_samples mem A A.stts.count)
    (h12 : a.time ≤ b.time) (hreq : b.time ≤ stts_time mem A A.stts.count) :
    (seek_stts mem A a).1.stsz.index ≤ (seek_stts mem A b).1.stsz.index := by
  obtain ⟨hat1, hle1, -, -⟩ := seek_stts_spec mem A a hT hN hmt hms (le_trans h12 hreq)
  obtain ⟨hat2, -, hin2, hend2⟩ := seek_stts_spec mem A b hT hN hmt hms hreq
  by_contra hcon
  have hlt : (seek_stts mem A b).1.stsz.index + 1 ≤ (seek_stts mem A a).1.stsz.index := by omega
  have hd1 := decode_time_at mem A _ _ _ _ hat1
  have hn := decode_time_next mem A _ _ _ _ hat2
  have hm := decode_time_mono mem A _ _ hlt
  by_cases hi : (seek_stts mem A b).1.stts.index < A.stts.count
  · rw [if_pos hi] at hn
    have := hin2 hi
    omega
  · have hidx : (seek_stts mem A b).1.stts.index = A.stts.count := by
      rcases hat2.2.2 with ⟨h, _⟩ | ⟨h, _⟩
      · exact absurd h hi
      · exact h
    have hs2 : (seek_stts mem A b).1.stsz.index = stts_samples mem A A.stts.count := by
      rcases hat2.2.2 with ⟨h, _⟩ | ⟨h, ho⟩
      · exact absurd h hi
      · have := hat2.1
        rw [h, ho] at this
        omega
    have := seek_stts_sample_le mem A a
    omega

theorem compile_seek_mono (mem : Mem) (A : stbl_t) (a b : seek_t)
    (hT : stts_time mem A A.stts.count < 2 ^ 32)
    (hN : stts_samples mem A A.stts.count < 2 ^ 32)
    (hsz : 8 * A.stts.count + 4 < 2 ^ 32)
    (hmt : A.max_time = stts_time mem A A.stts.count)
    (hms : A.max_samples = stts_samples mem A A.stts.count)
    (hc : VOID A.stss.atom = false → ∀ i, i < A.stts.count → 0 < stts_count mem A i)
    (h1 : VOID A.stss.atom = false →
      ∀ i, 1 ≤ i → i < A.stss.count → 1 ≤ stss_entry mem A i)
    (hasc : VOID A.stss.atom = false → ∀ i j, 1 ≤ i → i ≤ j → j < A.stss.count →
      stss_entry mem A i ≤ stss_entry mem A j)
    (h12 : a.time ≤ b.time) (hreq : b.time ≤ stts_time mem A A.stts.count) :
    (compile_seek mem A a).stsz.index ≤ (compile_seek mem A b).stsz.index ∧
    (compile_seek mem A a).time ≤ (compile_seek mem A b).time ∧
    (compile_seek mem A b).time ≤ b.time := by
  obtain ⟨hat1, -, -, -⟩ := seek_stts_spec mem A a hT hN hmt hms (le_trans h12 hreq)
  obtain ⟨hat2, hle2, -, -⟩ := seek_stts_spec mem A b hT hN hmt hms hreq
  obtain ⟨hs1, -⟩ := seek_stss_spec mem A _ hT hN hsz hc hat1
  obtain ⟨hs2, hsl2⟩ := seek_stss_spec mem A _ hT hN hsz hc hat2
  have hsample := seek_stss_mono mem A _ _ h1 hasc
    (seek_stts_mono mem A a b hT hN hmt hms h12 hreq)
  rw [compile_seek_time, compile_seek_time, compile_seek_sample, compile_seek_sample]
  refine ⟨hsample, ?_, le_trans hsl2 hle2⟩
  rw [← decode_time_at mem A _ _ _ _ hs1, ← decode_time_at mem A _ _ _ _ hs2]
  exact decode_time_mono mem A _ _ hsample

theorem ascending_of_adjacent (f : Nat → Nat) (n : Nat)
    (h : ∀ i, i < n → 1 ≤ i → i + 1 < n → f i ≤ f (i + 1)) :
    ∀ i j, 1 ≤ i → i ≤ j → j < n → f i ≤ f j := by
  intro i j hi hij
  induction j with
  | zero => intro _; omega
  | succ j ih =>
    intro hj
    by_cases e : i = j + 1
    · subst e; exact le_refl _
    · exact le_trans (ih (by omega) (by omega)) (h j (by omega) (by omega) hj)

/-- C39 (amended). `compile_seek` is monotone in the requested time on sample
tables whose `stts` totals fit 32 bits and, when the track has an `stss`, whose
`stts` entries each hold at least one sample and whose sync samples after the
first one are numbered from 1 in ascending order: for two requests with times
`t1 <= t2 <= max_time` on the same sample table (after `compile_maxs`), the
returned sample index and `seek.time` for `t1` are not greater than those for
`t2`, so that `end.time - start.time` does not underflow. -/
theorem compile_seek_monotone (mem : Mem) (stbl : stbl_t) (a b : seek_t)
    (hT : stts_time mem stbl stbl.stts.count < 2 ^ 32)
    (hN : stts_samples mem stbl stbl.stts.count < 2 ^ 32)
    (hsz : 8 * stbl.stts.count + 4 < 2 ^ 32)
    (hc : VOID stbl.stss.atom = false → ∀ i, i < stbl.stts.count → 0 < stts_count mem stbl i)
    (h1 : VOID stbl.stss.atom = false →
      ∀ i, i < stbl.stss.count → 1 ≤ i → 1 ≤ stss_entry mem stbl i)
    (hasc : VOID stbl.stss.atom = false →
      ∀ i, i < stbl.stss.count → 1 ≤ i → i + 1 < stbl.stss.count →
        stss_entry mem stbl i ≤ stss_entry mem stbl (i + 1))
    (h12 : a.time ≤ b.time) (hreq : b.time ≤ (compile_maxs mem stbl).max_time) :
    (compile_seek mem (compile_maxs mem stbl) a).stsz.index ≤
      (compile_seek mem (compile_maxs mem stbl) b).stsz.index ∧
    (compile_seek mem (compile_maxs mem stbl) a).time ≤
      (compile_seek mem (compile_maxs mem stbl) b).time ∧
    sub64 (compile_seek mem (compile_maxs mem stbl) b).time
        (compile_seek mem (compile_maxs mem stbl) a).time =
      (compile_seek mem (compile_maxs mem stbl) b).time -
        (compile_seek mem (compile_maxs mem stbl) a).time := by
  have hmax := compile_maxs_max mem stbl hT hN
  have e1 : (compile_maxs mem stbl).stts = stbl.stts := rfl
  have eT : ∀ i, stts_time mem (compile_maxs mem stbl) i = stts_time mem stbl i :=
    stts_time_congr mem _ _ e1
  have eN : ∀ i, stts_samples mem (compile_maxs mem stbl) i = stts_samples mem stbl i :=
    stts_samples_congr mem _ _ e1
  have hm := compile_seek_mono mem (compile_maxs mem stbl) a b
    (by rw [eT, e1]; exact hT) (by rw [eN, e1]; exact hN) (by rw [e1]; exact hsz)
    (by rw [eT, e1]; exact hmax.2) (by rw [eN, e1]; exact hmax.1)
    hc (fun hv i hi hlt => h1 hv i hlt hi)
    (fun hv => ascending_of_adjacent (stss_entry mem stbl) stbl.stss.count (hasc hv))
    h12 (by rw [eT, e1, ← hmax.2]; exact hreq)
  refine ⟨hm.1, hm.2.1, ?_⟩
  have hb : b.time < 2 ^ 32 := by
    rw [hmax.2] at hreq
    omega
  exact sub64_of_le _ _ hm.2.1 (by have := hm.2.2; omega)

/-- C39 (witness). On `three_key_file` (sync samples 1, 4 and 8) the requests
for the times 5 and 9 return the samples 3 and 7 with the times 3 and 7. -/
theorem compile_seek_monotone_witness :
    ((compile_seek three_key_tables.1 (compile_maxs three_key_tables.1 three_key_tables.2)
        (seek_request 5)).stsz.index ≤
      (compile_seek three_key_tables.1 (compile_maxs three_key_tables.1 three_key_tables.2)
        (seek_request 9)).stsz.index ∧
    (compile_seek three_key_tables.1 (compile_maxs three_key_tables.1 three_key_tables.2)
        (seek_request 5)).time ≤
      (compile_seek three_key_tables.1 (compile_maxs three_key_tables.1 three_key_tables.2)
        (seek_request 9)).time ∧
    sub64 (compile_seek three_key_tables.1 (compile_maxs three_key_tables.1 three_key_tables.2)
          (seek_request 9)).time
        (compile_seek three_key_tables.1 (compile_maxs three_key_tables.1 three_key_tables.2)
          (seek_request 5)).time =
      (compile_seek three_key_tables.1 (compile_maxs three_key_tables.1 three_key_tables.2)
          (seek_request 9)).time -
        (compile_seek three_key_tables.1 (compile_maxs three_key_tables.1 three_key_tables.2)
          (seek_request 5)).time) ∧
    ((seek_at three_key_tables 5).stsz.index, (seek_at three_key_tables 5).time) = (3, 3) ∧
    ((seek_at three_key_tables 9).stsz.index, (seek_at three_key_tables 9).time) = (7, 7) ∧
    (compile_maxs three_key_tables.1 three_key_tables.2).max_time = 10 ∧
    VOID three_key_tables.2.stss.atom = false :=
  ⟨compile_seek_monotone three_key_tables.1 three_key_tables.2 (seek_request 5) (seek_request 9)
    (by decide!) (by decide!) (by decide!) (by decide!) (by decide!) (by decide!) (by decide!)
    (by decide!),
   by decide!, by decide!, by decide!, by decide!⟩

/-- C39 (counterexample). The `stts` of `gap_key_file` is
`(5, 1), (0, 7), (5, 1)` and its sync samples are 1 and 8; `max_time` is 10.
The request for time 6 is snapped from sample 6 to sample 0 across the entry
without samples and ends with `seek.time = 2^64 - 30`; the request for time 7
is located at the sync sample 8 and keeps time 7. The time for 6 is greater
than the time for 7, and `compile_trak` called with start 0.6 s and stop 0.7 s
stores the media duration 7 - (2^64 - 30) = 37 (mod 2^64). -/
theorem compile_seek_monotone_counterexample :
    (List.range gap_key_tables.2.stts.count).map
      (fun i => (stts_count gap_key_tables.1 gap_key_tables.2 i,
                 stts_delta gap_key_tables.1 gap_key_tables.2 i)) =
      [(5, 1), (0, 7), (5, 1)] ∧
    emitted_stss gap_key_tables.1 { mdia := { minf := { stbl := gap_key_tables.2 } } } =
      [1, 8] ∧
    (compile_maxs gap_key_tables.1 gap_key_tables.2).max_time = 10 ∧
    ((seek_at gap_key_tables 6).stsz.index, (seek_at gap_key_tables 6).time) =
      (0, 18446744073709551586) ∧
    ((seek_at gap_key_tables 7).stsz.index, (seek_at gap_key_tables 7).time) = (7, 7) ∧
    ¬ ((seek_at gap_key_tables 6).time ≤ (seek_at gap_key_tables 7).time) ∧
    (head_input 20 gap_cut_stream).2.2.2.moov.vtrak.start.time = 18446744073709551586 ∧
    (head_input 20 gap_cut_stream).2.2.2.moov.vtrak.end_.time = 7 ∧
    (head_input 20 gap_cut_stream).2.2.2.moov.vtrak.mdia.mdhd.duration = 37 := by
  decide!

/-! ### Duration of the rewritten time table -/

theorem xtts_time_stts (mem : Mem) (stbl : stbl_t) (i : Nat) :
    xtts_time mem stbl.stts.data i = stts_time mem stbl i := by
  induction i with
  | zero => rfl
  | succ i ih =>
    show xtts_time mem stbl.stts.data i + _ = stts_time mem stbl i + _
    rw [ih]
    rfl

theorem xtts_samples_stts (mem : Mem) (stbl : stbl_t) (i : Nat) :
    xtts_samples mem stbl.stts.data i = stts_samples mem stbl i := by
  induction i with
  | zero => rfl
  | succ i ih =>
    show xtts_samples mem stbl.stts.data i + _ = stts_samples mem stbl i + _
    rw [ih]
    rfl

/-- The weighted sums over a table that starts `si` entries into another one. -/
theorem xtts_time_shift (m1 m : Mem) (p1 p si : Nat) (k : Nat) :
    (∀ j, j < k → xtts_count m1 p1 j = xtts_count m p (si + j) ∧
      xtts_delta m1 p1 j = xtts_delta m p (si + j)) →
      xtts_time m1 p1 k + xtts_time m p si = xtts_time m p (si + k) := by
  induction k with
  | zero => intro _; simp [xtts_time]
  | succ k ih =>
    intro h
    have e1 : xtts_time m1 p1 (k + 1) =
        xtts_time m1 p1 k + xtts_count m1 p1 k * xtts_delta m1 p1 k := rfl
    have e2 : xtts_time m p (si + (k + 1)) =
        xtts_time m p (si + k) + xtts_count m p (si + k) * xtts_delta m p (si + k) := rfl
    rw [e1, e2, (h k (by omega)).1, (h k (by omega)).2, ← ih (fun j hj => h j (by omega))]
    omega

theorem xtts_delta_write (m : Mem) (p j v i : Nat) :
    xtts_delta (write_32 m (p + 8 * j) v) p i = xtts_delta m p i := by
  unfold xtts_delta
  rw [read_32_write_32_other _ _ _ _ (by omega)]

/-- Effect on the weighted sums of rewriting the count of entry `j`. -/
theorem xtts_time_write (m : Mem) (p j v : Nat) (hv : v < 2 ^ 32) (i : Nat) :
    p + 8 * j + 4 ≤ m.size →
    (i ≤ j → xtts_time (write_32 m (p + 8 * j) v) p i = xtts_time m p i) ∧
    (j < i → xtts_time (write_32 m (p + 8 * j) v) p i + xtts_count m p j * xtts_delta m p j =
      xtts_time m p i + v * xtts_delta m p j) := by
  intro hm
  induction i with
  | zero => exact ⟨fun _ => rfl, fun h => absurd h (by omega)⟩
  | succ i ih =>
    have e1 : ∀ mm, xtts_time mm p (i + 1) =
        xtts_time mm p i + xtts_count mm p i * xtts_delta mm p i := fun _ => rfl
    constructor
    · intro hij
      rw [e1, e1, ih.1 (by omega), xtts_delta_write]
      unfold xtts_count
      rw [read_32_write_32_other _ _ _ _ (by omega)]
    · intro hji
      rw [e1, e1, xtts_delta_write]
      by_cases hij : i = j
      · subst hij
        rw [ih.1 (le_refl _)]
        have : xtts_count (write_32 m (p + 8 * i) v) p i = v := by
          unfold xtts_count
          exact read_32_write_32_same _ _ _ (by omega) hv
        rw [this]
        omega
      · have h2 := ih.2 (by omega)
        have : xtts_count (write_32 m (p + 8 * j) v) p i = xtts_count m p i := by
          unfold xtts_count
          rw [read_32_write_32_other _ _ _ _ (by omega)]
        rw [this]
        omega

theorem compile_xxxx_deltas (mem : Mem) (xtts : stxx_t) (s e : tbli_t) (d : Nat)
    (hv : VOID xtts.atom = false)
    (hd : xtts.atom.data = some d) (hdata : xtts.data = d + 8)
    (hb : xtts.bytes = 8)
    (hsmall : 8 * xtts.count + 64 < 2 ^ 32)
    (hse : s.index ≤ e.index) (hec : e.index + keep_last e none ≤ xtts.count) :
    ∀ k, xtts_delta (compile_xxxx mem xtts s e none).2 (xtts.data + 8 * s.index) k =
      xtts_delta mem xtts.data (s.index + k) := by
  have hx := keep_last_le e none
  have ha : w32 (s.index * xtts.bytes) = 8 * s.index := by
    rw [hb, w32_of_lt _ (by omega)]
    omega
  have hadat : (resize_xxxx xtts s e none).atom.data.getD 0 = d + 8 * s.index := by
    rw [resize_xxxx_eq]
    dsimp only
    rw [ha, hd]
    rfl
  have hR : compile_xxxx mem xtts s e none =
      (resize_xxxx xtts s e none,
        write_32 (write_32 mem ((resize_xxxx xtts s e none).atom.data.getD 0)
          (w32 ((resize_xxxx xtts s e none).version <<< 24) |||
            (resize_xxxx xtts s e none).flags))
          ((resize_xxxx xtts s e none).atom.data.getD 0 + 4)
          (resize_xxxx xtts s e none).count) := by
    unfold compile_xxxx
    rw [hv]
    rfl
  rw [hR]
  dsimp only
  intro k
  unfold xtts_delta
  rw [hadat, read_32_write_32_other _ _ _ _ (by omega),
    read_32_write_32_other _ _ _ _ (by omega)]
  congr 1
  omega

theorem sub_mul_add (a b d : Nat) (h : b ≤ a) : (a - b) * d + b * d = a * d := by
  rw [← Nat.add_mul, Nat.sub_add_cancel h]

/-- What `clip_xtts` removes from the weighted sum of a time table. -/
theorem clip_xtts_time_spec (m : Mem) (Y : stxx_t) (so eo : Nat)
    (hv : VOID Y.atom = false) (hn : 8 * Y.count < 2 ^ 32)
    (hmem : Y.data + 8 * Y.count ≤ m.size)
    (ha : so ≠ 0 → 0 < Y.count ∧ so ≤ xtts_count m Y.data 0)
    (hb : eo ≠ 0 → 0 < Y.count ∧ eo ≤ xtts_count m Y.data (Y.count - 1))
    (hc : so ≠ 0 → eo ≠ 0 → Y.count = 1 → so ≤ eo) :
    xtts_time (clip_xtts m Y so eo) Y.data Y.count + so * xtts_delta m Y.data 0 +
        (if eo ≠ 0 then
          (xtts_count m Y.data (Y.count - 1) - eo) * xtts_delta m Y.data (Y.count - 1)
         else 0) =
      xtts_time m Y.data Y.count := by
  by_cases hpos : 0 < Y.count
  · rw [clip_xtts_eq m Y so eo hv hn hpos]
    have hc0 : xtts_count m Y.data 0 < 2 ^ 32 := read_32_lt _ _
    have hcb : xtts_count m Y.data (Y.count - 1) < 2 ^ 32 := read_32_lt _ _
    by_cases hso : so ≠ 0
    · obtain ⟨-, ha2⟩ := ha hso
      rw [if_pos hso]
      have w1 := (xtts_time_write m Y.data 0 (xtts_count m Y.data 0 - so) (by omega) Y.count
        (by omega)).2 hpos
      have p1 := sub_mul_add (xtts_count m Y.data 0) so (xtts_delta m Y.data 0) ha2
      rw [sub32_of_le _ _ ha2 hc0]
      by_cases heo : eo ≠ 0
      · obtain ⟨-, hb2⟩ := hb heo
        rw [if_pos heo, if_pos heo, sub32_of_le _ _ hb2 hcb]
        have hdl : xtts_delta (write_32 m (Y.data + 8 * 0) (xtts_count m Y.data 0 - so)) Y.data
            (Y.count - 1) = xtts_delta m Y.data (Y.count - 1) := xtts_delta_write _ _ _ _ _
        generalize hm2 : write_32 m (Y.data + 8 * 0) (xtts_count m Y.data 0 - so) = m2 at *
        have hm2s : m2.size = m.size := by
          rw [← hm2]
          unfold write_32
          rw [write_xx_size]
        have hr : read_32 m2 (Y.data + 8 * (Y.count - 1)) =
            if Y.count = 1 then xtts_count m Y.data 0 - so
            else xtts_count m Y.data (Y.count - 1) := by
          by_cases h1 : Y.count = 1
          · rw [if_pos h1, h1, ← hm2]
            exact read_32_write_32_same _ _ _ (by omega) (by omega)
          · rw [if_neg h1, ← hm2, read_32_write_32_other _ _ _ _ (by omega)]
            rfl
        have hrl : read_32 m2 (Y.data + 8 * (Y.count - 1)) < 2 ^ 32 := read_32_lt _ _
        have hge : xtts_count m Y.data (Y.count - 1) - eo ≤
            read_32 m2 (Y.data + 8 * (Y.count - 1)) := by
          rw [hr]
          by_cases h1 : Y.count = 1
          · have e0 : Y.count - 1 = 0 := by omega
            have := hc hso heo h1
            rw [if_pos h1, e0]
            omega
          · rw [if_neg h1]
            omega
        rw [sub64_of_le _ _ hge (by omega)]
        have w2 := (xtts_time_write m2 Y.data (Y.count - 1)
          (read_32 m2 (Y.data + 8 * (Y.count - 1)) - (xtts_count m Y.data (Y.count - 1) - eo))
          (by omega) Y.count (by omega)).2 (by omega)
        have e2 : xtts_count m2 Y.data (Y.count - 1) =
            read_32 m2 (Y.data + 8 * (Y.count - 1)) := rfl
        rw [e2, hdl] at w2
        have p2 := sub_mul_add (read_32 m2 (Y.data + 8 * (Y.count - 1)))
          (xtts_count m Y.data (Y.count - 1) - eo) (xtts_delta m Y.data (Y.count - 1)) hge
        omega
      · rw [if_neg heo, if_neg heo]
        omega
    · have hso0 : so = 0 := by omega
      rw [if_neg hso, hso0, Nat.zero_mul, Nat.add_zero]
      by_cases heo : eo ≠ 0
      · obtain ⟨-, hb2⟩ := hb heo
        rw [if_pos heo, if_pos heo, sub32_of_le _ _ hb2 hcb]
        have e2 : read_32 m (Y.data + 8 * (Y.count - 1)) = xtts_count m Y.data (Y.count - 1) := rfl
        rw [e2, sub64_of_le _ _ (by omega) (by omega)]
        have w2 := (xtts_time_write m Y.data (Y.count - 1)
          (xtts_count m Y.data (Y.count - 1) - (xtts_count m Y.data (Y.count - 1) - eo))
          (by omega) Y.count (by omega)).2 (by omega)
        have p2 := sub_mul_add (xtts_count m Y.data (Y.count - 1))
          (xtts_count m Y.data (Y.count - 1) - eo) (xtts_delta m Y.data (Y.count - 1))
          (Nat.sub_le _ _)
        omega
      · rw [if_neg heo, if_neg heo]
        omega
  · have hso : so = 0 := by
      by_contra h
      exact hpos (ha h).1
    have heo : eo = 0 := by
      by_contra h
      exact hpos (hb h).1
    subst hso; subst heo
    unfold clip_xtts
    rw [hv]
    simp

/-- After `compile_xxxx` followed by `clip_xtts`, the weighted sum of the
retained time table is the difference of the times that the two cursors
address. -/
theorem clip_xtts_time_total (mem : Mem) (xtts : stxx_t) (s e : tbli_t) (S E d : Nat)
    (hv : VOID xtts.atom = false)
    (hd : xtts.atom.data = some d) (hdata : xtts.data = d + 8)
    (hb : xtts.bytes = 8)
    (hsmall : 8 * xtts.count + 64 < 2 ^ 32)
    (hsz : xtts.atom.size = head_size xtts.atom + 8 + xtts.count * xtts.bytes)
    (hmem : xtts.data + 8 * xtts.count ≤ mem.size)
    (hs : xtts_at mem xtts s.index s.offset S) (he : xtts_at mem xtts e.index e.offset E)
    (hle : S ≤ E) :
    xtts_time
        (clip_xtts (compile_xxxx mem xtts s e none).2 (compile_xxxx mem xtts s e none).1
          s.offset e.offset)
        (compile_xxxx mem xtts s e none).1.data (compile_xxxx mem xtts s e none).1.count +
      (xtts_time mem xtts.data s.index + s.offset * xtts_delta mem xtts.data s.index) =
      xtts_time mem xtts.data e.index + e.offset * xtts_delta mem xtts.data e.index := by
  obtain ⟨hS, hsc⟩ := hs
  obtain ⟨hE, hec⟩ := he
  have hstep : ∀ i, xtts_samples mem xtts.data (i + 1) =
      xtts_samples mem xtts.data i + xtts_count mem xtts.data i := fun _ => rfl
  have htstep : ∀ i, xtts_time mem xtts.data (i + 1) =
      xtts_time mem xtts.data i + xtts_count mem xtts.data i * xtts_delta mem xtts.data i :=
    fun _ => rfl
  have hk := keep_last_none_eq e
  have hsi : s.index ≤ xtts.count := by
    rcases hsc with ⟨h, _⟩ | ⟨h, _⟩ <;> omega
  have hse : s.index ≤ e.index := by
    by_contra hcon
    rcases hec with ⟨h1, h2⟩ | ⟨h1, _⟩
    · have := xtts_samples_mono mem xtts.data (e.index + 1) s.index (by omega)
      have := hstep e.index
      omega
    · omega
  have hec2 : e.index + keep_last e none ≤ xtts.count := by
    rw [hk]
    rcases hec with ⟨h1, h2⟩ | ⟨h1, h2⟩
    · split <;> omega
    · rw [if_neg (by omega)]
      omega
  obtain ⟨hcnt, hdat, hnv, hsize, hent⟩ :=
    compile_xxxx_entries mem xtts s e d hv hd hdata hb hsmall hsz hse hec2
  have hdel := compile_xxxx_deltas mem xtts s e d hv hd hdata hb hsmall hse hec2
  generalize compile_xxxx mem xtts s e none = R at hcnt hdat hnv hsize hent hdel ⊢
  rw [← hdat] at hent hdel
  have hshift := xtts_time_shift R.2 mem R.1.data xtts.data s.index R.1.count
    (fun j _ => ⟨hent j, hdel j⟩)
  have hspec := clip_xtts_time_spec R.2 R.1 s.offset e.offset hnv (by omega) (by omega)
    (by
      intro hso
      rcases hsc with ⟨h1, h2⟩ | ⟨h1, h2⟩
      · have h0 := hent 0
        rw [Nat.add_zero] at h0
        rw [h0]
        refine ⟨?_, by omega⟩
        rw [hcnt, hk]
        by_cases heo : e.offset ≠ 0
        · rw [if_pos heo]
          omega
        · rw [if_neg heo]
          have : s.index ≠ e.index := by
            intro h
            rw [h] at hS
            omega
          omega
      · omega)
    (by
      intro heo
      rcases hec with ⟨h1, h2⟩ | ⟨h1, h2⟩
      · have hc1 : R.1.count = e.index - s.index + 1 := by
          rw [hcnt, hk, if_pos heo]
          omega
        have h0 := hent (R.1.count - 1)
        have e1 : s.index + (R.1.count - 1) = e.index := by omega
        rw [e1] at h0
        rw [h0]
        exact ⟨by omega, by omega⟩
      · omega)
    (by
      intro hso heo h1
      have : s.index = e.index := by
        rw [hcnt, hk, if_pos heo] at h1
        omega
      rw [this] at hS
      omega)
  have hd0 := hdel 0
  rw [Nat.add_zero] at hd0
  rw [hd0] at hspec
  by_cases heo : e.offset ≠ 0
  · rw [if_pos heo] at hspec
    have hc1 : R.1.count = e.index - s.index + 1 := by
      rw [hcnt, hk, if_pos heo]
      omega
    have h0 := hent (R.1.count - 1)
    have h1 := hdel (R.1.count - 1)
    have e1 : s.index + (R.1.count - 1) = e.index := by omega
    have e2 : s.index + R.1.count = e.index + 1 := by omega
    rw [e1] at h0 h1
    rw [h0, h1] at hspec
    rw [e2, htstep] at hshift
    rcases hec with ⟨h1, h2⟩ | ⟨h1, h2⟩
    · have p := sub_mul_add (xtts_count mem xtts.data e.index) e.offset
        (xtts_delta mem xtts.data e.index) (by omega)
      omega
    · omega
  · rw [if_neg heo] at hspec
    have e2 : s.index + R.1.count = e.index := by
      rw [hcnt, hk, if_neg heo]
      omega
    rw [e2] at hshift
    have e0 : e.offset * xtts_delta mem xtts.data e.index = 0 := by
      have : e.offset = 0 := by omega
      rw [this, Nat.zero_mul]
    omega

/-- The cursor that `compile_seek` returns addresses the returned sample in
`stts`, and `seek.time` is the time of that cursor. -/
theorem compile_seek_cursor (mem : Mem) (A : stbl_t) (seek : seek_t)
    (hT : stts_time mem A A.stts.count < 2 ^ 32)
    (hN : stts_samples mem A A.stts.count < 2 ^ 32)
    (hsz : 8 * A.stts.count + 4 < 2 ^ 32)
    (hmt : A.max_time = stts_time mem A A.stts.count)
    (hms : A.max_samples = stts_samples mem A A.stts.count)
    (hc : VOID A.stss.atom = false → ∀ i, i < A.stts.count → 0 < stts_count mem A i)
    (hreq : seek.time ≤ stts_time mem A A.stts.count) :
    stts_at mem A (compile_seek mem A seek).stts.index (compile_seek mem A seek).stts.offset
      (compile_seek mem A seek).time (compile_seek mem A seek).stsz.index := by
  obtain ⟨hat, -, -, -⟩ := seek_stts_spec mem A seek hT hN hmt hms hreq
  obtain ⟨hat2, -⟩ := seek_stss_spec mem A _ hT hN hsz hc hat
  rw [compile_seek_time, compile_seek_sample, compile_seek_stts]
  exact hat2

theorem xtts_at_of_stts_at (mem : Mem) (A : stbl_t) (index offset time sample : Nat)
    (h : stts_at mem A index offset time sample) :
    xtts_at mem A.stts index offset sample ∧
    time = xtts_time mem A.stts.data index + offset * xtts_delta mem A.stts.data index := by
  obtain ⟨hs, ht, hc⟩ := h
  refine ⟨⟨?_, hc⟩, ?_⟩
  · rw [xtts_samples_stts]; exact hs
  · rw [xtts_time_stts]; exact ht

theorem compile_trak_mdhd (stream : stream_t) (mvhd_scale : Nat) (mem : Mem) (trak : trak_t)
    (hv : VOID trak.atom = false) :
    (compile_trak stream mvhd_scale mem trak).2.2.mdia.mdhd.duration =
      sub64 (compile_trak_seek stream mem trak).2.time
        (compile_trak_seek stream mem trak).1.time := by
  unfold compile_trak
  rw [if_neg (by simp [hv])]
  dsimp only
  generalize hR : compile_trak_resize trak _ _ _ _ _ = T
  have := (compile_trak_resize_spec _ _ _ _ _ _ T hR).2.2.2.1
  rw [this]

/-! ### The text of the MP4 head -/

/-- C25 (counterexample). `lone_chunk_file` is accepted by the parser; its
`stts` counts 10 samples, its `stsc` is `(1, 5, 1)` and its chunk-offset table
has one chunk, so the chunk tables describe 5 samples only. For the target
sample 9, below `max_samples = 10`, `compile_seek` returns the chunk index 5
(beyond the only chunk) with in-chunk offset 0: the chunks `0 .. 4` hold 25
samples by the table, not 9. -/
theorem compile_seek_chunk_counterexample :
    (stream_mp4_parse 20 lone_chunk_stream).map (fun r => r.1) = some 0 ∧
    stsc_entries lone_chunk_tables.1 lone_chunk_tables.2 = [(1, 5, 1)] ∧
    (compile_maxs lone_chunk_tables.1 lone_chunk_tables.2).max_chunks = 1 ∧
    (compile_maxs lone_chunk_tables.1 lone_chunk_tables.2).max_samples = 10 ∧
    (seek_at lone_chunk_tables 9).stsz.index = 9 ∧
    (seek_at lone_chunk_tables 9).coxx = { index := 5, offset := 0 } ∧
    stsc_total (stsc_entries lone_chunk_tables.1 lone_chunk_tables.2) 5 = 25 ∧
    ¬ (stsc_total (stsc_entries lone_chunk_tables.1 lone_chunk_tables.2)
          (seek_at lone_chunk_tables 9).coxx.index + (seek_at lone_chunk_tables 9).coxx.offset =
        (seek_at lone_chunk_tables 9).stsz.index) := by
  decide!

/-! ### The 32-bit product of a constant sample size -/

theorem only_in_refl (W : List (Nat × Nat)) (m : Mem) : only_in W m m :=
  ⟨rfl, fun _ _ => rfl⟩

theorem only_in_mono (W W2 : List (Nat × Nat)) (m1 m2 : Mem) (hs : ∀ r ∈ W, r ∈ W2)
    (h : only_in W m1 m2) : only_in W2 m1 m2 :=
  ⟨h.1, fun q hq => h.2 q (fun r hr => hq r (hs r hr))⟩

theorem only_in_trans (W1 W2 : List (Nat × Nat)) (m1 m2 m3 : Mem)
    (h1 : only_in W1 m1 m2) (h2 : only_in W2 m2 m3) : only_in (W1 ++ W2) m1 m3 := by
  refine ⟨by rw [h2.1, h1.1], fun q hq => ?_⟩
  rw [h2.2 q (fun r hr => hq r (List.mem_append_right _ hr)),
    h1.2 q (fun r hr => hq r (List.mem_append_left _ hr))]

theorem only_in_write_xx (m : Mem) (p v bits : Nat) :
    only_in [(p, p + (bits >>> 3))] m (write_xx m p v bits) := by
  refine ⟨write_xx_size _ _ _ _, fun q hq => ?_⟩
  have h := hq (p, p + (bits >>> 3)) (List.mem_singleton.mpr rfl)
  unfold apart at h
  dsimp only at h
  rw [byte_at_write_xx, if_neg (by omega)]

theorem only_in_write_32 (m : Mem) (p v : Nat) : only_in [(p, p + 4)] m (write_32 m p v) :=
  only_in_write_xx m p v 32

theorem only_in_copy_entry (m : Mem) (p : Nat) (e : Mem) :
    only_in [(p, p + 12)] m (copy_entry m p e) := by
  refine ⟨copy_entry_size _ _ _, fun q hq => ?_⟩
  have h := hq (p, p + 12) (List.mem_singleton.mpr rfl)
  unfold apart at h
  dsimp only at h
  unfold copy_entry
  rw [byte_at_stores, if_neg (by omega)]

theorem only_in_clip_stsc_loop (d : Nat) (k : Nat) :
    ∀ (m : Mem) (p : Nat), only_in [(p, p + 12 * k)] m (clip_stsc_loop d k m p) := by
  induction k with
  | zero => intro m p; exact only_in_refl _ _
  | succ k ih =>
    intro m p
    rw [clip_stsc_loop]
    have h1 := only_in_write_32 m p (sub32 (sub32 (read_32 m p) 1) d)
    have h2 := ih (write_32 m p (sub32 (sub32 (read_32 m p) 1) d)) (p + 12)
    refine ⟨by rw [h2.1, h1.1], fun q hq => ?_⟩
    have h := hq (p, p + 12 * (k + 1)) (List.mem_singleton.mpr rfl)
    unfold apart at h
    dsimp only at h
    rw [h2.2 q (fun r hr => by
        rw [List.mem_singleton.mp hr]; unfold apart; dsimp only; omega),
      h1.2 q (fun r hr => by
        rw [List.mem_singleton.mp hr]; unfold apart; dsimp only; omega)]

/-- Bytes outside the ranges a buffer was changed in are unchanged. -/
theorem only_in_agree (W : List (Nat × Nat)) (m1 m2 : Mem) (lo hi : Nat)
    (h : only_in W m1 m2) (ha : ∀ r ∈ W, apart r lo hi) :
    ∀ q, lo ≤ q → q < hi → byte_at m2 q = byte_at m1 q := by
  intro q h1 h2
  apply h.2
  intro r hr
  have := ha r hr
  unfold apart at this ⊢
  omega

theorem only_in_write_time (m : Mem) (xxhd : xxhd_t) (pos32 pos64 : Nat) :
    only_in [time_range xxhd pos32 pos64] m (write_time m xxhd pos32 pos64) := by
  unfold write_time time_range
  have h := only_in_write_xx m (xxhd.atom.data.getD 0 + (if xxhd.version ≠ 0 then pos64 else pos32))
    xxhd.duration (if xxhd.version ≠ 0 then 64 else 32)
  have e : (if xxhd.version ≠ 0 then 64 else 32) >>> 3 = (if xxhd.version ≠ 0 then 8 else 4) := by
    split <;> rfl
  rw [e] at h
  exact h

theorem only_in_two (m : Mem) (p a b : Nat) :
    only_in [(p, p + 8)] m (write_32 (write_32 m p a) (p + 4) b) := by
  have h1 := only_in_write_32 m p a
  have h2 := only_in_write_32 (write_32 m p a) (p + 4) b
  refine ⟨by rw [h2.1, h1.1], fun q hq => ?_⟩
  have h := hq (p, p + 8) (List.mem_singleton.mpr rfl)
  unfold apart at h
  dsimp only at h
  rw [h2.2 q (fun r hr => by
      rw [List.mem_singleton.mp hr]; unfold apart; dsimp only; omega),
    h1.2 q (fun r hr => by
      rw [List.mem_singleton.mp hr]; unfold apart; dsimp only; omega)]

theorem only_in_compile_xxxx (m : Mem) (x : stxx_t) (s e : tbli_t) :
    only_in (head_writes x s e) m (compile_xxxx m x s e none).2 := by
  unfold compile_xxxx head_writes
  split
  · exact only_in_refl _ _
  · dsimp only
    generalize (resize_xxxx x s e none).atom.data.getD 0 = p
    generalize (w32 ((resize_xxxx x s e none).version <<< 24) |||
      (resize_xxxx x s e none).flags) = a
    exact only_in_two m p a _

theorem only_in_compile_stsz (m : Mem) (z : stxx_t) (s e : tbli_t) :
    only_in (stsz_writes z s e) m (compile_stsz m z s e none).2 := by
  unfold compile_stsz stsz_writes
  split
  · exact only_in_refl _ _
  · dsimp only
    generalize (resize_xxxx z s e none).atom.data.getD 0 = p
    generalize (w32 ((resize_xxxx z s e none).version <<< 24) |||
      (resize_xxxx z s e none).flags) = a
    have h1 := only_in_two m p a 0
    have h2 := only_in_write_32 (write_32 (write_32 m p a) (p + 4) 0) (p + 8)
      (resize_xxxx z s e none).count
    refine ⟨by rw [h2.1, h1.1], fun q hq => ?_⟩
    have h := hq (p, p + 12) (List.mem_singleton.mpr rfl)
    unfold apart at h
    dsimp only at h
    rw [h2.2 q (fun r hr => by
        rw [List.mem_singleton.mp hr]; unfold apart; dsimp only; omega),
      h1.2 q (fun r hr => by
        rw [List.mem_singleton.mp hr]; unfold apart; dsimp only; omega)]

theorem only_in_clip_xtts (m : Mem) (Y : stxx_t) (so eo : Nat) :
    only_in (clip_writes Y) m (clip_xtts m Y so eo) := by
  unfold clip_xtts clip_writes
  split
  · exact only_in_refl _ _
  · dsimp only
    generalize (if Y.count ≠ 0 then w32 (sub32 Y.count 1 <<< 3) else 0) = ob
    have e0 : Y.data + 0 = Y.data := rfl
    rw [e0]
    have h1 : only_in [(Y.data, Y.data + 4)] m
        (if so ≠ 0 then write_32 m Y.data (sub32 (read_32 m Y.data) so) else m) := by
      split
      · exact only_in_write_32 _ _ _
      · exact only_in_refl _ _
    generalize (if so ≠ 0 then write_32 m Y.data (sub32 (read_32 m Y.data) so) else m) = m1 at h1 ⊢
    have h2 : only_in [(Y.data + ob, Y.data + ob + 4)] m1
        (if eo ≠ 0 then write_32 m1 (Y.data + ob)
          (sub64 (read_32 m1 (Y.data + ob)) (sub32 (read_32 m (Y.data + ob)) eo)) else m1) := by
      split
      · exact only_in_write_32 _ _ _
      · exact only_in_refl _ _
    exact only_in_trans _ _ _ _ _ h1 h2

theorem only_in_cover (W W2 : List (Nat × Nat)) (m1 m2 : Mem)
    (hc : ∀ q, (∀ r ∈ W2, apart r q (q + 1)) → ∀ r ∈ W, apart r q (q + 1))
    (h : only_in W m1 m2) : only_in W2 m1 m2 :=
  ⟨h.1, fun q hq => h.2 q (hc q hq)⟩

theorem only_in_clip_stsc_prepend (m : Mem) (stsc : stxx_t) (s : seek_t) (p n c : Nat) :
    only_in [(p, p + 12)] m (clip_stsc_prepend m stsc s p n c).1 := by
  have hw : ∀ v, only_in [(p, p + 12)] m (write_32 m p v) := by
    intro v
    refine only_in_cover _ _ _ _ ?_ (only_in_write_32 m p v)
    intro q hq r hr
    have h := hq (p, p + 12) (List.mem_singleton.mpr rfl)
    rw [List.mem_singleton.mp hr]
    unfold apart at h ⊢
    dsimp only at h ⊢
    omega
  unfold clip_stsc_prepend
  split_ifs
  · dsimp only
    exact hw 2
  · dsimp only
    exact only_in_copy_entry m p _
  · dsimp only
    exact hw 1

theorem only_in_clip_stsc_remaining (m : Mem) (s p n : Nat) (start end_ : seek_t) :
    only_in [(p, p + 12 * (if s > 1 then
        w32 (end_.stsc.index + (if end_.stsc.offset > 0 ∨ end_.coxx.offset > 0 then 1 else 0)) -
          w32 (start.stsc.index + 1)
      else 0))] m (clip_stsc_remaining m s p n start end_).1 := by
  unfold clip_stsc_remaining
  split
  · exact only_in_clip_stsc_loop _ _ _ _
  · exact only_in_refl _ _

theorem only_in_clip_stsc (m : Mem) (stbl : stbl_t) (start end_ : seek_t) :
    only_in (stsc_writes stbl start end_) m (clip_stsc m stbl start end_).1 := by
  by_cases hv : VOID stbl.stsc.atom = true
  · unfold clip_stsc stsc_writes
    rw [if_pos hv, if_pos hv]
    exact only_in_refl _ _
  · have hv : VOID stbl.stsc.atom = false := by simpa using hv
    rw [clip_stsc_phases m stbl start end_ hv]
    dsimp only
    have hd : (clip_appended m stbl start end_).1.atom.data = stbl.stsc.atom.data := by
      unfold clip_appended
      rw [clip_stsc_append_data]
      unfold clip_prepended
      rw [clip_stsc_prepend_data]
    rw [hd]
    have h1 := only_in_write_xx m stbl.coxx.data start.offset (stbl.coxx.bytes <<< 3)
    have h2 := only_in_clip_stsc_prepend
      (write_xx m stbl.coxx.data start.offset (stbl.coxx.bytes <<< 3)) stbl.stsc start
      stbl.stsc.data
      (chunks_left (write_xx m stbl.coxx.data start.offset (stbl.coxx.bytes <<< 3)) stbl start)
      (read_32 (write_xx m stbl.coxx.data start.offset (stbl.coxx.bytes <<< 3))
        (stbl.stsc.data + 4))
    have h3 := only_in_clip_stsc_remaining (clip_prepended m stbl start).1 stbl.stsc.count
      (stbl.stsc.data + 12)
      (w32 (chunks_left (write_xx m stbl.coxx.data start.offset (stbl.coxx.bytes <<< 3))
        stbl start + 1))
      (clip_prepended m stbl start).2.2 end_
    have hs : (clip_prepended m stbl start).2.2.stsc = start.stsc := by
      unfold clip_prepended
      exact (clip_stsc_prepend_spec _ _ _ _ _ _).2.2.2.2.1
    rw [hs] at h3
    have h4 := only_in_two (clip_remained m stbl start end_).1 (stbl.stsc.atom.data.getD 0)
      (w32 ((clip_appended m stbl start end_).1.version <<< 24) |||
        (clip_appended m stbl start end_).1.flags)
      (clip_appended m stbl start end_).1.count
    have h12 := only_in_trans _ _ _ _ _ h1 h2
    have h123 := only_in_trans _ _ _ _ _ h12 h3
    have h := only_in_trans _ _ _ _ _ h123 h4
    refine only_in_cover _ _ _ _ ?_ h
    intro q hq r hr
    unfold stsc_writes at hq
    rw [if_neg (by simp [hv])] at hq
    have a1 := hq _ (List.mem_cons_self _ _)
    have a2 := hq _ (List.mem_cons_of_mem _ (List.mem_cons_self _ _))
    have a3 := hq _ (List.mem_cons_of_mem _ (List.mem_cons_of_mem _ (List.mem_cons_self _ _)))
    unfold remaining_count at a2
    unfold apart at a1 a2 a3 ⊢
    dsimp only at a1 a2 a3
    simp only [List.mem_append, List.mem_singleton] at hr
    rcases hr with ((hr | hr) | hr) | hr <;> subst hr <;> dsimp only <;> omega

theorem agree_write_xx (m n : Mem) (lo hi p v bits : Nat) (h : agree m n lo hi) :
    agree (write_xx m p v bits) (write_xx n p v bits) lo hi := by
  refine ⟨by rw [write_xx_size, write_xx_size, h.1], fun q h1 h2 => ?_⟩
  rw [byte_at_write_xx, byte_at_write_xx, h.1, h.2 q h1 h2]

theorem agree_read_32 (m n : Mem) (lo hi p : Nat) (h : agree m n lo hi) (h1 : lo ≤ p)
    (h2 : p + 4 ≤ hi) : read_32 m p = read_32 n p := by
  unfold read_32
  apply read_xx_congr
  intro i hi'
  have : (32 : Nat) >>> 3 = 4 := rfl
  rw [this] at hi'
  exact h.2 _ (by omega) (by omega)

theorem xtts_time_agree (m n : Mem) (p : Nat) (k : Nat) (h : agree m n p (p + 8 * k)) :
    xtts_time m p k = xtts_time n p k := by
  induction k with
  | zero => rfl
  | succ k ih =>
    have e1 : ∀ x : Mem, xtts_time x p (k + 1) =
        xtts_time x p k + xtts_count x p k * xtts_delta x p k := fun _ => rfl
    rw [e1, e1, ih ⟨h.1, fun q h1 h2 => h.2 q h1 (by omega)⟩]
    unfold xtts_count xtts_delta
    rw [agree_read_32 m n _ _ _ h (by omega) (by omega),
      agree_read_32 m n _ _ _ h (by omega) (by omega)]

/-- The result of `clip_xtts` inside a table depends on the bytes of the table
only. -/
theorem clip_xtts_agree (m n : Mem) (Y : stxx_t) (so eo : Nat)
    (hc : 8 * Y.count < 2 ^ 32)
    (h : agree m n Y.data (Y.data + 8 * Y.count)) :
    agree (clip_xtts m Y so eo) (clip_xtts n Y so eo) Y.data (Y.data + 8 * Y.count) := by
  by_cases h0 : Y.count = 0
  · refine ⟨?_, fun q h1 h2 => ?_⟩
    · rw [(only_in_clip_xtts m Y so eo).1, (only_in_clip_xtts n Y so eo).1, h.1]
    · rw [h0] at h2; omega
  unfold clip_xtts
  split
  · exact h
  · dsimp only
    have eb : w32 (sub32 Y.count 1 <<< 3) = 8 * (Y.count - 1) := by
      have e1 : sub32 Y.count 1 = Y.count - 1 := by unfold sub32; omega
      rw [e1, shl3]
      unfold w32
      omega
    rw [eb]
    have e0 : Y.data + 0 = Y.data := rfl
    rw [e0]
    have r1 : read_32 m Y.data = read_32 n Y.data :=
      agree_read_32 m n _ _ _ h (by omega) (by omega)
    have r2 : read_32 m (Y.data + 8 * (Y.count - 1)) = read_32 n (Y.data + 8 * (Y.count - 1)) :=
      agree_read_32 m n _ _ _ h (by omega) (by omega)
    rw [r1, r2]
    have h1 : agree (if so ≠ 0 then write_32 m Y.data (sub32 (read_32 n Y.data) so) else m)
        (if so ≠ 0 then write_32 n Y.data (sub32 (read_32 n Y.data) so) else n)
        Y.data (Y.data + 8 * Y.count) := by
      split
      · exact agree_write_xx m n _ _ _ _ _ h
      · exact h
    generalize (if so ≠ 0 then write_32 m Y.data (sub32 (read_32 n Y.data) so) else m) = m1 at h1 ⊢
    generalize (if so ≠ 0 then write_32 n Y.data (sub32 (read_32 n Y.data) so) else n) = n1 at h1 ⊢
    have r3 : read_32 m1 (Y.data + 8 * (Y.count - 1)) = read_32 n1 (Y.data + 8 * (Y.count - 1)) :=
      agree_read_32 m1 n1 _ _ _ h1 (by omega) (by omega)
    rw [r3]
    split
    · exact agree_write_xx m1 n1 _ _ _ _ _ h1
    · exact h1

/-- For two requests with times `t1 <= t2 <= max_time`, the sum of count *
duration over the entries of the `stts` table rewritten by `compile_xxxx` and
`clip_xtts` with the cursors of the two seek records is the difference of the
two seek times. -/
theorem clip_xtts_duration (mem : Mem) (A : stbl_t) (a b : seek_t) (d : Nat)
    (hv : VOID A.stts.atom = false)
    (hd : A.stts.atom.data = some d) (hdata : A.stts.data = d + 8)
    (hb : A.stts.bytes = 8)
    (hsmall : 8 * A.stts.count + 64 < 2 ^ 32)
    (hszb : A.stts.atom.size = head_size A.stts.atom + 8 + A.stts.count * A.stts.bytes)
    (hmem : A.stts.data + 8 * A.stts.count ≤ mem.size)
    (hT : stts_time mem A A.stts.count < 2 ^ 32)
    (hN : stts_samples mem A A.stts.count < 2 ^ 32)
    (hmt : A.max_time = stts_time mem A A.stts.count)
    (hms : A.max_samples = stts_samples mem A A.stts.count)
    (hc : VOID A.stss.atom = false → ∀ i, i < A.stts.count → 0 < stts_count mem A i)
    (h1 : VOID A.stss.atom = false →
      ∀ i, i < A.stss.count → 1 ≤ i → 1 ≤ stss_entry mem A i)
    (hasc : VOID A.stss.atom = false →
      ∀ i, i < A.stss.count → 1 ≤ i → i + 1 < A.stss.count →
        stss_entry mem A i ≤ stss_entry mem A (i + 1))
    (h12 : a.time ≤ b.time) (hreq : b.time ≤ A.max_time) :
    xtts_time
        (clip_xtts (compile_xxxx mem A.stts (compile_seek mem A a).stts
            (compile_seek mem A b).stts none).2
          (compile_xxxx mem A.stts (compile_seek mem A a).stts (compile_seek mem A b).stts none).1
          (compile_seek mem A a).stts.offset (compile_seek mem A b).stts.offset)
        (compile_xxxx mem A.stts (compile_seek mem A a).stts
          (compile_seek mem A b).stts none).1.data
        (compile_xxxx mem A.stts (compile_seek mem A a).stts
          (compile_seek mem A b).stts none).1.count =
      sub64 (compile_seek mem A b).time (compile_seek mem A a).time ∧
    (compile_seek mem A a).stts.index ≤ (compile_seek mem A b).stts.index ∧
    (compile_seek mem A b).stts.index + keep_last (compile_seek mem A b).stts none ≤
      A.stts.count ∧
    (compile_seek mem A a).time ≤ (compile_seek mem A b).time ∧
    (compile_seek mem A b).time < 2 ^ 32 := by
  have hsz2 : 8 * A.stts.count + 4 < 2 ^ 32 := by omega
  have hreq2 : b.time ≤ stts_time mem A A.stts.count := by
    rw [← hmt]; exact hreq
  have hm := compile_seek_mono mem A a b hT hN hsz2 hmt hms
    hc (fun hv i hi hlt => h1 hv i hlt hi)
    (fun hv => ascending_of_adjacent (stss_entry mem A) A.stss.count (hasc hv))
    h12 hreq2
  have ca := compile_seek_cursor mem A a hT hN hsz2 hmt hms hc (le_trans h12 hreq2)
  have cb := compile_seek_cursor mem A b hT hN hsz2 hmt hms hc hreq2
  obtain ⟨xa, ta⟩ := xtts_at_of_stts_at mem A _ _ _ _ ca
  obtain ⟨xb, tb⟩ := xtts_at_of_stts_at mem A _ _ _ _ cb
  have key := clip_xtts_time_total mem A.stts (compile_seek mem A a).stts (compile_seek mem A b).stts
    (compile_seek mem A a).stsz.index (compile_seek mem A b).stsz.index d hv hd hdata hb hsmall
    hszb hmem xa xb hm.1
  have eta : xtts_time mem A.stts.data (compile_seek mem A a).stts.index +
      (compile_seek mem A a).stts.offset *
        xtts_delta mem A.stts.data (compile_seek mem A a).stts.index =
      (compile_seek mem A a).time := ta.symm
  have etb : xtts_time mem A.stts.data (compile_seek mem A b).stts.index +
      (compile_seek mem A b).stts.offset *
        xtts_delta mem A.stts.data (compile_seek mem A b).stts.index =
      (compile_seek mem A b).time := tb.symm
  rw [eta, etb] at key
  have hbt : b.time < 2 ^ 32 := by omega
  have hstep : ∀ i, xtts_samples mem A.stts.data (i + 1) =
      xtts_samples mem A.stts.data i + xtts_count mem A.stts.data i := fun _ => rfl
  refine ⟨?_, ?_, ?_, hm.2.1, by have := hm.2.2; omega⟩
  · rw [sub64_of_le _ _ hm.2.1 (by have := hm.2.2; omega)]
    omega
  · by_contra hcon
    have hS := xa.1
    have hE := xb.1
    have hle := hm.1
    rcases xb.2 with ⟨g1, g2⟩ | ⟨g1, _⟩
    · have := xtts_samples_mono mem A.stts.data ((compile_seek mem A b).stts.index + 1)
        (compile_seek mem A a).stts.index (by omega)
      have := hstep (compile_seek mem A b).stts.index
      omega
    · rcases xa.2 with ⟨g3, _⟩ | ⟨g3, _⟩ <;> omega
  · rw [keep_last_none_eq]
    rcases xb.2 with ⟨g1, g2⟩ | ⟨g1, g2⟩
    · split <;> omega
    · rw [if_neg (by omega)]
      omega

/-- The two seeks of `compile_trak` are made for times `t1 <= t2 <= max_time`
when the start in track ticks is not after the stop, or no stop is given. -/
theorem compile_trak_seek_times (stream : stream_t) (mem : Mem) (trak : trak_t)
    (hreq : to_uint64 (stream.start * (trak.mdia.mdhd.scale : ℚ)) ≤
        to_uint64 (stream.stop * (trak.mdia.mdhd.scale : ℚ)) ∨
      to_uint64 (stream.stop * (trak.mdia.mdhd.scale : ℚ)) = 0) :
    ∃ a b : seek_t, compile_trak_seek stream mem trak =
        (compile_seek mem trak.mdia.minf.stbl a, compile_seek mem trak.mdia.minf.stbl b) ∧
      a.time ≤ b.time ∧ b.time ≤ trak.mdia.minf.stbl.max_time := by
  unfold compile_trak_seek
  dsimp only
  refine ⟨_, _, rfl, ?_, ?_⟩
  · dsimp only
    generalize to_uint64 (stream.start * (trak.mdia.mdhd.scale : ℚ)) = s at hreq ⊢
    generalize to_uint64 (stream.stop * (trak.mdia.mdhd.scale : ℚ)) = e at hreq ⊢
    generalize (if trak.mdia.mdhd.duration > trak.mdia.minf.stbl.max_time then
      trak.mdia.minf.stbl.max_time else trak.mdia.mdhd.duration) = D
    by_cases h1 : s > D <;> by_cases h2 : e = 0 <;> by_cases h3 : e > D <;>
      simp [h1, h2, h3] <;> omega
  · dsimp only
    generalize to_uint64 (stream.stop * (trak.mdia.mdhd.scale : ℚ)) = e
    have hD : (if trak.mdia.mdhd.duration > trak.mdia.minf.stbl.max_time then
      trak.mdia.minf.stbl.max_time else trak.mdia.mdhd.duration) ≤
        trak.mdia.minf.stbl.max_time := by
      split <;> omega
    generalize (if trak.mdia.mdhd.duration > trak.mdia.minf.stbl.max_time then
      trak.mdia.minf.stbl.max_time else trak.mdia.mdhd.duration) = D at hD ⊢
    by_cases h2 : e = 0 <;> by_cases h3 : e > D <;> simp [h2, h3] <;> omega

theorem compile_xxxx_fst (m n : Mem) (x : stxx_t) (s e : tbli_t) (o : Option tbli_t) :
    (compile_xxxx m x s e o).1 = (compile_xxxx n x s e o).1 := by
  unfold compile_xxxx
  split <;> rfl

theorem compile_stsz_fst (m n : Mem) (x : stxx_t) (s e : tbli_t) (o : Option tbli_t) :
    (compile_stsz m x s e o).1 = (compile_stsz n x s e o).1 := by
  unfold compile_stsz
  split <;> rfl

theorem resized_stbl_eq (stbl : stbl_t) (S E : seek_t) (m1 m2 m3 m4 m5 : Mem) :
    ({ stbl with
      stts := (compile_xxxx m1 stbl.stts S.stts E.stts none).1
      ctts := (compile_xxxx m2 stbl.ctts S.ctts E.ctts none).1
      stss := (compile_xxxx m3 stbl.stss S.stss E.stss none).1
      stsz := (compile_stsz m4 stbl.stsz S.stsz E.stsz none).1
      coxx := (compile_xxxx m5 stbl.coxx S.coxx E.coxx none).1
      stsc := resize_xxxx stbl.stsc S.stsc E.stsc (some E.coxx) } : stbl_t) =
    resized_stbl stbl S E := by
  unfold resized_stbl
  rw [compile_xxxx_fst m1 {} stbl.stts, compile_xxxx_fst m2 {} stbl.ctts,
    compile_xxxx_fst m3 {} stbl.stss, compile_stsz_fst m4 {} stbl.stsz,
    compile_xxxx_fst m5 {} stbl.coxx]

theorem clip_input_stbl (m : Mem) (stbl : stbl_t) (S E : seek_t) :
    (clip_input m stbl S E).2 = resized_stbl stbl S E := by
  unfold clip_input
  dsimp only
  exact resized_stbl_eq stbl S E _ _ _ _ _

theorem clip_input_mem (m : Mem) (stbl : stbl_t) (S E : seek_t) :
    (clip_input m stbl S E).1 =
      clip_xtts (clip_xtts (clip_heads m stbl S E) (resized_stbl stbl S E).stts
          S.stts.offset E.stts.offset)
        (resized_stbl stbl S E).ctts S.ctts.offset E.ctts.offset := by
  have e1 : (resized_stbl stbl S E).stts = (compile_xxxx m stbl.stts S.stts E.stts none).1 :=
    compile_xxxx_fst _ _ _ _ _ _
  have e2 : (resized_stbl stbl S E).ctts =
      (compile_xxxx (compile_xxxx m stbl.stts S.stts E.stts none).2
        stbl.ctts S.ctts E.ctts none).1 := compile_xxxx_fst _ _ _ _ _ _
  rw [e1, e2]
  rfl

theorem only_in_clip_heads (m : Mem) (stbl : stbl_t) (S E : seek_t) :
    only_in (head_writes stbl.stts S.stts E.stts ++
      (head_writes stbl.ctts S.ctts E.ctts ++ head_writes stbl.stss S.stss E.stss ++
        stsz_writes stbl.stsz S.stsz E.stsz ++ head_writes stbl.coxx S.coxx E.coxx))
      m (clip_heads m stbl S E) := by
  unfold clip_heads
  have h1 := only_in_compile_xxxx m stbl.stts S.stts E.stts
  generalize (compile_xxxx m stbl.stts S.stts E.stts none).2 = a1 at h1 ⊢
  have h2 := only_in_compile_xxxx a1 stbl.ctts S.ctts E.ctts
  generalize (compile_xxxx a1 stbl.ctts S.ctts E.ctts none).2 = a2 at h2 ⊢
  have h3 := only_in_compile_xxxx a2 stbl.stss S.stss E.stss
  generalize (compile_xxxx a2 stbl.stss S.stss E.stss none).2 = a3 at h3 ⊢
  have h4 := only_in_compile_stsz a3 stbl.stsz S.stsz E.stsz
  generalize (compile_stsz a3 stbl.stsz S.stsz E.stsz none).2 = a4 at h4 ⊢
  have h5 := only_in_compile_xxxx a4 stbl.coxx S.coxx E.coxx
  generalize (compile_xxxx a4 stbl.coxx S.coxx E.coxx none).2 = a5 at h5 ⊢
  exact only_in_trans _ _ _ _ _ h1
    (only_in_trans _ _ _ _ _ (only_in_trans _ _ _ _ _ (only_in_trans _ _ _ _ _ h2 h3) h4) h5)

theorem compile_trak_stbl_mem (m : Mem) (stbl : stbl_t) (S E : seek_t) :
    (compile_trak_stbl m stbl S E).1 =
      (clip_stsc
        (clip_xtts (clip_xtts (clip_heads m stbl S E) (resized_stbl stbl S E).stts
            S.stts.offset E.stts.offset)
          (resized_stbl stbl S E).ctts S.ctts.offset E.ctts.offset)
        (resized_stbl stbl S E) S E).1 ∧
    (compile_trak_stbl m stbl S E).2.1.stts = (resized_stbl stbl S E).stts := by
  rw [compile_trak_stbl_clip, clip_input_mem, clip_input_stbl]
  exact ⟨rfl, (clip_stsc_keeps _ _ _ _).1⟩

theorem compile_trak_mem (stream : stream_t) (mvhd_scale : Nat) (mem : Mem) (trak : trak_t)
    (hv : VOID trak.atom = false) :
    (compile_trak stream mvhd_scale mem trak).2.1 =
      (compile_trak_stbl
        (write_time (write_time mem (timed_mdhd stream mem trak) 16 24)
          (timed_tkhd stream mvhd_scale mem trak) 20 28)
        trak.mdia.minf.stbl (compile_trak_seek stream mem trak).1
        (compile_trak_seek stream mem trak).2).1 := by
  unfold compile_trak
  rw [if_neg (by simp [hv])]
  rfl

theorem compile_trak_stts (stream : stream_t) (mvhd_scale : Nat) (mem : Mem) (trak : trak_t)
    (hv : VOID trak.atom = false) :
    (compile_trak stream mvhd_scale mem trak).2.2.mdia.minf.stbl.stts =
      (resized_stbl trak.mdia.minf.stbl (compile_trak_seek stream mem trak).1
        (compile_trak_seek stream mem trak).2).stts := by
  unfold compile_trak
  rw [if_neg (by simp [hv])]
  dsimp only
  generalize hR : compile_trak_resize trak _ _ _ _ _ = T
  have := (compile_trak_resize_spec _ _ _ _ _ _ T hR).2.2.2.2.2.2.2.1
  rw [this]
  exact (compile_trak_stbl_mem _ _ _ _).2

theorem apart_of_mem (L : List (Nat × Nat)) (lo hi : Nat) (h : ∀ r ∈ L, apart r lo hi)
    (L2 : List (Nat × Nat)) (hs : ∀ r ∈ L2, r ∈ L) : ∀ r ∈ L2, apart r lo hi :=
  fun r hr => h r (hs r hr)

/-- The retained `stts` table and the duration field of `mdhd` in the buffer
that the table part of `compile_trak` returns, for seek records `S`, `E` of
two requests with times `t1 <= t2 <= max_time`. -/
theorem compile_trak_stbl_duration (mem : Mem) (stbl : stbl_t) (a b : seek_t) (d : Nat)
    (mdhd tkhd : xxhd_t)
    (hv : VOID stbl.stts.atom = false)
    (hd : stbl.stts.atom.data = some d) (hdata : stbl.stts.data = d + 8)
    (hb : stbl.stts.bytes = 8)
    (hsmall : 8 * stbl.stts.count + 64 < 2 ^ 32)
    (hszb : stbl.stts.atom.size = head_size stbl.stts.atom + 8 + stbl.stts.count * stbl.stts.bytes)
    (hmem : stbl.stts.data + 8 * stbl.stts.count ≤ mem.size)
    (hT : stts_time mem stbl stbl.stts.count < 2 ^ 32)
    (hN : stts_samples mem stbl stbl.stts.count < 2 ^ 32)
    (hmt : stbl.max_time = stts_time mem stbl stbl.stts.count)
    (hms : stbl.max_samples = stts_samples mem stbl stbl.stts.count)
    (hc : VOID stbl.stss.atom = false → ∀ i, i < stbl.stts.count → 0 < stts_count mem stbl i)
    (h1 : VOID stbl.stss.atom = false →
      ∀ i, i < stbl.stss.count → 1 ≤ i → 1 ≤ stss_entry mem stbl i)
    (hasc : VOID stbl.stss.atom = false →
      ∀ i, i < stbl.stss.count → 1 ≤ i → i + 1 < stbl.stss.count →
        stss_entry mem stbl i ≤ stss_entry mem stbl (i + 1))
    (h12 : a.time ≤ b.time) (hreq : b.time ≤ stbl.max_time)
    (hw1 : ∀ r ∈ time_range mdhd 16 24 :: time_range tkhd 20 28 ::
        table_writes stbl (compile_seek mem stbl a) (compile_seek mem stbl b),
      apart r (resized_stbl stbl (compile_seek mem stbl a) (compile_seek mem stbl b)).stts.data
        ((resized_stbl stbl (compile_seek mem stbl a) (compile_seek mem stbl b)).stts.data +
          8 * (resized_stbl stbl (compile_seek mem stbl a)
            (compile_seek mem stbl b)).stts.count)) :
    xtts_time
        (compile_trak_stbl (write_time (write_time mem mdhd 16 24) tkhd 20 28) stbl
          (compile_seek mem stbl a) (compile_seek mem stbl b)).1
        (resized_stbl stbl (compile_seek mem stbl a) (compile_seek mem stbl b)).stts.data
        (resized_stbl stbl (compile_seek mem stbl a) (compile_seek mem stbl b)).stts.count =
      sub64 (compile_seek mem stbl b).time (compile_seek mem stbl a).time ∧
    (compile_seek mem stbl a).time ≤ (compile_seek mem stbl b).time ∧
    (compile_seek mem stbl b).time < 2 ^ 32 := by
  obtain ⟨hdur, hidx, hkeep, htle, htlt⟩ := clip_xtts_duration mem stbl a b d hv hd hdata hb
    hsmall hszb hmem hT hN hmt hms hc h1 hasc h12 hreq
  refine ⟨?_, htle, htlt⟩
  generalize compile_seek mem stbl a = S at *
  generalize compile_seek mem stbl b = E at *
  obtain ⟨hcnt, hdat, hnv, -, -⟩ :=
    compile_xxxx_entries mem stbl.stts S.stts E.stts d hv hd hdata hb hsmall hszb hidx hkeep
  have hx := keep_last_le E.stts none
  -- the retained descriptor
  have eY : (resized_stbl stbl S E).stts = (compile_xxxx mem stbl.stts S.stts E.stts none).1 :=
    compile_xxxx_fst _ _ _ _ _ _
  rw [eY] at hw1 ⊢
  rw [← hdur]
  -- the head of the table is written in front of the retained entries
  have ha : w32 (S.stts.index * stbl.stts.bytes) = 8 * S.stts.index := by
    rw [hb, w32_of_lt _ (by omega)]
    omega
  have hadat : (resize_xxxx stbl.stts S.stts E.stts none).atom.data.getD 0 =
      d + 8 * S.stts.index := by
    rw [resize_xxxx_eq]
    dsimp only
    rw [ha, hd]
    rfl
  have hhead : ∀ r ∈ head_writes stbl.stts S.stts E.stts,
      apart r (compile_xxxx mem stbl.stts S.stts E.stts none).1.data
        ((compile_xxxx mem stbl.stts S.stts E.stts none).1.data +
          8 * (compile_xxxx mem stbl.stts S.stts E.stts none).1.count) := by
    intro r hr
    unfold head_writes at hr
    rw [if_neg (by simp [hv]), hadat] at hr
    rw [List.mem_singleton.mp hr, hdat, hdata]
    unfold apart
    left
    show d + 8 * S.stts.index + 8 ≤ d + 8 + 8 * S.stts.index
    omega
  -- bytes of the retained table after the head writes
  have hT1 : ∀ r ∈ table_writes stbl S E,
      apart r (compile_xxxx mem stbl.stts S.stts E.stts none).1.data
        ((compile_xxxx mem stbl.stts S.stts E.stts none).1.data +
          8 * (compile_xxxx mem stbl.stts S.stts E.stts none).1.count) :=
    fun r hr => hw1 r (List.mem_cons_of_mem _ (List.mem_cons_of_mem _ hr))
  have o1 := only_in_write_time mem mdhd 16 24
  have o2 := only_in_write_time (write_time mem mdhd 16 24) tkhd 20 28
  have o3 := only_in_clip_heads (write_time (write_time mem mdhd 16 24) tkhd 20 28) stbl S E
  have o123 := only_in_trans _ _ _ _ _ (only_in_trans _ _ _ _ _ o1 o2) o3
  have g1 := only_in_agree _ _ _ _ _ o123 (by
    intro r hr
    rcases List.mem_append.mp hr with hr | hr
    · rcases List.mem_append.mp hr with hr | hr
      · exact hw1 r (by rw [List.mem_singleton.mp hr]; exact List.mem_cons_self _ _)
      · exact hw1 r (by
          rw [List.mem_singleton.mp hr]
          exact List.mem_cons_of_mem _ (List.mem_cons_self _ _))
    · rcases List.mem_append.mp hr with hr | hr
      · exact hhead r hr
      · refine hT1 r ?_
        unfold table_writes
        exact List.mem_append_left _ (List.mem_append_left _ hr))
  have n1 := only_in_compile_xxxx mem stbl.stts S.stts E.stts
  have g2 := only_in_agree _ _ _ _ _ n1 hhead
  have ag1 : agree (clip_heads (write_time (write_time mem mdhd 16 24) tkhd 20 28) stbl S E)
      (compile_xxxx mem stbl.stts S.stts E.stts none).2
      (compile_xxxx mem stbl.stts S.stts E.stts none).1.data
      ((compile_xxxx mem stbl.stts S.stts E.stts none).1.data +
        8 * (compile_xxxx mem stbl.stts S.stts E.stts none).1.count) :=
    ⟨by rw [o123.1, n1.1], fun q h1 h2 => by rw [g1 q h1 h2, g2 q h1 h2]⟩
  have ag2 := clip_xtts_agree _ _ (compile_xxxx mem stbl.stts S.stts E.stts none).1
    S.stts.offset E.stts.offset (by rw [hcnt]; omega) ag1
  -- the writes after the clipping of the time table
  rw [(compile_trak_stbl_mem (write_time (write_time mem mdhd 16 24) tkhd 20 28) stbl S E).1, eY]
  have o4 := only_in_clip_xtts
    (clip_xtts (clip_heads (write_time (write_time mem mdhd 16 24) tkhd 20 28) stbl S E)
      (compile_xxxx mem stbl.stts S.stts E.stts none).1 S.stts.offset E.stts.offset)
    (resized_stbl stbl S E).ctts S.ctts.offset E.ctts.offset
  have o5 := only_in_clip_stsc
    (clip_xtts
      (clip_xtts (clip_heads (write_time (write_time mem mdhd 16 24) tkhd 20 28) stbl S E)
        (compile_xxxx mem stbl.stts S.stts E.stts none).1 S.stts.offset E.stts.offset)
      (resized_stbl stbl S E).ctts S.ctts.offset E.ctts.offset)
    (resized_stbl stbl S E) S E
  have o45 := only_in_trans _ _ _ _ _ o4 o5
  have g3 := only_in_agree _ _ _ _ _ o45 (by
    intro r hr
    refine hT1 r ?_
    unfold table_writes
    rcases List.mem_append.mp hr with hr | hr
    · exact List.mem_append_left _ (List.mem_append_right _ hr)
    · exact List.mem_append_right _ hr)
  apply xtts_time_agree
  exact ⟨by rw [o45.1, ag2.1], fun q h1 h2 => by rw [g3 q h1 h2, ag2.2 q h1 h2]⟩

/-- The duration field of `mdhd` keeps the value that `write_time` stored when
no later write of `compile_trak` reaches it. -/
theorem compile_trak_stbl_mdhd (mem : Mem) (stbl : stbl_t) (S E : seek_t) (mdhd tkhd : xxhd_t)
    (hk : (time_range mdhd 16 24).2 ≤ mem.size)
    (hw2 : ∀ r ∈ time_range tkhd 20 28 :: (stts_writes stbl S E ++ table_writes stbl S E),
      apart r (time_range mdhd 16 24).1 (time_range mdhd 16 24).2) :
    read_xx (compile_trak_stbl (write_time (write_time mem mdhd 16 24) tkhd 20 28) stbl S E).1
        (time_range mdhd 16 24).1 (if mdhd.version ≠ 0 then 64 else 32) =
      mdhd.duration % 2 ^ (if mdhd.version ≠ 0 then 64 else 32) := by
  rw [(compile_trak_stbl_mem (write_time (write_time mem mdhd 16 24) tkhd 20 28) stbl S E).1]
  have o2 := only_in_write_time (write_time mem mdhd 16 24) tkhd 20 28
  have o3 := only_in_clip_heads (write_time (write_time mem mdhd 16 24) tkhd 20 28) stbl S E
  have o4 := only_in_clip_xtts
    (clip_heads (write_time (write_time mem mdhd 16 24) tkhd 20 28) stbl S E)
    (resized_stbl stbl S E).stts S.stts.offset E.stts.offset
  have o5 := only_in_clip_xtts
    (clip_xtts (clip_heads (write_time (write_time mem mdhd 16 24) tkhd 20 28) stbl S E)
      (resized_stbl stbl S E).stts S.stts.offset E.stts.offset)
    (resized_stbl stbl S E).ctts S.ctts.offset E.ctts.offset
  have o6 := only_in_clip_stsc
    (clip_xtts
      (clip_xtts (clip_heads (write_time (write_time mem mdhd 16 24) tkhd 20 28) stbl S E)
        (resized_stbl stbl S E).stts S.stts.offset E.stts.offset)
      (resized_stbl stbl S E).ctts S.ctts.offset E.ctts.offset)
    (resized_stbl stbl S E) S E
  have o := only_in_trans _ _ _ _ _
    (only_in_trans _ _ _ _ _ (only_in_trans _ _ _ _ _ (only_in_trans _ _ _ _ _ o2 o3) o4) o5) o6
  have g := only_in_agree _ _ _ _ _ o (by
    intro r hr
    refine hw2 r ?_
    rcases List.mem_append.mp hr with hr | hr
    · rcases List.mem_append.mp hr with hr | hr
      · rcases List.mem_append.mp hr with hr | hr
        · rcases List.mem_append.mp hr with hr | hr
          · rw [List.mem_singleton.mp hr]
            exact List.mem_cons_self _ _
          · rcases List.mem_append.mp hr with hr | hr
            · refine List.mem_cons_of_mem _ (List.mem_append_left _ ?_)
              unfold stts_writes
              exact List.mem_append_left _ hr
            · refine List.mem_cons_of_mem _ (List.mem_append_right _ ?_)
              unfold table_writes
              exact List.mem_append_left _ (List.mem_append_left _ hr)
        · refine List.mem_cons_of_mem _ (List.mem_append_left _ ?_)
          unfold stts_writes
          exact List.mem_append_right _ hr
      · refine List.mem_cons_of_mem _ (List.mem_append_right _ ?_)
        unfold table_writes
        exact List.mem_append_left _ (List.mem_append_right _ hr)
    · refine List.mem_cons_of_mem _ (List.mem_append_right _ ?_)
      unfold table_writes
      exact List.mem_append_right _ hr)
  have hbits : (if mdhd.version ≠ 0 then 64 else 32) >>> 3 =
      (if mdhd.version ≠ 0 then 8 else 4) := by split <;> rfl
  have e1 : read_xx
      (clip_stsc
        (clip_xtts
          (clip_xtts (clip_heads (write_time (write_time mem mdhd 16 24) tkhd 20 28) stbl S E)
            (resized_stbl stbl S E).stts S.stts.offset E.stts.offset)
          (resized_stbl stbl S E).ctts S.ctts.offset E.ctts.offset)
        (resized_stbl stbl S E) S E).1
      (time_range mdhd 16 24).1 (if mdhd.version ≠ 0 then 64 else 32) =
      read_xx (write_time mem mdhd 16 24) (time_range mdhd 16 24).1
        (if mdhd.version ≠ 0 then 64 else 32) := by
    apply read_xx_congr
    intro i hi
    rw [hbits] at hi
    refine g _ (by omega) ?_
    unfold time_range
    dsimp only
    omega
  rw [e1]
  unfold write_time time_range at *
  dsimp only at *
  by_cases hver : mdhd.version ≠ 0
  · rw [if_pos hver, if_pos hver] at *
    exact read_xx_write_xx_same mem _ _ 8 (by omega) (by omega)
  · rw [if_neg hver, if_neg hver] at *
    exact read_xx_write_xx_same mem _ _ 4 (by omega) (by omega)

/-- C38 (amended). For a track that is not void and a request whose start, in
track ticks, is not after its stop (or that has no stop), the buffer and the
track that `compile_trak` returns satisfy: the sum of count * duration over
the entries of the rewritten `stts` table (the retained entries, as resized
and clipped, read from the returned buffer) equals the media duration
`end.time - start.time` that `compile_trak` stores in `mdhd`, and the duration
field of the `mdhd` box in the returned buffer holds that value. The `stts`
is a well-formed box inside the buffer whose totals fit 32 bits and agree
with `max_time` and `max_samples`; when the track has an `stss`, every `stts`
entry holds at least one sample and the sync samples after the first one are
numbered from 1 in ascending order; the bytes that `compile_trak` writes for
the other boxes do not overlap the retained `stts` entries nor the duration
field of `mdhd`. -/
theorem compile_trak_duration (stream : stream_t) (mvhd_scale : Nat) (mem : Mem)
    (trak : trak_t) (d : Nat)
    (hvt : VOID trak.atom = false)
    (hv : VOID trak.mdia.minf.stbl.stts.atom = false)
    (hd : trak.mdia.minf.stbl.stts.atom.data = some d)
    (hdata : trak.mdia.minf.stbl.stts.data = d + 8)
    (hb : trak.mdia.minf.stbl.stts.bytes = 8)
    (hsmall : 8 * trak.mdia.minf.stbl.stts.count + 64 < 2 ^ 32)
    (hszb : trak.mdia.minf.stbl.stts.atom.size =
      head_size trak.mdia.minf.stbl.stts.atom + 8 +
        trak.mdia.minf.stbl.stts.count * trak.mdia.minf.stbl.stts.bytes)
    (hmem : trak.mdia.minf.stbl.stts.data + 8 * trak.mdia.minf.stbl.stts.count ≤ mem.size)
    (hT : stts_time mem trak.mdia.minf.stbl trak.mdia.minf.stbl.stts.count < 2 ^ 32)
    (hN : stts_samples mem trak.mdia.minf.stbl trak.mdia.minf.stbl.stts.count < 2 ^ 32)
    (hmt : trak.mdia.minf.stbl.max_time =
      stts_time mem trak.mdia.minf.stbl trak.mdia.minf.stbl.stts.count)
    (hms : trak.mdia.minf.stbl.max_samples =
      stts_samples mem trak.mdia.minf.stbl trak.mdia.minf.stbl.stts.count)
    (hc : VOID trak.mdia.minf.stbl.stss.atom = false →
      ∀ i, i < trak.mdia.minf.stbl.stts.count → 0 < stts_count mem trak.mdia.minf.stbl i)
    (h1 : VOID trak.mdia.minf.stbl.stss.atom = false →
      ∀ i, i < trak.mdia.minf.stbl.stss.count → 1 ≤ i →
        1 ≤ stss_entry mem trak.mdia.minf.stbl i)
    (hasc : VOID trak.mdia.minf.stbl.stss.atom = false →
      ∀ i, i < trak.mdia.minf.stbl.stss.count → 1 ≤ i →
        i + 1 < trak.mdia.minf.stbl.stss.count →
        stss_entry mem trak.mdia.minf.stbl i ≤ stss_entry mem trak.mdia.minf.stbl (i + 1))
    (hreq : to_uint64 (stream.start * (trak.mdia.mdhd.scale : ℚ)) ≤
        to_uint64 (stream.stop * (trak.mdia.mdhd.scale : ℚ)) ∨
      to_uint64 (stream.stop * (trak.mdia.mdhd.scale : ℚ)) = 0)
    (hk : (time_range trak.mdia.mdhd 16 24).2 ≤ mem.size)
    (hw1 : ∀ r ∈ time_range trak.mdia.mdhd 16 24 :: time_range trak.tkhd 20 28 ::
        table_writes trak.mdia.minf.stbl (compile_trak_seek stream mem trak).1
          (compile_trak_seek stream mem trak).2,
      apart r
        (resized_stbl trak.mdia.minf.stbl (compile_trak_seek stream mem trak).1
          (compile_trak_seek stream mem trak).2).stts.data
        ((resized_stbl trak.mdia.minf.stbl (compile_trak_seek stream mem trak).1
          (compile_trak_seek stream mem trak).2).stts.data +
          8 * (resized_stbl trak.mdia.minf.stbl (compile_trak_seek stream mem trak).1
            (compile_trak_seek stream mem trak).2).stts.count))
    (hw2 : ∀ r ∈ time_range trak.tkhd 20 28 ::
        (stts_writes trak.mdia.minf.stbl (compile_trak_seek stream mem trak).1
            (compile_trak_seek stream mem trak).2 ++
          table_writes trak.mdia.minf.stbl (compile_trak_seek stream mem trak).1
            (compile_trak_seek stream mem trak).2),
      apart r (time_range trak.mdia.mdhd 16 24).1 (time_range trak.mdia.mdhd 16 24).2) :
    xtts_time (compile_trak stream mvhd_scale mem trak).2.1
        (compile_trak stream mvhd_scale mem trak).2.2.mdia.minf.stbl.stts.data
        (compile_trak stream mvhd_scale mem trak).2.2.mdia.minf.stbl.stts.count =
      (compile_trak stream mvhd_scale mem trak).2.2.mdia.mdhd.duration ∧
    (compile_trak stream mvhd_scale mem trak).2.2.mdia.mdhd.duration =
      sub64 (compile_trak_seek stream mem trak).2.time
        (compile_trak_seek stream mem trak).1.time ∧
    read_xx (compile_trak stream mvhd_scale mem trak).2.1
        (time_range trak.mdia.mdhd 16 24).1 (if trak.mdia.mdhd.version ≠ 0 then 64 else 32) =
      (compile_trak stream mvhd_scale mem trak).2.2.mdia.mdhd.duration := by
  rw [compile_trak_mem stream mvhd_scale mem trak hvt,
    compile_trak_stts stream mvhd_scale mem trak hvt,
    compile_trak_mdhd stream mvhd_scale mem trak hvt]
  have tr1 : time_range (timed_mdhd stream mem trak) 16 24 = time_range trak.mdia.mdhd 16 24 :=
    rfl
  have tr2 : time_range (timed_tkhd stream mvhd_scale mem trak) 20 28 =
      time_range trak.tkhd 20 28 := rfl
  have tv : (timed_mdhd stream mem trak).version = trak.mdia.mdhd.version := rfl
  have td : (timed_mdhd stream mem trak).duration =
      sub64 (compile_trak_seek stream mem trak).2.time
        (compile_trak_seek stream mem trak).1.time := rfl
  have k4 := compile_trak_stbl_mdhd mem trak.mdia.minf.stbl (compile_trak_seek stream mem trak).1
    (compile_trak_seek stream mem trak).2 (timed_mdhd stream mem trak)
    (timed_tkhd stream mvhd_scale mem trak) (by rw [tr1]; exact hk) (by rw [tr1, tr2]; exact hw2)
  rw [tr1, tv, td] at k4
  rw [← tr1, ← tr2] at hw1
  generalize timed_mdhd stream mem trak = M at hw1 k4 ⊢
  generalize timed_tkhd stream mvhd_scale mem trak = K at hw1 k4 ⊢
  obtain ⟨a, b, hseek, h12, hre⟩ := compile_trak_seek_times stream mem trak hreq
  rw [hseek] at hw1 k4 ⊢
  dsimp only at hw1 k4 ⊢
  obtain ⟨k1, k2, k3⟩ := compile_trak_stbl_duration mem trak.mdia.minf.stbl a b d M K hv hd
    hdata hb hsmall hszb hmem hT hN hmt hms hc h1 hasc h12 hre hw1
  refine ⟨k1, rfl, ?_⟩
  rw [k4]
  have hlt : sub64 (compile_seek mem trak.mdia.minf.stbl b).time
      (compile_seek mem trak.mdia.minf.stbl a).time < 2 ^ 32 := by
    rw [sub64_of_le _ _ k2 (by omega)]
    omega
  apply Nat.mod_eq_of_lt
  split
  · exact lt_trans hlt (by norm_num)
  · exact hlt

/-- C38 (witness). On `varied_file` (`stts` = `(4, 1), (3, 2), (3, 3)`, sync
samples 1, 5 and 9) the request from 0.5 s to 1.5 s is cut at the samples 4
and 8 with the times 4 and 13; in the buffer returned by `compile_trak` the
rewritten `stts` is `(3, 2), (1, 3)`, whose sum of count * duration is 9, and
the duration field of `mdhd` holds 9. The track is the one handed on to
`compile_head`. -/
theorem compile_trak_duration_witness :
    (xtts_time (compile_trak (trak_input varied_cut_stream).1 (trak_input varied_cut_stream).2.1 (trak_input varied_cut_stream).2.2.1 (trak_input varied_cut_stream).2.2.2).2.1
        (compile_trak (trak_input varied_cut_stream).1 (trak_input varied_cut_stream).2.1 (trak_input varied_cut_stream).2.2.1 (trak_input varied_cut_stream).2.2.2).2.2.mdia.minf.stbl.stts.data
        (compile_trak (trak_input varied_cut_stream).1 (trak_input varied_cut_stream).2.1 (trak_input varied_cut_stream).2.2.1 (trak_input varied_cut_stream).2.2.2).2.2.mdia.minf.stbl.stts.count =
      (compile_trak (trak_input varied_cut_stream).1 (trak_input varied_cut_stream).2.1 (trak_input varied_cut_stream).2.2.1 (trak_input varied_cut_stream).2.2.2).2.2.mdia.mdhd.duration ∧
    (compile_trak (trak_input varied_cut_stream).1 (trak_input varied_cut_stream).2.1 (trak_input varied_cut_stream).2.2.1 (trak_input varied_cut_stream).2.2.2).2.2.mdia.mdhd.duration =
      sub64 (compile_trak_seek (trak_input varied_cut_stream).1 (trak_input varied_cut_stream).2.2.1 (trak_input varied_cut_stream).2.2.2).2.time
        (compile_trak_seek (trak_input varied_cut_stream).1 (trak_input varied_cut_stream).2.2.1 (trak_input varied_cut_stream).2.2.2).1.time ∧
    read_xx (compile_trak (trak_input varied_cut_stream).1 (trak_input varied_cut_stream).2.1 (trak_input varied_cut_stream).2.2.1 (trak_input varied_cut_stream).2.2.2).2.1
        (time_range (trak_input varied_cut_stream).2.2.2.mdia.mdhd 16 24).1
        (if (trak_input varied_cut_stream).2.2.2.mdia.mdhd.version ≠ 0 then 64 else 32) =
      (compile_trak (trak_input varied_cut_stream).1 (trak_input varied_cut_stream).2.1 (trak_input varied_cut_stream).2.2.1 (trak_input varied_cut_stream).2.2.2).2.2.mdia.mdhd.duration) ∧
    (trak_output varied_cut_stream).2.2.mdia.mdhd.duration = 9 ∧
    emitted_stts (trak_input varied_cut_stream).2.2.1
      (trak_input varied_cut_stream).2.2.2 = [(4, 1), (3, 2), (3, 3)] ∧
    emitted_stts (trak_output varied_cut_stream).2.1 (trak_output varied_cut_stream).2.2 =
      [(3, 2), (1, 3)] ∧
    (((compile_trak_seek (trak_input varied_cut_stream).1 (trak_input varied_cut_stream).2.2.1 (trak_input varied_cut_stream).2.2.2).1.stsz.index, (compile_trak_seek (trak_input varied_cut_stream).1 (trak_input varied_cut_stream).2.2.1 (trak_input varied_cut_stream).2.2.2).1.time),
     ((compile_trak_seek (trak_input varied_cut_stream).1 (trak_input varied_cut_stream).2.2.1 (trak_input varied_cut_stream).2.2.2).2.stsz.index, (compile_trak_seek (trak_input varied_cut_stream).1 (trak_input varied_cut_stream).2.2.1 (trak_input varied_cut_stream).2.2.2).2.time)) = ((4, 4), (8, 13)) ∧
    read_xx (trak_output varied_cut_stream).2.1
      (time_range (trak_input varied_cut_stream).2.2.2.mdia.mdhd 16 24).1 32 = 9 ∧
    (trak_output varied_cut_stream).2.2 =
      (head_input 20 varied_cut_stream).2.2.2.moov.vtrak ∧
    emitted_stts (relocated varied_cut_stream).1 (relocated varied_cut_stream).2.moov.vtrak =
      [(3, 2), (1, 3)] :=
  ⟨compile_trak_duration (trak_input varied_cut_stream).1 (trak_input varied_cut_stream).2.1 (trak_input varied_cut_stream).2.2.1 (trak_input varied_cut_stream).2.2.2
      ((trak_input varied_cut_stream).2.2.2.mdia.minf.stbl.stts.atom.data.getD 0)
      (by decide!) (by decide!) (by decide!) (by decide!) (by decide!) (by decide!) (by decide!)
      (by decide!) (by decide!) (by decide!) (by decide!) (by decide!) (by decide!) (by decide!)
      (by decide!) (by decide!) (by decide!) (by decide!) (by decide!),
   by decide!, by decide!, by decide!, by decide!, by decide!, by decide!, by decide!⟩

/-- C38 (counterexample). `long_time_file` has an `mdhd` box of version 1. For
the request from 0.5 s back to 0.2 s the seeks are made for the times 5 and 2;
`compile_trak` stores the media duration `2 - 5` modulo 2^64 and writes it
into the 64-bit duration field of `mdhd`, while the rewritten `stts` is the
single entry `(2^32 - 3, 1)`, whose sum of count * duration is 2^32 - 3. -/
theorem compile_trak_duration_counterexample :
    (trak_input long_time_stream).2.2.2.mdia.mdhd.version = 1 ∧
    ((compile_trak_seek (trak_input long_time_stream).1 (trak_input long_time_stream).2.2.1
        (trak_input long_time_stream).2.2.2).1.time,
     (compile_trak_seek (trak_input long_time_stream).1 (trak_input long_time_stream).2.2.1
        (trak_input long_time_stream).2.2.2).2.time) = (5, 2) ∧
    (trak_output long_time_stream).2.2.mdia.mdhd.duration = 18446744073709551613 ∧
    read_xx (trak_output long_time_stream).2.1
      (time_range (trak_input long_time_stream).2.2.2.mdia.mdhd 16 24).1 64 =
      18446744073709551613 ∧
    emitted_stts (trak_output long_time_stream).2.1 (trak_output long_time_stream).2.2 =
      [(4294967293, 1)] ∧
    xtts_time (trak_output long_time_stream).2.1
      (trak_output long_time_stream).2.2.mdia.minf.stbl.stts.data
      (trak_output long_time_stream).2.2.mdia.minf.stbl.stts.count = 4294967293 ∧
    (trak_output long_time_stream).2.2 =
      (head_input 20 long_time_stream).2.2.2.moov.strak ∧
    read_xx (head_input 20 long_time_stream).2.2.1
      (time_range (trak_input long_time_stream).2.2.2.mdia.mdhd 16 24).1 64 =
      18446744073709551613 ∧
    emitted_stts (head_input 20 long_time_stream).2.2.1
      (head_input 20 long_time_stream).2.2.2.moov.strak = [(4294967293, 1)] := by
  decide!

/-! ### The recorded child of every slot -/

theorem taken_children_hit (kinds : List Nat) (left : Nat) (c : Nat × atom_t)
    (w : List (Nat × atom_t)) (h : kinds.contains c.1 = true) :
    taken_children kinds (left + 1) (c :: w) = c :: taken_children kinds left w := by
  unfold taken_children
  rw [List.filter_cons, if_pos h, List.take_succ_cons]

theorem taken_children_miss (kinds : List Nat) (left : Nat) (c : Nat × atom_t)
    (w : List (Nat × atom_t)) (h : kinds.contains c.1 = false) :
    taken_children kinds left (c :: w) = taken_children kinds left w := by
  unfold taken_children
  rw [List.filter_cons, if_neg (by rw [h]; exact Bool.false_ne_true)]

theorem taken_children_stbl (left : Nat) (w : List (Nat × atom_t)) :
    taken_children stbl_kinds left w = first_recognised left w := rfl

theorem data_atom_parent_rewound (mem : Mem) (parent atom : atom_t) :
    rewound (data_atom mem parent atom).2.1 = rewound parent := by
  obtain ⟨a1, a2, a3, a4, a5, a6, a7, a8, a9⟩ := parent
  unfold data_atom
  dsimp only
  cases a6 with
  | none => rfl
  | some d =>
    dsimp only
    split
    · rfl
    · split
      · split
        · rfl
        · simp only [rewound]
      · simp only [rewound]

theorem parse_stbl_loop_rewound (mem : Mem) (fuel left : Nat) (stbl : stbl_t) (atom : atom_t)
    (R : stbl_t) (h : parse_stbl_loop mem fuel left stbl atom = some R) :
    rewound R.atom = rewound stbl.atom := by
  induction fuel generalizing left stbl atom with
  | zero => simp [parse_stbl_loop] at h
  | succ fuel ih =>
    rw [parse_stbl_loop_step] at h
    by_cases hc : left > 0 ∧ stbl.atom.data_position < stbl.atom.data_size
    · rw [if_pos hc] at h
      have hs := data_atom_parent_rewound mem stbl.atom atom
      split at h
      · rename_i s hq
        rw [ih _ _ _ h, stbl_assign_atom _ _ _ _ hq]
        exact hs
      · rw [ih _ _ _ h]
        exact hs
    · rw [if_neg hc] at h
      simp only [Option.some.injEq] at h
      subst h
      rfl

theorem parse_stbl_rewound (mem : Mem) (fuel : Nat) (stbl : stbl_t) (R : Nat × stbl_t)
    (h : parse_stbl mem fuel stbl = some R) : rewound R.2.atom = rewound stbl.atom := by
  unfold parse_stbl at h
  split at h
  · simp at h
  · rename_i s hl
    have hs := parse_stbl_loop_rewound mem fuel 7 _ _ _ hl
    simp only at hs
    split_ifs at h <;> simp only [Option.some.injEq] at h <;> subst h <;> exact hs

theorem parse_minf_loop_rewound (mem : Mem) (fuel left : Nat) (minf : minf_t) (atom : atom_t)
    (R : Nat × minf_t) (h : parse_minf_loop mem fuel left minf atom = some R) :
    rewound R.2.atom = rewound minf.atom := by
  induction fuel generalizing left minf atom with
  | zero => simp [parse_minf_loop] at h
  | succ fuel ih =>
    rw [parse_minf_loop] at h
    by_cases hc : left > 0 ∧ minf.atom.data_position < minf.atom.data_size
    · rw [if_pos hc] at h
      dsimp only at h
      have hs := data_atom_parent_rewound mem minf.atom atom
      by_cases h1 : (data_atom mem minf.atom atom).1 = VMHD ∨ (data_atom mem minf.atom atom).1 = SMHD
      · rw [if_pos h1] at h
        rw [ih _ _ _ h]
        exact hs
      · rw [if_neg h1] at h
        by_cases h2 : (data_atom mem minf.atom atom).1 = STBL
        · rw [if_pos h2] at h
          split at h
          · simp at h
          · rename_i rc stbl hm
            by_cases h3 : rc ≠ 0
            · rw [if_pos h3] at h
              simp only [Option.some.injEq] at h
              subst h
              exact hs
            · rw [if_neg h3] at h
              rw [ih _ _ _ h]
              exact hs
        · rw [if_neg h2] at h
          rw [ih _ _ _ h]
          exact hs
    · rw [if_neg hc] at h
      simp only [Option.some.injEq] at h
      subst h
      rfl

theorem parse_minf_rewound (mem : Mem) (fuel : Nat) (minf : minf_t) (R : Nat × minf_t)
    (h : parse_minf mem fuel minf = some R) : rewound R.2.atom = rewound minf.atom := by
  unfold parse_minf at h
  split at h
  · simp at h
  · rename_i rc t hl
    have hs := parse_minf_loop_rewound mem fuel 2 _ _ _ hl
    simp only at hs
    split_ifs at h <;> simp only [Option.some.injEq] at h <;> subst h <;> exact hs

theorem parse_mdia_loop_rewound (mem : Mem) (fuel left : Nat) (mdia : mdia_t) (atom : atom_t)
    (R : Nat × mdia_t) (h : parse_mdia_loop mem fuel left mdia atom = some R) :
    rewound R.2.atom = rewound mdia.atom := by
  induction fuel generalizing left mdia atom with
  | zero => simp [parse_mdia_loop] at h
  | succ fuel ih =>
    rw [parse_mdia_loop] at h
    by_cases hc : left > 0 ∧ mdia.atom.data_position < mdia.atom.data_size
    · rw [if_pos hc] at h
      dsimp only at h
      have hs := data_atom_parent_rewound mem mdia.atom atom
      by_cases h1 : (data_atom mem mdia.atom atom).1 = MDHD
      · rw [if_pos h1] at h
        rw [ih _ _ _ h]
        exact hs
      · rw [if_neg h1] at h
        by_cases h1b : (data_atom mem mdia.atom atom).1 = HDLR
        · rw [if_pos h1b] at h
          rw [ih _ _ _ h]
          exact hs
        · rw [if_neg h1b] at h
          by_cases h2 : (data_atom mem mdia.atom atom).1 = MINF
          · rw [if_pos h2] at h
            split at h
            · simp at h
            · rename_i rc minf hm
              by_cases h3 : rc ≠ 0
              · rw [if_pos h3] at h
                simp only [Option.some.injEq] at h
                subst h
                exact hs
              · rw [if_neg h3] at h
                rw [ih _ _ _ h]
                exact hs
          · rw [if_neg h2] at h
            rw [ih _ _ _ h]
            exact hs
    · rw [if_neg hc] at h
      simp only [Option.some.injEq] at h
      subst h
      rfl

theorem parse_mdia_rewound (mem : Mem) (fuel : Nat) (mdia : mdia_t) (R : Nat × mdia_t)
    (h : parse_mdia mem fuel mdia = some R) : rewound R.2.atom = rewound mdia.atom := by
  unfold parse_mdia at h
  split at h
  · simp at h
  · rename_i rc t hl
    have hs := parse_mdia_loop_rewound mem fuel 3 _ _ _ hl
    simp only at hs
    split_ifs at h <;> simp only [Option.some.injEq] at h <;> subst h <;> exact hs

theorem parse_trak_loop_rewound (mem : Mem) (fuel left : Nat) (trak : trak_t) (atom : atom_t)
    (R : Nat × trak_t) (h : parse_trak_loop mem fuel left trak atom = some R) :
    rewound R.2.atom = rewound trak.atom := by
  induction fuel generalizing left trak atom with
  | zero => simp [parse_trak_loop] at h
  | succ fuel ih =>
    rw [parse_trak_loop_step] at h
    by_cases hc : left > 0 ∧ trak.atom.data_position < trak.atom.data_size
    · rw [if_pos hc] at h
      have hs := data_atom_parent_rewound mem trak.atom atom
      by_cases h1 : (data_atom mem trak.atom atom).1 = TKHD
      · rw [if_pos h1] at h
        rw [ih _ _ _ h]
        exact hs
      · rw [if_neg h1] at h
        by_cases h2 : (data_atom mem trak.atom atom).1 = MDIA
        · rw [if_pos h2] at h
          split at h
          · simp at h
          · rename_i rc mdia hm
            by_cases h3 : rc ≠ 0
            · rw [if_pos h3] at h
              simp only [Option.some.injEq] at h
              subst h
              exact hs
            · rw [if_neg h3] at h
              rw [ih _ _ _ h]
              exact hs
        · rw [if_neg h2] at h
          rw [ih _ _ _ h]
          exact hs
    · rw [if_neg hc] at h
      simp only [Option.some.injEq] at h
      subst h
      rfl

theorem parse_trak_rewound (mem : Mem) (fuel : Nat) (trak : trak_t) (R : Nat × trak_t)
    (h : parse_trak mem fuel trak = some R) : rewound R.2.atom = rewound trak.atom := by
  unfold parse_trak at h
  split at h
  · simp at h
  · rename_i rc t hl
    have hs := parse_trak_loop_rewound mem fuel 2 _ _ _ hl
    simp only at hs
    split_ifs at h <;> simp only [Option.some.injEq] at h <;> subst h <;> exact hs

theorem stbl_assign_rest (s s' : stbl_t) (ty : Nat) (atom : atom_t)
    (h : stbl_assign s ty atom = some s') :
    s'.stsd.atom = (if [STSD].contains ty then atom else s.stsd.atom) ∧
    s'.ctts.atom = (if [CTTS].contains ty then atom else s.ctts.atom) ∧
    s'.stss.atom = (if [STSS].contains ty then atom else s.stss.atom) := by
  unfold stbl_assign at h
  by_cases c0 : ty = STSD
  · rw [if_pos c0] at h
    simp only [Option.some.injEq] at h
    subst h
    subst c0
    refine ⟨?_, ?_, ?_⟩ <;> first | rw [if_pos (by decide)] | rw [if_neg (by decide)]
  rw [if_neg c0] at h
  by_cases c1 : ty = STTS
  · rw [if_pos c1] at h
    simp only [Option.some.injEq] at h
    subst h
    subst c1
    refine ⟨?_, ?_, ?_⟩ <;> first | rw [if_pos (by decide)] | rw [if_neg (by decide)]
  rw [if_neg c1] at h
  by_cases c2 : ty = CTTS
  · rw [if_pos c2] at h
    simp only [Option.some.injEq] at h
    subst h
    subst c2
    refine ⟨?_, ?_, ?_⟩ <;> first | rw [if_pos (by decide)] | rw [if_neg (by decide)]
  rw [if_neg c2] at h
  by_cases c3 : ty = STSS
  · rw [if_pos c3] at h
    simp only [Option.some.injEq] at h
    subst h
    subst c3
    refine ⟨?_, ?_, ?_⟩ <;> first | rw [if_pos (by decide)] | rw [if_neg (by decide)]
  rw [if_neg c3] at h
  by_cases c4 : ty = STSC
  · rw [if_pos c4] at h
    simp only [Option.some.injEq] at h
    subst h
    subst c4
    refine ⟨?_, ?_, ?_⟩ <;> first | rw [if_pos (by decide)] | rw [if_neg (by decide)]
  rw [if_neg c4] at h
  by_cases c5 : ty = STSZ
  · rw [if_pos c5] at h
    simp only [Option.some.injEq] at h
    subst h
    subst c5
    refine ⟨?_, ?_, ?_⟩ <;> first | rw [if_pos (by decide)] | rw [if_neg (by decide)]
  rw [if_neg c5] at h
  by_cases c6 : ty = STCO
  · rw [if_pos c6] at h
    simp only [Option.some.injEq] at h
    subst h
    subst c6
    refine ⟨?_, ?_, ?_⟩ <;> first | rw [if_pos (by decide)] | rw [if_neg (by decide)]
  rw [if_neg c6] at h
  by_cases c7 : ty = CO64
  · rw [if_pos c7] at h
    simp only [Option.some.injEq] at h
    subst h
    subst c7
    refine ⟨?_, ?_, ?_⟩ <;> first | rw [if_pos (by decide)] | rw [if_neg (by decide)]
  rw [if_neg c7] at h
  simp at h

theorem stbl_fill_rest (left : Nat) (s : stbl_t) (w : List (Nat × atom_t)) :
    (stbl_fill left s w).stsd.atom = (last_of [STSD] (first_recognised left w)).getD s.stsd.atom ∧
    (stbl_fill left s w).ctts.atom = (last_of [CTTS] (first_recognised left w)).getD s.ctts.atom ∧
    (stbl_fill left s w).stss.atom =
      (last_of [STSS] (first_recognised left w)).getD s.stss.atom := by
  induction w generalizing left s with
  | nil => cases left <;> exact ⟨rfl, rfl, rfl⟩
  | cons c w ih =>
    obtain ⟨ty, atom⟩ := c
    cases left with
    | zero => exact ⟨rfl, rfl, rfl⟩
    | succ left =>
      unfold stbl_fill
      rcases stbl_assign_spec s ty atom with ⟨e, hk⟩ | ⟨s', e, hk, -, -, -, -⟩
      · rw [e, first_recognised_cons_false _ _ _ hk]
        exact ih _ _
      · obtain ⟨a1, a2, a3⟩ := stbl_assign_rest _ _ _ _ e
        rw [e, first_recognised_cons_true _ _ _ hk]
        simp only [last_of_cons]
        rw [← a1, ← a2, ← a3]
        exact ih _ _

/-- The walk of `parse_stbl`: every slot holds the last child of its type among
the children taken into account. -/
theorem parse_stbl_loop_last (mem : Mem) (fuel left : Nat) (stbl : stbl_t) (atom : atom_t)
    (w : List (Nat × atom_t)) (hw : child_walk mem fuel stbl.atom atom = some w) :
    ∃ R, parse_stbl_loop mem fuel left stbl atom = some R ∧
      R.stsd.atom = (last_of [STSD] (taken_children stbl_kinds left w)).getD stbl.stsd.atom ∧
      R.stts.atom = (last_of [STTS] (taken_children stbl_kinds left w)).getD stbl.stts.atom ∧
      R.ctts.atom = (last_of [CTTS] (taken_children stbl_kinds left w)).getD stbl.ctts.atom ∧
      R.stss.atom = (last_of [STSS] (taken_children stbl_kinds left w)).getD stbl.stss.atom ∧
      R.stsc.atom = (last_of [STSC] (taken_children stbl_kinds left w)).getD stbl.stsc.atom ∧
      R.stsz.atom = (last_of [STSZ] (taken_children stbl_kinds left w)).getD stbl.stsz.atom ∧
      R.coxx.atom =
        (last_of [STCO, CO64] (taken_children stbl_kinds left w)).getD stbl.coxx.atom := by
  obtain ⟨R, hR, s1, s2, s3, s4, s5, s6, s7⟩ := parse_stbl_loop_fill mem fuel left stbl atom w hw
  obtain ⟨f2, f5, f6, f7⟩ := stbl_fill_last left stbl w
  obtain ⟨f1, f3, f4⟩ := stbl_fill_rest left stbl w
  simp only [taken_children_stbl]
  exact ⟨R, hR, by rw [s1, f1], by rw [s2, f2], by rw [s3, f3], by rw [s4, f4], by rw [s5, f5],
    by rw [s6, f6], by rw [s7, f7]⟩

theorem last_of_taken_hit (K kinds : List Nat) (left t : Nat) (a : atom_t)
    (w : List (Nat × atom_t)) (d : atom_t) (hk : kinds.contains t = true) :
    (last_of K (taken_children kinds (left + 1) ((t, a) :: w))).getD d =
      (last_of K (taken_children kinds left w)).getD (if K.contains t then a else d) := by
  rw [taken_children_hit _ _ _ _ hk, last_of_cons]

theorem rewound_getD (o : Option atom_t) (a b : atom_t) (h : rewound a = rewound b) :
    rewound (o.getD a) = rewound (o.getD b) := by
  cases o with
  | none => exact h
  | some x => rfl

theorem last_of_absent (K L : List Nat) (w : List (Nat × atom_t)) (d : atom_t)
    (hsub : ∀ t, L.contains t = false → K.contains t = false)
    (h : (w.filter (fun c => L.contains c.1)).length ≤ 0) :
    (last_of K w).getD d = d := by
  induction w with
  | nil => rfl
  | cons c w ih =>
    rw [List.filter_cons] at h
    cases hc : L.contains c.1 with
    | true =>
      rw [hc] at h
      simp at h
    | false =>
      rw [hc] at h
      simp only [Bool.false_eq_true, if_false] at h
      rw [last_of_cons, hsub _ hc]
      simp only [Bool.false_eq_true, if_false]
      exact ih h

theorem kinds_count_hit (L : List Nat) (c : Nat × atom_t) (w : List (Nat × atom_t))
    (h : L.contains c.1 = true) :
    ((c :: w).filter (fun c => L.contains c.1)).length =
      (w.filter (fun c => L.contains c.1)).length + 1 := by
  rw [List.filter_cons, if_pos h, List.length_cons]

theorem kinds_count_miss (L : List Nat) (c : Nat × atom_t) (w : List (Nat × atom_t))
    (h : L.contains c.1 = false) :
    ((c :: w).filter (fun c => L.contains c.1)).length =
      (w.filter (fun c => L.contains c.1)).length := by
  rw [List.filter_cons, if_neg (by rw [h]; exact Bool.false_ne_true)]

/-- The walk of `parse_minf`: the header slot holds the last `vmhd` or `smhd`
child and the sample-table slot the last `stbl` child among the children taken
into account. -/
theorem parse_minf_loop_last (mem : Mem) (fuel left : Nat) (minf : minf_t) (atom : atom_t)
    (w : List (Nat × atom_t)) (R : minf_t)
    (hw : child_walk mem fuel minf.atom atom = some w)
    (h : parse_minf_loop mem fuel left minf atom = some (0, R)) :
    R.xmhd.atom =
      (last_of [VMHD, SMHD] (taken_children minf_kinds left w)).getD minf.xmhd.atom ∧
    rewound R.stbl.atom =
      rewound ((last_of [STBL] (taken_children minf_kinds left w)).getD minf.stbl.atom) := by
  induction fuel generalizing left minf atom w with
  | zero => simp [child_walk] at hw
  | succ fuel ih =>
    unfold child_walk at hw
    rw [parse_minf_loop] at h
    by_cases hp : minf.atom.data_position < minf.atom.data_size
    · rw [if_pos hp] at hw
      cases hc : child_walk mem fuel (data_atom mem minf.atom atom).2.1
          (data_atom mem minf.atom atom).2.2 with
      | none => rw [hc] at hw; simp at hw
      | some w' =>
        rw [hc] at hw
        simp only [Option.map_some', Option.some.injEq] at hw
        subst hw
        cases left with
        | zero =>
          rw [if_neg (by omega)] at h
          simp only [Option.some.injEq, Prod.mk.injEq, true_and] at h
          subst h
          exact ⟨rfl, rfl⟩
        | succ left =>
          rw [if_pos ⟨by omega, hp⟩] at h
          dsimp only at h
          simp only [Nat.add_sub_cancel] at h
          generalize data_atom mem minf.atom atom = r at h hc ⊢
          obtain ⟨ty, par, a⟩ := r
          simp only at h hc ⊢
          by_cases c1 : ty = VMHD ∨ ty = SMHD
          · rw [if_pos c1] at h
            have hk : minf_kinds.contains ty = true := by rcases c1 with rfl | rfl <;> decide
            have hK : [VMHD, SMHD].contains ty = true := by rcases c1 with rfl | rfl <;> decide
            have hS : [STBL].contains ty = false := by rcases c1 with rfl | rfl <;> decide
            rw [last_of_taken_hit [VMHD, SMHD] _ _ _ _ _ _ hk,
              last_of_taken_hit [STBL] _ _ _ _ _ _ hk, hK, hS]
            simp only [if_true, Bool.false_eq_true, if_false]
            exact ih left _ a w' hc h
          · rw [if_neg c1] at h
            by_cases c2 : ty = STBL
            · rw [if_pos c2] at h
              subst c2
              cases hq : parse_stbl mem fuel { minf.stbl with atom := a } with
              | none => rw [hq] at h; simp at h
              | some q =>
                obtain ⟨rc, stbl⟩ := q
                rw [hq] at h
                simp only at h
                by_cases c3 : rc ≠ 0
                · rw [if_pos c3] at h
                  simp at h
                · rw [if_neg c3] at h
                  have hrw := parse_stbl_rewound mem fuel _ _ hq
                  simp only at hrw
                  rw [last_of_taken_hit [VMHD, SMHD] _ _ _ _ _ _ (by decide),
                    last_of_taken_hit [STBL] _ _ _ _ _ _ (by decide),
                    if_neg (by decide), if_pos (by decide)]
                  obtain ⟨i1, i2⟩ := ih left _ a w' hc h
                  exact ⟨i1, i2.trans (rewound_getD _ _ _ hrw)⟩
            · rw [if_neg c2] at h
              have hk : minf_kinds.contains ty = false := by
                have c1a : ¬ ty = VMHD := fun e => c1 (Or.inl e)
                have c1b : ¬ ty = SMHD := fun e => c1 (Or.inr e)
                simp [minf_kinds, c1a, c1b, c2]
              rw [taken_children_miss _ _ _ _ hk]
              exact ih (left + 1) { minf with atom := par } a w' hc h
    · rw [if_neg hp] at hw
      simp only [Option.some.injEq] at hw
      subst hw
      rw [if_neg (by omega)] at h
      simp only [Option.some.injEq, Prod.mk.injEq, true_and] at h
      subst h
      cases left <;> exact ⟨rfl, rfl⟩

/-- The walk of `parse_mdia`: the slots `mdhd` and `hdlr` hold the last child
of their type and the slot `minf` the last `minf` child among the children
taken into account. -/
theorem parse_mdia_loop_last (mem : Mem) (fuel left : Nat) (mdia : mdia_t) (atom : atom_t)
    (w : List (Nat × atom_t)) (R : mdia_t)
    (hw : child_walk mem fuel mdia.atom atom = some w)
    (h : parse_mdia_loop mem fuel left mdia atom = some (0, R)) :
    R.mdhd.atom = (last_of [MDHD] (taken_children mdia_kinds left w)).getD mdia.mdhd.atom ∧
    R.hdlr.atom = (last_of [HDLR] (taken_children mdia_kinds left w)).getD mdia.hdlr.atom ∧
    rewound R.minf.atom =
      rewound ((last_of [MINF] (taken_children mdia_kinds left w)).getD mdia.minf.atom) := by
  induction fuel generalizing left mdia atom w with
  | zero => simp [child_walk] at hw
  | succ fuel ih =>
    unfold child_walk at hw
    rw [parse_mdia_loop] at h
    by_cases hp : mdia.atom.data_position < mdia.atom.data_size
    · rw [if_pos hp] at hw
      cases hc : child_walk mem fuel (data_atom mem mdia.atom atom).2.1
          (data_atom mem mdia.atom atom).2.2 with
      | none => rw [hc] at hw; simp at hw
      | some w' =>
        rw [hc] at hw
        simp only [Option.map_some', Option.some.injEq] at hw
        subst hw
        cases left with
        | zero =>
          rw [if_neg (by omega)] at h
          simp only [Option.some.injEq, Prod.mk.injEq, true_and] at h
          subst h
          exact ⟨rfl, rfl, rfl⟩
        | succ left =>
          rw [if_pos ⟨by omega, hp⟩] at h
          dsimp only at h
          simp only [Nat.add_sub_cancel] at h
          generalize data_atom mem mdia.atom atom = r at h hc ⊢
          obtain ⟨ty, par, a⟩ := r
          simp only at h hc ⊢
          by_cases c1 : ty = MDHD
          · rw [if_pos c1] at h
            subst c1
            rw [last_of_taken_hit [MDHD] _ _ _ _ _ _ (by decide),
              last_of_taken_hit [HDLR] _ _ _ _ _ _ (by decide),
              last_of_taken_hit [MINF] _ _ _ _ _ _ (by decide),
              if_pos (by decide), if_neg (by decide), if_neg (by decide)]
            exact ih left _ a w' hc h
          · rw [if_neg c1] at h
            by_cases c1b : ty = HDLR
            · rw [if_pos c1b] at h
              subst c1b
              rw [last_of_taken_hit [MDHD] _ _ _ _ _ _ (by decide),
                last_of_taken_hit [HDLR] _ _ _ _ _ _ (by decide),
                last_of_taken_hit [MINF] _ _ _ _ _ _ (by decide),
                if_neg (by decide), if_pos (by decide), if_neg (by decide)]
              exact ih left _ a w' hc h
            · rw [if_neg c1b] at h
              by_cases c2 : ty = MINF
              · rw [if_pos c2] at h
                subst c2
                cases hq : parse_minf mem fuel { mdia.minf with atom := a } with
                | none => rw [hq] at h; simp at h
                | some q =>
                  obtain ⟨rc, minf⟩ := q
                  rw [hq] at h
                  simp only at h
                  by_cases c3 : rc ≠ 0
                  · rw [if_pos c3] at h
                    simp at h
                  · rw [if_neg c3] at h
                    have hrw := parse_minf_rewound mem fuel _ _ hq
                    simp only at hrw
                    rw [last_of_taken_hit [MDHD] _ _ _ _ _ _ (by decide),
                      last_of_taken_hit [HDLR] _ _ _ _ _ _ (by decide),
                      last_of_taken_hit [MINF] _ _ _ _ _ _ (by decide),
                      if_neg (by decide), if_neg (by decide), if_pos (by decide)]
                    obtain ⟨i1, i2, i3⟩ := ih left _ a w' hc h
                    exact ⟨i1, i2, i3.trans (rewound_getD _ _ _ hrw)⟩
              · rw [if_neg c2] at h
                have hk : mdia_kinds.contains ty = false := by
                  simp [mdia_kinds, c1, c1b, c2]
                rw [taken_children_miss _ _ _ _ hk]
                exact ih (left + 1) { mdia with atom := par } a w' hc h
    · rw [if_neg hp] at hw
      simp only [Option.some.injEq] at hw
      subst hw
      rw [if_neg (by omega)] at h
      simp only [Option.some.injEq, Prod.mk.injEq, true_and] at h
      subst h
      cases left <;> exact ⟨rfl, rfl, rfl⟩

/-- The walk of `parse_trak`: the slot `tkhd` holds the last `tkhd` child and
the slot `mdia` the last `mdia` child among the children taken into account. -/
theorem parse_trak_loop_last (mem : Mem) (fuel left : Nat) (trak : trak_t) (atom : atom_t)
    (w : List (Nat × atom_t)) (R : trak_t)
    (hw : child_walk mem fuel trak.atom atom = some w)
    (h : parse_trak_loop mem fuel left trak atom = some (0, R)) :
    R.tkhd.atom = (last_of [TKHD] (taken_children trak_kinds left w)).getD trak.tkhd.atom ∧
    rewound R.mdia.atom =
      rewound ((last_of [MDIA] (taken_children trak_kinds left w)).getD trak.mdia.atom) := by
  induction fuel generalizing left trak atom w with
  | zero => simp [child_walk] at hw
  | succ fuel ih =>
    unfold child_walk at hw
    rw [parse_trak_loop_step] at h
    by_cases hp : trak.atom.data_position < trak.atom.data_size
    · rw [if_pos hp] at hw
      cases hc : child_walk mem fuel (data_atom mem trak.atom atom).2.1
          (data_atom mem trak.atom atom).2.2 with
      | none => rw [hc] at hw; simp at hw
      | some w' =>
        rw [hc] at hw
        simp only [Option.map_some', Option.some.injEq] at hw
        subst hw
        cases left with
        | zero =>
          rw [if_neg (by omega)] at h
          simp only [Option.some.injEq, Prod.mk.injEq, true_and] at h
          subst h
          exact ⟨rfl, rfl⟩
        | succ left =>
          rw [if_pos ⟨by omega, hp⟩] at h
          simp only [Nat.add_sub_cancel] at h
          generalize data_atom mem trak.atom atom = r at h hc ⊢
          obtain ⟨ty, par, a⟩ := r
          simp only at h hc ⊢
          by_cases c1 : ty = TKHD
          · rw [if_pos c1] at h
            subst c1
            rw [last_of_taken_hit [TKHD] _ _ _ _ _ _ (by decide),
              last_of_taken_hit [MDIA] _ _ _ _ _ _ (by decide),
              if_pos (by decide), if_neg (by decide)]
            exact ih left _ a w' hc h
          · rw [if_neg c1] at h
            by_cases c2 : ty = MDIA
            · rw [if_pos c2] at h
              subst c2
              cases hq : parse_mdia mem fuel { trak.mdia with atom := a } with
              | none => rw [hq] at h; simp at h
              | some q =>
                obtain ⟨rc, mdia⟩ := q
                rw [hq] at h
                simp only at h
                by_cases c3 : rc ≠ 0
                · rw [if_pos c3] at h
                  simp at h
                · rw [if_neg c3] at h
                  have hrw := parse_mdia_rewound mem fuel _ _ hq
                  simp only at hrw
                  rw [last_of_taken_hit [TKHD] _ _ _ _ _ _ (by decide),
                    last_of_taken_hit [MDIA] _ _ _ _ _ _ (by decide),
                    if_neg (by decide), if_pos (by decide)]
                  obtain ⟨i1, i2⟩ := ih left _ a w' hc h
                  exact ⟨i1, i2.trans (rewound_getD _ _ _ hrw)⟩
            · rw [if_neg c2] at h
              have hk : trak_kinds.contains ty = false := by
                simp [trak_kinds, c1, c2]
              rw [taken_children_miss _ _ _ _ hk]
              exact ih (left + 1) { trak with atom := par } a w' hc h
    · rw [if_neg hp] at hw
      simp only [Option.some.injEq] at hw
      subst hw
      rw [if_neg (by omega)] at h
      simp only [Option.some.injEq, Prod.mk.injEq, true_and] at h
      subst h
      cases left <;> exact ⟨rfl, rfl⟩

/-- The walk of `parse_moov`: as long as the budget covers the `mvhd` and
`trak` children, the slot `mvhd` holds the last `mvhd` child; a track slot that
is filled keeps its track. -/
theorem parse_moov_loop_last (mem : Mem) (fuel left : Nat) (moov : moov_t) (atom : atom_t)
    (w : List (Nat × atom_t)) (R : moov_t)
    (hw : child_walk mem fuel moov.atom atom = some w)
    (h : parse_moov_loop mem fuel left moov atom = some (0, R)) :
    ((w.filter (fun c => [MVHD, TRAK].contains c.1)).length ≤ left →
      R.mvhd.atom = (last_of [MVHD] w).getD moov.mvhd.atom) ∧
    (VOID moov.vtrak.atom = false → R.vtrak = moov.vtrak) ∧
    (VOID moov.strak.atom = false → R.strak = moov.strak) := by
  induction fuel generalizing left moov atom w with
  | zero => simp [child_walk] at hw
  | succ fuel ih =>
    unfold child_walk at hw
    rw [parse_moov_loop_step] at h
    by_cases hp : moov.atom.data_position < moov.atom.data_size
    · rw [if_pos hp] at hw
      cases hc : child_walk mem fuel (data_atom mem moov.atom atom).2.1
          (data_atom mem moov.atom atom).2.2 with
      | none => rw [hc] at hw; simp at hw
      | some w' =>
        rw [hc] at hw
        simp only [Option.map_some', Option.some.injEq] at hw
        subst hw
        cases left with
        | zero =>
          rw [if_neg (by omega)] at h
          simp only [Option.some.injEq, Prod.mk.injEq, true_and] at h
          subst h
          refine ⟨fun hb => ?_, fun _ => rfl, fun _ => rfl⟩
          exact (last_of_absent [MVHD] [MVHD, TRAK] _ _
            (fun t ht => by
              cases hm : [MVHD].contains t with
              | false => rfl
              | true =>
                have e : t = MVHD := by simpa using hm
                subst e
                simp at ht) hb).symm
        | succ left =>
          rw [if_pos ⟨by omega, hp⟩] at h
          simp only [Nat.add_sub_cancel] at h
          generalize data_atom mem moov.atom atom = r at h hc ⊢
          obtain ⟨ty, par, a⟩ := r
          simp only at h hc ⊢
          by_cases c1 : ty = MVHD
          · rw [if_pos c1] at h
            subst c1
            obtain ⟨i1, i2, i3⟩ := ih left _ a w' hc h
            refine ⟨fun hb => ?_, i2, i3⟩
            rw [kinds_count_hit _ _ _ (by show [MVHD, TRAK].contains MVHD = true; decide)] at hb
            rw [last_of_cons, if_pos (by show [MVHD].contains MVHD = true; decide)]
            exact i1 (by omega)
          · rw [if_neg c1] at h
            by_cases c2 : ty = TRAK
            · rw [if_pos c2] at h
              subst c2
              have hcnt : ∀ n, ((((TRAK, a) : Nat × atom_t) :: w').filter
                  (fun c => [MVHD, TRAK].contains c.1)).length ≤ left + 1 →
                  left ≤ n → (w'.filter (fun c => [MVHD, TRAK].contains c.1)).length ≤ n := by
                intro n hb hn
                rw [kinds_count_hit _ _ _ (by show [MVHD, TRAK].contains TRAK = true; decide)] at hb
                omega
              have hlast : (last_of [MVHD] (((TRAK, a) : Nat × atom_t) :: w')).getD
                  moov.mvhd.atom = (last_of [MVHD] w').getD moov.mvhd.atom := by
                rw [last_of_cons, if_neg (by show ¬ [MVHD].contains TRAK = true; decide)]
              rw [hlast]
              cases hq : parse_trak mem fuel { atom := a } with
              | none => rw [hq] at h; simp at h
              | some q =>
                obtain ⟨rc, trak⟩ := q
                rw [hq] at h
                simp only at h
                by_cases c3 : rc ≠ 0
                · rw [if_pos c3] at h
                  simp at h
                · rw [if_neg c3] at h
                  by_cases c4 : trak.tkhd.flags &&& 1 = 0
                  · rw [if_pos c4] at h
                    obtain ⟨i1, i2, i3⟩ := ih (left + 1) _ a w' hc h
                    exact ⟨fun hb => i1 (hcnt _ hb (by omega)), i2, i3⟩
                  · rw [if_neg c4] at h
                    by_cases c5 : trak.mdia.minf.xmhd.atom.type = VMHD
                    · rw [if_pos c5] at h
                      by_cases hv : VOID moov.vtrak.atom = true
                      · rw [if_pos hv] at h
                        obtain ⟨i1, i2, i3⟩ := ih left _ a w' hc h
                        exact ⟨fun hb => i1 (hcnt _ hb (by omega)),
                          fun hh => by rw [hv] at hh; simp at hh, i3⟩
                      · rw [if_neg hv] at h
                        obtain ⟨i1, i2, i3⟩ := ih (left + 1) _ a w' hc h
                        exact ⟨fun hb => i1 (hcnt _ hb (by omega)), i2, i3⟩
                    · rw [if_neg c5] at h
                      by_cases c6 : trak.mdia.minf.xmhd.atom.type = SMHD
                      · rw [if_pos c6] at h
                        by_cases hs : VOID moov.strak.atom = true
                        · rw [if_pos hs] at h
                          obtain ⟨i1, i2, i3⟩ := ih left _ a w' hc h
                          exact ⟨fun hb => i1 (hcnt _ hb (by omega)), i2,
                            fun hh => by rw [hs] at hh; simp at hh⟩
                        · rw [if_neg hs] at h
                          obtain ⟨i1, i2, i3⟩ := ih (left + 1) _ a w' hc h
                          exact ⟨fun hb => i1 (hcnt _ hb (by omega)), i2, i3⟩
                      · rw [if_neg c6] at h
                        obtain ⟨i1, i2, i3⟩ := ih (left + 1) _ a w' hc h
                        exact ⟨fun hb => i1 (hcnt _ hb (by omega)), i2, i3⟩
            · rw [if_neg c2] at h
              by_cases c7 : ty = CMOV
              · rw [if_pos c7] at h
                simp at h
              · rw [if_neg c7] at h
                have hk : [MVHD, TRAK].contains ty = false := by simp [c1, c2]
                have hk1 : [MVHD].contains ty = false := by simp [c1]
                obtain ⟨i1, i2, i3⟩ := ih (left + 1) _ a w' hc h
                refine ⟨fun hb => ?_, i2, i3⟩
                rw [kinds_count_miss _ _ _ hk] at hb
                rw [last_of_cons, hk1]
                exact i1 hb
    · rw [if_neg hp] at hw
      simp only [Option.some.injEq] at hw
      subst hw
      rw [if_neg (by omega)] at h
      simp only [Option.some.injEq, Prod.mk.injEq, true_and] at h
      subst h
      exact ⟨fun _ => rfl, fun _ => rfl, fun _ => rfl⟩

theorem some_of_getD {α : Type} (o : Option (Nat × α)) (d : Nat × α) (h1 : o.isSome = true)
    (h2 : (o.getD d).1 = 0) : o = some (0, (o.getD d).2) := by
  cases o with
  | none => simp at h1
  | some p =>
    obtain ⟨x, y⟩ := p
    simp only [Option.getD_some] at h2 ⊢
    rw [h2]

/-- C33 (amended). What the nested walks do with repeated children, for a walk
whose list of children is `w`. In `parse_stbl`, `parse_minf`, `parse_mdia` and
`parse_trak` a child of a recognised type is stored in its slot whether or not
the slot is filled, and uses up one unit of the budget `left` (7, 2, 3 and 2
when the walk starts): when the walk ends without a failure of a nested walk,
every slot (`stsd`, `stts`, `ctts`, `stss`, `stsc`, `stsz`, `stco`/`co64`;
`vmhd`/`smhd`, `stbl`; `mdhd`, `hdlr`, `minf`; `tkhd`, `mdia`) holds the last
child of its type among the first `left` recognised children, and its old
content when there is none; for a nested container the slot is that box with
the read cursor moved by the nested walk. In `parse_moov` the slot `mvhd` holds
the last `mvhd` child as long as the budget covers the `mvhd` and `trak`
children, whereas a track slot that is filled keeps its track: only there the
first occurrence is the one recorded. -/
theorem nested_walks_duplicates (mem : Mem) (fuel left : Nat) (atom : atom_t)
    (w : List (Nat × atom_t)) :
    (∀ stbl : stbl_t, child_walk mem fuel stbl.atom atom = some w →
      ∃ R, parse_stbl_loop mem fuel left stbl atom = some R ∧
        R.stsd.atom = (last_of [STSD] (taken_children stbl_kinds left w)).getD stbl.stsd.atom ∧
        R.stts.atom = (last_of [STTS] (taken_children stbl_kinds left w)).getD stbl.stts.atom ∧
        R.ctts.atom = (last_of [CTTS] (taken_children stbl_kinds left w)).getD stbl.ctts.atom ∧
        R.stss.atom = (last_of [STSS] (taken_children stbl_kinds left w)).getD stbl.stss.atom ∧
        R.stsc.atom = (last_of [STSC] (taken_children stbl_kinds left w)).getD stbl.stsc.atom ∧
        R.stsz.atom = (last_of [STSZ] (taken_children stbl_kinds left w)).getD stbl.stsz.atom ∧
        R.coxx.atom =
          (last_of [STCO, CO64] (taken_children stbl_kinds left w)).getD stbl.coxx.atom) ∧
    (∀ minf R : minf_t, child_walk mem fuel minf.atom atom = some w →
      parse_minf_loop mem fuel left minf atom = some (0, R) →
      R.xmhd.atom =
        (last_of [VMHD, SMHD] (taken_children minf_kinds left w)).getD minf.xmhd.atom ∧
      rewound R.stbl.atom =
        rewound ((last_of [STBL] (taken_children minf_kinds left w)).getD minf.stbl.atom)) ∧
    (∀ mdia R : mdia_t, child_walk mem fuel mdia.atom atom = some w →
      parse_mdia_loop mem fuel left mdia atom = some (0, R) →
      R.mdhd.atom = (last_of [MDHD] (taken_children mdia_kinds left w)).getD mdia.mdhd.atom ∧
      R.hdlr.atom = (last_of [HDLR] (taken_children mdia_kinds left w)).getD mdia.hdlr.atom ∧
      rewound R.minf.atom =
        rewound ((last_of [MINF] (taken_children mdia_kinds left w)).getD mdia.minf.atom)) ∧
    (∀ trak R : trak_t, child_walk mem fuel trak.atom atom = some w →
      parse_trak_loop mem fuel left trak atom = some (0, R) →
      R.tkhd.atom = (last_of [TKHD] (taken_children trak_kinds left w)).getD trak.tkhd.atom ∧
      rewound R.mdia.atom =
        rewound ((last_of [MDIA] (taken_children trak_kinds left w)).getD trak.mdia.atom)) ∧
    (∀ moov R : moov_t, child_walk mem fuel moov.atom atom = some w →
      parse_moov_loop mem fuel left moov atom = some (0, R) →
      ((w.filter (fun c => [MVHD, TRAK].contains c.1)).length ≤ left →
        R.mvhd.atom = (last_of [MVHD] w).getD moov.mvhd.atom) ∧
      (VOID moov.vtrak.atom = false → R.vtrak = moov.vtrak) ∧
      (VOID moov.strak.atom = false → R.strak = moov.strak)) :=
  ⟨fun stbl hw => parse_stbl_loop_last mem fuel left stbl atom w hw,
   fun minf R hw h => parse_minf_loop_last mem fuel left minf atom w R hw h,
   fun mdia R hw h => parse_mdia_loop_last mem fuel left mdia atom w R hw h,
   fun trak R hw h => parse_trak_loop_last mem fuel left trak atom w R hw h,
   fun moov R hw h => parse_moov_loop_last mem fuel left moov atom w R hw h⟩

/-- C33 (witness). The walks over boxes with repeated children. In
`twin_stts_mem` the `stbl` holds `stts`, `stts`, `stsc`, `stsz`, `stco`, and
the walk records the second `stts` (at 24). A `minf` with `vmhd` and `smhd`
ends with the `smhd` (at 8) in the header slot, an `mdia` with `mdhd`, `mdhd`,
`hdlr` with the second `mdhd` (at 8), a `trak` with two `tkhd` with the second
(at 8), a `moov` with two `mvhd` with the second (at 8). The first track of
`twin_video_mem` holds `tkhd` and `mdia`: the slot `mdia` is that box (at 208)
with the cursor at 209 after the nested walk. From `twin_video_state`, where a
video track of duration 10 is kept, the walk of `parse_moov` meets the second
enabled video track and keeps the first. -/
theorem nested_walks_duplicates_witness :
    ((twin_stts_walk.map (fun c => (c.1, c.2.start)) =
        [(STTS, 0), (STTS, 24), (STSC, 56), (STSZ, 84), (STCO, 104)] ∧
      (parse_stbl_loop twin_stts_mem 20 7 twin_stts_stbl {}).map
        (fun R => (R.stts.atom.start, R.stsc.atom.start, R.stsz.atom.start,
          R.coxx.atom.start)) = some (24, 56, 84, 104)) ∧
     ∃ R, parse_stbl_loop twin_stts_mem 20 7 twin_stts_stbl {} = some R ∧
      R.stsd.atom =
        (last_of [STSD] (taken_children stbl_kinds 7 twin_stts_walk)).getD
          twin_stts_stbl.stsd.atom ∧
      R.stts.atom =
        (last_of [STTS] (taken_children stbl_kinds 7 twin_stts_walk)).getD
          twin_stts_stbl.stts.atom ∧
      R.ctts.atom =
        (last_of [CTTS] (taken_children stbl_kinds 7 twin_stts_walk)).getD
          twin_stts_stbl.ctts.atom ∧
      R.stss.atom =
        (last_of [STSS] (taken_children stbl_kinds 7 twin_stts_walk)).getD
          twin_stts_stbl.stss.atom ∧
      R.stsc.atom =
        (last_of [STSC] (taken_children stbl_kinds 7 twin_stts_walk)).getD
          twin_stts_stbl.stsc.atom ∧
      R.stsz.atom =
        (last_of [STSZ] (taken_children stbl_kinds 7 twin_stts_walk)).getD
          twin_stts_stbl.stsz.atom ∧
      R.coxx.atom =
        (last_of [STCO, CO64] (taken_children stbl_kinds 7 twin_stts_walk)).getD
          twin_stts_stbl.coxx.atom) ∧
    ((twin_xmhd_walk.map (fun c => (c.1, c.2.start)) = [(VMHD, 0), (SMHD, 8)] ∧
      twin_xmhd_walked.xmhd.atom.type = SMHD ∧ twin_xmhd_walked.xmhd.atom.start = 8) ∧
     twin_xmhd_walked.xmhd.atom =
        (last_of [VMHD, SMHD] (taken_children minf_kinds 2 twin_xmhd_walk)).getD
          twin_xmhd_minf.xmhd.atom ∧
      rewound twin_xmhd_walked.stbl.atom =
        rewound ((last_of [STBL] (taken_children minf_kinds 2 twin_xmhd_walk)).getD
          twin_xmhd_minf.stbl.atom)) ∧
    ((twin_mdhd_walk.map (fun c => (c.1, c.2.start)) = [(MDHD, 0), (MDHD, 8), (HDLR, 16)] ∧
      twin_mdhd_walked.mdhd.atom.start = 8 ∧ twin_mdhd_walked.hdlr.atom.start = 16) ∧
     twin_mdhd_walked.mdhd.atom =
        (last_of [MDHD] (taken_children mdia_kinds 3 twin_mdhd_walk)).getD
          twin_mdhd_mdia.mdhd.atom ∧
      twin_mdhd_walked.hdlr.atom =
        (last_of [HDLR] (taken_children mdia_kinds 3 twin_mdhd_walk)).getD
          twin_mdhd_mdia.hdlr.atom ∧
      rewound twin_mdhd_walked.minf.atom =
        rewound ((last_of [MINF] (taken_children mdia_kinds 3 twin_mdhd_walk)).getD
          twin_mdhd_mdia.minf.atom)) ∧
    ((twin_tkhd_walk.map (fun c => (c.1, c.2.start)) = [(TKHD, 0), (TKHD, 8)] ∧
      twin_tkhd_walked.tkhd.atom.start = 8) ∧
     twin_tkhd_walked.tkhd.atom =
        (last_of [TKHD] (taken_children trak_kinds 2 twin_tkhd_walk)).getD
          twin_tkhd_trak.tkhd.atom ∧
      rewound twin_tkhd_walked.mdia.atom =
        rewound ((last_of [MDIA] (taken_children trak_kinds 2 twin_tkhd_walk)).getD
          twin_tkhd_trak.mdia.atom)) ∧
    ((twin_video_walk.map (fun c => (c.1, c.2.start)) = [(TKHD, 116), (MDIA, 208)] ∧
      twin_video_walked.tkhd.atom.start = 116 ∧ twin_video_walked.mdia.atom.start = 208 ∧
      twin_video_walked.mdia.atom.data_position = 209) ∧
     twin_video_walked.tkhd.atom =
        (last_of [TKHD] (taken_children trak_kinds 2 twin_video_walk)).getD
          twin_video_trak.tkhd.atom ∧
      rewound twin_video_walked.mdia.atom =
        rewound ((last_of [MDIA] (taken_children trak_kinds 2 twin_video_walk)).getD
          twin_video_trak.mdia.atom)) ∧
    ((twin_mvhd_walk.map (fun c => (c.1, c.2.start)) = [(MVHD, 0), (MVHD, 8)] ∧
      (twin_mvhd_walk.filter (fun c => [MVHD, TRAK].contains c.1)).length ≤ 3 ∧
      twin_mvhd_walked.mvhd.atom.start = 8) ∧
     twin_mvhd_walked.mvhd.atom =
        (last_of [MVHD] twin_mvhd_walk).getD twin_mvhd_moov.mvhd.atom) ∧
    ((twin_video_rest.map (fun c => (c.1, c.2.start)) = [(TRAK, 425)] ∧
      VOID twin_video_state.vtrak.atom = false ∧
      twin_video_state.vtrak.tkhd.duration = 10 ∧ twin_video_second.tkhd.duration = 20 ∧
      twin_video_second.tkhd.flags &&& 1 ≠ 0 ∧
      twin_video_second.mdia.minf.xmhd.atom.type = VMHD) ∧
     twin_video_kept.vtrak = twin_video_state.vtrak) :=
  ⟨⟨by decide!,
    (nested_walks_duplicates twin_stts_mem 20 7 {} twin_stts_walk).1 twin_stts_stbl
      (getD_eq_some _ _ (by decide!))⟩,
   ⟨by decide!,
    (nested_walks_duplicates twin_xmhd_mem 5 2 {} twin_xmhd_walk).2.1 twin_xmhd_minf
      twin_xmhd_walked (getD_eq_some _ _ (by decide!))
      (some_of_getD _ _ (by decide!) (by decide!))⟩,
   ⟨by decide!,
    (nested_walks_duplicates twin_mdhd_mem 5 3 {} twin_mdhd_walk).2.2.1 twin_mdhd_mdia
      twin_mdhd_walked (getD_eq_some _ _ (by decide!))
      (some_of_getD _ _ (by decide!) (by decide!))⟩,
   ⟨by decide!,
    (nested_walks_duplicates twin_tkhd_mem 5 2 {} twin_tkhd_walk).2.2.2.1 twin_tkhd_trak
      twin_tkhd_walked (getD_eq_some _ _ (by decide!))
      (some_of_getD _ _ (by decide!) (by decide!))⟩,
   ⟨by decide!,
    (nested_walks_duplicates twin_video_mem 18 2 {} twin_video_walk).2.2.2.1 twin_video_trak
      twin_video_walked (getD_eq_some _ _ (by decide!))
      (some_of_getD _ _ (by decide!) (by decide!))⟩,
   ⟨by decide!,
    ((nested_walks_duplicates twin_mvhd_mem 5 3 {} twin_mvhd_walk).2.2.2.2 twin_mvhd_moov
      twin_mvhd_walked (getD_eq_some _ _ (by decide!))
      (some_of_getD _ _ (by decide!) (by decide!))).1 (by decide!)⟩,
   ⟨by decide!,
    ((nested_walks_duplicates twin_video_mem 19 1 {} twin_video_rest).2.2.2.2 twin_video_state
      twin_video_kept (getD_eq_some _ _ (by decide!))
      (some_of_getD _ _ (by decide!) (by decide!))).2.1 (by decide!)⟩⟩

/-! ### Chunk offsets inside the emitted payload -/

theorem sizes_before_shift (mem : Mem) (stbl : stbl_t) (t o : Nat) :
    sizes_before mem stbl (t + o) o =
      ((List.range o).map (fun k => sample_size mem stbl (t + k))).sum := by
  unfold sizes_before
  simp only [Nat.add_sub_cancel]

theorem sizes_before_snoc (mem : Mem) (stbl : stbl_t) (t o : Nat) :
    sizes_before mem stbl (t + (o + 1)) (o + 1) =
      sizes_before mem stbl (t + o) o + sample_size mem stbl (t + o) := by
  rw [sizes_before_shift, sizes_before_shift, List.range_succ, List.map_append, List.sum_append]
  simp

theorem sizes_before_prefix (mem : Mem) (stbl : stbl_t) (t o n : Nat) (h : o ≤ n) :
    sizes_before mem stbl (t + o) o ≤ sizes_before mem stbl (t + n) n := by
  induction n with
  | zero =>
    have : o = 0 := by omega
    subst this
    exact le_refl _
  | succ n ih =>
    by_cases e : o = n + 1
    · subst e
      exact le_refl _
    · rw [sizes_before_snoc]
      have := ih (by omega)
      omega

theorem sizes_before_pos (mem : Mem) (stbl : stbl_t) (t o : Nat) (ho : 0 < o)
    (hp : 0 < sample_size mem stbl (t + (o - 1))) : 0 < sizes_before mem stbl (t + o) o := by
  obtain ⟨n, rfl⟩ : ∃ n, o = n + 1 := ⟨o - 1, by omega⟩
  rw [sizes_before_snoc]
  simp only [Nat.add_sub_cancel] at hp
  omega

/-- The `stsc` look-up loop runs through the whole table when the target
sample is not below the number of samples that the table describes. -/
theorem seek_stsc_loop_end (mem : Mem) (stbl : stbl_t) (sample : Nat)
    (hcnt : stbl.stsc.count < 2 ^ 32)
    (hfirst : stsc_first mem stbl 0 = 1)
    (hasc : ∀ i, i < stbl.stsc.count - 1 → stsc_first mem stbl i ≤ stsc_first mem stbl (i + 1))
    (hlast : stsc_first mem stbl (stbl.stsc.count - 1) ≤ stbl.max_chunks + 1)
    (hmc : stbl.max_chunks < 2 ^ 32)
    (htot : stsc_total (stsc_entries mem stbl) stbl.max_chunks < 2 ^ 32)
    (hs : stsc_total (stsc_entries mem stbl) stbl.max_chunks ≤ sample) (k : Nat) :
    ∀ i c0, i + k = stbl.stsc.count →
      seek_stsc_loop mem stbl sample k i (stsc_bound mem stbl i) c0
        (stsc_total (stsc_entries mem stbl) (stsc_bound mem stbl i)) =
      (stbl.stsc.count, stbl.max_chunks, (if k = 0 then c0 else 1),
        stsc_total (stsc_entries mem stbl) stbl.max_chunks) := by
  induction k with
  | zero =>
    intro i c0 hik
    have hi : i = stbl.stsc.count := by omega
    have hb : stsc_bound mem stbl i = stbl.max_chunks := by
      unfold stsc_bound
      rw [if_pos hi]
    rw [hb, hi]
    rfl
  | succ k ih =>
    intro i c0 hik
    have hi : i < stbl.stsc.count := by omega
    obtain ⟨hb1, hb2⟩ := stsc_bound_step mem stbl hasc hlast i hi
    have hsum := stsc_total_const (stsc_entries mem stbl) (stsc_bound mem stbl i)
      (stsc_spc mem stbl i) (stsc_bound mem stbl (i + 1) - stsc_bound mem stbl i)
      (fun j h1 h2 => stsc_chunk_samples mem stbl hfirst hasc i j hi h1 (by omega))
    have e0 : stsc_bound mem stbl i +
        (stsc_bound mem stbl (i + 1) - stsc_bound mem stbl i) = stsc_bound mem stbl (i + 1) := by
      omega
    rw [e0] at hsum
    have hmono := stsc_total_mono (stsc_entries mem stbl) (stsc_bound mem stbl (i + 1))
      stbl.max_chunks hb2
    have hd : (if i = sub32 stbl.stsc.count 1 then w32 stbl.max_chunks
        else sub32 (read_32 mem (stbl.stsc.data + 12 * i + 12)) 1) =
        stsc_bound mem stbl (i + 1) := by
      rw [sub32_of_le _ _ (by omega) hcnt]
      by_cases h : i = stbl.stsc.count - 1
      · rw [if_pos h, w32_of_lt _ hmc]
        unfold stsc_bound
        rw [if_pos (by omega)]
      · rw [if_neg h]
        have hp : 1 ≤ stsc_first mem stbl (i + 1) := by
          have := stsc_first_mono mem stbl hasc 0 (i + 1) (Nat.zero_le _) (by omega)
          omega
        have e : stbl.stsc.data + 12 * i + 12 = stbl.stsc.data + 12 * (i + 1) := by ring
        rw [e]
        unfold stsc_bound
        rw [if_neg (by omega)]
        exact sub32_of_le _ _ hp (read_32_lt _ _)
    rw [seek_stsc_loop]
    rw [hd, sub32_of_le _ _ hb1 (by omega)]
    have eC : read_32 mem (stbl.stsc.data + 12 * i + 4) = stsc_spc mem stbl i := rfl
    rw [eC]
    have hk1 : (if k + 1 = 0 then c0 else 1) = 1 := by rw [if_neg (by omega)]
    rw [hk1]
    have hih := ih (i + 1) 1 (by omega)
    have hk2 : (if k = 0 then 1 else 1) = 1 := by split <;> rfl
    rw [hk2] at hih
    generalize hu : stsc_bound mem stbl (i + 1) - stsc_bound mem stbl i = u at *
    generalize hN : stsc_total (stsc_entries mem stbl) (stsc_bound mem stbl i) = n at *
    generalize hN1 : stsc_total (stsc_entries mem stbl) (stsc_bound mem stbl (i + 1)) = n1 at *
    generalize hP : u * stsc_spc mem stbl i = p at *
    rw [w32_of_lt p (by omega), w32_of_lt (n + p) (by omega)]
    rw [if_neg (by omega)]
    have e1 : w32 (stsc_bound mem stbl i + u) = stsc_bound mem stbl (i + 1) := by
      rw [w32_of_lt _ (by omega)]
      omega
    rw [e1, ← hsum]
    exact hih

/-- At the end of the samples that a well-formed `stsc` describes, `seek_stsc`
returns the chunk count, no sample inside the chunk, and the end of the
data. -/
theorem seek_stsc_end (mem : Mem) (stbl : stbl_t) (seek : seek_t) (c : Nat)
    (hcount : 0 < stbl.stsc.count) (hcnt : stbl.stsc.count < 2 ^ 32)
    (hfirst : stsc_first mem stbl 0 = 1)
    (hasc : ∀ i, i < stbl.stsc.count - 1 → stsc_first mem stbl i ≤ stsc_first mem stbl (i + 1))
    (hlast : stsc_first mem stbl (stbl.stsc.count - 1) ≤ stbl.max_chunks + 1)
    (hmc : stbl.max_chunks < 2 ^ 32)
    (htot : stsc_total (stsc_entries mem stbl) stbl.max_chunks < 2 ^ 32)
    (hs : seek.stsz.index = stsc_total (stsc_entries mem stbl) stbl.max_chunks)
    (hmo : stbl.max_offset < 2 ^ 64) :
    (seek_stsc mem stbl seek c).coxx = { index := stbl.max_chunks, offset := 0 } ∧
    (seek_stsc mem stbl seek c).offset = stbl.max_offset := by
  have hb0 : stsc_bound mem stbl 0 = 0 := by
    unfold stsc_bound
    rw [if_neg (by omega), hfirst]
  have ht0 : stsc_total (stsc_entries mem stbl) 0 = 0 := rfl
  have hl := seek_stsc_loop_end mem stbl seek.stsz.index hcnt hfirst hasc hlast hmc htot
    (by omega) stbl.stsc.count 0 c (by omega)
  rw [hb0, ht0, if_neg (by omega)] at hl
  unfold seek_stsc
  rw [hl]
  dsimp only
  rw [← hs, sub32_self]
  simp only [Nat.zero_div, Nat.zero_mod, Nat.add_zero, Nat.zero_mul]
  rw [w32_of_lt _ hmc, if_neg (Nat.lt_irrefl stbl.max_chunks)]
  refine ⟨rfl, ?_⟩
  split
  · have : w32 0 = 0 := rfl
    rw [this, Nat.add_zero, w64_of_lt _ hmo]
  · rfl

theorem compile_seek_in_table (mem : Mem) (stbl : stbl_t) (seek : seek_t)
    (hcount : 0 < stbl.stsc.count) (hcnt : stbl.stsc.count < 2 ^ 32)
    (hfirst : stsc_first mem stbl 0 = 1)
    (hasc : ∀ i, i < stbl.stsc.count - 1 → stsc_first mem stbl i ≤ stsc_first mem stbl (i + 1))
    (hlast : stsc_first mem stbl (stbl.stsc.count - 1) ≤ stbl.max_chunks + 1)
    (hmc : stbl.max_chunks < 2 ^ 32)
    (htot : stsc_total (stsc_entries mem stbl) stbl.max_chunks < 2 ^ 32)
    (hs : (compile_seek mem stbl seek).stsz.index <
      stsc_total (stsc_entries mem stbl) stbl.max_chunks) :
    stsc_total (stsc_entries mem stbl) (compile_seek mem stbl seek).coxx.index +
      (compile_seek mem stbl seek).coxx.offset = (compile_seek mem stbl seek).stsz.index ∧
    (compile_seek mem stbl seek).coxx.offset <
      chunk_samples (stsc_entries mem stbl) ((compile_seek mem stbl seek).coxx.index + 1) ∧
    (compile_seek mem stbl seek).coxx.index < stbl.max_chunks := by
  have e : compile_seek mem stbl seek =
      seek_stsc mem stbl
        (seek_ctts mem stbl (seek_stss mem stbl (seek_stts mem stbl seek).1)
          (seek_stts mem stbl seek).2).1
        (seek_ctts mem stbl (seek_stss mem stbl (seek_stts mem stbl seek).1)
          (seek_stts mem stbl seek).2).2 := rfl
  rw [e] at hs ⊢
  generalize (seek_ctts mem stbl (seek_stss mem stbl (seek_stts mem stbl seek).1)
    (seek_stts mem stbl seek).2) = X at hs ⊢
  have e2 : (seek_stsc mem stbl X.1 X.2).stsz.index = X.1.stsz.index := by
    rw [(seek_stsc_coxx mem stbl X.1 X.2).2]
  rw [e2] at hs ⊢
  exact seek_stsc_chunk mem stbl X.1 X.2 hcount hcnt hfirst hasc hlast hmc htot hs

theorem compile_seek_end (mem : Mem) (stbl : stbl_t) (seek : seek_t)
    (hcount : 0 < stbl.stsc.count) (hcnt : stbl.stsc.count < 2 ^ 32)
    (hfirst : stsc_first mem stbl 0 = 1)
    (hasc : ∀ i, i < stbl.stsc.count - 1 → stsc_first mem stbl i ≤ stsc_first mem stbl (i + 1))
    (hlast : stsc_first mem stbl (stbl.stsc.count - 1) ≤ stbl.max_chunks + 1)
    (hmc : stbl.max_chunks < 2 ^ 32)
    (htot : stsc_total (stsc_entries mem stbl) stbl.max_chunks < 2 ^ 32)
    (hs : (compile_seek mem stbl seek).stsz.index =
      stsc_total (stsc_entries mem stbl) stbl.max_chunks)
    (hmo : stbl.max_offset < 2 ^ 64) :
    (compile_seek mem stbl seek).coxx = { index := stbl.max_chunks, offset := 0 } ∧
    (compile_seek mem stbl seek).offset = stbl.max_offset := by
  have e : compile_seek mem stbl seek =
      seek_stsc mem stbl
        (seek_ctts mem stbl (seek_stss mem stbl (seek_stts mem stbl seek).1)
          (seek_stts mem stbl seek).2).1
        (seek_ctts mem stbl (seek_stss mem stbl (seek_stts mem stbl seek).1)
          (seek_stts mem stbl seek).2).2 := rfl
  rw [e] at hs ⊢
  generalize (seek_ctts mem stbl (seek_stss mem stbl (seek_stts mem stbl seek).1)
    (seek_stts mem stbl seek).2) = X at hs ⊢
  have e2 : (seek_stsc mem stbl X.1 X.2).stsz.index = X.1.stsz.index := by
    rw [(seek_stsc_coxx mem stbl X.1 X.2).2]
  rw [e2] at hs
  exact seek_stsc_end mem stbl X.1 X.2 hcount hcnt hfirst hasc hlast hmc htot hs hmo

theorem chunk_base_mono (mem : Mem) (stbl : stbl_t)
    (hmono : ∀ c, c < stbl.coxx.count →
      chunk_base mem stbl c + chunk_bytes mem stbl c ≤ chunk_base mem stbl (c + 1))
    (a b : Nat) (hab : a ≤ b) (hb : b ≤ stbl.coxx.count) :
    chunk_base mem stbl a ≤ chunk_base mem stbl b := by
  induction b with
  | zero =>
    have : a = 0 := by omega
    subst this
    exact le_refl _
  | succ b ih =>
    by_cases e : a = b + 1
    · subst e
      exact le_refl _
    · have h1 := ih (by omega) (by omega)
      have h2 := hmono b (by omega)
      omega

theorem chunk_base_lt (mem : Mem) (stbl : stbl_t)
    (hmo : stbl.max_offset < 2 ^ (8 * stbl.coxx.bytes)) (c : Nat) :
    chunk_base mem stbl c < 2 ^ (8 * stbl.coxx.bytes) := by
  unfold chunk_base
  split
  · unfold coxx_entry
    rw [shl3]
    exact read_xx_lt _ _ _
  · exact hmo

theorem pow_bytes_le (k : Nat) (hk : k ≤ 8) : 2 ^ (8 * k) ≤ 2 ^ 64 :=
  Nat.pow_le_pow_right (by decide) (by omega)

/-- Where `compile_seek` puts a position in a file that is laid out chunk by
chunk: in a chunk of the table or at the end of the table, at or after the
start of that chunk and, when inside the chunk, before the next one. -/
theorem compile_seek_in_chunk (mem : Mem) (stbl : stbl_t) (seek : seek_t)
    (hl : chunk_layout mem stbl) (hk : stbl.coxx.bytes = 4 ∨ stbl.coxx.bytes = 8) :
    (compile_seek mem stbl seek).coxx.index ≤ stbl.coxx.count ∧
    chunk_base mem stbl (compile_seek mem stbl seek).coxx.index ≤
      (compile_seek mem stbl seek).offset ∧
    ((compile_seek mem stbl seek).coxx.offset = 0 →
      (compile_seek mem stbl seek).offset =
        chunk_base mem stbl (compile_seek mem stbl seek).coxx.index) ∧
    (0 < (compile_seek mem stbl seek).coxx.offset →
      (compile_seek mem stbl seek).coxx.index < stbl.coxx.count ∧
      chunk_base mem stbl (compile_seek mem stbl seek).coxx.index <
        (compile_seek mem stbl seek).offset ∧
      (compile_seek mem stbl seek).offset ≤
        chunk_base mem stbl ((compile_seek mem stbl seek).coxx.index + 1)) := by
  obtain ⟨hz, hcount, hcnt, hfirst, hasc, hlast, hmax, hcons, h4, hwid, hmo, hsz, hne, hpos, hmono⟩ := hl
  have hk8 : stbl.coxx.bytes ≤ 8 := by omega
  have hk1 : 1 ≤ stbl.coxx.bytes := by omega
  have hp64 := pow_bytes_le stbl.coxx.bytes hk8
  have hcc : stbl.coxx.count < 2 ^ 32 := by
    have := Nat.mul_le_mul_left stbl.coxx.count hk1
    omega
  have hmc : stbl.max_chunks < 2 ^ 32 := by rw [hmax]; exact hcc
  have htot : stsc_total (stsc_entries mem stbl) stbl.max_chunks < 2 ^ 32 := by
    rw [← hcons]; omega
  have hle : (compile_seek mem stbl seek).stsz.index ≤ stbl.max_samples := by
    rw [compile_seek_sample]
    exact le_trans (seek_stss_sample_le _ _ _) (seek_stts_sample_le _ _ _)
  by_cases hlt : (compile_seek mem stbl seek).stsz.index < stbl.max_samples
  · obtain ⟨c1, c2, c3⟩ := compile_seek_in_table mem stbl seek hcount hcnt hfirst hasc hlast
      hmc htot (by rw [← hcons]; exact hlt)
    have hci : (compile_seek mem stbl seek).coxx.index < stbl.coxx.count := by omega
    have hbytes : chunk_bytes mem stbl (compile_seek mem stbl seek).coxx.index =
        sizes_before mem stbl
          (stsc_total (stsc_entries mem stbl) (compile_seek mem stbl seek).coxx.index +
            chunk_samples (stsc_entries mem stbl) ((compile_seek mem stbl seek).coxx.index + 1))
          (chunk_samples (stsc_entries mem stbl)
            ((compile_seek mem stbl seek).coxx.index + 1)) := by
      unfold chunk_bytes
      rw [stsc_total_succ]
    have hpre := sizes_before_prefix mem stbl
      (stsc_total (stsc_entries mem stbl) (compile_seek mem stbl seek).coxx.index)
      (compile_seek mem stbl seek).coxx.offset
      (chunk_samples (stsc_entries mem stbl) ((compile_seek mem stbl seek).coxx.index + 1))
      (by omega)
    rw [c1, ← hbytes] at hpre
    have hm := hmono _ hci
    have hn := chunk_base_lt mem stbl hmo ((compile_seek mem stbl seek).coxx.index + 1)
    have h26 := (compile_seek_byte_offset_exact mem stbl seek hmax (by omega)
      (by
        have := Nat.mul_le_mul_right stbl.coxx.bytes (Nat.le_of_lt hci)
        omega)
      (by
        have := Nat.mul_le_mul_right stbl.stsz.size (Nat.le_of_lt c2)
        have := hsz _ hci
        omega)
      (by omega)).1
    refine ⟨by omega, by omega, ?_, ?_⟩
    · intro h0
      rw [h26, h0]
      have : sizes_before mem stbl (compile_seek mem stbl seek).stsz.index 0 = 0 := rfl
      omega
    · intro h0
      have hp := sizes_before_pos mem stbl
        (stsc_total (stsc_entries mem stbl) (compile_seek mem stbl seek).coxx.index)
        (compile_seek mem stbl seek).coxx.offset h0 (hpos _ (by omega))
      rw [c1] at hp
      exact ⟨hci, by omega, by omega⟩
  · have heq : (compile_seek mem stbl seek).stsz.index =
        stsc_total (stsc_entries mem stbl) stbl.max_chunks := by rw [← hcons]; omega
    obtain ⟨e1, e2⟩ := compile_seek_end mem stbl seek hcount hcnt hfirst hasc hlast hmc htot heq
      (by omega)
    have hcb : chunk_base mem stbl stbl.coxx.count = stbl.max_offset := by
      unfold chunk_base
      rw [if_neg (Nat.lt_irrefl _)]
    rw [e1, e2]
    dsimp only
    rw [hmax, hcb]
    exact ⟨le_refl _, le_refl _, fun _ => rfl, fun h => absurd h (Nat.lt_irrefl 0)⟩

theorem chunk_bytes_pos (mem : Mem) (stbl : stbl_t) (hl : chunk_layout mem stbl) (c : Nat)
    (hc : c < stbl.coxx.count) : 0 < chunk_bytes mem stbl c := by
  obtain ⟨hz, hcount, hcnt, hfirst, hasc, hlast, hmax, hcons, h4, hwid, hmo, hsz, hne, hpos, hmono⟩ := hl
  unfold chunk_bytes
  rw [stsc_total_succ]
  have hm := stsc_total_mono (stsc_entries mem stbl) (c + 1) stbl.coxx.count (by omega)
  rw [stsc_total_succ] at hm
  have hn := hne c hc
  exact sizes_before_pos mem stbl _ _ hn (hpos _ (by rw [hcons, hmax]; omega))

theorem chunk_base_strict (mem : Mem) (stbl : stbl_t) (hl : chunk_layout mem stbl)
    (a b : Nat) (hab : a < b) (hb : b ≤ stbl.coxx.count) :
    chunk_base mem stbl a < chunk_base mem stbl b := by
  have hp := chunk_bytes_pos mem stbl hl a (by omega)
  have h1 := hl.2.2.2.2.2.2.2.2.2.2.2.2.2.2 a (by omega)
  have h2 := chunk_base_mono mem stbl hl.2.2.2.2.2.2.2.2.2.2.2.2.2.2 (a + 1) b (by omega) hb
  omega

/-- The chunks that a cut retains after its first one start inside the cut:
for the positions `S` and `E` that `compile_seek` gives for two requests, with
`S` before `E` in the file, every chunk of the table after the chunk of `S`
and up to the chunk of `E` (that chunk included when `E` is inside it) starts
at or after `S.offset` and before `E.offset`. -/
theorem retained_chunks_in_cut (mem : Mem) (stbl : stbl_t) (a b : seek_t)
    (hl : chunk_layout mem stbl) (hk : stbl.coxx.bytes = 4 ∨ stbl.coxx.bytes = 8)
    (hSE : (compile_seek mem stbl a).offset < (compile_seek mem stbl b).offset) :
    (compile_seek mem stbl a).coxx.index ≤ (compile_seek mem stbl b).coxx.index ∧
    (compile_seek mem stbl b).coxx.index +
      (if (compile_seek mem stbl b).coxx.offset > 0 then 1 else 0) ≤ stbl.coxx.count ∧
    (compile_seek mem stbl b).offset ≤ stbl.max_offset ∧
    ∀ j, (compile_seek mem stbl a).coxx.index < j →
      j < (compile_seek mem stbl b).coxx.index +
        (if (compile_seek mem stbl b).coxx.offset > 0 then 1 else 0) →
      (compile_seek mem stbl a).offset ≤ coxx_entry mem stbl j ∧
      coxx_entry mem stbl j < (compile_seek mem stbl b).offset := by
  obtain ⟨s1, s2, s3, s4⟩ := compile_seek_in_chunk mem stbl a hl hk
  obtain ⟨t1, t2, t3, t4⟩ := compile_seek_in_chunk mem stbl b hl hk
  have hmono := hl.2.2.2.2.2.2.2.2.2.2.2.2.2.2
  have hcb : chunk_base mem stbl stbl.coxx.count = stbl.max_offset := by
    unfold chunk_base
    rw [if_neg (Nat.lt_irrefl _)]
  generalize compile_seek mem stbl a = S at *
  generalize compile_seek mem stbl b = E at *
  have hx : E.coxx.index + (if E.coxx.offset > 0 then 1 else 0) ≤ stbl.coxx.count := by
    by_cases h : E.coxx.offset > 0
    · rw [if_pos h]
      have := (t4 h).1
      omega
    · rw [if_neg h]
      omega
  have hEnext : ∀ n, E.coxx.index < n → n ≤ stbl.coxx.count →
      E.offset ≤ chunk_base mem stbl n := by
    intro n h1 h2
    have hm := chunk_base_mono mem stbl hmono (E.coxx.index + 1) n (by omega) h2
    by_cases h : E.coxx.offset > 0
    · have := (t4 h).2.2
      omega
    · have := t3 (by omega)
      have := chunk_base_mono mem stbl hmono E.coxx.index (E.coxx.index + 1) (by omega)
        (by omega)
      omega
  have hSnext : ∀ n, S.coxx.index < n → n ≤ stbl.coxx.count →
      S.offset ≤ chunk_base mem stbl n := by
    intro n h1 h2
    have hm := chunk_base_mono mem stbl hmono (S.coxx.index + 1) n (by omega) h2
    by_cases h : S.coxx.offset > 0
    · have := (s4 h).2.2
      omega
    · have := s3 (by omega)
      have := chunk_base_mono mem stbl hmono S.coxx.index (S.coxx.index + 1) (by omega)
        (by omega)
      omega
  have hle : S.coxx.index ≤ E.coxx.index := by
    by_contra hc
    have := hEnext S.coxx.index (by omega) s1
    omega
  refine ⟨hle, hx, ?_, ?_⟩
  · by_cases h : E.coxx.index < stbl.coxx.count
    · have := hEnext stbl.coxx.count h (le_refl _)
      omega
    · have e : E.coxx.index = stbl.coxx.count := by omega
      by_cases h0 : E.coxx.offset > 0
      · have := (t4 h0).1
        omega
      · have := t3 (by omega)
        rw [e] at this
        omega
  · intro j h1 h2
    have hj : j < stbl.coxx.count := by omega
    have ecb : coxx_entry mem stbl j = chunk_base mem stbl j := by
      unfold chunk_base
      rw [if_pos hj]
    rw [ecb]
    refine ⟨hSnext j h1 (by omega), ?_⟩
    by_cases h : E.coxx.offset > 0
    · rw [if_pos h] at h2
      have := chunk_base_mono mem stbl hmono j E.coxx.index (by omega) (by omega)
      have := (t4 h).2.1
      omega
    · rw [if_neg h] at h2
      have := chunk_base_strict mem stbl hl j E.coxx.index (by omega) t1
      have := t3 (by omega)
      omega

theorem only_in_compile_trak (stream : stream_t) (mvhd_scale : Nat) (mem : Mem) (trak : trak_t) :
    only_in (trak_writes stream mvhd_scale mem trak) mem
      (compile_trak stream mvhd_scale mem trak).2.1 := by
  by_cases hv : VOID trak.atom = true
  · unfold compile_trak trak_writes
    rw [if_pos hv, if_pos hv]
    exact only_in_refl _ _
  · have hv : VOID trak.atom = false := by simpa using hv
    rw [compile_trak_mem _ _ _ _ hv, (compile_trak_stbl_mem _ _ _ _).1]
    unfold trak_writes
    rw [if_neg (by simp [hv])]
    generalize timed_mdhd stream mem trak = mdhd
    generalize timed_tkhd stream mvhd_scale mem trak = tkhd
    generalize (compile_trak_seek stream mem trak).1 = S
    generalize (compile_trak_seek stream mem trak).2 = E
    generalize trak.mdia.minf.stbl = stbl
    have o1 := only_in_write_time mem mdhd 16 24
    have o2 := only_in_write_time (write_time mem mdhd 16 24) tkhd 20 28
    have o3 := only_in_clip_heads (write_time (write_time mem mdhd 16 24) tkhd 20 28) stbl S E
    have o4 := only_in_clip_xtts
      (clip_heads (write_time (write_time mem mdhd 16 24) tkhd 20 28) stbl S E)
      (resized_stbl stbl S E).stts S.stts.offset E.stts.offset
    have o5 := only_in_clip_xtts
      (clip_xtts (clip_heads (write_time (write_time mem mdhd 16 24) tkhd 20 28) stbl S E)
        (resized_stbl stbl S E).stts S.stts.offset E.stts.offset)
      (resized_stbl stbl S E).ctts S.ctts.offset E.ctts.offset
    have o6 := only_in_clip_stsc
      (clip_xtts
        (clip_xtts (clip_heads (write_time (write_time mem mdhd 16 24) tkhd 20 28) stbl S E)
          (resized_stbl stbl S E).stts S.stts.offset E.stts.offset)
        (resized_stbl stbl S E).ctts S.ctts.offset E.ctts.offset)
      (resized_stbl stbl S E) S E
    have o := only_in_trans _ _ _ _ _
      (only_in_trans _ _ _ _ _ (only_in_trans _ _ _ _ _ (only_in_trans _ _ _ _ _
        (only_in_trans _ _ _ _ _ o1 o2) o3) o4) o5) o6
    refine only_in_mono _ _ _ _ ?_ o
    intro r hr
    rcases List.mem_append.mp hr with hr | hr
    · rcases List.mem_append.mp hr with hr | hr
      · rcases List.mem_append.mp hr with hr | hr
        · rcases List.mem_append.mp hr with hr | hr
          · rcases List.mem_append.mp hr with hr | hr
            · rw [List.mem_singleton.mp hr]
              exact List.mem_cons_self _ _
            · rw [List.mem_singleton.mp hr]
              exact List.mem_cons_of_mem _ (List.mem_cons_self _ _)
          · rcases List.mem_append.mp hr with hr | hr
            · refine List.mem_cons_of_mem _ (List.mem_cons_of_mem _ (List.mem_append_left _ ?_))
              unfold stts_writes
              exact List.mem_append_left _ hr
            · refine List.mem_cons_of_mem _ (List.mem_cons_of_mem _ (List.mem_append_right _ ?_))
              unfold table_writes
              exact List.mem_append_left _ (List.mem_append_left _ hr)
        · refine List.mem_cons_of_mem _ (List.mem_cons_of_mem _ (List.mem_append_left _ ?_))
          unfold stts_writes
          exact List.mem_append_right _ hr
      · refine List.mem_cons_of_mem _ (List.mem_cons_of_mem _ (List.mem_append_right _ ?_))
        unfold table_writes
        exact List.mem_append_left _ (List.mem_append_right _ hr)
    · refine List.mem_cons_of_mem _ (List.mem_cons_of_mem _ (List.mem_append_right _ ?_))
      unfold table_writes
      exact List.mem_append_right _ hr

/-- The first chunk offset after `clip_stsc` is the byte offset of the start
position, when the rewritten `stsc` entries and the `stsc` header do not
overlap that entry. -/
theorem clip_stsc_first_offset (m : Mem) (stbl : stbl_t) (start end_ : seek_t)
    (hv : VOID stbl.stsc.atom = false) (hk : stbl.coxx.bytes ≤ 8)
    (hb : stbl.coxx.data + stbl.coxx.bytes ≤ m.size)
    (h1 : apart (stbl.stsc.data, stbl.stsc.data + 12 + 12 * remaining_count stbl start end_)
      stbl.coxx.data (stbl.coxx.data + stbl.coxx.bytes))
    (h2 : apart (stbl.stsc.atom.data.getD 0, stbl.stsc.atom.data.getD 0 + 8)
      stbl.coxx.data (stbl.coxx.data + stbl.coxx.bytes)) :
    read_xx (clip_stsc m stbl start end_).1 stbl.coxx.data (stbl.coxx.bytes <<< 3) =
      start.offset % 2 ^ (8 * stbl.coxx.bytes) := by
  rw [clip_stsc_phases m stbl start end_ hv]
  dsimp only
  have hd : (clip_appended m stbl start end_).1.atom.data = stbl.stsc.atom.data := by
    unfold clip_appended
    rw [clip_stsc_append_data]
    unfold clip_prepended
    rw [clip_stsc_prepend_data]
  rw [hd]
  have g2 := only_in_clip_stsc_prepend
    (write_xx m stbl.coxx.data start.offset (stbl.coxx.bytes <<< 3)) stbl.stsc start
    stbl.stsc.data
    (chunks_left (write_xx m stbl.coxx.data start.offset (stbl.coxx.bytes <<< 3)) stbl start)
    (read_32 (write_xx m stbl.coxx.data start.offset (stbl.coxx.bytes <<< 3))
      (stbl.stsc.data + 4))
  have g3 := only_in_clip_stsc_remaining (clip_prepended m stbl start).1 stbl.stsc.count
    (stbl.stsc.data + 12)
    (w32 (chunks_left (write_xx m stbl.coxx.data start.offset (stbl.coxx.bytes <<< 3))
      stbl start + 1))
    (clip_prepended m stbl start).2.2 end_
  have hs : (clip_prepended m stbl start).2.2.stsc = start.stsc := by
    unfold clip_prepended
    exact (clip_stsc_prepend_spec _ _ _ _ _ _).2.2.2.2.1
  rw [hs] at g3
  have g4 := only_in_two (clip_remained m stbl start end_).1 (stbl.stsc.atom.data.getD 0)
    (w32 ((clip_appended m stbl start end_).1.version <<< 24) |||
      (clip_appended m stbl start end_).1.flags)
    (clip_appended m stbl start end_).1.count
  have g := only_in_trans _ _ _ _ _ (only_in_trans _ _ _ _ _ g2 g3) g4
  have ga := only_in_agree _ _ _ stbl.coxx.data (stbl.coxx.data + stbl.coxx.bytes) g (by
    intro r hr
    unfold remaining_count at h1
    unfold apart at h1 h2 ⊢
    dsimp only at h1 h2
    simp only [List.mem_append, List.mem_singleton] at hr
    rcases hr with (hr | hr) | hr <;> subst hr <;> dsimp only <;> omega)
  have e1 : read_xx
      (write_32
        (write_32 (clip_remained m stbl start end_).1 (stbl.stsc.atom.data.getD 0)
          (w32 ((clip_appended m stbl start end_).1.version <<< 24) |||
            (clip_appended m stbl start end_).1.flags))
        (stbl.stsc.atom.data.getD 0 + 4) (clip_appended m stbl start end_).1.count)
      stbl.coxx.data (stbl.coxx.bytes <<< 3) =
      read_xx (write_xx m stbl.coxx.data start.offset (stbl.coxx.bytes <<< 3))
        stbl.coxx.data (stbl.coxx.bytes <<< 3) := by
    apply read_xx_congr
    intro i hi
    rw [shl3, shr3] at hi
    exact ga _ (by omega) (by omega)
  rw [e1, shl3]
  exact read_xx_write_xx_same m stbl.coxx.data start.offset stbl.coxx.bytes hk hb

/-- The chunk-offset table that `compile_trak` retains: the entries of the
chunks from the one of the start position up to the one of the end position,
that chunk included when the end position is inside it. -/
theorem resized_coxx (stbl : stbl_t) (S E : seek_t)
    (hvc : VOID stbl.coxx.atom = false)
    (hle : S.coxx.index ≤ E.coxx.index)
    (hx : E.coxx.index + (if E.coxx.offset > 0 then 1 else 0) ≤ stbl.coxx.count)
    (hwid : stbl.coxx.count * stbl.coxx.bytes < 2 ^ 32) (hk : 1 ≤ stbl.coxx.bytes) :
    (resized_stbl stbl S E).coxx.bytes = stbl.coxx.bytes ∧
    (resized_stbl stbl S E).coxx.data = stbl.coxx.data + stbl.coxx.bytes * S.coxx.index ∧
    (resized_stbl stbl S E).coxx.count =
      E.coxx.index + (if E.coxx.offset > 0 then 1 else 0) - S.coxx.index := by
  have hcc : stbl.coxx.count < 2 ^ 32 := by
    have := Nat.mul_le_mul_left stbl.coxx.count hk
    omega
  have hsb : S.coxx.index * stbl.coxx.bytes < 2 ^ 32 := by
    have : S.coxx.index ≤ stbl.coxx.count := by
      have : (if E.coxx.offset > 0 then 1 else 0) ≥ 0 := Nat.zero_le _
      omega
    have := Nat.mul_le_mul_right stbl.coxx.bytes this
    omega
  unfold resized_stbl compile_xxxx resize_xxxx
  dsimp only
  rw [if_neg (by simp [hvc])]
  dsimp only
  simp only [Bool.or_false, decide_eq_true_eq]
  refine ⟨trivial, ?_, ?_⟩
  · rw [w32_of_lt _ hsb, Nat.mul_comm]
  · have hxx : (if E.coxx.offset > 0 then 1 else 0) ≤ 1 := by split <;> omega
    rw [sub32_of_le _ _ hle (by omega), w32_of_lt _ (by omega)]
    omega

theorem compile_trak_coxx (stream : stream_t) (mvhd_scale : Nat) (mem : Mem) (trak : trak_t)
    (hv : VOID trak.atom = false) :
    (compile_trak stream mvhd_scale mem trak).2.2.mdia.minf.stbl.coxx =
      (resized_stbl trak.mdia.minf.stbl (compile_trak_seek stream mem trak).1
        (compile_trak_seek stream mem trak).2).coxx := by
  unfold compile_trak
  rw [if_neg (by simp [hv])]
  dsimp only
  generalize hR : compile_trak_resize trak _ _ _ _ _ = T
  have := (compile_trak_resize_spec _ _ _ _ _ _ T hR).2.2.2.2.2.2.2.2.2.2.2.2.1
  rw [this, compile_trak_stbl_clip, (clip_stsc_keeps _ _ _ _).2.2.2.2.1, clip_input_stbl]

theorem compile_trak_stream (stream : stream_t) (mvhd_scale : Nat) (mem : Mem) (trak : trak_t)
    (hv : VOID trak.atom = false) :
    (compile_trak stream mvhd_scale mem trak).1 =
      compile_trak_offsets stream trak.mdia.mdhd.scale (compile_trak_seek stream mem trak).1
        (compile_trak_seek stream mem trak).2 := by
  unfold compile_trak
  rw [if_neg (by simp [hv])]

theorem compile_trak_seek_pair (stream : stream_t) (mem : Mem) (trak : trak_t) :
    ∃ a b : seek_t, compile_trak_seek stream mem trak =
      (compile_seek mem trak.mdia.minf.stbl a, compile_seek mem trak.mdia.minf.stbl b) :=
  ⟨_, _, rfl⟩

/-- The chunk offsets that `compile_trak` leaves for a track whose tables
describe a file laid out chunk by chunk: every retained entry lies between the
byte offsets of the start and of the end position, when these differ and the
bytes written by `compile_trak` do not overlap the retained entries. -/
theorem compile_trak_chunk_offsets (stream : stream_t) (mvhd_scale : Nat) (mem : Mem)
    (trak : trak_t) (hv : VOID trak.atom = false)
    (hvc : VOID trak.mdia.minf.stbl.coxx.atom = false)
    (hvs : VOID (resized_stbl trak.mdia.minf.stbl (compile_trak_seek stream mem trak).1
      (compile_trak_seek stream mem trak).2).stsc.atom = false)
    (hk : trak.mdia.minf.stbl.coxx.bytes = 4 ∨ trak.mdia.minf.stbl.coxx.bytes = 8)
    (hl : chunk_layout mem trak.mdia.minf.stbl)
    (hSE : (compile_trak_seek stream mem trak).1.offset <
      (compile_trak_seek stream mem trak).2.offset)
    (hb : trak.mdia.minf.stbl.coxx.data +
      trak.mdia.minf.stbl.coxx.bytes * trak.mdia.minf.stbl.coxx.count ≤ mem.size)
    (hw : ∀ r ∈ trak_writes stream mvhd_scale mem trak,
      apart r
        ((resized_stbl trak.mdia.minf.stbl (compile_trak_seek stream mem trak).1
            (compile_trak_seek stream mem trak).2).coxx.data +
          trak.mdia.minf.stbl.coxx.bytes)
        ((resized_stbl trak.mdia.minf.stbl (compile_trak_seek stream mem trak).1
            (compile_trak_seek stream mem trak).2).coxx.data +
          trak.mdia.minf.stbl.coxx.bytes *
            (resized_stbl trak.mdia.minf.stbl (compile_trak_seek stream mem trak).1
              (compile_trak_seek stream mem trak).2).coxx.count))
    (h1 : apart
      ((resized_stbl trak.mdia.minf.stbl (compile_trak_seek stream mem trak).1
          (compile_trak_seek stream mem trak).2).stsc.data,
        (resized_stbl trak.mdia.minf.stbl (compile_trak_seek stream mem trak).1
          (compile_trak_seek stream mem trak).2).stsc.data + 12 +
          12 * remaining_count
            (resized_stbl trak.mdia.minf.stbl (compile_trak_seek stream mem trak).1
              (compile_trak_seek stream mem trak).2)
            (compile_trak_seek stream mem trak).1 (compile_trak_seek stream mem trak).2)
      (resized_stbl trak.mdia.minf.stbl (compile_trak_seek stream mem trak).1
        (compile_trak_seek stream mem trak).2).coxx.data
      ((resized_stbl trak.mdia.minf.stbl (compile_trak_seek stream mem trak).1
        (compile_trak_seek stream mem trak).2).coxx.data + trak.mdia.minf.stbl.coxx.bytes))
    (h2 : apart
      ((resized_stbl trak.mdia.minf.stbl (compile_trak_seek stream mem trak).1
          (compile_trak_seek stream mem trak).2).stsc.atom.data.getD 0,
        (resized_stbl trak.mdia.minf.stbl (compile_trak_seek stream mem trak).1
          (compile_trak_seek stream mem trak).2).stsc.atom.data.getD 0 + 8)
      (resized_stbl trak.mdia.minf.stbl (compile_trak_seek stream mem trak).1
        (compile_trak_seek stream mem trak).2).coxx.data
      ((resized_stbl trak.mdia.minf.stbl (compile_trak_seek stream mem trak).1
        (compile_trak_seek stream mem trak).2).coxx.data + trak.mdia.minf.stbl.coxx.bytes)) :
    (compile_trak stream mvhd_scale mem trak).2.2.mdia.minf.stbl.coxx.bytes =
      trak.mdia.minf.stbl.coxx.bytes ∧
    (compile_trak stream mvhd_scale mem trak).2.2.mdia.minf.stbl.coxx.data +
      trak.mdia.minf.stbl.coxx.bytes *
        (compile_trak stream mvhd_scale mem trak).2.2.mdia.minf.stbl.coxx.count ≤ mem.size ∧
    0 < (compile_trak_seek stream mem trak).1.offset ∧
    (compile_trak_seek stream mem trak).2.offset < 2 ^ (8 * trak.mdia.minf.stbl.coxx.bytes) ∧
    ∀ i, i < (compile_trak stream mvhd_scale mem trak).2.2.mdia.minf.stbl.coxx.count →
      (compile_trak_seek stream mem trak).1.offset ≤
        coxx_entry (compile_trak stream mvhd_scale mem trak).2.1
          (compile_trak stream mvhd_scale mem trak).2.2.mdia.minf.stbl i ∧
      coxx_entry (compile_trak stream mvhd_scale mem trak).2.1
          (compile_trak stream mvhd_scale mem trak).2.2.mdia.minf.stbl i <
        (compile_trak_seek stream mem trak).2.offset := by
  have hco := compile_trak_coxx stream mvhd_scale mem trak hv
  have ow := only_in_compile_trak stream mvhd_scale mem trak
  have hmem : (compile_trak stream mvhd_scale mem trak).2.1 =
      (clip_stsc
        (clip_xtts
          (clip_xtts
            (clip_heads
              (write_time (write_time mem (timed_mdhd stream mem trak) 16 24)
                (timed_tkhd stream mvhd_scale mem trak) 20 28)
              trak.mdia.minf.stbl (compile_trak_seek stream mem trak).1
              (compile_trak_seek stream mem trak).2)
            (resized_stbl trak.mdia.minf.stbl (compile_trak_seek stream mem trak).1
              (compile_trak_seek stream mem trak).2).stts
            (compile_trak_seek stream mem trak).1.stts.offset
            (compile_trak_seek stream mem trak).2.stts.offset)
          (resized_stbl trak.mdia.minf.stbl (compile_trak_seek stream mem trak).1
            (compile_trak_seek stream mem trak).2).ctts
          (compile_trak_seek stream mem trak).1.ctts.offset
          (compile_trak_seek stream mem trak).2.ctts.offset)
        (resized_stbl trak.mdia.minf.stbl (compile_trak_seek stream mem trak).1
          (compile_trak_seek stream mem trak).2)
        (compile_trak_seek stream mem trak).1 (compile_trak_seek stream mem trak).2).1 := by
    rw [compile_trak_mem _ _ _ _ hv, (compile_trak_stbl_mem _ _ _ _).1]
  have o1 := only_in_write_time mem (timed_mdhd stream mem trak) 16 24
  have o2 := only_in_write_time (write_time mem (timed_mdhd stream mem trak) 16 24)
    (timed_tkhd stream mvhd_scale mem trak) 20 28
  have o3 := only_in_clip_heads
    (write_time (write_time mem (timed_mdhd stream mem trak) 16 24)
      (timed_tkhd stream mvhd_scale mem trak) 20 28)
    trak.mdia.minf.stbl (compile_trak_seek stream mem trak).1
    (compile_trak_seek stream mem trak).2
  have o4 := only_in_clip_xtts
    (clip_heads
      (write_time (write_time mem (timed_mdhd stream mem trak) 16 24)
        (timed_tkhd stream mvhd_scale mem trak) 20 28)
      trak.mdia.minf.stbl (compile_trak_seek stream mem trak).1
      (compile_trak_seek stream mem trak).2)
    (resized_stbl trak.mdia.minf.stbl (compile_trak_seek stream mem trak).1
      (compile_trak_seek stream mem trak).2).stts
    (compile_trak_seek stream mem trak).1.stts.offset
    (compile_trak_seek stream mem trak).2.stts.offset
  have o5 := only_in_clip_xtts
    (clip_xtts
      (clip_heads
        (write_time (write_time mem (timed_mdhd stream mem trak) 16 24)
          (timed_tkhd stream mvhd_scale mem trak) 20 28)
        trak.mdia.minf.stbl (compile_trak_seek stream mem trak).1
        (compile_trak_seek stream mem trak).2)
      (resized_stbl trak.mdia.minf.stbl (compile_trak_seek stream mem trak).1
        (compile_trak_seek stream mem trak).2).stts
      (compile_trak_seek stream mem trak).1.stts.offset
      (compile_trak_seek stream mem trak).2.stts.offset)
    (resized_stbl trak.mdia.minf.stbl (compile_trak_seek stream mem trak).1
      (compile_trak_seek stream mem trak).2).ctts
    (compile_trak_seek stream mem trak).1.ctts.offset
    (compile_trak_seek stream mem trak).2.ctts.offset
  have hsz4 := (only_in_trans _ _ _ _ _ (only_in_trans _ _ _ _ _
    (only_in_trans _ _ _ _ _ o1 o2) o3) o4).1
  have hsz5 := o5.1
  rw [hsz4] at hsz5
  clear o1 o2 o3 o4 o5 hsz4
  obtain ⟨a, b, hab⟩ := compile_trak_seek_pair stream mem trak
  have hS : (compile_trak_seek stream mem trak).1 = compile_seek mem trak.mdia.minf.stbl a := by
    rw [hab]
  have hE : (compile_trak_seek stream mem trak).2 = compile_seek mem trak.mdia.minf.stbl b := by
    rw [hab]
  have hSE2 := hSE
  rw [hS, hE] at hSE2
  obtain ⟨r1, r2, r3, r4⟩ := retained_chunks_in_cut mem trak.mdia.minf.stbl a b hl hk hSE2
  obtain ⟨q1, q2, -, -⟩ := compile_seek_in_chunk mem trak.mdia.minf.stbl a hl hk
  rw [← hS, ← hE] at r1 r4
  rw [← hE] at r2 r3
  rw [← hS] at q1 q2
  have hz := hl.1
  have hwid := hl.2.2.2.2.2.2.2.2.2.1
  have hmo := hl.2.2.2.2.2.2.2.2.2.2.1
  have hmono := hl.2.2.2.2.2.2.2.2.2.2.2.2.2.2
  have hcb0 := chunk_base_mono mem trak.mdia.minf.stbl hmono 0
    (compile_trak_seek stream mem trak).1.coxx.index (Nat.zero_le _) q1
  obtain ⟨d1, d2, d3⟩ := resized_coxx trak.mdia.minf.stbl (compile_trak_seek stream mem trak).1
    (compile_trak_seek stream mem trak).2 hvc r1 r2 hwid (by omega)
  have hce : ∀ (m : Mem) (i : Nat),
      coxx_entry m (compile_trak stream mvhd_scale mem trak).2.2.mdia.minf.stbl i =
        coxx_entry m (resized_stbl trak.mdia.minf.stbl (compile_trak_seek stream mem trak).1
          (compile_trak_seek stream mem trak).2) i := by
    intro m i
    unfold coxx_entry
    rw [hco]
  simp only [hce]
  rw [hco, hmem]
  generalize hm4 : clip_xtts
      (clip_xtts
        (clip_heads
          (write_time (write_time mem (timed_mdhd stream mem trak) 16 24)
            (timed_tkhd stream mvhd_scale mem trak) 20 28)
          trak.mdia.minf.stbl (compile_trak_seek stream mem trak).1
          (compile_trak_seek stream mem trak).2)
        (resized_stbl trak.mdia.minf.stbl (compile_trak_seek stream mem trak).1
          (compile_trak_seek stream mem trak).2).stts
        (compile_trak_seek stream mem trak).1.stts.offset
        (compile_trak_seek stream mem trak).2.stts.offset)
      (resized_stbl trak.mdia.minf.stbl (compile_trak_seek stream mem trak).1
        (compile_trak_seek stream mem trak).2).ctts
      (compile_trak_seek stream mem trak).1.ctts.offset
      (compile_trak_seek stream mem trak).2.ctts.offset = m4 at hsz5 hmem ⊢
  rw [hmem] at ow
  generalize hRR : resized_stbl trak.mdia.minf.stbl (compile_trak_seek stream mem trak).1
    (compile_trak_seek stream mem trak).2 = R at *
  generalize hSS : (compile_trak_seek stream mem trak).1 = S at *
  generalize hEE : (compile_trak_seek stream mem trak).2 = E at *
  generalize hxx : (if E.coxx.offset > 0 then 1 else 0) = x at *
  have hin : R.coxx.data + trak.mdia.minf.stbl.coxx.bytes * R.coxx.count ≤ mem.size := by
    rw [d2, d3]
    have e : trak.mdia.minf.stbl.coxx.data +
        trak.mdia.minf.stbl.coxx.bytes * S.coxx.index +
        trak.mdia.minf.stbl.coxx.bytes * (E.coxx.index + x - S.coxx.index) =
        trak.mdia.minf.stbl.coxx.data +
          trak.mdia.minf.stbl.coxx.bytes * (E.coxx.index + x) := by
      rw [Nat.add_assoc, ← Nat.mul_add]
      congr 2
      omega
    rw [e]
    have := Nat.mul_le_mul_left trak.mdia.minf.stbl.coxx.bytes r2
    omega
  refine ⟨d1, hin, by omega, by omega, ?_⟩
  intro i hi
  by_cases h0 : i = 0
  · subst h0
    have hf := clip_stsc_first_offset m4 R S E hvs (by rw [d1]; omega)
      (by
        rw [d1, hsz5]
        have := Nat.mul_le_mul_left trak.mdia.minf.stbl.coxx.bytes (show 1 ≤ R.coxx.count by omega)
        omega)
      (by rw [d1]; exact h1) (by rw [d1]; exact h2)
    have e0 : coxx_entry (clip_stsc m4 R S E).1 R 0 =
        read_xx (clip_stsc m4 R S E).1 R.coxx.data (R.coxx.bytes <<< 3) := by
      unfold coxx_entry
      rw [Nat.mul_zero, Nat.add_zero]
    rw [e0, hf, d1, Nat.mod_eq_of_lt (by omega)]
    exact ⟨le_refl _, hSE⟩
  · have hg := only_in_agree _ _ _ (R.coxx.data + trak.mdia.minf.stbl.coxx.bytes)
      (R.coxx.data + trak.mdia.minf.stbl.coxx.bytes * R.coxx.count) ow hw
    have e1 : coxx_entry (clip_stsc m4 R S E).1 R i =
        coxx_entry mem trak.mdia.minf.stbl (S.coxx.index + i) := by
      unfold coxx_entry
      rw [d1, d2]
      have ea : trak.mdia.minf.stbl.coxx.data + trak.mdia.minf.stbl.coxx.bytes * S.coxx.index +
          trak.mdia.minf.stbl.coxx.bytes * i =
          trak.mdia.minf.stbl.coxx.data + trak.mdia.minf.stbl.coxx.bytes * (S.coxx.index + i) := by
        rw [Nat.mul_add, Nat.add_assoc]
      rw [ea]
      apply read_xx_congr
      intro j hj
      rw [shl3, shr3] at hj
      refine hg _ ?_ ?_
      · rw [d2]
        have := Nat.mul_le_mul_left trak.mdia.minf.stbl.coxx.bytes (show 1 ≤ i by omega)
        rw [Nat.mul_add]
        omega
      · rw [d2]
        have := Nat.mul_le_mul_left trak.mdia.minf.stbl.coxx.bytes (show i + 1 ≤ R.coxx.count by omega)
        rw [Nat.mul_add] at this ⊢
        omega
    rw [e1]
    exact r4 (S.coxx.index + i) (by omega) (by omega)

theorem coxx_entry_congr (m : Mem) (s t : stbl_t) (i : Nat) (h : s.coxx = t.coxx) :
    coxx_entry m s i = coxx_entry m t i := by
  unfold coxx_entry
  rw [h]

theorem coxx_entry_agree (m1 m2 : Mem) (stbl : stbl_t) (i : Nat) (hi : i < stbl.coxx.count)
    (h : ∀ q, stbl.coxx.data ≤ q → q < stbl.coxx.data + stbl.coxx.bytes * stbl.coxx.count →
      byte_at m2 q = byte_at m1 q) :
    coxx_entry m2 stbl i = coxx_entry m1 stbl i := by
  unfold coxx_entry
  apply read_xx_congr
  intro j hj
  rw [shl3, shr3] at hj
  have := Nat.mul_le_mul_left stbl.coxx.bytes (show i + 1 ≤ stbl.coxx.count by omega)
  rw [Nat.mul_add] at this
  exact h _ (by omega) (by omega)

/-- The byte limits of the stream after `compile_trak`: they enclose the part
of the track, and a limit that is set is only widened. -/
theorem compile_trak_encloses (stream : stream_t) (mvhd_scale : Nat) (mem : Mem) (trak : trak_t) :
    (VOID trak.atom = false →
      (compile_trak stream mvhd_scale mem trak).1.file_offset ≤
        (compile_trak_seek stream mem trak).1.offset ∧
      (compile_trak_seek stream mem trak).2.offset ≤
        (compile_trak stream mvhd_scale mem trak).1.file_finish ∧
      (stream.file_offset = 0 → (compile_trak stream mvhd_scale mem trak).1.file_offset =
        (compile_trak_seek stream mem trak).1.offset)) ∧
    (stream.file_offset ≠ 0 →
      (compile_trak stream mvhd_scale mem trak).1.file_offset ≤ stream.file_offset) ∧
    stream.file_finish ≤ (compile_trak stream mvhd_scale mem trak).1.file_finish := by
  by_cases hv : VOID trak.atom = true
  · have e : (compile_trak stream mvhd_scale mem trak).1 = stream := by
      unfold compile_trak
      rw [if_pos hv]
    rw [e]
    exact ⟨fun h => by rw [hv] at h; simp at h, fun _ => le_refl _, le_refl _⟩
  · have hv : VOID trak.atom = false := by simpa using hv
    rw [compile_trak_stream _ _ _ _ hv]
    obtain ⟨s1, s2⟩ := compile_trak_offsets_spec stream trak.mdia.mdhd.scale
      (compile_trak_seek stream mem trak).1 (compile_trak_seek stream mem trak).2
    rw [s1, s2]
    refine ⟨fun _ => ⟨?_, ?_, ?_⟩, ?_, ?_⟩
    · split_ifs <;> omega
    · split_ifs <;> omega
    · intro h0
      rw [if_pos (Or.inl h0)]
    · intro h0
      split_ifs <;> omega
    · split_ifs <;> omega

theorem prepare_seek_parts (self : stream_t) (mem : Mem) (file : file_t) :
    (prepare_seek self mem file).1 =
      (compile_trak (seek_stage false self mem file).1 (seek_stage false self mem file).2.1
        (seek_stage false self mem file).2.2.1 (seek_stage false self mem file).2.2.2).1 ∧
    (prepare_seek self mem file).2.1 =
      write_time
        (compile_trak (seek_stage false self mem file).1 (seek_stage false self mem file).2.1
          (seek_stage false self mem file).2.2.1 (seek_stage false self mem file).2.2.2).2.1
        (prepare_seek self mem file).2.2.moov.mvhd 16 24 ∧
    (prepare_seek self mem file).2.2.moov.vtrak =
      (compile_trak (seek_stage true self mem file).1 (seek_stage true self mem file).2.1
        (seek_stage true self mem file).2.2.1 (seek_stage true self mem file).2.2.2).2.2 ∧
    (prepare_seek self mem file).2.2.moov.strak =
      (compile_trak (seek_stage false self mem file).1 (seek_stage false self mem file).2.1
        (seek_stage false self mem file).2.2.1 (seek_stage false self mem file).2.2.2).2.2 :=
  ⟨rfl, rfl, rfl, rfl⟩

/-- The relocation of an entry that lies inside the byte limits of the
stream. -/
theorem relocated_in_payload (self : stream_t) (ftyp mem : Mem) (file : file_t)
    (T O : trak_t) (R : stbl_t) (i : Nat)
    (htr : (file.moov.vtrak = T ∧ file.moov.strak = O) ∨
           (file.moov.vtrak = O ∧ file.moov.strak = T))
    (hT : T.mdia.minf.stbl.coxx = R.coxx)
    (hvt : VOID T.atom = false)
    (hk : R.coxx.bytes = 4 ∨ R.coxx.bytes = 8)
    (hb : R.coxx.data + R.coxx.bytes * R.coxx.count ≤ mem.size)
    (hs : VOID T.mdia.minf.stbl.stss.atom = true ∨
      apart (T.mdia.minf.stbl.stss.data,
             T.mdia.minf.stbl.stss.data + 4 * T.mdia.minf.stbl.stss.count)
        R.coxx.data (R.coxx.data + R.coxx.bytes * R.coxx.count))
    (ho : ∀ r ∈ relocated_ranges O,
      apart r R.coxx.data (R.coxx.data + R.coxx.bytes * R.coxx.count))
    (hi : i < R.coxx.count)
    (hlo : self.file_offset ≤ coxx_entry mem R i)
    (hhi : coxx_entry mem R i < self.file_finish)
    (hfit : gather_size file + (self.file_finish - self.file_offset) ≤ 2 ^ (8 * R.coxx.bytes)) :
    (coxx_entry (compile_head self ftyp mem file).2.1 R i : ℤ) =
      (coxx_entry mem R i : ℤ) - ((self.file_offset : ℤ) - (gather_size file : ℤ)) ∧
    gather_size file ≤ coxx_entry (compile_head self ftyp mem file).2.1 R i ∧
    coxx_entry (compile_head self ftyp mem file).2.1 R i <
      gather_size file + (self.file_finish - self.file_offset) := by
  have e1 := coxx_entry_congr mem _ _ i hT
  have e2 := coxx_entry_congr (compile_head self ftyp mem file).2.1 _ _ i hT
  have key := compile_head_entry self ftyp mem file T O i htr hvt (by rw [hT]; exact hk)
    (by rw [hT]; exact hb) (by rw [hT]; exact hs) (by rw [hT]; exact ho) (by rw [hT]; exact hi)
    (by rw [e1]; omega)
    (by
      rw [e1, hT]
      have : ((2 ^ (8 * R.coxx.bytes) : Nat) : ℤ) = 2 ^ (8 * R.coxx.bytes) := by push_cast; rfl
      rw [← this]
      omega)
  rw [e1, e2] at key
  refine ⟨key, ?_, ?_⟩ <;> omega

/-- C2 (amended). The chunk offsets of a track after `prepare_seek` and
`compile_head`. `video` selects the video or the sound track; `stream`,
`scale`, `m` and `trak` are the arguments of its call of `compile_trak`, `S`
and `E` the start and end positions found there, and `R` the resized table
descriptors. For a track whose tables describe a file laid out chunk by chunk
(`chunk_layout`), whose part of the payload is not empty (`S.offset <
E.offset`) and whose retained chunk-offset table is not overlapped by the
other bytes written into the `moov` blob, the track handed to `compile_head`
holds the table `R.coxx`, and every entry of it equals, after `compile_head`,
its value before the relocation minus `file_offset - G` (`G` the gathered head
size) and lies in `[G, G + (file_finish - file_offset))`, provided this range
fits the width of an entry. -/
theorem compile_head_relocation (self : stream_t) (ftyp mem : Mem) (file : file_t)
    (video : Bool) (stream : stream_t) (scale : Nat) (m : Mem) (trak : trak_t) (S E : seek_t)
    (R : stbl_t) (i : Nat)
    (hst : seek_stage video self mem file = (stream, scale, m, trak))
    (hse : compile_trak_seek stream m trak = (S, E))
    (hR : resized_stbl trak.mdia.minf.stbl S E = R)
    (hv : VOID trak.atom = false)
    (hvc : VOID trak.mdia.minf.stbl.coxx.atom = false)
    (hvs : VOID R.stsc.atom = false)
    (hvt : VOID (cut_track video self mem file).atom = false)
    (hk : trak.mdia.minf.stbl.coxx.bytes = 4 ∨ trak.mdia.minf.stbl.coxx.bytes = 8)
    (hl : chunk_layout m trak.mdia.minf.stbl)
    (hSE : S.offset < E.offset)
    (hb : trak.mdia.minf.stbl.coxx.data +
      trak.mdia.minf.stbl.coxx.bytes * trak.mdia.minf.stbl.coxx.count ≤ m.size)
    (hw : ∀ r ∈ trak_writes stream scale m trak,
      apart r (R.coxx.data + R.coxx.bytes) (R.coxx.data + R.coxx.bytes * R.coxx.count))
    (hw0 : ∀ r ∈ stsc_rest R S E, apart r R.coxx.data (R.coxx.data + R.coxx.bytes))
    (hlater : ∀ r ∈ later_writes video self mem file,
      apart r R.coxx.data (R.coxx.data + R.coxx.bytes * R.coxx.count))
    (hs : VOID (cut_track video self mem file).mdia.minf.stbl.stss.atom = true ∨
      apart ((cut_track video self mem file).mdia.minf.stbl.stss.data,
             (cut_track video self mem file).mdia.minf.stbl.stss.data +
               4 * (cut_track video self mem file).mdia.minf.stbl.stss.count)
        R.coxx.data (R.coxx.data + R.coxx.bytes * R.coxx.count))
    (ho : ∀ r ∈ relocated_ranges (cut_other video self mem file),
      apart r R.coxx.data (R.coxx.data + R.coxx.bytes * R.coxx.count))
    (hfit : gather_size (prepare_seek self mem file).2.2 +
      ((prepare_seek self mem file).1.file_finish - (prepare_seek self mem file).1.file_offset) ≤
        2 ^ (8 * R.coxx.bytes))
    (hi : i < R.coxx.count) :
    (cut_track video self mem file).mdia.minf.stbl.coxx = R.coxx ∧
    (coxx_entry (compile_head (prepare_seek self mem file).1 ftyp (prepare_seek self mem file).2.1
        (prepare_seek self mem file).2.2).2.1 R i : ℤ) =
      (coxx_entry (prepare_seek self mem file).2.1 R i : ℤ) -
        (((prepare_seek self mem file).1.file_offset : ℤ) -
          (gather_size (prepare_seek self mem file).2.2 : ℤ)) ∧
    gather_size (prepare_seek self mem file).2.2 ≤
      coxx_entry (compile_head (prepare_seek self mem file).1 ftyp (prepare_seek self mem file).2.1
        (prepare_seek self mem file).2.2).2.1 R i ∧
    coxx_entry (compile_head (prepare_seek self mem file).1 ftyp (prepare_seek self mem file).2.1
        (prepare_seek self mem file).2.2).2.1 R i <
      gather_size (prepare_seek self mem file).2.2 +
        ((prepare_seek self mem file).1.file_finish -
          (prepare_seek self mem file).1.file_offset) := by
  obtain rfl : S = (compile_trak_seek stream m trak).1 := by rw [hse]
  obtain rfl : E = (compile_trak_seek stream m trak).2 := by rw [hse]
  subst hR
  have hbytes : (resized_stbl trak.mdia.minf.stbl (compile_trak_seek stream m trak).1
      (compile_trak_seek stream m trak).2).coxx.bytes = trak.mdia.minf.stbl.coxx.bytes := by
    unfold resized_stbl compile_xxxx resize_xxxx
    dsimp only
    rw [if_neg (by simp [hvc])]
  rw [hbytes] at hw hw0 hlater hs ho hfit
  obtain ⟨c1, c2, c3, c4, c5⟩ := compile_trak_chunk_offsets stream scale m trak hv hvc hvs hk hl
    hSE hb hw (hw0 _ (List.mem_cons_self _ _))
    (hw0 _ (List.mem_cons_of_mem _ (List.mem_cons_self _ _)))
  have hco := compile_trak_coxx stream scale m trak hv
  obtain ⟨p1, p2, p3, p4⟩ := prepare_seek_parts self mem file
  obtain ⟨l0, -, -⟩ := compile_trak_encloses stream scale m trak
  have l1 := l0 hv
  rw [hco] at c1 c2 c5
  -- the track, the limits and the buffer that compile_head receives
  have hcut : cut_track video self mem file = (compile_trak stream scale m trak).2.2 ∧
      ((prepare_seek self mem file).2.2.moov.vtrak = cut_track video self mem file ∧
          (prepare_seek self mem file).2.2.moov.strak = cut_other video self mem file ∨
        (prepare_seek self mem file).2.2.moov.vtrak = cut_other video self mem file ∧
          (prepare_seek self mem file).2.2.moov.strak = cut_track video self mem file) ∧
      (prepare_seek self mem file).1.file_offset ≤ (compile_trak_seek stream m trak).1.offset ∧
      (compile_trak_seek stream m trak).2.offset ≤ (prepare_seek self mem file).1.file_finish ∧
      only_in (later_writes video self mem file) (compile_trak stream scale m trak).2.1
        (prepare_seek self mem file).2.1 := by
    cases video with
    | true =>
      have e1 : seek_stage true self mem file =
          ({ self with file_offset := 0, file_finish := 0 }, file.moov.mvhd.scale, mem,
            file.moov.vtrak) := rfl
      rw [e1] at hst
      simp only [Prod.mk.injEq] at hst
      obtain ⟨rfl, rfl, rfl, rfl⟩ := hst
      obtain ⟨-, n2, n3⟩ := compile_trak_encloses (seek_stage false self mem file).1
        (seek_stage false self mem file).2.1 (seek_stage false self mem file).2.2.1
        (seek_stage false self mem file).2.2.2
      have e0 := l1.2.2 rfl
      have ow := only_in_compile_trak (seek_stage false self mem file).1
        (seek_stage false self mem file).2.1 (seek_stage false self mem file).2.2.1
        (seek_stage false self mem file).2.2.2
      have ot := only_in_write_time
        (compile_trak (seek_stage false self mem file).1 (seek_stage false self mem file).2.1
          (seek_stage false self mem file).2.2.1 (seek_stage false self mem file).2.2.2).2.1
        (prepare_seek self mem file).2.2.moov.mvhd 16 24
      rw [← p2] at ot
      refine ⟨p3, Or.inl ⟨rfl, rfl⟩, ?_, ?_, ?_⟩
      · rw [p1]
        have := n2 (by
          show (compile_trak { self with file_offset := 0, file_finish := 0 }
            file.moov.mvhd.scale mem file.moov.vtrak).1.file_offset ≠ 0
          omega)
        exact le_trans this (le_of_eq e0)
      · rw [p1]
        exact le_trans l1.2.1 n3
      · exact only_in_trans _ _ _ _ _ ow ot
    | false =>
      have e1 : seek_stage false self mem file =
          ((compile_trak { self with file_offset := 0, file_finish := 0 } file.moov.mvhd.scale
              mem file.moov.vtrak).1,
            file.moov.mvhd.scale,
            (compile_trak { self with file_offset := 0, file_finish := 0 } file.moov.mvhd.scale
              mem file.moov.vtrak).2.1,
            file.moov.strak) := rfl
      have hst2 := hst
      rw [e1] at hst2
      simp only [Prod.mk.injEq] at hst2
      obtain ⟨h1, h2, h3, h4⟩ := hst2
      have q1 : (seek_stage false self mem file).1 = stream := by rw [hst]
      have q2 : (seek_stage false self mem file).2.1 = scale := by rw [hst]
      have q3 : (seek_stage false self mem file).2.2.1 = m := by rw [hst]
      have q4 : (seek_stage false self mem file).2.2.2 = trak := by rw [hst]
      rw [q1, q2, q3, q4] at p1 p2 p4
      have ot := only_in_write_time (compile_trak stream scale m trak).2.1
        (prepare_seek self mem file).2.2.moov.mvhd 16 24
      rw [← p2] at ot
      refine ⟨p4, Or.inr ⟨rfl, rfl⟩, ?_, ?_, ?_⟩
      · rw [p1]
        exact l1.1
      · rw [p1]
        exact l1.2.1
      · exact only_in_mono _ _ _ _ (fun r hr => hr) ot
  obtain ⟨t1, t2, t3, t4, t5⟩ := hcut
  have hT : (cut_track video self mem file).mdia.minf.stbl.coxx =
      (resized_stbl trak.mdia.minf.stbl (compile_trak_seek stream m trak).1
        (compile_trak_seek stream m trak).2).coxx := by rw [t1, hco]
  have hag := only_in_agree _ _ _ _ _ t5 hlater
  have hce : ∀ (mm : Mem) (j : Nat),
      coxx_entry mm (compile_trak stream scale m trak).2.2.mdia.minf.stbl j =
        coxx_entry mm (resized_stbl trak.mdia.minf.stbl (compile_trak_seek stream m trak).1
          (compile_trak_seek stream m trak).2) j :=
    fun mm j => coxx_entry_congr mm _ _ j hco
  have hold := c5 i hi
  rw [hce] at hold
  have hsame := coxx_entry_agree (compile_trak stream scale m trak).2.1
    (prepare_seek self mem file).2.1
    (resized_stbl trak.mdia.minf.stbl (compile_trak_seek stream m trak).1
      (compile_trak_seek stream m trak).2) i hi (by rw [hbytes]; exact hag)
  rw [← hsame] at hold
  refine ⟨hT, ?_⟩
  exact relocated_in_payload (prepare_seek self mem file).1 ftyp (prepare_seek self mem file).2.1
    (prepare_seek self mem file).2.2 (cut_track video self mem file)
    (cut_other video self mem file) _ i t2 hT hvt (by rw [hbytes]; exact hk)
    (by rw [hbytes, t5.1, (only_in_compile_trak stream scale m trak).1]; exact c2) (by rw [hbytes]; exact hs) (by rw [hbytes]; exact ho) hi
    (by omega) (by omega) (by rw [hbytes]; exact hfit)

theorem pair_eta {α β : Type} (p : α × β) : p = (p.1, p.2) := rfl

theorem quad_eta {α β γ δ : Type} (p : α × β × γ × δ) : p = (p.1, p.2.1, p.2.2.1, p.2.2.2) := rfl

/-- C2 (witness). The request `mid_key_stream` (from 0.5 s on, snapped to the
sync sample 4) keeps three chunks of the video track of `three_key_file`: the
payload is `[564, 599)` of the file, the gathered head has `G = 545` bytes,
and the entries 564, 569, 589 become 545, 550, 570; the theorem gives the
second one. The request `av_tail_stream` on a file with a video and a sound
track keeps one chunk of each: the payload is `[794, 804)`, `G = 782`, the
video entry 794 becomes 782 and the sound entry 801 becomes 789; the theorem
gives both. -/
theorem compile_head_relocation_witness :
    ((prepare_seek (seek_input mid_key_stream).1 (seek_input mid_key_stream).2.1
          (seek_input mid_key_stream).2.2 =
        ((head_input 20 mid_key_stream).1, (head_input 20 mid_key_stream).2.2.1,
          (head_input 20 mid_key_stream).2.2.2) ∧
      gather_size (head_input 20 mid_key_stream).2.2.2 = 545 ∧
      (head_input 20 mid_key_stream).1.file_offset = 564 ∧
      (head_input 20 mid_key_stream).1.file_finish = 599 ∧
      (List.range 3).map (fun i =>
        (coxx_entry (head_input 20 mid_key_stream).2.2.1
            (head_input 20 mid_key_stream).2.2.2.moov.vtrak.mdia.minf.stbl i,
          coxx_entry (compile_head (head_input 20 mid_key_stream).1
            (head_input 20 mid_key_stream).2.1 (head_input 20 mid_key_stream).2.2.1
            (head_input 20 mid_key_stream).2.2.2).2.1
            (head_input 20 mid_key_stream).2.2.2.moov.vtrak.mdia.minf.stbl i)) =
        [(564, 545), (569, 550), (589, 570)]) ∧
     (cut_track true (seek_input mid_key_stream).1 (seek_input mid_key_stream).2.1
          (seek_input mid_key_stream).2.2).mdia.minf.stbl.coxx =
        (cut_tables true (seek_input mid_key_stream).1 (seek_input mid_key_stream).2.1
          (seek_input mid_key_stream).2.2).coxx ∧
      (coxx_entry (compile_head
          (prepare_seek (seek_input mid_key_stream).1 (seek_input mid_key_stream).2.1
            (seek_input mid_key_stream).2.2).1 (head_input 20 mid_key_stream).2.1
          (prepare_seek (seek_input mid_key_stream).1 (seek_input mid_key_stream).2.1
            (seek_input mid_key_stream).2.2).2.1
          (prepare_seek (seek_input mid_key_stream).1 (seek_input mid_key_stream).2.1
            (seek_input mid_key_stream).2.2).2.2).2.1
          (cut_tables true (seek_input mid_key_stream).1 (seek_input mid_key_stream).2.1
            (seek_input mid_key_stream).2.2) 1 : ℤ) =
        (coxx_entry (prepare_seek (seek_input mid_key_stream).1 (seek_input mid_key_stream).2.1
            (seek_input mid_key_stream).2.2).2.1
          (cut_tables true (seek_input mid_key_stream).1 (seek_input mid_key_stream).2.1
            (seek_input mid_key_stream).2.2) 1 : ℤ) -
          (((prepare_seek (seek_input mid_key_stream).1 (seek_input mid_key_stream).2.1
              (seek_input mid_key_stream).2.2).1.file_offset : ℤ) -
            (gather_size (prepare_seek (seek_input mid_key_stream).1
              (seek_input mid_key_stream).2.1 (seek_input mid_key_stream).2.2).2.2 : ℤ)) ∧
      gather_size (prepare_seek (seek_input mid_key_stream).1 (seek_input mid_key_stream).2.1
          (seek_input mid_key_stream).2.2).2.2 ≤
        coxx_entry (compile_head
          (prepare_seek (seek_input mid_key_stream).1 (seek_input mid_key_stream).2.1
            (seek_input mid_key_stream).2.2).1 (head_input 20 mid_key_stream).2.1
          (prepare_seek (seek_input mid_key_stream).1 (seek_input mid_key_stream).2.1
            (seek_input mid_key_stream).2.2).2.1
          (prepare_seek (seek_input mid_key_stream).1 (seek_input mid_key_stream).2.1
            (seek_input mid_key_stream).2.2).2.2).2.1
          (cut_tables true (seek_input mid_key_stream).1 (seek_input mid_key_stream).2.1
            (seek_input mid_key_stream).2.2) 1 ∧
      coxx_entry (compile_head
          (prepare_seek (seek_input mid_key_stream).1 (seek_input mid_key_stream).2.1
            (seek_input mid_key_stream).2.2).1 (head_input 20 mid_key_stream).2.1
          (prepare_seek (seek_input mid_key_stream).1 (seek_input mid_key_stream).2.1
            (seek_input mid_key_stream).2.2).2.1
          (prepare_seek (seek_input mid_key_stream).1 (seek_input mid_key_stream).2.1
            (seek_input mid_key_stream).2.2).2.2).2.1
          (cut_tables true (seek_input mid_key_stream).1 (seek_input mid_key_stream).2.1
            (seek_input mid_key_stream).2.2) 1 <
        gather_size (prepare_seek (seek_input mid_key_stream).1 (seek_input mid_key_stream).2.1
            (seek_input mid_key_stream).2.2).2.2 +
          ((prepare_seek (seek_input mid_key_stream).1 (seek_input mid_key_stream).2.1
              (seek_input mid_key_stream).2.2).1.file_finish -
            (prepare_seek (seek_input mid_key_stream).1 (seek_input mid_key_stream).2.1
              (seek_input mid_key_stream).2.2).1.file_offset)) ∧
    ((prepare_seek (seek_input av_tail_stream).1 (seek_input av_tail_stream).2.1
          (seek_input av_tail_stream).2.2 =
        ((head_input 20 av_tail_stream).1, (head_input 20 av_tail_stream).2.2.1,
          (head_input 20 av_tail_stream).2.2.2) ∧
      gather_size (head_input 20 av_tail_stream).2.2.2 = 782 ∧
      (head_input 20 av_tail_stream).1.file_offset = 794 ∧
      (head_input 20 av_tail_stream).1.file_finish = 804 ∧
      coxx_entry (head_input 20 av_tail_stream).2.2.1
        (head_input 20 av_tail_stream).2.2.2.moov.vtrak.mdia.minf.stbl 0 = 794 ∧
      coxx_entry (head_input 20 av_tail_stream).2.2.1
        (head_input 20 av_tail_stream).2.2.2.moov.strak.mdia.minf.stbl 0 = 801) ∧
     ((coxx_entry (compile_head
          (prepare_seek (seek_input av_tail_stream).1 (seek_input av_tail_stream).2.1
            (seek_input av_tail_stream).2.2).1 (head_input 20 av_tail_stream).2.1
          (prepare_seek (seek_input av_tail_stream).1 (seek_input av_tail_stream).2.1
            (seek_input av_tail_stream).2.2).2.1
          (prepare_seek (seek_input av_tail_stream).1 (seek_input av_tail_stream).2.1
            (seek_input av_tail_stream).2.2).2.2).2.1
          (cut_tables true (seek_input av_tail_stream).1 (seek_input av_tail_stream).2.1
            (seek_input av_tail_stream).2.2) 0 : ℤ) =
        (coxx_entry (prepare_seek (seek_input av_tail_stream).1 (seek_input av_tail_stream).2.1
            (seek_input av_tail_stream).2.2).2.1
          (cut_tables true (seek_input av_tail_stream).1 (seek_input av_tail_stream).2.1
            (seek_input av_tail_stream).2.2) 0 : ℤ) -
          (((prepare_seek (seek_input av_tail_stream).1 (seek_input av_tail_stream).2.1
              (seek_input av_tail_stream).2.2).1.file_offset : ℤ) -
            (gather_size (prepare_seek (seek_input av_tail_stream).1
              (seek_input av_tail_stream).2.1 (seek_input av_tail_stream).2.2).2.2 : ℤ))) ∧
     ((coxx_entry (compile_head
          (prepare_seek (seek_input av_tail_stream).1 (seek_input av_tail_stream).2.1
            (seek_input av_tail_stream).2.2).1 (head_input 20 av_tail_stream).2.1
          (prepare_seek (seek_input av_tail_stream).1 (seek_input av_tail_stream).2.1
            (seek_input av_tail_stream).2.2).2.1
          (prepare_seek (seek_input av_tail_stream).1 (seek_input av_tail_stream).2.1
            (seek_input av_tail_stream).2.2).2.2).2.1
          (cut_tables false (seek_input av_tail_stream).1 (seek_input av_tail_stream).2.1
            (seek_input av_tail_stream).2.2) 0 : ℤ) =
        (coxx_entry (prepare_seek (seek_input av_tail_stream).1 (seek_input av_tail_stream).2.1
            (seek_input av_tail_stream).2.2).2.1
          (cut_tables false (seek_input av_tail_stream).1 (seek_input av_tail_stream).2.1
            (seek_input av_tail_stream).2.2) 0 : ℤ) -
          (((prepare_seek (seek_input av_tail_stream).1 (seek_input av_tail_stream).2.1
              (seek_input av_tail_stream).2.2).1.file_offset : ℤ) -
            (gather_size (prepare_seek (seek_input av_tail_stream).1
              (seek_input av_tail_stream).2.1 (seek_input av_tail_stream).2.2).2.2 : ℤ)))) :=
  ⟨⟨by decide!,
    compile_head_relocation (seek_input mid_key_stream).1 (head_input 20 mid_key_stream).2.1
      (seek_input mid_key_stream).2.1 (seek_input mid_key_stream).2.2 true
      (seek_stage true (seek_input mid_key_stream).1 (seek_input mid_key_stream).2.1
        (seek_input mid_key_stream).2.2).1
      (seek_stage true (seek_input mid_key_stream).1 (seek_input mid_key_stream).2.1
        (seek_input mid_key_stream).2.2).2.1
      (seek_stage true (seek_input mid_key_stream).1 (seek_input mid_key_stream).2.1
        (seek_input mid_key_stream).2.2).2.2.1
      (seek_stage true (seek_input mid_key_stream).1 (seek_input mid_key_stream).2.1
        (seek_input mid_key_stream).2.2).2.2.2
      _ _
      (cut_tables true (seek_input mid_key_stream).1 (seek_input mid_key_stream).2.1
        (seek_input mid_key_stream).2.2) 1
      (quad_eta _) (pair_eta _) rfl (by decide!) (by decide!) (by decide!) (by decide!) (by decide!) (by decide!)
      (by decide!) (by decide!) (by decide!) (by decide!) (by decide!) (by decide!) (by decide!)
      (by decide!) (by decide!)⟩,
   ⟨by decide!,
    (compile_head_relocation (seek_input av_tail_stream).1 (head_input 20 av_tail_stream).2.1
      (seek_input av_tail_stream).2.1 (seek_input av_tail_stream).2.2 true
      (seek_stage true (seek_input av_tail_stream).1 (seek_input av_tail_stream).2.1
        (seek_input av_tail_stream).2.2).1
      (seek_stage true (seek_input av_tail_stream).1 (seek_input av_tail_stream).2.1
        (seek_input av_tail_stream).2.2).2.1
      (seek_stage true (seek_input av_tail_stream).1 (seek_input av_tail_stream).2.1
        (seek_input av_tail_stream).2.2).2.2.1
      (seek_stage true (seek_input av_tail_stream).1 (seek_input av_tail_stream).2.1
        (seek_input av_tail_stream).2.2).2.2.2
      _ _
      (cut_tables true (seek_input av_tail_stream).1 (seek_input av_tail_stream).2.1
        (seek_input av_tail_stream).2.2) 0
      (quad_eta _) (pair_eta _) rfl (by decide!) (by decide!) (by decide!) (by decide!) (by decide!) (by decide!)
      (by decide!) (by decide!) (by decide!) (by decide!) (by decide!) (by decide!) (by decide!)
      (by decide!) (by decide!)).2.1,
    (compile_head_relocation (seek_input av_tail_stream).1 (head_input 20 av_tail_stream).2.1
      (seek_input av_tail_stream).2.1 (seek_input av_tail_stream).2.2 false
      (seek_stage false (seek_input av_tail_stream).1 (seek_input av_tail_stream).2.1
        (seek_input av_tail_stream).2.2).1
      (seek_stage false (seek_input av_tail_stream).1 (seek_input av_tail_stream).2.1
        (seek_input av_tail_stream).2.2).2.1
      (seek_stage false (seek_input av_tail_stream).1 (seek_input av_tail_stream).2.1
        (seek_input av_tail_stream).2.2).2.2.1
      (seek_stage false (seek_input av_tail_stream).1 (seek_input av_tail_stream).2.1
        (seek_input av_tail_stream).2.2).2.2.2
      _ _
      (cut_tables false (seek_input av_tail_stream).1 (seek_input av_tail_stream).2.1
        (seek_input av_tail_stream).2.2) 0
      (quad_eta _) (pair_eta _) rfl (by decide!) (by decide!) (by decide!) (by decide!) (by decide!) (by decide!)
      (by decide!) (by decide!) (by decide!) (by decide!) (by decide!) (by decide!) (by decide!)
      (by decide!) (by decide!)).2.1⟩⟩

end Loomiere
